import Mathlib

/-! # A verification development for the feed-forward neural-network trainer

Shallow embedding of the C++ sources (`unit.cpp`, `neuralnetwork.cpp`,
`dataset.cpp`, `backpropagation.cpp`, `trainer.cpp`).

Conventions of the embedding

* `Global::real` (a C++ `double`) is a type parameter `R`, a linearly ordered
  field: the development speaks about the expressions the code evaluates, in
  exact arithmetic (instantiate `R` with the rationals to run a definition).
  The library functions `exp`, `isinf`, `isnan` are parameters.  The rounding
  of `double` is modelled apart (`Double.round`), for the output of a unit.
* `Global::uint` values are natural numbers; counters and sizes are taken to
  stay below `2 ^ 32`.  Where the code subtracts from a value that can be
  zero the wrap-around is written out (`upred`), as is the wrap-around of the
  range `end - start + 1` of `getRand`.
* A C++ exception or a failed `assert` is a value of `Error`; functions that
  can raise return `Except Error _`.
* `std::vector` is `List`; an unchecked `v[i]` outside the vector is reported
  as `Error.undefined`.
-/

set_option autoImplicit false

namespace NN

/-- The failure conditions of the program: the three exception classes, a
failed `assert`, and an access the C++ standard leaves undefined. -/
inductive Error where
  | out_of_range
  | read_error
  | file_error
  | assertion
  | undefined
  deriving DecidableEq, Repr

/-- Unchecked `v[i]` of a `std::vector`. -/
def rawGet {α : Type} (v : List α) (i : Nat) : Except Error α :=
  match v[i]? with
  | some a => .ok a
  | none => .error .undefined

/-- Unchecked `v[i] = x` of a `std::vector`. -/
def rawSet {α : Type} (v : List α) (i : Nat) (x : α) : Except Error (List α) :=
  if i < v.length then .ok (v.set i x) else .error .undefined

/-- Checked access `v.at(i)` of a `std::vector`. -/
def atGet {α : Type} (v : List α) (i : Nat) : Except Error α :=
  match v[i]? with
  | some a => .ok a
  | none => .error .out_of_range

/-- The value of `x - 1` for an `unsigned int` `x`: zero wraps around. -/
def upred (x : Nat) : Nat := if x = 0 then 2 ^ 32 - 1 else x - 1

/-- The statement `assert(c)`. -/
def cassert (c : Prop) [Decidable c] : Except Error PUnit :=
  if c then .ok ⟨⟩ else .error .assertion

/-- The results of `f 0, ..., f (n-1)` in this order, or the first failure. -/
def collect {α : Type} (f : Nat → Except Error α) : Nat → Except Error (List α)
  | 0 => .ok []
  | n + 1 => do
    let l ← collect f n
    let x ← f n
    pure (l ++ [x])

/-! ## dataset.h / dataset.cpp -/

/-- The struct `Dataset::Instance`. -/
structure Instance (R : Type) where
  id : String
  input : List R
  output : List R

/-- The data members of class `Dataset`. -/
structure Dataset (R : Type) where
  dataset : List (Instance R)
  av : List Nat
  trav : List Nat
  folds : Nat
  vafold : Nat

namespace Dataset

variable {R : Type}

/-- `Dataset::startIndexFold`.  `floor(size/double(folds))` is the integer
quotient. -/
def startIndexFold (d : Dataset R) (k : Nat) : Except Error Nat :=
  if ¬ (k < d.folds) then .error .assertion
  else
    let rest := d.dataset.length % d.folds
    if k ≤ rest then .ok (k * (d.dataset.length / d.folds + 1))
    else .ok (k * (d.dataset.length / d.folds) + rest)

/-- `Dataset::endIndexFold`. -/
def endIndexFold (d : Dataset R) (k : Nat) : Except Error Nat :=
  if ¬ (k < d.folds) then .error .assertion
  else if k = d.folds - 1 then .ok d.dataset.length
  else d.startIndexFold (k + 1)

/-- `Dataset::foldDimension`; the operands of the subtraction are evaluated
left to right. -/
def foldDimension (d : Dataset R) (k : Nat) : Except Error Nat :=
  if ¬ (k < d.folds) then .error .assertion
  else do
    let e ← d.endIndexFold k
    let s ← d.startIndexFold k
    pure (e - s)

/-- One iteration of the loop of `Dataset::makeTrAccessVector` for
`folds != 1`: position `i` is pushed when it lies outside the validation
fold (the `||` short-circuits). -/
def travStep (d : Dataset R) (acc : List Nat) (i : Nat) :
    Except Error (List Nat) := do
  let s ← d.startIndexFold d.vafold
  if i < s then pure (acc ++ [i])
  else
    let e ← d.endIndexFold d.vafold
    if i ≥ e then pure (acc ++ [i]) else pure acc

/-- `Dataset::makeTrAccessVector`. -/
def makeTrAccessVector (d : Dataset R) : Except Error (Dataset R) :=
  if d.folds = 1 then
    .ok { d with
      trav := (List.range d.dataset.length).foldl (fun acc i => acc ++ [i]) [] }
  else do
    let t ← (List.range d.dataset.length).foldlM d.travStep []
    pure { d with trav := t }

/-- `Dataset::merge`. -/
def merge (d : Dataset R) : Dataset R :=
  { d with folds := 0, vafold := 0, trav := [] }

/-- `Dataset::setFolds`. -/
def setFolds (d : Dataset R) (n : Nat) : Except Error (Dataset R) :=
  if n > d.dataset.length then .error .out_of_range
  else if n = 0 then .ok d.merge
  else makeTrAccessVector { d with folds := n, vafold := 0 }

/-- `Dataset::setValidationFold`. -/
def setValidationFold (d : Dataset R) (k : Nat) : Except Error (Dataset R) :=
  if k ≥ d.folds then .error .out_of_range
  else if d.folds = 1 then .ok d
  else makeTrAccessVector { d with vafold := k }

/-- `Dataset::setFolds`, reporting with a raised condition the object as the
raise leaves it. A failed `assert` inside `makeTrAccessVector` ends the
program; the object reported with it is the one `makeTrAccessVector` was
entered with. -/
def setFoldsSt (d : Dataset R) (n : Nat) :
    Except (Error × Dataset R) (Dataset R) :=
  if n > d.dataset.length then .error (.out_of_range, d)
  else if n = 0 then .ok d.merge
  else
    match makeTrAccessVector { d with folds := n, vafold := 0 } with
    | .ok d' => .ok d'
    | .error e => .error (e, { d with folds := n, vafold := 0 })

/-- `Dataset::setValidationFold`, reporting with a raised condition the
object as the raise leaves it (see `setFoldsSt`). -/
def setValidationFoldSt (d : Dataset R) (k : Nat) :
    Except (Error × Dataset R) (Dataset R) :=
  if k ≥ d.folds then .error (.out_of_range, d)
  else if d.folds = 1 then .ok d
  else
    match makeTrAccessVector { d with vafold := k } with
    | .ok d' => .ok d'
    | .error e => .error (e, { d with vafold := k })

/-- `Dataset::getSize`. -/
def getSize (d : Dataset R) : Nat := d.dataset.length

/-- `Dataset::getFolds`. -/
def getFolds (d : Dataset R) : Nat := d.folds

/-- `Dataset::getFoldSize`. -/
def getFoldSize (d : Dataset R) (i : Nat) : Except Error Nat :=
  if i ≥ d.folds then .error .out_of_range
  else d.foldDimension i

/-- `Dataset::getTrSetSize`. -/
def getTrSetSize (d : Dataset R) : Nat := d.trav.length

/-- `Dataset::getVaSetSize`. -/
def getVaSetSize (d : Dataset R) : Except Error Nat :=
  if d.folds ≤ 1 then .ok 0
  else d.foldDimension d.vafold

/-- `Dataset::at`. -/
def «at» (d : Dataset R) (i : Nat) : Except Error (Instance R) :=
  if i ≥ d.dataset.length then .error .out_of_range
  else do
    let j ← rawGet d.av i
    rawGet d.dataset j

/-- The access position that `Dataset::trAt(i)` hands to `at`. -/
def trPosition (d : Dataset R) (i : Nat) : Except Error Nat :=
  if i ≥ d.trav.length then .error .out_of_range
  else rawGet d.trav i

/-- `Dataset::trAt`. -/
def trAt (d : Dataset R) (i : Nat) : Except Error (Instance R) := do
  let p ← d.trPosition i
  d.at p

/-- The access position that `Dataset::vaAt(i)` hands to `at`; the left
operand of `||` is evaluated first. -/
def vaPosition (d : Dataset R) (i : Nat) : Except Error Nat := do
  let n ← d.foldDimension d.vafold
  if i ≥ n ∨ d.folds ≤ 1 then .error .out_of_range
  else
    let s ← d.startIndexFold d.vafold
    pure (s + i)

/-- `Dataset::vaAt`. -/
def vaAt (d : Dataset R) (i : Nat) : Except Error (Instance R) := do
  let p ← d.vaPosition i
  d.at p

/-- `Dataset::restore`. -/
def restore (d : Dataset R) : Dataset R :=
  let m := d.merge
  { m with av := (List.range m.av.length).foldl (fun a i => a.set i i) m.av }

/-- The sizes `getFoldSize(0), ..., getFoldSize(folds-1)`. -/
def foldSizes (d : Dataset R) : Except Error (List Nat) :=
  collect d.getFoldSize d.folds

/-- The positions served by `trAt(0), ..., trAt(getTrSetSize()-1)`. -/
def trPositions (d : Dataset R) : Except Error (List Nat) :=
  collect d.trPosition d.getTrSetSize

/-- The positions served by `vaAt(0), ..., vaAt(getVaSetSize()-1)`. -/
def vaPositions (d : Dataset R) : Except Error (List Nat) := do
  let n ← d.getVaSetSize
  collect d.vaPosition n

end Dataset

/-- A dataset of `n` instances without inputs and targets, in load order and
with no folds configured. -/
def sampleDataset (n : Nat) : Dataset ℚ :=
  { dataset := List.replicate n ⟨"", [], []⟩,
    av := List.range n, trav := [], folds := 0, vafold := 0 }

/-! ## unit.h / unit.cpp -/

/-- The data members of class `Unit`. -/
structure Unit (R : Type) where
  numberOfInputs : Nat
  numberOfWeights : Nat
  inputs : List R
  weights : List R
  lastOutput : R

namespace Unit

variable {R : Type} [LinearOrderedField R]

/-- `Unit::setInput`. -/
def setInput (u : Unit R) (i : Nat) (input : R) : Except Error (Unit R) :=
  if i < 1 ∨ i > u.numberOfInputs then .error .out_of_range
  else do
    let v ← rawSet u.inputs i input
    pure { u with inputs := v }

/-- `Unit::setInputs`. -/
def setInputs (u : Unit R) (inputs : List R) : Except Error (Unit R) :=
  if inputs.length ≠ u.numberOfInputs then .ok u
  else
    (List.range u.numberOfInputs).foldlM (fun (u : Unit R) i => do
      let x ← rawGet inputs i
      let v ← rawSet u.inputs (i + 1) x
      pure { u with inputs := v }) u

/-- `Unit::setWeight`. -/
def setWeight (u : Unit R) (i : Nat) (weight : R) : Except Error (Unit R) :=
  if i ≥ u.numberOfWeights then .error .out_of_range
  else do
    let v ← rawSet u.weights i weight
    pure { u with weights := v }

/-- `Unit::setWeights`. -/
def setWeights (u : Unit R) (weights : List R) : Unit R :=
  if weights.length ≠ u.weights.length then u
  else { u with weights := weights }

/-- `Unit::sumToWeight`. -/
def sumToWeight (u : Unit R) (i : Nat) (value : R) : Except Error (Unit R) :=
  if i ≥ u.numberOfWeights then .error .out_of_range
  else do
    let w ← rawGet u.weights i
    let v ← rawSet u.weights i (w + value)
    pure { u with weights := v }

/-- `Unit::getLastInput`. -/
def getLastInput (u : Unit R) (i : Nat) : Except Error R :=
  if i > u.numberOfInputs then .error .out_of_range
  else rawGet u.inputs i

/-- `Unit::getLastOutput`. -/
def getLastOutput (u : Unit R) : R := u.lastOutput

/-- `Unit::getNumberOfInputs`. -/
def getNumberOfInputs (u : Unit R) : Nat := u.numberOfInputs

/-- `Unit::getNumberOfWeights`. -/
def getNumberOfWeights (u : Unit R) : Nat := u.numberOfWeights

/-- `Unit::getWeight`. -/
def getWeight (u : Unit R) (i : Nat) : Except Error R :=
  if i ≥ u.numberOfWeights then .error .out_of_range
  else rawGet u.weights i

/-- `Unit::activationFunction`, `1 / ( 1 + exp(-net*1) )`. -/
def activationFunction (exp : R → R) (net : R) : R :=
  1 / (1 + exp (-net * 1))

/-- `Unit::calcOutput`. -/
def calcOutput (exp : R → R) (u : Unit R) : Except Error R := do
  let net ← (List.range u.numberOfWeights).foldlM (fun (net : R) i => do
    let w ← rawGet u.weights i
    let x ← rawGet u.inputs i
    pure (net + w * x)) 0
  pure (activationFunction exp net)

/-- `Unit::computeOutput`: the returned value and the unit with its cached
output overwritten. -/
def computeOutput (exp : R → R) (u : Unit R) : Except Error (R × Unit R) := do
  let y ← calcOutput exp u
  pure (y, { u with lastOutput := y })

end Unit

/-! ## neuralnetwork.h / neuralnetwork.cpp -/

/-- The data members of class `NeuralNetwork`; `network` is the vector of
layers, each a vector of units. -/
structure NeuralNetwork (R : Type) where
  ninputs : Nat
  nlayers : Nat
  inputs : List R
  network : List (List (Unit R))
  lastOutput : List R

namespace NeuralNetwork

variable {R : Type} [LinearOrderedField R]

/-- The unit `network->at(layer)->at(unit)`. -/
def unitAt (n : NeuralNetwork R) (layer unit : Nat) : Except Error (Unit R) := do
  let l ← atGet n.network layer
  atGet l unit

/-- The network after `network->at(layer)->at(unit)` was given the value `u`
by a method of the unit. -/
def putUnit (n : NeuralNetwork R) (layer unit : Nat) (u : Unit R) :
    NeuralNetwork R :=
  { n with network :=
      n.network.set layer ((n.network.getD layer []).set unit u) }

/-- The guard `layer >= nlayers || unit >= network->at(layer)->size()` of the
accessors, followed by the access to the unit. -/
def checkedUnit (n : NeuralNetwork R) (layer unit : Nat) :
    Except Error (Unit R) :=
  if layer ≥ n.nlayers then .error .out_of_range
  else do
    let l ← atGet n.network layer
    if unit ≥ l.length then .error .out_of_range
    else atGet l unit

/-- The guard `layer >= nlayers || unit >= network->at(layer)->size() ||
index >= network->at(layer)->at(unit).getNumberOfWeights()` of the accessors,
followed by the access to the unit. -/
def checkedWeight (n : NeuralNetwork R) (layer unit index : Nat) :
    Except Error (Unit R) := do
  let u ← n.checkedUnit layer unit
  if index ≥ u.getNumberOfWeights then .error .out_of_range
  else pure u

/-- `NeuralNetwork::setInput`. -/
def setInput (n : NeuralNetwork R) (i : Nat) (input : R) :
    Except Error (NeuralNetwork R) :=
  if i ≥ n.ninputs then .error .out_of_range
  else do
    let v ← rawSet n.inputs i input
    pure { n with inputs := v }

/-- `NeuralNetwork::setInputs`. -/
def setInputs (n : NeuralNetwork R) (inputs : List R) : NeuralNetwork R :=
  if inputs.length ≠ n.ninputs then n
  else { n with inputs := inputs }

/-- `NeuralNetwork::setWeight`. -/
def setWeight (n : NeuralNetwork R) (layer unit index : Nat) (weight : R) :
    Except Error (NeuralNetwork R) := do
  let u ← n.checkedWeight layer unit index
  let u ← u.setWeight index weight
  pure (n.putUnit layer unit u)

/-- `NeuralNetwork::getInput`. -/
def getInput (n : NeuralNetwork R) (i : Nat) : Except Error R :=
  if i ≥ n.ninputs then .error .out_of_range
  else rawGet n.inputs i

/-- `NeuralNetwork::getInputs`. -/
def getInputs (n : NeuralNetwork R) : List R := n.inputs

/-- `NeuralNetwork::getOutputs`. -/
def getOutputs (n : NeuralNetwork R) : List R := n.lastOutput

/-- `NeuralNetwork::getOutput`; the guard is `i > lastOutput.size()`. -/
def getOutput (n : NeuralNetwork R) (i : Nat) : Except Error R :=
  if i > n.lastOutput.length then .error .out_of_range
  else rawGet n.lastOutput i

/-- `NeuralNetwork::getUnitInput`. -/
def getUnitInput (n : NeuralNetwork R) (layer unit index : Nat) :
    Except Error R := do
  let u ← n.checkedWeight layer unit index
  u.getLastInput index

/-- `NeuralNetwork::getUnitOutput`. -/
def getUnitOutput (n : NeuralNetwork R) (layer unit : Nat) :
    Except Error R := do
  let u ← n.checkedUnit layer unit
  pure u.getLastOutput

/-- `NeuralNetwork::getWeight`. -/
def getWeight (n : NeuralNetwork R) (layer unit index : Nat) :
    Except Error R := do
  let u ← n.checkedWeight layer unit index
  u.getWeight index

/-- `NeuralNetwork::getNumberOfInputs`. -/
def getNumberOfInputs (n : NeuralNetwork R) : Nat := n.inputs.length

/-- `NeuralNetwork::getNumberOfOutputs`, `network->back()->size()`. -/
def getNumberOfOutputs (n : NeuralNetwork R) : Except Error Nat :=
  match n.network.getLast? with
  | some l => .ok l.length
  | none => .error .undefined

/-- `NeuralNetwork::getNumberOfWeight`. -/
def getNumberOfWeight (n : NeuralNetwork R) (layer unit : Nat) :
    Except Error Nat := do
  let u ← n.checkedUnit layer unit
  pure u.getNumberOfWeights

/-- `NeuralNetwork::getNumberOfLayers`. -/
def getNumberOfLayers (n : NeuralNetwork R) : Nat := n.nlayers

/-- `NeuralNetwork::getLayerDimension`. -/
def getLayerDimension (n : NeuralNetwork R) (i : Nat) : Except Error Nat :=
  if i ≥ n.nlayers then .error .out_of_range
  else do
    let l ← atGet n.network i
    pure l.length

/-- `NeuralNetwork::sumToWeight`. -/
def sumToWeight (n : NeuralNetwork R) (layer unit index : Nat) (value : R) :
    Except Error (NeuralNetwork R) := do
  let u ← n.checkedWeight layer unit index
  let u ← u.sumToWeight index value
  pure (n.putUnit layer unit u)

/-- The statement `network->at(0)->at(j).setInput(i+1, inputs[i])` of
`NeuralNetwork::compute`. -/
def feedInput (i : Nat) (n : NeuralNetwork R) (j : Nat) :
    Except Error (NeuralNetwork R) := do
  let u ← n.unitAt 0 j
  let x ← rawGet n.inputs i
  let u ← u.setInput (i + 1) x
  pure (n.putUnit 0 j u)

/-- The statement `network->at(i+1)->at(t).setInput(j+1,
network->at(i)->at(j).computeOutput())` of `NeuralNetwork::compute`. -/
def feedForward (exp : R → R) (i j : Nat) (n : NeuralNetwork R) (t : Nat) :
    Except Error (NeuralNetwork R) := do
  let u ← n.unitAt i j
  let (y, u) ← u.computeOutput exp
  let n := n.putUnit i j u
  let v ← n.unitAt (i + 1) t
  let v ← v.setInput (j + 1) y
  pure (n.putUnit (i + 1) t v)

/-- The statement `lastOutput[i] = network->at(nlayers-1)->at(i)
.computeOutput()` of `NeuralNetwork::compute`. -/
def storeOutput (exp : R → R) (n : NeuralNetwork R) (i : Nat) :
    Except Error (NeuralNetwork R) := do
  let u ← n.unitAt (upred n.nlayers) i
  let (y, u) ← u.computeOutput exp
  let n := n.putUnit (upred n.nlayers) i u
  let v ← rawSet n.lastOutput i y
  pure { n with lastOutput := v }

/-- The first loop nest of `NeuralNetwork::compute`:
`for (i < ninputs) for (j < network->at(0)->size())`.  A loop bound
`network->at(k)->size()` is read when the loop is entered; the loops do not
change any size. -/
def feedInputs (n : NeuralNetwork R) : Except Error (NeuralNetwork R) :=
  (List.range n.ninputs).foldlM (fun (n : NeuralNetwork R) i => do
    let l ← atGet n.network 0
    (List.range l.length).foldlM (feedInput i) n) n

/-- The innermost loop of the second loop nest of `NeuralNetwork::compute`:
`for (t < network->at(i+1)->size())`. -/
def feedUnit (exp : R → R) (i : Nat) (n : NeuralNetwork R) (j : Nat) :
    Except Error (NeuralNetwork R) := do
  let l' ← atGet n.network (i + 1)
  (List.range l'.length).foldlM (feedForward exp i j) n

/-- The middle loop of the second loop nest of `NeuralNetwork::compute`:
`for (j < network->at(i)->size())`. -/
def feedLayer (exp : R → R) (n : NeuralNetwork R) (i : Nat) :
    Except Error (NeuralNetwork R) := do
  let l ← atGet n.network i
  (List.range l.length).foldlM (feedUnit exp i) n

/-- The second loop nest of `NeuralNetwork::compute`:
`for (i < nlayers-1)`. -/
def feedLayers (exp : R → R) (n : NeuralNetwork R) :
    Except Error (NeuralNetwork R) :=
  (List.range (upred n.nlayers)).foldlM (feedLayer exp) n

/-- The last loop of `NeuralNetwork::compute`:
`for (i < network->at(nlayers-1)->size())`. -/
def storeOutputs (exp : R → R) (n : NeuralNetwork R) :
    Except Error (NeuralNetwork R) := do
  let l ← atGet n.network (upred n.nlayers)
  (List.range l.length).foldlM (storeOutput exp) n

/-- `NeuralNetwork::compute`: the three loop nests of the forward pass. -/
def compute (exp : R → R) (n : NeuralNetwork R) :
    Except Error (NeuralNetwork R) := do
  let n ← feedInputs n
  let n ← feedLayers exp n
  storeOutputs exp n

end NeuralNetwork

/-! ## backpropagation.h / backpropagation.cpp -/

/-- The data members of class `BackPropagation`.  The pointer `neuralnetwork`
is kept as the flag `hasModel` (not `NULL`); the network it points to is
passed to the methods that use it.  `momentumtable` is `none` for `NULL`. -/
structure BackPropagation (R : Type) where
  hasModel : Bool
  eta : R
  lambda : R
  alfa : R
  momentumtable : Option (List (List R))

/-- What the backward phase of `BackPropagation::compute` works on: the
attached network, the momentum table and the local `errorVector`. -/
structure BPState (R : Type) where
  nn : NeuralNetwork R
  momentumtable : Option (List (List R))
  errorVector : List R

namespace BackPropagation

variable {R : Type} [LinearOrderedField R]

/-- Dereferencing the pointer `momentumtable`. -/
def table (m : Option (List (List R))) : Except Error (List (List R)) :=
  match m with
  | some t => .ok t
  | none => .error .undefined

/-- `BackPropagation::makeMomentumTable`; the argument is the network behind
the pointer `neuralnetwork`, `none` for `NULL`. -/
def makeMomentumTable (bp : BackPropagation R) (nn : Option (NeuralNetwork R)) :
    Except Error (BackPropagation R) :=
  match nn with
  | none => .ok bp
  | some nn => do
    let t ← (List.range nn.getNumberOfLayers).foldlM
      (fun (t : List (List R)) i => do
        let _ ← atGet t i
        let d ← nn.getLayerDimension i
        pure (t.set i (List.replicate d 0)))
      (List.replicate nn.getNumberOfLayers [])
    pure { bp with momentumtable := some t }

/-- `BackPropagation::setModel`. -/
def setModel (bp : BackPropagation R) (nn : Option (NeuralNetwork R)) :
    Except Error (BackPropagation R) :=
  makeMomentumTable { bp with hasModel := nn.isSome } nn

/-- `BackPropagation::localGradient`. -/
def localGradient (error output : R) : R :=
  error * (1 * output * (1 - output))

/-- `BackPropagation::updateWeight`. -/
def updateWeight (s : BPState R) (layer unit weight : Nat)
    (eta delta lambda alfa : R) : Except Error (BPState R) := do
  let x ← s.nn.getUnitInput layer unit weight
  let w ← s.nn.getWeight layer unit weight
  let t ← table s.momentumtable
  let row ← atGet t layer
  let m ← atGet row unit
  let deltaweight := eta * delta * x - 2 * eta * lambda * w + alfa * m
  let nn ← s.nn.sumToWeight layer unit weight deltaweight
  pure { s with nn := nn, momentumtable := some (t.set layer (row.set unit deltaweight)) }

/-- What `BackPropagation::compute` does for weight `k` of unit `i` of layer
`curLayer`, whose local gradient is `delta`: for the bias weight the call
`updateWeight(curLayer, i, 0, eta, delta, 0, alfa)`; for weight `j+1` the
statement `errorVector[j] += delta * getWeight(curLayer,i,j+1)` and the call
`updateWeight(curLayer, i, j+1, eta, delta, lambda, alfa)`. -/
def weightStep (bp : BackPropagation R) (curLayer i : Nat) (delta : R)
    (s : BPState R) : Nat → Except Error (BPState R)
  | 0 => updateWeight s curLayer i 0 bp.eta delta 0 bp.alfa
  | j + 1 => do
    let e ← rawGet s.errorVector j
    let w ← s.nn.getWeight curLayer i (j + 1)
    let ev ← rawSet s.errorVector j (e + delta * w)
    updateWeight { s with errorVector := ev } curLayer i (j + 1)
      bp.eta delta bp.lambda bp.alfa

/-- The body that `BackPropagation::compute` runs for unit `i` of layer
`curLayer` once its local gradient `delta` is known (the same statements in
the loop over the output layer and in the loop over a hidden layer): the
assertion on the size of `errorVector`, the update of the bias weight, the
loop over the other weights. -/
def updateUnit (bp : BackPropagation R) (curLayer i : Nat) (delta : R)
    (s : BPState R) : Except Error (BPState R) := do
  let nw ← s.nn.getNumberOfWeight curLayer i
  cassert (s.errorVector.length = upred nw)
  let s ← weightStep bp curLayer i delta s 0
  (List.range s.errorVector.length).foldlM
    (fun (s : BPState R) j => weightStep bp curLayer i delta s (j + 1)) s

/-- The body of the loop over the output layer in `BackPropagation::compute`. -/
def outputUnit (bp : BackPropagation R) (desiredResponse : List R)
    (curLayer : Nat) (s : BPState R) (i : Nat) : Except Error (BPState R) := do
  let unitOutput ← s.nn.getOutput i
  let d ← rawGet desiredResponse i
  let delta := localGradient (d - unitOutput) unitOutput
  updateUnit bp curLayer i delta s

/-- The first inner loop of the hidden phase: `deltaVector[i] =
localGradient(errorVector[i], getUnitOutput(curLayer, i))`. -/
def hiddenDeltas (curLayer : Nat) (s : BPState R) (dim : Nat) :
    Except Error (List R) :=
  (List.range dim).foldlM (fun (dv : List R) i => do
    let unitOutput ← s.nn.getUnitOutput curLayer i
    let e ← rawGet s.errorVector i
    rawSet dv i (localGradient e unitOutput)) (List.replicate dim 0)

/-- The body of the loop over the hidden layers in
`BackPropagation::compute`, for the layer `curLayer`. -/
def hiddenLayer (bp : BackPropagation R) (curLayer : Nat) (s : BPState R) :
    Except Error (BPState R) := do
  let dim ← s.nn.getLayerDimension curLayer
  cassert (s.errorVector.length = dim)
  let deltaVector ← hiddenDeltas curLayer s dim
  let n ← (if curLayer > 0 then s.nn.getLayerDimension (curLayer - 1)
    else pure s.nn.getInputs.length)
  let s := { s with errorVector := List.replicate n 0 }
  (List.range deltaVector.length).foldlM (fun (s : BPState R) i => do
    let delta ← rawGet deltaVector i
    updateUnit bp curLayer i delta s) s

/-- The backward phase of `BackPropagation::compute` up to the end of the
loop over the output layer, entered after the forward pass with the network
`nn`. -/
def outputPhase (bp : BackPropagation R) (nn : NeuralNetwork R)
    (desiredResponse : List R) : Except Error (BPState R) := do
  let nLayers := nn.getNumberOfLayers
  cassert (nLayers ≥ 2)
  let curLayer := nLayers - 1
  let dim ← nn.getLayerDimension (curLayer - 1)
  let s : BPState R := ⟨nn, bp.momentumtable, List.replicate dim 0⟩
  let outDim ← nn.getLayerDimension curLayer
  (List.range outDim).foldlM (outputUnit bp desiredResponse curLayer) s

/-- The loop over the hidden layers of `BackPropagation::compute`:
`for (t = 0; t <= nLayers-2; ++t, --curLayer)` with `curLayer` starting at
`nLayers-2`. -/
def hiddenPhase (bp : BackPropagation R) (nLayers : Nat) (s : BPState R) :
    Except Error (BPState R) :=
  (List.range (nLayers - 2 + 1)).foldlM
    (fun (s : BPState R) t => hiddenLayer bp (nLayers - 2 - t) s) s

/-- The backward phase of `BackPropagation::compute`. -/
def backward (bp : BackPropagation R) (nn : NeuralNetwork R)
    (desiredResponse : List R) : Except Error (BPState R) := do
  let s ← outputPhase bp nn desiredResponse
  hiddenPhase bp nn.getNumberOfLayers s

/-- `BackPropagation::compute`, on the attached network `nn`: the new state of
the algorithm object and of the network. -/
def compute (exp : R → R) (bp : BackPropagation R) (nn : NeuralNetwork R)
    (inputs desiredResponse : List R) :
    Except Error (BackPropagation R × NeuralNetwork R) := do
  if ¬ bp.hasModel then throw Error.undefined
  cassert (inputs.length = nn.getInputs.length)
  let no ← nn.getNumberOfOutputs
  cassert (desiredResponse.length = no)
  let nn ← (nn.setInputs inputs).compute exp
  let s ← backward bp nn desiredResponse
  pure ({ bp with momentumtable := s.momentumtable }, s.nn)

end BackPropagation

/-! ## global.h / global.cpp: the random source -/

/-- The state of the C library generator: `stream k` is the value that the
`k`-th coming call of `rand()` returns. -/
structure Rng where
  stream : Nat → Nat

/-- One call of `rand()`. -/
def Rng.rand (g : Rng) : Nat × Rng :=
  (g.stream 0, ⟨fun k => g.stream (k + 1)⟩)

/-- `Global::getRand`: `rand() % (end - start + 1) + start`.  The divisor
`end - start + 1` is an `unsigned int`: when `end - start` is `2^32 - 1` it
wraps around to `0`, and the remainder of a division by `0` is undefined. -/
def getRand (g : Rng) (start stop : Nat) : Except Error (Nat × Rng) := do
  cassert (start ≤ stop)
  let r := g.rand
  if (stop - start + 1) % 2 ^ 32 = 0 then .error .undefined
  else pure (r.1 % ((stop - start + 1) % 2 ^ 32) + start, r.2)

namespace Dataset

variable {R : Type}

/-- `std::swap(v[i], v[j])`. -/
def swapAt (v : List Nat) (i j : Nat) : Except Error (List Nat) := do
  let a ← rawGet v i
  let b ← rawGet v j
  pure ((v.set i b).set j a)

/-- The loop shared by `randomShuffle` and `randomShuffleTrainingSet`,
`for (uint i = v.size(); i != 0; --i) swap(v[i-1], v[getRand(0,i-1)])`,
from the value `i` of its counter on. -/
def shuffleLoop : Nat → List Nat → Rng → Except Error (List Nat × Rng)
  | 0, v, g => .ok (v, g)
  | i + 1, v, g => do
    let r ← getRand g 0 i
    let v ← swapAt v i r.1
    shuffleLoop i v r.2

/-- `Dataset::randomShuffleTrainingSet`.  The counter of the loop is an
`unsigned int` initialised with `trav.size()`, a value below `2^32`. -/
def randomShuffleTrainingSet (d : Dataset R) (g : Rng) :
    Except Error (Dataset R × Rng) := do
  let r ← shuffleLoop (d.trav.length % 2 ^ 32) d.trav g
  pure ({ d with trav := r.1 }, r.2)

/-- `Dataset::randomShuffle`.  The counter of the loop is an `unsigned int`
initialised with `av.size()`, a value below `2^32`. -/
def randomShuffle (d : Dataset R) (g : Rng) :
    Except Error (Dataset R × Rng) := do
  let r ← shuffleLoop (d.av.length % 2 ^ 32) d.av g
  pure ({ d with av := r.1 }, r.2)

/-- A call of one of the methods of `Dataset` that configure the folds or
shuffle. -/
inductive Call where
  | setFolds (n : Nat)
  | setValidationFold (k : Nat)
  | randomShuffle
  | randomShuffleTrainingSet

/-- The dataset and the random source after the call `c`; a call that
raises leaves both as the raise leaves them. -/
def call (s : Dataset R × Rng) : Call → Dataset R × Rng
  | .setFolds n =>
    match s.1.setFoldsSt n with
    | .ok d => (d, s.2)
    | .error e => (e.2, s.2)
  | .setValidationFold k =>
    match s.1.setValidationFoldSt k with
    | .ok d => (d, s.2)
    | .error e => (e.2, s.2)
  | .randomShuffle =>
    match s.1.randomShuffle s.2 with
    | .ok r => r
    | .error _ => s
  | .randomShuffleTrainingSet =>
    match s.1.randomShuffleTrainingSet s.2 with
    | .ok r => r
    | .error _ => s

/-- The dataset and the random source after the calls `cs`, in order. -/
def calls (s : Dataset R × Rng) (cs : List Call) : Dataset R × Rng :=
  cs.foldl call s

end Dataset

/-! ## The constructors of unit.cpp and neuralnetwork.cpp

A construction that draws random weights can repeat a draw any number of
times; `fuel` bounds the draws of one weight and `none` reports that the
bound was reached. -/

/-- `Unit::setRandomValue`: `do val = (getRand(0,1400)-700)/1000.0 while
(val == 0)`. -/
def Unit.setRandomValue {R : Type} [LinearOrderedField R] :
    Nat → Rng → Except Error (Option (R × Rng))
  | 0, _ => .ok none
  | fuel + 1, g => do
    let r ← getRand g 0 1400
    let val : R := ((r.1 : R) - 700) / 1000
    if val = 0 then Unit.setRandomValue fuel r.2 else pure (some (val, r.2))

/-- `Unit::initWeightsRandom`: `for_each` over the weights, each replaced by
a random value. -/
def Unit.initWeightsRandom {R : Type} [LinearOrderedField R] (fuel : Nat) :
    List R → Rng → Except Error (Option (List R × Rng))
  | [], g => .ok (some ([], g))
  | _ :: ws, g => do
    match ← Unit.setRandomValue fuel g with
    | none => pure none
    | some (v, g1) =>
      match ← Unit.initWeightsRandom fuel ws g1 with
      | none => pure none
      | some (vs, g2) => pure (some (v :: vs, g2))

/-- The constructor `Unit::Unit(uint numberOfInputs)`. -/
def Unit.init {R : Type} [LinearOrderedField R] (fuel numberOfInputs : Nat)
    (g : Rng) : Except Error (Option (Unit R × Rng)) := do
  let inputs ← rawSet (List.replicate (numberOfInputs + 1) (0 : R)) 0 1
  match ← Unit.initWeightsRandom fuel
      (List.replicate (numberOfInputs + 1) (0 : R)) g with
  | none => pure none
  | some (ws, g1) =>
    pure (some (⟨numberOfInputs, numberOfInputs + 1, inputs, ws, 0⟩, g1))

/-- The copy constructor `Unit::Unit(const Unit&)`: the sizes of the
argument, fresh inputs and random weights. -/
def Unit.copyInit {R : Type} [LinearOrderedField R] (fuel : Nat) (unit : Unit R)
    (g : Rng) : Except Error (Option (Unit R × Rng)) := do
  let inputs ← rawSet (List.replicate (unit.numberOfInputs + 1) (0 : R)) 0 1
  match ← Unit.initWeightsRandom fuel
      (List.replicate unit.numberOfWeights (0 : R)) g with
  | none => pure none
  | some (ws, g1) =>
    pure (some (⟨unit.numberOfInputs, unit.numberOfWeights, inputs, ws, 0⟩, g1))

/-- The implicit copy assignment `dst = src` of class `Unit` (the class
declares none): every member is assigned. -/
def Unit.assign {R : Type} (_dst src : Unit R) : Unit R :=
  { numberOfInputs := src.numberOfInputs,
    numberOfWeights := src.numberOfWeights,
    inputs := src.inputs, weights := src.weights,
    lastOutput := src.lastOutput }

namespace NeuralNetwork

variable {R : Type} [LinearOrderedField R]

/-- The vector `new std::vector<Unit>(n)`: `n` units, each built by the
default constructor `Unit(0)`, one after the other. -/
def placeholders (fuel : Nat) :
    Nat → Rng → Except Error (Option (List (Unit R) × Rng))
  | 0, g => .ok (some ([], g))
  | n + 1, g => do
    match ← Unit.init fuel 0 g with
    | none => pure none
    | some (u, g1) =>
      match ← placeholders fuel n g1 with
      | none => pure none
      | some (us, g2) => pure (some (u :: us, g2))

/-- The inner loop of the copy constructor for layer `i`:
`network->at(i)->at(j) = neuralnetwork.network->at(i)->at(j)`. -/
def copyLayer (src : NeuralNetwork R) (i : Nat) (layer : List (Unit R)) :
    Except Error (List (Unit R)) :=
  (List.range layer.length).foldlM (fun (l : List (Unit R)) j => do
    let srcLayer ← atGet src.network i
    let u ← atGet srcLayer j
    let dst ← atGet l j
    pure (l.set j (Unit.assign dst u))) layer

/-- The body of the outer loop of the copy constructor, for layer `i`. -/
def copyStep (fuel : Nat) (src : NeuralNetwork R)
    (st : Option (List (List (Unit R)) × Rng)) (i : Nat) :
    Except Error (Option (List (List (Unit R)) × Rng)) :=
  match st with
  | none => pure none
  | some (network, g) => do
    let srcLayer ← atGet src.network i
    match ← placeholders fuel srcLayer.length g with
    | none => pure none
    | some (layer, g1) =>
      let _ ← atGet network i
      let layer ← copyLayer src i layer
      pure (some (network.set i layer, g1))

/-- The copy constructor `NeuralNetwork::NeuralNetwork(const
NeuralNetwork&)`; a layer not yet allocated (`NULL`) is the empty list. -/
def copy (fuel : Nat) (src : NeuralNetwork R) (g : Rng) :
    Except Error (Option (NeuralNetwork R × Rng)) := do
  match ← (List.range src.nlayers).foldlM (copyStep fuel src)
      (some (List.replicate src.nlayers [], g)) with
  | none => pure none
  | some (network, g1) =>
    pure (some (⟨src.ninputs, src.nlayers, src.inputs, network,
      src.lastOutput⟩, g1))

end NeuralNetwork

/-! ## Text: `std::string` and the streams (global.cpp)

A `std::string` is the list of its characters.  An input stream is read with
`std::getline` only, and with one delimiter; it is kept as the list of the
segments into which that delimiter cuts the text still to be read.  A stream
with no segment left is one on which a read has met the end of the text:
`good()` is false for it.  An output stream is the text written so far.
The functions of the C library that convert between numbers and text
(`atoi`, `strtod`, the `operator<<` of the numbers) are parameters. -/

/-- The segments into which `delim` cuts a text: `a,b` has the segments `a`
and `b`; `a,` has the segments `a` and the empty one; the empty text has one
empty segment. -/
def segments (delim : Char) : List Char → List (List Char)
  | [] => [[]]
  | c :: cs =>
    if c = delim then [] :: segments delim cs
    else
      match segments delim cs with
      | l :: ls => (c :: l) :: ls
      | [] => [[c]]

/-- An input stream (`std::istream`) read with `std::getline`. -/
structure IStream where
  segs : List (List Char)

/-- A stream over the text, as `std::ifstream` or `std::istringstream` open
it, to be read up to `delim`. -/
def IStream.ofText (delim : Char) (text : List Char) : IStream :=
  ⟨segments delim text⟩

/-- `is.good()`. -/
def IStream.good (is : IStream) : Bool := !is.segs.isEmpty

/-- `std::getline(is, str, delim)`: the stream and the string after the
call, and the call as a condition (`!is.fail()`).  On a stream that is not
good nothing is read and the string is left as it is.  Reading the last
segment meets the end of the text, after which the stream is not good; the
call fails when not even a delimiter was extracted. -/
def getline (is : IStream) (str : List Char) : IStream × List Char × Bool :=
  match is.segs with
  | [] => (is, str, false)
  | [l] => (⟨[]⟩, l, !l.isEmpty)
  | l :: l2 :: ls => (⟨l2 :: ls⟩, l, true)

namespace Global

/-- `Global::trim`: the characters of `str` from the first one that is not in
`t` to the last one that is not in `t`; the empty string when there is
none. -/
def trim (str t : List Char) : List Char :=
  ((str.dropWhile (fun c => t.contains c)).reverse.dropWhile
    (fun c => t.contains c)).reverse

/-- The loop `while (std::getline(stream, token, delim))
vector->push_back(token)` of `Global::split`, on the segments the stream has
left: the last segment is pushed unless it is empty. -/
def splitLoop : List (List Char) → List (List Char) → List (List Char)
  | [], vector => vector
  | [l], vector => if l.isEmpty then vector else vector ++ [l]
  | l :: l2 :: ls, vector => splitLoop (l2 :: ls) (vector ++ [l])

/-- `Global::split`. -/
def split (str : List Char) (delim : Char) : List (List Char) :=
  splitLoop (IStream.ofText delim str).segs []

end Global

/-- The test `!line.empty() && line[0] != '#'` of the readers. -/
def goodLine (line : List Char) : Bool :=
  !line.isEmpty && line.head? != some '#'

namespace Dataset

variable {R : Type}

/-- The body of the `if` in the loop of `Dataset::load`: the instance read
from a line. -/
def parseLine (toReal : List Char → R) (ninputs noutputs : Nat)
    (line : List Char) : Except Error (Instance R) := do
  let csvline := Global.split line ','
  cassert (ninputs + noutputs + 1 = csvline.length)
  let id ← atGet csvline 0
  let input ← (List.range ninputs).foldlM (fun (v : List R) i => do
    let f ← atGet csvline (i + 1)
    pure (v ++ [toReal f])) []
  let output ← (List.range noutputs).foldlM (fun (v : List R) i => do
    let f ← atGet csvline (i + 1 + ninputs)
    pure (v ++ [toReal f])) []
  pure ⟨String.mk (Global.trim id [' ']), input, output⟩

/-- The loop `while (file.good())` of `Dataset::load` on the segments the
file has left: each round reads one line with `std::getline`. -/
def loadLoop (toReal : List Char → R) (ninputs noutputs : Nat) :
    List (List Char) → List (Instance R) → Except Error (List (Instance R))
  | [], dataset => pure dataset
  | l :: ls, dataset =>
    let line := Global.trim l [' ', '\t']
    if goodLine line then do
      let inst ← parseLine toReal ninputs noutputs line
      loadLoop toReal ninputs noutputs ls (dataset ++ [inst])
    else loadLoop toReal ninputs noutputs ls dataset

/-- `Dataset::load`; `file` is the text of the file, `none` when the file
cannot be opened. -/
def load (toReal : List Char → R) (d : Dataset R) (file : Option (List Char))
    (ninputs noutputs : Nat) : Except Error (Dataset R) :=
  match file with
  | none => .error .file_error
  | some text => do
    let dataset ← loadLoop toReal ninputs noutputs
      (IStream.ofText '\n' text).segs []
    pure { d with
      dataset := dataset,
      av := (List.range dataset.length).foldl (fun a i => a.set i i)
        (List.replicate dataset.length 0) }

end Dataset

/-! ## Writing and reading units and networks (unit.cpp, neuralnetwork.cpp)

`fmtUint` is the `operator<<` of the unsigned integers, `fmtReal` the
`operator<<` of a `double` under `precision(20)` and `std::ios::scientific`,
`toUint` is `Global::toUint` (`atoi`) and `toReal` is `Global::toReal`
(`strtod`). -/

namespace Unit

variable {R : Type} [LinearOrderedField R]

/-- `Unit::write`: the number of weights, then a comma and a weight for each
weight. -/
def write (fmtUint : Nat → List Char) (fmtReal : R → List Char) (u : Unit R)
    (os : List Char) : Except Error (List Char) :=
  (List.range u.numberOfWeights).foldlM (fun (os : List Char) i => do
    let w ← rawGet u.weights i
    pure (os ++ [','] ++ fmtReal w)) (os ++ fmtUint u.numberOfWeights)

/-- `Unit::read`: the unit read from the next line of the stream, and the
stream after it.  Every member of the unit is assigned, so the unit read
into is no argument.  Past the two tests the number of weights is at least
1. -/
def read (toUint : List Char → Nat) (toReal : List Char → R) (is : IStream) :
    Except Error (Unit R × IStream) :=
  let r := getline is []
  let w := Global.split (Global.trim r.2.1 [' ']) ','
  if ¬ (w.length ≥ 2) then .error .read_error
  else do
    let c ← atGet w 0
    if ¬ (w.length - 1 = toUint c) then .error .read_error
    else do
      let c ← atGet w 0
      let numberOfWeights := toUint c
      let f ← atGet w 1
      let p ← (List.range (numberOfWeights - 1)).foldlM
        (fun (p : List R × List R) k => do
          let f ← atGet w (k + 2)
          pure (p.1 ++ [toReal f], p.2 ++ [0]))
        ([toReal f], [1])
      pure (⟨numberOfWeights - 1, numberOfWeights, p.2, p.1, 0⟩, r.1)

end Unit

namespace NeuralNetwork

variable {R : Type} [LinearOrderedField R]

/-- The vector `std::vector<Unit>(n, unit)`: `n` units, each built from
`unit` by the copy constructor of `Unit`. -/
def copies (fuel : Nat) (unit : Unit R) :
    Nat → Rng → Except Error (Option (List (Unit R) × Rng))
  | 0, g => .ok (some ([], g))
  | n + 1, g => do
    match ← Unit.copyInit fuel unit g with
    | none => pure none
    | some (u, g1) =>
      match ← copies fuel unit n g1 with
      | none => pure none
      | some (us, g2) => pure (some (u :: us, g2))

/-- The body of the loop of the sizing constructor, for layer `i`:
`network->at(i) = new std::vector<Unit>(nunits[i], Unit(dimPrevLayer));
dimPrevLayer = nunits[i]`.  The state is the network and `dimPrevLayer`. -/
def initStep (fuel : Nat) (nunits : List Nat)
    (st : Option (List (List (Unit R)) × Nat × Rng)) (i : Nat) :
    Except Error (Option (List (List (Unit R)) × Nat × Rng)) :=
  match st with
  | none => pure none
  | some (network, dimPrevLayer, g) => do
    let k ← rawGet nunits i
    match ← Unit.init fuel dimPrevLayer g with
    | none => pure none
    | some (unit, g1) =>
      match ← copies fuel unit k g1 with
      | none => pure none
      | some (layer, g2) =>
        let _ ← atGet network i
        let k ← rawGet nunits i
        pure (some (network.set i layer, k, g2))

/-- The sizing constructor `NeuralNetwork::NeuralNetwork(uint ninputs, uint
nlayers, const std::vector<uint>& nunits)`; the members are initialized in
the order of their declaration, `lastOutput(nunits[nlayers-1], 0)` last. -/
def init (fuel : Nat) (ninputs nlayers : Nat) (nunits : List Nat) (g : Rng) :
    Except Error (Option (NeuralNetwork R × Rng)) := do
  let m ← rawGet nunits (upred nlayers)
  match ← (List.range nlayers).foldlM (initStep fuel nunits)
      (some (List.replicate nlayers [], ninputs, g)) with
  | none => pure none
  | some (network, _, g1) =>
    pure (some (⟨ninputs, nlayers, List.replicate ninputs 0, network,
      List.replicate m 0⟩, g1))

/-- `NeuralNetwork::write`. -/
def write (fmtUint : Nat → List Char) (fmtReal : R → List Char)
    (n : NeuralNetwork R) (os : List Char) : Except Error (List Char) := do
  let os := os ++ "# number of inputs".toList ++ ['\n']
  let os := os ++ fmtUint n.ninputs ++ ['\n']
  let os := os ++ "# number of layers".toList ++ ['\n']
  let os := os ++ fmtUint n.network.length ++ ['\n']
  let os := os ++ "# units for any layer".toList ++ ['\n']
  let l0 ← atGet n.network 0
  let os := os ++ fmtUint l0.length
  let os ← (List.range (n.network.length - 1)).foldlM
    (fun (os : List Char) k => do
      let l ← atGet n.network (k + 1)
      pure (os ++ [','] ++ fmtUint l.length)) os
  let os := os ++ ['\n']
  (List.range n.network.length).foldlM (fun (os : List Char) i => do
    let os := os ++ "# units layer ".toList ++ fmtUint i ++ ['\n']
    let l ← atGet n.network i
    (List.range l.length).foldlM (fun (os : List Char) j => do
      let l ← atGet n.network i
      let u ← atGet l j
      let os ← u.write fmtUint fmtReal os
      pure (os ++ ['\n'])) os) os

/-- `NeuralNetwork::readNextGoodLine` on the segments the stream has left:
whether a good line was found, the string `line` and the stream after the
call.  The first `std::getline` reads `tmpline`; the loop is entered when
the stream is still good after it, that is, when `tmpline` was not the last
segment. -/
def readNextGoodLine :
    List (List Char) → List Char → Bool × List Char × IStream
  | [], line => (false, line, ⟨[]⟩)
  | [_], line => (false, line, ⟨[]⟩)
  | tmpline :: l :: ls, line =>
    if goodLine tmpline then (true, tmpline, ⟨l :: ls⟩)
    else readNextGoodLine (l :: ls) (Global.trim line [' ', '\t'])

/-- The body of the inner loop of `NeuralNetwork::read`, for unit `j` of
layer `i`; the state is the network read so far, the stream and the string
`line`. -/
def readUnit (toUint : List Char → Nat) (toReal : List Char → R) (i : Nat)
    (st : List (List (Unit R)) × IStream × List Char) (j : Nat) :
    Except Error (List (List (Unit R)) × IStream × List Char) :=
  let r := readNextGoodLine st.2.1.segs st.2.2
  if ¬ r.1 then .error .read_error
  else do
    let layer ← atGet st.1 i
    let _ ← atGet layer j
    let u ← Unit.read toUint toReal (IStream.ofText '\n' r.2.1)
    pure (st.1.set i (layer.set j u.1), r.2.2, r.2.1)

/-- The body of the outer loop of `NeuralNetwork::read`, for layer `i`. -/
def readLayer (fuel : Nat) (toUint : List Char → Nat) (toReal : List Char → R)
    (nunitsv : List (List Char))
    (st : Option (List (List (Unit R)) × IStream × List Char × Rng)) (i : Nat) :
    Except Error (Option (List (List (Unit R)) × IStream × List Char × Rng)) :=
  match st with
  | none => pure none
  | some (network, is, line, g) => do
    let f ← atGet nunitsv i
    let nunits := toUint f
    match ← placeholders fuel nunits g with
    | none => pure none
    | some (layer, g1) =>
      let _ ← atGet network i
      let r ← (List.range nunits).foldlM (readUnit toUint toReal i)
        (network.set i layer, is, line)
      pure (some (r.1, r.2.1, r.2.2, g1))

/-- `NeuralNetwork::read`: the network read and the stream after it.  Every
member of the object is assigned, so the object read into is no argument. -/
def read (fuel : Nat) (toUint : List Char → Nat) (toReal : List Char → R)
    (is : IStream) (g : Rng) :
    Except Error (Option (NeuralNetwork R × IStream × Rng)) :=
  let r1 := readNextGoodLine is.segs []
  if ¬ r1.1 then .error .read_error
  else
    let ninputs := toUint r1.2.1
    let r2 := readNextGoodLine r1.2.2.segs r1.2.1
    if ¬ r2.1 then .error .read_error
    else
      let nlayers := toUint r2.2.1
      let r3 := readNextGoodLine r2.2.2.segs r2.2.1
      if ¬ r3.1 then .error .read_error
      else
        let nunitsv := Global.split r3.2.1 ','
        if nunitsv.length ≠ nlayers then .error .read_error
        else do
          match ← (List.range nlayers).foldlM
              (readLayer fuel toUint toReal nunitsv)
              (some (List.replicate nlayers [], r3.2.2, r3.2.1, g)) with
          | none => pure none
          | some (network, is, _, g1) =>
            match network.getLast? with
            | none => .error .undefined
            | some last =>
              pure (some (⟨ninputs, nlayers, List.replicate ninputs 0, network,
                List.replicate last.length 0⟩, is, g1))

end NeuralNetwork

/-! ## The state of a network after a call (neuralnetwork.cpp)

A method that throws leaves the object in the state that it has when the
exception is thrown; the versions below of the statements of
`NeuralNetwork::compute` report that state with the exception. -/

namespace NeuralNetwork

variable {R : Type} [LinearOrderedField R]

/-- A step of a method of the object in state `n`: when the step throws, the
exception is reported together with `n`. -/
def raisedIn {α : Type} (n : NeuralNetwork R) (x : Except Error α) :
    Except (Error × NeuralNetwork R) α :=
  match x with
  | .ok a => .ok a
  | .error e => .error (e, n)

/-- The statement `network->at(0)->at(j).setInput(i+1, inputs[i])` of
`NeuralNetwork::compute`, with the state at a throw. -/
def feedInputSt (i : Nat) (n : NeuralNetwork R) (j : Nat) :
    Except (Error × NeuralNetwork R) (NeuralNetwork R) := do
  let u ← raisedIn n (n.unitAt 0 j)
  let x ← raisedIn n (rawGet n.inputs i)
  let u ← raisedIn n (u.setInput (i + 1) x)
  pure (n.putUnit 0 j u)

/-- The statement `network->at(i+1)->at(t).setInput(j+1,
network->at(i)->at(j).computeOutput())` of `NeuralNetwork::compute`, with the
state at a throw. -/
def feedForwardSt (exp : R → R) (i j : Nat) (n : NeuralNetwork R) (t : Nat) :
    Except (Error × NeuralNetwork R) (NeuralNetwork R) := do
  let u ← raisedIn n (n.unitAt i j)
  let (y, u) ← raisedIn n (u.computeOutput exp)
  let n := n.putUnit i j u
  let v ← raisedIn n (n.unitAt (i + 1) t)
  let v ← raisedIn n (v.setInput (j + 1) y)
  pure (n.putUnit (i + 1) t v)

/-- The statement `lastOutput[i] = network->at(nlayers-1)->at(i)
.computeOutput()` of `NeuralNetwork::compute`, with the state at a throw. -/
def storeOutputSt (exp : R → R) (n : NeuralNetwork R) (i : Nat) :
    Except (Error × NeuralNetwork R) (NeuralNetwork R) := do
  let u ← raisedIn n (n.unitAt (upred n.nlayers) i)
  let (y, u) ← raisedIn n (u.computeOutput exp)
  let n := n.putUnit (upred n.nlayers) i u
  let v ← raisedIn n (rawSet n.lastOutput i y)
  pure { n with lastOutput := v }

/-- The first loop nest of `NeuralNetwork::compute`, with the state at a
throw. -/
def feedInputsSt (n : NeuralNetwork R) :
    Except (Error × NeuralNetwork R) (NeuralNetwork R) :=
  (List.range n.ninputs).foldlM (fun (n : NeuralNetwork R) i => do
    let l ← raisedIn n (atGet n.network 0)
    (List.range l.length).foldlM (feedInputSt i) n) n

/-- The innermost loop of the second loop nest of `NeuralNetwork::compute`,
with the state at a throw. -/
def feedUnitSt (exp : R → R) (i : Nat) (n : NeuralNetwork R) (j : Nat) :
    Except (Error × NeuralNetwork R) (NeuralNetwork R) := do
  let l' ← raisedIn n (atGet n.network (i + 1))
  (List.range l'.length).foldlM (feedForwardSt exp i j) n

/-- The middle loop of the second loop nest of `NeuralNetwork::compute`, with
the state at a throw. -/
def feedLayerSt (exp : R → R) (n : NeuralNetwork R) (i : Nat) :
    Except (Error × NeuralNetwork R) (NeuralNetwork R) := do
  let l ← raisedIn n (atGet n.network i)
  (List.range l.length).foldlM (feedUnitSt exp i) n

/-- The second loop nest of `NeuralNetwork::compute`, with the state at a
throw. -/
def feedLayersSt (exp : R → R) (n : NeuralNetwork R) :
    Except (Error × NeuralNetwork R) (NeuralNetwork R) :=
  (List.range (upred n.nlayers)).foldlM (feedLayerSt exp) n

/-- The last loop of `NeuralNetwork::compute`, with the state at a throw. -/
def storeOutputsSt (exp : R → R) (n : NeuralNetwork R) :
    Except (Error × NeuralNetwork R) (NeuralNetwork R) := do
  let l ← raisedIn n (atGet n.network (upred n.nlayers))
  (List.range l.length).foldlM (storeOutputSt exp) n

/-- `NeuralNetwork::compute`, with the state at a throw. -/
def computeSt (exp : R → R) (n : NeuralNetwork R) :
    Except (Error × NeuralNetwork R) (NeuralNetwork R) := do
  let n ← feedInputsSt n
  let n ← feedLayersSt exp n
  storeOutputsSt exp n

/-- A call of one of the methods that change a network. -/
inductive Op (R : Type) where
  | setInput (i : Nat) (input : R)
  | setInputs (inputs : List R)
  | setWeight (layer unit index : Nat) (weight : R)
  | sumToWeight (layer unit index : Nat) (value : R)
  | compute

/-- The state of the network after a call, whether the call returns or
throws.  `setInput`, `setWeight` and `sumToWeight` throw before they change
anything; `compute` can throw after it has changed some units. -/
def call (exp : R → R) (n : NeuralNetwork R) : Op R → NeuralNetwork R
  | .setInput i input =>
    match n.setInput i input with
    | .ok n' => n'
    | .error _ => n
  | .setInputs inputs => n.setInputs inputs
  | .setWeight layer unit index weight =>
    match n.setWeight layer unit index weight with
    | .ok n' => n'
    | .error _ => n
  | .sumToWeight layer unit index value =>
    match n.sumToWeight layer unit index value with
    | .ok n' => n'
    | .error _ => n
  | .compute =>
    match n.computeSt exp with
    | .ok n' => n'
    | .error (_, n') => n'

/-- The state of the network after a sequence of calls. -/
def calls (exp : R → R) (n : NeuralNetwork R) (ops : List (Op R)) :
    NeuralNetwork R :=
  ops.foldl (call exp) n

end NeuralNetwork

/-! ## trainer.h / trainer.cpp -/

/-- A `real` metric of the trainer: `none` is the NaN that the division
`0.0 / 0.0` of an empty partition produces; exact arithmetic yields no other
non-finite value.  Every comparison with NaN is false. -/
abbrev Metric (R : Type) := Option R

/-- The row `epochs+1, trerr, vaerr, tracc, vaacc` appended to the results
file. -/
structure Row (R : Type) where
  epoch : Nat
  trerr : Metric R
  vaerr : Metric R
  tracc : Metric R
  vaacc : Metric R

/-- What lies outside the objects: the random generator and the results
files (which names can be opened for writing, and the rows appended so
far). -/
structure World (R : Type) where
  rng : Rng
  writable : String → Bool
  rows : List (String × Row R)

/-- The data members of class `Trainer`.  `model` is the network behind the
pointer `model`, which is also the network attached to `algorithm` during
`start`; `algorithm` is `none` for a `NULL` pointer.  The first component of
`mintrerr` and `minvaerr` starts at `+infinity`, hence `WithTop`. -/
structure Trainer (R : Type) where
  model : NeuralNetwork R
  initmodel : NeuralNetwork R
  algorithm : Option (BackPropagation R)
  dataset : Dataset R
  epochs : Nat
  maxepochs : Nat
  shfepochs : Nat
  vaerr : Metric R
  trerr : Metric R
  stoperr : R
  vaacc : Metric R
  tracc : Metric R
  stopacc : R
  mintrerr : WithTop R × Nat
  minvaerr : WithTop R × Nat
  maxtracc : R × Nat
  maxvaacc : R × Nat
  threshold : R
  prevtrerr : R
  stoperrch_var : R
  stoperrch_ep : Nat
  stoperrch_n : Nat
  resfile : String

namespace Metric

variable {R : Type} [LinearOrderedField R]

/-- `m += x`. -/
def add (m : Metric R) (x : R) : Metric R := m.map (fun v => v + x)

/-- `m / real(n)`, reached with `m` equal to `0.0` whenever `n` is `0`. -/
def divCount (m : Metric R) (n : Nat) : Metric R :=
  match m with
  | none => none
  | some v => if n = 0 then none else some (v / (n : R))

/-- A comparison `m ⋈ x` of a metric with a number: false for NaN. -/
def test (m : Metric R) (p : R → Bool) : Bool :=
  match m with
  | none => false
  | some v => p v

/-- `std::isinf(m) || std::isnan(m)`. -/
def nonFinite (m : Metric R) : Bool := m.isNone

end Metric

namespace Trainer

variable {R : Type} [LinearOrderedField R]

/-- `Trainer::modelError`. -/
def modelError (mout dsout : List R) : Except Error R := do
  cassert (mout.length = dsout.length)
  let error ← (List.range mout.length).foldlM (fun (error : R) i => do
    let d ← rawGet dsout i
    let y ← rawGet mout i
    pure (error + (d - y) ^ 2)) 0
  pure (error / 2)

/-- The loop of `Trainer::modelHit` from index `i` on, `n` iterations left. -/
def modelHitLoop (threshold : R) (mout dsout : List R) :
    Nat → Nat → Except Error Nat
  | 0, _ => .ok 1
  | n + 1, i => do
    let d ← rawGet dsout i
    let y ← rawGet mout i
    if (d > threshold ∧ y ≤ threshold) ∨ (d ≤ threshold ∧ y > threshold) then
      pure 0
    else modelHitLoop threshold mout dsout n (i + 1)

/-- `Trainer::modelHit`. -/
def modelHit (t : Trainer R) (mout dsout : List R) : Except Error Nat := do
  cassert (mout.length = dsout.length)
  modelHitLoop t.threshold mout dsout mout.length 0

/-- The body of the loop of `Trainer::training`. -/
def trainingStep (exp : R → R) (t : Trainer R) (element : Nat) :
    Except Error (Trainer R) := do
  let alg ← match t.algorithm with
    | some a => pure a
    | none => throw Error.undefined
  let inst ← t.dataset.trAt element
  let r ← alg.compute exp t.model inst.input inst.output
  let model ← (r.2.setInputs inst.input).compute exp
  let e ← modelError model.getOutputs inst.output
  let t := { t with algorithm := some r.1, model := model }
  let h ← t.modelHit model.getOutputs inst.output
  pure { t with trerr := t.trerr.add e, tracc := t.tracc.add (h : R) }

/-- `Trainer::training`. -/
def training (exp : R → R) (t : Trainer R) : Except Error (Trainer R) := do
  let t := { t with trerr := some 0, tracc := some 0 }
  let t ← (List.range t.dataset.getTrSetSize).foldlM (trainingStep exp) t
  pure { t with
    trerr := t.trerr.divCount t.dataset.getTrSetSize,
    tracc := t.tracc.divCount t.dataset.getTrSetSize }

/-- The body of the loop of `Trainer::validation`. -/
def validationStep (exp : R → R) (t : Trainer R) (element : Nat) :
    Except Error (Trainer R) := do
  let inst ← t.dataset.vaAt element
  let model ← (t.model.setInputs inst.input).compute exp
  let e ← modelError model.getOutputs inst.output
  let t := { t with model := model }
  let h ← t.modelHit model.getOutputs inst.output
  pure { t with vaerr := t.vaerr.add e, vaacc := t.vaacc.add (h : R) }

/-- `Trainer::validation`. -/
def validation (exp : R → R) (t : Trainer R) : Except Error (Trainer R) := do
  let t := { t with vaerr := some 0, vaacc := some 0 }
  let n ← t.dataset.getVaSetSize
  if n = 0 then pure t
  else
    let t ← (List.range n).foldlM (validationStep exp) t
    pure { t with vaerr := t.vaerr.divCount n, vaacc := t.vaacc.divCount n }

/-- `Trainer::resetTrainingVariables`. -/
def resetTrainingVariables (t : Trainer R) : Trainer R :=
  { t with
    mintrerr := (⊤, 0), minvaerr := (⊤, 0),
    maxtracc := (0, 0), maxvaacc := (0, 0),
    prevtrerr := 0, stoperrch_n := 0 }

/-- `Trainer::updateTrainingVariables`. -/
def updateTrainingVariables (t : Trainer R) : Trainer R :=
  let t := match t.trerr with
    | some v => if (v : WithTop R) < t.mintrerr.1 then
        { t with mintrerr := ((v : WithTop R), t.epochs) } else t
    | none => t
  let t := match t.vaerr with
    | some v => if (v : WithTop R) < t.minvaerr.1 then
        { t with minvaerr := ((v : WithTop R), t.epochs) } else t
    | none => t
  let t := match t.tracc with
    | some v => if v > t.maxtracc.1 then
        { t with maxtracc := (v, t.epochs) } else t
    | none => t
  match t.vaacc with
  | some v => if v > t.maxvaacc.1 then
      { t with maxvaacc := (v, t.epochs) } else t
  | none => t

/-- `Trainer::checkStopErrorChange`, called with a training error `trerr`
that is not NaN.  For `trerr` equal to zero the quotient is infinite or NaN
and the comparison with the finite bound is false. -/
def checkStopErrorChange (t : Trainer R) (trerr : R) : Bool × Trainer R :=
  if t.stoperrch_ep = 0 then (false, t)
  else
    let t :=
      if trerr ≠ 0 ∧ |(trerr - t.prevtrerr) / trerr| ≤ t.stoperrch_var / 100 then
        { t with stoperrch_n := t.stoperrch_n + 1 }
      else { t with stoperrch_n := 0 }
    let t := { t with prevtrerr := trerr }
    if t.stoperrch_n ≥ t.stoperrch_ep then (true, t) else (false, t)

/-- `Trainer::checkStop`: the answer and the trainer, whose error-change
bookkeeping the call may have advanced. -/
def checkStop (t : Trainer R) : Bool × Trainer R :=
  if t.trerr.nonFinite then (true, t)
  else if t.vaerr.nonFinite then (true, t)
  else if t.trerr.test (fun v => v < 0) || t.vaerr.test (fun v => v < 0) ||
      t.tracc.test (fun v => v < 0) || t.vaacc.test (fun v => v < 0) then (true, t)
  else if t.trerr.test (fun v => v ≤ t.stoperr) then (true, t)
  else if t.tracc.test (fun v => v ≥ t.stopacc) then (true, t)
  else
    match t.trerr with
    | some v => checkStopErrorChange t v
    | none => (false, t)

/-- `Trainer::saveEpochResults`. -/
def saveEpochResults (t : Trainer R) (w : World R) : Except Error (World R) :=
  if t.resfile.isEmpty then .ok w
  else if ¬ w.writable t.resfile then .error .file_error
  else .ok { w with rows := w.rows ++
    [(t.resfile, ⟨t.epochs + 1, t.trerr, t.vaerr, t.tracc, t.vaacc⟩)] }

/-- The body of the loop of `Trainer::start` up to the call of `checkStop`:
the optional shuffle of the training set, `training`, `validation`,
`updateTrainingVariables`, `saveEpochResults`. -/
def epochBody (exp : R → R) (t : Trainer R) (w : World R) :
    Except Error (Trainer R × World R) := do
  let (t, w) ← if t.shfepochs ≠ 0 ∧ t.epochs % t.shfepochs = 0 then do
      let r ← t.dataset.randomShuffleTrainingSet w.rng
      pure ({ t with dataset := r.1 }, { w with rng := r.2 })
    else pure (t, w)
  let t ← training exp t
  let t ← validation exp t
  let t := updateTrainingVariables t
  let w ← saveEpochResults t w
  pure (t, w)

/-- What a run of the epoch loop ends with: the trainer, the world, and the
indices of the epochs whose body was run, in order (a ghost record). -/
structure Run (R : Type) where
  trainer : Trainer R
  world : World R
  ran : List Nat

/-- The loop `for (epochs = 0; (epochs < maxepochs || maxepochs == 0);
++epochs)` of `Trainer::start`, entered at the test of its condition.  The
loop need not terminate when `maxepochs` is `0`: `fuel` bounds the number of
tests of the condition, and `none` reports that the bound was reached.  The
counter `epochs` is a natural number: a run does not reach `2^32` epochs. -/
def startLoop (exp : R → R) :
    Nat → Trainer R → World R → List Nat → Except Error (Option (Run R))
  | 0, _, _, _ => .ok none
  | fuel + 1, t, w, ran =>
    if t.epochs < t.maxepochs ∨ t.maxepochs = 0 then
      epochBody exp t w >>= fun r =>
        let c := checkStop r.1
        if c.1 then .ok (some ⟨c.2, r.2, ran ++ [t.epochs]⟩)
        else startLoop exp fuel { c.2 with epochs := c.2.epochs + 1 } r.2
          (ran ++ [t.epochs])
    else .ok (some ⟨t, w, ran⟩)

/-- `Trainer::start`. -/
def start (exp : R → R) (fuel : Nat) (t : Trainer R) (w : World R) :
    Except Error (Option (Run R)) := do
  let alg ← match t.algorithm with
    | some a => pure a
    | none => throw Error.assertion
  let alg ← alg.setModel (some t.model)
  let t := resetTrainingVariables { t with algorithm := some alg }
  startLoop exp fuel { t with epochs := 0 } w []

/-- The constructor `Trainer::Trainer(model, algorithm)`; the pairs of the
trackers and the dataset are default-initialised. -/
def init (fuel : Nat) (model : NeuralNetwork R)
    (algorithm : Option (BackPropagation R)) (g : Rng) :
    Except Error (Option (Trainer R × Rng)) := do
  match ← model.copy fuel g with
  | none => pure none
  | some (initmodel, g1) =>
    pure (some (
      { model := model, initmodel := initmodel, algorithm := algorithm,
        dataset := ⟨[], [], [], 0, 0⟩,
        epochs := 0, maxepochs := 0, shfepochs := 0,
        vaerr := some 0, trerr := some 0, stoperr := -1,
        vaacc := some 0, tracc := some 0, stopacc := 11 / 10,
        mintrerr := (((0 : R) : WithTop R), 0),
        minvaerr := (((0 : R) : WithTop R), 0),
        maxtracc := (0, 0), maxvaacc := (0, 0), threshold := 1 / 2,
        prevtrerr := 0, stoperrch_var := 0, stoperrch_ep := 0,
        stoperrch_n := 0, resfile := "" }, g1))

/-- `Trainer::resetModel`: `delete model; model = new
NeuralNetwork(*initmodel)`. -/
def resetModel (fuel : Nat) (t : Trainer R) (g : Rng) :
    Except Error (Option (Trainer R × Rng)) := do
  match ← t.initmodel.copy fuel g with
  | none => pure none
  | some (model, g1) => pure (some ({ t with model := model }, g1))

/-- `Trainer::getEpochs`. -/
def getEpochs (t : Trainer R) : Nat := t.epochs

end Trainer

/-! ## tester.h / tester.cpp -/

/-- `Dataset::operator[]`: the range check, then `at`. -/
def Dataset.index {R : Type} (d : Dataset R) (i : Nat) :
    Except Error (Instance R) :=
  if i ≥ d.dataset.length then .error .out_of_range
  else d.at i

/-- The data members of class `Tester`; `model` is the network behind the
pointer `model`. -/
structure Tester (R : Type) where
  model : NeuralNetwork R
  dataset : Dataset R
  withoutput : Bool
  missed : Nat
  hits : Nat
  threshold : R
  accuracy : R
  error : R
  resfile : String

namespace Tester

variable {R : Type} [LinearOrderedField R]

/-- The loop of `Tester::checkModelResponse` from index `k` on, with at most
`n` tests of its condition `k < dataset[i].output.size()` left; each round
evaluates `dataset[i].output[k]` and, once, `model->getOutput(k)`. -/
def checkLoop (ts : Tester R) (i : Nat) : Nat → Nat → Except Error Bool
  | 0, _ => .error .undefined
  | n + 1, k => do
    let inst ← ts.dataset.index i
    if k < inst.output.length then do
      let inst ← ts.dataset.index i
      let d ← rawGet inst.output k
      let y ← ts.model.getOutput k
      if (d > ts.threshold ∧ y ≤ ts.threshold) ∨
          (d ≤ ts.threshold ∧ y > ts.threshold) then
        pure false
      else checkLoop ts i n (k + 1)
    else pure true

/-- `Tester::checkModelResponse`; the loop tests its condition once more
than the targets of instance `i` are long. -/
def checkModelResponse (ts : Tester R) (i : Nat) : Except Error Bool := do
  let inst ← ts.dataset.index i
  checkLoop ts i (inst.output.length + 1) 0

end Tester

/-! ## The notions the statements use -/

section Notions

variable {R : Type} [LinearOrderedField R]

/-- The sum `ws[0]*xs[0] + ... + ws[n-1]*xs[n-1]`. -/
def weightedSum (ws xs : List R) (n : Nat) : R :=
  ∑ i in Finset.range n, ws.getD i 0 * xs.getD i 0

/-- The sigmoid `1/(1+e^(-x))` for the exponential `exp`. -/
def sigmoid (exp : R → R) (x : R) : R := 1 / (1 + exp (-x))

/-- A unit of `k` inputs has `k+1` weights and `k+1` cached inputs. -/
def Unit.Sized (u : Unit R) : Prop :=
  u.numberOfWeights = u.numberOfInputs + 1 ∧
  u.weights.length = u.numberOfWeights ∧ u.inputs.length = u.numberOfWeights

/-- The invariant of class `Unit`: the sizes agree and the cached input `0`,
the input of the bias weight, is `1`. -/
def Unit.WF (u : Unit R) : Prop := u.Sized ∧ u.inputs[0]? = some 1

/-- Every unit of each layer is well formed and has as many inputs as the
layer before has units (`prev` for the first layer of the list). -/
def layersWF (prev : Nat) : List (List (Unit R)) → Prop
  | [] => True
  | l :: ls => (∀ u ∈ l, Unit.WF u ∧ u.numberOfInputs = prev) ∧
      layersWF l.length ls

/-- The unit `u` of layer `l`, when there is one. -/
def NeuralNetwork.unit? (n : NeuralNetwork R) (l u : Nat) : Option (Unit R) :=
  n.network[l]?.bind (fun layer => layer[u]?)

/-- The number of units of each layer. -/
def NeuralNetwork.dims (n : NeuralNetwork R) : List Nat :=
  n.network.map List.length

/-- The invariant of class `NeuralNetwork` (the arity invariant of the data
model): `nlayers` layers, `ninputs` inputs, well-formed units whose arity is
the size of the layer before, and one cached output per unit of the last
layer. -/
def NeuralNetwork.WF (n : NeuralNetwork R) : Prop :=
  n.network.length = n.nlayers ∧ n.inputs.length = n.ninputs ∧
  layersWF n.ninputs n.network ∧
  n.lastOutput.length = (n.network.getLast?.getD []).length

/-- The index triple names a weight of the network: layer below `nlayers`,
unit inside the layer, index below the unit's number of weights. -/
def NeuralNetwork.ValidIndex (n : NeuralNetwork R) (layer unit index : Nat) :
    Prop :=
  layer < n.nlayers ∧
    ∃ a, n.unit? layer unit = some a ∧ index < a.numberOfWeights

/-- The value `computeOutput()` returns for the unit: the sigmoid of the
weighted sum of its cached inputs. -/
def Unit.out (exp : R → R) (a : Unit R) : R :=
  sigmoid exp (weightedSum a.weights a.inputs a.numberOfWeights)

/-- Two units agree on their sizes, their weights and their bias input; they
may differ in the other cached inputs and in the cached output. -/
def Unit.SameWeights (a b : Unit R) : Prop :=
  a.numberOfInputs = b.numberOfInputs ∧
  a.numberOfWeights = b.numberOfWeights ∧ a.weights = b.weights ∧
  a.inputs.length = b.inputs.length ∧ a.inputs[0]? = b.inputs[0]?

/-- The network `n` has the inputs, the topology and the weights of `n0`; it
may differ in the cached inputs and outputs of its units and in the content
of the cached output vector. -/
def NeuralNetwork.Frame (n0 n : NeuralNetwork R) : Prop :=
  n.ninputs = n0.ninputs ∧ n.nlayers = n0.nlayers ∧ n.inputs = n0.inputs ∧
  n.dims = n0.dims ∧ n.lastOutput.length = n0.lastOutput.length ∧
  ∀ l u a, n.unit? l u = some a →
    ∃ b, n0.unit? l u = some b ∧ Unit.SameWeights a b

/-- The `j`-th value fed to layer `l`, called `z(l-1)[j]`: input `j` of the
network for the first layer, the cached output of unit `j` of layer `l-1` for
the others. -/
def NeuralNetwork.fedValue (n : NeuralNetwork R) : Nat → Nat → Except Error R
  | 0, j => n.getInput j
  | l + 1, j => n.getUnitOutput l j

/-- The first `k` inputs of the network are cached in the units of the first
layer: cached input `i+1` of each unit of layer `0` is input `i`. -/
def NeuralNetwork.InputsFed (n : NeuralNetwork R) (k : Nat) : Prop :=
  ∀ u a, n.unit? 0 u = some a → ∀ i, i < k → a.inputs[i + 1]? = n.inputs[i]?

/-- Unit `u` of layer `l` caches the output of its cached inputs, and that
output is cached input `u+1` of every unit of layer `l+1`. -/
def NeuralNetwork.UnitFed (exp : R → R) (n : NeuralNetwork R) (l u : Nat) :
    Prop :=
  ∀ a, n.unit? l u = some a → a.lastOutput = a.out exp ∧
    ∀ t c, n.unit? (l + 1) t = some c → c.inputs[u + 1]? = some a.lastOutput

/-- The state that `NeuralNetwork::compute` leaves, when started in `n0`:
the frame of `n0`; the inputs cached in the first layer; every unit caching
the output of its cached inputs and feeding it to the next layer; the cached
output vector holding the outputs of the last layer. -/
def NeuralNetwork.Computed (exp : R → R) (n0 n : NeuralNetwork R) : Prop :=
  n0.Frame n ∧ n.InputsFed n0.ninputs ∧
  (∀ l u, l + 1 < n0.nlayers → n.UnitFed exp l u) ∧
  ∀ u a, n.unit? (n0.nlayers - 1) u = some a →
    a.lastOutput = a.out exp ∧ n.lastOutput[u]? = some (a.out exp)

/-- The momentum entry of unit `u` of layer `l` in the table `t`, when there
is one. -/
def momentum? (t : List (List R)) (l u : Nat) : Option R :=
  t[l]?.bind (fun row => row[u]?)

/-- Two units agree on everything but the values of their weights. -/
def Unit.SameCaches (a b : Unit R) : Prop :=
  a.numberOfInputs = b.numberOfInputs ∧
  a.numberOfWeights = b.numberOfWeights ∧ a.inputs = b.inputs ∧
  a.lastOutput = b.lastOutput ∧ a.weights.length = b.weights.length

/-- The deltas that one pass over a unit applies to its weights `ws`, in the
order of the weight indices, following the update rule of the specification:
`Δw = η·δ·x − 2·η·λ·w_old + α·m`, with `λ = 0` for the bias weight and `m`
the delta computed just before for the same unit (`m0` for the bias
weight). -/
def deltaChain (eta lambda alfa d : R) (ws xs : List R) (m0 : R) : Nat → R
  | 0 => eta * d * xs.getD 0 0 - 2 * eta * 0 * ws.getD 0 0 + alfa * m0
  | k + 1 => eta * d * xs.getD (k + 1) 0 -
      2 * eta * lambda * ws.getD (k + 1) 0 +
      alfa * deltaChain eta lambda alfa d ws xs m0 k

/-- The cached output of unit `u` of layer `l` (`0` when there is no such
unit). -/
def NeuralNetwork.outputOf (n : NeuralNetwork R) (l u : Nat) : R :=
  match n.unit? l u with
  | some a => a.lastOutput
  | none => 0

/-- Weight `k` of unit `u` of layer `l` (`0` when there is none). -/
def NeuralNetwork.weightOf (n : NeuralNetwork R) (l u k : Nat) : R :=
  match n.unit? l u with
  | some a => a.weights.getD k 0
  | none => 0

/-- The number of units of layer `l` (`0` when there is no such layer). -/
def NeuralNetwork.dimOf (n : NeuralNetwork R) (l : Nat) : Nat :=
  n.dims.getD l 0

/-- The local gradients of the specification, for the network `n` as the
forward pass left it: `gradient n t 0 l u` is the gradient of output unit `u`
(`l` the last layer), `(t_u − y_u)·y_u·(1 − y_u)`; `gradient n t (f+1) l u`
is the gradient of unit `u` of the hidden layer `l` that has `f+1` layers
after it, `(Σ_j δ_j·w(l+1,j,u+1))·y_u·(1 − y_u)`. -/
def gradient (n : NeuralNetwork R) (desired : List R) : Nat → Nat → Nat → R
  | 0, l, u => (desired.getD u 0 - n.outputOf l u) * n.outputOf l u *
      (1 - n.outputOf l u)
  | f + 1, l, u =>
      (∑ j in Finset.range (n.dimOf (l + 1)),
        gradient n desired f (l + 1) j * n.weightOf (l + 1) j (u + 1)) *
      n.outputOf l u * (1 - n.outputOf l u)

/-- The state of the backward phase in which exactly the units selected by
`done` have been processed, with the local gradients `g`, starting from the
network `n1` and the momentum table `t0`: the network differs from `n1` only
in the weights of the processed units, which moved by the deltas of
`deltaChain`; the momentum entry of a processed unit is the delta of its last
weight, the other entries are those of `t0`. -/
def BPState.Updated (bp : BackPropagation R) (n1 : NeuralNetwork R)
    (t0 : List (List R)) (g : Nat → Nat → R) (done : Nat → Nat → Prop)
    (s : BPState R) : Prop :=
  s.nn.ninputs = n1.ninputs ∧ s.nn.nlayers = n1.nlayers ∧
  s.nn.inputs = n1.inputs ∧ s.nn.dims = n1.dims ∧
  s.nn.lastOutput = n1.lastOutput ∧
  ∃ t, s.momentumtable = some t ∧ t.map List.length = n1.dims ∧
    ∀ l u b, n1.unit? l u = some b →
      ∃ a, s.nn.unit? l u = some a ∧ Unit.SameCaches a b ∧
        (done l u →
          (∀ k, k ≤ b.numberOfInputs → a.weights.getD k 0 =
            b.weights.getD k 0 + deltaChain bp.eta bp.lambda bp.alfa (g l u)
              b.weights b.inputs ((momentum? t0 l u).getD 0) k) ∧
          momentum? t l u = some (deltaChain bp.eta bp.lambda bp.alfa (g l u)
            b.weights b.inputs ((momentum? t0 l u).getD 0) b.numberOfInputs)) ∧
        (¬ done l u → a.weights = b.weights ∧
          momentum? t l u = momentum? t0 l u)

/-- The first `n` weight updates of the pass that `BackPropagation::compute`
makes over the weights of unit `i` of layer `curLayer`, in the order of the
weight indices `0, 1, ..., n-1`. -/
def BackPropagation.unitPrefix (bp : BackPropagation R) (curLayer i : Nat)
    (delta : R) (s : BPState R) (n : Nat) : Except Error (BPState R) :=
  (List.range n).foldlM
    (fun (s : BPState R) k => BackPropagation.weightStep bp curLayer i delta s k)
    s

/-- In the sequence `xs` of the training errors of successive epochs, the
relative change `|trerr - previous trerr| / trerr` at epoch `i` is at most
`p` percent; the error before the first epoch counts as `0`. -/
def smallChangeAt (p : R) (xs : List R) (i : Nat) : Prop :=
  |xs.getD i 0 - (if i = 0 then 0 else xs.getD (i - 1) 0)| / xs.getD i 0 ≤
    p / 100

/-- The trainer after `checkStopErrorChange` has been evaluated on the
training errors `xs` of successive epochs, in their order. -/
def Trainer.errorChangeAfter (t : Trainer R) (xs : List R) : Trainer R :=
  xs.foldl (fun t e => (Trainer.checkStopErrorChange t e).2) t

/-- The first `if` of `updateTrainingVariables`, on `trerr` and `mintrerr`. -/
def Trainer.updateMinTrErr (t : Trainer R) : Trainer R :=
  match t.trerr with
  | some v => if (v : WithTop R) < t.mintrerr.1 then
      { t with mintrerr := ((v : WithTop R), t.epochs) } else t
  | none => t

/-- The second `if` of `updateTrainingVariables`, on `vaerr` and
`minvaerr`. -/
def Trainer.updateMinVaErr (t : Trainer R) : Trainer R :=
  match t.vaerr with
  | some v => if (v : WithTop R) < t.minvaerr.1 then
      { t with minvaerr := ((v : WithTop R), t.epochs) } else t
  | none => t

/-- The third `if` of `updateTrainingVariables`, on `tracc` and
`maxtracc`. -/
def Trainer.updateMaxTrAcc (t : Trainer R) : Trainer R :=
  match t.tracc with
  | some v => if v > t.maxtracc.1 then
      { t with maxtracc := (v, t.epochs) } else t
  | none => t

/-- The fourth `if` of `updateTrainingVariables`, on `vaacc` and
`maxvaacc`. -/
def Trainer.updateMaxVaAcc (t : Trainer R) : Trainer R :=
  match t.vaacc with
  | some v => if v > t.maxvaacc.1 then
      { t with maxvaacc := (v, t.epochs) } else t
  | none => t

/-- The trainer with which the loop of `Trainer::start` enters the next
epoch, when the body of an epoch has left `t` and `checkStop` has answered
"go on": the bookkeeping of `checkStop`, then `++epochs`. -/
def Trainer.nextEpoch (t : Trainer R) : Trainer R :=
  { (Trainer.checkStop t).2 with epochs := (Trainer.checkStop t).2.epochs + 1 }

/-- The trainer and the world at the end of the body of the `k`-th epoch
after the one that the loop of `Trainer::start` enters with `t` and `w`
(`k = 0` for that epoch itself), in a run that goes on up to there. -/
def Trainer.epochEnd (exp : R → R) :
    Nat → Trainer R → World R → Except Error (Trainer R × World R)
  | 0, t, w => Trainer.epochBody exp t w
  | k + 1, t, w =>
    Trainer.epochBody exp t w >>= fun r =>
      Trainer.epochEnd exp k (Trainer.nextEpoch r.1) r.2

/-- The pair `p` is the minimum of `a 0, ..., a E` with the earliest index
that attains it. -/
def EarliestMin (a : Nat → R) (E : Nat) (p : WithTop R × Nat) : Prop :=
  ∃ i, i ≤ E ∧ p = ((a i : WithTop R), i) ∧ (∀ j, j ≤ E → a i ≤ a j) ∧
    ∀ j, j < i → a i < a j

/-- The pair `p` is the maximum of `a 0, ..., a E` with the earliest index
that attains it when that maximum is positive, and `(0, 0)` when no value is
positive. -/
def EarliestMax (a : Nat → R) (E : Nat) (p : R × Nat) : Prop :=
  ((∃ j, j ≤ E ∧ 0 < a j) →
    ∃ i, i ≤ E ∧ p = (a i, i) ∧ (∀ j, j ≤ E → a j ≤ a i) ∧
      ∀ j, j < i → a j < a i) ∧
  ((∀ j, j ≤ E → a j ≤ 0) → p = (0, 0))

/-- The random source never returns a value that `Unit::setRandomValue`
rejects: no coming `rand()` is `700` modulo `1401`. -/
def Rng.NoReject (g : Rng) : Prop := ∀ k, g.stream k % 1401 ≠ 700

/-- A line of a dataset file that `Dataset::load` parses, and on which the
number of comma-separated fields is not `1 + ninputs + noutputs`. -/
def Dataset.Malformed (ninputs noutputs : Nat) (l : List Char) : Prop :=
  goodLine (Global.trim l [' ', '\t']) = true ∧
    (Global.split (Global.trim l [' ', '\t']) ',').length ≠
      1 + ninputs + noutputs

/-- The good lines that `readNextGoodLine` can still deliver from the
segments a stream has left: the segments but the last one (a line that the
end of the text ends is not delivered) that are not empty and do not start
with `#`. -/
def NeuralNetwork.pending (segs : List (List Char)) : List (List Char) :=
  segs.dropLast.filter goodLine

/-- The unit that `unitiss >> unit` reads from a line. -/
def Unit.ofLine (toUint : List Char → Nat) (toReal : List Char → R)
    (line : List Char) : Except Error (Unit R) :=
  (Unit.read toUint toReal (IStream.ofText '\n' line)).map Prod.fst

/-- The units of a layer of `n` units, read from the first `n` of the good
lines, and the good lines left. -/
def NeuralNetwork.parseUnits (toUint : List Char → Nat)
    (toReal : List Char → R) :
    Nat → List (List Char) → Except Error (List (Unit R) × List (List Char))
  | 0, ls => .ok ([], ls)
  | _ + 1, [] => .error .read_error
  | n + 1, l :: ls => do
    let u ← Unit.ofLine toUint toReal l
    let r ← NeuralNetwork.parseUnits toUint toReal n ls
    pure (u :: r.1, r.2)

/-- The layers of the given sizes, read from the good lines, and the good
lines left. -/
def NeuralNetwork.parseLayers (toUint : List Char → Nat)
    (toReal : List Char → R) :
    List Nat → List (List Char) →
      Except Error (List (List (Unit R)) × List (List Char))
  | [], ls => .ok ([], ls)
  | n :: ns, ls => do
    let r ← NeuralNetwork.parseUnits toUint toReal n ls
    let r' ← NeuralNetwork.parseLayers toUint toReal ns r.2
    pure (r.1 :: r'.1, r'.2)

/-- The network that a text denotes, from its good lines: the input count,
the layer count, the units of each layer, then one line for each unit. -/
def NeuralNetwork.parse (toUint : List Char → Nat) (toReal : List Char → R)
    (ls : List (List Char)) : Except Error (NeuralNetwork R) :=
  match ls with
  | l1 :: l2 :: l3 :: rest =>
    if (Global.split l3 ',').length ≠ toUint l2 then .error .read_error
    else do
      let r ← NeuralNetwork.parseLayers toUint toReal
        ((Global.split l3 ',').map toUint) rest
      match r.1.getLast? with
      | none => .error .undefined
      | some last =>
        pure ⟨toUint l1, toUint l2, List.replicate (toUint l1) 0, r.1,
          List.replicate last.length 0⟩
  | _ => .error .read_error

/-- A piece of text that a number is written as: not empty, and without a
comma, a newline, a blank or a `#`. -/
def Token (s : List Char) : Prop :=
  s ≠ [] ∧ ∀ c ∈ s, c ≠ ',' ∧ c ≠ '\n' ∧ c ≠ ' ' ∧ c ≠ '#'

/-- The line that `Unit::write` writes for a unit. -/
def Unit.line (fmtUint : Nat → List Char) (fmtReal : R → List Char)
    (u : Unit R) : List Char :=
  fmtUint u.numberOfWeights ++
    (u.weights.map (fun w => ',' :: fmtReal w)).flatten

/-- The unit that `Unit::read` builds from the weights `ws`. -/
def Unit.fresh (ws : List R) : Unit R :=
  ⟨ws.length - 1, ws.length, 1 :: List.replicate (ws.length - 1) 0, ws, 0⟩

/-- The lines that `NeuralNetwork::write` writes for the layers from layer
`i` on: for each layer a comment line, then the lines of its units. -/
def NeuralNetwork.layerLines (fmtUint : Nat → List Char)
    (fmtReal : R → List Char) : Nat → List (List (Unit R)) → List (List Char)
  | _, [] => []
  | i, l :: ls =>
    (("# units layer ".toList ++ fmtUint i) ::
      l.map (Unit.line fmtUint fmtReal)) ++
      NeuralNetwork.layerLines fmtUint fmtReal (i + 1) ls

/-- The line of the layer sizes that `NeuralNetwork::write` writes. -/
def NeuralNetwork.sizesLine (fmtUint : Nat → List Char)
    (network : List (List (Unit R))) : List Char :=
  fmtUint (network.headD []).length ++
    ((network.drop 1).map (fun l => ',' :: fmtUint l.length)).flatten

/-- The lines that `NeuralNetwork::write` writes: the input count, the layer
count and the layer sizes, each under a comment line, then the layers. -/
def NeuralNetwork.lines (fmtUint : Nat → List Char) (fmtReal : R → List Char)
    (n : NeuralNetwork R) : List (List Char) :=
  ["# number of inputs".toList, fmtUint n.ninputs,
    "# number of layers".toList, fmtUint n.network.length,
    "# units for any layer".toList,
    NeuralNetwork.sizesLine fmtUint n.network] ++
    NeuralNetwork.layerLines fmtUint fmtReal 0 n.network

/-- The text of the lines, each ended by a newline. -/
def unlines (ls : List (List Char)) : List Char :=
  (ls.map (fun l => l ++ ['\n'])).flatten

/-- The network that reading back what was written gives: the input count,
the layers and the sizes of the units are those of `n`, every weight has
gone through `fmtReal` and `toReal`, the cached values are fresh. -/
def NeuralNetwork.reread (fmtReal : R → List Char) (toReal : List Char → R)
    (n : NeuralNetwork R) : NeuralNetwork R :=
  ⟨n.ninputs, n.network.length, List.replicate n.ninputs 0,
    n.network.map (fun l => l.map (fun u =>
      Unit.fresh (u.weights.map (fun w => toReal (fmtReal w))))),
    List.replicate (n.network.getLast?.getD []).length 0⟩

/-- The sizes that a unit stores and has, and its bias input. -/
def Unit.sizes (u : Unit R) : Nat × Nat × Nat × Nat × Option R :=
  (u.numberOfInputs, u.numberOfWeights, u.weights.length, u.inputs.length,
    u.inputs[0]?)

/-- The sizes of a network: the input count, the layer count and the sizes
of every unit. -/
def NeuralNetwork.sizes (n : NeuralNetwork R) :
    Nat × Nat × List (List (Nat × Nat × Nat × Nat × Option R)) :=
  (n.ninputs, n.nlayers, n.network.map (fun l => l.map Unit.sizes))

/-- The networks that a program can make without reading text that
`write()` has not written: the results of the sizing constructor, of the
copy constructor from a network made, of `read()` on what `write()` wrote to
an empty stream for a network made, and the state of a network made after a
call of `setInput`, `setInputs`, `setWeight`, `sumToWeight` or `compute`. -/
inductive NeuralNetwork.Made (exp : R → R) (fmtUint : Nat → List Char)
    (fmtReal : R → List Char) (toUint : List Char → Nat)
    (toReal : List Char → R) : NeuralNetwork R → Prop
  | init (fuel ninputs nlayers : Nat) (nunits : List Nat) (g g' : Rng)
      (n : NeuralNetwork R) :
      NeuralNetwork.init fuel ninputs nlayers nunits g = .ok (some (n, g')) →
      NeuralNetwork.Made exp fmtUint fmtReal toUint toReal n
  | copy (fuel : Nat) (src n : NeuralNetwork R) (g g' : Rng) :
      NeuralNetwork.Made exp fmtUint fmtReal toUint toReal src →
      NeuralNetwork.copy fuel src g = .ok (some (n, g')) →
      NeuralNetwork.Made exp fmtUint fmtReal toUint toReal n
  | read (fuel : Nat) (src n : NeuralNetwork R) (text : List Char)
      (g g' : Rng) (is' : IStream) :
      NeuralNetwork.Made exp fmtUint fmtReal toUint toReal src →
      src.write fmtUint fmtReal [] = .ok text →
      NeuralNetwork.read fuel toUint toReal (IStream.ofText '\n' text) g =
        .ok (some (n, is', g')) →
      NeuralNetwork.Made exp fmtUint fmtReal toUint toReal n
  | call (n : NeuralNetwork R) (op : NeuralNetwork.Op R) :
      NeuralNetwork.Made exp fmtUint fmtReal toUint toReal n →
      NeuralNetwork.Made exp fmtUint fmtReal toUint toReal (n.call exp op)

/-- The outcome of a statement that reports the state at a throw lands in
`P`: the state returned, or the state at the throw, satisfies `P`. -/
def landsIn {σ : Type} (P : σ → Prop) (r : Except (Error × σ) σ) : Prop :=
  match r with
  | .ok s => P s
  | .error e => P e.2

/-- The condition `epochs < maxepochs || maxepochs == 0` of the loop of
`Trainer::start`. -/
def Trainer.loopCond (t : Trainer R) : Prop :=
  t.epochs < t.maxepochs ∨ t.maxepochs = 0

/-- The trainer with which `Trainer::start` enters its loop: the algorithm
`alg` attached to the model, the trackers reset, `epochs = 0`. -/
def Trainer.entered (t : Trainer R) (alg : BackPropagation R) : Trainer R :=
  { Trainer.resetTrainingVariables { t with algorithm := some alg } with
    epochs := 0 }

/-- The error `½ Σ_j (d_j − y_j)²` of the outputs `y` against the targets
`d`. -/
def squaredError (y d : List R) : R :=
  (∑ j in Finset.range y.length, (d.getD j 0 - y.getD j 0) ^ 2) / 2

/-- The number of weights that a unit stores, and its weights. -/
def Unit.weighting (u : Unit R) : Nat × List R := (u.numberOfWeights, u.weights)

/-- The layer count of a network and the value of `f` on each of its
units. -/
def NeuralNetwork.layout {α : Type} (f : Unit R → α) (n : NeuralNetwork R) :
    Nat × List (List α) :=
  (n.nlayers, n.network.map (fun l => l.map f))

/-- The model and the algorithm object are ready for instances of `ni`
inputs and `no` targets: the model is well formed, has at least two layers,
`ni` inputs and `no` output units; the algorithm object is attached and its
momentum table has an entry for each unit. -/
def Trainer.Ready (alg : Option (BackPropagation R)) (model : NeuralNetwork R)
    (ni no : Nat) : Prop :=
  model.WF ∧ 2 ≤ model.nlayers ∧
  model.ninputs = ni ∧ model.dimOf (model.nlayers - 1) = no ∧
  ∃ a tb, alg = some a ∧ a.hasModel = true ∧ a.momentumtable = some tb ∧
    tb.map List.length = model.dims

/-- The units that a program can reach: the results of the constructor (for
an argument whose successor is representable in `uint`; for `2^32 - 1` the
member `numberOfWeights` wraps to `0` and the constructor writes `inputs[0]`
of an empty vector), of the copy constructor from a unit reached, of a
successful `read()`, and the state of a unit reached after a call of
`setInput`, `setInputs`, `setWeight`, `setWeights`, `sumToWeight` or
`computeOutput` that returns.  A call that throws does so before it writes
to the unit, and leaves the unit as it was. -/
inductive Unit.Made : Unit R → Prop
  | init (fuel numberOfInputs : Nat) (g g' : Rng) (u : Unit R) :
      numberOfInputs + 1 < 2 ^ 32 →
      Unit.init fuel numberOfInputs g = .ok (some (u, g')) → Unit.Made u
  | copy (fuel : Nat) (src u : Unit R) (g g' : Rng) :
      Unit.Made src → Unit.copyInit fuel src g = .ok (some (u, g')) →
      Unit.Made u
  | read (toUint : List Char → Nat) (toReal : List Char → R)
      (is is' : IStream) (u : Unit R) :
      Unit.read toUint toReal is = .ok (u, is') → Unit.Made u
  | setInput (u u' : Unit R) (i : Nat) (input : R) :
      Unit.Made u → u.setInput i input = .ok u' → Unit.Made u'
  | setInputs (u u' : Unit R) (inputs : List R) :
      Unit.Made u → u.setInputs inputs = .ok u' → Unit.Made u'
  | setWeight (u u' : Unit R) (i : Nat) (weight : R) :
      Unit.Made u → u.setWeight i weight = .ok u' → Unit.Made u'
  | setWeights (u : Unit R) (weights : List R) :
      Unit.Made u → Unit.Made (u.setWeights weights)
  | sumToWeight (u u' : Unit R) (i : Nat) (value : R) :
      Unit.Made u → u.sumToWeight i value = .ok u' → Unit.Made u'
  | computeOutput (exp : R → R) (u u' : Unit R) (y : R) :
      Unit.Made u → u.computeOutput exp = .ok (y, u') → Unit.Made u'

/-- A call of one of the methods of `Dataset` that the specification lets
follow a load: those of `Dataset.Call`, `merge` and `restore`. -/
inductive Dataset.Op where
  | call (c : Dataset.Call)
  | merge
  | restore

/-- The dataset and the random source after the call `o`; a call that
raises leaves both as the raise leaves them. -/
def Dataset.op (s : Dataset R × Rng) : Dataset.Op → Dataset R × Rng
  | .call c => Dataset.call s c
  | .merge => (s.1.merge, s.2)
  | .restore => (s.1.restore, s.2)

/-- The dataset and the random source after the calls `os`, in order. -/
def Dataset.ops (s : Dataset R × Rng) (os : List Dataset.Op) :
    Dataset R × Rng :=
  os.foldl Dataset.op s

/-- The first position of fold `k` when `N` instances are in `F` folds. -/
def Dataset.foldStart (N F k : Nat) : Nat := k * (N / F) + min k (N % F)

/-- The fold state of a dataset of `N` instances is consistent: the access
index is a permutation of `0..N-1`, the entries of the training-access index
are below `N`, and with more than one fold the validation fold is one of the
folds and the training-access index is a permutation of the positions outside
the validation fold. -/
def Dataset.Consistent (N : Nat) (d : Dataset R) : Prop :=
  d.dataset.length = N ∧ d.av.Perm (List.range N) ∧ (∀ p ∈ d.trav, p < N) ∧
  (1 < d.folds → d.vafold < d.folds ∧
    d.trav.Perm ((List.range N).filter (fun i => decide
      (i < Dataset.foldStart N d.folds d.vafold ∨
        Dataset.foldStart N d.folds (d.vafold + 1) ≤ i))))

/-- The forward pass as a function of the weights: `forward exp W ar x 0 k`
is input `k`, and `forward exp W ar x (l+1) u` is the output of unit `u` of
layer `l`, the sigmoid of `W l u 0 + Σ_k W l u (k+1) * (value k fed to layer
l)`, for a layer `l` whose units have `ar l` inputs. -/
def forward (exp : R → R) (W : Nat → Nat → Nat → R) (ar : Nat → Nat)
    (x : Nat → R) : Nat → Nat → R
  | 0, k => x k
  | l + 1, u => sigmoid exp (W l u 0 +
      ∑ k in Finset.range (ar l), W l u (k + 1) * forward exp W ar x l k)

/-- The derivative of the values of the forward pass along a line of
weights with derivative `dW`, at weights `W` where the forward pass has the
values `a`. -/
def sensitivity (W dW : Nat → Nat → Nat → R) (ar : Nat → Nat)
    (a : Nat → Nat → R) : Nat → Nat → R
  | 0, _ => 0
  | l + 1, u => a (l + 1) u * (1 - a (l + 1) u) * (dW l u 0 +
      ∑ k in Finset.range (ar l),
        (dW l u (k + 1) * a l k + W l u (k + 1) * sensitivity W dW ar a l k))

/-- The number of inputs of the units of layer `l` in a network that
satisfies the arity invariant. -/
def NeuralNetwork.arityOf (n : NeuralNetwork R) : Nat → Nat
  | 0 => n.ninputs
  | l + 1 => n.dimOf l

/-- The weights of the network with weight `k0` of unit `u0` of layer `l0`
replaced by `v`. -/
def NeuralNetwork.weightsWith (n : NeuralNetwork R) (l0 u0 k0 : Nat) (v : R)
    (l u k : Nat) : R :=
  if l = l0 ∧ u = u0 ∧ k = k0 then v else n.weightOf l u k

/-- The derivative of the net input of unit `u` of layer `l` along a line of
weights with derivative `dW`. -/
def netSensitivity (W dW : Nat → Nat → Nat → R) (ar : Nat → Nat)
    (a : Nat → Nat → R) (l u : Nat) : R :=
  dW l u 0 + ∑ k in Finset.range (ar l),
    (dW l u (k + 1) * a l k + W l u (k + 1) * sensitivity W dW ar a l k)

/-- The state of the error-change criterion: the previous training error,
the percentage, the window and the counter. -/
def Trainer.criterion (t : Trainer R) : R × R × Nat × Nat :=
  (t.prevtrerr, t.stoperrch_var, t.stoperrch_ep, t.stoperrch_n)

/-- The tests of `checkStop` that precede the call of
`checkStopErrorChange` are all false for `t`, so that `checkStop` evaluates
the error-change criterion: the errors are finite, no metric is negative,
`trerr` is above the stop-error threshold and `tracc` below the
stop-accuracy threshold. -/
def Trainer.reachesErrorChange (t : Trainer R) : Prop :=
  t.trerr.nonFinite = false ∧ t.vaerr.nonFinite = false ∧
  t.trerr.test (fun v => v < 0) = false ∧
  t.vaerr.test (fun v => v < 0) = false ∧
  t.tracc.test (fun v => v < 0) = false ∧
  t.vaacc.test (fun v => v < 0) = false ∧
  t.trerr.test (fun v => v ≤ t.stoperr) = false ∧
  t.tracc.test (fun v => v ≥ t.stopacc) = false

/-- Epoch `k` completes `n` consecutive epochs of small change, at most `p`
percent each, in the sequence `xs` of training errors. -/
def windowComplete (n : Nat) (p : R) (xs : List R) (k : Nat) : Prop :=
  n ≤ k + 1 ∧ ∀ j, j < n → smallChangeAt p xs (k - j)

end Notions

/-! ## Sample values -/

/-- A unit with the given weights, the bias input `1`, the other cached
inputs and the cached output `0`. -/
def sampleUnit (ws : List ℚ) : Unit ℚ :=
  ⟨ws.length - 1, ws.length, 1 :: List.replicate (ws.length - 1) 0, ws, 0⟩

/-- A network of two inputs, a hidden layer of two units and one output
unit. -/
def sampleNetwork : NeuralNetwork ℚ :=
  ⟨2, 2, [0, 0],
    [[sampleUnit [1 / 10, 1 / 5, -3 / 10], sampleUnit [0, 1, 1]],
     [sampleUnit [1 / 2, -1 / 2, 1 / 4]]],
    [0]⟩

/-- A back-propagation object with learning rate `1/2`, regularization rate
`1/100`, momentum rate `1/10` and the momentum table of the sample network,
holding the given values. -/
def sampleBP (t : List (List ℚ)) : BackPropagation ℚ :=
  ⟨true, 1 / 2, 1 / 100, 1 / 10, some t⟩

/-- A state of the backward phase on the sample network. -/
def sampleState : BPState ℚ :=
  ⟨sampleNetwork, some [[0, 0], [1 / 5]], [0, 0]⟩

/-- A stand-in for the exponential in the sample runs of the trainer: `1/2`
on negative arguments, `2` on the others. -/
def sampleExp (x : ℚ) : ℚ := if x < 0 then 1 / 2 else 2

/-- A trainer on the sample network and a dataset of two instances in two
folds, the first fold being the validation set, at the start of its first
epoch; the stop thresholds and the bound on the epochs are the arguments,
the error-change criterion and the results file are off. -/
def sampleTrainer (stoperr stopacc : ℚ) (maxepochs : Nat) : Trainer ℚ :=
  { model := sampleNetwork, initmodel := sampleNetwork,
    algorithm := some (sampleBP [[0, 0], [0]]),
    dataset := { dataset := [⟨"a", [1, 2], [1]⟩, ⟨"b", [0, 1], [0]⟩],
                 av := [0, 1], trav := [1], folds := 2, vafold := 0 },
    epochs := 0, maxepochs := maxepochs, shfepochs := 0,
    vaerr := some 0, trerr := some 0, stoperr := stoperr,
    vaacc := some 0, tracc := some 0, stopacc := stopacc,
    mintrerr := (⊤, 0), minvaerr := (⊤, 0), maxtracc := (0, 0),
    maxvaacc := (0, 0), threshold := 1 / 2, prevtrerr := 0,
    stoperrch_var := 0, stoperrch_ep := 0, stoperrch_n := 0, resfile := "" }

/-- A world whose generator returns zeros and in which every file can be
written. -/
def sampleWorld : World ℚ := ⟨⟨fun _ => 0⟩, fun _ => true, []⟩

/-- A tester on the sample network, whose last output is `2/3`, with a
dataset of one instance of target `1` and the threshold `1/2`. -/
def sampleTester : Tester ℚ :=
  { model := { sampleNetwork with lastOutput := [2 / 3] },
    dataset := { dataset := [⟨"a", [1, 2], [1]⟩], av := [0], trav := [],
                 folds := 0, vafold := 0 },
    withoutput := true, missed := 0, hits := 0, threshold := 1 / 2,
    accuracy := 0, error := 0, resfile := "" }

/-- A stand-in for `atoi` on the texts of the sample runs: the value of the
decimal digits the text starts with. -/
def sampleToUint (s : List Char) : Nat :=
  (s.takeWhile Char.isDigit).foldl (fun a c => 10 * a + (c.toNat - 48)) 0

/-- A decimal digit. -/
def sampleDigit : Nat → Char
  | 0 => '0' | 1 => '1' | 2 => '2' | 3 => '3' | 4 => '4'
  | 5 => '5' | 6 => '6' | 7 => '7' | 8 => '8' | _ => '9'

/-- The decimal digits of `n` in front of `acc`, with at most `fuel`
digits. -/
def sampleFmtAux : Nat → Nat → List Char → List Char
  | 0, _, acc => acc
  | fuel + 1, n, acc =>
    if n < 10 then sampleDigit n :: acc
    else sampleFmtAux fuel (n / 10) (sampleDigit (n % 10) :: acc)

/-- A stand-in for the `operator<<` of the unsigned integers: the decimal
digits. -/
def sampleFmtUint (n : Nat) : List Char := sampleFmtAux (n + 1) n []

/-- A stand-in for the `operator<<` of a `double`: a rational is written as
its numerator, a slash and its denominator. -/
def sampleFmtReal (q : ℚ) : List Char :=
  (if q < 0 then ['-'] else []) ++ sampleFmtUint q.num.natAbs ++ ['/'] ++
    sampleFmtUint q.den

/-- A stand-in for `strtod` that reads what `sampleFmtReal` writes. -/
def sampleToReal (s : List Char) : ℚ :=
  let body := if s.head? = some '-' then s.drop 1 else s
  let rest := body.dropWhile Char.isDigit
  let den := if rest.head? = some '/' then sampleToUint (rest.drop 1) else 1
  (if s.head? = some '-' then -1 else 1) * (sampleToUint body : ℚ) / den

/-! ## The arithmetic of `Global::real` in double precision

`Global::real` is `double`: an arithmetic operation returns its exact result
rounded to 53 significant bits, to nearest, ties to even.  The numbers of the
format are rationals; the model is of results in the normal range of the
format (no overflow, no underflow).  `exp` is a function of the C library and
stays a parameter. -/

namespace Double

end Double

section Helpers

theorem collect_ok_map {α : Type} (f : Nat → Except Error α) (g : Nat → α) :
    ∀ n, (∀ i, i < n → f i = .ok (g i)) →
      collect f n = .ok ((List.range n).map g)
  | 0, _ => rfl
  | n + 1, h => by
    have ih := collect_ok_map f g n (fun i hi => h i (Nat.lt_succ_of_lt hi))
    simp [collect, ih, h n (Nat.lt_succ_self n), List.range_succ, bind,
      Except.bind, pure, Except.pure]

/-- Hoare rule for a counted loop: an invariant indexed by the number of
iterations done is carried through `foldlM` over `List.range n`. -/
theorem foldlM_range_inv {σ : Type} (f : σ → Nat → Except Error σ)
    (P : Nat → σ → Prop) :
    ∀ (n : Nat) (s0 : σ), P 0 s0 →
      (∀ i s, i < n → P i s → ∃ s', f s i = .ok s' ∧ P (i + 1) s') →
      ∃ s', (List.range n).foldlM f s0 = .ok s' ∧ P n s'
  | 0, s0, h0, _ => ⟨s0, rfl, h0⟩
  | n + 1, s0, h0, hstep => by
    obtain ⟨s1, h1, hP1⟩ := foldlM_range_inv f P n s0 h0
      (fun i s hi hP => hstep i s (Nat.lt_succ_of_lt hi) hP)
    obtain ⟨s2, h2, hP2⟩ := hstep n s1 (Nat.lt_succ_self n) hP1
    refine ⟨s2, ?_, hP2⟩
    rw [List.range_succ, List.foldlM_append, h1]
    simp [bind, Except.bind, h2, pure, Except.pure]

end Helpers

section DatasetFacts

variable {R : Type}

theorem Dataset.startIndexFold_ok (d : Dataset R) (k : Nat) (h : k < d.folds) :
    d.startIndexFold k = .ok (k * (d.dataset.length / d.folds) +
      min k (d.dataset.length % d.folds)) := by
  unfold Dataset.startIndexFold
  simp only [h, not_true_eq_false, if_false]
  split
  · next hk => rw [Nat.min_eq_left hk, Nat.mul_succ]
  · next hk => rw [Nat.min_eq_right (Nat.le_of_lt (Nat.lt_of_not_le hk))]

theorem Dataset.endIndexFold_ok (d : Dataset R) (k : Nat) (h : k < d.folds) :
    d.endIndexFold k = .ok ((k + 1) * (d.dataset.length / d.folds) +
      min (k + 1) (d.dataset.length % d.folds)) := by
  unfold Dataset.endIndexFold
  simp only [h, not_true_eq_false, if_false]
  split
  · next hk =>
    have hF : d.folds = k + 1 := by omega
    have hr : d.dataset.length % d.folds < k + 1 := by
      rw [hF]; exact Nat.mod_lt _ (Nat.succ_pos k)
    have hdm := Nat.div_add_mod d.dataset.length d.folds
    rw [Nat.min_eq_right (Nat.le_of_lt hr)]
    rw [hF] at hdm ⊢
    exact congrArg _ hdm.symm
  · next hk => exact Dataset.startIndexFold_ok d (k + 1) (by omega)

theorem Dataset.foldDimension_ok (d : Dataset R) (k : Nat) (h : k < d.folds) :
    d.foldDimension k = .ok (if k < d.dataset.length % d.folds
      then d.dataset.length / d.folds + 1 else d.dataset.length / d.folds) := by
  unfold Dataset.foldDimension
  simp only [h, not_true_eq_false, if_false, Dataset.endIndexFold_ok d k h,
    Dataset.startIndexFold_ok d k h, bind, Except.bind, pure, Except.pure]
  congr 1
  generalize d.dataset.length / d.folds = q
  generalize d.dataset.length % d.folds = r
  rw [Nat.succ_mul]
  generalize k * q = a
  split <;> omega


theorem foldl_push (l acc : List Nat) :
    l.foldl (fun acc i => acc ++ [i]) acc = acc ++ l := by
  induction l generalizing acc with
  | nil => simp
  | cons a l ih => simp [ih]

theorem Dataset.travStep_fold (d : Dataset R) (s e : Nat)
    (hs : d.startIndexFold d.vafold = .ok s)
    (he : d.endIndexFold d.vafold = .ok e) (l acc : List Nat) :
    l.foldlM d.travStep acc =
      .ok (acc ++ l.filter (fun i => decide (i < s ∨ e ≤ i))) := by
  induction l generalizing acc with
  | nil => simp [pure, Except.pure]
  | cons a l ih =>
    rw [List.foldlM_cons]
    have hstep : d.travStep acc a =
        .ok (if a < s ∨ e ≤ a then acc ++ [a] else acc) := by
      unfold Dataset.travStep
      simp only [hs, he, bind, Except.bind, pure, Except.pure]
      by_cases h1 : a < s
      · simp [h1]
      · by_cases h2 : e ≤ a
        · simp [h1, h2]
        · simp [h1, h2]
    rw [hstep]
    simp only [bind, Except.bind]
    rw [ih]
    by_cases h : a < s ∨ e ≤ a
    · simp [h, List.filter_cons]
    · simp [h, List.filter_cons]

theorem Dataset.makeTrAccessVector_ok (d : Dataset R) (hk : d.vafold < d.folds) :
    d.makeTrAccessVector = .ok { d with trav :=
      (if d.folds = 1 then (List.range d.dataset.length)
      else ((List.range d.dataset.length).filter (fun i => decide
        (i < d.vafold * (d.dataset.length / d.folds) +
            min d.vafold (d.dataset.length % d.folds) ∨
         (d.vafold + 1) * (d.dataset.length / d.folds) +
            min (d.vafold + 1) (d.dataset.length % d.folds) ≤ i)))) } := by
  unfold Dataset.makeTrAccessVector
  by_cases h1 : d.folds = 1
  · simp [h1, foldl_push]
  · simp only [h1, if_false]
    rw [Dataset.travStep_fold d _ _ (Dataset.startIndexFold_ok d _ hk)
      (Dataset.endIndexFold_ok d _ hk)]
    simp [bind, Except.bind, pure, Except.pure]

theorem sum_fold_sizes (q r : Nat) : ∀ n : Nat,
    ((List.range n).map (fun k => if k < r then q + 1 else q)).sum =
      n * q + min n r
  | 0 => by simp
  | n + 1 => by
    rw [List.range_succ, List.map_append, List.sum_append, sum_fold_sizes q r n,
      Nat.succ_mul]
    simp only [List.map_cons, List.map_nil, List.sum_cons, List.sum_nil]
    generalize n * q = a
    split <;> omega

theorem count_fold_sizes (q r : Nat) : ∀ n : Nat,
    ((List.range n).map (fun k => if k < r then q + 1 else q)).count (q + 1) =
      min n r
  | 0 => by simp
  | n + 1 => by
    rw [List.range_succ, List.map_append, List.count_append,
      count_fold_sizes q r n]
    by_cases h : n < r
    · simp [h]; omega
    · simp [h]; omega

end DatasetFacts

/-- C1: for a dataset of `N >= 1` instances and `1 <= F <= N`, `setFolds(F)`
succeeds; afterwards the fold sizes `getFoldSize(0..F-1)` sum to `N`, fold `k`
has size `N / F + 1` when `k < N mod F` and `N / F` otherwise, so exactly
`N mod F` folds, the first ones, have the larger size; fold `k` is the range
from `startIndexFold(k)` to `endIndexFold(k)`, the ranges follow one another
from position `0` to position `N`. -/
theorem C1_fold_sizes {R : Type} (d : Dataset R) (F : Nat) (hF : 1 ≤ F)
    (hN : F ≤ d.dataset.length) :
    ∃ d1 sizes, d.setFolds F = .ok d1 ∧ d1.getSize = d.getSize ∧
      d1.getFolds = F ∧ d1.foldSizes = .ok sizes ∧ sizes.length = F ∧
      sizes.sum = d.getSize ∧
      (∀ k, k < F → d1.getFoldSize k = .ok (if k < d.getSize % F
        then d.getSize / F + 1 else d.getSize / F)) ∧
      (∀ k, k < F → sizes[k]? = some (if k < d.getSize % F
        then d.getSize / F + 1 else d.getSize / F)) ∧
      sizes.count (d.getSize / F + 1) = d.getSize % F ∧
      (∀ k, k < F → ∃ s e, d1.startIndexFold k = .ok s ∧
        d1.endIndexFold k = .ok e ∧ s ≤ e ∧ d1.getFoldSize k = .ok (e - s)) ∧
      d1.startIndexFold 0 = .ok 0 ∧
      (∀ k, k + 1 < F → d1.endIndexFold k = d1.startIndexFold (k + 1)) ∧
      d1.endIndexFold (F - 1) = .ok d.getSize := by
  have hset : d.setFolds F = Dataset.makeTrAccessVector
      { d with folds := F, vafold := 0 } := by
    unfold Dataset.setFolds
    have h1 : ¬ F > d.dataset.length := by omega
    have h2 : ¬ F = 0 := by omega
    simp only [h1, h2, if_false]
  rw [Dataset.makeTrAccessVector_ok _ (by show 0 < F; omega)] at hset
  obtain ⟨d1, hd1, hfolds, hds⟩ : ∃ d1, d.setFolds F = .ok d1 ∧
      d1.folds = F ∧ d1.dataset = d.dataset := ⟨_, hset, rfl, rfl⟩
  clear hset
  have hr : d.dataset.length % F < F := Nat.mod_lt _ (by omega)
  have hdm : F * (d.dataset.length / F) + d.dataset.length % F =
      d.dataset.length := Nat.div_add_mod _ _
  have hsz : ∀ k, k < F → d1.getFoldSize k = .ok (if k < d.dataset.length % F
      then d.dataset.length / F + 1 else d.dataset.length / F) := by
    intro k hk
    unfold Dataset.getFoldSize
    have hge : ¬ k ≥ d1.folds := by omega
    simp only [hge, if_false]
    rw [Dataset.foldDimension_ok d1 k (by omega), hfolds, hds]
  refine ⟨d1, (List.range F).map (fun k => if k < d.dataset.length % F
    then d.dataset.length / F + 1 else d.dataset.length / F), hd1, ?_, hfolds,
    ?_, by simp, ?_, hsz, ?_, ?_, ?_, ?_, ?_, ?_⟩
  · simp [Dataset.getSize, hds]
  · unfold Dataset.foldSizes
    rw [hfolds]
    exact collect_ok_map _ _ F hsz
  · rw [sum_fold_sizes, Nat.min_eq_right (Nat.le_of_lt hr)]
    exact hdm
  · intro k hk
    simp [hk, Dataset.getSize]
  · show List.count (d.dataset.length / F + 1) _ = d.dataset.length % F
    rw [count_fold_sizes, Nat.min_eq_right (Nat.le_of_lt hr)]
  · intro k hk
    have hk1 : k < d1.folds := by omega
    refine ⟨_, _, Dataset.startIndexFold_ok d1 k hk1,
      Dataset.endIndexFold_ok d1 k hk1, ?_, ?_⟩
    · rw [Nat.succ_mul]
      generalize d1.dataset.length / d1.folds = q
      generalize d1.dataset.length % d1.folds = r
      generalize k * q = a
      omega
    · unfold Dataset.getFoldSize Dataset.foldDimension
      have hge : ¬ k ≥ d1.folds := by omega
      simp only [hge, hk1, not_true_eq_false, if_false,
        Dataset.startIndexFold_ok d1 k hk1, Dataset.endIndexFold_ok d1 k hk1,
        bind, Except.bind, pure, Except.pure]
  · rw [Dataset.startIndexFold_ok d1 0 (by omega)]
    simp
  · intro k hk
    rw [Dataset.startIndexFold_ok d1 (k + 1) (by omega),
      Dataset.endIndexFold_ok d1 k (by omega)]
  · unfold Dataset.endIndexFold
    have h1 : F - 1 < d1.folds := by omega
    simp [h1, hfolds, hds, Dataset.getSize]
    omega

/-- Witness of C1: ten instances in five folds. -/
theorem C1_fold_sizes_witness :
    ∃ d1 sizes, (sampleDataset 10).setFolds 5 = .ok d1 ∧
      d1.getSize = (sampleDataset 10).getSize ∧
      d1.getFolds = 5 ∧ d1.foldSizes = .ok sizes ∧ sizes.length = 5 ∧
      sizes.sum = (sampleDataset 10).getSize ∧
      (∀ k, k < 5 → d1.getFoldSize k = .ok (if k < (sampleDataset 10).getSize % 5
        then (sampleDataset 10).getSize / 5 + 1 else (sampleDataset 10).getSize / 5)) ∧
      (∀ k, k < 5 → sizes[k]? = some (if k < (sampleDataset 10).getSize % 5
        then (sampleDataset 10).getSize / 5 + 1 else (sampleDataset 10).getSize / 5)) ∧
      sizes.count ((sampleDataset 10).getSize / 5 + 1) = (sampleDataset 10).getSize % 5 ∧
      (∀ k, k < 5 → ∃ s e, d1.startIndexFold k = .ok s ∧
        d1.endIndexFold k = .ok e ∧ s ≤ e ∧ d1.getFoldSize k = .ok (e - s)) ∧
      d1.startIndexFold 0 = .ok 0 ∧
      (∀ k, k + 1 < 5 → d1.endIndexFold k = d1.startIndexFold (k + 1)) ∧
      d1.endIndexFold (5 - 1) = .ok (sampleDataset 10).getSize :=
  C1_fold_sizes (sampleDataset 10) 5 (by decide) (by decide)

theorem range_map_getD (l : List Nat) :
    (List.range l.length).map (fun i => l.getD i 0) = l := by
  apply List.ext_getElem
  · simp
  · intro i h1 h2
    simp [List.getD_eq_getElem?_getD, List.getElem?_eq_getElem h2]

theorem Dataset.trPositions_ok {R : Type} (d : Dataset R) :
    d.trPositions = .ok d.trav := by
  unfold Dataset.trPositions Dataset.getTrSetSize
  rw [collect_ok_map _ (fun i => d.trav.getD i 0), range_map_getD]
  intro i hi
  unfold Dataset.trPosition rawGet
  have h : ¬ i ≥ d.trav.length := by omega
  simp [h, List.getElem?_eq_getElem hi,
    List.getD_eq_getElem?_getD]

/-- C2: for `2 <= F <= N` and `k < F`, after `setFolds(F)` and
`setValidationFold(k)` the training and validation sizes add up to `N`; the
positions served by `trAt` and those served by `vaAt` are disjoint and
together are the positions `0..N-1`, each once; the validation positions are
those of fold `k`. -/
theorem C2_partition {R : Type} (d : Dataset R) (F k : Nat) (hF : 2 ≤ F)
    (hN : F ≤ d.dataset.length) (hk : k < F) :
    ∃ d1 d2 tr va nva s e, d.setFolds F = .ok d1 ∧
      d1.setValidationFold k = .ok d2 ∧ d2.getSize = d.getSize ∧
      d2.getVaSetSize = .ok nva ∧ d2.getTrSetSize + nva = d.getSize ∧
      d2.trPositions = .ok tr ∧ d2.vaPositions = .ok va ∧
      tr.length = d2.getTrSetSize ∧ va.length = nva ∧
      (∀ i p, tr[i]? = some p → d2.trPosition i = .ok p ∧
        d2.trAt i = d2.at p) ∧
      (∀ i p, va[i]? = some p → d2.vaPosition i = .ok p ∧
        d2.vaAt i = d2.at p) ∧
      List.Disjoint tr va ∧ (tr ++ va).Perm (List.range d.getSize) ∧
      d2.startIndexFold k = .ok s ∧ d2.endIndexFold k = .ok e ∧
      (∀ p, p ∈ va ↔ s ≤ p ∧ p < e) := by
  -- the state after setFolds
  have hset : d.setFolds F = Dataset.makeTrAccessVector
      { d with folds := F, vafold := 0 } := by
    unfold Dataset.setFolds
    have h1 : ¬ F > d.dataset.length := by omega
    have h2 : ¬ F = 0 := by omega
    simp only [h1, h2, if_false]
  rw [Dataset.makeTrAccessVector_ok _ (by show 0 < F; omega)] at hset
  obtain ⟨d1, hd1, hfolds1, hds1⟩ : ∃ d1, d.setFolds F = .ok d1 ∧
      d1.folds = F ∧ d1.dataset = d.dataset := ⟨_, hset, rfl, rfl⟩
  clear hset
  -- the state after setValidationFold
  have hva : d1.setValidationFold k = Dataset.makeTrAccessVector
      { d1 with vafold := k } := by
    unfold Dataset.setValidationFold
    have h1 : ¬ k ≥ d1.folds := by omega
    have h2 : ¬ d1.folds = 1 := by omega
    simp only [h1, h2, if_false]
  rw [Dataset.makeTrAccessVector_ok _ (by show k < d1.folds; omega)] at hva
  have hne : ¬ F = 1 := by omega
  simp only [hfolds1, hds1, hne, if_false] at hva
  generalize hq : d.dataset.length / F = q at hva
  generalize hr : d.dataset.length % F = r at hva
  obtain ⟨d2, hd2, hfolds2, hds2, hvaf2, htrav2⟩ :
      ∃ d2, d1.setValidationFold k = .ok d2 ∧ d2.folds = F ∧
        d2.dataset = d.dataset ∧ d2.vafold = k ∧
        d2.trav = (List.range d.dataset.length).filter (fun i => decide
          (i < k * q + min k r ∨ (k + 1) * q + min (k + 1) r ≤ i)) :=
    ⟨_, hva, rfl, rfl, rfl, rfl⟩
  clear hva
  have hkf : k < d2.folds := by omega
  have hs := Dataset.startIndexFold_ok d2 k hkf
  have he := Dataset.endIndexFold_ok d2 k hkf
  have hdim := Dataset.foldDimension_ok d2 k hkf
  rw [hfolds2, hds2, hq, hr] at hs he hdim
  -- arithmetic of the fold bounds
  have hrF : r < F := by rw [← hr]; exact Nat.mod_lt _ (by omega)
  have hdm : F * q + r = d.dataset.length := by
    rw [← hq, ← hr]; exact Nat.div_add_mod _ _
  have hmul : (k + 1) * q ≤ F * q := Nat.mul_le_mul_right q (by omega)
  have hsucc : (k + 1) * q = k * q + q := Nat.succ_mul k q
  generalize hs' : k * q + min k r = s at *
  generalize he' : (k + 1) * q + min (k + 1) r = e at *
  have hse : s ≤ e := by rw [← hs', ← he', hsucc]; omega
  have heN : e ≤ d.dataset.length := by rw [← he', ← hdm]; omega
  have hn : (if k < r then q + 1 else q) = e - s := by
    rw [← hs', ← he', hsucc]; split <;> omega
  rw [hn] at hdim
  have hvasz : d2.getVaSetSize = .ok (e - s) := by
    unfold Dataset.getVaSetSize
    have h1 : ¬ d2.folds ≤ 1 := by omega
    simp only [h1, if_false, hvaf2, hdim]
  have hvap : ∀ i, i < e - s → d2.vaPosition i = .ok (s + i) := by
    intro i hi
    unfold Dataset.vaPosition
    have h1 : ¬ (i ≥ e - s ∨ d2.folds ≤ 1) := by omega
    simp only [hvaf2, hdim, hs, bind, Except.bind, h1, if_false, pure,
      Except.pure]
  have hmemva : ∀ p, p ∈ (List.range (e - s)).map (fun i => s + i) ↔
      s ≤ p ∧ p < e := by
    intro p
    simp only [List.mem_map, List.mem_range]
    constructor
    · rintro ⟨i, hi, rfl⟩; omega
    · intro h; exact ⟨p - s, by omega, by omega⟩
  have hmemtr : ∀ p, p ∈ d2.trav ↔ p < d.dataset.length ∧ (p < s ∨ e ≤ p) := by
    intro p
    rw [htrav2]
    simp [List.mem_filter]
  have hdisj : List.Disjoint d2.trav ((List.range (e - s)).map (fun i => s + i)) := by
    intro p h1 h2
    rw [hmemtr] at h1
    rw [hmemva] at h2
    omega
  have hnd1 : d2.trav.Nodup := by
    rw [htrav2]; exact (List.nodup_range _).filter _
  have hnd2 : ((List.range (e - s)).map (fun i => s + i)).Nodup :=
    (List.nodup_range _).map (fun a b h => by simpa using h)
  have hperm : (d2.trav ++ (List.range (e - s)).map (fun i => s + i)).Perm
      (List.range d.dataset.length) := by
    rw [List.perm_ext_iff_of_nodup
      (List.nodup_append.2 ⟨hnd1, hnd2, hdisj⟩) (List.nodup_range _)]
    intro p
    rw [List.mem_append, hmemtr, hmemva, List.mem_range]
    omega
  refine ⟨d1, d2, d2.trav, (List.range (e - s)).map (fun i => s + i), e - s,
    s, e, hd1, hd2, ?_, hvasz, ?_, Dataset.trPositions_ok d2, ?_, rfl, by simp,
    ?_, ?_, hdisj, hperm, hs, he, hmemva⟩
  · simp [Dataset.getSize, hds2]
  · have hl := hperm.length_eq
    simp only [List.length_append, List.length_map, List.length_range] at hl
    exact hl
  · unfold Dataset.vaPositions
    simp only [hvasz, bind, Except.bind]
    exact collect_ok_map _ _ _ hvap
  · intro i p hip
    have hi : i < d2.trav.length := by
      exact (List.getElem?_eq_some_iff.1 hip).1
    have hpos : d2.trPosition i = .ok p := by
      unfold Dataset.trPosition rawGet
      have h : ¬ i ≥ d2.trav.length := by omega
      simp only [h, if_false, hip]
    exact ⟨hpos, by unfold Dataset.trAt; simp only [hpos, bind, Except.bind]⟩
  · intro i p hip
    obtain ⟨hi, hp⟩ := List.getElem?_eq_some_iff.1 hip
    simp only [List.length_map, List.length_range] at hi
    simp only [List.getElem_map, List.getElem_range] at hp
    have hpos : d2.vaPosition i = .ok p := by rw [hvap i hi, hp]
    exact ⟨hpos, by unfold Dataset.vaAt; simp only [hpos, bind, Except.bind]⟩

/-- Witness of C2: ten instances, five folds, validation on fold `0`; the
validation positions are `0, 1` and the training positions `2, ..., 9`. -/
theorem C2_partition_witness :
    (∃ d1 d2 tr va nva s e, (sampleDataset 10).setFolds 5 = .ok d1 ∧
      d1.setValidationFold 0 = .ok d2 ∧ d2.getSize = (sampleDataset 10).getSize ∧
      d2.getVaSetSize = .ok nva ∧ d2.getTrSetSize + nva = (sampleDataset 10).getSize ∧
      d2.trPositions = .ok tr ∧ d2.vaPositions = .ok va ∧
      tr.length = d2.getTrSetSize ∧ va.length = nva ∧
      (∀ i p, tr[i]? = some p → d2.trPosition i = .ok p ∧
        d2.trAt i = d2.at p) ∧
      (∀ i p, va[i]? = some p → d2.vaPosition i = .ok p ∧
        d2.vaAt i = d2.at p) ∧
      List.Disjoint tr va ∧ (tr ++ va).Perm (List.range (sampleDataset 10).getSize) ∧
      d2.startIndexFold 0 = .ok s ∧ d2.endIndexFold 0 = .ok e ∧
      (∀ p, p ∈ va ↔ s ≤ p ∧ p < e)) ∧
    ((sampleDataset 10).setFolds 5 >>= fun d1 => d1.setValidationFold 0 >>=
      fun d2 => d2.vaPositions) = .ok [0, 1] ∧
    ((sampleDataset 10).setFolds 5 >>= fun d1 => d1.setValidationFold 0 >>=
      fun d2 => d2.trPositions) = .ok [2, 3, 4, 5, 6, 7, 8, 9] :=
  ⟨C2_partition (sampleDataset 10) 5 0 (by decide) (by decide) (by decide),
    by rfl, by rfl⟩

section UnitFacts

variable {R : Type} [LinearOrderedField R]

theorem rawGet_ok {α : Type} (v : List α) (i : Nat) (h : i < v.length) :
    rawGet v i = .ok (v.get ⟨i, h⟩) := by
  unfold rawGet
  rw [List.getElem?_eq_getElem h]
  rfl

theorem rawGet_getD (v : List R) (i : Nat) (h : i < v.length) :
    rawGet v i = .ok (v.getD i 0) := by
  rw [rawGet_ok v i h]
  simp [List.getD_eq_getElem?_getD, List.getElem?_eq_getElem h]

theorem rawGet_of_get? {α : Type} (v : List α) (i : Nat) (a : α)
    (h : v[i]? = some a) : rawGet v i = .ok a := by
  unfold rawGet; rw [h]

theorem atGet_of_get? {α : Type} (v : List α) (i : Nat) (a : α)
    (h : v[i]? = some a) : atGet v i = .ok a := by
  unfold atGet; rw [h]

theorem atGet_none {α : Type} (v : List α) (i : Nat)
    (h : v[i]? = none) : atGet v i = .error .out_of_range := by
  unfold atGet; rw [h]

theorem rawSet_ok {α : Type} (v : List α) (i : Nat) (x : α) (h : i < v.length) :
    rawSet v i x = .ok (v.set i x) := by
  unfold rawSet; simp [h]

theorem Unit.calcOutput_ok (exp : R → R) (u : Unit R)
    (hw : u.weights.length = u.numberOfWeights)
    (hi : u.inputs.length = u.numberOfWeights) :
    u.calcOutput exp =
      .ok (sigmoid exp (weightedSum u.weights u.inputs u.numberOfWeights)) := by
  unfold Unit.calcOutput
  obtain ⟨net, hnet, hP⟩ := foldlM_range_inv
    (fun (net : R) i => do
      let w ← rawGet u.weights i
      let x ← rawGet u.inputs i
      pure (net + w * x))
    (fun i net => net = weightedSum u.weights u.inputs i)
    u.numberOfWeights 0 (by simp [weightedSum])
    (by
      intro i s hi' hs
      refine ⟨s + u.weights.getD i 0 * u.inputs.getD i 0, ?_, ?_⟩
      · simp only [rawGet_getD u.weights i (by omega),
          rawGet_getD u.inputs i (by omega), bind, Except.bind, pure,
          Except.pure]
      · rw [hs]; simp [weightedSum, Finset.sum_range_succ])
  rw [hnet]
  simp [bind, Except.bind, pure, Except.pure, hP, Unit.activationFunction,
    sigmoid]

theorem Unit.computeOutput_ok (exp : R → R) (u : Unit R)
    (hw : u.weights.length = u.numberOfWeights)
    (hi : u.inputs.length = u.numberOfWeights) :
    u.computeOutput exp =
      .ok (sigmoid exp (weightedSum u.weights u.inputs u.numberOfWeights),
        { u with lastOutput :=
          (sigmoid exp (weightedSum u.weights u.inputs u.numberOfWeights)) }) := by
  unfold Unit.computeOutput
  rw [Unit.calcOutput_ok exp u hw hi]
  rfl

omit [LinearOrderedField R] in
theorem Unit.setInput_ok (u : Unit R) (i : Nat) (x : R) (h1 : 1 ≤ i)
    (h2 : i ≤ u.numberOfInputs) (h3 : i < u.inputs.length) :
    u.setInput i x = .ok { u with inputs := u.inputs.set i x } := by
  unfold Unit.setInput
  have h : ¬ (i < 1 ∨ i > u.numberOfInputs) := by omega
  simp only [h, if_false, rawSet_ok _ _ _ h3, bind, Except.bind, pure,
    Except.pure]

end UnitFacts

/-- C7: for a unit of `k` inputs (`k+1` weights and cached inputs),
`computeOutput()` returns `1/(1+e^(-net))` with `net` the sum over
`i = 0..k` of `weight[i]*cachedInput[i]`; afterwards `getLastOutput()` is that
value, and the sizes, the weights and the cached inputs are as before. -/
theorem C7_computeOutput {R : Type} [LinearOrderedField R] (exp : R → R)
    (u : Unit R) (hu : u.Sized) :
    ∃ u', u.computeOutput exp =
        .ok (1 / (1 + exp (-(∑ i in Finset.range (u.numberOfInputs + 1),
          u.weights.getD i 0 * u.inputs.getD i 0))), u') ∧
      u'.getLastOutput = 1 / (1 + exp (-(∑ i in Finset.range (u.numberOfInputs + 1),
          u.weights.getD i 0 * u.inputs.getD i 0))) ∧
      u'.weights = u.weights ∧ u'.inputs = u.inputs ∧
      u'.numberOfInputs = u.numberOfInputs ∧
      u'.numberOfWeights = u.numberOfWeights := by
  obtain ⟨h1, h2, h3⟩ := hu
  refine ⟨{ u with lastOutput :=
    (sigmoid exp (weightedSum u.weights u.inputs u.numberOfWeights)) },
    ?_, ?_, rfl, rfl, rfl, rfl⟩
  · rw [Unit.computeOutput_ok exp u h2 h3]
    simp only [sigmoid, weightedSum, h1]
  · simp only [Unit.getLastOutput, sigmoid, weightedSum, h1]

/-- Witness of C7: weights `[0,1,1]` and cached inputs `[1,0,1]` give
`net = 1` and the output `1/(1+e^(-1))`, over the reals. -/
theorem C7_computeOutput_witness :
    (∃ u', Unit.computeOutput Real.exp (⟨2, 3, [1, 0, 1], [0, 1, 1], 0⟩ : Unit ℝ) =
        .ok (1 / (1 + Real.exp (-(∑ i in Finset.range (2 + 1),
          ([0, 1, 1] : List ℝ).getD i 0 * ([1, 0, 1] : List ℝ).getD i 0))), u') ∧
      u'.getLastOutput = 1 / (1 + Real.exp (-(∑ i in Finset.range (2 + 1),
          ([0, 1, 1] : List ℝ).getD i 0 * ([1, 0, 1] : List ℝ).getD i 0))) ∧
      u'.weights = [0, 1, 1] ∧ u'.inputs = [1, 0, 1] ∧
      u'.numberOfInputs = 2 ∧ u'.numberOfWeights = 3) ∧
    (∑ i in Finset.range (2 + 1),
      ([0, 1, 1] : List ℝ).getD i 0 * ([1, 0, 1] : List ℝ).getD i 0) = 1 :=
  ⟨C7_computeOutput Real.exp ⟨2, 3, [1, 0, 1], [0, 1, 1], 0⟩ ⟨rfl, rfl, rfl⟩,
    by simp [Finset.sum_range_succ]⟩

section NetworkFacts

variable {R : Type} [LinearOrderedField R]

omit [LinearOrderedField R] in
theorem NeuralNetwork.unitAt_of_unit? (n : NeuralNetwork R) (l u : Nat)
    (a : Unit R) (h : n.unit? l u = some a) : n.unitAt l u = .ok a := by
  unfold NeuralNetwork.unit? at h
  unfold NeuralNetwork.unitAt
  cases hl : n.network[l]? with
  | none => simp [hl] at h
  | some layer =>
    simp only [hl, Option.some_bind] at h
    simp only [atGet_of_get? _ _ _ hl, atGet_of_get? _ _ _ h, bind, Except.bind]

omit [LinearOrderedField R] in
theorem NeuralNetwork.unit?_putUnit (n : NeuralNetwork R) (l u : Nat)
    (x : Unit R) (l' u' : Nat) :
    (n.putUnit l u x).unit? l' u' =
      if l' = l ∧ u' = u then (n.unit? l u).map (fun _ => x)
      else n.unit? l' u' := by
  unfold NeuralNetwork.unit? NeuralNetwork.putUnit
  by_cases hl : l' = l
  · subst hl
    cases hg : n.network[l']? with
    | none =>
      have : ¬ l' < n.network.length := by
        intro hlt; simp [List.getElem?_eq_getElem hlt] at hg
      simp [List.getElem?_set, this, hg]
    | some layer =>
      have hlt : l' < n.network.length := by
        by_contra hc
        simp [List.getElem?_eq_none (Nat.le_of_not_lt hc)] at hg
      simp only [List.getElem?_set, hlt, if_true, Option.some_bind,
        List.getD_eq_getElem?_getD, hg, Option.getD_some, true_and]
      by_cases hu : u' = u
      · subst hu
        by_cases hul : u' < layer.length
        · simp [hul, List.getElem?_eq_getElem hul]
        · simp [hul, List.getElem?_eq_none (Nat.le_of_not_lt hul)]
      · simp [hu, Ne.symm hu]
  · simp [hl, List.getElem?_set, Ne.symm hl]

omit [LinearOrderedField R] in
theorem NeuralNetwork.dims_putUnit (n : NeuralNetwork R) (l u : Nat)
    (x : Unit R) : (n.putUnit l u x).dims = n.dims := by
  unfold NeuralNetwork.dims NeuralNetwork.putUnit
  apply List.ext_getElem?
  intro i
  simp only [List.getElem?_map, List.getElem?_set]
  by_cases hi : l = i
  · subst hi
    by_cases hlt : l < n.network.length
    · simp [hlt, List.getD_eq_getElem?_getD, List.getElem?_eq_getElem hlt]
    · simp [hlt, List.getElem?_eq_none (Nat.le_of_not_lt hlt)]
  · simp [hi]


omit [LinearOrderedField R] in
theorem NeuralNetwork.checkedUnit_eq (n : NeuralNetwork R) (l u : Nat) :
    n.checkedUnit l u =
      if l < n.nlayers then
        (match n.unit? l u with
          | some a => .ok a
          | none => .error .out_of_range)
      else .error .out_of_range := by
  unfold NeuralNetwork.checkedUnit NeuralNetwork.unit?
  by_cases hl : l < n.nlayers
  · have hl' : ¬ l ≥ n.nlayers := by omega
    simp only [hl, hl', if_true, if_false]
    cases hg : n.network[l]? with
    | none => simp [atGet_none _ _ hg, bind, Except.bind]
    | some layer =>
      simp only [atGet_of_get? _ _ _ hg, bind, Except.bind, Option.some_bind]
      by_cases hu : u < layer.length
      · have hu' : ¬ u ≥ layer.length := by omega
        simp [hu', atGet, List.getElem?_eq_getElem hu]
      · have hu' : u ≥ layer.length := by omega
        simp [hu', List.getElem?_eq_none hu']
  · have hl' : l ≥ n.nlayers := by omega
    simp [hl, hl']

omit [LinearOrderedField R] in
theorem NeuralNetwork.checkedUnit_ok (n : NeuralNetwork R) (l u : Nat)
    (a : Unit R) (hl : l < n.nlayers) (ha : n.unit? l u = some a) :
    n.checkedUnit l u = .ok a := by
  rw [NeuralNetwork.checkedUnit_eq]; simp [hl, ha]

omit [LinearOrderedField R] in
theorem NeuralNetwork.checkedWeight_ok (n : NeuralNetwork R) (l u k : Nat)
    (a : Unit R) (hl : l < n.nlayers) (ha : n.unit? l u = some a)
    (hk : k < a.numberOfWeights) : n.checkedWeight l u k = .ok a := by
  unfold NeuralNetwork.checkedWeight
  have hk' : ¬ k ≥ a.getNumberOfWeights := by
    unfold Unit.getNumberOfWeights; omega
  simp [NeuralNetwork.checkedUnit_ok n l u a hl ha, bind, Except.bind, hk',
    pure, Except.pure]

omit [LinearOrderedField R] in
theorem NeuralNetwork.checkedWeight_invalid (n : NeuralNetwork R) (l u k : Nat)
    (h : ¬ n.ValidIndex l u k) :
    n.checkedWeight l u k = .error .out_of_range := by
  unfold NeuralNetwork.checkedWeight
  rw [NeuralNetwork.checkedUnit_eq]
  by_cases hl : l < n.nlayers
  · cases ha : n.unit? l u with
    | none => simp [hl, bind, Except.bind]
    | some a =>
      have hk : k ≥ a.getNumberOfWeights := by
        unfold Unit.getNumberOfWeights
        by_contra hc
        exact h ⟨hl, a, ha, by omega⟩
      simp [hl, bind, Except.bind, hk]
  · simp [hl, bind, Except.bind]

omit [LinearOrderedField R] in
theorem NeuralNetwork.getWeight_eq (n : NeuralNetwork R) (l u k : Nat)
    (a : Unit R) (hl : l < n.nlayers) (ha : n.unit? l u = some a)
    (hk : k < a.numberOfWeights) :
    n.getWeight l u k = rawGet a.weights k := by
  unfold NeuralNetwork.getWeight
  have hk' : ¬ k ≥ a.numberOfWeights := by omega
  simp [NeuralNetwork.checkedWeight_ok n l u k a hl ha hk, bind, Except.bind,
    Unit.getWeight, hk']

omit [LinearOrderedField R] in
theorem NeuralNetwork.getWeight_invalid (n : NeuralNetwork R) (l u k : Nat)
    (h : ¬ n.ValidIndex l u k) :
    n.getWeight l u k = .error .out_of_range := by
  unfold NeuralNetwork.getWeight
  simp [NeuralNetwork.checkedWeight_invalid n l u k h, bind, Except.bind]

theorem NeuralNetwork.sumToWeight_ok (n : NeuralNetwork R) (l u k : Nat)
    (D : R) (a : Unit R) (hl : l < n.nlayers) (ha : n.unit? l u = some a)
    (hk : k < a.numberOfWeights) (hw : k < a.weights.length) :
    n.sumToWeight l u k D = .ok (n.putUnit l u
      { a with weights := a.weights.set k (a.weights.getD k 0 + D) }) := by
  unfold NeuralNetwork.sumToWeight
  have hk' : ¬ k ≥ a.numberOfWeights := by omega
  simp [NeuralNetwork.checkedWeight_ok n l u k a hl ha hk, bind, Except.bind,
    Unit.sumToWeight, hk', rawGet_getD _ _ hw, rawSet_ok _ _ _ hw, pure,
    Except.pure]

end NetworkFacts

/-- C9: for a valid index triple (of a unit that has as many weights as it
declares) `sumToWeight(layer,unit,idx,D)` succeeds, `getWeight` then returns
the old weight plus `D`, and `getWeight` of every other triple is as before;
for an invalid triple `sumToWeight` fails with the out-of-range condition (the
state is passed on only on success, so no weight changes). -/
theorem C9_sumToWeight {R : Type} [LinearOrderedField R] (n : NeuralNetwork R)
    (l u idx : Nat) (D : R) :
    (n.ValidIndex l u idx →
      (∀ a, n.unit? l u = some a → a.weights.length = a.numberOfWeights) →
      ∃ w n', n.getWeight l u idx = .ok w ∧
        n.sumToWeight l u idx D = .ok n' ∧
        n'.getWeight l u idx = .ok (w + D) ∧
        ∀ l' u' k', ¬ (l' = l ∧ u' = u ∧ k' = idx) →
          n'.getWeight l' u' k' = n.getWeight l' u' k') ∧
    (¬ n.ValidIndex l u idx →
      n.sumToWeight l u idx D = .error .out_of_range) := by
  constructor
  · rintro ⟨hl, a, ha, hk⟩ hs
    have hw : idx < a.weights.length := by rw [hs a ha]; exact hk
    obtain ⟨a', ha'⟩ : ∃ a' : Unit R, a' =
        { a with weights := a.weights.set idx (a.weights.getD idx 0 + D) } :=
      ⟨_, rfl⟩
    obtain ⟨n', hn'⟩ : ∃ n' : NeuralNetwork R, n' = n.putUnit l u a' := ⟨_, rfl⟩
    have hput : ∀ l' u', n'.unit? l' u' =
        if l' = l ∧ u' = u then some a' else n.unit? l' u' := by
      intro l' u'
      rw [hn', NeuralNetwork.unit?_putUnit, ha]; rfl
    have hlay : n'.nlayers = n.nlayers := by rw [hn']; rfl
    have hself : n'.unit? l u = some a' := by rw [hput]; simp
    have hnw : a'.numberOfWeights = a.numberOfWeights := by rw [ha']
    have hws : a'.weights = a.weights.set idx (a.weights.getD idx 0 + D) := by
      rw [ha']
    refine ⟨a.weights.getD idx 0, n', ?_, ?_, ?_, ?_⟩
    · rw [NeuralNetwork.getWeight_eq n l u idx a hl ha hk, rawGet_getD _ _ hw]
    · rw [hn', ha']
      exact NeuralNetwork.sumToWeight_ok n l u idx D a hl ha hk hw
    · rw [NeuralNetwork.getWeight_eq n' l u idx a' (by omega) hself (by omega),
        hws]
      simp [rawGet, hw]
    · intro l' u' k' hne
      by_cases hv : n.ValidIndex l' u' k'
      · obtain ⟨hl', b, hb, hk'⟩ := hv
        by_cases hlu : l' = l ∧ u' = u
        · obtain ⟨rfl, rfl⟩ := hlu
          have hba : b = a := by rw [ha] at hb; exact (Option.some.inj hb).symm
          subst hba
          have hki : idx ≠ k' := fun h => hne ⟨rfl, rfl, h.symm⟩
          rw [NeuralNetwork.getWeight_eq n' l' u' k' a' (by omega) hself (by omega),
            NeuralNetwork.getWeight_eq n l' u' k' b hl' ha hk', hws]
          simp [rawGet, List.getElem?_set, hki]
        · have hb' : n'.unit? l' u' = some b := by rw [hput]; simp [hlu, hb]
          rw [NeuralNetwork.getWeight_eq n' l' u' k' b (by omega) hb' hk',
            NeuralNetwork.getWeight_eq n l' u' k' b hl' hb hk']
      · rw [NeuralNetwork.getWeight_invalid n l' u' k' hv]
        apply NeuralNetwork.getWeight_invalid
        rintro ⟨hl', b, hb, hk'⟩
        apply hv
        rw [hput] at hb
        by_cases hlu : l' = l ∧ u' = u
        · obtain ⟨rfl, rfl⟩ := hlu
          simp at hb
          subst hb
          exact ⟨by omega, a, ha, by omega⟩
        · simp [hlu] at hb
          exact ⟨by omega, b, hb, hk'⟩
  · intro h
    unfold NeuralNetwork.sumToWeight
    simp [NeuralNetwork.checkedWeight_invalid n l u idx h, bind, Except.bind]

/-- Witness of C9 on the sample network: the triple `(1,0,2)` is valid, the
triple `(0,0,3)` is not (a unit of two inputs has the weight indices
`0, 1, 2`). -/
theorem C9_sumToWeight_witness :
    (∃ w n', sampleNetwork.getWeight 1 0 2 = .ok w ∧
      sampleNetwork.sumToWeight 1 0 2 (1 / 2) = .ok n' ∧
      n'.getWeight 1 0 2 = .ok (w + 1 / 2) ∧
      ∀ l' u' k', ¬ (l' = 1 ∧ u' = 0 ∧ k' = 2) →
        n'.getWeight l' u' k' = sampleNetwork.getWeight l' u' k') ∧
    sampleNetwork.sumToWeight 0 0 3 (1 / 2) = .error .out_of_range :=
  ⟨(C9_sumToWeight sampleNetwork 1 0 2 (1 / 2)).1
      ⟨by decide, _, rfl, by decide⟩
      (fun a ha => by
        have h : a = sampleUnit [1 / 2, -1 / 2, 1 / 4] :=
          (Option.some.inj ha).symm
        rw [h]; rfl),
    (C9_sumToWeight sampleNetwork 0 0 3 (1 / 2)).2
      (fun ⟨_, a, ha, hk⟩ => by
        have h : a = sampleUnit [1 / 10, 1 / 5, -3 / 10] :=
          (Option.some.inj ha).symm
        rw [h] at hk
        exact absurd hk (by decide))⟩

section ForwardFacts

variable {R : Type} [LinearOrderedField R]

omit [LinearOrderedField R] in
theorem NeuralNetwork.unit?_dims (n : NeuralNetwork R) (l u : Nat) (a : Unit R)
    (h : n.unit? l u = some a) : ∃ d, n.dims[l]? = some d ∧ u < d := by
  unfold NeuralNetwork.unit? at h
  unfold NeuralNetwork.dims
  cases hl : n.network[l]? with
  | none => simp [hl] at h
  | some layer =>
    simp only [hl, Option.some_bind] at h
    refine ⟨layer.length, by simp [hl], ?_⟩
    exact (List.getElem?_eq_some_iff.1 h).1

omit [LinearOrderedField R] in
theorem NeuralNetwork.dims_unit? (n : NeuralNetwork R) (l u d : Nat)
    (h : n.dims[l]? = some d) (hu : u < d) : ∃ a, n.unit? l u = some a := by
  unfold NeuralNetwork.dims at h
  unfold NeuralNetwork.unit?
  cases hl : n.network[l]? with
  | none => simp [hl] at h
  | some layer =>
    simp only [List.getElem?_map, hl, Option.map_some', Option.some.injEq] at h
    subst h
    exact ⟨layer[u], by simp [List.getElem?_eq_getElem hu]⟩

omit [LinearOrderedField R] in
theorem NeuralNetwork.atGet_dims (n : NeuralNetwork R) (l d : Nat)
    (h : n.dims[l]? = some d) :
    ∃ layer, atGet n.network l = .ok layer ∧ layer.length = d := by
  unfold NeuralNetwork.dims at h
  cases hl : n.network[l]? with
  | none => simp [hl] at h
  | some layer =>
    simp only [List.getElem?_map, hl, Option.map_some', Option.some.injEq] at h
    exact ⟨layer, atGet_of_get? _ _ _ hl, h⟩

theorem layersWF_unit (prev : Nat) (ls : List (List (Unit R)))
    (h : layersWF prev ls) (l : Nat) (layer : List (Unit R))
    (hl : ls[l]? = some layer) (a : Unit R) (ha : a ∈ layer) :
    a.WF ∧ (l = 0 → a.numberOfInputs = prev) ∧
      (∀ l', l = l' + 1 → (ls.map List.length)[l']? = some a.numberOfInputs) := by
  induction ls generalizing prev l with
  | nil => simp at hl
  | cons x xs ih =>
    obtain ⟨hx, hxs⟩ := h
    cases l with
    | zero =>
      simp only [List.getElem?_cons_zero, Option.some.injEq] at hl
      subst hl
      exact ⟨(hx a ha).1, fun _ => (hx a ha).2, fun l' h => by omega⟩
    | succ l =>
      simp only [List.getElem?_cons_succ] at hl
      obtain ⟨h1, h2, h3⟩ := ih x.length hxs l hl
      refine ⟨h1, fun h => by omega, fun l' h => ?_⟩
      have hl' : l = l' := by omega
      subst hl'
      cases l with
      | zero => simp [h2 rfl]
      | succ l => simpa using h3 l rfl

theorem NeuralNetwork.wf_unit (n : NeuralNetwork R) (h : n.WF) (l u : Nat)
    (a : Unit R) (ha : n.unit? l u = some a) :
    a.WF ∧ (l = 0 → a.numberOfInputs = n.ninputs) ∧
      (∀ l', l = l' + 1 → n.dims[l']? = some a.numberOfInputs) := by
  unfold NeuralNetwork.unit? at ha
  cases hl : n.network[l]? with
  | none => simp [hl] at ha
  | some layer =>
    simp only [hl, Option.some_bind] at ha
    exact layersWF_unit n.ninputs n.network h.2.2.1 l layer hl a
      (List.getElem?_mem ha)

/-- What the frame and the invariant of the initial network give for a unit
of a later state. -/
theorem NeuralNetwork.frame_unit (n0 n : NeuralNetwork R) (h0 : n0.WF)
    (h : n0.Frame n) (l u : Nat) (a : Unit R) (ha : n.unit? l u = some a) :
    a.WF ∧ (l = 0 → a.numberOfInputs = n.ninputs) ∧
      (∀ l', l = l' + 1 → n.dims[l']? = some a.numberOfInputs) := by
  obtain ⟨hni, _, _, hd, _, hu⟩ := h
  obtain ⟨b, hb, h1, h2, h3, h4, h5⟩ := hu l u a ha
  obtain ⟨⟨⟨w1, w2, w3⟩, w4⟩, w5, w6⟩ := NeuralNetwork.wf_unit n0 h0 l u b hb
  refine ⟨⟨⟨by omega, by rw [h3]; omega, by omega⟩, by rw [h5]; exact w4⟩,
    fun hl => by rw [h1, hni]; exact w5 hl, fun l' hl => ?_⟩
  rw [hd, h1]; exact w6 l' hl

omit [LinearOrderedField R] in
theorem NeuralNetwork.frame_refl (n : NeuralNetwork R) : n.Frame n :=
  ⟨rfl, rfl, rfl, rfl, rfl, fun _ _ a ha => ⟨a, ha, rfl, rfl, rfl, rfl, rfl⟩⟩

omit [LinearOrderedField R] in
/-- Replacing a unit by one with the same weights keeps the frame. -/
theorem NeuralNetwork.frame_putUnit (n0 n : NeuralNetwork R) (h : n0.Frame n)
    (l u : Nat) (a a' : Unit R) (ha : n.unit? l u = some a)
    (hs : a'.SameWeights a) : n0.Frame (n.putUnit l u a') := by
  obtain ⟨h1, h2, h3, h4, h5, h6⟩ := h
  refine ⟨h1, h2, h3, by rw [NeuralNetwork.dims_putUnit]; exact h4, h5, ?_⟩
  intro l' u' c hc
  rw [NeuralNetwork.unit?_putUnit, ha] at hc
  by_cases hlu : l' = l ∧ u' = u
  · obtain ⟨rfl, rfl⟩ := hlu
    simp at hc
    subst hc
    obtain ⟨b, hb, hab⟩ := h6 l' u' a ha
    obtain ⟨s1, s2, s3, s4, s5⟩ := hs
    obtain ⟨t1, t2, t3, t4, t5⟩ := hab
    exact ⟨b, hb, by omega, by omega, by rw [s3, t3], by omega, by rw [s5, t5]⟩
  · simp [hlu] at hc
    exact h6 l' u' c hc

end ForwardFacts

section ForwardSteps

variable {R : Type} [LinearOrderedField R]

theorem NeuralNetwork.feedInput_ok (n0 n : NeuralNetwork R) (h0 : n0.WF)
    (h : n0.Frame n) (i j : Nat) (hi : i < n0.ninputs) (a : Unit R)
    (ha : n.unit? 0 j = some a) :
    NeuralNetwork.feedInput i n j = .ok (n.putUnit 0 j
      { a with inputs := a.inputs.set (i + 1) (n0.inputs.getD i 0) }) := by
  obtain ⟨⟨⟨w1, w2, w3⟩, _⟩, w5, _⟩ := NeuralNetwork.frame_unit n0 n h0 h 0 j a ha
  have hni : n.ninputs = n0.ninputs := h.1
  have hin : n.inputs = n0.inputs := h.2.2.1
  have hlen : i < n0.inputs.length := by rw [h0.2.1]; exact hi
  have hai := w5 rfl
  unfold NeuralNetwork.feedInput
  rw [NeuralNetwork.unitAt_of_unit? n 0 j a ha, hin, rawGet_getD _ _ hlen]
  simp only [bind, Except.bind]
  rw [Unit.setInput_ok a (i + 1) _ (by omega) (by omega) (by omega)]
  rfl

theorem NeuralNetwork.feedForward_ok (exp : R → R) (n0 n : NeuralNetwork R)
    (h0 : n0.WF) (h : n0.Frame n) (i j t : Nat) (a c : Unit R)
    (ha : n.unit? i j = some a) (hc : n.unit? (i + 1) t = some c) :
    NeuralNetwork.feedForward exp i j n t = .ok
      ((n.putUnit i j { a with lastOutput := a.out exp }).putUnit (i + 1) t
        { c with inputs := c.inputs.set (j + 1) (a.out exp) }) := by
  obtain ⟨⟨⟨w1, w2, w3⟩, _⟩, _, _⟩ := NeuralNetwork.frame_unit n0 n h0 h i j a ha
  obtain ⟨⟨⟨v1, v2, v3⟩, _⟩, _, v6⟩ :=
    NeuralNetwork.frame_unit n0 n h0 h (i + 1) t c hc
  obtain ⟨d, hd, hjd⟩ := NeuralNetwork.unit?_dims n i j a ha
  have hcd : c.numberOfInputs = d := by
    have := v6 i rfl
    rw [hd] at this
    exact (Option.some.inj this).symm
  have hc' : (n.putUnit i j { a with lastOutput := a.out exp }).unit? (i + 1) t
      = some c := by
    rw [NeuralNetwork.unit?_putUnit]
    have : ¬ (i + 1 = i ∧ t = j) := by omega
    simp [this, hc]
  unfold NeuralNetwork.feedForward
  rw [NeuralNetwork.unitAt_of_unit? n i j a ha]
  simp only [bind, Except.bind]
  rw [Unit.computeOutput_ok exp a w2 w3]
  simp only []
  rw [show sigmoid exp (weightedSum a.weights a.inputs a.numberOfWeights)
    = a.out exp from rfl, NeuralNetwork.unitAt_of_unit? _ (i + 1) t c hc']
  simp only []
  rw [Unit.setInput_ok c (j + 1) _ (by omega) (by omega) (by omega)]
  rfl

theorem NeuralNetwork.storeOutput_ok (exp : R → R) (n0 n : NeuralNetwork R)
    (h0 : n0.WF) (h : n0.Frame n) (hL : 1 ≤ n0.nlayers) (k : Nat) (a : Unit R)
    (ha : n.unit? (n0.nlayers - 1) k = some a) (hk : k < n.lastOutput.length) :
    NeuralNetwork.storeOutput exp n k = .ok
      { n.putUnit (n0.nlayers - 1) k { a with lastOutput := a.out exp } with
        lastOutput := n.lastOutput.set k (a.out exp) } := by
  obtain ⟨⟨⟨w1, w2, w3⟩, _⟩, _, _⟩ :=
    NeuralNetwork.frame_unit n0 n h0 h _ k a ha
  have hnl : n.nlayers = n0.nlayers := h.2.1
  have hup : upred n.nlayers = n0.nlayers - 1 := by
    unfold upred; rw [hnl]; simp; omega
  unfold NeuralNetwork.storeOutput
  rw [hup, NeuralNetwork.unitAt_of_unit? n _ k a ha]
  simp only [bind, Except.bind]
  rw [Unit.computeOutput_ok exp a w2 w3]
  simp only []
  rw [show (n.putUnit (n0.nlayers - 1) k
      { a with lastOutput :=
        (sigmoid exp (weightedSum a.weights a.inputs a.numberOfWeights)) }).lastOutput
      = n.lastOutput from rfl, rawSet_ok _ _ _ hk]
  rfl

end ForwardSteps

section ForwardLoops

variable {R : Type} [LinearOrderedField R]

omit [LinearOrderedField R] in
theorem NeuralNetwork.unit?_putUnit_cases (n : NeuralNetwork R) (l u : Nat)
    (a x : Unit R) (ha : n.unit? l u = some a) (l' u' : Nat) (b : Unit R)
    (hb : (n.putUnit l u x).unit? l' u' = some b) :
    (l' = l ∧ u' = u ∧ b = x) ∨
      (¬ (l' = l ∧ u' = u) ∧ n.unit? l' u' = some b) := by
  rw [NeuralNetwork.unit?_putUnit, ha] at hb
  by_cases h : l' = l ∧ u' = u
  · rw [if_pos h] at hb
    exact Or.inl ⟨h.1, h.2, (Option.some.inj hb).symm⟩
  · rw [if_neg h] at hb
    exact Or.inr ⟨h, hb⟩

omit [LinearOrderedField R] in
theorem Unit.sameWeights_out (a : Unit R) (y : R) :
    Unit.SameWeights { a with lastOutput := y } a :=
  ⟨rfl, rfl, rfl, rfl, rfl⟩

omit [LinearOrderedField R] in
theorem Unit.sameWeights_in (a : Unit R) (k : Nat) (x : R) :
    Unit.SameWeights { a with inputs := a.inputs.set (k + 1) x } a :=
  ⟨rfl, rfl, rfl, by simp, by simp [List.getElem?_set]⟩

/-- Caching an output in a unit does not disturb what another unit caches
and feeds. -/
theorem NeuralNetwork.unitFed_put_out (exp : R → R) (n : NeuralNetwork R)
    (l0 u0 : Nat) (a : Unit R) (ha : n.unit? l0 u0 = some a) (y : R)
    (l u : Nat) (hne : ¬ (l = l0 ∧ u = u0)) (h : n.UnitFed exp l u) :
    (n.putUnit l0 u0 { a with lastOutput := y }).UnitFed exp l u := by
  intro b hb
  rw [NeuralNetwork.unit?_putUnit] at hb
  simp only [hne, if_false] at hb
  obtain ⟨h1, h2⟩ := h b hb
  refine ⟨h1, ?_⟩
  intro t c hc
  rw [NeuralNetwork.unit?_putUnit, ha] at hc
  by_cases hlt : l + 1 = l0 ∧ t = u0
  · simp only [hlt, and_self, if_true, Option.map_some', Option.some.injEq] at hc
    subst hc
    obtain ⟨rfl, rfl⟩ := hlt
    exact h2 t a ha
  · simp only [hlt, if_false] at hc
    exact h2 t c hc

/-- Storing a cached input in a unit of layer `l1` does not disturb a unit
of another layer, as long as the input stored is not the one that unit
feeds. -/
theorem NeuralNetwork.unitFed_put_in (exp : R → R) (n : NeuralNetwork R)
    (l1 t1 : Nat) (c : Unit R) (hc : n.unit? l1 t1 = some c) (k : Nat) (x : R)
    (l u : Nat) (hl : l ≠ l1) (hk : l + 1 = l1 → u + 1 ≠ k)
    (h : n.UnitFed exp l u) :
    (n.putUnit l1 t1 { c with inputs := c.inputs.set k x }).UnitFed exp l u := by
  intro b hb
  rw [NeuralNetwork.unit?_putUnit] at hb
  have hne : ¬ (l = l1 ∧ u = t1) := fun h => hl h.1
  simp only [hne, if_false] at hb
  obtain ⟨h1, h2⟩ := h b hb
  refine ⟨h1, ?_⟩
  intro t c' hc'
  rw [NeuralNetwork.unit?_putUnit, hc] at hc'
  by_cases hlt : l + 1 = l1 ∧ t = t1
  · simp only [hlt, and_self, if_true, Option.map_some', Option.some.injEq] at hc'
    subst hc'
    obtain ⟨rfl, rfl⟩ := hlt
    have hk' : k ≠ u + 1 := fun e => hk rfl e.symm
    simp only [List.getElem?_set, hk', if_false]
    exact h2 t c hc
  · simp only [hlt, if_false] at hc'
    exact h2 t c' hc'

omit [LinearOrderedField R] in
theorem NeuralNetwork.inputsFed_put_out (n : NeuralNetwork R)
    (l0 u0 : Nat) (a : Unit R) (ha : n.unit? l0 u0 = some a) (y : R) (k : Nat)
    (h : n.InputsFed k) :
    (n.putUnit l0 u0 { a with lastOutput := y }).InputsFed k := by
  intro u b hb i hi
  rw [NeuralNetwork.unit?_putUnit, ha] at hb
  by_cases hlt : 0 = l0 ∧ u = u0
  · simp only [hlt, and_self, if_true, Option.map_some', Option.some.injEq] at hb
    subst hb
    obtain ⟨rfl, rfl⟩ := hlt
    exact h u a ha i hi
  · simp only [hlt, if_false] at hb
    exact h u b hb i hi

omit [LinearOrderedField R] in
theorem NeuralNetwork.inputsFed_put_in (n : NeuralNetwork R)
    (l1 t1 : Nat) (c : Unit R) (j : Nat) (x : R) (k : Nat)
    (hl : l1 ≠ 0) (h : n.InputsFed k) :
    (n.putUnit l1 t1 { c with inputs := c.inputs.set j x }).InputsFed k := by
  intro u b hb i hi
  rw [NeuralNetwork.unit?_putUnit] at hb
  have hne : ¬ (0 = l1 ∧ u = t1) := fun h => hl h.1.symm
  simp only [hne, if_false] at hb
  exact h u b hb i hi

/-- The first loop nest of `compute` caches the network inputs in the units
of the first layer. -/
theorem NeuralNetwork.feedInputs_ok (n0 : NeuralNetwork R) (h0 : n0.WF)
    (d0 : Nat) (hd0 : n0.dims[0]? = some d0) :
    ∃ n1, n0.feedInputs = .ok n1 ∧ n0.Frame n1 ∧ n1.InputsFed n0.ninputs := by
  unfold NeuralNetwork.feedInputs
  apply foldlM_range_inv _ (fun i n => n0.Frame n ∧ n.InputsFed i)
  · exact ⟨NeuralNetwork.frame_refl n0, fun _ _ _ i hi => by omega⟩
  · rintro i n hi ⟨hF, hI⟩
    have hdn : n.dims[0]? = some d0 := by rw [hF.2.2.2.1]; exact hd0
    obtain ⟨layer, hlayer, hlen⟩ := NeuralNetwork.atGet_dims n 0 d0 hdn
    simp only [hlayer, bind, Except.bind, hlen]
    have hx : n0.inputs[i]? = some (n0.inputs.getD i 0) := by
      have : i < n0.inputs.length := by rw [h0.2.1]; exact hi
      simp [List.getD_eq_getElem?_getD, List.getElem?_eq_getElem this]
    obtain ⟨n', hn', hF', hI', hJ'⟩ := foldlM_range_inv
      (NeuralNetwork.feedInput i)
      (fun j n => n0.Frame n ∧ n.InputsFed i ∧
        ∀ u a, n.unit? 0 u = some a → u < j → a.inputs[i + 1]? = n0.inputs[i]?)
      d0 n ⟨hF, hI, fun _ _ _ h => by omega⟩
      (by
        rintro j m hj ⟨hFm, hIm, hJm⟩
        have hdm : m.dims[0]? = some d0 := by rw [hFm.2.2.2.1]; exact hd0
        obtain ⟨a, ha⟩ := NeuralNetwork.dims_unit? m 0 j d0 hdm hj
        obtain ⟨⟨⟨w1, w2, w3⟩, _⟩, w5, _⟩ :=
          NeuralNetwork.frame_unit n0 m h0 hFm 0 j a ha
        have hai : a.numberOfInputs = n0.ninputs := by rw [w5 rfl, hFm.1]
        refine ⟨_, NeuralNetwork.feedInput_ok n0 m h0 hFm i j hi a ha,
          NeuralNetwork.frame_putUnit n0 m hFm 0 j a _ ha
            (Unit.sameWeights_in a i _), ?_, ?_⟩
        · intro u b hb i' hi'
          rcases NeuralNetwork.unit?_putUnit_cases m 0 j a _ ha 0 u b hb with
            ⟨_, rfl, rfl⟩ | ⟨_, hb'⟩
          · have hne : i + 1 ≠ i' + 1 := by omega
            simp only [List.getElem?_set, hne, if_false]
            exact hIm u a ha i' hi'
          · exact hIm u b hb' i' hi'
        · intro u b hb hu
          rcases NeuralNetwork.unit?_putUnit_cases m 0 j a _ ha 0 u b hb with
            ⟨_, rfl, rfl⟩ | ⟨hne, hb'⟩
          · have hlen : i + 1 < a.inputs.length := by omega
            simp only [List.getElem?_set, hlen, if_true, hx]
          · have : u ≠ j := fun e => hne ⟨rfl, e⟩
            exact hJm u b hb' (by omega))
    refine ⟨n', hn', hF', ?_⟩
    intro u a ha i' hi'
    by_cases hii : i' < i
    · exact hI' u a ha i' hii
    · have hie : i' = i := by omega
      subst hie
      obtain ⟨d, hd, hud⟩ := NeuralNetwork.unit?_dims n' 0 u a ha
      rw [hF'.2.2.2.1, hd0] at hd
      have hdd : d0 = d := Option.some.inj hd
      rw [hJ' u a ha (by omega), hF'.2.2.1]

end ForwardLoops

section ForwardLoops2

variable {R : Type} [LinearOrderedField R]

omit [LinearOrderedField R] in
theorem NeuralNetwork.dims_of_lt (n0 : NeuralNetwork R)
    (hlen : n0.network.length = n0.nlayers)
    (hne : ∀ layer ∈ n0.network, layer ≠ []) (i : Nat) (hi : i < n0.nlayers) :
    ∃ d, n0.dims[i]? = some d ∧ 0 < d := by
  have hi' : i < n0.network.length := by omega
  refine ⟨(n0.network[i]).length, ?_, ?_⟩
  · unfold NeuralNetwork.dims
    simp [List.getElem?_eq_getElem hi']
  · exact List.length_pos.2 (hne _ (List.getElem_mem hi'))

omit [LinearOrderedField R] in
theorem NeuralNetwork.dims_at (n0 : NeuralNetwork R)
    (hlen : n0.network.length = n0.nlayers) (i : Nat) (hi : i < n0.nlayers) :
    ∃ d, n0.dims[i]? = some d := by
  have hi' : i < n0.network.length := by omega
  refine ⟨(n0.network[i]).length, ?_⟩
  unfold NeuralNetwork.dims
  simp [List.getElem?_eq_getElem hi']

theorem Unit.out_lastOutput (exp : R → R) (a : Unit R) (y : R) :
    Unit.out exp { a with lastOutput := y } = Unit.out exp a := rfl

/-- The innermost loop of the second loop nest: unit `j` of layer `i` gets
its output cached, and the output becomes cached input `j+1` of every unit of
layer `i+1`. -/
theorem NeuralNetwork.feedUnit_ok (exp : R → R) (n0 m : NeuralNetwork R)
    (G : Nat → Prop)
    (h0 : n0.WF) (i j d1 : Nat) (hd1 : n0.dims[i + 1]? = some d1)
    (hpos : 0 < d1) (a : Unit R) (ha : m.unit? i j = some a)
    (hF : n0.Frame m) (hI : m.InputsFed n0.ninputs)
    (hA : ∀ l, l < i → G l → ∀ u, m.UnitFed exp l u)
    (hB : ∀ u, u < j → m.UnitFed exp i u) :
    ∃ m', NeuralNetwork.feedUnit exp i m j = .ok m' ∧ n0.Frame m' ∧
      m'.InputsFed n0.ninputs ∧ (∀ l, l < i → G l → ∀ u, m'.UnitFed exp l u) ∧
      (∀ u, u < j + 1 → m'.UnitFed exp i u) := by
  unfold NeuralNetwork.feedUnit
  have hdm : m.dims[i + 1]? = some d1 := by rw [hF.2.2.2.1]; exact hd1
  obtain ⟨layer, hlayer, hlen⟩ := NeuralNetwork.atGet_dims m (i + 1) d1 hdm
  simp only [hlayer, bind, Except.bind, hlen]
  obtain ⟨m', hm', hF', hI', hA', hB', a', ha', hout, hlast, hfed⟩ :=
    foldlM_range_inv (NeuralNetwork.feedForward exp i j)
      (fun t n => n0.Frame n ∧ n.InputsFed n0.ninputs ∧
        (∀ l, l < i → G l → ∀ u, n.UnitFed exp l u) ∧
        (∀ u, u < j → n.UnitFed exp i u) ∧
        ∃ a', n.unit? i j = some a' ∧ a'.out exp = a.out exp ∧
          (0 < t → a'.lastOutput = a.out exp) ∧
          ∀ t' c, t' < t → n.unit? (i + 1) t' = some c →
            c.inputs[j + 1]? = some (a.out exp))
      d1 m
      ⟨hF, hI, hA, hB, a, ha, rfl, fun h => by omega, fun _ _ h => by omega⟩
      (by
        rintro t p ht ⟨hFp, hIp, hAp, hBp, a', ha', hout, hlast, hfed⟩
        have hdp : p.dims[i + 1]? = some d1 := by rw [hFp.2.2.2.1]; exact hd1
        obtain ⟨c, hc⟩ := NeuralNetwork.dims_unit? p (i + 1) t d1 hdp ht
        obtain ⟨⟨⟨v1, v2, v3⟩, _⟩, _, v6⟩ :=
          NeuralNetwork.frame_unit n0 p h0 hFp (i + 1) t c hc
        obtain ⟨d, hd, hjd⟩ := NeuralNetwork.unit?_dims p i j a' ha'
        have hcd : c.numberOfInputs = d := by
          have := v6 i rfl
          rw [hd] at this
          exact (Option.some.inj this).symm
        have hc1 : (p.putUnit i j { a' with lastOutput := a'.out exp }).unit?
            (i + 1) t = some c := by
          rw [NeuralNetwork.unit?_putUnit]
          have : ¬ (i + 1 = i ∧ t = j) := by omega
          simp [this, hc]
        have hF1 := NeuralNetwork.frame_putUnit n0 p hFp i j a' _ ha'
          (Unit.sameWeights_out a' (a'.out exp))
        refine ⟨_, NeuralNetwork.feedForward_ok exp n0 p h0 hFp i j t a' c ha' hc,
          NeuralNetwork.frame_putUnit n0 _ hF1 (i + 1) t c _ hc1
            (Unit.sameWeights_in c j _), ?_, ?_, ?_, ?_⟩
        · exact NeuralNetwork.inputsFed_put_in _ _ _ _ _ _ _ (by omega)
            (NeuralNetwork.inputsFed_put_out p i j a' ha' _ _ hIp)
        · intro l hl hg u
          exact NeuralNetwork.unitFed_put_in exp _ (i + 1) t c hc1 _ _ l u
            (by omega) (by omega)
            (NeuralNetwork.unitFed_put_out exp p i j a' ha' _ l u (by omega)
              (hAp l hl hg u))
        · intro u hu
          exact NeuralNetwork.unitFed_put_in exp _ (i + 1) t c hc1 _ _ i u
            (by omega) (by omega)
            (NeuralNetwork.unitFed_put_out exp p i j a' ha' _ i u (by omega)
              (hBp u hu))
        · refine ⟨{ a' with lastOutput := a'.out exp }, ?_, hout,
            fun _ => hout, ?_⟩
          · rw [NeuralNetwork.unit?_putUnit]
            have : ¬ (i = i + 1 ∧ j = t) := by omega
            rw [if_neg this, NeuralNetwork.unit?_putUnit, ha']
            simp
          · intro t' c2 ht' hc2
            rcases NeuralNetwork.unit?_putUnit_cases _ (i + 1) t c _ hc1
                (i + 1) t' c2 hc2 with ⟨_, rfl, rfl⟩ | ⟨hne, hc2'⟩
            · have hlen : j + 1 < c.inputs.length := by omega
              simp only [List.getElem?_set, hlen, if_true, hout]
            · rcases NeuralNetwork.unit?_putUnit_cases p i j a' _ ha'
                (i + 1) t' c2 hc2' with ⟨h1, _, _⟩ | ⟨_, hc2''⟩
              · omega
              · have : t' ≠ t := fun e => hne ⟨rfl, e⟩
                exact hfed t' c2 (by omega) hc2'')
  refine ⟨m', hm', hF', hI', hA', ?_⟩
  intro u hu
  by_cases huj : u < j
  · exact hB' u huj
  · have hje : u = j := by omega
    subst hje
    intro b hb
    rw [ha'] at hb
    have hba : a' = b := Option.some.inj hb
    subst hba
    have hl := hlast hpos
    refine ⟨by rw [hl, hout], ?_⟩
    intro t c hc
    obtain ⟨d, hd, htd⟩ := NeuralNetwork.unit?_dims m' (i + 1) t c hc
    rw [hF'.2.2.2.1, hd1] at hd
    have hdd : d1 = d := Option.some.inj hd
    rw [hl]
    exact hfed t c (by omega) hc

end ForwardLoops2

section ForwardLoops3

variable {R : Type} [LinearOrderedField R]

omit [LinearOrderedField R] in
theorem upred_pos (x : Nat) (h : 1 ≤ x) : upred x = x - 1 := by
  unfold upred
  have : ¬ x = 0 := by omega
  simp [this]

/-- The inner loops of the second loop nest do nothing for a layer whose
next layer is empty. -/
theorem NeuralNetwork.feedLayer_skip (exp : R → R) (n0 n : NeuralNetwork R)
    (i di : Nat) (hdi : n0.dims[i]? = some di)
    (hd1 : n0.dims[i + 1]? = some 0) (hF : n0.Frame n) :
    NeuralNetwork.feedLayer exp n i = .ok n := by
  have hdn : n.dims[i]? = some di := by rw [hF.2.2.2.1]; exact hdi
  have hdn1 : n.dims[i + 1]? = some 0 := by rw [hF.2.2.2.1]; exact hd1
  obtain ⟨layer, hlayer, hlen⟩ := NeuralNetwork.atGet_dims n i di hdn
  obtain ⟨layer1, hlayer1, hlen1⟩ := NeuralNetwork.atGet_dims n (i + 1) 0 hdn1
  unfold NeuralNetwork.feedLayer
  simp only [hlayer, bind, Except.bind, hlen]
  obtain ⟨m, hm, he⟩ := foldlM_range_inv (NeuralNetwork.feedUnit exp i)
    (fun _ m => m = n) di n rfl
    (by
      rintro j m _ rfl
      refine ⟨m, ?_, rfl⟩
      unfold NeuralNetwork.feedUnit
      simp only [hlayer1, bind, Except.bind, hlen1]
      rfl)
  rw [hm, he]

/-- The second loop nest of `compute`: every layer but the last, when the
layer after it has a unit, caches its outputs and feeds that layer. -/
theorem NeuralNetwork.feedLayers_fed (exp : R → R) (n0 n1 : NeuralNetwork R)
    (h0 : n0.WF) (hL : 1 ≤ n0.nlayers)
    (hF : n0.Frame n1) (hI : n1.InputsFed n0.ninputs) :
    ∃ n2, n1.feedLayers exp = .ok n2 ∧ n0.Frame n2 ∧
      n2.InputsFed n0.ninputs ∧
      ∀ l u, l + 1 < n0.nlayers → 0 < n0.dimOf (l + 1) →
        n2.UnitFed exp l u := by
  unfold NeuralNetwork.feedLayers
  rw [hF.2.1, upred_pos _ hL]
  obtain ⟨n2, hn2, hF2, hI2, hA2⟩ := foldlM_range_inv
    (NeuralNetwork.feedLayer exp)
    (fun i n => n0.Frame n ∧ n.InputsFed n0.ninputs ∧
      ∀ l, l < i → 0 < n0.dimOf (l + 1) → ∀ u, n.UnitFed exp l u)
    (n0.nlayers - 1) n1 ⟨hF, hI, fun _ h => by omega⟩
    (by
      rintro i n hi ⟨hFn, hIn, hAn⟩
      obtain ⟨di, hdi⟩ := NeuralNetwork.dims_at n0 h0.1 i (by omega)
      obtain ⟨d1, hd1⟩ := NeuralNetwork.dims_at n0 h0.1 (i + 1) (by omega)
      have hdim1 : n0.dimOf (i + 1) = d1 := by
        unfold NeuralNetwork.dimOf
        simp [List.getD_eq_getElem?_getD, hd1]
      by_cases hpos : 0 < d1
      · have hdn : n.dims[i]? = some di := by rw [hFn.2.2.2.1]; exact hdi
        obtain ⟨layer, hlayer, hlen⟩ := NeuralNetwork.atGet_dims n i di hdn
        unfold NeuralNetwork.feedLayer
        simp only [hlayer, bind, Except.bind, hlen]
        obtain ⟨n', hn', hF', hI', hA', hB'⟩ := foldlM_range_inv
          (NeuralNetwork.feedUnit exp i)
          (fun j n => n0.Frame n ∧ n.InputsFed n0.ninputs ∧
            (∀ l, l < i → 0 < n0.dimOf (l + 1) → ∀ u, n.UnitFed exp l u) ∧
            ∀ u, u < j → n.UnitFed exp i u)
          di n ⟨hFn, hIn, hAn, fun _ h => by omega⟩
          (by
            rintro j m hj ⟨hFm, hIm, hAm, hBm⟩
            have hdm : m.dims[i]? = some di := by rw [hFm.2.2.2.1]; exact hdi
            obtain ⟨a, ha⟩ := NeuralNetwork.dims_unit? m i j di hdm hj
            exact NeuralNetwork.feedUnit_ok exp n0 m
              (fun l => 0 < n0.dimOf (l + 1)) h0 i j d1 hd1 hpos a ha
              hFm hIm hAm hBm)
        refine ⟨n', hn', hF', hI', ?_⟩
        intro l hl hg u
        by_cases hli : l < i
        · exact hA' l hli hg u
        · have hle : l = i := by omega
          subst hle
          by_cases hu : u < di
          · exact hB' u hu
          · intro a ha
            obtain ⟨d, hd, hud⟩ := NeuralNetwork.unit?_dims n' l u a ha
            rw [hF'.2.2.2.1, hdi] at hd
            have hdd : di = d := Option.some.inj hd
            omega
      · have hz : d1 = 0 := by omega
        subst hz
        refine ⟨n, NeuralNetwork.feedLayer_skip exp n0 n i di hdi hd1 hFn,
          hFn, hIn, ?_⟩
        intro l hl hg u
        by_cases hli : l < i
        · exact hAn l hli hg u
        · have hle : l = i := by omega
          subst hle
          omega)
  exact ⟨n2, hn2, hF2, hI2, fun l u hl hg => hA2 l (by omega) hg u⟩

theorem NeuralNetwork.wf_lastOutput_length (n0 : NeuralNetwork R) (h0 : n0.WF)
    (hL : 1 ≤ n0.nlayers) (d : Nat) (hd : n0.dims[n0.nlayers - 1]? = some d) :
    n0.lastOutput.length = d := by
  obtain ⟨h1, _, _, h4⟩ := h0
  rw [h4]
  unfold NeuralNetwork.dims at hd
  have hlt : n0.nlayers - 1 < n0.network.length := by omega
  rw [List.getLast?_eq_getElem?, h1]
  simp only [List.getElem?_map, List.getElem?_eq_getElem hlt, Option.map_some',
    Option.some.injEq] at hd
  simp [List.getElem?_eq_getElem hlt, hd]

/-- The last loop of `compute`: the last layer caches its outputs, which are
copied to the cached output vector. -/
theorem NeuralNetwork.storeOutputs_ok (exp : R → R) (n0 n2 : NeuralNetwork R)
    (G : Nat → Prop) (h0 : n0.WF) (hL : 1 ≤ n0.nlayers)
    (hF : n0.Frame n2) (hI : n2.InputsFed n0.ninputs)
    (hA : ∀ l u, l + 1 < n0.nlayers → G l → n2.UnitFed exp l u) :
    ∃ n3, n2.storeOutputs exp = .ok n3 ∧ n0.Frame n3 ∧
      n3.InputsFed n0.ninputs ∧
      (∀ l u, l + 1 < n0.nlayers → G l → n3.UnitFed exp l u) ∧
      ∀ u a, n3.unit? (n0.nlayers - 1) u = some a →
        a.lastOutput = a.out exp ∧ n3.lastOutput[u]? = some (a.out exp) := by
  unfold NeuralNetwork.storeOutputs
  rw [hF.2.1, upred_pos _ hL]
  obtain ⟨d, hd⟩ :=
    NeuralNetwork.dims_at n0 h0.1 (n0.nlayers - 1) (by omega)
  have hlo := NeuralNetwork.wf_lastOutput_length n0 h0 hL d hd
  have hdn : n2.dims[n0.nlayers - 1]? = some d := by
    rw [hF.2.2.2.1]; exact hd
  obtain ⟨layer, hlayer, hlen⟩ := NeuralNetwork.atGet_dims n2 _ d hdn
  simp only [hlayer, bind, Except.bind, hlen]
  obtain ⟨n3, hn3, hF3, hI3, hA3, hB3⟩ := foldlM_range_inv
    (NeuralNetwork.storeOutput exp)
    (fun k n => n0.Frame n ∧ n.InputsFed n0.ninputs ∧
      (∀ l u, l + 1 < n0.nlayers → G l → n.UnitFed exp l u) ∧
      ∀ u a, u < k → n.unit? (n0.nlayers - 1) u = some a →
        a.lastOutput = a.out exp ∧ n.lastOutput[u]? = some (a.out exp))
    d n2 ⟨hF, hI, hA, fun _ _ h => by omega⟩
    (by
      rintro k n hk ⟨hFn, hIn, hAn, hBn⟩
      have hdk : n.dims[n0.nlayers - 1]? = some d := by
        rw [hFn.2.2.2.1]; exact hd
      obtain ⟨a, ha⟩ := NeuralNetwork.dims_unit? n _ k d hdk hk
      have hkl : k < n.lastOutput.length := by
        rw [hFn.2.2.2.2.1, hlo]; exact hk
      have hF1 := NeuralNetwork.frame_putUnit n0 n hFn _ k a _ ha
        (Unit.sameWeights_out a (a.out exp))
      refine ⟨_, NeuralNetwork.storeOutput_ok exp n0 n h0 hFn hL k a ha hkl,
        ?_, ?_, ?_, ?_⟩
      · obtain ⟨f1, f2, f3, f4, f5, f6⟩ := hF1
        exact ⟨f1, f2, f3, f4, by
          show (n.lastOutput.set k (a.out exp)).length = _
          rw [List.length_set]; exact hFn.2.2.2.2.1, f6⟩
      · exact NeuralNetwork.inputsFed_put_out n _ k a ha _ _ hIn
      · intro l u hl hg
        exact NeuralNetwork.unitFed_put_out exp n _ k a ha _ l u (by omega)
          (hAn l u hl hg)
      · intro u b hu hb
        rcases NeuralNetwork.unit?_putUnit_cases n _ k a _ ha _ u b hb with
          ⟨_, rfl, rfl⟩ | ⟨hne', hb'⟩
        · refine ⟨rfl, ?_⟩
          show (n.lastOutput.set u (a.out exp))[u]? = _
          simp [List.getElem?_set, hkl]
          rfl
        · have huk : u ≠ k := fun e => hne' ⟨rfl, e⟩
          obtain ⟨b1, b2⟩ := hBn u b (by omega) hb'
          refine ⟨b1, ?_⟩
          show (n.lastOutput.set k (a.out exp))[u]? = _
          simp only [List.getElem?_set, Ne.symm huk, if_false]
          exact b2)
  refine ⟨n3, hn3, hF3, hI3, hA3, ?_⟩
  intro u a ha
  obtain ⟨d', hd', hud⟩ := NeuralNetwork.unit?_dims n3 _ u a ha
  rw [hF3.2.2.2.1, hd] at hd'
  have hdd : d = d' := Option.some.inj hd'
  exact hB3 u a (by omega) ha

/-- The forward pass returns on every well-formed network with a layer, also
one with an empty layer.  It keeps the frame; the inputs are cached in the
first layer; every unit of a layer that has a unit after it caches the output
of its cached inputs and feeds it to the next layer; the cached output vector
holds the outputs of the last layer. -/
theorem NeuralNetwork.compute_fed (exp : R → R) (n0 : NeuralNetwork R)
    (h0 : n0.WF) (hL : 1 ≤ n0.nlayers) :
    ∃ n3, n0.compute exp = .ok n3 ∧ n0.Frame n3 ∧ n3.InputsFed n0.ninputs ∧
      (∀ l u, l + 1 < n0.nlayers → 0 < n0.dimOf (l + 1) →
        n3.UnitFed exp l u) ∧
      ∀ u a, n3.unit? (n0.nlayers - 1) u = some a →
        a.lastOutput = a.out exp ∧ n3.lastOutput[u]? = some (a.out exp) := by
  obtain ⟨d0, hd0⟩ := NeuralNetwork.dims_at n0 h0.1 0 (by omega)
  obtain ⟨n1, hn1, hF1, hI1⟩ := NeuralNetwork.feedInputs_ok n0 h0 d0 hd0
  obtain ⟨n2, hn2, hF2, hI2, hA2⟩ :=
    NeuralNetwork.feedLayers_fed exp n0 n1 h0 hL hF1 hI1
  obtain ⟨n3, hn3, hC⟩ :=
    NeuralNetwork.storeOutputs_ok exp n0 n2 (fun l => 0 < n0.dimOf (l + 1))
      h0 hL hF2 hI2 hA2
  refine ⟨n3, ?_, hC⟩
  unfold NeuralNetwork.compute
  simp only [hn1, hn2, hn3, bind, Except.bind]

/-- The forward pass returns on every well-formed network with a layer; it
keeps the frame and leaves the outputs of the last layer in the cached output
vector. -/
theorem NeuralNetwork.compute_returns (exp : R → R) (n0 : NeuralNetwork R)
    (h0 : n0.WF) (hL : 1 ≤ n0.nlayers) :
    ∃ n3, n0.compute exp = .ok n3 ∧ n0.Frame n3 ∧
      ∀ u a, n3.unit? (n0.nlayers - 1) u = some a →
        a.lastOutput = a.out exp ∧ n3.lastOutput[u]? = some (a.out exp) := by
  obtain ⟨n3, hn3, hF, _, _, hB⟩ := NeuralNetwork.compute_fed exp n0 h0 hL
  exact ⟨n3, hn3, hF, hB⟩

/-- The forward pass succeeds on a well-formed network with at least one
layer and no empty layer, and leaves the computed state. -/
theorem NeuralNetwork.compute_ok (exp : R → R) (n0 : NeuralNetwork R)
    (h0 : n0.WF) (hL : 1 ≤ n0.nlayers)
    (hne : ∀ layer ∈ n0.network, layer ≠ []) :
    ∃ n3, n0.compute exp = .ok n3 ∧ n0.Computed exp n3 := by
  obtain ⟨n3, hn3, hF, hI, hA, hB⟩ := NeuralNetwork.compute_fed exp n0 h0 hL
  refine ⟨n3, hn3, hF, hI, fun l u hl => ?_, hB⟩
  obtain ⟨d, hd, hpos⟩ :=
    NeuralNetwork.dims_of_lt n0 h0.1 hne (l + 1) (by omega)
  refine hA l u hl ?_
  unfold NeuralNetwork.dimOf
  simp [List.getD_eq_getElem?_getD, hd, hpos]

end ForwardLoops3

section ForwardResult

variable {R : Type} [LinearOrderedField R]

theorem layersWF_of_unit (prev : Nat) (ls : List (List (Unit R)))
    (h : ∀ l layer, ls[l]? = some layer → ∀ a ∈ layer,
      a.WF ∧ (l = 0 → a.numberOfInputs = prev) ∧
      (∀ l', l = l' + 1 → (ls.map List.length)[l']? = some a.numberOfInputs)) :
    layersWF prev ls := by
  induction ls generalizing prev with
  | nil => trivial
  | cons x xs ih =>
    refine ⟨fun a ha => ?_, ih x.length ?_⟩
    · obtain ⟨h1, h2, _⟩ := h 0 x (by simp) a ha
      exact ⟨h1, h2 rfl⟩
    · intro l layer hl a ha
      obtain ⟨h1, _, h3⟩ := h (l + 1) layer (by simpa using hl) a ha
      refine ⟨h1, fun hl0 => ?_, fun l' hl' => ?_⟩
      · subst hl0
        have := h3 0 rfl
        simpa using this.symm
      · subst hl'
        have := h3 (l' + 1) rfl
        simpa using this

omit [LinearOrderedField R] in
theorem NeuralNetwork.mem_layer_unit? (n : NeuralNetwork R) (l : Nat)
    (layer : List (Unit R)) (hl : n.network[l]? = some layer) (a : Unit R)
    (ha : a ∈ layer) : ∃ u, n.unit? l u = some a := by
  obtain ⟨u, hu, rfl⟩ := List.getElem_of_mem ha
  exact ⟨u, by unfold NeuralNetwork.unit?; simp [hl, List.getElem?_eq_getElem hu]⟩

omit [LinearOrderedField R] in
theorem NeuralNetwork.dims_length (n : NeuralNetwork R) :
    n.dims.length = n.network.length := by
  unfold NeuralNetwork.dims; simp

/-- A network in the frame of a well-formed network is well formed. -/
theorem NeuralNetwork.frame_wf (n0 n : NeuralNetwork R) (h0 : n0.WF)
    (h : n0.Frame n) : n.WF := by
  have hlen : n.network.length = n0.network.length := by
    rw [← NeuralNetwork.dims_length, ← NeuralNetwork.dims_length, h.2.2.2.1]
  refine ⟨by rw [hlen, h0.1, h.2.1], by rw [h.2.2.1, h0.2.1, h.1], ?_, ?_⟩
  · apply layersWF_of_unit
    intro l layer hl a ha
    obtain ⟨u, hu⟩ := NeuralNetwork.mem_layer_unit? n l layer hl a ha
    exact NeuralNetwork.frame_unit n0 n h0 h l u a hu
  · rw [h.2.2.2.2.1, h0.2.2.2]
    have hd := h.2.2.2.1
    unfold NeuralNetwork.dims at hd
    have : (n.network.map List.length).getLast? =
        (n0.network.map List.length).getLast? := by rw [hd]
    rw [List.getLast?_map, List.getLast?_map] at this
    cases h1 : n.network.getLast? <;> cases h2 : n0.network.getLast? <;>
      simp [h1, h2] at this ⊢
    exact this.symm

omit [LinearOrderedField R] in
theorem NeuralNetwork.frame_nonempty (n0 n : NeuralNetwork R)
    (h : n0.Frame n) (hne : ∀ layer ∈ n0.network, layer ≠ []) :
    ∀ layer ∈ n.network, layer ≠ [] := by
  intro layer hl
  have hm : layer.length ∈ n.dims := by
    unfold NeuralNetwork.dims; exact List.mem_map_of_mem _ hl
  rw [h.2.2.2.1] at hm
  unfold NeuralNetwork.dims at hm
  obtain ⟨layer0, hl0, hlen⟩ := List.mem_map.1 hm
  have := List.length_pos.2 (hne layer0 hl0)
  exact List.length_pos.1 (by omega)

/-- What the computed state says about one unit. -/
theorem NeuralNetwork.computed_unit (exp : R → R) (n0 n : NeuralNetwork R)
    (h0 : n0.WF) (hC : n0.Computed exp n) (l u : Nat) (a : Unit R)
    (ha : n.unit? l u = some a) :
    l < n0.nlayers ∧ a.WF ∧ a.lastOutput = a.out exp ∧
      (l = 0 → a.numberOfInputs = n0.ninputs ∧
        ∀ j, j < a.numberOfInputs → a.inputs[j + 1]? = n0.inputs[j]?) ∧
      (∀ l', l = l' + 1 → n0.dims[l']? = some a.numberOfInputs ∧
        ∀ j, j < a.numberOfInputs →
          ∃ b, n.unit? l' j = some b ∧ a.inputs[j + 1]? = some b.lastOutput) := by
  obtain ⟨hF, hI, hA, hB⟩ := hC
  obtain ⟨w1, w2, w3⟩ := NeuralNetwork.frame_unit n0 n h0 hF l u a ha
  obtain ⟨d, hd, hud⟩ := NeuralNetwork.unit?_dims n l u a ha
  have hl : l < n0.nlayers := by
    rw [hF.2.2.2.1] at hd
    have := (List.getElem?_eq_some_iff.1 hd).1
    rw [NeuralNetwork.dims_length, h0.1] at this
    exact this
  refine ⟨hl, w1, ?_, ?_, ?_⟩
  · by_cases hlast : l + 1 < n0.nlayers
    · exact (hA l u hlast a ha).1
    · have : l = n0.nlayers - 1 := by omega
      subst this
      exact (hB u a ha).1
  · intro hl0
    subst hl0
    refine ⟨by rw [w2 rfl, hF.1], fun j hj => ?_⟩
    rw [hI u a ha j (by rw [← hF.1, ← w2 rfl]; exact hj), hF.2.2.1]
  · intro l' hl'
    subst hl'
    have hdl := w3 l' rfl
    refine ⟨by rw [← hF.2.2.2.1]; exact hdl, fun j hj => ?_⟩
    obtain ⟨b, hb⟩ := NeuralNetwork.dims_unit? n l' j _ hdl hj
    exact ⟨b, hb, (hA l' j (by omega) b hb).2 u a ha⟩

end ForwardResult

section ForwardGetters

variable {R : Type} [LinearOrderedField R]

omit [LinearOrderedField R] in
theorem NeuralNetwork.unit?_none_of_dims (n m : NeuralNetwork R)
    (hd : n.dims = m.dims) (l u : Nat) (h : n.unit? l u = none) :
    m.unit? l u = none := by
  cases hm : m.unit? l u with
  | none => rfl
  | some b =>
    obtain ⟨d, hd', hu⟩ := NeuralNetwork.unit?_dims m l u b hm
    rw [← hd] at hd'
    obtain ⟨a, ha⟩ := NeuralNetwork.dims_unit? n l u d hd' hu
    rw [h] at ha
    exact absurd ha (by simp)

omit [LinearOrderedField R] in
theorem NeuralNetwork.getUnitOutput_ok (n : NeuralNetwork R) (l u : Nat)
    (a : Unit R) (hl : l < n.nlayers) (ha : n.unit? l u = some a) :
    n.getUnitOutput l u = .ok a.lastOutput := by
  unfold NeuralNetwork.getUnitOutput
  simp [NeuralNetwork.checkedUnit_ok n l u a hl ha, bind, Except.bind, pure,
    Except.pure, Unit.getLastOutput]

omit [LinearOrderedField R] in
theorem NeuralNetwork.getNumberOfWeight_ok (n : NeuralNetwork R) (l u : Nat)
    (a : Unit R) (hl : l < n.nlayers) (ha : n.unit? l u = some a) :
    n.getNumberOfWeight l u = .ok a.numberOfWeights := by
  unfold NeuralNetwork.getNumberOfWeight
  simp [NeuralNetwork.checkedUnit_ok n l u a hl ha, bind, Except.bind, pure,
    Except.pure, Unit.getNumberOfWeights]

omit [LinearOrderedField R] in
theorem NeuralNetwork.getUnitInput_ok (n : NeuralNetwork R) (l u i : Nat)
    (a : Unit R) (x : R) (hl : l < n.nlayers) (ha : n.unit? l u = some a)
    (hi : i ≤ a.numberOfInputs) (hw : a.numberOfWeights = a.numberOfInputs + 1)
    (hx : a.inputs[i]? = some x) :
    n.getUnitInput l u i = .ok x := by
  unfold NeuralNetwork.getUnitInput
  have h1 : ¬ i > a.numberOfInputs := by omega
  simp [NeuralNetwork.checkedWeight_ok n l u i a hl ha (by omega), bind,
    Except.bind, Unit.getLastInput, h1, rawGet, hx]

omit [LinearOrderedField R] in
theorem NeuralNetwork.getLayerDimension_ok (n : NeuralNetwork R) (l d : Nat)
    (hl : l < n.nlayers) (hd : n.dims[l]? = some d) :
    n.getLayerDimension l = .ok d := by
  unfold NeuralNetwork.getLayerDimension
  obtain ⟨layer, h1, h2⟩ := NeuralNetwork.atGet_dims n l d hd
  have : ¬ l ≥ n.nlayers := by omega
  simp [this, h1, bind, Except.bind, pure, Except.pure, h2]

omit [LinearOrderedField R] in
theorem NeuralNetwork.getLayerDimension_inv (n : NeuralNetwork R) (l d : Nat)
    (h : n.getLayerDimension l = .ok d) :
    l < n.nlayers ∧ n.dims[l]? = some d := by
  unfold NeuralNetwork.getLayerDimension at h
  by_cases hl : l ≥ n.nlayers
  · simp [hl] at h
  · simp only [hl, if_false] at h
    refine ⟨by omega, ?_⟩
    unfold atGet at h
    unfold NeuralNetwork.dims
    cases hg : n.network[l]? with
    | none => simp [hg, bind, Except.bind] at h
    | some layer =>
      simp only [hg, bind, Except.bind, pure, Except.pure, Except.ok.injEq] at h
      simp [hg, h]

omit [LinearOrderedField R] in
/-- The frame keeps every answer of `getWeight`. -/
theorem NeuralNetwork.frame_getWeight (n0 n : NeuralNetwork R)
    (h : n0.Frame n) (l u k : Nat) :
    n.getWeight l u k = n0.getWeight l u k := by
  unfold NeuralNetwork.getWeight NeuralNetwork.checkedWeight
  rw [NeuralNetwork.checkedUnit_eq, NeuralNetwork.checkedUnit_eq, h.2.1]
  by_cases hl : l < n0.nlayers
  · simp only [hl, if_true]
    cases ha : n.unit? l u with
    | none =>
      rw [NeuralNetwork.unit?_none_of_dims n n0 h.2.2.2.1 l u ha]
    | some a =>
      obtain ⟨b, hb, s1, s2, s3, _, _⟩ := h.2.2.2.2.2 l u a ha
      rw [hb]
      simp only [bind, Except.bind, Unit.getNumberOfWeights, s2]
      by_cases hk : k ≥ b.numberOfWeights
      · simp [hk]
      · simp [hk, pure, Except.pure, Unit.getWeight, s2, s3]
  · simp [hl]

omit [LinearOrderedField R] in
theorem NeuralNetwork.frame_getLayerDimension (n0 n : NeuralNetwork R)
    (h : n0.Frame n) (l : Nat) :
    n.getLayerDimension l = n0.getLayerDimension l := by
  unfold NeuralNetwork.getLayerDimension
  rw [h.2.1]
  by_cases hl : l ≥ n0.nlayers
  · simp [hl]
  · simp only [hl, if_false]
    have hd := h.2.2.2.1
    unfold NeuralNetwork.dims at hd
    have hi : (n.network.map List.length)[l]? = (n0.network.map List.length)[l]? := by
      rw [hd]
    simp only [List.getElem?_map] at hi
    unfold atGet
    cases h1 : n.network[l]? <;> cases h2 : n0.network[l]? <;>
      simp [h1, h2, bind, Except.bind, pure, Except.pure] at hi ⊢
    exact hi

theorem weightedSum_bias (ws xs : List R) (k : Nat) (h : xs[0]? = some 1) :
    weightedSum ws xs (k + 1) = ws.getD 0 0 +
      ∑ j in Finset.range k, ws.getD (j + 1) 0 * xs.getD (j + 1) 0 := by
  unfold weightedSum
  rw [Finset.sum_range_succ']
  have : xs.getD 0 0 = 1 := by simp [List.getD_eq_getElem?_getD, h]
  rw [this, mul_one, add_comm]

/-- The computed states of two networks with the same inputs, topology and
weights hold the same cached inputs and outputs. -/
theorem NeuralNetwork.computed_determined (exp : R → R)
    (n0 m0 n m : NeuralNetwork R) (h0 : n0.WF) (hF : n0.Frame m0)
    (hn : n0.Computed exp n) (hm : m0.Computed exp m) :
    ∀ l u a b, n.unit? l u = some a → m.unit? l u = some b →
      a.inputs = b.inputs ∧ a.lastOutput = b.lastOutput ∧
      a.numberOfInputs = b.numberOfInputs := by
  have hm0 := NeuralNetwork.frame_wf n0 m0 h0 hF
  intro l
  induction l with
  | zero =>
    intro u a b ha hb
    obtain ⟨_, ⟨⟨a1, a2, a3⟩, a4⟩, a5, a6, _⟩ :=
      NeuralNetwork.computed_unit exp n0 n h0 hn 0 u a ha
    obtain ⟨_, ⟨⟨b1, b2, b3⟩, b4⟩, b5, b6, _⟩ :=
      NeuralNetwork.computed_unit exp m0 m hm0 hm 0 u b hb
    obtain ⟨a0, ha0, sa1, sa2, sa3, _, _⟩ := hn.1.2.2.2.2.2 0 u a ha
    obtain ⟨b0, hb0, sb1, sb2, sb3, _, _⟩ := hm.1.2.2.2.2.2 0 u b hb
    obtain ⟨c0, hc0, sc1, sc2, sc3, _, _⟩ := hF.2.2.2.2.2 0 u b0 hb0
    rw [ha0] at hc0
    have hac : a0 = c0 := Option.some.inj hc0
    subst hac
    have hni : a.numberOfInputs = b.numberOfInputs := by omega
    have hnw : a.numberOfWeights = b.numberOfWeights := by omega
    have hws : a.weights = b.weights := by rw [sa3, sb3, sc3]
    have hin : a.inputs = b.inputs := by
      apply List.ext_getElem?
      intro i
      cases i with
      | zero => rw [a4, b4]
      | succ j =>
        by_cases hj : j < a.numberOfInputs
        · rw [(a6 rfl).2 j hj, (b6 rfl).2 j (by omega), hF.2.2.1]
        · rw [List.getElem?_eq_none (by omega), List.getElem?_eq_none (by omega)]
    refine ⟨hin, ?_, hni⟩
    rw [a5, b5]
    unfold Unit.out
    rw [hin, hws, hnw]
  | succ l ih =>
    intro u a b ha hb
    obtain ⟨_, ⟨⟨a1, a2, a3⟩, a4⟩, a5, _, a7⟩ :=
      NeuralNetwork.computed_unit exp n0 n h0 hn (l + 1) u a ha
    obtain ⟨_, ⟨⟨b1, b2, b3⟩, b4⟩, b5, _, b7⟩ :=
      NeuralNetwork.computed_unit exp m0 m hm0 hm (l + 1) u b hb
    obtain ⟨a0, ha0, sa1, sa2, sa3, _, _⟩ := hn.1.2.2.2.2.2 (l + 1) u a ha
    obtain ⟨b0, hb0, sb1, sb2, sb3, _, _⟩ := hm.1.2.2.2.2.2 (l + 1) u b hb
    obtain ⟨c0, hc0, sc1, sc2, sc3, _, _⟩ := hF.2.2.2.2.2 (l + 1) u b0 hb0
    rw [ha0] at hc0
    have hac : a0 = c0 := Option.some.inj hc0
    subst hac
    have hni : a.numberOfInputs = b.numberOfInputs := by omega
    have hnw : a.numberOfWeights = b.numberOfWeights := by omega
    have hws : a.weights = b.weights := by rw [sa3, sb3, sc3]
    have hin : a.inputs = b.inputs := by
      apply List.ext_getElem?
      intro i
      cases i with
      | zero => rw [a4, b4]
      | succ j =>
        by_cases hj : j < a.numberOfInputs
        · obtain ⟨a', ha', hai⟩ := (a7 l rfl).2 j hj
          obtain ⟨b', hb', hbi⟩ := (b7 l rfl).2 j (by omega)
          rw [hai, hbi, (ih j a' b' ha' hb').2.1]
        · rw [List.getElem?_eq_none (by omega), List.getElem?_eq_none (by omega)]
    refine ⟨hin, ?_, hni⟩
    rw [a5, b5]
    unfold Unit.out
    rw [hin, hws, hnw]

end ForwardGetters

/-- C6: on a network with at least one layer, no empty layer and the arity
invariant, `compute()` succeeds and leaves inputs, topology and all weights
unchanged.  Afterwards, for every unit `(l,u)` with `k` inputs, weights `w`
and fed values `z = z(l-1)` (the network inputs for `l = 0`, the outputs of
layer `l-1` otherwise): `getUnitOutput(l,u) = sigmoid(w[0] + sum over j < k
of w[j+1]*z[j])`, cached input `0` is `1` and cached input `j+1` is `z[j]`;
`getOutputs()` holds the unit outputs of the last layer.  A network with the
same inputs, topology and weights but other cached values computes the same
unit inputs, unit outputs and outputs. -/
theorem C6_forward_pass {R : Type} [LinearOrderedField R] (exp : R → R)
    (n : NeuralNetwork R) (hwf : n.WF) (hL : 1 ≤ n.nlayers)
    (hne : ∀ layer ∈ n.network, layer ≠ []) :
    ∃ n', n.compute exp = .ok n' ∧
      n'.getInputs = n.getInputs ∧
      n'.getNumberOfLayers = n.getNumberOfLayers ∧
      (∀ l, n'.getLayerDimension l = n.getLayerDimension l) ∧
      (∀ l u i, n'.getWeight l u i = n.getWeight l u i) ∧
      (∀ l u d, n.getLayerDimension l = .ok d → u < d →
        ∃ (k : Nat) (w z : Nat → R),
          n'.getNumberOfWeight l u = .ok (k + 1) ∧
          (l = 0 → k = n.getInputs.length) ∧
          (∀ l', l = l' + 1 → n.getLayerDimension l' = .ok k) ∧
          (∀ i, i ≤ k → n'.getWeight l u i = .ok (w i)) ∧
          (∀ j, j < k → n'.fedValue l j = .ok (z j)) ∧
          n'.getUnitOutput l u = .ok (sigmoid exp
            (w 0 + ∑ j in Finset.range k, w (j + 1) * z j)) ∧
          n'.getUnitInput l u 0 = .ok 1 ∧
          (∀ j, j < k → n'.getUnitInput l u (j + 1) = .ok (z j))) ∧
      (∃ d, n.getLayerDimension (n.nlayers - 1) = .ok d ∧
        n'.getOutputs.length = d ∧
        ∀ u, u < d → ∃ y, n'.getUnitOutput (n.nlayers - 1) u = .ok y ∧
          n'.getOutputs[u]? = some y) ∧
      (∀ m, n.Frame m → ∃ m', m.compute exp = .ok m' ∧
        m'.getOutputs = n'.getOutputs ∧
        (∀ l u, m'.getUnitOutput l u = n'.getUnitOutput l u) ∧
        (∀ l u i, m'.getUnitInput l u i = n'.getUnitInput l u i)) := by
  obtain ⟨n', hn', hC⟩ := NeuralNetwork.compute_ok exp n hwf hL hne
  have hF := hC.1
  have hdimlast : ∃ d, n.dims[n.nlayers - 1]? = some d ∧ 0 < d :=
    NeuralNetwork.dims_of_lt n hwf.1 hne _ (by omega)
  refine ⟨n', hn', hF.2.2.1, hF.2.1,
    NeuralNetwork.frame_getLayerDimension n n' hF,
    NeuralNetwork.frame_getWeight n n' hF, ?_, ?_, ?_⟩
  · intro l u d hd hu
    obtain ⟨hl, hdl⟩ := NeuralNetwork.getLayerDimension_inv n l d hd
    have hl' : l < n'.nlayers := by rw [hF.2.1]; exact hl
    obtain ⟨a, ha⟩ := NeuralNetwork.dims_unit? n' l u d
      (by rw [hF.2.2.2.1]; exact hdl) hu
    obtain ⟨_, ⟨⟨a1, a2, a3⟩, a4⟩, a5, a6, a7⟩ :=
      NeuralNetwork.computed_unit exp n n' hwf hC l u a ha
    have hin : ∀ j, j < a.numberOfInputs →
        a.inputs[j + 1]? = some (a.inputs.getD (j + 1) 0) := by
      intro j hj
      have : j + 1 < a.inputs.length := by omega
      simp [List.getD_eq_getElem?_getD, List.getElem?_eq_getElem this]
    refine ⟨a.numberOfInputs, fun i => a.weights.getD i 0,
      fun j => a.inputs.getD (j + 1) 0, ?_, ?_, ?_, ?_, ?_, ?_, ?_, ?_⟩
    · rw [NeuralNetwork.getNumberOfWeight_ok n' l u a hl' ha, a1]
    · intro hl0
      rw [(a6 hl0).1]
      exact hwf.2.1.symm
    · intro l' hl1
      exact NeuralNetwork.getLayerDimension_ok n l' _ (by omega) (a7 l' hl1).1
    · intro i hi
      rw [NeuralNetwork.getWeight_eq n' l u i a hl' ha (by omega),
        rawGet_getD _ _ (by omega)]
    · intro j hj
      cases l with
      | zero =>
        have hj' : j < n.ninputs := by rw [← (a6 rfl).1]; exact hj
        have hx := (a6 rfl).2 j hj
        rw [hin j hj] at hx
        show n'.getInput j = _
        unfold NeuralNetwork.getInput
        have : ¬ j ≥ n'.ninputs := by rw [hF.1]; omega
        simp only [this, if_false, hF.2.2.1]
        exact rawGet_of_get? _ _ _ hx.symm
      | succ l' =>
        obtain ⟨b, hb, hbi⟩ := (a7 l' rfl).2 j hj
        rw [hin j hj] at hbi
        show n'.getUnitOutput l' j = _
        rw [NeuralNetwork.getUnitOutput_ok n' l' j b (by omega) hb]
        exact congrArg Except.ok (Option.some.inj hbi).symm
    · rw [NeuralNetwork.getUnitOutput_ok n' l u a hl' ha, a5]
      unfold Unit.out
      rw [a1, weightedSum_bias _ _ _ a4]
    · exact NeuralNetwork.getUnitInput_ok n' l u 0 a 1 hl' ha (by omega) a1 a4
    · intro j hj
      exact NeuralNetwork.getUnitInput_ok n' l u (j + 1) a _ hl' ha (by omega)
        a1 (hin j hj)
  · obtain ⟨d, hd, _⟩ := hdimlast
    refine ⟨d, NeuralNetwork.getLayerDimension_ok n _ d (by omega) hd, ?_, ?_⟩
    · show n'.lastOutput.length = d
      rw [hF.2.2.2.2.1]
      exact NeuralNetwork.wf_lastOutput_length n hwf hL d hd
    · intro u hu
      obtain ⟨a, ha⟩ := NeuralNetwork.dims_unit? n' _ u d
        (by rw [hF.2.2.2.1]; exact hd) hu
      obtain ⟨h1, h2⟩ := hC.2.2.2 u a ha
      refine ⟨a.lastOutput, NeuralNetwork.getUnitOutput_ok n' _ u a
        (by rw [hF.2.1]; omega) ha, ?_⟩
      show n'.lastOutput[u]? = _
      rw [h2, h1]
  · intro m hFm
    have hmwf := NeuralNetwork.frame_wf n m hwf hFm
    obtain ⟨m', hm', hCm⟩ := NeuralNetwork.compute_ok exp m hmwf
      (by rw [hFm.2.1]; exact hL) (NeuralNetwork.frame_nonempty n m hFm hne)
    have hdet := NeuralNetwork.computed_determined exp n m n' m' hwf hFm hC hCm
    have hdims : m'.dims = n'.dims := by
      rw [hCm.1.2.2.2.1, hFm.2.2.2.1, hF.2.2.2.1]
    have hnl : m'.nlayers = n'.nlayers := by
      rw [hCm.1.2.1, hFm.2.1, hF.2.1]
    refine ⟨m', hm', ?_, ?_, ?_⟩
    · show m'.lastOutput = n'.lastOutput
      obtain ⟨d, hd, _⟩ := hdimlast
      have hlen1 : n'.lastOutput.length = d := by
        rw [hF.2.2.2.2.1]
        exact NeuralNetwork.wf_lastOutput_length n hwf hL d hd
      have hlen2 : m'.lastOutput.length = d := by
        rw [hCm.1.2.2.2.2.1, hFm.2.2.2.2.1]
        exact NeuralNetwork.wf_lastOutput_length n hwf hL d hd
      apply List.ext_getElem?
      intro u
      by_cases hu : u < d
      · obtain ⟨a, ha⟩ := NeuralNetwork.dims_unit? n' _ u d
          (by rw [hF.2.2.2.1]; exact hd) hu
        obtain ⟨b, hb⟩ := NeuralNetwork.dims_unit? m' _ u d
          (by rw [hdims, hF.2.2.2.1]; exact hd) hu
        have hb' : m'.unit? (m.nlayers - 1) u = some b := by
          rw [hFm.2.1]; exact hb
        obtain ⟨h1, h2⟩ := hC.2.2.2 u a ha
        obtain ⟨h3, h4⟩ := hCm.2.2.2 u b hb'
        rw [h2, h4, ← h1, ← h3, (hdet _ u a b ha hb).2.1]
      · rw [List.getElem?_eq_none (by omega), List.getElem?_eq_none (by omega)]
    · intro l u
      unfold NeuralNetwork.getUnitOutput
      rw [NeuralNetwork.checkedUnit_eq, NeuralNetwork.checkedUnit_eq, hnl]
      by_cases hl : l < n'.nlayers
      · simp only [hl, if_true]
        cases ha : n'.unit? l u with
        | none => rw [NeuralNetwork.unit?_none_of_dims n' m' hdims.symm l u ha]
        | some a =>
          cases hb : m'.unit? l u with
          | none =>
            rw [NeuralNetwork.unit?_none_of_dims m' n' hdims l u hb] at ha
            exact absurd ha (by simp)
          | some b =>
            simp [bind, Except.bind, pure, Except.pure, Unit.getLastOutput,
              (hdet l u a b ha hb).2.1]
      · simp [hl]
    · intro l u i
      unfold NeuralNetwork.getUnitInput NeuralNetwork.checkedWeight
      rw [NeuralNetwork.checkedUnit_eq, NeuralNetwork.checkedUnit_eq, hnl]
      by_cases hl : l < n'.nlayers
      · simp only [hl, if_true]
        cases ha : n'.unit? l u with
        | none => rw [NeuralNetwork.unit?_none_of_dims n' m' hdims.symm l u ha]
        | some a =>
          cases hb : m'.unit? l u with
          | none =>
            rw [NeuralNetwork.unit?_none_of_dims m' n' hdims l u hb] at ha
            exact absurd ha (by simp)
          | some b =>
            obtain ⟨e1, _, e3⟩ := hdet l u a b ha hb
            obtain ⟨_, ⟨⟨a1, _, _⟩, _⟩, _⟩ :=
              NeuralNetwork.computed_unit exp n n' hwf hC l u a ha
            obtain ⟨_, ⟨⟨b1, _, _⟩, _⟩, _⟩ :=
              NeuralNetwork.computed_unit exp m m' hmwf hCm l u b hb
            have e2 : a.numberOfWeights = b.numberOfWeights := by omega
            simp only [bind, Except.bind, Unit.getNumberOfWeights, e2]
            by_cases hi : i ≥ b.numberOfWeights
            · simp [hi]
            · simp [hi, pure, Except.pure, Unit.getLastInput, e1, e3]
      · simp [hl]

theorem sampleNetwork_wf : sampleNetwork.WF := by
  refine ⟨rfl, rfl, ?_, rfl⟩
  simp [layersWF, sampleNetwork, sampleUnit, Unit.WF, Unit.Sized]

/-- Witness of C6: the sample network of two inputs, two hidden units and
one output unit. -/
theorem C6_forward_pass_witness :
    ∃ n', sampleNetwork.compute (fun x => 1 + x * x) = .ok n' ∧
      n'.getInputs = sampleNetwork.getInputs ∧
      n'.getNumberOfLayers = sampleNetwork.getNumberOfLayers ∧
      (∀ l, n'.getLayerDimension l = sampleNetwork.getLayerDimension l) ∧
      (∀ l u i, n'.getWeight l u i = sampleNetwork.getWeight l u i) ∧
      (∀ l u d, sampleNetwork.getLayerDimension l = .ok d → u < d →
        ∃ (k : Nat) (w z : Nat → ℚ),
          n'.getNumberOfWeight l u = .ok (k + 1) ∧
          (l = 0 → k = sampleNetwork.getInputs.length) ∧
          (∀ l', l = l' + 1 → sampleNetwork.getLayerDimension l' = .ok k) ∧
          (∀ i, i ≤ k → n'.getWeight l u i = .ok (w i)) ∧
          (∀ j, j < k → n'.fedValue l j = .ok (z j)) ∧
          n'.getUnitOutput l u = .ok (sigmoid (fun x => 1 + x * x)
            (w 0 + ∑ j in Finset.range k, w (j + 1) * z j)) ∧
          n'.getUnitInput l u 0 = .ok 1 ∧
          (∀ j, j < k → n'.getUnitInput l u (j + 1) = .ok (z j))) ∧
      (∃ d, sampleNetwork.getLayerDimension (sampleNetwork.nlayers - 1) = .ok d ∧
        n'.getOutputs.length = d ∧
        ∀ u, u < d → ∃ y, n'.getUnitOutput (sampleNetwork.nlayers - 1) u = .ok y ∧
          n'.getOutputs[u]? = some y) ∧
      (∀ m, sampleNetwork.Frame m → ∃ m', m.compute (fun x => 1 + x * x) = .ok m' ∧
        m'.getOutputs = n'.getOutputs ∧
        (∀ l u, m'.getUnitOutput l u = n'.getUnitOutput l u) ∧
        (∀ l u i, m'.getUnitInput l u i = n'.getUnitInput l u i)) :=
  C6_forward_pass (fun x => 1 + x * x) sampleNetwork sampleNetwork_wf
    (by decide) (by simp [sampleNetwork])

section BackPropFacts

variable {R : Type} [LinearOrderedField R]

omit [LinearOrderedField R] in
theorem getElem?_getD_of_lt (v : List R) (i : Nat) (d : R) (h : i < v.length) :
    v[i]? = some (v.getD i d) := by
  simp [List.getD_eq_getElem?_getD, List.getElem?_eq_getElem h]

theorem BackPropagation.updateWeight_ok (s : BPState R) (l u k : Nat)
    (eta d lam alfa : R) (a : Unit R) (t : List (List R)) (row : List R)
    (m : R) (hl : l < s.nn.nlayers) (ha : s.nn.unit? l u = some a)
    (hs : a.Sized) (hk : k < a.numberOfWeights)
    (ht : s.momentumtable = some t) (hrow : t[l]? = some row)
    (hm : row[u]? = some m) :
    BackPropagation.updateWeight s l u k eta d lam alfa = .ok
      { s with
        nn := (s.nn.putUnit l u { a with weights := (a.weights.set k
          (a.weights.getD k 0 + (eta * d * a.inputs.getD k 0 -
            2 * eta * lam * a.weights.getD k 0 + alfa * m))) }),
        momentumtable := (some (t.set l (row.set u
          (eta * d * a.inputs.getD k 0 -
            2 * eta * lam * a.weights.getD k 0 + alfa * m)))) } := by
  obtain ⟨s1, s2, s3⟩ := hs
  unfold BackPropagation.updateWeight
  rw [NeuralNetwork.getUnitInput_ok s.nn l u k a _ hl ha (by omega) s1
      (getElem?_getD_of_lt a.inputs k 0 (by omega)),
    NeuralNetwork.getWeight_eq s.nn l u k a hl ha hk,
    rawGet_getD _ _ (by omega), ht]
  simp only [bind, Except.bind, BackPropagation.table,
    atGet_of_get? _ _ _ hrow, atGet_of_get? _ _ _ hm]
  rw [NeuralNetwork.sumToWeight_ok s.nn l u k _ a hl ha hk (by omega)]
  rfl


omit [LinearOrderedField R] in
theorem momentum?_set (t : List (List R)) (l u : Nat) (row : List R)
    (hrow : t[l]? = some row) (x : R) (l' u' : Nat) :
    momentum? (t.set l (row.set u x)) l' u' =
      if l' = l ∧ u' = u then (row[u]?).map (fun _ => x)
      else momentum? t l' u' := by
  unfold momentum?
  have hlt : l < t.length := (List.getElem?_eq_some_iff.1 hrow).1
  by_cases hl : l' = l
  · subst hl
    simp only [List.getElem?_set, hlt, if_true, Option.some_bind, hrow,
      true_and]
    by_cases hu : u' = u
    · subst hu
      by_cases hul : u' < row.length
      · simp [hul, List.getElem?_eq_getElem hul]
      · simp [hul, List.getElem?_eq_none (Nat.le_of_not_lt hul)]
    · simp [hu, Ne.symm hu]
  · simp [hl, List.getElem?_set, Ne.symm hl]

omit [LinearOrderedField R] in
theorem NeuralNetwork.getWeight_putUnit (n : NeuralNetwork R) (l u : Nat)
    (a a' : Unit R) (ha : n.unit? l u = some a)
    (hnw : a'.numberOfWeights = a.numberOfWeights) (l' u' k' : Nat) :
    (n.putUnit l u a').getWeight l' u' k' =
      if l' = l ∧ u' = u then
        (if l < n.nlayers ∧ k' < a.numberOfWeights then rawGet a'.weights k'
          else .error .out_of_range)
      else n.getWeight l' u' k' := by
  have hput := NeuralNetwork.unit?_putUnit n l u a' l' u'
  rw [ha] at hput
  have hnl : (n.putUnit l u a').nlayers = n.nlayers := rfl
  unfold NeuralNetwork.getWeight NeuralNetwork.checkedWeight
  rw [NeuralNetwork.checkedUnit_eq, NeuralNetwork.checkedUnit_eq, hnl, hput]
  by_cases hlu : l' = l ∧ u' = u
  · obtain ⟨rfl, rfl⟩ := hlu
    simp only [and_self, if_true, Option.map_some']
    by_cases hl : l' < n.nlayers
    · by_cases hk : k' < a.numberOfWeights
      · have hk' : ¬ k' ≥ a.numberOfWeights := by omega
        simp [hl, hk, hk', bind, Except.bind, Unit.getNumberOfWeights, hnw,
          pure, Except.pure, Unit.getWeight]
      · have hk' : k' ≥ a.numberOfWeights := by omega
        simp [hl, hk, hk', bind, Except.bind, Unit.getNumberOfWeights, hnw]
    · simp [hl, bind, Except.bind]
  · simp only [hlu, if_false]

end BackPropFacts

/-- C3: a weight update that `BackPropagation::compute` performs on weight
`k` of unit `u` of layer `l` with local gradient `d` (on a unit of agreeing
sizes with a momentum entry `m`, the error accumulator being long enough)
computes `delta_w = eta*d*x - 2*eta*lambda'*w_old + alpha*m`, where `x` is
the cached input `k`, `w_old` the weight before, `lambda'` is `0` for
`k = 0` and the configured rate otherwise; the weight becomes
`w_old + delta_w`, the momentum entry of the unit becomes `delta_w`, and no
other weight and no other momentum entry changes. -/
theorem C3_weight_update {R : Type} [LinearOrderedField R]
    (bp : BackPropagation R) (s : BPState R) (l u k : Nat) (d : R)
    (a : Unit R) (t : List (List R)) (m : R)
    (hl : l < s.nn.nlayers) (ha : s.nn.unit? l u = some a) (hs : a.Sized)
    (hk : k < a.numberOfWeights) (ht : s.momentumtable = some t)
    (hm : momentum? t l u = some m)
    (hev : k = 0 ∨ k - 1 < s.errorVector.length) :
    ∃ x w s' t', s.nn.getUnitInput l u k = .ok x ∧
      s.nn.getWeight l u k = .ok w ∧
      BackPropagation.weightStep bp l u d s k = .ok s' ∧
      s'.momentumtable = some t' ∧
      s'.nn.getWeight l u k = .ok (w + (bp.eta * d * x -
        2 * bp.eta * (if k = 0 then 0 else bp.lambda) * w + bp.alfa * m)) ∧
      momentum? t' l u = some (bp.eta * d * x -
        2 * bp.eta * (if k = 0 then 0 else bp.lambda) * w + bp.alfa * m) ∧
      (∀ l' u' k', ¬ (l' = l ∧ u' = u ∧ k' = k) →
        s'.nn.getWeight l' u' k' = s.nn.getWeight l' u' k') ∧
      (∀ l' u', ¬ (l' = l ∧ u' = u) →
        momentum? t' l' u' = momentum? t l' u') := by
  obtain ⟨s1, s2, s3⟩ := hs
  obtain ⟨row, hrow, hmu⟩ : ∃ row, t[l]? = some row ∧ row[u]? = some m := by
    unfold momentum? at hm
    cases hr : t[l]? with
    | none => simp [hr] at hm
    | some row => exact ⟨row, rfl, by simpa [hr] using hm⟩
  -- the update proper, for any regularization rate and accumulator
  have key : ∀ (lam : R) (ev : List R),
      ∃ s' t', BackPropagation.updateWeight { s with errorVector := ev } l u k
          bp.eta d lam bp.alfa = .ok s' ∧
        s'.momentumtable = some t' ∧
        s'.nn.getWeight l u k = .ok (a.weights.getD k 0 +
          (bp.eta * d * a.inputs.getD k 0 -
            2 * bp.eta * lam * a.weights.getD k 0 + bp.alfa * m)) ∧
        momentum? t' l u = some (bp.eta * d * a.inputs.getD k 0 -
            2 * bp.eta * lam * a.weights.getD k 0 + bp.alfa * m) ∧
        (∀ l' u' k', ¬ (l' = l ∧ u' = u ∧ k' = k) →
          s'.nn.getWeight l' u' k' = s.nn.getWeight l' u' k') ∧
        (∀ l' u', ¬ (l' = l ∧ u' = u) →
          momentum? t' l' u' = momentum? t l' u') := by
    intro lam ev
    have hput := fun (ws : List R) => NeuralNetwork.getWeight_putUnit s.nn l u a
      { a with weights := ws } ha rfl
    refine ⟨_, _, BackPropagation.updateWeight_ok { s with errorVector := ev }
      l u k bp.eta d lam bp.alfa a t row m hl ha ⟨s1, s2, s3⟩ hk ht hrow hmu,
      rfl, ?_, ?_, ?_, ?_⟩
    · show (s.nn.putUnit l u _).getWeight l u k = _
      rw [hput]
      have hkw : k < a.weights.length := by omega
      simp [hl, hk, rawGet, hkw]
    · rw [momentum?_set t l u row hrow]
      simp [hmu]
    · intro l' u' k' hne
      show (s.nn.putUnit l u _).getWeight l' u' k' = _
      rw [hput]
      by_cases hlu : l' = l ∧ u' = u
      · obtain ⟨rfl, rfl⟩ := hlu
        have hkk : k ≠ k' := fun e => hne ⟨rfl, rfl, e.symm⟩
        by_cases hv : k' < a.numberOfWeights
        · rw [NeuralNetwork.getWeight_eq s.nn l' u' k' a hl ha hv]
          simp [hl, hv, rawGet, List.getElem?_set, hkk]
        · rw [NeuralNetwork.getWeight_invalid s.nn l' u' k'
            (fun ⟨_, b, hb, hkb⟩ => by
              rw [ha] at hb
              have : a = b := Option.some.inj hb
              subst this
              exact hv hkb)]
          simp [hv]
      · simp [hlu]
    · intro l' u' hne
      rw [momentum?_set t l u row hrow]
      simp [hne]
  have hx := NeuralNetwork.getUnitInput_ok s.nn l u k a _ hl ha (by omega) s1
    (getElem?_getD_of_lt a.inputs k 0 (by omega))
  have hw : s.nn.getWeight l u k = .ok (a.weights.getD k 0) := by
    rw [NeuralNetwork.getWeight_eq s.nn l u k a hl ha hk,
      rawGet_getD _ _ (by omega)]
  cases k with
  | zero =>
    obtain ⟨s', t', h1, h2, h3, h4, h5, h6⟩ := key 0 s.errorVector
    exact ⟨_, _, s', t', hx, hw, h1, h2, by simpa using h3, by simpa using h4,
      h5, h6⟩
  | succ j =>
    have hj : j < s.errorVector.length := by
      rcases hev with h | h
      · omega
      · simpa using h
    obtain ⟨s', t', h1, h2, h3, h4, h5, h6⟩ := key bp.lambda
      (s.errorVector.set j (s.errorVector.getD j 0 + d * a.weights.getD (j + 1) 0))
    refine ⟨_, _, s', t', hx, hw, ?_, h2, by simpa using h3,
      by simpa using h4, h5, h6⟩
    unfold BackPropagation.weightStep
    simp only [rawGet_getD _ _ hj, hw, rawSet_ok _ _ _ hj, bind, Except.bind]
    exact h1

/-- Witness of C3: weight `1` of the output unit of the sample network, with
local gradient `2/27` and momentum entry `1/5`. -/
theorem C3_weight_update_witness :
    ∃ x w s' t', sampleState.nn.getUnitInput 1 0 1 = .ok x ∧
      sampleState.nn.getWeight 1 0 1 = .ok w ∧
      BackPropagation.weightStep (sampleBP [[0, 0], [1 / 5]]) 1 0 (2 / 27)
        sampleState 1 = .ok s' ∧
      s'.momentumtable = some t' ∧
      s'.nn.getWeight 1 0 1 = .ok (w + ((sampleBP [[0, 0], [1 / 5]]).eta * (2 / 27) * x -
        2 * (sampleBP [[0, 0], [1 / 5]]).eta *
          (if 1 = 0 then 0 else (sampleBP [[0, 0], [1 / 5]]).lambda) * w +
        (sampleBP [[0, 0], [1 / 5]]).alfa * (1 / 5))) ∧
      momentum? t' 1 0 = some ((sampleBP [[0, 0], [1 / 5]]).eta * (2 / 27) * x -
        2 * (sampleBP [[0, 0], [1 / 5]]).eta *
          (if 1 = 0 then 0 else (sampleBP [[0, 0], [1 / 5]]).lambda) * w +
        (sampleBP [[0, 0], [1 / 5]]).alfa * (1 / 5)) ∧
      (∀ l' u' k', ¬ (l' = 1 ∧ u' = 0 ∧ k' = 1) →
        s'.nn.getWeight l' u' k' = sampleState.nn.getWeight l' u' k') ∧
      (∀ l' u', ¬ (l' = 1 ∧ u' = 0) →
        momentum? t' l' u' = momentum? [[0, 0], [1 / 5]] l' u') :=
  C3_weight_update (sampleBP [[0, 0], [1 / 5]]) sampleState 1 0 1 (2 / 27)
    (sampleUnit [1 / 2, -1 / 2, 1 / 4]) [[0, 0], [1 / 5]] (1 / 5)
    (by decide) rfl ⟨rfl, rfl, rfl⟩ (by decide) rfl rfl (Or.inr (by decide))

section BackPropUnit

variable {R : Type} [LinearOrderedField R]

omit [LinearOrderedField R] in
theorem NeuralNetwork.putUnit_putUnit (n : NeuralNetwork R) (l u : Nat)
    (x y : Unit R) : (n.putUnit l u x).putUnit l u y = n.putUnit l u y := by
  unfold NeuralNetwork.putUnit
  simp only
  congr 1
  by_cases hl : l < n.network.length
  · simp [List.getD_eq_getElem?_getD, List.getElem?_set, hl, List.set_set]
  · have h1 : n.network.length ≤ l := by omega
    simp [List.set_eq_of_length_le h1]

omit [LinearOrderedField R] in
theorem getD_set_eq (v : List R) (i j : Nat) (x d : R) :
    (v.set i x).getD j d = if i = j ∧ i < v.length then x else v.getD j d := by
  simp only [List.getD_eq_getElem?_getD, List.getElem?_set]
  by_cases h : i = j
  · subst h
    by_cases hl : i < v.length
    · simp [hl]
    · simp [hl, List.getElem?_eq_none (Nat.le_of_not_lt hl)]
  · simp [h]

omit [LinearOrderedField R] in
theorem table_set_set (t : List (List R)) (l u : Nat) (row : List R)
    (x y : R) :
    (t.set l (row.set u x)).set l ((row.set u x).set u y) =
      t.set l (row.set u y) := by
  rw [List.set_set, List.set_set]

/-- The loop of `compute` over the weights `1, 2, ...` of one unit, after the
update of the bias weight, stopped after `n` weights: the weights up to `n`
have moved by the deltas of `deltaChain`, the others are as they were, and
the momentum entry of the unit is the delta of weight `n`. -/
theorem BackPropagation.unitSteps_ok (bp : BackPropagation R) (s : BPState R)
    (l u : Nat) (d : R) (a : Unit R) (t : List (List R)) (row : List R)
    (m0 : R) (hl : l < s.nn.nlayers) (ha : s.nn.unit? l u = some a)
    (hs : a.Sized) (hrow : t[l]? = some row)
    (hm : row[u]? = some m0) (hev : s.errorVector.length = a.numberOfInputs)
    (n : Nat) (hn : n ≤ a.numberOfInputs) :
    ∃ aj evj, (List.range n).foldlM
        (fun (s : BPState R) j => BackPropagation.weightStep bp l u d s (j + 1))
        (⟨s.nn.putUnit l u { a with weights := (a.weights.set 0
            (a.weights.getD 0 0 + (bp.eta * d * a.inputs.getD 0 0 -
              2 * bp.eta * 0 * a.weights.getD 0 0 + bp.alfa * m0))) },
          some (t.set l (row.set u (bp.eta * d * a.inputs.getD 0 0 -
            2 * bp.eta * 0 * a.weights.getD 0 0 + bp.alfa * m0))),
          s.errorVector⟩ : BPState R) = .ok
        ⟨s.nn.putUnit l u aj, some (t.set l (row.set u
          (deltaChain bp.eta bp.lambda bp.alfa d a.weights a.inputs m0 n))),
          evj⟩ ∧
      Unit.SameCaches aj a ∧
      (∀ i, aj.weights.getD i 0 = if i ≤ n then a.weights.getD i 0 +
        deltaChain bp.eta bp.lambda bp.alfa d a.weights a.inputs m0 i
        else a.weights.getD i 0) ∧
      evj.length = a.numberOfInputs ∧
      (∀ p, evj.getD p 0 = if p < n then
        s.errorVector.getD p 0 + d * a.weights.getD (p + 1) 0
        else s.errorVector.getD p 0) := by
  obtain ⟨s1, s2, s3⟩ := hs
  have hlt : l < t.length := (List.getElem?_eq_some_iff.1 hrow).1
  have hult : u < row.length := (List.getElem?_eq_some_iff.1 hm).1
  obtain ⟨σ, hσ, aj, evj, hσe, hsc, hwj, hevl, hevj⟩ := foldlM_range_inv
    (fun (s : BPState R) j => BackPropagation.weightStep bp l u d s (j + 1))
    (fun j σ => ∃ aj evj, σ = ⟨s.nn.putUnit l u aj, some (t.set l (row.set u
          (deltaChain bp.eta bp.lambda bp.alfa d a.weights a.inputs m0 j))),
          evj⟩ ∧
      Unit.SameCaches aj a ∧
      (∀ i, aj.weights.getD i 0 = if i ≤ j then a.weights.getD i 0 +
        deltaChain bp.eta bp.lambda bp.alfa d a.weights a.inputs m0 i
        else a.weights.getD i 0) ∧
      evj.length = a.numberOfInputs ∧
      (∀ p, evj.getD p 0 = if p < j then
        s.errorVector.getD p 0 + d * a.weights.getD (p + 1) 0
        else s.errorVector.getD p 0))
    n
    (⟨s.nn.putUnit l u { a with weights := (a.weights.set 0
        (a.weights.getD 0 0 + (bp.eta * d * a.inputs.getD 0 0 -
          2 * bp.eta * 0 * a.weights.getD 0 0 + bp.alfa * m0))) },
      some (t.set l (row.set u (bp.eta * d * a.inputs.getD 0 0 -
          2 * bp.eta * 0 * a.weights.getD 0 0 + bp.alfa * m0))),
      s.errorVector⟩ : BPState R)
    ⟨{ a with weights := (a.weights.set 0
        (a.weights.getD 0 0 + (bp.eta * d * a.inputs.getD 0 0 -
          2 * bp.eta * 0 * a.weights.getD 0 0 + bp.alfa * m0))) },
      s.errorVector, rfl, ⟨rfl, rfl, rfl, rfl, by simp⟩, (by
        intro i
        show (a.weights.set 0 _).getD i 0 = _
        rw [getD_set_eq]
        by_cases hi : 0 = i
        · subst hi
          have : (0 : Nat) < a.weights.length := by omega
          simp [this, deltaChain]
        · have h1 : ¬ i ≤ 0 := by omega
          simp [hi, h1]), hev,
      fun p => by simp⟩
    (by
      rintro j σ hj ⟨aj, evj, rfl, ⟨c1, c2, c3, c4, c5⟩, hwj, hevl, hevj⟩
      have hunit : (s.nn.putUnit l u aj).unit? l u = some aj := by
        rw [NeuralNetwork.unit?_putUnit, ha]; simp
      have hjl : j < evj.length := by omega
      have hwold : aj.weights.getD (j + 1) 0 = a.weights.getD (j + 1) 0 := by
        rw [hwj (j + 1)]; simp
      have hgw : (s.nn.putUnit l u aj).getWeight l u (j + 1) =
          .ok (a.weights.getD (j + 1) 0) := by
        rw [NeuralNetwork.getWeight_eq (s.nn.putUnit l u aj) l u (j + 1) aj hl hunit
              (by omega),
          rawGet_getD _ _ (by omega), hwold]
      have hup := BackPropagation.updateWeight_ok
        (⟨s.nn.putUnit l u aj, some (t.set l (row.set u
            (deltaChain bp.eta bp.lambda bp.alfa d a.weights a.inputs m0 j))),
          evj.set j (evj.getD j 0 + d * a.weights.getD (j + 1) 0)⟩ : BPState R)
        l u (j + 1) bp.eta d bp.lambda bp.alfa aj
        (t.set l (row.set u
          (deltaChain bp.eta bp.lambda bp.alfa d a.weights a.inputs m0 j)))
        (row.set u
          (deltaChain bp.eta bp.lambda bp.alfa d a.weights a.inputs m0 j))
        (deltaChain bp.eta bp.lambda bp.alfa d a.weights a.inputs m0 j)
        hl hunit
        ⟨by omega, by omega, by rw [c3]; omega⟩ (by omega) rfl
        (by simp [List.getElem?_set, hlt]) (by simp [List.getElem?_set, hult])
      refine ⟨_, ?_, { aj with weights := (aj.weights.set (j + 1)
          (aj.weights.getD (j + 1) 0 +
            deltaChain bp.eta bp.lambda bp.alfa d a.weights a.inputs m0 (j + 1))) },
        evj.set j (evj.getD j 0 + d * a.weights.getD (j + 1) 0), rfl,
        ⟨c1, c2, c3, c4, by simp [c5]⟩, ?_, by simp [hevl], ?_⟩
      · unfold BackPropagation.weightStep
        simp only [rawGet_getD _ _ hjl, hgw, rawSet_ok _ _ _ hjl, bind,
          Except.bind]
        rw [hup, NeuralNetwork.putUnit_putUnit, table_set_set, c3, hwold]
        rfl
      · intro i
        show (aj.weights.set (j + 1) _).getD i 0 = _
        rw [getD_set_eq]
        by_cases hi : j + 1 = i
        · subst hi
          have hlen : j + 1 < aj.weights.length := by omega
          rw [if_pos ⟨rfl, hlen⟩, if_pos (le_refl _), hwold]
        · have hww := hwj i
          simp only [hi, false_and, if_false]
          rw [hww]
          by_cases hij : i ≤ j
          · have : i ≤ j + 1 := by omega
            simp [hij, this]
          · have : ¬ i ≤ j + 1 := by omega
            simp [hij, this]
      · intro p
        rw [getD_set_eq]
        by_cases hp : j = p
        · subst hp
          have h1 := hevj j
          simp only [lt_irrefl, if_false] at h1
          rw [if_pos ⟨rfl, hjl⟩, if_pos (Nat.lt_succ_self j), h1]
        · have hpp := hevj p
          simp only [hp, false_and, if_false]
          rw [hpp]
          by_cases hpj : p < j
          · have : p < j + 1 := by omega
            simp [hpj, this]
          · have : ¬ p < j + 1 := by omega
            simp [hpj, this])
  subst hσe
  exact ⟨aj, evj, hσ, hsc, hwj, hevl, hevj⟩

/-- The pass of `compute` over the weights of one unit, with local gradient
`d`: the weights move by the deltas of `deltaChain`, the momentum entry of
the unit ends as the delta of the last weight, and the error accumulator
gains `d` times the old weights. -/
theorem BackPropagation.updateUnit_ok (bp : BackPropagation R) (s : BPState R)
    (l u : Nat) (d : R) (a : Unit R) (t : List (List R)) (row : List R)
    (m0 : R) (hl : l < s.nn.nlayers) (ha : s.nn.unit? l u = some a)
    (hs : a.Sized) (ht : s.momentumtable = some t) (hrow : t[l]? = some row)
    (hm : row[u]? = some m0) (hev : s.errorVector.length = a.numberOfInputs) :
    ∃ a' ev', BackPropagation.updateUnit bp l u d s = .ok
        ⟨s.nn.putUnit l u a', some (t.set l (row.set u
          (deltaChain bp.eta bp.lambda bp.alfa d a.weights a.inputs m0
            a.numberOfInputs))), ev'⟩ ∧
      Unit.SameCaches a' a ∧
      (∀ i, i ≤ a.numberOfInputs → a'.weights.getD i 0 = a.weights.getD i 0 +
        deltaChain bp.eta bp.lambda bp.alfa d a.weights a.inputs m0 i) ∧
      ev'.length = a.numberOfInputs ∧
      (∀ p, p < a.numberOfInputs → ev'.getD p 0 =
        s.errorVector.getD p 0 + d * a.weights.getD (p + 1) 0) := by
  obtain ⟨s1, s2, s3⟩ := hs
  have hlt : l < t.length := (List.getElem?_eq_some_iff.1 hrow).1
  have hult : u < row.length := (List.getElem?_eq_some_iff.1 hm).1
  unfold BackPropagation.updateUnit
  rw [NeuralNetwork.getNumberOfWeight_ok s.nn l u a hl ha]
  have hass : s.errorVector.length = upred a.numberOfWeights := by
    rw [upred_pos _ (by omega)]; omega
  simp only [bind, Except.bind, cassert, hass, if_true]
  -- the bias weight
  have h0 : BackPropagation.weightStep bp l u d s 0 = _ :=
    BackPropagation.updateWeight_ok s l u 0 bp.eta d 0 bp.alfa a t row m0 hl ha
      ⟨s1, s2, s3⟩ (by omega) ht hrow hm
  rw [h0]
  simp only []
  rw [hev]
  -- the other weights
  obtain ⟨aj, evj, hσ, hsc, hwj, hevl, hevj⟩ :=
    BackPropagation.unitSteps_ok bp s l u d a t row m0 hl ha ⟨s1, s2, s3⟩ hrow
      hm hev a.numberOfInputs (le_refl _)
  refine ⟨aj, evj, hσ, hsc, fun i hi => ?_, hevl, fun p hp => ?_⟩
  · rw [hwj i, if_pos hi]
  · rw [hevj p, if_pos hp]

end BackPropUnit

section BackPropStep

variable {R : Type} [LinearOrderedField R]

omit [LinearOrderedField R] in
theorem table_shape_set (t : List (List R)) (l u : Nat) (row : List R)
    (hrow : t[l]? = some row) (x : R) :
    (t.set l (row.set u x)).map List.length = t.map List.length := by
  apply List.ext_getElem?
  intro i
  simp only [List.getElem?_map, List.getElem?_set]
  by_cases hi : l = i
  · subst hi
    have hlt : l < t.length := (List.getElem?_eq_some_iff.1 hrow).1
    simp [hlt, hrow]
  · simp [hi]

omit [LinearOrderedField R] in
theorem table_entry (t : List (List R)) (dims : List Nat)
    (ht : t.map List.length = dims) (l u d : Nat) (hd : dims[l]? = some d)
    (hu : u < d) :
    ∃ row m, t[l]? = some row ∧ row[u]? = some m ∧ momentum? t l u = some m := by
  rw [← ht] at hd
  cases hr : t[l]? with
  | none => simp [hr] at hd
  | some row =>
    simp only [List.getElem?_map, hr, Option.map_some', Option.some.injEq] at hd
    have hlt : u < row.length := by omega
    refine ⟨row, row[u], rfl, List.getElem?_eq_getElem hlt, ?_⟩
    unfold momentum?
    simp [hr, List.getElem?_eq_getElem hlt]

/-- Processing one more unit, with the gradient `g l u`, extends the set of
processed units by that unit. -/
theorem BackPropagation.updated_step (bp : BackPropagation R)
    (n1 : NeuralNetwork R) (t0 : List (List R)) (g : Nat → Nat → R)
    (done : Nat → Nat → Prop) (s : BPState R) (l u : Nat) (h1 : n1.WF)
    (hU : s.Updated bp n1 t0 g done) (b : Unit R) (hb : n1.unit? l u = some b)
    (hnd : ¬ done l u) (hev : s.errorVector.length = b.numberOfInputs) :
    ∃ s', BackPropagation.updateUnit bp l u (g l u) s = .ok s' ∧
      s'.Updated bp n1 t0 g (fun l' u' => done l' u' ∨ (l' = l ∧ u' = u)) ∧
      s'.errorVector.length = b.numberOfInputs ∧
      ∀ p, p < b.numberOfInputs → s'.errorVector.getD p 0 =
        s.errorVector.getD p 0 + g l u * b.weights.getD (p + 1) 0 := by
  obtain ⟨f1, f2, f3, f4, f5, t, ht, hshape, hunits⟩ := hU
  obtain ⟨a, ha, ⟨c1, c2, c3, c4, c5⟩, _, hfresh⟩ := hunits l u b hb
  obtain ⟨hw, hmom⟩ := hfresh hnd
  obtain ⟨⟨⟨w1, w2, w3⟩, _⟩, _, _⟩ := NeuralNetwork.wf_unit n1 h1 l u b hb
  obtain ⟨d, hd, hud⟩ := NeuralNetwork.unit?_dims n1 l u b hb
  have hl : l < n1.nlayers := by
    have := (List.getElem?_eq_some_iff.1 hd).1
    rw [NeuralNetwork.dims_length, h1.1] at this
    exact this
  obtain ⟨row, m0, hrow, hm, hmm⟩ := table_entry t n1.dims hshape l u d hd hud
  have hm0 : (momentum? t0 l u).getD 0 = m0 := by rw [← hmom, hmm]; rfl
  obtain ⟨a', ev', hok, ⟨e1, e2, e3, e4, e5⟩, hwts, hevl, hevp⟩ :=
    BackPropagation.updateUnit_ok bp s l u (g l u) a t row m0
      (by rw [f2]; exact hl) ha
      ⟨by omega, by rw [hw]; omega, by rw [c3]; omega⟩ ht hrow hm
      (by rw [c1]; exact hev)
  rw [hw, c3, c1] at hok hwts
  rw [c1] at hevl hevp
  refine ⟨_, hok, ⟨f1, f2, f3, by
      show (s.nn.putUnit l u a').dims = _
      rw [NeuralNetwork.dims_putUnit]; exact f4, f5, _, rfl, by
      rw [table_shape_set t l u row hrow]; exact hshape, ?_⟩, hevl, ?_⟩
  · intro l' u' b' hb'
    by_cases hlu : l' = l ∧ u' = u
    · obtain ⟨rfl, rfl⟩ := hlu
      rw [hb] at hb'
      have hbb : b = b' := Option.some.inj hb'
      subst hbb
      refine ⟨a', ?_, ⟨by omega, by omega, by rw [e3, c3], by rw [e4, c4],
        by omega⟩, fun _ => ⟨?_, ?_⟩, fun hn => absurd (Or.inr ⟨rfl, rfl⟩) hn⟩
      · show (s.nn.putUnit l' u' a').unit? l' u' = _
        rw [NeuralNetwork.unit?_putUnit, ha]; simp
      · intro k hk
        rw [hm0]
        exact hwts k hk
      · rw [momentum?_set t l' u' row hrow, hm0]
        simp [hm]
    · obtain ⟨a2, ha2, hc2, hdone2, hfresh2⟩ := hunits l' u' b' hb'
      refine ⟨a2, ?_, hc2, fun hd' => ?_, fun hn => ?_⟩
      · show (s.nn.putUnit l u a').unit? l' u' = _
        rw [NeuralNetwork.unit?_putUnit]; simp [hlu, ha2]
      · have hd2 : done l' u' := by
          rcases hd' with h | h
          · exact h
          · exact absurd h hlu
        obtain ⟨q1, q2⟩ := hdone2 hd2
        refine ⟨q1, ?_⟩
        rw [momentum?_set t l u row hrow]; simp [hlu, q2]
      · obtain ⟨q1, q2⟩ := hfresh2 (fun h => hn (Or.inl h))
        refine ⟨q1, ?_⟩
        rw [momentum?_set t l u row hrow]; simp [hlu, q2]
  · intro p hp
    rw [hevp p hp, hw]

end BackPropStep

section BackPropLayer

variable {R : Type} [LinearOrderedField R]

theorem BackPropagation.updated_congr (bp : BackPropagation R)
    (n1 : NeuralNetwork R) (t0 : List (List R)) (g : Nat → Nat → R)
    (done done' : Nat → Nat → Prop) (s : BPState R)
    (h : ∀ l u b, n1.unit? l u = some b → (done l u ↔ done' l u))
    (hU : s.Updated bp n1 t0 g done) : s.Updated bp n1 t0 g done' := by
  obtain ⟨f1, f2, f3, f4, f5, t, ht, hshape, hunits⟩ := hU
  refine ⟨f1, f2, f3, f4, f5, t, ht, hshape, ?_⟩
  intro l u b hb
  obtain ⟨a, ha, hc, hd, hf⟩ := hunits l u b hb
  exact ⟨a, ha, hc, fun h' => hd ((h l u b hb).2 h'),
    fun h' => hf (fun hh => h' ((h l u b hb).1 hh))⟩

theorem NeuralNetwork.weightOf_eq (n : NeuralNetwork R) (l u k : Nat)
    (b : Unit R) (hb : n.unit? l u = some b) :
    n.weightOf l u k = b.weights.getD k 0 := by
  unfold NeuralNetwork.weightOf; rw [hb]

theorem NeuralNetwork.outputOf_eq (n : NeuralNetwork R) (l u : Nat)
    (b : Unit R) (hb : n.unit? l u = some b) :
    n.outputOf l u = b.lastOutput := by
  unfold NeuralNetwork.outputOf; rw [hb]

/-- The loop of `compute` over the units of one layer: all units of the
layer get processed, and the error accumulator ends as the sums of gradient
times old weight. -/
theorem BackPropagation.layer_loop (bp : BackPropagation R)
    (n1 : NeuralNetwork R) (t0 : List (List R)) (g : Nat → Nat → R)
    (h1 : n1.WF) (l dim arity : Nat) (hd : n1.dims[l]? = some dim)
    (harity : ∀ u b, n1.unit? l u = some b → b.numberOfInputs = arity)
    (done0 : Nat → Nat → Prop) (hnd : ∀ u, ¬ done0 l u)
    (f : BPState R → Nat → Except Error (BPState R))
    (hf : ∀ s i, i < dim →
      s.Updated bp n1 t0 g (fun l' u' => done0 l' u' ∨ (l' = l ∧ u' < i)) →
      f s i = BackPropagation.updateUnit bp l i (g l i) s)
    (s0 : BPState R) (hU : s0.Updated bp n1 t0 g done0)
    (hev0 : s0.errorVector = List.replicate arity 0) :
    ∃ s', (List.range dim).foldlM f s0 = .ok s' ∧
      s'.Updated bp n1 t0 g (fun l' u' => done0 l' u' ∨ l' = l) ∧
      s'.errorVector.length = arity ∧
      ∀ p, p < arity → s'.errorVector.getD p 0 =
        ∑ j in Finset.range dim, g l j * n1.weightOf l j (p + 1) := by
  obtain ⟨s', hs', hU', hlen, hsum⟩ := foldlM_range_inv f
    (fun i s =>
      s.Updated bp n1 t0 g (fun l' u' => done0 l' u' ∨ (l' = l ∧ u' < i)) ∧
      s.errorVector.length = arity ∧
      ∀ p, p < arity → s.errorVector.getD p 0 =
        ∑ j in Finset.range i, g l j * n1.weightOf l j (p + 1))
    dim s0
    ⟨BackPropagation.updated_congr bp n1 t0 g _ _ s0
        (fun l' u' _ _ => ⟨fun h => Or.inl h, fun h => by
          rcases h with h | ⟨_, h⟩
          · exact h
          · omega⟩) hU,
      by rw [hev0]; simp, fun p hp => by
        rw [hev0]; simp [List.getD_eq_getElem?_getD, hp]⟩
    (by
      rintro i s hi ⟨hUs, hlen, hsum⟩
      obtain ⟨b, hb⟩ := NeuralNetwork.dims_unit? n1 l i dim hd hi
      have hbar := harity i b hb
      obtain ⟨s', hs', hU', hlen', hev'⟩ := BackPropagation.updated_step bp n1
        t0 g _ s l i h1 hUs b hb
        (by
          rintro (h | ⟨_, h⟩)
          · exact hnd i h
          · omega)
        (by rw [hlen, hbar])
      refine ⟨s', by rw [hf s i hi hUs]; exact hs', ?_, by rw [hlen', hbar], ?_⟩
      · refine BackPropagation.updated_congr bp n1 t0 g _ _ s' ?_ hU'
        intro l' u' _ _
        constructor
        · rintro ((h | ⟨h1, h2⟩) | ⟨h1, h2⟩)
          · exact Or.inl h
          · exact Or.inr ⟨h1, by omega⟩
          · exact Or.inr ⟨h1, by omega⟩
        · rintro (h | ⟨h1, h2⟩)
          · exact Or.inl (Or.inl h)
          · by_cases hu : u' < i
            · exact Or.inl (Or.inr ⟨h1, hu⟩)
            · exact Or.inr ⟨h1, by omega⟩
      · intro p hp
        rw [hev' p (by rw [hbar]; exact hp), hsum p hp, Finset.sum_range_succ,
          NeuralNetwork.weightOf_eq n1 l i (p + 1) b hb])
  refine ⟨s', hs', ?_, hlen, hsum⟩
  refine BackPropagation.updated_congr bp n1 t0 g _ _ s' ?_ hU'
  intro l' u' b hb
  constructor
  · rintro (h | ⟨h1, _⟩)
    · exact Or.inl h
    · exact Or.inr h1
  · rintro (h | h1)
    · exact Or.inl h
    · subst h1
      obtain ⟨d, hd', hud⟩ := NeuralNetwork.unit?_dims n1 l' u' b hb
      rw [hd] at hd'
      have : dim = d := Option.some.inj hd'
      exact Or.inr ⟨rfl, by omega⟩

end BackPropLayer

section BackPropPhases

variable {R : Type} [LinearOrderedField R]

omit [LinearOrderedField R] in
theorem NeuralNetwork.dimOf_eq (n : NeuralNetwork R) (l d : Nat)
    (h : n.dims[l]? = some d) : n.dimOf l = d := by
  unfold NeuralNetwork.dimOf
  simp [List.getD_eq_getElem?_getD, h]

/-- The state in which the backward phase starts is the one with no unit
processed. -/
theorem BackPropagation.updated_init (bp : BackPropagation R)
    (n1 : NeuralNetwork R) (t0 : List (List R)) (g : Nat → Nat → R)
    (ht0 : t0.map List.length = n1.dims) (ev : List R) :
    BPState.Updated bp n1 t0 g (fun _ _ => False) ⟨n1, some t0, ev⟩ :=
  ⟨rfl, rfl, rfl, rfl, rfl, t0, rfl, ht0, fun _ _ b hb =>
    ⟨b, hb, ⟨rfl, rfl, rfl, rfl, rfl⟩, fun h => absurd h id,
      fun _ => ⟨rfl, rfl⟩⟩⟩

/-- The loop over the output layer processes every output unit with the
gradient of the specification. -/
theorem BackPropagation.outputPhase_ok (bp : BackPropagation R)
    (n1 : NeuralNetwork R) (desired : List R) (t0 : List (List R))
    (h1 : n1.WF) (hL : 2 ≤ n1.nlayers)
    (hout : ∀ u a, n1.unit? (n1.nlayers - 1) u = some a →
      n1.lastOutput[u]? = some a.lastOutput)
    (hdes : desired.length = n1.dimOf (n1.nlayers - 1))
    (hbt : bp.momentumtable = some t0) (ht0 : t0.map List.length = n1.dims) :
    ∃ s, BackPropagation.outputPhase bp n1 desired = .ok s ∧
      s.Updated bp n1 t0
        (fun l u => gradient n1 desired (n1.nlayers - 1 - l) l u)
        (fun l' _ => n1.nlayers - 1 ≤ l') ∧
      s.errorVector.length = n1.dimOf (n1.nlayers - 2) ∧
      ∀ p, p < n1.dimOf (n1.nlayers - 2) → s.errorVector.getD p 0 =
        ∑ j in Finset.range (n1.dimOf (n1.nlayers - 1)),
          gradient n1 desired 0 (n1.nlayers - 1) j *
            n1.weightOf (n1.nlayers - 1) j (p + 1) := by
  obtain ⟨dL, hdL⟩ :=
    NeuralNetwork.dims_at n1 h1.1 (n1.nlayers - 1) (by omega)
  obtain ⟨d2, hd2⟩ :=
    NeuralNetwork.dims_at n1 h1.1 (n1.nlayers - 2) (by omega)
  rw [NeuralNetwork.dimOf_eq n1 _ dL hdL] at hdes ⊢
  rw [NeuralNetwork.dimOf_eq n1 _ d2 hd2]
  have hsub : n1.nlayers - 1 - 1 = n1.nlayers - 2 := by omega
  unfold BackPropagation.outputPhase
  have hge : n1.getNumberOfLayers ≥ 2 := hL
  simp only [cassert, hge, if_true, bind, Except.bind]
  simp only [NeuralNetwork.getNumberOfLayers, hsub,
    NeuralNetwork.getLayerDimension_ok n1 _ d2 (by omega) hd2,
    NeuralNetwork.getLayerDimension_ok n1 _ dL (by omega) hdL, hbt]
  have harity : ∀ u b, n1.unit? (n1.nlayers - 1) u = some b →
      b.numberOfInputs = d2 := by
    intro u b hb
    have := (NeuralNetwork.wf_unit n1 h1 _ u b hb).2.2 (n1.nlayers - 2) (by omega)
    rw [hd2] at this
    exact (Option.some.inj this).symm
  obtain ⟨s', hs', hU', hlen, hsum⟩ := BackPropagation.layer_loop bp n1 t0
    (fun l u => gradient n1 desired (n1.nlayers - 1 - l) l u) h1
    (n1.nlayers - 1) dL d2 hdL harity (fun _ _ => False) (fun _ h => h)
    (BackPropagation.outputUnit bp desired (n1.nlayers - 1))
    (by
      intro s i hi hUs
      obtain ⟨b, hb⟩ := NeuralNetwork.dims_unit? n1 _ i dL hdL hi
      have hlo : s.nn.lastOutput = n1.lastOutput := hUs.2.2.2.2.1
      have hy := hout i b hb
      have hil : i < n1.lastOutput.length := (List.getElem?_eq_some_iff.1 hy).1
      unfold BackPropagation.outputUnit NeuralNetwork.getOutput
      have hgt : ¬ i > n1.lastOutput.length := by omega
      simp only [hlo, hgt, if_false, rawGet_of_get? _ _ _ hy,
        rawGet_getD desired i (by omega), bind, Except.bind]
      have hg : BackPropagation.localGradient (desired.getD i 0 - b.lastOutput)
          b.lastOutput =
          gradient n1 desired (n1.nlayers - 1 - (n1.nlayers - 1))
            (n1.nlayers - 1) i := by
        rw [Nat.sub_self]
        simp only [gradient, BackPropagation.localGradient,
          NeuralNetwork.outputOf_eq n1 _ i b hb]
        ring
      rw [hg])
    ⟨n1, some t0, List.replicate d2 0⟩
    (BackPropagation.updated_init bp n1 t0 _ ht0 _) rfl
  refine ⟨s', hs', ?_, hlen, fun p hp => ?_⟩
  · refine BackPropagation.updated_congr bp n1 t0 _ _ _ s' ?_ hU'
    intro l' u' b hb
    obtain ⟨d, hd, _⟩ := NeuralNetwork.unit?_dims n1 l' u' b hb
    have hl' : l' < n1.nlayers := by
      have := (List.getElem?_eq_some_iff.1 hd).1
      rw [NeuralNetwork.dims_length, h1.1] at this
      exact this
    constructor
    · rintro (h | h)
      · exact absurd h id
      · omega
    · intro h
      exact Or.inr (by omega)
  · rw [hsum p hp]
    simp only [Nat.sub_self]

end BackPropPhases

section BackPropHidden

variable {R : Type} [LinearOrderedField R]

theorem BackPropagation.updated_getUnitOutput (bp : BackPropagation R)
    (n1 : NeuralNetwork R) (t0 : List (List R)) (g : Nat → Nat → R)
    (done : Nat → Nat → Prop) (s : BPState R) (h1 : n1.WF)
    (hU : s.Updated bp n1 t0 g done) (l u : Nat) (b : Unit R)
    (hb : n1.unit? l u = some b) :
    s.nn.getUnitOutput l u = .ok b.lastOutput := by
  obtain ⟨_, f2, _, _, _, t, _, _, hunits⟩ := hU
  obtain ⟨a, ha, ⟨_, _, _, c4, _⟩, _⟩ := hunits l u b hb
  obtain ⟨d, hd, _⟩ := NeuralNetwork.unit?_dims n1 l u b hb
  have hl : l < n1.nlayers := by
    have := (List.getElem?_eq_some_iff.1 hd).1
    rw [NeuralNetwork.dims_length, h1.1] at this
    exact this
  rw [NeuralNetwork.getUnitOutput_ok s.nn l u a (by rw [f2]; exact hl) ha, c4]

theorem BackPropagation.hiddenDeltas_ok (bp : BackPropagation R)
    (n1 : NeuralNetwork R) (t0 : List (List R)) (g : Nat → Nat → R)
    (done : Nat → Nat → Prop) (s : BPState R) (h1 : n1.WF)
    (hU : s.Updated bp n1 t0 g done) (l dim : Nat)
    (hd : n1.dims[l]? = some dim) (hev : s.errorVector.length = dim) :
    ∃ dv, BackPropagation.hiddenDeltas l s dim = .ok dv ∧ dv.length = dim ∧
      ∀ i, i < dim → dv.getD i 0 = BackPropagation.localGradient
        (s.errorVector.getD i 0) (n1.outputOf l i) := by
  unfold BackPropagation.hiddenDeltas
  obtain ⟨dv, hdv, hlen, hval⟩ := foldlM_range_inv
    (fun (dv : List R) i => do
      let unitOutput ← s.nn.getUnitOutput l i
      let e ← rawGet s.errorVector i
      rawSet dv i (BackPropagation.localGradient e unitOutput))
    (fun k dv => dv.length = dim ∧ ∀ i, i < k → dv.getD i 0 =
      BackPropagation.localGradient (s.errorVector.getD i 0) (n1.outputOf l i))
    dim (List.replicate dim 0) ⟨by simp, fun i hi => by omega⟩
    (by
      rintro k dv hk ⟨hlen, hval⟩
      obtain ⟨b, hb⟩ := NeuralNetwork.dims_unit? n1 l k dim hd hk
      refine ⟨dv.set k (BackPropagation.localGradient
        (s.errorVector.getD k 0) (n1.outputOf l k)), ?_, by simp [hlen], ?_⟩
      · simp only [BackPropagation.updated_getUnitOutput bp n1 t0 g done s h1
            hU l k b hb, rawGet_getD s.errorVector k (by omega), bind,
          Except.bind, NeuralNetwork.outputOf_eq n1 l k b hb]
        exact rawSet_ok _ _ _ (by omega)
      · intro i hi
        rw [getD_set_eq]
        by_cases hik : k = i
        · subst hik
          rw [if_pos ⟨rfl, by omega⟩]
        · rw [if_neg (fun h => hik h.1)]
          exact hval i (by omega))
  exact ⟨dv, hdv, hlen, hval⟩

/-- The body of the loop over the hidden layers, for the layer `l`, when the
layers after `l` have been processed and the error accumulator holds their
sums: the units of `l` get processed with the gradient of the
specification. -/
theorem BackPropagation.hiddenLayer_ok (bp : BackPropagation R)
    (n1 : NeuralNetwork R) (desired : List R) (t0 : List (List R))
    (h1 : n1.WF) (l : Nat)
    (hl : l + 1 < n1.nlayers) (s : BPState R)
    (hU : s.Updated bp n1 t0
      (fun l u => gradient n1 desired (n1.nlayers - 1 - l) l u)
      (fun l' _ => l + 1 ≤ l'))
    (hlen : s.errorVector.length = n1.dimOf l)
    (hsum : ∀ p, p < n1.dimOf l → s.errorVector.getD p 0 =
      ∑ j in Finset.range (n1.dimOf (l + 1)),
        gradient n1 desired (n1.nlayers - 1 - (l + 1)) (l + 1) j *
          n1.weightOf (l + 1) j (p + 1)) :
    ∃ s', BackPropagation.hiddenLayer bp l s = .ok s' ∧
      s'.Updated bp n1 t0
        (fun l u => gradient n1 desired (n1.nlayers - 1 - l) l u)
        (fun l' _ => l ≤ l') ∧
      (∀ l', l = l' + 1 → s'.errorVector.length = n1.dimOf l' ∧
        ∀ p, p < n1.dimOf l' → s'.errorVector.getD p 0 =
          ∑ j in Finset.range (n1.dimOf l),
            gradient n1 desired (n1.nlayers - 1 - l) l j *
              n1.weightOf l j (p + 1)) := by
  obtain ⟨dim, hd⟩ := NeuralNetwork.dims_at n1 h1.1 l (by omega)
  rw [NeuralNetwork.dimOf_eq n1 l dim hd] at hlen hsum ⊢
  have hnl : s.nn.nlayers = n1.nlayers := hU.2.1
  have hdims : s.nn.dims = n1.dims := hU.2.2.2.1
  have hinp : s.nn.inputs = n1.inputs := hU.2.2.1
  obtain ⟨dv, hdv, hdvl, hdvv⟩ := BackPropagation.hiddenDeltas_ok bp n1 t0 _ _
    s h1 hU l dim hd hlen
  -- the size of the layer before, the arity of the units of this layer
  obtain ⟨ar, har, harity⟩ : ∃ ar,
      (if l > 0 then s.nn.getLayerDimension (l - 1)
        else (pure s.nn.getInputs.length : Except Error Nat)) = .ok ar ∧
      (∀ u b, n1.unit? l u = some b → b.numberOfInputs = ar) ∧
      (∀ l', l = l' + 1 → n1.dimOf l' = ar) := by
    by_cases hl0 : l > 0
    · obtain ⟨d', hd'⟩ :=
        NeuralNetwork.dims_at n1 h1.1 (l - 1) (by omega)
      refine ⟨d', ?_, fun u b hb => ?_, fun l' hl' => ?_⟩
      · simp only [hl0, if_true]
        exact NeuralNetwork.getLayerDimension_ok s.nn _ d' (by omega)
          (by rw [hdims]; exact hd')
      · have := (NeuralNetwork.wf_unit n1 h1 l u b hb).2.2 (l - 1) (by omega)
        rw [hd'] at this
        exact (Option.some.inj this).symm
      · have : l' = l - 1 := by omega
        subst this
        exact NeuralNetwork.dimOf_eq n1 _ d' hd'
    · have hl0' : l = 0 := by omega
      refine ⟨n1.inputs.length, ?_, fun u b hb => ?_, fun l' hl' => by omega⟩
      · simp [hl0, NeuralNetwork.getInputs, hinp, pure, Except.pure]
      · rw [(NeuralNetwork.wf_unit n1 h1 l u b hb).2.1 hl0', h1.2.1]
  have hgrad : ∀ i, i < dim → dv.getD i 0 =
      gradient n1 desired (n1.nlayers - 1 - l) l i := by
    intro i hi
    rw [hdvv i hi, hsum i hi]
    have hf : n1.nlayers - 1 - l = (n1.nlayers - 1 - (l + 1)) + 1 := by omega
    rw [hf]
    simp only [gradient, BackPropagation.localGradient]
    ring
  unfold BackPropagation.hiddenLayer
  have hass : s.errorVector.length = dim := hlen
  rw [har]
  simp only [NeuralNetwork.getLayerDimension_ok s.nn l dim (by omega)
      (by rw [hdims]; exact hd), bind, Except.bind, cassert, hass, if_true,
    hdv, hdvl]
  obtain ⟨s', hs', hU', hlen', hsum'⟩ := BackPropagation.layer_loop bp n1 t0
    (fun l u => gradient n1 desired (n1.nlayers - 1 - l) l u) h1 l dim ar hd
    harity.1 (fun l' _ => l + 1 ≤ l') (fun _ h => by omega)
    (fun (s : BPState R) i => do
      let delta ← rawGet dv i
      BackPropagation.updateUnit bp l i delta s)
    (by
      intro σ i hi _
      simp only [rawGet_getD dv i (by omega), bind, Except.bind, hgrad i hi])
    { s with errorVector := List.replicate ar 0 }
    (by
      obtain ⟨f1, f2, f3, f4, f5, t, ht, hshape, hunits⟩ := hU
      exact ⟨f1, f2, f3, f4, f5, t, ht, hshape, hunits⟩)
    rfl
  refine ⟨s', hs', ?_, fun l' hl' => ?_⟩
  · refine BackPropagation.updated_congr bp n1 t0 _ _ _ s' ?_ hU'
    intro l' u' b hb
    constructor
    · rintro (h | h)
      · omega
      · omega
    · intro h
      by_cases hll : l' = l
      · exact Or.inr hll
      · exact Or.inl (by omega)
  · rw [harity.2 l' hl']
    exact ⟨hlen', hsum'⟩

end BackPropHidden

section BackPropCompute

variable {R : Type} [LinearOrderedField R]

/-- The loop over the hidden layers processes every unit that the loop over
the output layer left, each with the gradient of the specification. -/
theorem BackPropagation.hiddenPhase_ok (bp : BackPropagation R)
    (n1 : NeuralNetwork R) (desired : List R) (t0 : List (List R))
    (h1 : n1.WF) (hL : 2 ≤ n1.nlayers) (s : BPState R)
    (hU : s.Updated bp n1 t0
      (fun l u => gradient n1 desired (n1.nlayers - 1 - l) l u)
      (fun l' _ => n1.nlayers - 1 ≤ l'))
    (hlen : s.errorVector.length = n1.dimOf (n1.nlayers - 2))
    (hsum : ∀ p, p < n1.dimOf (n1.nlayers - 2) → s.errorVector.getD p 0 =
      ∑ j in Finset.range (n1.dimOf (n1.nlayers - 1)),
        gradient n1 desired 0 (n1.nlayers - 1) j *
          n1.weightOf (n1.nlayers - 1) j (p + 1)) :
    ∃ s', BackPropagation.hiddenPhase bp n1.nlayers s = .ok s' ∧
      s'.Updated bp n1 t0
        (fun l u => gradient n1 desired (n1.nlayers - 1 - l) l u)
        (fun _ _ => True) := by
  unfold BackPropagation.hiddenPhase
  obtain ⟨s', hs', hU', _⟩ := foldlM_range_inv
    (fun (s : BPState R) t =>
      BackPropagation.hiddenLayer bp (n1.nlayers - 2 - t) s)
    (fun t s =>
      s.Updated bp n1 t0
        (fun l u => gradient n1 desired (n1.nlayers - 1 - l) l u)
        (fun l' _ => n1.nlayers - 1 ≤ l' + t) ∧
      ∀ l, l + t + 2 = n1.nlayers →
        s.errorVector.length = n1.dimOf l ∧
        ∀ p, p < n1.dimOf l → s.errorVector.getD p 0 =
          ∑ j in Finset.range (n1.dimOf (l + 1)),
            gradient n1 desired (n1.nlayers - 1 - (l + 1)) (l + 1) j *
              n1.weightOf (l + 1) j (p + 1))
    (n1.nlayers - 2 + 1) s
    ⟨hU, fun l hl => by
      have e1 : l = n1.nlayers - 2 := by omega
      have e2 : l + 1 = n1.nlayers - 1 := by omega
      have e3 : n1.nlayers - 1 - (n1.nlayers - 1) = 0 := by omega
      rw [e2, e3, e1]
      exact ⟨hlen, hsum⟩⟩
    (by
      rintro t σ ht ⟨hUσ, hev⟩
      have hl : (n1.nlayers - 2 - t) + 1 < n1.nlayers := by omega
      obtain ⟨hlenσ, hsumσ⟩ := hev (n1.nlayers - 2 - t) (by omega)
      obtain ⟨σ', hσ', hUσ', hev'⟩ := BackPropagation.hiddenLayer_ok bp n1
        desired t0 h1 (n1.nlayers - 2 - t) hl σ
        (BackPropagation.updated_congr bp n1 t0 _ _ _ σ
          (fun l' _ _ _ => ⟨fun h => by omega, fun h => by omega⟩) hUσ)
        hlenσ hsumσ
      refine ⟨σ', hσ', BackPropagation.updated_congr bp n1 t0 _ _ _ σ'
          (fun l' _ _ _ => ⟨fun h => by omega, fun h => by omega⟩) hUσ',
        fun l hl' => ?_⟩
      have e : l + 1 = n1.nlayers - 2 - t := by omega
      obtain ⟨a1, a2⟩ := hev' l e.symm
      rw [e]
      exact ⟨a1, a2⟩)
  refine ⟨s', hs', BackPropagation.updated_congr bp n1 t0 _ _ _ s'
    (fun l' _ _ _ => ⟨fun _ => trivial, fun _ => by omega⟩) hU'⟩

/-- The backward phase of `BackPropagation::compute` on the network `n1` that
the forward pass left: it succeeds and processes every unit with the gradient
of the specification. -/
theorem BackPropagation.backward_ok (bp : BackPropagation R)
    (n1 : NeuralNetwork R) (desired : List R) (t0 : List (List R))
    (h1 : n1.WF) (hL : 2 ≤ n1.nlayers)
    (hout : ∀ u a, n1.unit? (n1.nlayers - 1) u = some a →
      n1.lastOutput[u]? = some a.lastOutput)
    (hdes : desired.length = n1.dimOf (n1.nlayers - 1))
    (hbt : bp.momentumtable = some t0) (ht0 : t0.map List.length = n1.dims) :
    ∃ s, BackPropagation.backward bp n1 desired = .ok s ∧
      s.Updated bp n1 t0
        (fun l u => gradient n1 desired (n1.nlayers - 1 - l) l u)
        (fun _ _ => True) := by
  obtain ⟨s, hs, hU, hlen, hsum⟩ := BackPropagation.outputPhase_ok bp n1
    desired t0 h1 hL hout hdes hbt ht0
  obtain ⟨s', hs', hU'⟩ := BackPropagation.hiddenPhase_ok bp n1 desired t0 h1
    hL s hU hlen hsum
  refine ⟨s', ?_, hU'⟩
  unfold BackPropagation.backward
  simp only [hs, bind, Except.bind, NeuralNetwork.getNumberOfLayers]
  exact hs'

omit [LinearOrderedField R] in
theorem NeuralNetwork.setInputs_eq (n : NeuralNetwork R) (inputs : List R)
    (h : inputs.length = n.ninputs) :
    n.setInputs inputs = { n with inputs := inputs } := by
  unfold NeuralNetwork.setInputs
  simp [h]

omit [LinearOrderedField R] in
theorem NeuralNetwork.getNumberOfOutputs_ok (n : NeuralNetwork R)
    (hlen : n.network.length = n.nlayers) (hL : 1 ≤ n.nlayers) :
    n.getNumberOfOutputs = .ok (n.dimOf (n.nlayers - 1)) := by
  unfold NeuralNetwork.getNumberOfOutputs NeuralNetwork.dimOf
    NeuralNetwork.dims
  rw [List.getLast?_eq_getElem?, hlen]
  have : n.nlayers - 1 < n.network.length := by omega
  simp [List.getD_eq_getElem?_getD, List.getElem?_eq_getElem this]

/-- The whole of `BackPropagation::compute`: on a well-formed network of at
least two layers, with an input vector and a target vector of the right
sizes, the call succeeds; it runs the forward pass on the new inputs, and
then moves the weights of every unit by the deltas of the update rule, for
the gradients of the specification computed from the state the forward pass
left. -/
theorem BackPropagation.call_ok (exp : R → R) (bp : BackPropagation R)
    (nn : NeuralNetwork R) (inputs desired : List R) (t0 : List (List R))
    (hm : bp.hasModel = true) (h0 : nn.WF) (hL : 2 ≤ nn.nlayers)
    (hne : ∀ layer ∈ nn.network, layer ≠ [])
    (hin : inputs.length = nn.ninputs)
    (hdes : desired.length = nn.dimOf (nn.nlayers - 1))
    (hbt : bp.momentumtable = some t0) (ht0 : t0.map List.length = nn.dims) :
    ∃ n1 s, (nn.setInputs inputs).compute exp = .ok n1 ∧
      (nn.setInputs inputs).Computed exp n1 ∧
      BackPropagation.backward bp n1 desired = .ok s ∧
      BackPropagation.compute exp bp nn inputs desired =
        .ok ({ bp with momentumtable := s.momentumtable }, s.nn) ∧
      s.Updated bp n1 t0
        (fun l u => gradient n1 desired (n1.nlayers - 1 - l) l u)
        (fun _ _ => True) := by
  have hset := NeuralNetwork.setInputs_eq nn inputs hin
  have hwf : (nn.setInputs inputs).WF := by
    rw [hset]
    exact ⟨h0.1, hin, h0.2.2.1, h0.2.2.2⟩
  have hnl : (nn.setInputs inputs).nlayers = nn.nlayers := by rw [hset]
  have hnet : (nn.setInputs inputs).network = nn.network := by rw [hset]
  have hdm : (nn.setInputs inputs).dims = nn.dims := by
    unfold NeuralNetwork.dims; rw [hnet]
  obtain ⟨n1, hn1, hC⟩ := NeuralNetwork.compute_ok exp (nn.setInputs inputs)
    hwf (by omega) (by rw [hnet]; exact hne)
  have hF := hC.1
  have h1 : n1.WF := NeuralNetwork.frame_wf _ n1 hwf hF
  have hnl1 : n1.nlayers = nn.nlayers := by rw [hF.2.1, hnl]
  have hd1 : n1.dims = nn.dims := by rw [hF.2.2.2.1, hdm]
  have hdim1 : ∀ l, n1.dimOf l = nn.dimOf l := by
    intro l; unfold NeuralNetwork.dimOf; rw [hd1]
  obtain ⟨s, hs, hU⟩ := BackPropagation.backward_ok bp n1 desired t0 h1
    (by omega)
    (fun u a ha => by
      rw [hnl1, ← hnl] at ha
      obtain ⟨e1, e2⟩ := hC.2.2.2 u a ha
      rw [e2, e1])
    (by rw [hnl1, hdim1]; exact hdes) hbt (by rw [hd1]; exact ht0)
  refine ⟨n1, s, hn1, hC, hs, ?_, hU⟩
  unfold BackPropagation.compute
  have hin' : inputs.length = nn.getInputs.length := by
    rw [hin]; exact h0.2.1.symm
  simp only [hm, not_true_eq_false, if_false, cassert, hin', if_true,
    NeuralNetwork.getNumberOfOutputs_ok nn h0.1 (by omega), hdes, bind,
    Except.bind, hn1, hs, pure, Except.pure]

end BackPropCompute

/-- C4: in `BackPropagation::compute` (on a well-formed network of at least
two layers, with inputs and targets of the right sizes), for every output
unit `j` the local gradient used for the weight updates of that unit is
`(t_j - y_j)*y_j*(1 - y_j)`, with `t_j` the `j`-th target and `y_j` the output
of the unit in the forward pass that the call ran first: the body of the
loop over the output layer is the update of the unit with that gradient, and
at the end of the call every weight of the unit has moved by the delta of the
update rule for that gradient. For target `1` and output `0.6` the gradient
is `0.096`. -/
theorem C4_output_gradient {R : Type} [LinearOrderedField R] (exp : R → R)
    (bp : BackPropagation R) (nn : NeuralNetwork R) (inputs desired : List R)
    (t0 : List (List R))
    (hm : bp.hasModel = true) (h0 : nn.WF) (hL : 2 ≤ nn.nlayers)
    (hne : ∀ layer ∈ nn.network, layer ≠ [])
    (hin : inputs.length = nn.ninputs)
    (hdes : desired.length = nn.dimOf (nn.nlayers - 1))
    (hbt : bp.momentumtable = some t0) (ht0 : t0.map List.length = nn.dims) :
    (∃ n1 bp' nn', (nn.setInputs inputs).compute exp = .ok n1 ∧
      BackPropagation.compute exp bp nn inputs desired = .ok (bp', nn') ∧
      ∀ j, j < nn.dimOf (nn.nlayers - 1) →
        ∃ t y b a, desired[j]? = some t ∧
          n1.getUnitOutput (nn.nlayers - 1) j = .ok y ∧
          n1.getOutputs[j]? = some y ∧
          n1.unit? (nn.nlayers - 1) j = some b ∧
          nn'.unit? (nn.nlayers - 1) j = some a ∧
          (∀ σ : BPState R, σ.nn.lastOutput = n1.lastOutput →
            BackPropagation.outputUnit bp desired (nn.nlayers - 1) σ j =
              BackPropagation.updateUnit bp (nn.nlayers - 1) j
                ((t - y) * y * (1 - y)) σ) ∧
          ∀ k, k ≤ b.numberOfInputs → a.weights.getD k 0 =
            b.weights.getD k 0 + deltaChain bp.eta bp.lambda bp.alfa
              ((t - y) * y * (1 - y)) b.weights b.inputs
              ((momentum? t0 (nn.nlayers - 1) j).getD 0) k) ∧
    BackPropagation.localGradient ((1 : R) - 6 / 10) (6 / 10) = 96 / 1000 := by
  refine ⟨?_, by unfold BackPropagation.localGradient; norm_num⟩
  obtain ⟨n1, s, hn1, hC, _, hcomp, hU⟩ := BackPropagation.call_ok exp bp nn
    inputs desired t0 hm h0 hL hne hin hdes hbt ht0
  refine ⟨n1, _, _, hn1, hcomp, fun j hj => ?_⟩
  have hset := NeuralNetwork.setInputs_eq nn inputs hin
  have hnl : (nn.setInputs inputs).nlayers = nn.nlayers := by rw [hset]
  have hdm : (nn.setInputs inputs).dims = nn.dims := by
    unfold NeuralNetwork.dims; rw [hset]
  have hnl1 : n1.nlayers = nn.nlayers := by rw [hC.1.2.1, hnl]
  have hd1 : n1.dims = nn.dims := by rw [hC.1.2.2.2.1, hdm]
  obtain ⟨d, hd, _⟩ :=
    NeuralNetwork.dims_of_lt nn h0.1 hne (nn.nlayers - 1) (by omega)
  rw [NeuralNetwork.dimOf_eq nn _ d hd] at hj hdes
  obtain ⟨b, hb⟩ := NeuralNetwork.dims_unit? n1 (nn.nlayers - 1) j d
    (by rw [hd1]; exact hd) hj
  obtain ⟨e1, e2⟩ := hC.2.2.2 j b (by rw [hnl]; exact hb)
  have hjd : j < desired.length := by omega
  obtain ⟨_, _, _, _, _, t, _, _, hunits⟩ := hU
  obtain ⟨a, ha, _, hdone, _⟩ := hunits _ j b hb
  have hg : gradient n1 desired (n1.nlayers - 1 - (nn.nlayers - 1))
      (nn.nlayers - 1) j =
      (desired.getD j 0 - b.lastOutput) * b.lastOutput *
        (1 - b.lastOutput) := by
    have : n1.nlayers - 1 - (nn.nlayers - 1) = 0 := by omega
    rw [this]
    simp only [gradient, NeuralNetwork.outputOf_eq n1 _ j b hb]
  refine ⟨desired.getD j 0, b.lastOutput, b, a, ?_, ?_, ?_, hb, ha, ?_, ?_⟩
  · simp [List.getD_eq_getElem?_getD, List.getElem?_eq_getElem hjd]
  · exact NeuralNetwork.getUnitOutput_ok n1 _ j b (by omega) hb
  · rw [e1]; exact e2
  · intro σ hσ
    have hlo : n1.lastOutput[j]? = some b.lastOutput := by rw [e1]; exact e2
    have hjl : j < n1.lastOutput.length := (List.getElem?_eq_some_iff.1 hlo).1
    have hgt : ¬ j > n1.lastOutput.length := by omega
    have hloc : BackPropagation.localGradient
        (desired.getD j 0 - b.lastOutput) b.lastOutput =
        (desired.getD j 0 - b.lastOutput) * b.lastOutput *
          (1 - b.lastOutput) := by
      unfold BackPropagation.localGradient; ring
    unfold BackPropagation.outputUnit NeuralNetwork.getOutput
    simp only [hgt, if_false, hσ, rawGet_of_get? _ _ _ hlo,
      rawGet_getD desired j hjd, bind, Except.bind, hloc]
  · intro k hk
    have h := (hdone trivial).1 k hk
    beta_reduce at h
    rw [hg] at h
    exact h

/-- Witness of C4: one call on the sample network, inputs `1, 2`, target
`1`. -/
theorem C4_output_gradient_witness :
    (∃ n1 bp' nn', (sampleNetwork.setInputs [1, 2]).compute
        (fun x => 1 + x * x) = .ok n1 ∧
      BackPropagation.compute (fun x => 1 + x * x) (sampleBP [[0, 0], [0]])
        sampleNetwork [1, 2] [1] = .ok (bp', nn') ∧
      ∀ j, j < sampleNetwork.dimOf (sampleNetwork.nlayers - 1) →
        ∃ t y b a, [(1 : ℚ)][j]? = some t ∧
          n1.getUnitOutput (sampleNetwork.nlayers - 1) j = .ok y ∧
          n1.getOutputs[j]? = some y ∧
          n1.unit? (sampleNetwork.nlayers - 1) j = some b ∧
          nn'.unit? (sampleNetwork.nlayers - 1) j = some a ∧
          (∀ σ : BPState ℚ, σ.nn.lastOutput = n1.lastOutput →
            BackPropagation.outputUnit (sampleBP [[0, 0], [0]]) [1]
                (sampleNetwork.nlayers - 1) σ j =
              BackPropagation.updateUnit (sampleBP [[0, 0], [0]])
                (sampleNetwork.nlayers - 1) j ((t - y) * y * (1 - y)) σ) ∧
          ∀ k, k ≤ b.numberOfInputs → a.weights.getD k 0 =
            b.weights.getD k 0 + deltaChain (sampleBP [[0, 0], [0]]).eta
              (sampleBP [[0, 0], [0]]).lambda (sampleBP [[0, 0], [0]]).alfa
              ((t - y) * y * (1 - y)) b.weights b.inputs
              ((momentum? [[0, 0], [0]] (sampleNetwork.nlayers - 1) j).getD 0)
              k) ∧
    BackPropagation.localGradient ((1 : ℚ) - 6 / 10) (6 / 10) = 96 / 1000 :=
  C4_output_gradient (fun x => 1 + x * x) (sampleBP [[0, 0], [0]])
    sampleNetwork [1, 2] [1] [[0, 0], [0]] rfl sampleNetwork_wf (by decide)
    (by simp [sampleNetwork]) rfl rfl rfl rfl

section MomentumTable

variable {R : Type} [LinearOrderedField R]

/-- The table that `makeMomentumTable` builds: a zero for each unit of each
layer. -/
theorem BackPropagation.makeMomentumTable_ok (bp : BackPropagation R)
    (nn : NeuralNetwork R) (hlen : nn.network.length = nn.nlayers) :
    BackPropagation.makeMomentumTable bp (some nn) = .ok
      { bp with momentumtable := (some
          (nn.dims.map (fun d => List.replicate d (0 : R)))) } := by
  have hdl : nn.dims.length = nn.nlayers := by
    rw [NeuralNetwork.dims_length, hlen]
  obtain ⟨t, ht, htl, hte⟩ := foldlM_range_inv
    (fun (t : List (List R)) i => do
      let _ ← atGet t i
      let d ← nn.getLayerDimension i
      pure (t.set i (List.replicate d 0)))
    (fun i t => t.length = nn.nlayers ∧ ∀ l, l < i →
      t[l]? = (nn.dims.map (fun d => List.replicate d (0 : R)))[l]?)
    nn.getNumberOfLayers (List.replicate nn.getNumberOfLayers [])
    ⟨by simp [NeuralNetwork.getNumberOfLayers], fun l hl => by omega⟩
    (by
      rintro i t hi ⟨htl, hte⟩
      have hi' : i < nn.nlayers := hi
      have hd : nn.dims[i]? = some (nn.dims[i]) :=
        List.getElem?_eq_getElem (by omega)
      have hti : t[i]? = some (t[i]) := List.getElem?_eq_getElem (by omega)
      refine ⟨t.set i (List.replicate (nn.dims[i]) 0), ?_, by simp [htl], ?_⟩
      · simp only [atGet_of_get? _ _ _ hti,
          NeuralNetwork.getLayerDimension_ok nn i _ hi' hd, bind, Except.bind,
          pure, Except.pure]
      · intro l hl
        by_cases hli : i = l
        · subst hli
          simp [List.getElem?_set, htl, hi', hd]
        · rw [List.getElem?_set_ne hli]
          exact hte l (by omega))
  unfold BackPropagation.makeMomentumTable
  simp only [bind, Except.bind, pure, Except.pure] at ht ⊢
  rw [ht]
  simp only []
  have : t = nn.dims.map (fun d => List.replicate d (0 : R)) := by
    apply List.ext_getElem?
    intro l
    by_cases hl : l < nn.nlayers
    · exact hte l hl
    · rw [List.getElem?_eq_none (by omega),
        List.getElem?_eq_none (by simp [hdl]; omega)]
  rw [this]

omit [LinearOrderedField R] in
theorem momentum?_some (t : List (List R)) (l u : Nat) (m : R) :
    momentum? t l u = some m ↔ ∃ row, t[l]? = some row ∧ row[u]? = some m := by
  unfold momentum?
  cases h : t[l]? with
  | none => simp
  | some row => simp

/-- The entries of the zero table: one for each unit, each of them `0`. -/
theorem momentum?_zero (nn : NeuralNetwork R) (l u : Nat) :
    momentum? (nn.dims.map (fun d => List.replicate d (0 : R))) l u =
      (nn.unit? l u).map (fun _ => 0) := by
  cases hb : nn.unit? l u with
  | some b =>
    obtain ⟨d, hd, hu⟩ := NeuralNetwork.unit?_dims nn l u b hb
    rw [Option.map_some', momentum?_some]
    exact ⟨List.replicate d 0, by simp [hd], by simp [List.getElem?_replicate, hu]⟩
  | none =>
    rw [Option.map_none']
    unfold momentum?
    cases hd : nn.dims[l]? with
    | none => simp [hd]
    | some d =>
      have hu : ¬ u < d := fun hu => by
        obtain ⟨a, ha⟩ := NeuralNetwork.dims_unit? nn l u d hd hu
        rw [hb] at ha
        exact Option.noConfusion ha
      simp [hd, List.getElem?_replicate, hu]

end MomentumTable

section TwoCalls

variable {R : Type} [LinearOrderedField R]

/-- The network that the backward phase leaves is well formed, with the
layers of the network it started from. -/
theorem BackPropagation.updated_wf (bp : BackPropagation R)
    (n1 : NeuralNetwork R) (t0 : List (List R)) (g : Nat → Nat → R)
    (done : Nat → Nat → Prop) (s : BPState R) (h1 : n1.WF)
    (hne : ∀ layer ∈ n1.network, layer ≠ [])
    (hU : s.Updated bp n1 t0 g done) :
    s.nn.WF ∧ (∀ layer ∈ s.nn.network, layer ≠ []) := by
  obtain ⟨f1, f2, f3, f4, f5, t, _, _, hunits⟩ := hU
  have hlen : s.nn.network.length = n1.network.length := by
    rw [← NeuralNetwork.dims_length, ← NeuralNetwork.dims_length, f4]
  refine ⟨⟨by rw [hlen, h1.1, f2], by rw [f3, h1.2.1, f1], ?_, ?_⟩, ?_⟩
  · apply layersWF_of_unit
    intro l layer hl a ha
    obtain ⟨u, hu⟩ := NeuralNetwork.mem_layer_unit? s.nn l layer hl a ha
    obtain ⟨d, hd, hud⟩ := NeuralNetwork.unit?_dims s.nn l u a hu
    rw [f4] at hd
    obtain ⟨b, hb⟩ := NeuralNetwork.dims_unit? n1 l u d hd hud
    obtain ⟨a', ha', ⟨c1, c2, c3, _, c5⟩, _⟩ := hunits l u b hb
    rw [hu] at ha'
    obtain rfl := Option.some.inj ha'
    obtain ⟨⟨⟨w1, w2, w3⟩, w4⟩, w5, w6⟩ := NeuralNetwork.wf_unit n1 h1 l u b hb
    refine ⟨⟨⟨by omega, by omega, by rw [c3]; omega⟩, by rw [c3]; exact w4⟩,
      fun hl0 => by rw [c1, w5 hl0, f1], fun l' hl' => ?_⟩
    have := w6 l' hl'
    rw [c1]
    have hd' : s.nn.dims = n1.dims := f4
    unfold NeuralNetwork.dims at hd' this
    rw [hd']
    exact this
  · rw [f5, h1.2.2.2]
    have hd := f4
    unfold NeuralNetwork.dims at hd
    have : (s.nn.network.map List.length).getLast? =
        (n1.network.map List.length).getLast? := by rw [hd]
    rw [List.getLast?_map, List.getLast?_map] at this
    cases e1 : s.nn.network.getLast? <;> cases e2 : n1.network.getLast? <;>
      simp [e1, e2] at this ⊢
    exact this.symm
  · intro layer hl
    have hm : layer.length ∈ s.nn.dims := by
      unfold NeuralNetwork.dims; exact List.mem_map_of_mem _ hl
    rw [f4] at hm
    unfold NeuralNetwork.dims at hm
    obtain ⟨layer0, hl0, hlen0⟩ := List.mem_map.1 hm
    have := List.length_pos.2 (hne layer0 hl0)
    exact List.length_pos.1 (by omega)

end TwoCalls

section UnitPrefix

variable {R : Type} [LinearOrderedField R]

theorem foldlM_range_succ_front {σ : Type} (f : σ → Nat → Except Error σ)
    (n : Nat) (s : σ) :
    (List.range (n + 1)).foldlM f s =
      (f s 0).bind (fun s1 => (List.range n).foldlM (fun s j => f s (j + 1)) s1) := by
  rw [List.range_succ_eq_map, List.foldlM_cons]
  cases f s 0 with
  | error e => rfl
  | ok s1 =>
    show List.foldlM f s1 (List.map Nat.succ (List.range n)) = _
    rw [List.foldlM_map]
    rfl

/-- The first `n+1` weight updates of the pass over a unit: the weights up to
`n` have moved by the deltas of `deltaChain`, the others are as they were,
and the momentum entry of the unit is the delta of weight `n`. -/
theorem BackPropagation.unitPrefix_ok (bp : BackPropagation R) (s : BPState R)
    (l u : Nat) (d : R) (a : Unit R) (t : List (List R)) (row : List R)
    (m0 : R) (hl : l < s.nn.nlayers) (ha : s.nn.unit? l u = some a)
    (hs : a.Sized) (ht : s.momentumtable = some t) (hrow : t[l]? = some row)
    (hm : row[u]? = some m0) (hev : s.errorVector.length = a.numberOfInputs)
    (n : Nat) (hn : n ≤ a.numberOfInputs) :
    ∃ aj evj, BackPropagation.unitPrefix bp l u d s (n + 1) = .ok
        ⟨s.nn.putUnit l u aj, some (t.set l (row.set u
          (deltaChain bp.eta bp.lambda bp.alfa d a.weights a.inputs m0 n))),
          evj⟩ ∧
      (n = a.numberOfInputs → BackPropagation.updateUnit bp l u d s =
        BackPropagation.unitPrefix bp l u d s (n + 1)) ∧
      Unit.SameCaches aj a ∧
      (∀ i, aj.weights.getD i 0 = if i ≤ n then a.weights.getD i 0 +
        deltaChain bp.eta bp.lambda bp.alfa d a.weights a.inputs m0 i
        else a.weights.getD i 0) := by
  obtain ⟨aj, evj, hσ, hsc, hwj, _, _⟩ :=
    BackPropagation.unitSteps_ok bp s l u d a t row m0 hl ha hs hrow hm hev n hn
  have h0 : BackPropagation.weightStep bp l u d s 0 = _ :=
    BackPropagation.updateWeight_ok s l u 0 bp.eta d 0 bp.alfa a t row m0 hl ha
      hs (by obtain ⟨s1, _, _⟩ := hs; omega) ht hrow hm
  have hpre : ∀ k, BackPropagation.unitPrefix bp l u d s (k + 1) =
      (List.range k).foldlM
        (fun (s : BPState R) j => BackPropagation.weightStep bp l u d s (j + 1))
        (⟨s.nn.putUnit l u { a with weights := (a.weights.set 0
            (a.weights.getD 0 0 + (bp.eta * d * a.inputs.getD 0 0 -
              2 * bp.eta * 0 * a.weights.getD 0 0 + bp.alfa * m0))) },
          some (t.set l (row.set u (bp.eta * d * a.inputs.getD 0 0 -
            2 * bp.eta * 0 * a.weights.getD 0 0 + bp.alfa * m0))),
          s.errorVector⟩ : BPState R) := by
    intro k
    unfold BackPropagation.unitPrefix
    rw [foldlM_range_succ_front, h0]
    rfl
  refine ⟨aj, evj, by rw [hpre, hσ], fun hnK => ?_, hsc, hwj⟩
  rw [hpre]
  obtain ⟨s1, s2, s3⟩ := hs
  unfold BackPropagation.updateUnit
  rw [NeuralNetwork.getNumberOfWeight_ok s.nn l u a hl ha]
  have hass : s.errorVector.length = upred a.numberOfWeights := by
    rw [upred_pos _ (by omega)]; omega
  simp only [bind, Except.bind, cassert, hass, if_true]
  rw [h0]
  simp only []
  rw [hev, hnK]

end UnitPrefix

section ComputeDeltas

variable {R : Type} [LinearOrderedField R]

/-- One call of `BackPropagation::compute`, seen from outside: the call
succeeds, the new network has the shape of the old one, and every weight has
moved by the delta of `deltaChain` for the gradient of the specification,
the cached inputs of the forward pass and the momentum entry that the unit
had when the call started; the momentum entry of the unit ends as the delta
of its last weight. -/
theorem BackPropagation.compute_deltas (exp : R → R) (bp : BackPropagation R)
    (nn : NeuralNetwork R) (inputs desired : List R) (t0 : List (List R))
    (hm : bp.hasModel = true) (h0 : nn.WF) (hL : 2 ≤ nn.nlayers)
    (hne : ∀ layer ∈ nn.network, layer ≠ [])
    (hin : inputs.length = nn.ninputs)
    (hdes : desired.length = nn.dimOf (nn.nlayers - 1))
    (hbt : bp.momentumtable = some t0) (ht0 : t0.map List.length = nn.dims) :
    ∃ m1 bp1 nn1 t1, (nn.setInputs inputs).compute exp = .ok m1 ∧
      BackPropagation.compute exp bp nn inputs desired = .ok (bp1, nn1) ∧
      (bp1.hasModel = true ∧ bp1.eta = bp.eta ∧ bp1.lambda = bp.lambda ∧
        bp1.alfa = bp.alfa ∧ bp1.momentumtable = some t1) ∧
      (nn1.WF ∧ (∀ layer ∈ nn1.network, layer ≠ []) ∧
        nn1.nlayers = nn.nlayers ∧ nn1.ninputs = nn.ninputs ∧
        nn1.dims = nn.dims ∧ t1.map List.length = nn1.dims) ∧
      ∀ l u b, m1.unit? l u = some b →
        (∃ a0 a1, nn.unit? l u = some a0 ∧ nn1.unit? l u = some a1 ∧
          a0.numberOfInputs = b.numberOfInputs ∧
          a1.numberOfInputs = b.numberOfInputs) ∧
        (∀ k, nn.weightOf l u k = b.weights.getD k 0) ∧
        (∀ k, k ≤ b.numberOfInputs → nn1.weightOf l u k =
          nn.weightOf l u k + deltaChain bp.eta bp.lambda bp.alfa
            (gradient m1 desired (nn.nlayers - 1 - l) l u) b.weights b.inputs
            ((momentum? t0 l u).getD 0) k) ∧
        momentum? t1 l u = some (deltaChain bp.eta bp.lambda bp.alfa
          (gradient m1 desired (nn.nlayers - 1 - l) l u) b.weights b.inputs
          ((momentum? t0 l u).getD 0) b.numberOfInputs) := by
  obtain ⟨m1, s, hm1, hC, _, hcomp, hU⟩ := BackPropagation.call_ok exp bp nn
    inputs desired t0 hm h0 hL hne hin hdes hbt ht0
  have hset := NeuralNetwork.setInputs_eq nn inputs hin
  have hwf : (nn.setInputs inputs).WF := by
    rw [hset]
    exact ⟨h0.1, hin, h0.2.2.1, h0.2.2.2⟩
  have hnl : (nn.setInputs inputs).nlayers = nn.nlayers := by rw [hset]
  have hni : (nn.setInputs inputs).ninputs = nn.ninputs := by rw [hset]
  have hnet : (nn.setInputs inputs).network = nn.network := by rw [hset]
  have hun : ∀ l u, (nn.setInputs inputs).unit? l u = nn.unit? l u := by
    intro l u; unfold NeuralNetwork.unit?; rw [hnet]
  have hdm : (nn.setInputs inputs).dims = nn.dims := by
    unfold NeuralNetwork.dims; rw [hnet]
  have hF := hC.1
  have h1 : m1.WF := NeuralNetwork.frame_wf _ m1 hwf hF
  have hne1 := NeuralNetwork.frame_nonempty _ m1 hF (by rw [hnet]; exact hne)
  have hnl1 : m1.nlayers = nn.nlayers := by rw [hF.2.1, hnl]
  obtain ⟨hswf, hsne⟩ := BackPropagation.updated_wf bp m1 t0 _ _ s h1 hne1 hU
  obtain ⟨f1, f2, f3, f4, f5, t1, ht1, hshape, hunits⟩ := hU
  refine ⟨m1, _, s.nn, t1, hm1, hcomp, ⟨hm, rfl, rfl, rfl, ht1⟩,
    ⟨hswf, hsne, by rw [f2, hnl1], by rw [f1, hF.1, hni],
      by rw [f4, hF.2.2.2.1, hdm], by rw [hshape, f4]⟩, ?_⟩
  intro l u b hb
  obtain ⟨a0, ha0, w1, _, w3, _, _⟩ := hF.2.2.2.2.2 l u b hb
  rw [hun] at ha0
  obtain ⟨a1, ha1, ⟨c1, _, _, _, _⟩, hdone, _⟩ := hunits l u b hb
  obtain ⟨hw, hmom⟩ := hdone trivial
  beta_reduce at hw hmom
  rw [hnl1] at hw hmom
  have hw0 : ∀ k, nn.weightOf l u k = b.weights.getD k 0 := by
    intro k
    rw [NeuralNetwork.weightOf_eq nn l u k a0 ha0, w3]
  refine ⟨⟨a0, a1, ha0, ha1, w1.symm, c1⟩, hw0, fun k hk => ?_, hmom⟩
  rw [NeuralNetwork.weightOf_eq s.nn l u k a1 ha1, hw0 k]
  exact hw k hk

end ComputeDeltas

/-- C5: the momentum cache holds one scalar per (layer, unit), all zero right
after `setModel`. In two consecutive calls of `compute` after `setModel` (on
a well-formed network of at least two layers, with inputs and targets of the
right sizes) the delta applied to weight `k+1` of a unit uses as momentum
value the delta applied to weight `k` of the same unit in the same call; the
delta of the bias weight uses `0` in the first call, and in the second call
the delta applied to the last weight of the unit in the first call; after
each call the cache entry of the unit is the delta of its last weight.
Inside one pass over the weights of a unit (any state `s` with the unit `a`,
its cache entry `m0` and an accumulator of the right size) the updates run
in ascending order of the weight index: after the updates of the weights
`0..n` the weights above `n` are untouched, the cache entry is the delta
just applied to weight `n`, and the update of weight `n+1` starts from that
state. -/
theorem C5_momentum_cache {R : Type} [LinearOrderedField R] (exp : R → R)
    (bp0 : BackPropagation R) (nn : NeuralNetwork R)
    (in1 des1 in2 des2 : List R)
    (h0 : nn.WF) (hL : 2 ≤ nn.nlayers)
    (hne : ∀ layer ∈ nn.network, layer ≠ [])
    (hin1 : in1.length = nn.ninputs)
    (hdes1 : des1.length = nn.dimOf (nn.nlayers - 1))
    (hin2 : in2.length = nn.ninputs)
    (hdes2 : des2.length = nn.dimOf (nn.nlayers - 1))
    (bq : BackPropagation R) (s : BPState R) (l u : Nat) (d : R) (a : Unit R)
    (t : List (List R)) (m0 : R)
    (hl : l < s.nn.nlayers) (ha : s.nn.unit? l u = some a) (hs : a.Sized)
    (ht : s.momentumtable = some t) (hm : momentum? t l u = some m0)
    (hev : s.errorVector.length = a.numberOfInputs) :
    (∃ bp t0, bp0.setModel (some nn) = .ok bp ∧
      bp.momentumtable = some t0 ∧
      (∀ l u, momentum? t0 l u = (nn.unit? l u).map (fun _ => 0)) ∧
      ∃ m1 bp1 nn1 t1 m2 bp2 nn2 t2,
        (nn.setInputs in1).compute exp = .ok m1 ∧
        BackPropagation.compute exp bp nn in1 des1 = .ok (bp1, nn1) ∧
        bp1.momentumtable = some t1 ∧
        (nn1.setInputs in2).compute exp = .ok m2 ∧
        BackPropagation.compute exp bp1 nn1 in2 des2 = .ok (bp2, nn2) ∧
        bp2.momentumtable = some t2 ∧
        ∀ l u b1 b2, m1.unit? l u = some b1 → m2.unit? l u = some b2 →
          b2.numberOfInputs = b1.numberOfInputs ∧
          ∃ Δ1 Δ2 : Nat → R,
            (∀ k, k ≤ b1.numberOfInputs →
              nn1.weightOf l u k = nn.weightOf l u k + Δ1 k ∧
              nn2.weightOf l u k = nn1.weightOf l u k + Δ2 k) ∧
            Δ1 0 = bp.eta * gradient m1 des1 (nn.nlayers - 1 - l) l u *
                b1.inputs.getD 0 0 -
              2 * bp.eta * 0 * nn.weightOf l u 0 + bp.alfa * 0 ∧
            (∀ k, Δ1 (k + 1) =
              bp.eta * gradient m1 des1 (nn.nlayers - 1 - l) l u *
                b1.inputs.getD (k + 1) 0 -
              2 * bp.eta * bp.lambda * nn.weightOf l u (k + 1) +
              bp.alfa * Δ1 k) ∧
            momentum? t1 l u = some (Δ1 b1.numberOfInputs) ∧
            Δ2 0 = bp.eta * gradient m2 des2 (nn.nlayers - 1 - l) l u *
                b2.inputs.getD 0 0 -
              2 * bp.eta * 0 * nn1.weightOf l u 0 +
              bp.alfa * Δ1 b1.numberOfInputs ∧
            (∀ k, Δ2 (k + 1) =
              bp.eta * gradient m2 des2 (nn.nlayers - 1 - l) l u *
                b2.inputs.getD (k + 1) 0 -
              2 * bp.eta * bp.lambda * nn1.weightOf l u (k + 1) +
              bp.alfa * Δ2 k) ∧
            momentum? t2 l u = some (Δ2 b1.numberOfInputs)) ∧
    (∃ Δ : Nat → R,
      Δ 0 = bq.eta * d * a.inputs.getD 0 0 -
        2 * bq.eta * 0 * a.weights.getD 0 0 + bq.alfa * m0 ∧
      (∀ k, Δ (k + 1) = bq.eta * d * a.inputs.getD (k + 1) 0 -
        2 * bq.eta * bq.lambda * a.weights.getD (k + 1) 0 + bq.alfa * Δ k) ∧
      ∀ n, n ≤ a.numberOfInputs → ∃ s' t',
        BackPropagation.unitPrefix bq l u d s (n + 1) = .ok s' ∧
        s'.momentumtable = some t' ∧ momentum? t' l u = some (Δ n) ∧
        (∀ i, s'.nn.weightOf l u i =
          if i ≤ n then a.weights.getD i 0 + Δ i else a.weights.getD i 0) ∧
        BackPropagation.unitPrefix bq l u d s (n + 2) =
          BackPropagation.weightStep bq l u d s' (n + 1) ∧
        (n = a.numberOfInputs →
          BackPropagation.updateUnit bq l u d s = .ok s')) := by
  constructor
  · -- the table after setModel
    have hset : bp0.setModel (some nn) = .ok
        { bp0 with hasModel := true, momentumtable := (some
          (nn.dims.map (fun d => List.replicate d (0 : R)))) } := by
      unfold BackPropagation.setModel
      rw [BackPropagation.makeMomentumTable_ok _ nn h0.1]
      rfl
    refine ⟨_, _, hset, rfl, momentum?_zero nn, ?_⟩
    have hz : ∀ l u, (momentum? (nn.dims.map
        (fun d => List.replicate d (0 : R))) l u).getD 0 = 0 := by
      intro l u
      rw [momentum?_zero]
      cases nn.unit? l u <;> rfl
    -- the first call
    obtain ⟨m1, bp1, nn1, t1, hm1, hc1, ⟨p1, p2, p3, p4, p5⟩,
        ⟨q1, q2, q3, q4, q5, q6⟩, hu1⟩ :=
      BackPropagation.compute_deltas exp
        { bp0 with hasModel := true, momentumtable := (some
          (nn.dims.map (fun d => List.replicate d (0 : R)))) }
        nn in1 des1 _ rfl h0 hL hne hin1 hdes1 rfl
        (by simp [NeuralNetwork.dims, List.map_map, Function.comp_def])
    have hdimOf : nn1.dimOf (nn1.nlayers - 1) = nn.dimOf (nn.nlayers - 1) := by
      unfold NeuralNetwork.dimOf; rw [q5, q3]
    -- the second call
    obtain ⟨m2, bp2, nn2, t2, hm2, hc2, ⟨_, _, _, _, r5⟩, _, hu2⟩ :=
      BackPropagation.compute_deltas exp bp1 nn1 in2 des2 t1 p1 q1
        (by rw [q3]; exact hL) q2 (by rw [q4]; exact hin2)
        (by rw [hdimOf]; exact hdes2) p5 q6
    refine ⟨m1, bp1, nn1, t1, m2, bp2, nn2, t2, hm1, hc1, p5, hm2, hc2, r5,
      ?_⟩
    intro l u b1 b2 hb1 hb2
    obtain ⟨⟨a0, a1, ha0, ha1, e0, e1⟩, hw1, hd1, hmom1⟩ := hu1 l u b1 hb1
    obtain ⟨⟨a1', a2, ha1', _, e1', _⟩, hw2, hd2, hmom2⟩ := hu2 l u b2 hb2
    rw [ha1] at ha1'
    obtain rfl := Option.some.inj ha1'
    have hK : b2.numberOfInputs = b1.numberOfInputs := by rw [← e1', e1]
    rw [hz] at hd1 hmom1
    rw [hmom1, Option.getD_some, p2, p3, p4, q3, hK] at hd2 hmom2
    refine ⟨hK, _, _, fun k hk => ⟨hd1 k hk, hd2 k hk⟩, ?_, ?_, hmom1, ?_, ?_,
      hmom2⟩
    · rw [hw1]; rfl
    · intro k; rw [hw1]; rfl
    · rw [hw2]; rfl
    · intro k; rw [hw2]; rfl
  · -- the pass over the weights of one unit
    obtain ⟨row, hrow, hmu⟩ := (momentum?_some t l u m0).1 hm
    refine ⟨deltaChain bq.eta bq.lambda bq.alfa d a.weights a.inputs m0, rfl,
      fun k => rfl, fun n hn => ?_⟩
    obtain ⟨aj, evj, hpre, hupd, _, hwj⟩ := BackPropagation.unitPrefix_ok bq s
      l u d a t row m0 hl ha hs ht hrow hmu hev n hn
    have hunit : (s.nn.putUnit l u aj).unit? l u = some aj := by
      rw [NeuralNetwork.unit?_putUnit, ha]; simp
    refine ⟨_, _, hpre, rfl, ?_, fun i => ?_, ?_, fun hnK => ?_⟩
    · rw [momentum?_set t l u row hrow, hmu]; simp
    · rw [NeuralNetwork.weightOf_eq _ l u i aj hunit]
      exact hwj i
    · unfold BackPropagation.unitPrefix at hpre ⊢
      rw [List.range_succ, List.foldlM_append, hpre]
      simp [bind, Except.bind, pure, Except.pure]
      cases BackPropagation.weightStep bq l u d _ (n + 1) <;> rfl
    · rw [hupd hnK, hpre]

/-- Witness of C5: two calls on the sample network after `setModel`, and the
pass over the weights of its output unit from the sample state. -/
theorem C5_momentum_cache_witness :
    (∃ bp t0, (sampleBP []).setModel (some sampleNetwork) = .ok bp ∧
      bp.momentumtable = some t0 ∧
      (∀ l u, momentum? t0 l u = (sampleNetwork.unit? l u).map (fun _ => 0)) ∧
      ∃ m1 bp1 nn1 t1 m2 bp2 nn2 t2,
        (sampleNetwork.setInputs [1, 2]).compute (fun x => 1 + x * x) =
          .ok m1 ∧
        BackPropagation.compute (fun x => 1 + x * x) bp sampleNetwork [1, 2]
          [1] = .ok (bp1, nn1) ∧
        bp1.momentumtable = some t1 ∧
        (nn1.setInputs [0, 1]).compute (fun x => 1 + x * x) = .ok m2 ∧
        BackPropagation.compute (fun x => 1 + x * x) bp1 nn1 [0, 1] [0] =
          .ok (bp2, nn2) ∧
        bp2.momentumtable = some t2 ∧
        ∀ l u b1 b2, m1.unit? l u = some b1 → m2.unit? l u = some b2 →
          b2.numberOfInputs = b1.numberOfInputs ∧
          ∃ Δ1 Δ2 : Nat → ℚ,
            (∀ k, k ≤ b1.numberOfInputs →
              nn1.weightOf l u k = sampleNetwork.weightOf l u k + Δ1 k ∧
              nn2.weightOf l u k = nn1.weightOf l u k + Δ2 k) ∧
            Δ1 0 = bp.eta *
                gradient m1 [1] (sampleNetwork.nlayers - 1 - l) l u *
                b1.inputs.getD 0 0 -
              2 * bp.eta * 0 * sampleNetwork.weightOf l u 0 + bp.alfa * 0 ∧
            (∀ k, Δ1 (k + 1) =
              bp.eta * gradient m1 [1] (sampleNetwork.nlayers - 1 - l) l u *
                b1.inputs.getD (k + 1) 0 -
              2 * bp.eta * bp.lambda * sampleNetwork.weightOf l u (k + 1) +
              bp.alfa * Δ1 k) ∧
            momentum? t1 l u = some (Δ1 b1.numberOfInputs) ∧
            Δ2 0 = bp.eta *
                gradient m2 [0] (sampleNetwork.nlayers - 1 - l) l u *
                b2.inputs.getD 0 0 -
              2 * bp.eta * 0 * nn1.weightOf l u 0 +
              bp.alfa * Δ1 b1.numberOfInputs ∧
            (∀ k, Δ2 (k + 1) =
              bp.eta * gradient m2 [0] (sampleNetwork.nlayers - 1 - l) l u *
                b2.inputs.getD (k + 1) 0 -
              2 * bp.eta * bp.lambda * nn1.weightOf l u (k + 1) +
              bp.alfa * Δ2 k) ∧
            momentum? t2 l u = some (Δ2 b1.numberOfInputs)) ∧
    (∃ Δ : Nat → ℚ,
      Δ 0 = (sampleBP [[0, 0], [1 / 5]]).eta * (2 / 27) *
          (sampleUnit [1 / 2, -1 / 2, 1 / 4]).inputs.getD 0 0 -
        2 * (sampleBP [[0, 0], [1 / 5]]).eta * 0 *
          (sampleUnit [1 / 2, -1 / 2, 1 / 4]).weights.getD 0 0 +
        (sampleBP [[0, 0], [1 / 5]]).alfa * (1 / 5) ∧
      (∀ k, Δ (k + 1) = (sampleBP [[0, 0], [1 / 5]]).eta * (2 / 27) *
          (sampleUnit [1 / 2, -1 / 2, 1 / 4]).inputs.getD (k + 1) 0 -
        2 * (sampleBP [[0, 0], [1 / 5]]).eta *
          (sampleBP [[0, 0], [1 / 5]]).lambda *
          (sampleUnit [1 / 2, -1 / 2, 1 / 4]).weights.getD (k + 1) 0 +
        (sampleBP [[0, 0], [1 / 5]]).alfa * Δ k) ∧
      ∀ n, n ≤ (sampleUnit [1 / 2, -1 / 2, 1 / 4]).numberOfInputs → ∃ s' t',
        BackPropagation.unitPrefix (sampleBP [[0, 0], [1 / 5]]) 1 0 (2 / 27)
          sampleState (n + 1) = .ok s' ∧
        s'.momentumtable = some t' ∧ momentum? t' 1 0 = some (Δ n) ∧
        (∀ i, s'.nn.weightOf 1 0 i =
          if i ≤ n then
            (sampleUnit [1 / 2, -1 / 2, 1 / 4]).weights.getD i 0 + Δ i
          else (sampleUnit [1 / 2, -1 / 2, 1 / 4]).weights.getD i 0) ∧
        BackPropagation.unitPrefix (sampleBP [[0, 0], [1 / 5]]) 1 0 (2 / 27)
            sampleState (n + 2) =
          BackPropagation.weightStep (sampleBP [[0, 0], [1 / 5]]) 1 0 (2 / 27)
            s' (n + 1) ∧
        (n = (sampleUnit [1 / 2, -1 / 2, 1 / 4]).numberOfInputs →
          BackPropagation.updateUnit (sampleBP [[0, 0], [1 / 5]]) 1 0 (2 / 27)
            sampleState = .ok s')) :=
  C5_momentum_cache (fun x => 1 + x * x) (sampleBP []) sampleNetwork [1, 2]
    [1] [0, 1] [0] sampleNetwork_wf (by decide) (by simp [sampleNetwork]) rfl
    rfl rfl rfl (sampleBP [[0, 0], [1 / 5]]) sampleState 1 0 (2 / 27)
    (sampleUnit [1 / 2, -1 / 2, 1 / 4]) [[0, 0], [1 / 5]] (1 / 5)
    (by decide) rfl ⟨rfl, rfl, rfl⟩ rfl rfl rfl

section TrainerFacts

variable {R : Type} [LinearOrderedField R]

/-- A property that every successful step keeps is kept by a successful
loop. -/
theorem foldlM_preserves {σ : Type} (f : σ → Nat → Except Error σ)
    (P : σ → Prop) (h : ∀ s i s', f s i = .ok s' → P s → P s') :
    ∀ (xs : List Nat) (s0 s' : σ), xs.foldlM f s0 = .ok s' → P s0 → P s'
  | [], s0, s', hf, h0 => by
    cases hf
    exact h0
  | x :: xs, s0, s', hf, h0 => by
    rw [List.foldlM_cons] at hf
    cases h1 : f s0 x with
    | error e => rw [h1] at hf; cases hf
    | ok s1 =>
      rw [h1] at hf
      exact foldlM_preserves f P h xs s1 s' hf (h s0 x s1 h1 h0)

theorem Trainer.trainingStep_counters (exp : R → R) (t t' : Trainer R)
    (i : Nat) (h : Trainer.trainingStep exp t i = .ok t') :
    t'.epochs = t.epochs ∧ t'.maxepochs = t.maxepochs := by
  unfold Trainer.trainingStep at h
  simp only [bind, Except.bind, pure, Except.pure] at h
  repeat' split at h
  all_goals cases h <;> exact ⟨rfl, rfl⟩

theorem Trainer.validationStep_counters (exp : R → R) (t t' : Trainer R)
    (i : Nat) (h : Trainer.validationStep exp t i = .ok t') :
    t'.epochs = t.epochs ∧ t'.maxepochs = t.maxepochs := by
  unfold Trainer.validationStep at h
  simp only [bind, Except.bind, pure, Except.pure] at h
  repeat' split at h
  all_goals cases h <;> exact ⟨rfl, rfl⟩

theorem Trainer.training_counters (exp : R → R) (t t' : Trainer R)
    (h : Trainer.training exp t = .ok t') :
    t'.epochs = t.epochs ∧ t'.maxepochs = t.maxepochs := by
  unfold Trainer.training at h
  simp only [bind, Except.bind, pure, Except.pure] at h
  split at h
  · cases h
  · rename_i s hs
    cases h
    exact foldlM_preserves (Trainer.trainingStep exp)
      (fun s => s.epochs = t.epochs ∧ s.maxepochs = t.maxepochs)
      (fun a i b hab ha => by
        obtain ⟨e1, e2⟩ := Trainer.trainingStep_counters exp a b i hab
        exact ⟨e1.trans ha.1, e2.trans ha.2⟩)
      _ _ s hs ⟨rfl, rfl⟩

theorem Trainer.validation_counters (exp : R → R) (t t' : Trainer R)
    (h : Trainer.validation exp t = .ok t') :
    t'.epochs = t.epochs ∧ t'.maxepochs = t.maxepochs := by
  unfold Trainer.validation at h
  simp only [bind, Except.bind, pure, Except.pure] at h
  split at h
  · cases h
  · split at h
    · cases h
      exact ⟨rfl, rfl⟩
    · split at h
      · cases h
      · rename_i s hs
        cases h
        exact foldlM_preserves (Trainer.validationStep exp)
          (fun s => s.epochs = t.epochs ∧ s.maxepochs = t.maxepochs)
          (fun a i b hab ha => by
            obtain ⟨e1, e2⟩ := Trainer.validationStep_counters exp a b i hab
            exact ⟨e1.trans ha.1, e2.trans ha.2⟩)
          _ _ s hs ⟨rfl, rfl⟩

theorem Trainer.updateTrainingVariables_counters (t : Trainer R) :
    (Trainer.updateTrainingVariables t).epochs = t.epochs ∧
      (Trainer.updateTrainingVariables t).maxepochs = t.maxepochs := by
  unfold Trainer.updateTrainingVariables
  simp only []
  repeat' split
  all_goals exact ⟨rfl, rfl⟩

theorem Trainer.checkStop_counters (t : Trainer R) :
    (Trainer.checkStop t).2.epochs = t.epochs ∧
      (Trainer.checkStop t).2.maxepochs = t.maxepochs := by
  unfold Trainer.checkStop Trainer.checkStopErrorChange
  simp only []
  repeat' split
  all_goals exact ⟨rfl, rfl⟩

/-- The body of an epoch leaves the epoch counter and the bound on the
epochs as they were. -/
theorem Trainer.epochBody_counters (exp : R → R) (t t1 : Trainer R)
    (w w1 : World R) (h : Trainer.epochBody exp t w = .ok (t1, w1)) :
    t1.epochs = t.epochs ∧ t1.maxepochs = t.maxepochs := by
  unfold Trainer.epochBody at h
  simp only [bind, Except.bind, pure, Except.pure] at h
  repeat' split at h
  all_goals cases h
  all_goals
    rename_i _ v1 htr _ v2 hva _ _
    obtain ⟨a1, a2⟩ := Trainer.training_counters exp _ v1 htr
    obtain ⟨b1, b2⟩ := Trainer.validation_counters exp v1 v2 hva
    obtain ⟨c1, c2⟩ := Trainer.updateTrainingVariables_counters v2
    exact ⟨c1.trans (b1.trans a1), c2.trans (b2.trans a2)⟩

end TrainerFacts

section TrainerLoop

variable {R : Type} [LinearOrderedField R]

/-- The epochs that a run of the loop records extend the record it started
with. -/
theorem Trainer.startLoop_ran (exp : R → R) :
    ∀ (fuel : Nat) (t : Trainer R) (w : World R) (ran : List Nat) (r : Run R),
      Trainer.startLoop exp fuel t w ran = .ok (some r) → ran <+: r.ran
  | 0, _, _, _, _, h => by
    unfold Trainer.startLoop at h
    cases h
  | fuel + 1, t, w, ran, r, h => by
    unfold Trainer.startLoop at h
    split at h
    · cases hb : Trainer.epochBody exp t w with
      | error e => rw [hb] at h; cases h
      | ok p =>
        rw [hb] at h
        simp only [bind, Except.bind] at h
        split at h
        · cases h
          exact List.prefix_append _ _
        · exact (List.prefix_append ran [t.epochs]).trans
            (Trainer.startLoop_ran exp fuel _ _ _ r h)
    · cases h
      exact List.prefix_refl _

/-- The answer of `checkStop` when a threshold is reached on finite,
non-negative metrics. -/
theorem Trainer.checkStop_threshold (t : Trainer R) (trerr vaerr tracc vaacc : R)
    (h1 : t.trerr = some trerr) (h2 : t.vaerr = some vaerr)
    (h3 : t.tracc = some tracc) (h4 : t.vaacc = some vaacc)
    (p1 : 0 ≤ trerr) (p2 : 0 ≤ vaerr) (p3 : 0 ≤ tracc) (p4 : 0 ≤ vaacc)
    (hstop : trerr ≤ t.stoperr ∨ tracc ≥ t.stopacc) :
    Trainer.checkStop t = (true, t) := by
  unfold Trainer.checkStop
  simp only [h1, h2, h3, h4, Metric.nonFinite, Metric.test, Option.isNone_some,
    Bool.false_eq_true, if_false, not_lt.2 p1, not_lt.2 p2, not_lt.2 p3,
    not_lt.2 p4, decide_False, Bool.or_self]
  rcases hstop with h | h
  · simp [h]
  · by_cases h' : trerr ≤ t.stoperr
    · simp [h']
    · simp [h', h]

/-- The answer of `checkStop` when no stop condition holds. -/
theorem Trainer.checkStop_continue (t : Trainer R) (trerr vaerr : R)
    (h1 : t.trerr = some trerr) (h2 : t.vaerr = some vaerr)
    (p1 : 0 ≤ trerr) (p2 : 0 ≤ vaerr)
    (p3 : t.tracc.test (fun v => v < 0) = false)
    (p4 : t.vaacc.test (fun v => v < 0) = false)
    (q1 : t.stoperr < trerr)
    (q2 : t.tracc.test (fun v => v ≥ t.stopacc) = false)
    (q3 : (Trainer.checkStopErrorChange t trerr).1 = false) :
    Trainer.checkStop t = (false, (Trainer.checkStopErrorChange t trerr).2) := by
  unfold Trainer.checkStop
  rw [p3, p4, q2]
  simp only [h1, h2, Metric.nonFinite, Metric.test,
    Option.isNone_some, Bool.false_eq_true, if_false, not_lt.2 p1,
    not_lt.2 p2, decide_False, Bool.or_self, not_le.2 q1]
  exact Prod.ext q3 rfl

end TrainerLoop

/-- C10: in a run of `Trainer::start`, let the loop enter epoch `e`
(`t.epochs`) and let the body of the epoch complete, leaving the trainer
`t1`. If the metrics of `t1` are finite and non-negative and `trerr` is at
most the stop-error threshold or `tracc` at least the stop-accuracy
threshold, the loop ends there: `e` is the last epoch executed, whatever
`maxepochs` is. If no divergence condition, no threshold condition and not
the error-change criterion holds for `t1`, and `e+1 < maxepochs` or
`maxepochs = 0`, the loop goes on with the body of epoch `e+1`, run on the
state that epoch `e` left, and every result of the run records the epochs
`e` and `e+1`. -/
theorem C10_stop_or_continue {R : Type} [LinearOrderedField R] (exp : R → R)
    (fuel : Nat) (t t1 : Trainer R) (w w1 : World R) (ran : List Nat)
    (hcond : t.epochs < t.maxepochs ∨ t.maxepochs = 0)
    (hbody : Trainer.epochBody exp t w = .ok (t1, w1)) :
    (∀ trerr vaerr tracc vaacc : R,
      t1.trerr = some trerr → t1.vaerr = some vaerr →
      t1.tracc = some tracc → t1.vaacc = some vaacc →
      0 ≤ trerr → 0 ≤ vaerr → 0 ≤ tracc → 0 ≤ vaacc →
      trerr ≤ t1.stoperr ∨ tracc ≥ t1.stopacc →
      Trainer.startLoop exp (fuel + 1) t w ran =
        .ok (some ⟨t1, w1, ran ++ [t.epochs]⟩)) ∧
    (∀ trerr vaerr : R,
      t1.trerr = some trerr → t1.vaerr = some vaerr →
      0 ≤ trerr → 0 ≤ vaerr →
      t1.tracc.test (fun v => v < 0) = false →
      t1.vaacc.test (fun v => v < 0) = false →
      t1.stoperr < trerr →
      t1.tracc.test (fun v => v ≥ t1.stopacc) = false →
      (Trainer.checkStopErrorChange t1 trerr).1 = false →
      t.epochs + 1 < t.maxepochs ∨ t.maxepochs = 0 →
      ∃ t2, t2 = { (Trainer.checkStopErrorChange t1 trerr).2 with
          epochs := t.epochs + 1 } ∧
        Trainer.startLoop exp (fuel + 2) t w ran =
          (Trainer.epochBody exp t2 w1 >>= fun r =>
            if (Trainer.checkStop r.1).1 then
              .ok (some ⟨(Trainer.checkStop r.1).2, r.2,
                ran ++ [t.epochs] ++ [t.epochs + 1]⟩)
            else Trainer.startLoop exp fuel
              { (Trainer.checkStop r.1).2 with
                epochs := (Trainer.checkStop r.1).2.epochs + 1 }
              r.2 (ran ++ [t.epochs] ++ [t.epochs + 1])) ∧
        ∀ r, Trainer.startLoop exp (fuel + 2) t w ran = .ok (some r) →
          ran ++ [t.epochs] ++ [t.epochs + 1] <+: r.ran) := by
  obtain ⟨e1, e2⟩ := Trainer.epochBody_counters exp t t1 w w1 hbody
  constructor
  · intro trerr vaerr tracc vaacc h1 h2 h3 h4 p1 p2 p3 p4 hstop
    have hc := Trainer.checkStop_threshold t1 trerr vaerr tracc vaacc h1 h2 h3
      h4 p1 p2 p3 p4 hstop
    unfold Trainer.startLoop
    simp only [hcond, if_true, hbody, bind, Except.bind, hc]
  · intro trerr vaerr h1 h2 p1 p2 p3 p4 q1 q2 q3 hnext
    have hc := Trainer.checkStop_continue t1 trerr vaerr h1 h2 p1 p2 p3 p4 q1
      q2 q3
    obtain ⟨c1, c2⟩ := Trainer.checkStop_counters t1
    rw [hc] at c1 c2
    simp only [] at c1 c2
    have hstep : Trainer.startLoop exp (fuel + 2) t w ran =
        Trainer.startLoop exp (fuel + 1)
          { (Trainer.checkStopErrorChange t1 trerr).2 with
            epochs := t.epochs + 1 } w1 (ran ++ [t.epochs]) := by
      rw [Trainer.startLoop]
      simp only [hcond, if_true, hbody, bind, Except.bind, hc,
        Bool.false_eq_true, if_false, c1, e1]
    have hcond2 : t.epochs + 1 < (Trainer.checkStopErrorChange t1 trerr).2.maxepochs ∨
        (Trainer.checkStopErrorChange t1 trerr).2.maxepochs = 0 := by
      rw [c2, e2]; exact hnext
    have hunf : Trainer.startLoop exp (fuel + 2) t w ran =
        (Trainer.epochBody exp { (Trainer.checkStopErrorChange t1 trerr).2 with
            epochs := t.epochs + 1 } w1 >>= fun r =>
          if (Trainer.checkStop r.1).1 then
            .ok (some ⟨(Trainer.checkStop r.1).2, r.2,
              ran ++ [t.epochs] ++ [t.epochs + 1]⟩)
          else Trainer.startLoop exp fuel
            { (Trainer.checkStop r.1).2 with
              epochs := (Trainer.checkStop r.1).2.epochs + 1 }
            r.2 (ran ++ [t.epochs] ++ [t.epochs + 1])) := by
      rw [hstep, Trainer.startLoop]
      simp only [hcond2, if_true]
    refine ⟨_, rfl, hunf, fun r hr => ?_⟩
    rw [hunf] at hr
    cases hb : Trainer.epochBody exp { (Trainer.checkStopErrorChange t1 trerr).2 with
        epochs := t.epochs + 1 } w1 with
    | error e => rw [hb] at hr; cases hr
    | ok p =>
      rw [hb] at hr
      simp only [bind, Except.bind] at hr
      split at hr
      · cases hr
        exact List.prefix_refl _
      · exact Trainer.startLoop_ran exp fuel _ _ _ r hr

set_option maxRecDepth 100000 in
/-- Witness of C10: the first epoch of two runs on the sample trainer. With
the stop-error threshold `1` the epoch ends with `trerr = 2/9` and the run
stops after it; with the thresholds `1/10` and `2` and no bound on the
epochs the run goes on with epoch `1`. -/
theorem C10_stop_or_continue_witness :
    (∃ t1 w1, Trainer.epochBody sampleExp (sampleTrainer 1 1 0) sampleWorld =
        .ok (t1, w1) ∧
      Trainer.startLoop sampleExp 1 (sampleTrainer 1 1 0) sampleWorld [] =
        .ok (some ⟨t1, w1, [0]⟩)) ∧
    (∃ t1 w1 t2,
      Trainer.epochBody sampleExp (sampleTrainer (1 / 10) 2 0) sampleWorld =
        .ok (t1, w1) ∧
      t2 = { (Trainer.checkStopErrorChange t1 (2 / 9)).2 with epochs := 1 } ∧
      Trainer.startLoop sampleExp 2 (sampleTrainer (1 / 10) 2 0) sampleWorld
          [] =
        (Trainer.epochBody sampleExp t2 w1 >>= fun r =>
          if (Trainer.checkStop r.1).1 then
            .ok (some ⟨(Trainer.checkStop r.1).2, r.2, [0, 1]⟩)
          else Trainer.startLoop sampleExp 0
            { (Trainer.checkStop r.1).2 with
              epochs := (Trainer.checkStop r.1).2.epochs + 1 }
            r.2 [0, 1]) ∧
      ∀ r, Trainer.startLoop sampleExp 2 (sampleTrainer (1 / 10) 2 0)
          sampleWorld [] = .ok (some r) → [0, 1] <+: r.ran) := by
  constructor
  · obtain ⟨t1, w1, hb, h1, h2, h3, h4, h5⟩ : ∃ t1 w1,
        Trainer.epochBody sampleExp (sampleTrainer 1 1 0) sampleWorld =
          .ok (t1, w1) ∧
        t1.trerr = some (2 / 9) ∧ t1.vaerr = some (1 / 18) ∧
        t1.tracc = some 0 ∧ t1.vaacc = some 1 ∧ t1.stoperr = 1 :=
      ⟨_, _, by with_unfolding_all rfl, by with_unfolding_all rfl,
        by with_unfolding_all rfl, by with_unfolding_all rfl,
        by with_unfolding_all rfl, by with_unfolding_all rfl⟩
    exact ⟨t1, w1, hb,
      (C10_stop_or_continue sampleExp 0 (sampleTrainer 1 1 0) t1 sampleWorld
        w1 [] (Or.inr rfl) hb).1 (2 / 9) (1 / 18) 0 1 h1 h2 h3 h4
        (by norm_num) (by norm_num) (by norm_num) (by norm_num)
        (Or.inl (by rw [h5]; norm_num))⟩
  · obtain ⟨t1, w1, hb, h1, h2, h3, h4, h5, h6, h7⟩ : ∃ t1 w1,
        Trainer.epochBody sampleExp (sampleTrainer (1 / 10) 2 0) sampleWorld =
          .ok (t1, w1) ∧
        t1.trerr = some (2 / 9) ∧ t1.vaerr = some (1 / 18) ∧
        t1.tracc = some 0 ∧ t1.vaacc = some 1 ∧ t1.stoperr = 1 / 10 ∧
        t1.stopacc = 2 ∧ t1.stoperrch_ep = 0 :=
      ⟨_, _, by with_unfolding_all rfl, by with_unfolding_all rfl,
        by with_unfolding_all rfl, by with_unfolding_all rfl,
        by with_unfolding_all rfl, by with_unfolding_all rfl,
        by with_unfolding_all rfl, by with_unfolding_all rfl⟩
    obtain ⟨t2, e2, hrun, hran⟩ :=
      (C10_stop_or_continue sampleExp 0 (sampleTrainer (1 / 10) 2 0) t1
        sampleWorld w1 [] (Or.inr rfl) hb).2 (2 / 9) (1 / 18) h1 h2
        (by norm_num) (by norm_num)
        (by rw [h3]; simp [Metric.test])
        (by rw [h4]; simp [Metric.test])
        (by rw [h5]; norm_num)
        (by rw [h3, h6]; simp [Metric.test])
        (by unfold Trainer.checkStopErrorChange; rw [if_pos h7])
        (Or.inr rfl)
    exact ⟨t1, w1, t2, hb, e2, hrun, hran⟩

section ErrorChange

variable {R : Type} [LinearOrderedField R]

/-- One evaluation of the error-change criterion on a positive training
error, with a window of at least one epoch. -/
theorem Trainer.checkStopErrorChange_pos (t : Trainer R) (e : R)
    (hn : 0 < t.stoperrch_ep) (he : 0 < e) :
    Trainer.checkStopErrorChange t e =
      (decide (t.stoperrch_ep ≤
          (if |e - t.prevtrerr| / e ≤ t.stoperrch_var / 100 then
            t.stoperrch_n + 1 else 0)),
        { t with
          stoperrch_n := (if |e - t.prevtrerr| / e ≤ t.stoperrch_var / 100 then
            t.stoperrch_n + 1 else 0),
          prevtrerr := e }) := by
  unfold Trainer.checkStopErrorChange
  have h0 : t.stoperrch_ep ≠ 0 := by omega
  have habs : |(e - t.prevtrerr) / e| = |e - t.prevtrerr| / e := by
    rw [abs_div, abs_of_pos he]
  simp only [h0, if_false, habs, ne_eq, he.ne', not_false_eq_true, true_and]
  by_cases hs : |e - t.prevtrerr| / e ≤ t.stoperrch_var / 100
  · simp only [hs, if_true]
    by_cases hc : t.stoperrch_n + 1 ≥ t.stoperrch_ep
    · simp [hc]
    · simp [hc]
  · simp only [hs, if_false]
    simp [h0]

/-- The state of the criterion after the first `k` epochs of a run: the
window, the percentage, the previous error and the counter, which is the
length of the run of small changes that ends at epoch `k-1`. -/
theorem Trainer.errorChangeAfter_inv (t : Trainer R)
    (hn : 0 < t.stoperrch_ep) (hp : t.prevtrerr = 0) (hc : t.stoperrch_n = 0)
    (xs : List R) (hx : ∀ x ∈ xs, 0 < x) :
    ∀ k, k ≤ xs.length →
      (Trainer.errorChangeAfter t (xs.take k)).stoperrch_ep = t.stoperrch_ep ∧
      (Trainer.errorChangeAfter t (xs.take k)).stoperrch_var =
        t.stoperrch_var ∧
      (Trainer.errorChangeAfter t (xs.take k)).prevtrerr =
        (if k = 0 then 0 else xs.getD (k - 1) 0) ∧
      (Trainer.errorChangeAfter t (xs.take k)).stoperrch_n ≤ k ∧
      (∀ j, j < (Trainer.errorChangeAfter t (xs.take k)).stoperrch_n →
        smallChangeAt t.stoperrch_var xs (k - 1 - j)) ∧
      ((Trainer.errorChangeAfter t (xs.take k)).stoperrch_n < k →
        ¬ smallChangeAt t.stoperrch_var xs
          (k - 1 - (Trainer.errorChangeAfter t (xs.take k)).stoperrch_n))
  | 0, _ => by
    simp [Trainer.errorChangeAfter, hp, hc]
  | k + 1, hk => by
    obtain ⟨i1, i2, i3, i4, i5, i6⟩ :=
      Trainer.errorChangeAfter_inv t hn hp hc xs hx k (by omega)
    have hlt : k < xs.length := by omega
    have hget : xs.getD k 0 = xs[k] := by
      simp [List.getD_eq_getElem?_getD, List.getElem?_eq_getElem hlt]
    have hpos : 0 < xs.getD k 0 := by
      rw [hget]; exact hx _ (List.getElem_mem hlt)
    have htake : xs.take (k + 1) = xs.take k ++ [xs.getD k 0] := by
      rw [hget, List.take_succ, List.getElem?_eq_getElem hlt]
      rfl
    have hstep : Trainer.errorChangeAfter t (xs.take (k + 1)) =
        (Trainer.checkStopErrorChange (Trainer.errorChangeAfter t (xs.take k))
          (xs.getD k 0)).2 := by
      rw [htake]
      unfold Trainer.errorChangeAfter
      rw [List.foldl_append]
      rfl
    rw [hstep, Trainer.checkStopErrorChange_pos _ _ (by rw [i1]; exact hn) hpos]
    obtain ⟨T, hT⟩ : ∃ T, T = Trainer.errorChangeAfter t (xs.take k) :=
      ⟨_, rfl⟩
    rw [← hT] at i1 i2 i3 i4 i5 i6 ⊢
    have hsm : (|xs.getD k 0 - T.prevtrerr| / xs.getD k 0 ≤
        T.stoperrch_var / 100) ↔ smallChangeAt t.stoperrch_var xs k := by
      rw [i2, i3]; exact Iff.rfl
    have hk1 : k + 1 - 1 = k := by omega
    by_cases hs : smallChangeAt t.stoperrch_var xs k
    · simp only [if_pos (hsm.2 hs), hk1]
      refine ⟨i1, i2, by simp, by omega, fun j hj => ?_, fun hlt' => ?_⟩
      · by_cases hj0 : j = 0
        · subst hj0; simpa using hs
        · have := i5 (j - 1) (by omega)
          have e : k - 1 - (j - 1) = k - j := by omega
          rw [e] at this
          exact this
      · have := i6 (by omega)
        have e : k - 1 - T.stoperrch_n = k - (T.stoperrch_n + 1) := by omega
        rw [e] at this
        exact this
    · simp only [if_neg (fun h => hs (hsm.1 h)), hk1]
      refine ⟨i1, i2, by simp, by omega, fun j hj => by omega, fun _ => ?_⟩
      simpa using hs

/-- In a run started with previous error `0` and counter `0` whose training
errors `xs` are positive, the evaluation of the criterion at epoch `k`
answers "stop" iff the epochs `k-n+1 .. k` exist and all show a small
change, `n > 0` being the window. -/
theorem Trainer.errorChange_window (t : Trainer R)
    (hn : 0 < t.stoperrch_ep) (hp : t.prevtrerr = 0) (hc : t.stoperrch_n = 0)
    (xs : List R) (hx : ∀ x ∈ xs, 0 < x) (k : Nat) (hk : k < xs.length) :
    ((Trainer.checkStopErrorChange
        (Trainer.errorChangeAfter t (xs.take k)) (xs.getD k 0)).1 = true ↔
      t.stoperrch_ep ≤ k + 1 ∧
      ∀ j, j < t.stoperrch_ep →
        smallChangeAt t.stoperrch_var xs (k - j)) ∧
    Trainer.errorChangeAfter t (xs.take (k + 1)) =
      (Trainer.checkStopErrorChange (Trainer.errorChangeAfter t (xs.take k))
        (xs.getD k 0)).2 := by
  obtain ⟨i1, _, _, _, _, _⟩ :=
    Trainer.errorChangeAfter_inv t hn hp hc xs hx k (by omega)
  obtain ⟨_, _, _, j4, j5, j6⟩ :=
    Trainer.errorChangeAfter_inv t hn hp hc xs hx (k + 1) (by omega)
  have hlt : k < xs.length := hk
  have hget : xs.getD k 0 = xs[k] := by
    simp [List.getD_eq_getElem?_getD, List.getElem?_eq_getElem hlt]
  have hpos : 0 < xs.getD k 0 := by
    rw [hget]; exact hx _ (List.getElem_mem hlt)
  have htake : xs.take (k + 1) = xs.take k ++ [xs.getD k 0] := by
    rw [hget, List.take_succ, List.getElem?_eq_getElem hlt]
    rfl
  have hstep : Trainer.errorChangeAfter t (xs.take (k + 1)) =
      (Trainer.checkStopErrorChange (Trainer.errorChangeAfter t (xs.take k))
        (xs.getD k 0)).2 := by
    rw [htake]
    unfold Trainer.errorChangeAfter
    rw [List.foldl_append]
    rfl
  refine ⟨?_, hstep⟩
  rw [hstep] at j4 j5 j6
  rw [Trainer.checkStopErrorChange_pos _ _ (by rw [i1]; exact hn) hpos]
    at j4 j5 j6 ⊢
  simp only [decide_eq_true_eq, i1] at j4 j5 j6 ⊢
  have hk1 : k + 1 - 1 = k := by omega
  rw [hk1] at j5 j6
  constructor
  · intro hge
    exact ⟨by omega, fun j hj => j5 j (by omega)⟩
  · rintro ⟨h1, h2⟩
    by_contra hlt'
    exact j6 (by omega) (h2 _ (by omega))

end ErrorChange

section Hits

variable {R : Type} [LinearOrderedField R]

theorem Trainer.modelHitLoop_ok (thr : R) (y d : List R)
    (hlen : y.length = d.length) :
    ∀ n i, i + n = y.length →
      ∃ h, Trainer.modelHitLoop thr y d n i = .ok h ∧ (h = 1 ∨ h = 0) ∧
        (h = 1 ↔ ∀ j, i ≤ j → j < y.length →
          (d.getD j 0 > thr ∧ y.getD j 0 > thr) ∨
            (d.getD j 0 ≤ thr ∧ y.getD j 0 ≤ thr))
  | 0, i, hi => by
    refine ⟨1, rfl, Or.inl rfl, ⟨fun _ => ?_, fun _ => rfl⟩⟩
    intro j h1 h2
    omega
  | n + 1, i, hi => by
    have hiy : i < y.length := by omega
    have hid : i < d.length := by omega
    unfold Trainer.modelHitLoop
    simp only [rawGet_getD d i hid, rawGet_getD y i hiy, bind, Except.bind]
    by_cases hmiss : (d.getD i 0 > thr ∧ y.getD i 0 ≤ thr) ∨
        (d.getD i 0 ≤ thr ∧ y.getD i 0 > thr)
    · rw [if_pos hmiss]
      refine ⟨0, rfl, Or.inr rfl, ⟨fun h => absurd h (by decide), fun h => ?_⟩⟩
      exfalso
      rcases h i (le_refl _) hiy with ⟨a, b⟩ | ⟨a, b⟩ <;>
        rcases hmiss with ⟨c, e⟩ | ⟨c, e⟩
      · exact absurd b (not_lt.2 e)
      · exact absurd a (not_lt.2 c)
      · exact absurd c (not_lt.2 a)
      · exact absurd e (not_lt.2 b)
    · rw [if_neg hmiss]
      obtain ⟨h, hh, h01, hiff⟩ :=
        Trainer.modelHitLoop_ok thr y d hlen n (i + 1) (by omega)
      refine ⟨h, hh, h01, hiff.trans ⟨fun hall j h1 h2 => ?_,
        fun hall j h1 h2 => hall j (by omega) h2⟩⟩
      by_cases hj : j = i
      · subst hj
        by_cases hdj : d.getD j 0 > thr
        · by_cases hyj : y.getD j 0 > thr
          · exact Or.inl ⟨hdj, hyj⟩
          · exact absurd (Or.inl ⟨hdj, not_lt.1 hyj⟩) hmiss
        · by_cases hyj : y.getD j 0 > thr
          · exact absurd (Or.inr ⟨not_lt.1 hdj, hyj⟩) hmiss
          · exact Or.inr ⟨not_lt.1 hdj, not_lt.1 hyj⟩
      · exact hall j (by omega) h2

theorem Tester.checkLoop_ok (ts : Tester R) (i : Nat) (inst : Instance R)
    (hi : ts.dataset.index i = .ok inst)
    (hlen : ts.model.lastOutput.length = inst.output.length) :
    ∀ n k, k + n = inst.output.length + 1 → k ≤ inst.output.length →
      ∃ b, Tester.checkLoop ts i n k = .ok b ∧
        (b = true ↔ ∀ j, k ≤ j → j < inst.output.length →
          (inst.output.getD j 0 > ts.threshold ∧
              ts.model.lastOutput.getD j 0 > ts.threshold) ∨
            (inst.output.getD j 0 ≤ ts.threshold ∧
              ts.model.lastOutput.getD j 0 ≤ ts.threshold))
  | 0, k, hk, hle => by
    omega
  | n + 1, k, hk, _ => by
    unfold Tester.checkLoop
    simp only [hi, bind, Except.bind]
    by_cases hkl : k < inst.output.length
    · have hky : k < ts.model.lastOutput.length := by omega
      have hgo : ts.model.getOutput k = .ok (ts.model.lastOutput.getD k 0) := by
        unfold NeuralNetwork.getOutput
        rw [if_neg (by omega), rawGet_getD _ _ hky]
      simp only [hkl, if_true, rawGet_getD _ _ hkl, hgo]
      by_cases hmiss : (inst.output.getD k 0 > ts.threshold ∧
          ts.model.lastOutput.getD k 0 ≤ ts.threshold) ∨
          (inst.output.getD k 0 ≤ ts.threshold ∧
            ts.model.lastOutput.getD k 0 > ts.threshold)
      · rw [if_pos hmiss]
        refine ⟨false, rfl, ⟨fun h => Bool.noConfusion h, fun h => ?_⟩⟩
        exfalso
        rcases h k (le_refl _) hkl with ⟨a, b⟩ | ⟨a, b⟩ <;>
          rcases hmiss with ⟨c, e⟩ | ⟨c, e⟩
        · exact absurd b (not_lt.2 e)
        · exact absurd a (not_lt.2 c)
        · exact absurd c (not_lt.2 a)
        · exact absurd e (not_lt.2 b)
      · rw [if_neg hmiss]
        obtain ⟨b, hb, hiff⟩ :=
          Tester.checkLoop_ok ts i inst hi hlen n (k + 1) (by omega) (by omega)
        refine ⟨b, hb, hiff.trans ⟨fun hall j h1 h2 => ?_,
          fun hall j h1 h2 => hall j (by omega) h2⟩⟩
        by_cases hj : j = k
        · subst hj
          by_cases hdj : inst.output.getD j 0 > ts.threshold
          · by_cases hyj : ts.model.lastOutput.getD j 0 > ts.threshold
            · exact Or.inl ⟨hdj, hyj⟩
            · exact absurd (Or.inl ⟨hdj, not_lt.1 hyj⟩) hmiss
          · by_cases hyj : ts.model.lastOutput.getD j 0 > ts.threshold
            · exact absurd (Or.inr ⟨not_lt.1 hdj, hyj⟩) hmiss
            · exact Or.inr ⟨not_lt.1 hdj, not_lt.1 hyj⟩
        · exact hall j (by omega) h2
    · simp only [hkl, if_false]
      exact ⟨true, rfl, ⟨fun _ j h1 h2 => by omega, fun _ => rfl⟩⟩

end Hits

/-- C12: for a threshold `thr`, model outputs `y` and targets `d` of equal
length, `Trainer::modelHit` returns `1` if in every dimension `d_j` and `y_j`
lie on the same side of the threshold (both above, or both at most `thr`)
and `0` otherwise, hence `1` for empty vectors; and
`Tester::checkModelResponse`, for a tester with the same threshold whose
model holds the outputs `y` and whose instance `i` has the targets `d`,
answers true exactly in the same case. -/
theorem C12_model_hit {R : Type} [LinearOrderedField R] (t : Trainer R)
    (ts : Tester R) (i : Nat) (inst : Instance R) (y d : List R)
    (hlen : y.length = d.length) (hth : ts.threshold = t.threshold)
    (hy : ts.model.getOutputs = y) (hi : ts.dataset.index i = .ok inst)
    (hd : inst.output = d) :
    ∃ h b, t.modelHit y d = .ok h ∧ ts.checkModelResponse i = .ok b ∧
      (h = 1 ∨ h = 0) ∧
      (h = 1 ↔ ∀ j, j < y.length →
        (d.getD j 0 > t.threshold ∧ y.getD j 0 > t.threshold) ∨
          (d.getD j 0 ≤ t.threshold ∧ y.getD j 0 ≤ t.threshold)) ∧
      (b = true ↔ h = 1) ∧ (y = [] → h = 1) := by
  obtain ⟨h, hh, h01, hiff⟩ :=
    Trainer.modelHitLoop_ok t.threshold y d hlen y.length 0 (by omega)
  have hly : ts.model.lastOutput = y := hy
  obtain ⟨b, hb, hbiff⟩ := Tester.checkLoop_ok ts i inst hi
    (by rw [hly, hd]; exact hlen) (inst.output.length + 1) 0 (by omega)
    (Nat.zero_le _)
  have hspec : h = 1 ↔ ∀ j, j < y.length →
      (d.getD j 0 > t.threshold ∧ y.getD j 0 > t.threshold) ∨
        (d.getD j 0 ≤ t.threshold ∧ y.getD j 0 ≤ t.threshold) :=
    hiff.trans ⟨fun a j hj => a j (Nat.zero_le _) hj, fun a j _ hj => a j hj⟩
  refine ⟨h, b, ?_, ?_, h01, hspec, ?_, fun hnil => ?_⟩
  · unfold Trainer.modelHit
    simp only [cassert, hlen, if_true, bind, Except.bind]
    rw [← hlen]; exact hh
  · unfold Tester.checkModelResponse
    simp only [hi, bind, Except.bind]
    exact hb
  · rw [hbiff, hspec, hly, hd, hth, ← hlen]
    exact ⟨fun a j hj => a j (Nat.zero_le _) hj, fun a j _ hj => a j hj⟩
  · rw [hspec]
    intro j hj
    rw [hnil] at hj
    exact absurd hj (Nat.not_lt_zero _)

/-- Witness of C12: the sample trainer and the sample tester, the output
`2/3` and the target `1`. -/
theorem C12_model_hit_witness :
    ∃ h b, (sampleTrainer 1 1 0).modelHit [2 / 3] [1] = .ok h ∧
      sampleTester.checkModelResponse 0 = .ok b ∧
      (h = 1 ∨ h = 0) ∧
      (h = 1 ↔ ∀ j, j < [(2 / 3 : ℚ)].length →
        ([(1 : ℚ)].getD j 0 > (sampleTrainer 1 1 0).threshold ∧
            [(2 / 3 : ℚ)].getD j 0 > (sampleTrainer 1 1 0).threshold) ∨
          ([(1 : ℚ)].getD j 0 ≤ (sampleTrainer 1 1 0).threshold ∧
            [(2 / 3 : ℚ)].getD j 0 ≤ (sampleTrainer 1 1 0).threshold)) ∧
      (b = true ↔ h = 1) ∧ ([(2 / 3 : ℚ)] = [] → h = 1) :=
  C12_model_hit (sampleTrainer 1 1 0) sampleTester 0 ⟨"a", [1, 2], [1]⟩
    [2 / 3] [1] rfl rfl rfl rfl rfl

section Trackers

variable {R : Type} [LinearOrderedField R]

theorem Trainer.trainingStep_trackers (exp : R → R) (t t' : Trainer R)
    (i : Nat) (h : Trainer.trainingStep exp t i = .ok t') :
    t'.mintrerr = t.mintrerr ∧ t'.minvaerr = t.minvaerr ∧
      t'.maxtracc = t.maxtracc ∧ t'.maxvaacc = t.maxvaacc ∧
      t'.initmodel = t.initmodel := by
  unfold Trainer.trainingStep at h
  simp only [bind, Except.bind, pure, Except.pure] at h
  repeat' split at h
  all_goals cases h <;> exact ⟨rfl, rfl, rfl, rfl, rfl⟩

theorem Trainer.validationStep_trackers (exp : R → R) (t t' : Trainer R)
    (i : Nat) (h : Trainer.validationStep exp t i = .ok t') :
    t'.mintrerr = t.mintrerr ∧ t'.minvaerr = t.minvaerr ∧
      t'.maxtracc = t.maxtracc ∧ t'.maxvaacc = t.maxvaacc ∧
      t'.initmodel = t.initmodel := by
  unfold Trainer.validationStep at h
  simp only [bind, Except.bind, pure, Except.pure] at h
  repeat' split at h
  all_goals cases h <;> exact ⟨rfl, rfl, rfl, rfl, rfl⟩

theorem Trainer.training_trackers (exp : R → R) (t t' : Trainer R)
    (h : Trainer.training exp t = .ok t') :
    t'.mintrerr = t.mintrerr ∧ t'.minvaerr = t.minvaerr ∧
      t'.maxtracc = t.maxtracc ∧ t'.maxvaacc = t.maxvaacc ∧
      t'.initmodel = t.initmodel := by
  unfold Trainer.training at h
  simp only [bind, Except.bind, pure, Except.pure] at h
  split at h
  · cases h
  · rename_i s hs
    cases h
    exact foldlM_preserves (Trainer.trainingStep exp)
      (fun s => s.mintrerr = t.mintrerr ∧ s.minvaerr = t.minvaerr ∧
        s.maxtracc = t.maxtracc ∧ s.maxvaacc = t.maxvaacc ∧
        s.initmodel = t.initmodel)
      (fun a i b hab ha => by
        obtain ⟨e1, e2, e3, e4, e5⟩ :=
          Trainer.trainingStep_trackers exp a b i hab
        exact ⟨e1.trans ha.1, e2.trans ha.2.1, e3.trans ha.2.2.1,
          e4.trans ha.2.2.2.1, e5.trans ha.2.2.2.2⟩)
      _ _ s hs ⟨rfl, rfl, rfl, rfl, rfl⟩

theorem Trainer.validation_trackers (exp : R → R) (t t' : Trainer R)
    (h : Trainer.validation exp t = .ok t') :
    t'.mintrerr = t.mintrerr ∧ t'.minvaerr = t.minvaerr ∧
      t'.maxtracc = t.maxtracc ∧ t'.maxvaacc = t.maxvaacc ∧
      t'.initmodel = t.initmodel ∧ t'.trerr = t.trerr ∧
      t'.tracc = t.tracc := by
  unfold Trainer.validation at h
  simp only [bind, Except.bind, pure, Except.pure] at h
  split at h
  · cases h
  · split at h
    · cases h
      exact ⟨rfl, rfl, rfl, rfl, rfl, rfl, rfl⟩
    · split at h
      · cases h
      · rename_i s hs
        cases h
        exact foldlM_preserves (Trainer.validationStep exp)
          (fun s => s.mintrerr = t.mintrerr ∧ s.minvaerr = t.minvaerr ∧
            s.maxtracc = t.maxtracc ∧ s.maxvaacc = t.maxvaacc ∧
            s.initmodel = t.initmodel ∧ s.trerr = t.trerr ∧
            s.tracc = t.tracc)
          (fun a i b hab ha => by
            obtain ⟨e1, e2, e3, e4, e5⟩ :=
              Trainer.validationStep_trackers exp a b i hab
            have e6 : b.trerr = a.trerr ∧ b.tracc = a.tracc := by
              unfold Trainer.validationStep at hab
              simp only [bind, Except.bind, pure, Except.pure] at hab
              repeat' split at hab
              all_goals cases hab <;> exact ⟨rfl, rfl⟩
            exact ⟨e1.trans ha.1, e2.trans ha.2.1, e3.trans ha.2.2.1,
              e4.trans ha.2.2.2.1, e5.trans ha.2.2.2.2.1,
              e6.1.trans ha.2.2.2.2.2.1, e6.2.trans ha.2.2.2.2.2.2⟩)
          _ _ s hs ⟨rfl, rfl, rfl, rfl, rfl, rfl, rfl⟩

theorem Trainer.updateTrainingVariables_stages (t : Trainer R) :
    Trainer.updateTrainingVariables t =
      Trainer.updateMaxVaAcc (Trainer.updateMaxTrAcc
        (Trainer.updateMinVaErr (Trainer.updateMinTrErr t))) := rfl

theorem Trainer.updateMinTrErr_eq (t : Trainer R) :
    Trainer.updateMinTrErr t = { t with mintrerr :=
      (match t.trerr with
        | some v => if (v : WithTop R) < t.mintrerr.1 then
            ((v : WithTop R), t.epochs) else t.mintrerr
        | none => t.mintrerr) } := by
  obtain ⟨model, initmodel, algorithm, dataset, epochs, maxepochs, shfepochs,
    vaerr, trerr, stoperr, vaacc, tracc, stopacc, mintrerr, minvaerr,
    maxtracc, maxvaacc, threshold, prevtrerr, sv, se, sn, resfile⟩ := t
  cases trerr with
  | none => rfl
  | some v =>
    simp only [Trainer.updateMinTrErr]
    split_ifs <;> rfl

theorem Trainer.updateMinVaErr_eq (t : Trainer R) :
    Trainer.updateMinVaErr t = { t with minvaerr :=
      (match t.vaerr with
        | some v => if (v : WithTop R) < t.minvaerr.1 then
            ((v : WithTop R), t.epochs) else t.minvaerr
        | none => t.minvaerr) } := by
  obtain ⟨model, initmodel, algorithm, dataset, epochs, maxepochs, shfepochs,
    vaerr, trerr, stoperr, vaacc, tracc, stopacc, mintrerr, minvaerr,
    maxtracc, maxvaacc, threshold, prevtrerr, sv, se, sn, resfile⟩ := t
  cases vaerr with
  | none => rfl
  | some v =>
    simp only [Trainer.updateMinVaErr]
    split_ifs <;> rfl

theorem Trainer.updateMaxTrAcc_eq (t : Trainer R) :
    Trainer.updateMaxTrAcc t = { t with maxtracc :=
      (match t.tracc with
        | some v => if v > t.maxtracc.1 then (v, t.epochs) else t.maxtracc
        | none => t.maxtracc) } := by
  obtain ⟨model, initmodel, algorithm, dataset, epochs, maxepochs, shfepochs,
    vaerr, trerr, stoperr, vaacc, tracc, stopacc, mintrerr, minvaerr,
    maxtracc, maxvaacc, threshold, prevtrerr, sv, se, sn, resfile⟩ := t
  cases tracc with
  | none => rfl
  | some v =>
    simp only [Trainer.updateMaxTrAcc]
    split_ifs <;> rfl

theorem Trainer.updateMaxVaAcc_eq (t : Trainer R) :
    Trainer.updateMaxVaAcc t = { t with maxvaacc :=
      (match t.vaacc with
        | some v => if v > t.maxvaacc.1 then (v, t.epochs) else t.maxvaacc
        | none => t.maxvaacc) } := by
  obtain ⟨model, initmodel, algorithm, dataset, epochs, maxepochs, shfepochs,
    vaerr, trerr, stoperr, vaacc, tracc, stopacc, mintrerr, minvaerr,
    maxtracc, maxvaacc, threshold, prevtrerr, sv, se, sn, resfile⟩ := t
  cases vaacc with
  | none => rfl
  | some v =>
    simp only [Trainer.updateMaxVaAcc]
    split_ifs <;> rfl

/-- What `updateTrainingVariables` does to the four trackers; the metrics,
the epoch counter and the rest stay. -/
theorem Trainer.updateTrainingVariables_spec (t : Trainer R) :
    (Trainer.updateTrainingVariables t).mintrerr =
      (match t.trerr with
        | some v => if (v : WithTop R) < t.mintrerr.1 then
            ((v : WithTop R), t.epochs) else t.mintrerr
        | none => t.mintrerr) ∧
    (Trainer.updateTrainingVariables t).minvaerr =
      (match t.vaerr with
        | some v => if (v : WithTop R) < t.minvaerr.1 then
            ((v : WithTop R), t.epochs) else t.minvaerr
        | none => t.minvaerr) ∧
    (Trainer.updateTrainingVariables t).maxtracc =
      (match t.tracc with
        | some v => if v > t.maxtracc.1 then (v, t.epochs) else t.maxtracc
        | none => t.maxtracc) ∧
    (Trainer.updateTrainingVariables t).maxvaacc =
      (match t.vaacc with
        | some v => if v > t.maxvaacc.1 then (v, t.epochs) else t.maxvaacc
        | none => t.maxvaacc) ∧
    (Trainer.updateTrainingVariables t).trerr = t.trerr ∧
    (Trainer.updateTrainingVariables t).vaerr = t.vaerr ∧
    (Trainer.updateTrainingVariables t).tracc = t.tracc ∧
    (Trainer.updateTrainingVariables t).vaacc = t.vaacc ∧
    (Trainer.updateTrainingVariables t).initmodel = t.initmodel := by
  rw [Trainer.updateTrainingVariables_stages, Trainer.updateMaxVaAcc_eq,
    Trainer.updateMaxTrAcc_eq, Trainer.updateMinVaErr_eq,
    Trainer.updateMinTrErr_eq]
  exact ⟨rfl, rfl, rfl, rfl, rfl, rfl, rfl, rfl, rfl⟩

theorem Trainer.checkStop_trackers (t : Trainer R) :
    (Trainer.checkStop t).2.mintrerr = t.mintrerr ∧
      (Trainer.checkStop t).2.minvaerr = t.minvaerr ∧
      (Trainer.checkStop t).2.maxtracc = t.maxtracc ∧
      (Trainer.checkStop t).2.maxvaacc = t.maxvaacc ∧
      (Trainer.checkStop t).2.initmodel = t.initmodel := by
  unfold Trainer.checkStop Trainer.checkStopErrorChange
  simp only []
  repeat' split
  all_goals exact ⟨rfl, rfl, rfl, rfl, rfl⟩

end Trackers

section Extremes

variable {R : Type} [LinearOrderedField R]

theorem earliestMin_track (a : Nat → R) (p : Nat → WithTop R × Nat) (E : Nat)
    (h0 : p 0 = ((a 0 : WithTop R), 0))
    (hs : ∀ k, k < E → p (k + 1) =
      if (a (k + 1) : WithTop R) < (p k).1 then ((a (k + 1) : WithTop R), k + 1)
      else p k) :
    ∀ k, k ≤ E → EarliestMin a k (p k)
  | 0, _ => ⟨0, le_refl _, h0, fun j hj => by
      have : j = 0 := by omega
      subst this; exact le_refl _, fun j hj => by omega⟩
  | k + 1, hk => by
    obtain ⟨i, hi, hp, hmin, hfirst⟩ := earliestMin_track a p E h0 hs k (by omega)
    rw [EarliestMin, hs k (by omega), hp]
    simp only [WithTop.coe_lt_coe]
    by_cases hlt : a (k + 1) < a i
    · rw [if_pos hlt]
      refine ⟨k + 1, le_refl _, rfl, fun j hj => ?_, fun j hj => ?_⟩
      · by_cases hj' : j = k + 1
        · subst hj'; exact le_refl _
        · exact le_of_lt (lt_of_lt_of_le hlt (hmin j (by omega)))
      · exact lt_of_lt_of_le hlt (hmin j (by omega))
    · rw [if_neg hlt]
      refine ⟨i, by omega, rfl, fun j hj => ?_, hfirst⟩
      by_cases hj' : j = k + 1
      · subst hj'; exact not_lt.1 hlt
      · exact hmin j (by omega)

theorem earliestMax_inv (a : Nat → R) (p : Nat → R × Nat) (E : Nat)
    (h0 : p 0 = if a 0 > 0 then (a 0, 0) else (0, 0))
    (hs : ∀ k, k < E → p (k + 1) =
      if a (k + 1) > (p k).1 then (a (k + 1), k + 1) else p k) :
    ∀ k, k ≤ E → (∀ j, j ≤ k → a j ≤ (p k).1) ∧
      ((p k = (0, 0) ∧ ∀ j, j ≤ k → a j ≤ 0) ∨
        (∃ i, i ≤ k ∧ p k = (a i, i) ∧ 0 < a i ∧ ∀ j, j < i → a j < a i))
  | 0, _ => by
    rw [h0]
    by_cases hpos : a 0 > 0
    · rw [if_pos hpos]
      refine ⟨fun j hj => ?_, Or.inr ⟨0, le_refl _, rfl, hpos, fun j hj => by omega⟩⟩
      have : j = 0 := by omega
      subst this; exact le_refl _
    · rw [if_neg hpos]
      have h : ∀ j, j ≤ 0 → a j ≤ 0 := fun j hj => by
        have : j = 0 := by omega
        subst this; exact not_lt.1 hpos
      exact ⟨h, Or.inl ⟨rfl, h⟩⟩
  | k + 1, hk => by
    obtain ⟨hub, hcase⟩ := earliestMax_inv a p E h0 hs k (by omega)
    rw [hs k (by omega)]
    by_cases hgt : a (k + 1) > (p k).1
    · rw [if_pos hgt]
      have hpos : 0 < a (k + 1) := by
        rcases hcase with ⟨hp, _⟩ | ⟨i, _, hp, hpi, _⟩
        · rw [hp] at hgt; exact hgt
        · rw [hp] at hgt; exact lt_trans hpi hgt
      refine ⟨fun j hj => ?_, Or.inr ⟨k + 1, le_refl _, rfl, hpos,
        fun j hj => lt_of_le_of_lt (hub j (by omega)) hgt⟩⟩
      by_cases hj' : j = k + 1
      · subst hj'; exact le_refl _
      · exact le_of_lt (lt_of_le_of_lt (hub j (by omega)) hgt)
    · rw [if_neg hgt]
      have hle : a (k + 1) ≤ (p k).1 := not_lt.1 hgt
      refine ⟨fun j hj => ?_, ?_⟩
      · by_cases hj' : j = k + 1
        · subst hj'; exact hle
        · exact hub j (by omega)
      · rcases hcase with ⟨hp, hall⟩ | ⟨i, hi, hp, hpi, hfirst⟩
        · refine Or.inl ⟨hp, fun j hj => ?_⟩
          by_cases hj' : j = k + 1
          · subst hj'; rw [hp] at hle; exact hle
          · exact hall j (by omega)
        · exact Or.inr ⟨i, by omega, hp, hpi, hfirst⟩

theorem earliestMax_track (a : Nat → R) (p : Nat → R × Nat) (E : Nat)
    (h0 : p 0 = if a 0 > 0 then (a 0, 0) else (0, 0))
    (hs : ∀ k, k < E → p (k + 1) =
      if a (k + 1) > (p k).1 then (a (k + 1), k + 1) else p k)
    (k : Nat) (hk : k ≤ E) : EarliestMax a k (p k) := by
  obtain ⟨hub, hcase⟩ := earliestMax_inv a p E h0 hs k hk
  constructor
  · rintro ⟨j, hj, hpos⟩
    rcases hcase with ⟨_, hall⟩ | ⟨i, hi, hp, _, hfirst⟩
    · exact absurd hpos (not_lt.2 (hall j hj))
    · refine ⟨i, hi, hp, fun j hj => ?_, hfirst⟩
      have := hub j hj
      rw [hp] at this
      exact this
  · intro hall
    rcases hcase with ⟨hp, _⟩ | ⟨i, hi, _, hpi, _⟩
    · exact hp
    · exact absurd hpi (not_lt.2 (hall i hi))

end Extremes

section EpochTrace

variable {R : Type} [LinearOrderedField R]

/-- What the body of an epoch does to the trackers: each is compared with
the metric that the epoch has just computed and, when improved, replaced by
the metric and the index of the epoch. -/
theorem Trainer.epochBody_trackers (exp : R → R) (t s : Trainer R)
    (w w1 : World R) (h : Trainer.epochBody exp t w = .ok (s, w1)) :
    s.epochs = t.epochs ∧ s.initmodel = t.initmodel ∧
    s.mintrerr =
      (match s.trerr with
        | some v => if (v : WithTop R) < t.mintrerr.1 then
            ((v : WithTop R), t.epochs) else t.mintrerr
        | none => t.mintrerr) ∧
    s.minvaerr =
      (match s.vaerr with
        | some v => if (v : WithTop R) < t.minvaerr.1 then
            ((v : WithTop R), t.epochs) else t.minvaerr
        | none => t.minvaerr) ∧
    s.maxtracc =
      (match s.tracc with
        | some v => if v > t.maxtracc.1 then (v, t.epochs) else t.maxtracc
        | none => t.maxtracc) ∧
    s.maxvaacc =
      (match s.vaacc with
        | some v => if v > t.maxvaacc.1 then (v, t.epochs) else t.maxvaacc
        | none => t.maxvaacc) := by
  unfold Trainer.epochBody at h
  simp only [bind, Except.bind, pure, Except.pure] at h
  repeat' split at h
  all_goals cases h
  all_goals
    rename_i _ v1 htr _ v2 hva _ _
    obtain ⟨a1, a2, a3, a4, a5⟩ := Trainer.training_trackers exp _ v1 htr
    obtain ⟨c1, _⟩ := Trainer.training_counters exp _ v1 htr
    obtain ⟨b1, b2, b3, b4, b5, _, _⟩ :=
      Trainer.validation_trackers exp v1 v2 hva
    obtain ⟨d1, _⟩ := Trainer.validation_counters exp v1 v2 hva
    obtain ⟨u1, u2, u3, u4, u5, u6, u7, u8, u9⟩ :=
      Trainer.updateTrainingVariables_spec v2
    have e1 : v2.mintrerr = t.mintrerr := b1.trans a1
    have e2 : v2.minvaerr = t.minvaerr := b2.trans a2
    have e3 : v2.maxtracc = t.maxtracc := b3.trans a3
    have e4 : v2.maxvaacc = t.maxvaacc := b4.trans a4
    have e5 : v2.epochs = t.epochs := d1.trans c1
    refine ⟨(Trainer.updateTrainingVariables_counters v2).1.trans e5,
      u9.trans (b5.trans a5), ?_, ?_, ?_, ?_⟩
    · rw [u1, u5, e1, e5]
    · rw [u2, u6, e2, e5]
    · rw [u3, u7, e3, e5]
    · rw [u4, u8, e4, e5]

theorem Trainer.nextEpoch_trackers (t : Trainer R) :
    (Trainer.nextEpoch t).epochs = t.epochs + 1 ∧
      (Trainer.nextEpoch t).maxepochs = t.maxepochs ∧
      (Trainer.nextEpoch t).mintrerr = t.mintrerr ∧
      (Trainer.nextEpoch t).minvaerr = t.minvaerr ∧
      (Trainer.nextEpoch t).maxtracc = t.maxtracc ∧
      (Trainer.nextEpoch t).maxvaacc = t.maxvaacc ∧
      (Trainer.nextEpoch t).initmodel = t.initmodel := by
  obtain ⟨a1, a2⟩ := Trainer.checkStop_counters t
  obtain ⟨b1, b2, b3, b4, b5⟩ := Trainer.checkStop_trackers t
  unfold Trainer.nextEpoch
  exact ⟨by simp only [a1], a2, b1, b2, b3, b4, b5⟩

/-- The end of the body of epoch `k+1` is the body of an epoch run on what
the end of epoch `k` and `checkStop` left. -/
theorem Trainer.epochEnd_succ (exp : R → R) :
    ∀ (k : Nat) (t : Trainer R) (w : World R),
      Trainer.epochEnd exp (k + 1) t w =
        (Trainer.epochEnd exp k t w >>= fun r =>
          Trainer.epochBody exp (Trainer.nextEpoch r.1) r.2)
  | 0, t, w => rfl
  | k + 1, t, w => by
    rw [Trainer.epochEnd]
    conv_rhs => rw [Trainer.epochEnd]
    cases hb : Trainer.epochBody exp t w with
    | error e => rfl
    | ok r =>
      simp only [bind, Except.bind]
      exact Trainer.epochEnd_succ exp k _ _

/-- The ends of the epoch bodies before a completed one are completed. -/
theorem Trainer.epochEnd_prefix (exp : R → R) (t : Trainer R) (w : World R) :
    ∀ (E : Nat) (r : Trainer R × World R),
      Trainer.epochEnd exp E t w = .ok r →
      ∀ k, k ≤ E → ∃ rk, Trainer.epochEnd exp k t w = .ok rk
  | 0, r, h, k, hk => by
    have : k = 0 := by omega
    subst this; exact ⟨r, h⟩
  | E + 1, r, h, k, hk => by
    by_cases hk' : k = E + 1
    · subst hk'; exact ⟨r, h⟩
    · rw [Trainer.epochEnd_succ] at h
      cases hE : Trainer.epochEnd exp E t w with
      | error e => rw [hE] at h; cases h
      | ok rE =>
        exact Trainer.epochEnd_prefix exp t w E rE hE k (by omega)

/-- A run of the loop of `start` that returns has either found its
condition false at once, or has run the bodies of the epochs `e, ..., e+E`
and returns the trainer that the last body left, up to the bookkeeping of
`checkStop` and the epoch counter. -/
theorem Trainer.startLoop_trace (exp : R → R) :
    ∀ (fuel : Nat) (t : Trainer R) (w : World R) (ran : List Nat) (r : Run R),
      Trainer.startLoop exp fuel t w ran = .ok (some r) →
      (¬ (t.epochs < t.maxepochs ∨ t.maxepochs = 0) ∧ r = ⟨t, w, ran⟩) ∨
      ∃ E sE wE, Trainer.epochEnd exp E t w = .ok (sE, wE) ∧
        r.ran = ran ++ (List.range (E + 1)).map (fun k => t.epochs + k) ∧
        r.world = wE ∧
        r.trainer.mintrerr = sE.mintrerr ∧ r.trainer.minvaerr = sE.minvaerr ∧
        r.trainer.maxtracc = sE.maxtracc ∧ r.trainer.maxvaacc = sE.maxvaacc ∧
        r.trainer.initmodel = sE.initmodel
  | 0, _, _, _, _, h => by
    unfold Trainer.startLoop at h
    cases h
  | fuel + 1, t, w, ran, r, h => by
    unfold Trainer.startLoop at h
    split at h
    · right
      cases hb : Trainer.epochBody exp t w with
      | error e => rw [hb] at h; cases h
      | ok p =>
        obtain ⟨t1, w1⟩ := p
        rw [hb] at h
        simp only [bind, Except.bind] at h
        obtain ⟨c1, c2, c3, c4, c5⟩ := Trainer.checkStop_trackers t1
        split at h
        · cases h
          exact ⟨0, t1, w1, hb, rfl, rfl, c1, c2, c3, c4, c5⟩
        · have hne := Trainer.nextEpoch_trackers t1
          obtain ⟨hep, _⟩ := Trainer.epochBody_counters exp t t1 w w1 hb
          rcases Trainer.startLoop_trace exp fuel (Trainer.nextEpoch t1) w1
              (ran ++ [t.epochs]) r h with ⟨_, rfl⟩ | ⟨E, sE, wE, hE, hran, hw,
                m1, m2, m3, m4, m5⟩
          · exact ⟨0, t1, w1, hb, rfl, rfl, hne.2.2.1, hne.2.2.2.1,
              hne.2.2.2.2.1, hne.2.2.2.2.2.1, hne.2.2.2.2.2.2⟩
          · refine ⟨E + 1, sE, wE, ?_, ?_, hw, m1, m2, m3, m4, m5⟩
            · rw [Trainer.epochEnd, hb]
              exact hE
            · rw [hran, hne.1, hep, List.range_succ_eq_map (E + 1),
                List.map_cons, List.map_map, List.append_assoc]
              simp only [List.singleton_append, Nat.add_zero, List.cons.injEq,
                true_and, List.append_cancel_left_eq]
              apply List.map_congr_left
              intro k _
              simp only [Function.comp, Nat.succ_eq_add_one]
              omega
    · cases h
      left
      exact ⟨‹_›, rfl⟩

end EpochTrace

section RunTrackers

variable {R : Type} [LinearOrderedField R]

/-- The trainers at the end of the epoch bodies of a run entered with `t0`:
the epoch counters and the trackers along the run. -/
theorem Trainer.epochEnd_chain (exp : R → R) (t0 : Trainer R) (w : World R)
    (E : Nat) (rE : Trainer R × World R)
    (hE : Trainer.epochEnd exp E t0 w = .ok rE) :
    ∃ s : Nat → Trainer R,
      (∀ k, k ≤ E → ∃ wk, Trainer.epochEnd exp k t0 w = .ok (s k, wk)) ∧
      s E = rE.1 ∧
      (∀ k, k ≤ E → (s k).epochs = t0.epochs + k ∧
        (s k).initmodel = t0.initmodel) ∧
      (∀ k, k ≤ E → ∀ q : Trainer R, (k = 0 → q = t0) →
        (∀ j, k = j + 1 → q = s j) →
        (s k).mintrerr =
          (match (s k).trerr with
            | some v => if (v : WithTop R) < q.mintrerr.1 then
                ((v : WithTop R), t0.epochs + k) else q.mintrerr
            | none => q.mintrerr) ∧
        (s k).minvaerr =
          (match (s k).vaerr with
            | some v => if (v : WithTop R) < q.minvaerr.1 then
                ((v : WithTop R), t0.epochs + k) else q.minvaerr
            | none => q.minvaerr) ∧
        (s k).maxtracc =
          (match (s k).tracc with
            | some v => if v > q.maxtracc.1 then (v, t0.epochs + k)
                else q.maxtracc
            | none => q.maxtracc) ∧
        (s k).maxvaacc =
          (match (s k).vaacc with
            | some v => if v > q.maxvaacc.1 then (v, t0.epochs + k)
                else q.maxvaacc
            | none => q.maxvaacc)) := by
  have hpre := Trainer.epochEnd_prefix exp t0 w E rE hE
  have hfacts : ∀ k, k ≤ E → ∀ rk, Trainer.epochEnd exp k t0 w = .ok rk →
      rk.1.epochs = t0.epochs + k ∧ rk.1.initmodel = t0.initmodel := by
    intro k
    induction k with
    | zero =>
      intro _ r0 hr0
      obtain ⟨a, b, _⟩ := Trainer.epochBody_trackers exp t0 r0.1 w r0.2 hr0
      exact ⟨a, b⟩
    | succ k ih =>
      intro hk rk1 hrk1
      obtain ⟨rk, hrk⟩ := hpre k (by omega)
      have ihk := ih (by omega) rk hrk
      rw [Trainer.epochEnd_succ, hrk] at hrk1
      obtain ⟨a, b, _⟩ := Trainer.epochBody_trackers exp _ rk1.1 rk.2 rk1.2 hrk1
      obtain ⟨n1, _, _, _, _, _, n7⟩ := Trainer.nextEpoch_trackers rk.1
      exact ⟨by rw [a, n1, ihk.1]; omega, by rw [b, n7, ihk.2]⟩
  refine ⟨fun k => match Trainer.epochEnd exp k t0 w with
    | .ok p => p.1
    | .error _ => t0, ?_, ?_, ?_, ?_⟩
  · intro k hk
    obtain ⟨rk, hrk⟩ := hpre k hk
    exact ⟨rk.2, by simp only [hrk]⟩
  · simp only [hE]
  · intro k hk
    obtain ⟨rk, hrk⟩ := hpre k hk
    simp only [hrk]
    exact hfacts k hk rk hrk
  · intro k hk q hq0 hqs
    cases k with
    | zero =>
      obtain ⟨r0, hr0⟩ := hpre 0 (Nat.zero_le _)
      simp only [hr0]
      obtain ⟨_, _, c1, c2, c3, c4⟩ :=
        Trainer.epochBody_trackers exp t0 r0.1 w r0.2 hr0
      rw [hq0 rfl]
      exact ⟨c1, c2, c3, c4⟩
    | succ k =>
      obtain ⟨rk, hrk⟩ := hpre k (by omega)
      obtain ⟨rk1, hrk1⟩ := hpre (k + 1) hk
      have hq := hqs k rfl
      simp only [hrk] at hq
      simp only [hrk1]
      have hepk : rk.1.epochs = t0.epochs + k := (hfacts k (by omega) rk hrk).1
      rw [Trainer.epochEnd_succ, hrk] at hrk1
      obtain ⟨_, _, c1, c2, c3, c4⟩ :=
        Trainer.epochBody_trackers exp _ rk1.1 rk.2 rk1.2 hrk1
      obtain ⟨n1, _, n3, n4, n5, n6, _⟩ := Trainer.nextEpoch_trackers rk.1
      rw [n1, n3, hepk] at c1
      rw [n1, n4, hepk] at c2
      rw [n1, n5, hepk] at c3
      rw [n1, n6, hepk] at c4
      rw [hq]
      exact ⟨c1, c2, c3, c4⟩

end RunTrackers

/-- C13: when `start()` returns, it has executed the epochs `0..E` for some
`E`; the loop was entered with the four trackers reset (whatever they held
before the call) and `s k` is the trainer at the end of the body of epoch
`k`. If the metrics of all these epochs are finite, `trerr`, `vaerr`,
`tracc`, `vaacc` of epoch `k` being `a k`, `b k`, `c k`, `d k`, then after
the call `mintrerr` is the minimum of `a 0..a E` with the earliest epoch
attaining it, likewise `minvaerr` for `b`; `maxtracc` is the maximum of
`c 0..c E` with the earliest epoch attaining it when that maximum is positive
and `(0, 0)` otherwise, likewise `maxvaacc` for `d`. -/
theorem C13_trackers {R : Type} [LinearOrderedField R] (exp : R → R)
    (fuel : Nat) (t : Trainer R) (w : World R) (r : Trainer.Run R)
    (hrun : Trainer.start exp fuel t w = .ok (some r)) :
    ∃ alg alg' t0 E, ∃ s : Nat → Trainer R,
      t.algorithm = some alg ∧ alg.setModel (some t.model) = .ok alg' ∧
      t0 = { Trainer.resetTrainingVariables
              { t with algorithm := some alg' } with epochs := 0 } ∧
      (t0.mintrerr = (⊤, 0) ∧ t0.minvaerr = (⊤, 0) ∧
        t0.maxtracc = (0, 0) ∧ t0.maxvaacc = (0, 0)) ∧
      r.ran = List.range (E + 1) ∧
      (∀ k, k ≤ E → ∃ wk, Trainer.epochEnd exp k t0 w = .ok (s k, wk)) ∧
      ∀ a b c d : Nat → R,
        (∀ k, k ≤ E → (s k).trerr = some (a k) ∧ (s k).vaerr = some (b k) ∧
          (s k).tracc = some (c k) ∧ (s k).vaacc = some (d k)) →
        EarliestMin a E r.trainer.mintrerr ∧
        EarliestMin b E r.trainer.minvaerr ∧
        EarliestMax c E r.trainer.maxtracc ∧
        EarliestMax d E r.trainer.maxvaacc := by
  unfold Trainer.start at hrun
  cases halg : t.algorithm with
  | none =>
    rw [halg] at hrun
    cases hrun
  | some alg =>
    rw [halg] at hrun
    simp only [bind, Except.bind, pure, Except.pure] at hrun
    cases hset : alg.setModel (some t.model) with
    | error e => rw [hset] at hrun; cases hrun
    | ok alg' =>
      rw [hset] at hrun
      simp only [] at hrun
      obtain ⟨t0, ht0⟩ : ∃ t0 : Trainer R, t0 =
          { Trainer.resetTrainingVariables
              { t with algorithm := some alg' } with epochs := 0 } := ⟨_, rfl⟩
      rw [← ht0] at hrun
      have he0 : t0.epochs = 0 := by rw [ht0]
      have hm1 : t0.mintrerr = (⊤, 0) := by rw [ht0]; rfl
      have hm2 : t0.minvaerr = (⊤, 0) := by rw [ht0]; rfl
      have hm3 : t0.maxtracc = (0, 0) := by rw [ht0]; rfl
      have hm4 : t0.maxvaacc = (0, 0) := by rw [ht0]; rfl
      rcases Trainer.startLoop_trace exp fuel t0 w [] r hrun with
        ⟨hno, _⟩ | ⟨E, sE, wE, hE, hran, _, m1, m2, m3, m4, _⟩
      · exfalso
        apply hno
        rw [he0]
        omega
      · obtain ⟨s, hs, hsE, _, hupd⟩ :=
          Trainer.epochEnd_chain exp t0 w E (sE, wE) hE
        refine ⟨alg, alg', t0, E, s, rfl, hset, ht0, ⟨hm1, hm2, hm3, hm4⟩, ?_,
          hs, ?_⟩
        · rw [hran, he0]
          simp
        · intro a b c d hfin
          rw [m1, m2, m3, m4]
          have hsE' : sE = s E := hsE.symm
          rw [hsE']
          refine ⟨?_, ?_, ?_, ?_⟩
          · refine earliestMin_track a (fun k => (s k).mintrerr) E ?_ ?_ E
              (le_refl _)
            · have := (hupd 0 (Nat.zero_le _) t0 (fun _ => rfl)
                (fun j hj => by omega)).1
              rw [(hfin 0 (Nat.zero_le _)).1, hm1, he0] at this
              simpa using this
            · intro k hk
              have := (hupd (k + 1) (by omega) (s k) (fun h => by omega)
                (fun j hj => by
                  have : j = k := by omega
                  rw [this])).1
              rw [(hfin (k + 1) (by omega)).1, he0] at this
              simpa using this
          · refine earliestMin_track b (fun k => (s k).minvaerr) E ?_ ?_ E
              (le_refl _)
            · have := (hupd 0 (Nat.zero_le _) t0 (fun _ => rfl)
                (fun j hj => by omega)).2.1
              rw [(hfin 0 (Nat.zero_le _)).2.1, hm2, he0] at this
              simpa using this
            · intro k hk
              have := (hupd (k + 1) (by omega) (s k) (fun h => by omega)
                (fun j hj => by
                  have : j = k := by omega
                  rw [this])).2.1
              rw [(hfin (k + 1) (by omega)).2.1, he0] at this
              simpa using this
          · refine earliestMax_track c (fun k => (s k).maxtracc) E ?_ ?_ E
              (le_refl _)
            · have := (hupd 0 (Nat.zero_le _) t0 (fun _ => rfl)
                (fun j hj => by omega)).2.2.1
              rw [(hfin 0 (Nat.zero_le _)).2.2.1, hm3, he0] at this
              simpa using this
            · intro k hk
              have := (hupd (k + 1) (by omega) (s k) (fun h => by omega)
                (fun j hj => by
                  have : j = k := by omega
                  rw [this])).2.2.1
              rw [(hfin (k + 1) (by omega)).2.2.1, he0] at this
              simpa using this
          · refine earliestMax_track d (fun k => (s k).maxvaacc) E ?_ ?_ E
              (le_refl _)
            · have := (hupd 0 (Nat.zero_le _) t0 (fun _ => rfl)
                (fun j hj => by omega)).2.2.2
              rw [(hfin 0 (Nat.zero_le _)).2.2.2, hm4, he0] at this
              simpa using this
            · intro k hk
              have := (hupd (k + 1) (by omega) (s k) (fun h => by omega)
                (fun j hj => by
                  have : j = k := by omega
                  rw [this])).2.2.2
              rw [(hfin (k + 1) (by omega)).2.2.2, he0] at this
              simpa using this

set_option maxRecDepth 100000 in
/-- Witness of C13: a run of two epochs of the sample trainer. -/
theorem C13_trackers_witness :
    ∃ r, Trainer.start sampleExp 3 (sampleTrainer (1 / 10) 2 2) sampleWorld =
        .ok (some r) ∧
      ∃ alg alg' t0 E, ∃ s : Nat → Trainer ℚ,
        (sampleTrainer (1 / 10) 2 2).algorithm = some alg ∧
        alg.setModel (some (sampleTrainer (1 / 10) 2 2).model) = .ok alg' ∧
        t0 = { Trainer.resetTrainingVariables
                { sampleTrainer (1 / 10) 2 2 with algorithm := some alg' }
               with epochs := 0 } ∧
        (t0.mintrerr = (⊤, 0) ∧ t0.minvaerr = (⊤, 0) ∧
          t0.maxtracc = (0, 0) ∧ t0.maxvaacc = (0, 0)) ∧
        r.ran = List.range (E + 1) ∧
        (∀ k, k ≤ E →
          ∃ wk, Trainer.epochEnd sampleExp k t0 sampleWorld = .ok (s k, wk)) ∧
        ∀ a b c d : Nat → ℚ,
          (∀ k, k ≤ E → (s k).trerr = some (a k) ∧ (s k).vaerr = some (b k) ∧
            (s k).tracc = some (c k) ∧ (s k).vaacc = some (d k)) →
          EarliestMin a E r.trainer.mintrerr ∧
          EarliestMin b E r.trainer.minvaerr ∧
          EarliestMax c E r.trainer.maxtracc ∧
          EarliestMax d E r.trainer.maxvaacc := by
  obtain ⟨r, hr⟩ : ∃ r, Trainer.start sampleExp 3 (sampleTrainer (1 / 10) 2 2)
      sampleWorld = .ok (some r) := ⟨_, by with_unfolding_all rfl⟩
  exact ⟨r, hr, C13_trackers sampleExp 3 (sampleTrainer (1 / 10) 2 2)
    sampleWorld r hr⟩

section CopyFacts

variable {R : Type} [LinearOrderedField R]

/-- A property indexed by the round that every successful round carries on
holds after a successful loop. -/
theorem foldlM_range_post {σ : Type} (f : σ → Nat → Except Error σ)
    (P : Nat → σ → Prop) :
    ∀ (n : Nat) (s0 s' : σ),
      (∀ i s s', i < n → f s i = .ok s' → P i s → P (i + 1) s') →
      (List.range n).foldlM f s0 = .ok s' → P 0 s0 → P n s'
  | 0, s0, s', _, hf, h0 => by
    cases hf
    exact h0
  | n + 1, s0, s', hstep, hf, h0 => by
    rw [List.range_succ, List.foldlM_append] at hf
    cases h1 : (List.range n).foldlM f s0 with
    | error e => rw [h1] at hf; cases hf
    | ok s1 =>
      rw [h1] at hf
      have hP := foldlM_range_post f P n s0 s1
        (fun i s s' hi => hstep i s s' (by omega)) h1 h0
      simp only [bind, Except.bind, List.foldlM_cons, List.foldlM_nil] at hf
      cases h2 : f s1 n with
      | error e => rw [h2] at hf; cases hf
      | ok s2 =>
        rw [h2] at hf
        injection hf with hf
        subst hf
        exact hstep n s1 _ (by omega) h2 hP

omit [LinearOrderedField R] in
theorem Unit.assign_eq (dst src : Unit R) : Unit.assign dst src = src := rfl

omit [LinearOrderedField R] in
/-- The inner loop of the copy constructor turns a vector of as many units
as the source layer has into the source layer. -/
theorem NeuralNetwork.copyLayer_ok (src : NeuralNetwork R) (i : Nat)
    (srcLayer layer : List (Unit R)) (hsrc : src.network[i]? = some srcLayer)
    (hlen : layer.length = srcLayer.length) :
    NeuralNetwork.copyLayer src i layer = .ok srcLayer := by
  unfold NeuralNetwork.copyLayer
  obtain ⟨l, hl, hlen', hval⟩ := foldlM_range_inv
    (fun (l : List (Unit R)) j => do
      let srcLayer ← atGet src.network i
      let u ← atGet srcLayer j
      let dst ← atGet l j
      pure (l.set j (Unit.assign dst u)))
    (fun j l => l.length = srcLayer.length ∧
      ∀ k, k < j → l[k]? = srcLayer[k]?)
    layer.length layer ⟨hlen, fun k hk => by omega⟩
    (by
      rintro j l hj ⟨hll, hval⟩
      have hjs : j < srcLayer.length := by omega
      have hjl : j < l.length := by omega
      refine ⟨l.set j (srcLayer[j]), ?_, by simp [hll], ?_⟩
      · simp only [atGet_of_get? _ _ _ hsrc,
          atGet_of_get? _ _ _ (List.getElem?_eq_getElem hjs),
          atGet_of_get? _ _ _ (List.getElem?_eq_getElem hjl), bind,
          Except.bind, pure, Except.pure, Unit.assign_eq]
      · intro k hk
        by_cases hkj : j = k
        · subst hkj
          simp [List.getElem?_set, hjl, List.getElem?_eq_getElem hjs]
        · rw [List.getElem?_set_ne hkj]
          exact hval k (by omega))
  rw [hl]
  congr 1
  apply List.ext_getElem?
  intro k
  by_cases hk : k < layer.length
  · exact hval k hk
  · rw [List.getElem?_eq_none (by omega), List.getElem?_eq_none (by omega)]

theorem NeuralNetwork.placeholders_length (fuel : Nat) :
    ∀ (n : Nat) (g g' : Rng) (us : List (Unit R)),
      NeuralNetwork.placeholders fuel n g = .ok (some (us, g')) →
      us.length = n
  | 0, g, g', us, h => by
    unfold NeuralNetwork.placeholders at h
    cases h
    rfl
  | n + 1, g, g', us, h => by
    unfold NeuralNetwork.placeholders at h
    cases h1 : (Unit.init fuel 0 g : Except Error (Option (Unit R × Rng))) with
    | error e => simp [h1, bind, Except.bind] at h
    | ok o1 =>
      cases o1 with
      | none => simp [h1, bind, Except.bind, pure, Except.pure] at h
      | some p =>
        obtain ⟨u, g1⟩ := p
        cases h2 : (NeuralNetwork.placeholders fuel n g1 :
            Except Error (Option (List (Unit R) × Rng))) with
        | error e => simp [h1, h2, bind, Except.bind] at h
        | ok o2 =>
          cases o2 with
          | none => simp [h1, h2, bind, Except.bind, pure, Except.pure] at h
          | some q =>
            obtain ⟨us1, g2⟩ := q
            simp only [h1, h2, bind, Except.bind, pure, Except.pure,
              Except.ok.injEq, Option.some.injEq, Prod.mk.injEq] at h
            rw [← h.1]
            simp only [List.length_cons, Nat.add_left_inj]
            exact NeuralNetwork.placeholders_length fuel n g1 g2 us1 h2

end CopyFacts

section CopyResult

variable {R : Type} [LinearOrderedField R]

/-- Whenever the copy constructor returns, the network it has built is the
argument: the units drawn at random have all been assigned over. -/
theorem NeuralNetwork.copy_eq (fuel : Nat) (src n' : NeuralNetwork R)
    (g g' : Rng) (hlen : src.network.length = src.nlayers)
    (h : NeuralNetwork.copy fuel src g = .ok (some (n', g'))) : n' = src := by
  unfold NeuralNetwork.copy at h
  cases hf : (List.range src.nlayers).foldlM (NeuralNetwork.copyStep fuel src)
      (some (List.replicate src.nlayers [], g)) with
  | error e => simp [hf, bind, Except.bind] at h
  | ok st =>
    have hP := foldlM_range_post (NeuralNetwork.copyStep fuel src)
      (fun i st => match st with
        | none => True
        | some (network, _) => network.length = src.nlayers ∧
            ∀ k, k < i → network[k]? = src.network[k]?)
      src.nlayers _ st
      (by
        intro i s s' hi hs hP
        cases s with
        | none =>
          unfold NeuralNetwork.copyStep at hs
          cases hs
          trivial
        | some p =>
          obtain ⟨network, g0⟩ := p
          obtain ⟨hnl, hval⟩ := hP
          have hi' : i < src.network.length := by omega
          have hsrc : src.network[i]? = some (src.network[i]) :=
            List.getElem?_eq_getElem hi'
          have hin : i < network.length := by omega
          unfold NeuralNetwork.copyStep at hs
          simp only [atGet_of_get? _ _ _ hsrc, bind, Except.bind] at hs
          cases hp : (NeuralNetwork.placeholders fuel (src.network[i]).length g0 :
              Except Error (Option (List (Unit R) × Rng))) with
          | error e => simp [hp] at hs
          | ok o =>
            cases o with
            | none =>
              simp only [hp, pure, Except.pure] at hs
              cases hs
              trivial
            | some q =>
              obtain ⟨layer, g1⟩ := q
              have hll := NeuralNetwork.placeholders_length fuel _ g0 g1 layer hp
              simp only [hp, atGet_of_get? _ _ _ (List.getElem?_eq_getElem hin),
                NeuralNetwork.copyLayer_ok src i _ layer hsrc hll, pure,
                Except.pure] at hs
              cases hs
              refine ⟨by simp [hnl], fun k hk => ?_⟩
              by_cases hki : i = k
              · subst hki
                simp [List.getElem?_set, hin, hsrc]
              · rw [List.getElem?_set_ne hki]
                exact hval k (by omega))
      hf ⟨by simp, fun k hk => by omega⟩
    cases st with
    | none => simp [hf, bind, Except.bind, pure, Except.pure] at h
    | some p =>
      obtain ⟨network, g1⟩ := p
      obtain ⟨hnl, hval⟩ := hP
      simp only [hf, bind, Except.bind, pure, Except.pure, Except.ok.injEq,
        Option.some.injEq, Prod.mk.injEq] at h
      rw [← h.1]
      have : network = src.network := by
        apply List.ext_getElem?
        intro k
        by_cases hk : k < src.nlayers
        · exact hval k hk
        · rw [List.getElem?_eq_none (by omega),
            List.getElem?_eq_none (by omega)]
      rw [this]

/-- A call `getRand(0, i)` whose range `i + 1` fits an `unsigned int`
returns `rand() % (i + 1)`, a value of `[0, i]`. -/
theorem getRand_ok (g : Rng) (i : Nat) (hi : i + 1 < 2 ^ 32) :
    getRand g 0 i = .ok (g.stream 0 % (i + 1), g.rand.2) ∧
      g.stream 0 % (i + 1) ≤ i := by
  constructor
  · unfold getRand
    have hm : (i - 0 + 1) % 2 ^ 32 = i + 1 := by
      rw [Nat.sub_zero]
      exact Nat.mod_eq_of_lt hi
    rw [hm, if_neg (Nat.succ_ne_zero i)]
    simp [cassert, bind, Except.bind, pure, Except.pure, Rng.rand]
  · exact Nat.lt_succ_iff.1 (Nat.mod_lt _ (Nat.succ_pos i))

/-- A call `getRand(0, 2^32 - 1)` divides by the wrapped range `0`. -/
theorem getRand_wrap (g : Rng) :
    getRand g 0 (2 ^ 32 - 1) = .error .undefined := by
  unfold getRand
  have hm : (2 ^ 32 - 1 - 0 + 1) % 2 ^ 32 = 0 := by norm_num
  rw [if_pos hm]
  simp [cassert, bind, Except.bind]

theorem Rng.noReject_rand (g : Rng) (h : g.NoReject) : g.rand.2.NoReject :=
  fun k => h (k + 1)

theorem Unit.setRandomValue_ok (fuel : Nat) (g : Rng) (h : g.NoReject) :
    (Unit.setRandomValue (fuel + 1) g : Except Error (Option (R × Rng))) =
      .ok (some ((((g.stream 0 % 1401 : Nat) : R) - 700) / 1000, g.rand.2)) := by
  rw [Unit.setRandomValue, (getRand_ok g 1400 (by norm_num)).1]
  simp only [bind, Except.bind, pure, Except.pure]
  have hne : ((((g.stream 0 % 1401 : Nat) : R) - 700) / 1000) ≠ 0 := by
    intro h0
    have h1 : ((g.stream 0 % 1401 : Nat) : R) = ((700 : Nat) : R) := by
      have := div_eq_zero_iff.1 h0
      rcases this with h2 | h2
      · push_cast
        linarith
      · norm_num at h2
    exact h 0 (Nat.cast_injective h1)
  rw [if_neg hne]

theorem Unit.initWeightsRandom_ok (fuel : Nat) :
    ∀ (ws : List R) (g : Rng), g.NoReject →
      ∃ vs g', (Unit.initWeightsRandom (fuel + 1) ws g :
          Except Error (Option (List R × Rng))) = .ok (some (vs, g')) ∧
        g'.NoReject
  | [], g, h => ⟨[], g, rfl, h⟩
  | _ :: ws, g, h => by
    obtain ⟨vs, g', hrec, hg'⟩ :=
      Unit.initWeightsRandom_ok fuel ws g.rand.2 (Rng.noReject_rand g h)
    refine ⟨((((g.stream 0 % 1401 : Nat) : R) - 700) / 1000) :: vs, g', ?_, hg'⟩
    rw [Unit.initWeightsRandom]
    simp only [Unit.setRandomValue_ok fuel g h, bind, Except.bind, hrec, pure,
      Except.pure]

theorem Unit.init_ok (fuel k : Nat) (g : Rng) (h : g.NoReject) :
    ∃ u g', (Unit.init (fuel + 1) k g : Except Error (Option (Unit R × Rng))) =
      .ok (some (u, g')) ∧ g'.NoReject := by
  obtain ⟨vs, g', hw, hg'⟩ := Unit.initWeightsRandom_ok fuel
    (List.replicate (k + 1) (0 : R)) g h
  refine ⟨⟨k, k + 1, (List.replicate (k + 1) (0 : R)).set 0 1, vs, 0⟩, g', ?_,
    hg'⟩
  unfold Unit.init
  rw [rawSet_ok _ _ _ (by simp)]
  simp only [bind, Except.bind, hw, pure, Except.pure]

theorem NeuralNetwork.placeholders_ok (fuel : Nat) :
    ∀ (n : Nat) (g : Rng), g.NoReject →
      ∃ us g', (NeuralNetwork.placeholders (fuel + 1) n g :
          Except Error (Option (List (Unit R) × Rng))) = .ok (some (us, g')) ∧
        g'.NoReject
  | 0, g, h => ⟨[], g, rfl, h⟩
  | n + 1, g, h => by
    obtain ⟨u, g1, hu, hg1⟩ := Unit.init_ok (R := R) fuel 0 g h
    obtain ⟨us, g2, hus, hg2⟩ := NeuralNetwork.placeholders_ok fuel n g1 hg1
    refine ⟨u :: us, g2, ?_, hg2⟩
    rw [NeuralNetwork.placeholders]
    simp only [hu, hus, bind, Except.bind, pure, Except.pure]

/-- With a random source that never draws a rejected value the copy
constructor returns, with one draw per weight. -/
theorem NeuralNetwork.copy_ok (fuel : Nat) (src : NeuralNetwork R) (g : Rng)
    (hlen : src.network.length = src.nlayers) (h : g.NoReject) :
    ∃ g', NeuralNetwork.copy (fuel + 1) src g = .ok (some (src, g')) ∧
      g'.NoReject := by
  obtain ⟨st, hst, network, g1, rfl, hg1, _, _⟩ := foldlM_range_inv
    (NeuralNetwork.copyStep (fuel + 1) src)
    (fun _ st => ∃ network g1, st = some (network, g1) ∧ g1.NoReject ∧
      network.length = src.nlayers ∧ True)
    src.nlayers (some (List.replicate src.nlayers [], g))
    ⟨_, _, rfl, h, by simp, trivial⟩
    (by
      rintro i st hi ⟨network, g0, rfl, hg0, hnl, _⟩
      have hi' : i < src.network.length := by omega
      have hsrc : src.network[i]? = some (src.network[i]) :=
        List.getElem?_eq_getElem hi'
      have hin : i < network.length := by omega
      obtain ⟨layer, g1, hp, hg1⟩ :=
        NeuralNetwork.placeholders_ok (R := R) fuel (src.network[i]).length g0 hg0
      have hll := NeuralNetwork.placeholders_length _ _ g0 g1 layer hp
      refine ⟨some (network.set i (src.network[i]), g1), ?_,
        _, _, rfl, hg1, by simp [hnl], trivial⟩
      unfold NeuralNetwork.copyStep
      simp only [atGet_of_get? _ _ _ hsrc, bind, Except.bind, hp,
        atGet_of_get? _ _ _ (List.getElem?_eq_getElem hin),
        NeuralNetwork.copyLayer_ok src i _ layer hsrc hll, pure, Except.pure])
  have hc : NeuralNetwork.copy (fuel + 1) src g =
      .ok (some (⟨src.ninputs, src.nlayers, src.inputs, network,
        src.lastOutput⟩, g1)) := by
    unfold NeuralNetwork.copy
    simp only [hst, bind, Except.bind, pure, Except.pure]
  have := NeuralNetwork.copy_eq (fuel + 1) src _ g g1 hlen hc
  rw [this] at hc
  exact ⟨g1, hc, hg1⟩

end CopyResult

section ResetFacts

variable {R : Type} [LinearOrderedField R]

/-- A training run leaves the saved initial model as it was. -/
theorem Trainer.start_initmodel (exp : R → R) (fuel : Nat) (t : Trainer R)
    (w : World R) (r : Trainer.Run R)
    (hrun : Trainer.start exp fuel t w = .ok (some r)) :
    r.trainer.initmodel = t.initmodel := by
  unfold Trainer.start at hrun
  cases halg : t.algorithm with
  | none =>
    rw [halg] at hrun
    cases hrun
  | some alg =>
    rw [halg] at hrun
    simp only [bind, Except.bind, pure, Except.pure] at hrun
    cases hset : alg.setModel (some t.model) with
    | error e => rw [hset] at hrun; cases hrun
    | ok alg' =>
      rw [hset] at hrun
      simp only [] at hrun
      rcases Trainer.startLoop_trace exp fuel _ w [] r hrun with
        ⟨_, rfl⟩ | ⟨E, sE, wE, hE, _, _, _, _, _, _, m5⟩
      · rfl
      · obtain ⟨s, _, hsE, hfacts, _⟩ :=
          Trainer.epochEnd_chain exp _ w E (sE, wE) hE
        have hsE' : s E = sE := hsE
        rw [m5, ← hsE', (hfacts E (le_refl _)).2]
        rfl

/-- What `resetModel` returns, when the copy returns: the trainer with the
saved initial model as its model. -/
theorem Trainer.resetModel_eq (fuel : Nat) (t t' : Trainer R) (g g' : Rng)
    (hlen : t.initmodel.network.length = t.initmodel.nlayers)
    (h : Trainer.resetModel fuel t g = .ok (some (t', g'))) :
    t' = { t with model := t.initmodel } := by
  unfold Trainer.resetModel at h
  cases hc : t.initmodel.copy fuel g with
  | error e => simp [hc, bind, Except.bind] at h
  | ok o =>
    cases o with
    | none => simp [hc, bind, Except.bind, pure, Except.pure] at h
    | some p =>
      obtain ⟨m, g1⟩ := p
      have hm := NeuralNetwork.copy_eq fuel t.initmodel m g g1 hlen hc
      simp only [hc, bind, Except.bind, pure, Except.pure, Except.ok.injEq,
        Option.some.injEq, Prod.mk.injEq] at h
      rw [← h.1, hm]

/-- What the constructor of `Trainer` returns, when the copy returns. -/
theorem Trainer.init_eq (fuel : Nat) (M : NeuralNetwork R)
    (alg : Option (BackPropagation R)) (g g' : Rng) (t : Trainer R)
    (hlen : M.network.length = M.nlayers)
    (h : Trainer.init fuel M alg g = .ok (some (t, g'))) :
    t.model = M ∧ t.initmodel = M ∧ t.algorithm = alg := by
  unfold Trainer.init at h
  cases hc : M.copy fuel g with
  | error e => simp [hc, bind, Except.bind] at h
  | ok o =>
    cases o with
    | none => simp [hc, bind, Except.bind, pure, Except.pure] at h
    | some p =>
      obtain ⟨m, g1⟩ := p
      have hm := NeuralNetwork.copy_eq fuel M m g g1 hlen hc
      simp only [hc, bind, Except.bind, pure, Except.pure, Except.ok.injEq,
        Option.some.injEq, Prod.mk.injEq] at h
      rw [← h.1, hm]
      exact ⟨rfl, rfl, rfl⟩

end ResetFacts

/-- C14, as amended: `resetModel()` replaces the current model with the copy
that the copy constructor makes of the network saved when the trainer was
built (`initmodel`, a network of as many layers as it declares): whenever it
returns, the new model is that saved network, with its topology and, for
every (layer, unit, index), its weight, and nothing else of the trainer has
changed; the units that the copy draws from the random source are all
assigned over. With a random source that draws no rejected value it does
return. -/
theorem C14_resetModel_restores {R : Type} [LinearOrderedField R]
    (fuel : Nat) (t t' : Trainer R) (g g' : Rng)
    (hlen : t.initmodel.network.length = t.initmodel.nlayers)
    (h : Trainer.resetModel fuel t g = .ok (some (t', g'))) :
    t' = { t with model := t.initmodel } ∧
    t'.model.getNumberOfInputs = t.initmodel.getNumberOfInputs ∧
    t'.model.getNumberOfLayers = t.initmodel.getNumberOfLayers ∧
    (∀ l, t'.model.getLayerDimension l = t.initmodel.getLayerDimension l) ∧
    (∀ l u i, t'.model.getWeight l u i = t.initmodel.getWeight l u i) ∧
    (∀ (f : Nat) (a : Rng), a.NoReject →
      ∃ b, Trainer.resetModel (f + 1) t a =
        .ok (some ({ t with model := t.initmodel }, b))) := by
  have ht := Trainer.resetModel_eq fuel t t' g g' hlen h
  have hm : t'.model = t.initmodel := by rw [ht]
  refine ⟨ht, by rw [hm], by rw [hm], fun l => by rw [hm],
    fun l u i => by rw [hm], fun f a ha => ?_⟩
  obtain ⟨b, hb, _⟩ := NeuralNetwork.copy_ok f t.initmodel a hlen ha
  refine ⟨b, ?_⟩
  unfold Trainer.resetModel
  simp only [hb, bind, Except.bind, pure, Except.pure]

/-- C15: the copy constructor of `NeuralNetwork`, applied to a network `src`
of as many layers as it declares, builds a network identical to `src` (same
input count, layer count, units per layer and weights); therefore, for a
trainer built on a model `M`, configured in any way that keeps the saved
copy, and trained by a run of `start()`, `resetModel()` afterwards leaves a
model with the topology of `M` in which every weight is the weight `M` had
when the trainer was built. With a random source that draws no rejected
value the copy returns. -/
theorem C15_copy_identical {R : Type} [LinearOrderedField R] (exp : R → R)
    (f : Nat) (src n : NeuralNetwork R) (a b : Rng)
    (hsrc : src.network.length = src.nlayers)
    (hcopy : src.copy f a = .ok (some (n, b)))
    (fuel fuel2 fuel3 : Nat) (M : NeuralNetwork R)
    (alg : Option (BackPropagation R)) (g g1 g2 g3 : Rng)
    (t t' t'' : Trainer R) (w : World R) (r : Trainer.Run R)
    (hM : M.network.length = M.nlayers)
    (hinit : Trainer.init fuel M alg g = .ok (some (t, g1)))
    (hcfg : t'.initmodel = t.initmodel)
    (hrun : Trainer.start exp fuel2 t' w = .ok (some r))
    (hreset : Trainer.resetModel fuel3 r.trainer g2 = .ok (some (t'', g3))) :
    (n = src ∧ n.getNumberOfInputs = src.getNumberOfInputs ∧
      n.getNumberOfLayers = src.getNumberOfLayers ∧
      (∀ l, n.getLayerDimension l = src.getLayerDimension l) ∧
      (∀ l u i, n.getWeight l u i = src.getWeight l u i)) ∧
    (t''.model = M ∧
      t''.model.getNumberOfInputs = M.getNumberOfInputs ∧
      t''.model.getNumberOfLayers = M.getNumberOfLayers ∧
      (∀ l, t''.model.getLayerDimension l = M.getLayerDimension l) ∧
      (∀ l u i, t''.model.getWeight l u i = M.getWeight l u i)) ∧
    (∀ (k : Nat) (c : Rng), c.NoReject →
      ∃ d, src.copy (k + 1) c = .ok (some (src, d))) := by
  have hn := NeuralNetwork.copy_eq f src n a b hsrc hcopy
  obtain ⟨_, hi, _⟩ := Trainer.init_eq fuel M alg g g1 t hM hinit
  have hr := Trainer.start_initmodel exp fuel2 t' w r hrun
  have hrm : r.trainer.initmodel = M := by rw [hr, hcfg, hi]
  have ht'' := Trainer.resetModel_eq fuel3 r.trainer t'' g2 g3
    (by rw [hrm]; exact hM) hreset
  have hm : t''.model = M := by rw [ht'']; exact hrm
  refine ⟨⟨hn, by rw [hn], by rw [hn], fun l => by rw [hn],
      fun l u i => by rw [hn]⟩,
    ⟨hm, by rw [hm], by rw [hm], fun l => by rw [hm], fun l u i => by rw [hm]⟩,
    fun k c hc => ?_⟩
  obtain ⟨d, hd, _⟩ := NeuralNetwork.copy_ok k src c hsrc hc
  exact ⟨d, hd⟩

set_option maxRecDepth 100000 in
/-- Counterexample to C14 as stated: the sample trainer, built on the sample
network, trains for one epoch, which moves weight `0` of the output unit
from `1/2` to `23/54`; `resetModel()` then yields the sample network again,
with that weight back at `1/2`, although the random source of the copy
draws `-7/10`: the weights are restored, not re-randomized. -/
theorem C14_counterexample :
    ∃ r t' g' g'', Trainer.start sampleExp 1 (sampleTrainer 1 1 0) sampleWorld =
        .ok (some r) ∧
      (sampleTrainer 1 1 0).model.weightOf 1 0 0 = 1 / 2 ∧
      r.trainer.model.weightOf 1 0 0 = 23 / 54 ∧
      (Unit.setRandomValue 1 sampleWorld.rng :
        Except Error (Option (ℚ × Rng))) = .ok (some (-7 / 10, g'')) ∧
      Trainer.resetModel 1 r.trainer sampleWorld.rng = .ok (some (t', g')) ∧
      t'.model = sampleNetwork ∧ t'.model.weightOf 1 0 0 = 1 / 2 :=
  ⟨_, _, _, _, by with_unfolding_all rfl, by with_unfolding_all rfl,
    by with_unfolding_all rfl, by with_unfolding_all rfl,
    by with_unfolding_all rfl, by with_unfolding_all rfl,
    by with_unfolding_all rfl⟩

set_option maxRecDepth 100000 in
/-- Witness of C14 as amended: `resetModel()` on the sample trainer. -/
theorem C14_resetModel_restores_witness :
    ∃ t' g', Trainer.resetModel 1 (sampleTrainer 1 1 0) sampleWorld.rng =
        .ok (some (t', g')) ∧
      t' = { sampleTrainer 1 1 0 with
        model := (sampleTrainer 1 1 0).initmodel } ∧
      (∀ l u i, t'.model.getWeight l u i =
        (sampleTrainer 1 1 0).initmodel.getWeight l u i) := by
  obtain ⟨t', g', h⟩ : ∃ t' g', Trainer.resetModel 1 (sampleTrainer 1 1 0)
      sampleWorld.rng = .ok (some (t', g')) :=
    ⟨_, _, by with_unfolding_all rfl⟩
  have hc := C14_resetModel_restores 1 (sampleTrainer 1 1 0) t'
    sampleWorld.rng g' rfl h
  exact ⟨t', g', h, hc.1, hc.2.2.2.2.1⟩

set_option maxRecDepth 100000 in
/-- Witness of C15: the copy of the sample network; a trainer built on the
sample network, configured as the sample trainer, trained for one epoch and
reset. -/
theorem C15_copy_identical_witness :
    ∃ n b r t'' g3, sampleNetwork.copy 1 sampleWorld.rng = .ok (some (n, b)) ∧
      Trainer.start sampleExp 1 (sampleTrainer 1 1 0) sampleWorld =
        .ok (some r) ∧
      Trainer.resetModel 1 r.trainer sampleWorld.rng = .ok (some (t'', g3)) ∧
      n = sampleNetwork ∧ t''.model = sampleNetwork ∧
      (∀ l u i, t''.model.getWeight l u i = sampleNetwork.getWeight l u i) := by
  obtain ⟨n, b, hcopy⟩ : ∃ n b, sampleNetwork.copy 1 sampleWorld.rng =
      .ok (some (n, b)) := ⟨_, _, by with_unfolding_all rfl⟩
  obtain ⟨t, g1, hinit, hcfg⟩ : ∃ t g1,
      Trainer.init 1 sampleNetwork (some (sampleBP [[0, 0], [0]]))
        sampleWorld.rng = .ok (some (t, g1)) ∧
      (sampleTrainer 1 1 0).initmodel = t.initmodel :=
    ⟨_, _, by with_unfolding_all rfl, by with_unfolding_all rfl⟩
  obtain ⟨r, t'', g3, hrun, hreset⟩ : ∃ r t'' g3,
      Trainer.start sampleExp 1 (sampleTrainer 1 1 0) sampleWorld =
        .ok (some r) ∧
      Trainer.resetModel 1 r.trainer sampleWorld.rng = .ok (some (t'', g3)) :=
    ⟨_, _, _, by with_unfolding_all rfl, by with_unfolding_all rfl⟩
  have hc := C15_copy_identical sampleExp 1 sampleNetwork n sampleWorld.rng b
    rfl hcopy 1 1 1 sampleNetwork (some (sampleBP [[0, 0], [0]]))
    sampleWorld.rng g1 sampleWorld.rng g3 t (sampleTrainer 1 1 0) t''
    sampleWorld r rfl hinit hcfg hrun hreset
  exact ⟨n, b, r, t'', g3, hcopy, hrun, hreset, hc.1.1, hc.2.1.1,
    hc.2.1.2.2.2.2⟩

section ShuffleFacts

theorem count_set_add (x a : Nat) :
    ∀ (l : List Nat) (i : Nat) (h : i < l.length),
      (l.set i a).count x + (if l.get ⟨i, h⟩ = x then 1 else 0) =
        l.count x + (if a = x then 1 else 0)
  | [], i, h => absurd h (Nat.not_lt_zero _)
  | b :: l, 0, _ => by
    simp only [List.set_cons_zero, List.count_cons, List.get_eq_getElem,
      List.getElem_cons_zero, beq_iff_eq]
    omega
  | b :: l, i + 1, h => by
    have ih := count_set_add x a l i (by simpa using h)
    simp only [List.set_cons_succ, List.count_cons, List.get_eq_getElem,
      List.getElem_cons_succ, beq_iff_eq] at ih ⊢
    omega

/-- `std::swap(v[i], v[j])` inside the vector succeeds and permutes it. -/
theorem Dataset.swapAt_ok (v : List Nat) (i j : Nat) (hi : i < v.length)
    (hj : j < v.length) :
    ∃ v', Dataset.swapAt v i j = .ok v' ∧ v'.Perm v := by
  refine ⟨(v.set i (v.get ⟨j, hj⟩)).set j (v.get ⟨i, hi⟩), ?_, ?_⟩
  · unfold Dataset.swapAt
    simp only [rawGet_ok v i hi, rawGet_ok v j hj, bind, Except.bind, pure,
      Except.pure]
  · rw [List.perm_iff_count]
    intro x
    have hj' : j < (v.set i (v.get ⟨j, hj⟩)).length := by simpa using hj
    have h1 := count_set_add x (v.get ⟨i, hi⟩) (v.set i (v.get ⟨j, hj⟩)) j hj'
    have h2 := count_set_add x (v.get ⟨j, hj⟩) v i hi
    have h3 : (v.set i (v.get ⟨j, hj⟩)).get ⟨j, hj'⟩ = v.get ⟨j, hj⟩ := by
      simp only [List.get_eq_getElem, List.getElem_set]
      split <;> rfl
    rw [h3] at h1
    omega

/-- The loop of the shuffles stays inside the vector and permutes it. -/
theorem Dataset.shuffleLoop_ok :
    ∀ (n : Nat) (v : List Nat) (g : Rng), n ≤ v.length → n < 2 ^ 32 →
      ∃ v' g', Dataset.shuffleLoop n v g = .ok (v', g') ∧ v'.Perm v
  | 0, v, g, _, _ => ⟨v, g, rfl, List.Perm.refl _⟩
  | i + 1, v, g, h, hb => by
    obtain ⟨hr, hle⟩ := getRand_ok g i hb
    obtain ⟨v1, hv1, hp1⟩ := Dataset.swapAt_ok v i (g.stream 0 % (i + 1))
      (by omega) (by omega)
    obtain ⟨v', g', hv', hp'⟩ := Dataset.shuffleLoop_ok i v1 g.rand.2
      (by rw [hp1.length_eq]; omega) (by omega)
    refine ⟨v', g', ?_, hp'.trans hp1⟩
    rw [Dataset.shuffleLoop]
    simp only [hr, hv1, bind, Except.bind]
    exact hv'

/-- The loop of the shuffles, entered with the counter that an `unsigned int`
holds for the size of the vector. -/
theorem Dataset.shuffle_ok (v : List Nat) (g : Rng) :
    ∃ v' g', Dataset.shuffleLoop (v.length % 2 ^ 32) v g = .ok (v', g') ∧
      v'.Perm v :=
  Dataset.shuffleLoop_ok (v.length % 2 ^ 32) v g (Nat.mod_le _ _)
    (Nat.mod_lt _ (by norm_num))

end ShuffleFacts

/-- C18: for every dataset state and every random source, `Global::getRand`
called with a range `[0, i]` of at most `2^32 - 1` values (the ranges that
the shuffles request: their counter is an `unsigned int` and they pass
`i - 1`) returns a value of that range;
`randomShuffle()` succeeds (every index it reads or swaps is inside the
vector) and leaves the access index a permutation of what it was, and
`randomShuffleTrainingSet()` succeeds and leaves the training-access index a
permutation of what it was.  (A call `getRand(0, 2^32 - 1)`, which no
shuffle makes, has the wrapped range `0` and is undefined.) -/
theorem C18_shuffle_permutes {R : Type} (d : Dataset R) (g : Rng) :
    (∀ i, i + 1 < 2 ^ 32 → ∃ r g', getRand g 0 i = .ok (r, g') ∧ r ≤ i) ∧
    (∃ d' g', d.randomShuffle g = .ok (d', g') ∧ d'.av.Perm d.av ∧
      d'.av.length = d.av.length ∧ (∀ x, x ∈ d'.av ↔ x ∈ d.av) ∧
      (∀ x, d'.av.count x = d.av.count x)) ∧
    (∃ d' g', d.randomShuffleTrainingSet g = .ok (d', g') ∧
      d'.trav.Perm d.trav ∧ d'.trav.length = d.trav.length ∧
      (∀ x, x ∈ d'.trav ↔ x ∈ d.trav) ∧
      (∀ x, d'.trav.count x = d.trav.count x)) ∧
    getRand g 0 (2 ^ 32 - 1) = .error .undefined := by
  refine ⟨fun i hi => ⟨_, _, (getRand_ok g i hi).1, (getRand_ok g i hi).2⟩,
    ?_, ?_, getRand_wrap g⟩
  · obtain ⟨v', g', hv', hp⟩ := Dataset.shuffle_ok d.av g
    refine ⟨{ d with av := v' }, g', ?_, hp, hp.length_eq,
      fun x => hp.mem_iff, fun x => hp.count_eq x⟩
    unfold Dataset.randomShuffle
    simp only [hv', bind, Except.bind, pure, Except.pure]
  · obtain ⟨v', g', hv', hp⟩ := Dataset.shuffle_ok d.trav g
    refine ⟨{ d with trav := v' }, g', ?_, hp, hp.length_eq,
      fun x => hp.mem_iff, fun x => hp.count_eq x⟩
    unfold Dataset.randomShuffleTrainingSet
    simp only [hv', bind, Except.bind, pure, Except.pure]

section ShuffleFrame

variable {R : Type}

/-- The instances reachable through `trAt` are those that `at` serves at the
positions of the training-access index. -/
theorem Dataset.trAt_reach (d : Dataset R) (inst : Instance R) :
    (∃ i, d.trAt i = .ok inst) ↔ ∃ p, p ∈ d.trav ∧ d.at p = .ok inst := by
  constructor
  · rintro ⟨i, hi⟩
    unfold Dataset.trAt Dataset.trPosition at hi
    by_cases hlt : i < d.trav.length
    · have hge : ¬ i ≥ d.trav.length := by omega
      simp only [hge, if_false, rawGet_ok d.trav i hlt, bind, Except.bind] at hi
      exact ⟨_, List.get_mem _ _ _, hi⟩
    · have hge : i ≥ d.trav.length := by omega
      simp [hge, bind, Except.bind] at hi
  · rintro ⟨p, hp, hat⟩
    obtain ⟨i, hi, rfl⟩ := List.getElem_of_mem hp
    refine ⟨i, ?_⟩
    unfold Dataset.trAt Dataset.trPosition
    have hge : ¬ i ≥ d.trav.length := by omega
    simp only [hge, if_false, rawGet_ok d.trav i hi, bind, Except.bind]
    exact hat

end ShuffleFrame

/-- C19: `randomShuffleTrainingSet()` changes only the training-access
index: the access index, the fold count, the validation-fold selection and
the stored instances are unchanged, so `getVaSetSize()`, `vaAt(i)` for every
`i` and `at(p)` for every `p` return what they returned before, and the
instances reachable through `trAt` are the same before and after.
`randomShuffle()` changes only the access index: the training-access index,
the fold count and the validation-fold selection are unchanged. -/
theorem C19_shuffle_frame {R : Type} (d : Dataset R) (g : Rng) :
    (∃ d' g', d.randomShuffleTrainingSet g = .ok (d', g') ∧
      d'.av = d.av ∧ d'.folds = d.folds ∧ d'.vafold = d.vafold ∧
      d'.dataset = d.dataset ∧ d'.getVaSetSize = d.getVaSetSize ∧
      (∀ i, d'.vaAt i = d.vaAt i) ∧ (∀ p, d'.at p = d.at p) ∧
      d'.getTrSetSize = d.getTrSetSize ∧
      (∀ inst, (∃ i, d'.trAt i = .ok inst) ↔ (∃ i, d.trAt i = .ok inst))) ∧
    (∃ d' g', d.randomShuffle g = .ok (d', g') ∧
      d'.trav = d.trav ∧ d'.folds = d.folds ∧ d'.vafold = d.vafold ∧
      d'.dataset = d.dataset) := by
  constructor
  · obtain ⟨v', g', hv', hp⟩ := Dataset.shuffle_ok d.trav g
    refine ⟨{ d with trav := v' }, g', ?_, rfl, rfl, rfl, rfl, rfl,
      fun i => rfl, fun p => rfl, hp.length_eq, fun inst => ?_⟩
    · unfold Dataset.randomShuffleTrainingSet
      simp only [hv', bind, Except.bind, pure, Except.pure]
    · rw [Dataset.trAt_reach, Dataset.trAt_reach]
      constructor
      · rintro ⟨p, hp1, hat⟩
        exact ⟨p, hp.mem_iff.1 hp1, hat⟩
      · rintro ⟨p, hp1, hat⟩
        exact ⟨p, hp.mem_iff.2 hp1, hat⟩
  · obtain ⟨v', g', hv', _⟩ := Dataset.shuffle_ok d.av g
    refine ⟨{ d with av := v' }, g', ?_, rfl, rfl, rfl, rfl⟩
    unfold Dataset.randomShuffle
    simp only [hv', bind, Except.bind, pure, Except.pure]

section RestoreFacts

variable {R : Type}

theorem foldl_set_index (a : List Nat) :
    ∀ n, n ≤ a.length →
      ((List.range n).foldl (fun a i => a.set i i) a).length = a.length ∧
      ∀ k, ((List.range n).foldl (fun a i => a.set i i) a)[k]? =
        if k < n then some k else a[k]?
  | 0, _ => by simp
  | n + 1, h => by
    obtain ⟨h1, h2⟩ := foldl_set_index a n (by omega)
    rw [List.range_succ, List.foldl_append]
    simp only [List.foldl_cons, List.foldl_nil, List.length_set]
    refine ⟨h1, fun k => ?_⟩
    by_cases hk : n = k
    · subst hk
      have hn : n < a.length := by omega
      simp [List.getElem?_set, h1, hn]
    · rw [List.getElem?_set_ne hk, h2 k]
      by_cases hlt : k < n
      · have : k < n + 1 := by omega
        simp [hlt, this]
      · have : ¬ k < n + 1 := by omega
        simp [hlt, this]

/-- The loop of `restore` makes the access index the identity. -/
theorem foldl_set_range (a : List Nat) :
    (List.range a.length).foldl (fun a i => a.set i i) a =
      List.range a.length := by
  obtain ⟨h1, h2⟩ := foldl_set_index a a.length (le_refl _)
  apply List.ext_getElem?
  intro k
  rw [h2 k]
  by_cases hk : k < a.length
  · simp [hk, List.getElem?_range]
  · have hle : a.length ≤ k := Nat.le_of_not_lt hk
    rw [if_neg hk, List.getElem?_eq_none hle,
      List.getElem?_eq_none (by simpa using hle)]

theorem Dataset.makeTrAccessVector_frame (d d' : Dataset R)
    (h : d.makeTrAccessVector = .ok d') :
    d'.av = d.av ∧ d'.dataset = d.dataset ∧ d'.folds = d.folds ∧
      d'.vafold = d.vafold := by
  unfold Dataset.makeTrAccessVector at h
  split at h
  · cases h
    exact ⟨rfl, rfl, rfl, rfl⟩
  · simp only [bind, Except.bind, pure, Except.pure] at h
    split at h
    · cases h
    · cases h
      exact ⟨rfl, rfl, rfl, rfl⟩

theorem Dataset.setFoldsSt_frame (d : Dataset R) (n : Nat) :
    (∀ d', d.setFoldsSt n = .ok d' →
      d'.av = d.av ∧ d'.dataset = d.dataset) ∧
    (∀ e, d.setFoldsSt n = .error e →
      e.2.av = d.av ∧ e.2.dataset = d.dataset) := by
  unfold Dataset.setFoldsSt
  by_cases h1 : n > d.dataset.length
  · simp only [h1, if_true]
    exact ⟨fun d' h => (by cases h), fun e h => by cases h; exact ⟨rfl, rfl⟩⟩
  · simp only [h1, if_false]
    by_cases h2 : n = 0
    · simp only [h2, if_true]
      exact ⟨fun d' h => (by cases h; exact ⟨rfl, rfl⟩), fun e h => by cases h⟩
    · simp only [h2, if_false]
      cases hm : Dataset.makeTrAccessVector
          { d with folds := n, vafold := 0 } with
      | error e =>
        exact ⟨fun d' h => (by cases h), fun e h => by cases h; exact ⟨rfl, rfl⟩⟩
      | ok d1 =>
        obtain ⟨a, b, _⟩ := Dataset.makeTrAccessVector_frame _ d1 hm
        exact ⟨fun d' h => (by cases h; exact ⟨a, b⟩), fun e h => by cases h⟩

theorem Dataset.setValidationFoldSt_frame (d : Dataset R) (k : Nat) :
    (∀ d', d.setValidationFoldSt k = .ok d' →
      d'.av = d.av ∧ d'.dataset = d.dataset) ∧
    (∀ e, d.setValidationFoldSt k = .error e →
      e.2.av = d.av ∧ e.2.dataset = d.dataset) := by
  unfold Dataset.setValidationFoldSt
  by_cases h1 : k ≥ d.folds
  · simp only [h1, if_true]
    exact ⟨fun d' h => (by cases h), fun e h => by cases h; exact ⟨rfl, rfl⟩⟩
  · simp only [h1, if_false]
    by_cases h2 : d.folds = 1
    · simp only [h2, if_true]
      exact ⟨fun d' h => (by cases h; exact ⟨rfl, rfl⟩), fun e h => by cases h⟩
    · simp only [h2, if_false]
      cases hm : Dataset.makeTrAccessVector { d with vafold := k } with
      | error e =>
        exact ⟨fun d' h => (by cases h), fun e h => by cases h; exact ⟨rfl, rfl⟩⟩
      | ok d1 =>
        obtain ⟨a, b, _⟩ := Dataset.makeTrAccessVector_frame _ d1 hm
        exact ⟨fun d' h => (by cases h; exact ⟨a, b⟩), fun e h => by cases h⟩

/-- A call leaves the access index at its length and the stored instances as
they were. -/
theorem Dataset.call_frame (s : Dataset R × Rng) (c : Dataset.Call) :
    (Dataset.call s c).1.av.length = s.1.av.length ∧
      (Dataset.call s c).1.dataset = s.1.dataset := by
  cases c with
  | setFolds n =>
    obtain ⟨f1, f2⟩ := Dataset.setFoldsSt_frame s.1 n
    cases h : s.1.setFoldsSt n with
    | ok d' =>
      have hc : Dataset.call s (.setFolds n) = (d', s.2) := by
        simp only [Dataset.call, h]
      rw [hc]
      exact ⟨by rw [(f1 d' h).1], (f1 d' h).2⟩
    | error e =>
      have hc : Dataset.call s (.setFolds n) = (e.2, s.2) := by
        simp only [Dataset.call, h]
      rw [hc]
      exact ⟨by rw [(f2 e h).1], (f2 e h).2⟩
  | setValidationFold k =>
    obtain ⟨f1, f2⟩ := Dataset.setValidationFoldSt_frame s.1 k
    cases h : s.1.setValidationFoldSt k with
    | ok d' =>
      have hc : Dataset.call s (.setValidationFold k) = (d', s.2) := by
        simp only [Dataset.call, h]
      rw [hc]
      exact ⟨by rw [(f1 d' h).1], (f1 d' h).2⟩
    | error e =>
      have hc : Dataset.call s (.setValidationFold k) = (e.2, s.2) := by
        simp only [Dataset.call, h]
      rw [hc]
      exact ⟨by rw [(f2 e h).1], (f2 e h).2⟩
  | randomShuffle =>
    simp only [Dataset.call]
    obtain ⟨v', g', hv', hp⟩ :=
      Dataset.shuffle_ok s.1.av s.2
    have : s.1.randomShuffle s.2 = .ok ({ s.1 with av := v' }, g') := by
      unfold Dataset.randomShuffle
      simp only [hv', bind, Except.bind, pure, Except.pure]
    rw [this]
    exact ⟨hp.length_eq, rfl⟩
  | randomShuffleTrainingSet =>
    simp only [Dataset.call]
    obtain ⟨v', g', hv', hp⟩ :=
      Dataset.shuffle_ok s.1.trav s.2
    have : s.1.randomShuffleTrainingSet s.2 =
        .ok ({ s.1 with trav := v' }, g') := by
      unfold Dataset.randomShuffleTrainingSet
      simp only [hv', bind, Except.bind, pure, Except.pure]
    rw [this]
    exact ⟨rfl, rfl⟩

theorem Dataset.calls_frame (cs : List Dataset.Call) :
    ∀ s : Dataset R × Rng,
      (Dataset.calls s cs).1.av.length = s.1.av.length ∧
        (Dataset.calls s cs).1.dataset = s.1.dataset := by
  induction cs with
  | nil => intro s; exact ⟨rfl, rfl⟩
  | cons c cs ih =>
    intro s
    obtain ⟨a, b⟩ := ih (Dataset.call s c)
    obtain ⟨a', b'⟩ := Dataset.call_frame s c
    unfold Dataset.calls at a b ⊢
    rw [List.foldl_cons]
    exact ⟨a.trans a', b.trans b'⟩

end RestoreFacts

/-- C16: for a dataset whose access index has one entry per stored instance
(as `load` leaves it), every random source and every sequence of calls of
`setFolds`, `setValidationFold`, `randomShuffle` and
`randomShuffleTrainingSet`, a following `restore()` yields the identity
access order, the fold count `0`, the validation-fold index `0` and an empty
training-access index, and leaves the stored instances unchanged: `at(i)` is
the `i`-th stored instance for every `i < N`. -/
theorem C16_restore {R : Type} (d : Dataset R) (g : Rng)
    (cs : List Dataset.Call) (hav : d.av.length = d.dataset.length) :
    (Dataset.calls (d, g) cs).1.restore =
      { dataset := d.dataset, av := List.range d.dataset.length, trav := [],
        folds := 0, vafold := 0 } ∧
    (Dataset.calls (d, g) cs).1.restore.getFolds = 0 ∧
    (Dataset.calls (d, g) cs).1.restore.vafold = 0 ∧
    (Dataset.calls (d, g) cs).1.restore.dataset = d.dataset ∧
    (Dataset.calls (d, g) cs).1.restore.getSize = d.getSize ∧
    ∀ i, i < d.dataset.length →
      (Dataset.calls (d, g) cs).1.restore.at i = rawGet d.dataset i ∧
      ∃ inst, d.dataset[i]? = some inst ∧
        (Dataset.calls (d, g) cs).1.restore.at i = .ok inst := by
  obtain ⟨a, b⟩ := Dataset.calls_frame cs (d, g)
  have hl : (Dataset.calls (d, g) cs).1.av.length = d.dataset.length :=
    a.trans hav
  have hf := foldl_set_range (Dataset.calls (d, g) cs).1.av
  rw [hl] at hf
  have hb : (Dataset.calls (d, g) cs).1.dataset = d.dataset := b
  have hr : (Dataset.calls (d, g) cs).1.restore =
      { dataset := d.dataset, av := List.range d.dataset.length, trav := [],
        folds := 0, vafold := 0 } := by
    unfold Dataset.restore Dataset.merge
    simp only [hl, hf, hb]
  have hrav : (Dataset.calls (d, g) cs).1.restore.av =
      List.range d.dataset.length := by rw [hr]
  have hrds : (Dataset.calls (d, g) cs).1.restore.dataset = d.dataset := by
    rw [hr]
  refine ⟨hr, by rw [hr]; rfl, by rw [hr], hrds, by rw [hr]; rfl,
    fun i hi => ?_⟩
  have hat : (Dataset.calls (d, g) cs).1.restore.at i =
      rawGet d.dataset i := by
    unfold Dataset.at
    have hge : ¬ i ≥ (Dataset.calls (d, g) cs).1.restore.dataset.length := by
      rw [hrds]; omega
    simp only [hge, if_false]
    rw [hrav, hrds, rawGet_of_get? (List.range d.dataset.length) i i
      (by simp [List.getElem?_range, hi])]
    rfl
  exact ⟨hat, d.dataset[i], List.getElem?_eq_getElem hi, by
    rw [hat]; exact rawGet_of_get? _ _ _ (List.getElem?_eq_getElem hi)⟩

/-- Witness of C16: the sample dataset of five instances, folded in two,
shuffled, with the second fold selected and the training set shuffled. -/
theorem C16_restore_witness :
    (Dataset.calls (sampleDataset 5, ⟨fun k => 3 * k + 1⟩)
        [.setFolds 2, .randomShuffle, .setValidationFold 1,
          .randomShuffleTrainingSet]).1.restore =
      { dataset := (sampleDataset 5).dataset,
        av := List.range (sampleDataset 5).dataset.length, trav := [],
        folds := 0, vafold := 0 } :=
  (C16_restore (sampleDataset 5) ⟨fun k => 3 * k + 1⟩
    [.setFolds 2, .randomShuffle, .setValidationFold 1,
      .randomShuffleTrainingSet] (by simp [sampleDataset])).1

/-! ## C17: selecting a validation fold rebuilds the training-access index -/

/-- Calls of `randomShuffleTrainingSet` change nothing but the
training-access index. -/
theorem Dataset.calls_shuffleTr {R : Type} (cs : List Dataset.Call)
    (hcs : ∀ c ∈ cs, c = Dataset.Call.randomShuffleTrainingSet) :
    ∀ s : Dataset R × Rng,
      ∃ tr, (Dataset.calls s cs).1 = { s.1 with trav := tr } := by
  induction cs with
  | nil => exact fun s => ⟨s.1.trav, rfl⟩
  | cons c cs ih =>
    intro s
    have hc : c = Dataset.Call.randomShuffleTrainingSet :=
      hcs c (List.mem_cons_self _ _)
    subst hc
    obtain ⟨v', g', hv', _⟩ :=
      Dataset.shuffle_ok s.1.trav s.2
    have h1 : s.1.randomShuffleTrainingSet s.2 =
        .ok ({ s.1 with trav := v' }, g') := by
      unfold Dataset.randomShuffleTrainingSet
      simp only [hv', bind, Except.bind, pure, Except.pure]
    have h2 : Dataset.call s .randomShuffleTrainingSet =
        ({ s.1 with trav := v' }, g') := by
      simp only [Dataset.call, h1]
    obtain ⟨tr, htr⟩ := ih (fun c hc => hcs c (List.mem_cons_of_mem _ hc))
      ({ s.1 with trav := v' }, g')
    refine ⟨tr, ?_⟩
    have h3 : Dataset.calls s (.randomShuffleTrainingSet :: cs) =
        Dataset.calls (Dataset.call s .randomShuffleTrainingSet) cs := rfl
    rw [h3, h2, htr]

/-- The positions below `n` outside `[s, e)`, in increasing order. -/
theorem outside_sorted (n s e : Nat) :
    List.Pairwise (fun a b => a < b)
      ((List.range n).filter (fun i => decide (i < s ∨ e ≤ i))) :=
  List.Pairwise.filter _ (List.pairwise_lt_range n)

/-- Claim C17: in a dataset of `N` instances with `F ≥ 2` folds and for
`k < F`, `setValidationFold(k)` returns with the training-access index equal
to the positions `0..N-1` outside `[startIndexFold(k), endIndexFold(k))` in
strictly increasing order, whatever the index held before, also after any
calls of `randomShuffleTrainingSet`; `setFolds(F)` on a dataset of at least
`F` instances does the same with `k = 0`, whatever fold state it had. -/
theorem C17_training_index_rebuilt {R : Type} (d d0 : Dataset R) (k F : Nat)
    (hF : 2 ≤ d.folds) (hk : k < d.folds)
    (hF0 : 2 ≤ F) (hN : F ≤ d0.dataset.length) :
    (∃ d1 s e, d.setValidationFold k = .ok d1 ∧
      d1.startIndexFold k = .ok s ∧ d1.endIndexFold k = .ok e ∧
      d1.trav = (List.range d.dataset.length).filter
        (fun i => decide (i < s ∨ e ≤ i)) ∧
      List.Pairwise (fun a b => a < b) d1.trav ∧
      (∀ i, i ∈ d1.trav ↔ i < d.dataset.length ∧ (i < s ∨ e ≤ i)) ∧
      (∀ tr, Dataset.setValidationFold { d with trav := tr } k = .ok d1) ∧
      (∀ cs g, (∀ c ∈ cs, c = Dataset.Call.randomShuffleTrainingSet) →
        (Dataset.calls (d, g) cs).1.setValidationFold k = .ok d1)) ∧
    (∃ d1 s e, d0.setFolds F = .ok d1 ∧
      d1.folds = F ∧ d1.vafold = 0 ∧
      d1.startIndexFold 0 = .ok s ∧ d1.endIndexFold 0 = .ok e ∧
      d1.trav = (List.range d0.dataset.length).filter
        (fun i => decide (i < s ∨ e ≤ i)) ∧
      List.Pairwise (fun a b => a < b) d1.trav ∧
      (∀ i, i ∈ d1.trav ↔ i < d0.dataset.length ∧ (i < s ∨ e ≤ i)) ∧
      (∀ tr, Dataset.setFolds { d0 with trav := tr } F = .ok d1)) := by
  have hne : ¬ d.folds = 1 := by omega
  have hge : ¬ k ≥ d.folds := by omega
  have hsv : ∀ tr, Dataset.setValidationFold { d with trav := tr } k =
      .ok { d with vafold := k, trav :=
        (List.range d.dataset.length).filter (fun i => decide
          (i < k * (d.dataset.length / d.folds) +
              min k (d.dataset.length % d.folds) ∨
           (k + 1) * (d.dataset.length / d.folds) +
              min (k + 1) (d.dataset.length % d.folds) ≤ i)) } := by
    intro tr
    unfold Dataset.setValidationFold
    simp only [hge, hne, if_false]
    rw [Dataset.makeTrAccessVector_ok _ hk]
    simp only [hne, if_false]
  have hne0 : ¬ F = 1 := by omega
  have hgt0 : ¬ F > d0.dataset.length := by omega
  have hz0 : ¬ F = 0 := by omega
  have hsf : ∀ tr, Dataset.setFolds { d0 with trav := tr } F =
      .ok { d0 with folds := F, vafold := 0, trav :=
        (List.range d0.dataset.length).filter (fun i => decide
          (i < 0 * (d0.dataset.length / F) +
              min 0 (d0.dataset.length % F) ∨
           (0 + 1) * (d0.dataset.length / F) +
              min (0 + 1) (d0.dataset.length % F) ≤ i)) } := by
    intro tr
    unfold Dataset.setFolds
    simp only [hgt0, hz0, if_false]
    rw [Dataset.makeTrAccessVector_ok _ (show (0 : Nat) < F by omega)]
    simp only [hne0, if_false]
  refine ⟨⟨_, _, _, hsv d.trav, Dataset.startIndexFold_ok _ k hk,
    Dataset.endIndexFold_ok _ k hk, rfl, outside_sorted _ _ _, ?_, hsv, ?_⟩,
    ⟨_, _, _, hsf d0.trav, rfl, rfl,
      Dataset.startIndexFold_ok _ 0 (show (0 : Nat) < F by omega),
      Dataset.endIndexFold_ok _ 0 (show (0 : Nat) < F by omega), rfl,
      outside_sorted _ _ _, ?_, hsf⟩⟩
  · intro i
    simp [List.mem_filter, List.mem_range]
  · intro cs g hcs
    obtain ⟨tr, htr⟩ := Dataset.calls_shuffleTr cs hcs (d, g)
    rw [htr]
    exact hsv tr
  · intro i
    simp [List.mem_filter, List.mem_range]

/-- Witness of C17: seven instances in three folds with the training set
shuffled, then fold 1 selected; and `setFolds(3)` on the same seven. -/
theorem C17_training_index_rebuilt_witness :
    ∃ d1 d2, Dataset.setValidationFold
        { sampleDataset 7 with folds := 3, trav := [6, 3, 5, 4] } 1 = .ok d1 ∧
      d1.trav = [0, 1, 2, 5, 6] ∧
      (sampleDataset 7).setFolds 3 = .ok d2 ∧ d2.trav = [3, 4, 5, 6] := by
  obtain ⟨⟨d1, s, e, h1, hs, he, ht, _⟩, ⟨d2, s0, e0, h2, _, _, hs0, he0, ht0, _⟩⟩ :=
    C17_training_index_rebuilt
      { sampleDataset 7 with folds := 3, trav := [6, 3, 5, 4] }
      (sampleDataset 7) 1 3 (by decide) (by decide) (by decide)
      (by simp [sampleDataset])
  have e1 : Dataset.setValidationFold
      { sampleDataset 7 with folds := 3, trav := [6, 3, 5, 4] } 1 =
      .ok { sampleDataset 7 with
            folds := 3, vafold := 1, trav := [0, 1, 2, 5, 6] } := by
    with_unfolding_all rfl
  have e2 : (sampleDataset 7).setFolds 3 =
      .ok { sampleDataset 7 with
            folds := 3, vafold := 0, trav := [3, 4, 5, 6] } := by
    with_unfolding_all rfl
  have q1 := h1.symm.trans e1
  have q2 := h2.symm.trans e2
  injection q1 with q1
  injection q2 with q2
  subst q1
  subst q2
  exact ⟨_, _, h1, rfl, h2, rfl⟩

/-! ## C20: the out-of-range failures of `setFolds` and `setValidationFold` -/

/-- The state-reporting `setFoldsSt` raises what `setFolds` raises and
returns what it returns. -/
theorem Dataset.setFoldsSt_agrees {R : Type} (d : Dataset R) (n : Nat) :
    d.setFolds n =
      (match d.setFoldsSt n with
        | .ok x => .ok x
        | .error e => .error e.1) := by
  unfold Dataset.setFolds Dataset.setFoldsSt
  by_cases h1 : n > d.dataset.length
  · simp only [h1, if_true]
  · simp only [h1, if_false]
    by_cases h2 : n = 0
    · simp only [h2, if_true]
    · simp only [h2, if_false]
      cases Dataset.makeTrAccessVector { d with folds := n, vafold := 0 } <;>
        rfl

/-- The state-reporting `setValidationFoldSt` raises what `setValidationFold`
raises and returns what it returns. -/
theorem Dataset.setValidationFoldSt_agrees {R : Type} (d : Dataset R)
    (k : Nat) :
    d.setValidationFold k =
      (match d.setValidationFoldSt k with
        | .ok x => .ok x
        | .error e => .error e.1) := by
  unfold Dataset.setValidationFold Dataset.setValidationFoldSt
  by_cases h1 : k ≥ d.folds
  · simp only [h1, if_true]
  · simp only [h1, if_false]
    by_cases h2 : d.folds = 1
    · simp only [h2, if_true]
    · simp only [h2, if_false]
      cases Dataset.makeTrAccessVector { d with vafold := k } <;> rfl

/-- Within the size of the dataset `setFoldsSt` returns. -/
theorem Dataset.setFoldsSt_returns {R : Type} (d : Dataset R) (n : Nat)
    (h : ¬ n > d.dataset.length) : ∃ d1, d.setFoldsSt n = .ok d1 := by
  unfold Dataset.setFoldsSt
  simp only [h, if_false]
  by_cases h2 : n = 0
  · simp only [h2, if_true]
    exact ⟨_, rfl⟩
  · simp only [h2, if_false]
    rw [Dataset.makeTrAccessVector_ok _ (show (0 : Nat) < n by omega)]
    exact ⟨_, rfl⟩

/-- Below the fold count `setValidationFoldSt` returns. -/
theorem Dataset.setValidationFoldSt_returns {R : Type} (d : Dataset R)
    (k : Nat) (h : ¬ k ≥ d.folds) :
    ∃ d1, d.setValidationFoldSt k = .ok d1 := by
  unfold Dataset.setValidationFoldSt
  simp only [h, if_false]
  by_cases h2 : d.folds = 1
  · simp only [h2, if_true]
    exact ⟨_, rfl⟩
  · simp only [h2, if_false]
    rw [Dataset.makeTrAccessVector_ok _ (show k < d.folds by omega)]
    exact ⟨_, rfl⟩

/-- Claim C20: `setFolds(n)` raises exactly when `n` exceeds the dataset
size and `setValidationFold(k)` exactly when `k` is at least the fold count;
what they raise is `out_of_range`, nothing else is ever raised, and a raise
leaves the whole object, so the fold count, the validation-fold index, the
access index and the training-access index, as it was. -/
theorem C20_out_of_range {R : Type} (d : Dataset R) (n k : Nat) :
    ((∃ e, d.setFolds n = .error e) ↔ n > d.getSize) ∧
    (d.setFolds n = .error .out_of_range ↔ n > d.getSize) ∧
    (∀ e st, d.setFoldsSt n = .error (e, st) →
      e = .out_of_range ∧ st = d ∧ st.folds = d.folds ∧
        st.vafold = d.vafold ∧ st.av = d.av ∧ st.trav = d.trav) ∧
    (n > d.getSize → d.setFoldsSt n = .error (.out_of_range, d)) ∧
    ((∃ e, d.setValidationFold k = .error e) ↔ k ≥ d.getFolds) ∧
    (d.setValidationFold k = .error .out_of_range ↔ k ≥ d.getFolds) ∧
    (∀ e st, d.setValidationFoldSt k = .error (e, st) →
      e = .out_of_range ∧ st = d ∧ st.folds = d.folds ∧
        st.vafold = d.vafold ∧ st.av = d.av ∧ st.trav = d.trav) ∧
    (k ≥ d.getFolds → d.setValidationFoldSt k = .error (.out_of_range, d)) := by
  have a1 : n > d.getSize → d.setFoldsSt n = .error (.out_of_range, d) := by
    intro h
    have h' : n > d.dataset.length := h
    unfold Dataset.setFoldsSt
    simp only [h', if_true]
  have a2 : ∀ e st, d.setFoldsSt n = .error (e, st) → n > d.getSize := by
    intro e st h
    by_contra hn
    obtain ⟨d1, hd1⟩ := Dataset.setFoldsSt_returns d n hn
    rw [hd1] at h
    cases h
  have b1 : k ≥ d.getFolds →
      d.setValidationFoldSt k = .error (.out_of_range, d) := by
    intro h
    have h' : k ≥ d.folds := h
    unfold Dataset.setValidationFoldSt
    simp only [h', if_true]
  have b2 : ∀ e st, d.setValidationFoldSt k = .error (e, st) →
      k ≥ d.getFolds := by
    intro e st h
    by_contra hn
    obtain ⟨d1, hd1⟩ := Dataset.setValidationFoldSt_returns d k hn
    rw [hd1] at h
    cases h
  have a3 : ∀ e, d.setFolds n = .error e → n > d.getSize := by
    intro e h
    rw [Dataset.setFoldsSt_agrees] at h
    cases hs : d.setFoldsSt n with
    | ok x => rw [hs] at h; cases h
    | error p => exact a2 p.1 p.2 hs
  have b3 : ∀ e, d.setValidationFold k = .error e → k ≥ d.getFolds := by
    intro e h
    rw [Dataset.setValidationFoldSt_agrees] at h
    cases hs : d.setValidationFoldSt k with
    | ok x => rw [hs] at h; cases h
    | error p => exact b2 p.1 p.2 hs
  have a4 : n > d.getSize → d.setFolds n = .error .out_of_range := by
    intro h
    rw [Dataset.setFoldsSt_agrees, a1 h]
  have b4 : k ≥ d.getFolds →
      d.setValidationFold k = .error .out_of_range := by
    intro h
    rw [Dataset.setValidationFoldSt_agrees, b1 h]
  refine ⟨⟨fun ⟨e, h⟩ => a3 e h, fun h => ⟨_, a4 h⟩⟩, ⟨a3 _, a4⟩, ?_, a1,
    ⟨fun ⟨e, h⟩ => b3 e h, fun h => ⟨_, b4 h⟩⟩, ⟨b3 _, b4⟩, ?_, b1⟩
  · intro e st h
    have h2 := a1 (a2 e st h)
    rw [h2] at h
    injection h with h
    injection h with he hst
    subst he
    subst hst
    exact ⟨rfl, rfl, rfl, rfl, rfl, rfl⟩
  · intro e st h
    have h2 := b1 (b2 e st h)
    rw [h2] at h
    injection h with h
    injection h with he hst
    subst he
    subst hst
    exact ⟨rfl, rfl, rfl, rfl, rfl, rfl⟩

/-! ## C21: one fold is the whole dataset as training set -/

/-- Claim C21: on a dataset of `N ≥ 1` instances `setFolds(1)` returns; after
it `getFolds()` is 1, `getTrSetSize()` is `N`, the training-access index is
`0, ..., N-1`, so `trAt(i)` is `at(i)` for every `i < N` (and raises
`out_of_range` from `N` on), `getVaSetSize()` is 0, `vaAt` raises
`out_of_range` at every index, and `setValidationFold(0)` returns with the
object as it was. -/
theorem C21_single_fold {R : Type} (d : Dataset R)
    (hN : 1 ≤ d.dataset.length) :
    ∃ d1, d.setFolds 1 = .ok d1 ∧
      d1.getFolds = 1 ∧ d1.getSize = d.getSize ∧
      d1.getTrSetSize = d.getSize ∧
      d1.trav = List.range d.getSize ∧
      (∀ i, i < d.getSize → d1.trAt i = d1.at i) ∧
      (∀ i, d.getSize ≤ i → d1.trAt i = .error .out_of_range) ∧
      d1.getVaSetSize = .ok 0 ∧
      (∀ i, d1.vaAt i = .error .out_of_range) ∧
      d1.setValidationFold 0 = .ok d1 ∧
      d1.setValidationFoldSt 0 = .ok d1 := by
  have hgt : ¬ 1 > d.dataset.length := by omega
  have hset : d.setFolds 1 = .ok { d with
      folds := 1, vafold := 0, trav := List.range d.dataset.length } := by
    unfold Dataset.setFolds
    simp only [hgt, if_false, one_ne_zero]
    rw [Dataset.makeTrAccessVector_ok _ (show (0 : Nat) < 1 by omega)]
    simp only [if_true]
  refine ⟨_, hset, rfl, rfl, ?_, rfl, ?_, ?_, rfl, ?_, rfl, rfl⟩
  · simp [Dataset.getTrSetSize, Dataset.getSize]
  · intro i hi
    have hi' : i < d.dataset.length := hi
    unfold Dataset.trAt Dataset.trPosition
    have hge : ¬ i ≥ (List.range d.dataset.length).length := by
      simp only [List.length_range]; omega
    simp only [hge, if_false]
    rw [rawGet_of_get? (List.range d.dataset.length) i i
      (by simp [List.getElem?_range, hi'])]
    rfl
  · intro i hi
    have hi' : d.dataset.length ≤ i := hi
    unfold Dataset.trAt Dataset.trPosition
    have hge : i ≥ (List.range d.dataset.length).length := by
      simp only [List.length_range]; omega
    simp only [hge, if_true]
    rfl
  · intro i
    unfold Dataset.vaAt Dataset.vaPosition
    rw [Dataset.foldDimension_ok _ 0 (show (0 : Nat) < 1 by omega)]
    simp [bind, Except.bind]

/-- Witness of C21: `setFolds(1)` on the sample dataset of four instances. -/
theorem C21_single_fold_witness :
    ∃ d1, (sampleDataset 4).setFolds 1 = .ok d1 ∧
      d1.getTrSetSize = 4 ∧ d1.trav = [0, 1, 2, 3] ∧
      d1.getVaSetSize = .ok 0 ∧ d1.setValidationFold 0 = .ok d1 := by
  obtain ⟨d1, h, _, _, h3, h4, _, _, h7, _, h9, _⟩ :=
    C21_single_fold (sampleDataset 4) (by simp [sampleDataset])
  exact ⟨d1, h, by rw [h3]; simp [Dataset.getSize, sampleDataset],
    by rw [h4]; simp [Dataset.getSize, sampleDataset]; rfl, h7, h9⟩

/-! ## C22: `setFolds(0)` clears the partitioning -/

/-- Counterexample to C22 as stated: the sample dataset of three instances
in three folds; `setFolds(0)` leaves `getTrSetSize()` at 0, not at 3, and
`trAt(0)` raises `out_of_range`. -/
theorem C22_counterexample :
    ∃ d0 d1, (sampleDataset 3).setFolds 3 = .ok d0 ∧
      d0.getTrSetSize = 2 ∧
      d0.setFolds 0 = .ok d1 ∧ d1.getSize = 3 ∧ d1.getFolds = 0 ∧
      d1.getTrSetSize = 0 ∧ d1.getTrSetSize ≠ d1.getSize ∧
      d1.trAt 0 = .error .out_of_range :=
  ⟨_, _, by with_unfolding_all rfl, by with_unfolding_all rfl,
    by with_unfolding_all rfl, by with_unfolding_all rfl,
    by with_unfolding_all rfl, by with_unfolding_all rfl, by decide,
    by with_unfolding_all rfl⟩

/-- Claim C22 as amended: for every dataset and every prior fold
configuration `setFolds(0)` returns, with the result of `merge()`: the fold
count 0, the validation-fold index 0 and an empty training-access index, so
`getFolds()` is 0, `getVaSetSize()` is 0, `getTrSetSize()` is 0 and `trAt`
raises `out_of_range` at every index; the stored instances and the access
index are as they were, so `at(i)` serves what it served. -/
theorem C22_setFolds_zero {R : Type} (d : Dataset R) :
    ∃ d1, d.setFolds 0 = .ok d1 ∧ d1 = d.merge ∧
      d1.getFolds = 0 ∧ d1.vafold = 0 ∧ d1.getVaSetSize = .ok 0 ∧
      d1.getTrSetSize = 0 ∧ d1.trav = [] ∧
      (∀ i, d1.trAt i = .error .out_of_range) ∧
      d1.getSize = d.getSize ∧ d1.dataset = d.dataset ∧ d1.av = d.av ∧
      (∀ i, d1.at i = d.at i) := by
  refine ⟨d.merge, ?_, rfl, rfl, rfl, rfl, rfl, rfl, fun i => ?_, rfl, rfl,
    rfl, fun i => rfl⟩
  · unfold Dataset.setFolds
    simp
  · simp [Dataset.trAt, Dataset.trPosition, Dataset.merge, bind, Except.bind]

/-! ## C23: `vaAt` and its range check -/

/-- Claim C23, what the code does: with no folds configured `vaAt(i)` ends in
the failed `assert(k < folds)` of `foldDimension`, evaluated before the test
`folds <= 1`, although `getVaSetSize()` is 0; with one fold it raises
`out_of_range` at every index; with `folds ≥ 2` and a validation fold below
the fold count it raises `out_of_range` from `getVaSetSize()` on and below it
serves the instance at access position `startIndexFold(vafold) + i`, which is
inside the dataset. -/
theorem C23_vaAt {R : Type} (d : Dataset R) (i : Nat) :
    (d.folds = 0 →
      d.getVaSetSize = .ok 0 ∧ d.vaAt i = .error .assertion) ∧
    (d.folds = 1 → d.vafold = 0 →
      d.getVaSetSize = .ok 0 ∧ d.vaAt i = .error .out_of_range) ∧
    (2 ≤ d.folds → d.vafold < d.folds →
      ∃ n s, d.getVaSetSize = .ok n ∧ d.startIndexFold d.vafold = .ok s ∧
        s + n ≤ d.getSize ∧
        (n ≤ i → d.vaAt i = .error .out_of_range) ∧
        (i < n → d.vaAt i = d.at (s + i) ∧ s + i < d.getSize)) := by
  refine ⟨fun h0 => ?_, fun h1 hv => ?_, fun h2 hv => ?_⟩
  · constructor
    · simp [Dataset.getVaSetSize, h0]
    · unfold Dataset.vaAt Dataset.vaPosition Dataset.foldDimension
      simp [h0, bind, Except.bind]
  · constructor
    · simp [Dataset.getVaSetSize, h1]
    · unfold Dataset.vaAt Dataset.vaPosition
      rw [Dataset.foldDimension_ok _ _ (by omega)]
      simp [h1, bind, Except.bind]
  · have hs := Dataset.startIndexFold_ok d d.vafold hv
    have he := Dataset.endIndexFold_ok d d.vafold hv
    have hf := Dataset.foldDimension_ok d d.vafold hv
    have hg : ¬ d.folds ≤ 1 := by omega
    have hdm := Nat.div_add_mod d.dataset.length d.folds
    have hr : d.dataset.length % d.folds < d.folds :=
      Nat.mod_lt _ (by omega)
    have hq : (d.vafold + 1) * (d.dataset.length / d.folds) ≤
        d.folds * (d.dataset.length / d.folds) :=
      Nat.mul_le_mul_right _ (by omega)
    have hsn : d.vafold * (d.dataset.length / d.folds) +
          min d.vafold (d.dataset.length % d.folds) +
        (if d.vafold < d.dataset.length % d.folds
          then d.dataset.length / d.folds + 1
          else d.dataset.length / d.folds) ≤ d.dataset.length := by
      rw [Nat.succ_mul] at hq
      generalize d.dataset.length / d.folds = q at *
      generalize d.dataset.length % d.folds = r at *
      generalize d.folds * q = b at *
      generalize d.vafold * q = a at *
      split <;> omega
    refine ⟨_, _, ?_, hs, hsn, fun hi => ?_, fun hi => ⟨?_, ?_⟩⟩
    · unfold Dataset.getVaSetSize
      simp only [hg, if_false]
      exact hf
    · unfold Dataset.vaAt Dataset.vaPosition
      simp only [hf, bind, Except.bind]
      have hc : i ≥ (if d.vafold < d.dataset.length % d.folds
          then d.dataset.length / d.folds + 1
          else d.dataset.length / d.folds) ∨ d.folds ≤ 1 := Or.inl hi
      simp only [hc, if_true]
    · unfold Dataset.vaAt Dataset.vaPosition
      simp only [hf, bind, Except.bind]
      have hc : ¬ (i ≥ (if d.vafold < d.dataset.length % d.folds
          then d.dataset.length / d.folds + 1
          else d.dataset.length / d.folds) ∨ d.folds ≤ 1) := by
        intro h
        rcases h with h | h
        · omega
        · omega
      simp only [hc, if_false, hs, pure, Except.pure]
    · show _ < d.dataset.length
      omega

/-- The failing input of C23: the sample dataset of three instances as
loaded, with no folds configured; `getVaSetSize()` is 0 and `vaAt(0)` ends
in a failed assertion. -/
theorem C23_vaAt_witness :
    (sampleDataset 3).getVaSetSize = .ok 0 ∧
      (sampleDataset 3).vaAt 0 = .error .assertion :=
  (C23_vaAt (sampleDataset 3) 0).1 rfl

/-! ## C24: the guard of `NeuralNetwork::getOutput` -/

/-- Claim C24, what the code does: with `m` cached outputs `getOutput(i)`
returns the `i`-th of them for `i < m` and raises `out_of_range` for
`i > m`; for `i = m` the guard `i > lastOutput.size()` lets the call through
and `lastOutput[m]` is read, one past the end of the vector. -/
theorem C24_getOutput_guard {R : Type} [LinearOrderedField R]
    (n : NeuralNetwork R) (i : Nat) :
    (i < n.lastOutput.length →
      ∃ y, n.lastOutput[i]? = some y ∧ n.getOutput i = .ok y) ∧
    (i > n.lastOutput.length → n.getOutput i = .error .out_of_range) ∧
    (i = n.lastOutput.length →
      n.getOutput i = rawGet n.lastOutput n.lastOutput.length ∧
      n.getOutput i = .error .undefined ∧
      n.getOutput i ≠ .error .out_of_range) := by
  refine ⟨fun h => ?_, fun h => ?_, fun h => ?_⟩
  · refine ⟨n.lastOutput[i], List.getElem?_eq_getElem h, ?_⟩
    unfold NeuralNetwork.getOutput
    have hg : ¬ i > n.lastOutput.length := by omega
    simp only [hg, if_false]
    exact rawGet_of_get? _ _ _ (List.getElem?_eq_getElem h)
  · unfold NeuralNetwork.getOutput
    simp only [h, if_true]
  · subst h
    have hg : ¬ n.lastOutput.length > n.lastOutput.length := by omega
    have hu : n.getOutput n.lastOutput.length = .error .undefined := by
      unfold NeuralNetwork.getOutput rawGet
      simp only [hg, if_false]
      rw [List.getElem?_eq_none (le_refl _)]
    refine ⟨?_, hu, ?_⟩
    · unfold NeuralNetwork.getOutput
      simp only [hg, if_false]
    · rw [hu]
      intro hc
      cases hc

/-- The failing input of C24: the sample network has one output unit, and
`getOutput(1)` reads past the cached outputs instead of raising
`out_of_range`. -/
theorem C24_getOutput_guard_witness :
    sampleNetwork.lastOutput.length = 1 ∧
      sampleNetwork.getOutput 1 = .error .undefined ∧
      sampleNetwork.getOutput 1 ≠ .error .out_of_range :=
  ⟨rfl, ((C24_getOutput_guard sampleNetwork 1).2.2 rfl).2.1,
    ((C24_getOutput_guard sampleNetwork 1).2.2 rfl).2.2⟩

/-! ## C29: `Unit::setInputs` -/

/-- The loop of `Unit::setInputs` on a vector of the unit's arity: the
cached inputs from position 1 on are replaced by the vector, nothing else
changes. -/
theorem Unit.setInputs_ok {R : Type} [LinearOrderedField R] (u : Unit R)
    (v : List R) (hs : u.inputs.length = u.numberOfInputs + 1)
    (hv : v.length = u.numberOfInputs) :
    ∃ u', u.setInputs v = .ok u' ∧
      u'.numberOfInputs = u.numberOfInputs ∧
      u'.numberOfWeights = u.numberOfWeights ∧
      u'.weights = u.weights ∧ u'.lastOutput = u.lastOutput ∧
      u'.inputs.length = u.inputs.length ∧
      ∀ k, u'.inputs[k]? =
        if 1 ≤ k ∧ k ≤ u.numberOfInputs then v[k - 1]? else u.inputs[k]? := by
  unfold Unit.setInputs
  have hne : ¬ v.length ≠ u.numberOfInputs := by simp [hv]
  simp only [hne, if_false]
  exact foldlM_range_inv
    (fun (u : Unit R) i => do
      let x ← rawGet v i
      let w ← rawSet u.inputs (i + 1) x
      pure { u with inputs := w })
    (fun j (s : Unit R) => s.numberOfInputs = u.numberOfInputs ∧
      s.numberOfWeights = u.numberOfWeights ∧
      s.weights = u.weights ∧ s.lastOutput = u.lastOutput ∧
      s.inputs.length = u.inputs.length ∧
      ∀ k, s.inputs[k]? = if 1 ≤ k ∧ k ≤ j then v[k - 1]? else u.inputs[k]?)
    u.numberOfInputs u
    ⟨rfl, rfl, rfl, rfl, rfl, fun k => by
      have : ¬ (1 ≤ k ∧ k ≤ 0) := by omega
      simp only [this, if_false]⟩
    (by
      rintro j s hj ⟨h1, h2, h3, h4, h5, h6⟩
      have hjv : j < v.length := by omega
      have hjs : j + 1 < s.inputs.length := by omega
      refine ⟨{ s with inputs := s.inputs.set (j + 1) (v.get ⟨j, hjv⟩) }, ?_,
        h1, h2, h3, h4, by simp [h5], fun k => ?_⟩
      · simp only [rawGet_ok v j hjv, rawSet_ok _ _ _ hjs, bind, Except.bind,
          pure, Except.pure]
      · simp only [List.getElem?_set, h6 k]
        by_cases hk : j + 1 = k
        · subst hk
          have c1 : 1 ≤ j + 1 ∧ j + 1 ≤ j + 1 := by omega
          simp only [hjs, if_true, c1, Nat.add_sub_cancel]
          rw [List.getElem?_eq_getElem hjv]
          rfl
        · simp only [hk, if_false]
          by_cases hk2 : 1 ≤ k ∧ k ≤ j
          · have c2 : 1 ≤ k ∧ k ≤ j + 1 := by omega
            simp only [hk2, c2, if_true, and_self]
          · have c2 : ¬ (1 ≤ k ∧ k ≤ j + 1) := by omega
            simp only [hk2, c2, if_false])

/-- Claim C29: on a unit of `k` inputs (and `k+1` cached inputs)
`setInputs(v)` with `v` of length `k` returns with `v[i]` in cached input
`i+1` for every `i < k`, and with cached input 0, the weights, the cached
output and the sizes as they were; with `v` of any other length it returns
with the unit as it was. -/
theorem C29_setInputs {R : Type} [LinearOrderedField R] (u : Unit R)
    (v : List R) (hs : u.inputs.length = u.numberOfInputs + 1) :
    (v.length = u.numberOfInputs →
      ∃ u', u.setInputs v = .ok u' ∧
        (∀ i, i < u.numberOfInputs → u'.inputs[i + 1]? = v[i]?) ∧
        u'.inputs[0]? = u.inputs[0]? ∧
        u'.inputs = u.inputs.take 1 ++ v ∧
        u'.weights = u.weights ∧ u'.lastOutput = u.lastOutput ∧
        u'.numberOfInputs = u.numberOfInputs ∧
        u'.numberOfWeights = u.numberOfWeights) ∧
    (v.length ≠ u.numberOfInputs → u.setInputs v = .ok u) := by
  constructor
  · intro hv
    obtain ⟨u', hu', h1, h2, h3, h4, h5, h6⟩ := Unit.setInputs_ok u v hs hv
    refine ⟨u', hu', fun i hi => ?_, ?_, ?_, h3, h4, h1, h2⟩
    · rw [h6 (i + 1)]
      have c : 1 ≤ i + 1 ∧ i + 1 ≤ u.numberOfInputs := by omega
      simp only [c, if_true, and_self, Nat.add_sub_cancel]
    · rw [h6 0]
      simp
    · apply List.ext_getElem?
      intro k
      rw [h6 k]
      have hl : (u.inputs.take 1).length = 1 := by
        rw [List.length_take]; omega
      by_cases hk : 1 ≤ k
      · rw [List.getElem?_append_right (by omega), hl]
        by_cases hk2 : k ≤ u.numberOfInputs
        · simp only [hk, hk2, and_self, if_true]
        · have c : ¬ (1 ≤ k ∧ k ≤ u.numberOfInputs) := by omega
          simp only [c, if_false]
          rw [List.getElem?_eq_none (by omega), List.getElem?_eq_none (by omega)]
      · have c : ¬ (1 ≤ k ∧ k ≤ u.numberOfInputs) := by omega
        have hk0 : k = 0 := by omega
        subst hk0
        simp only [c, if_false]
        rw [List.getElem?_append_left (by omega), List.getElem?_take]
        simp
  · intro hv
    unfold Unit.setInputs
    simp only [hv, ne_eq, not_false_eq_true, if_true]

/-- Witness of C29: the first hidden unit of the sample network (two inputs)
is given the inputs `3, 4`, and then a vector of three values. -/
theorem C29_setInputs_witness :
    (∃ u', (sampleUnit [1 / 10, 1 / 5, -3 / 10]).setInputs [3, 4] = .ok u' ∧
      u'.inputs = [1, 3, 4] ∧ u'.weights = [1 / 10, 1 / 5, -3 / 10]) ∧
    (sampleUnit [1 / 10, 1 / 5, -3 / 10]).setInputs [3, 4, 5] =
      .ok (sampleUnit [1 / 10, 1 / 5, -3 / 10]) := by
  have h := C29_setInputs (sampleUnit [1 / 10, 1 / 5, -3 / 10])
  constructor
  · obtain ⟨u', hu', _, _, h3, h4, _⟩ := (h [3, 4] rfl).1 rfl
    exact ⟨u', hu', h3, h4⟩
  · exact (h [3, 4, 5] rfl).2 (by decide)

/-! ## C30: the weights of a freshly constructed unit -/

section LoadFacts

variable {R : Type}

theorem Dataset.parseLine_bad (toReal : List Char → R) (ni no : Nat)
    (line : List Char) (h : (Global.split line ',').length ≠ 1 + ni + no) :
    Dataset.parseLine toReal ni no line = .error .assertion := by
  unfold Dataset.parseLine cassert
  have hc : ¬ ni + no + 1 = (Global.split line ',').length := by omega
  simp only [hc, if_false, bind, Except.bind]

theorem Dataset.parseLine_ok (toReal : List Char → R) (ni no : Nat)
    (line : List Char) (h : (Global.split line ',').length = 1 + ni + no) :
    ∃ inst, Dataset.parseLine toReal ni no line = .ok inst ∧
      inst.input.length = ni ∧ inst.output.length = no := by
  unfold Dataset.parseLine cassert
  have hc : ni + no + 1 = (Global.split line ',').length := by omega
  obtain ⟨id, hid⟩ : ∃ id, (Global.split line ',')[0]? = some id :=
    ⟨_, List.getElem?_eq_getElem (by omega)⟩
  obtain ⟨vi, hvi, hli⟩ := foldlM_range_inv
    (fun (v : List R) i => do
      let f ← atGet (Global.split line ',') (i + 1)
      pure (v ++ [toReal f]))
    (fun i v => v.length = i) ni [] rfl
    (by
      intro i v hi hv
      obtain ⟨f, hf⟩ : ∃ f, (Global.split line ',')[i + 1]? = some f :=
        ⟨_, List.getElem?_eq_getElem (by omega)⟩
      refine ⟨v ++ [toReal f], ?_, by simp [hv]⟩
      simp only [atGet_of_get? _ _ _ hf, bind, Except.bind, pure, Except.pure])
  obtain ⟨vo, hvo, hlo⟩ := foldlM_range_inv
    (fun (v : List R) i => do
      let f ← atGet (Global.split line ',') (i + 1 + ni)
      pure (v ++ [toReal f]))
    (fun i v => v.length = i) no [] rfl
    (by
      intro i v hi hv
      obtain ⟨f, hf⟩ : ∃ f, (Global.split line ',')[i + 1 + ni]? = some f :=
        ⟨_, List.getElem?_eq_getElem (by omega)⟩
      refine ⟨v ++ [toReal f], ?_, by simp [hv]⟩
      simp only [atGet_of_get? _ _ _ hf, bind, Except.bind, pure, Except.pure])
  refine ⟨⟨String.mk (Global.trim id [' ']), vi, vo⟩, ?_, hli, hlo⟩
  simp only [hc, if_true, atGet_of_get? _ _ _ hid, hvi, hvo]
  rfl

/-- The loop of `Dataset::load` ends in the failed assertion when a line it
has still to read is malformed, and returns otherwise. -/
theorem Dataset.loadLoop_spec (toReal : List Char → R) (ni no : Nat) :
    ∀ (segs : List (List Char)) (ds : List (Instance R)),
      ((∃ l ∈ segs, Dataset.Malformed ni no l) →
        Dataset.loadLoop toReal ni no segs ds = .error .assertion) ∧
      ((∀ l ∈ segs, ¬ Dataset.Malformed ni no l) →
        ∃ ds', Dataset.loadLoop toReal ni no segs ds = .ok ds')
  | [], ds => ⟨fun ⟨l, hl, _⟩ => (by cases hl), fun _ => ⟨ds, rfl⟩⟩
  | l :: ls, ds => by
    by_cases hg : goodLine (Global.trim l [' ', '\t']) = true
    · by_cases hc : (Global.split (Global.trim l [' ', '\t']) ',').length =
          1 + ni + no
      · obtain ⟨inst, hinst, _⟩ := Dataset.parseLine_ok toReal ni no _ hc
        have hstep : Dataset.loadLoop toReal ni no (l :: ls) ds =
            Dataset.loadLoop toReal ni no ls (ds ++ [inst]) := by
          rw [Dataset.loadLoop]
          simp only [hg, if_true, hinst, bind, Except.bind]
        have hnm : ¬ Dataset.Malformed ni no l := fun hm => hm.2 hc
        obtain ⟨ih1, ih2⟩ := Dataset.loadLoop_spec toReal ni no ls (ds ++ [inst])
        rw [hstep]
        constructor
        · rintro ⟨l', hl', hm⟩
          rcases List.mem_cons.1 hl' with h | h
          · subst h
            exact absurd hm hnm
          · exact ih1 ⟨l', h, hm⟩
        · intro hall
          exact ih2 (fun l' hl' => hall l' (List.mem_cons_of_mem _ hl'))
      · have hstep : Dataset.loadLoop toReal ni no (l :: ls) ds =
            .error .assertion := by
          rw [Dataset.loadLoop]
          simp only [hg, if_true, Dataset.parseLine_bad toReal ni no _ hc, bind,
            Except.bind]
        rw [hstep]
        exact ⟨fun _ => rfl, fun hall =>
          absurd (show Dataset.Malformed ni no l from ⟨hg, hc⟩)
            (hall l (List.mem_cons_self _ _))⟩
    · have hstep : Dataset.loadLoop toReal ni no (l :: ls) ds =
          Dataset.loadLoop toReal ni no ls ds := by
        rw [Dataset.loadLoop]
        simp only [hg]
        rfl
      have hnm : ¬ Dataset.Malformed ni no l := fun hm => hg hm.1
      obtain ⟨ih1, ih2⟩ := Dataset.loadLoop_spec toReal ni no ls ds
      rw [hstep]
      constructor
      · rintro ⟨l', hl', hm⟩
        rcases List.mem_cons.1 hl' with h | h
        · subst h
          exact absurd hm hnm
        · exact ih1 ⟨l', h, hm⟩
      · intro hall
        exact ih2 (fun l' hl' => hall l' (List.mem_cons_of_mem _ hl'))

end LoadFacts

/-- Claim C28 as amended: on a text with a line that is neither blank nor a
comment and whose number of comma-separated fields is not
`1 + nInputs + nOutputs`, `Dataset::load` ends at load time in the failed
assertion `assert(ninputs + noutputs + 1 == csvline->size())`; on a text
without such a line it returns, with the access index in identity order and
the fold state as it was; a file that cannot be opened raises `file_error`;
in no case does `load` raise `read_error`. -/
theorem C28_load_asserts {R : Type} (toReal : List Char → R) (d : Dataset R)
    (text : List Char) (ninputs noutputs : Nat) :
    ((∃ l ∈ segments '\n' text, Dataset.Malformed ninputs noutputs l) →
      d.load toReal (some text) ninputs noutputs = .error .assertion) ∧
    ((∀ l ∈ segments '\n' text, ¬ Dataset.Malformed ninputs noutputs l) →
      ∃ d', d.load toReal (some text) ninputs noutputs = .ok d' ∧
        d'.av = List.range d'.dataset.length ∧
        d'.folds = d.folds ∧ d'.vafold = d.vafold ∧ d'.trav = d.trav) ∧
    d.load toReal none ninputs noutputs = .error .file_error ∧
    (∀ file, d.load toReal file ninputs noutputs ≠ .error .read_error) := by
  have h1 : (∃ l ∈ segments '\n' text, Dataset.Malformed ninputs noutputs l) →
      d.load toReal (some text) ninputs noutputs = .error .assertion := by
    intro h
    unfold Dataset.load
    simp only [IStream.ofText,
      (Dataset.loadLoop_spec toReal ninputs noutputs _ []).1 h, bind,
      Except.bind]
  have h2 : ∀ t : List Char,
      (∀ l ∈ segments '\n' t, ¬ Dataset.Malformed ninputs noutputs l) →
      ∃ d', d.load toReal (some t) ninputs noutputs = .ok d' ∧
        d'.av = List.range d'.dataset.length ∧
        d'.folds = d.folds ∧ d'.vafold = d.vafold ∧ d'.trav = d.trav := by
    intro t h
    obtain ⟨ds, hds⟩ := (Dataset.loadLoop_spec toReal ninputs noutputs _ []).2 h
    refine ⟨{ d with dataset := ds, av := List.range ds.length }, ?_, rfl, rfl,
      rfl, rfl⟩
    unfold Dataset.load
    simp only [IStream.ofText, hds, bind, Except.bind, pure, Except.pure]
    have := foldl_set_range (List.replicate ds.length 0)
    rw [List.length_replicate] at this
    rw [this]
  refine ⟨h1, h2 text, rfl, fun file => ?_⟩
  cases file with
  | none =>
    intro h
    cases h
  | some t =>
    by_cases hm : ∃ l ∈ segments '\n' t, Dataset.Malformed ninputs noutputs l
    · have : d.load toReal (some t) ninputs noutputs = .error .assertion := by
        unfold Dataset.load
        simp only [IStream.ofText,
          (Dataset.loadLoop_spec toReal ninputs noutputs _ []).1 hm, bind,
          Except.bind]
      rw [this]
      intro h
      cases h
    · obtain ⟨d', hd', _⟩ := h2 t (fun l hl hml => hm ⟨l, hl, hml⟩)
      rw [hd']
      intro h
      cases h

/-- Counterexample to C28 as stated: with one input and one output per
instance, the second line of the text has two fields instead of three, and
`load` ends in a failed assertion, not in `read_error`. -/
theorem C28_counterexample :
    Dataset.Malformed 1 1 "b,3".toList ∧
      "b,3".toList ∈ segments '\n' "a,1,2\nb,3\n".toList ∧
      (sampleDataset 0).load (fun s => (sampleToUint s : ℚ))
        (some "a,1,2\nb,3\n".toList) 1 1 = .error .assertion ∧
      (sampleDataset 0).load (fun s => (sampleToUint s : ℚ))
        (some "a,1,2\nb,3\n".toList) 1 1 ≠ .error .read_error :=
  ⟨⟨by decide, by decide⟩, by decide, by with_unfolding_all rfl, by
    rw [show (sampleDataset 0).load (fun s => (sampleToUint s : ℚ))
        (some "a,1,2\nb,3\n".toList) 1 1 = .error .assertion from by
      with_unfolding_all rfl]
    intro h
    cases h⟩

/-! ## Facts on the text model -/

section TextFacts

theorem segments_cons_ne (d c : Char) (cs : List Char) (h : c ≠ d) :
    ∃ l ls, segments d cs = l :: ls ∧ segments d (c :: cs) = (c :: l) :: ls := by
  induction cs generalizing c with
  | nil => exact ⟨[], [], rfl, by simp [segments, h]⟩
  | cons c' cs ih =>
    by_cases h' : c' = d
    · refine ⟨[], segments d cs, by simp [segments, h'], ?_⟩
      simp [segments, h, h']
    · obtain ⟨l, ls, h1, h2⟩ := ih c' h'
      refine ⟨c' :: l, ls, h2, ?_⟩
      rw [segments, if_neg h, h2]

theorem segments_ne_nil (d : Char) (t : List Char) : segments d t ≠ [] := by
  cases t with
  | nil => simp [segments]
  | cons c cs =>
    by_cases h : c = d
    · simp [segments, h]
    · obtain ⟨l, ls, _, h2⟩ := segments_cons_ne d c cs h
      rw [h2]
      simp

/-- A text without the delimiter, followed by the delimiter: the text is the
first segment. -/
theorem segments_append_delim (d : Char) (rest : List Char) :
    ∀ l : List Char, (∀ c ∈ l, c ≠ d) →
      segments d (l ++ d :: rest) = l :: segments d rest
  | [], _ => by simp [segments]
  | c :: l, h => by
    have hc : c ≠ d := h c (List.mem_cons_self _ _)
    have ih := segments_append_delim d rest l
      (fun x hx => h x (List.mem_cons_of_mem _ hx))
    rw [List.cons_append, segments, if_neg hc, ih]

/-- A text without the delimiter is one segment. -/
theorem segments_no_delim (d : Char) :
    ∀ l : List Char, (∀ c ∈ l, c ≠ d) → segments d l = [l]
  | [], _ => rfl
  | c :: l, h => by
    have hc : c ≠ d := h c (List.mem_cons_self _ _)
    have ih := segments_no_delim d l (fun x hx => h x (List.mem_cons_of_mem _ hx))
    rw [segments, if_neg hc, ih]

theorem segments_singleton (d : Char) :
    ∀ (t x : List Char), segments d t = [x] → x = t
  | [], x, h => by
    simp [segments] at h
    exact h
  | c :: cs, x, h => by
    by_cases hc : c = d
    · rw [segments, if_pos hc] at h
      injection h with h1 h2
      exact absurd h2 (segments_ne_nil d cs)
    · obtain ⟨l, ls, h1, h2⟩ := segments_cons_ne d c cs hc
      rw [h2] at h
      injection h with h3 h4
      subst h4
      rw [segments_singleton d cs l h1] at h3
      exact h3.symm

/-- A text and a list of texts, each behind a delimiter, none holding the
delimiter: the segments are these texts. -/
theorem segments_tokens (d : Char) :
    ∀ (ts : List (List Char)) (t : List Char),
      (∀ c ∈ t, c ≠ d) → (∀ x ∈ ts, ∀ c ∈ x, c ≠ d) →
      segments d (t ++ (ts.map (fun x => d :: x)).flatten) = t :: ts
  | [], t, ht, _ => by
    simp only [List.map_nil, List.flatten_nil, List.append_nil]
    exact segments_no_delim d t ht
  | x :: ts, t, ht, hts => by
    simp only [List.map_cons, List.flatten_cons, List.cons_append]
    rw [segments_append_delim d _ t ht,
      segments_tokens d ts x (hts x (List.mem_cons_self _ _))
        (fun y hy => hts y (List.mem_cons_of_mem _ hy))]

theorem Global.trim_clean (t : List Char) :
    ∀ l : List Char, (∀ c ∈ l, c ∉ t) → Global.trim l t = l := by
  intro l h
  have h1 : ∀ l : List Char, (∀ c ∈ l, c ∉ t) →
      l.dropWhile (fun c => t.contains c) = l := by
    intro l hl
    cases l with
    | nil => rfl
    | cons c cs =>
      rw [List.dropWhile_cons]
      have hc : c ∉ t := hl c (List.mem_cons_self _ _)
      simp [hc]
  unfold Global.trim
  rw [h1 l h, h1 l.reverse (fun c hc => h c (List.mem_reverse.1 hc)),
    List.reverse_reverse]

theorem Global.splitLoop_acc :
    ∀ (segs acc : List (List Char)),
      Global.splitLoop segs acc = acc ++ Global.splitLoop segs []
  | [], acc => by simp [Global.splitLoop]
  | [l], acc => by
    by_cases h : l.isEmpty
    · simp [Global.splitLoop, h]
    · simp [Global.splitLoop, h]
  | l :: l2 :: ls, acc => by
    rw [Global.splitLoop, Global.splitLoop_acc (l2 :: ls) (acc ++ [l])]
    conv_rhs => rw [Global.splitLoop, Global.splitLoop_acc (l2 :: ls) ([] ++ [l])]
    simp

/-- The loop of `Global::split` pushes every segment when none is empty. -/
theorem Global.splitLoop_tokens :
    ∀ (ts : List (List Char)), (∀ x ∈ ts, x ≠ []) →
      Global.splitLoop ts [] = ts
  | [], _ => rfl
  | [l], h => by
    have : l.isEmpty = false := by
      simpa [List.isEmpty_iff] using h l (List.mem_cons_self _ _)
    simp [Global.splitLoop, this]
  | l :: l2 :: ls, h => by
    rw [Global.splitLoop, Global.splitLoop_acc,
      Global.splitLoop_tokens (l2 :: ls)
        (fun x hx => h x (List.mem_cons_of_mem _ hx))]
    rfl

/-- `Global::split` of a text that is not empty returns at least one
field. -/
theorem Global.split_ne_nil (d : Char) (line : List Char) (h : line ≠ []) :
    Global.split line d ≠ [] := by
  unfold Global.split IStream.ofText
  cases hs : segments d line with
  | nil => exact absurd hs (segments_ne_nil d line)
  | cons l ls =>
    cases ls with
    | nil =>
      have hl : l = line := segments_singleton d line l hs
      subst hl
      have : l.isEmpty = false := by simpa [List.isEmpty_iff] using h
      simp [Global.splitLoop, this]
    | cons l2 ls =>
      simp only []
      rw [Global.splitLoop, Global.splitLoop_acc]
      simp

/-- `Global::split` gives back the fields that were joined with the
delimiter, when no field is empty or holds the delimiter. -/
theorem Global.split_tokens (d : Char) (t : List Char) (ts : List (List Char))
    (ht : t ≠ [] ∧ ∀ c ∈ t, c ≠ d)
    (hts : ∀ x ∈ ts, x ≠ [] ∧ ∀ c ∈ x, c ≠ d) :
    Global.split (t ++ (ts.map (fun x => d :: x)).flatten) d = t :: ts := by
  unfold Global.split IStream.ofText
  simp only []
  rw [segments_tokens d ts t ht.2 (fun x hx => (hts x hx).2)]
  apply Global.splitLoop_tokens
  intro x hx
  rcases List.mem_cons.1 hx with h | h
  · subst h
    exact ht.1
  · exact (hts x h).1

theorem NeuralNetwork.pending_cons (l l2 : List Char) (ls : List (List Char)) :
    NeuralNetwork.pending (l :: l2 :: ls) =
      (if goodLine l then [l] else []) ++ NeuralNetwork.pending (l2 :: ls) := by
  unfold NeuralNetwork.pending
  rw [List.dropLast_cons₂, List.filter_cons]
  split <;> rfl

/-- `readNextGoodLine` delivers the first of the pending good lines and
leaves the others pending; it finds none when none is pending. -/
theorem NeuralNetwork.readNextGoodLine_spec :
    ∀ (segs : List (List Char)) (line : List Char),
      (NeuralNetwork.pending segs = [] →
        (NeuralNetwork.readNextGoodLine segs line).1 = false) ∧
      (∀ l ls, NeuralNetwork.pending segs = l :: ls →
        ∃ segs', NeuralNetwork.readNextGoodLine segs line = (true, l, ⟨segs'⟩) ∧
          NeuralNetwork.pending segs' = ls)
  | [], line => ⟨fun _ => rfl, fun l ls h => by
      simp [NeuralNetwork.pending] at h⟩
  | [x], line => ⟨fun _ => rfl, fun l ls h => by
      simp [NeuralNetwork.pending] at h⟩
  | x :: l2 :: rest, line => by
    rw [NeuralNetwork.pending_cons, NeuralNetwork.readNextGoodLine]
    by_cases hg : goodLine x = true
    · simp only [hg, if_true]
      refine ⟨fun h => by simp at h, fun l ls h => ?_⟩
      simp only [List.singleton_append] at h
      injection h with h1 h2
      subst h1
      exact ⟨l2 :: rest, rfl, h2⟩
    · simp only [hg, if_false, List.nil_append]
      exact NeuralNetwork.readNextGoodLine_spec (l2 :: rest) _

theorem NeuralNetwork.pending_good (segs : List (List Char)) :
    ∀ l ∈ NeuralNetwork.pending segs, goodLine l = true := by
  intro l hl
  unfold NeuralNetwork.pending at hl
  exact (List.mem_filter.1 hl).2

end TextFacts

section ReadFacts

variable {R : Type} [LinearOrderedField R]

/-- `Unit::read` raises `read_error` on a line of fewer than two fields and
on a line whose first field does not give the number of the fields behind
it; on any other line it builds the unit with the fields behind the first as
its weights. -/
theorem Unit.read_cases (toUint : List Char → Nat) (toReal : List Char → R)
    (is : IStream) (w : List (List Char))
    (hw : w = Global.split (Global.trim (getline is []).2.1 [' ']) ',') :
    (w.length < 2 → Unit.read toUint toReal is = .error .read_error) ∧
    (2 ≤ w.length → w.length - 1 ≠ toUint (w.headD []) →
      Unit.read toUint toReal is = .error .read_error) ∧
    (2 ≤ w.length → w.length - 1 = toUint (w.headD []) →
      Unit.read toUint toReal is =
        .ok (Unit.fresh ((w.drop 1).map toReal), (getline is []).1)) := by
  refine ⟨fun h => ?_, fun h1 h2 => ?_, fun h1 h2 => ?_⟩
  · unfold Unit.read
    simp only [← hw]
    have : ¬ w.length ≥ 2 := by omega
    simp only [this, not_false_eq_true, if_true]
  · unfold Unit.read
    simp only [← hw]
    obtain ⟨c, hc⟩ : ∃ c, w[0]? = some c :=
      ⟨_, List.getElem?_eq_getElem (by omega)⟩
    have hd : w.headD [] = c := by
      cases w with
      | nil => simp at hc
      | cons a as => simpa using hc
    rw [hd] at h2
    have hge : w.length ≥ 2 := h1
    simp only [hge, not_true_eq_false, if_false, atGet_of_get? _ _ _ hc, bind,
      Except.bind, h2, not_false_eq_true, if_true]
  · unfold Unit.read
    simp only [← hw]
    obtain ⟨c, hc⟩ : ∃ c, w[0]? = some c :=
      ⟨_, List.getElem?_eq_getElem (by omega)⟩
    obtain ⟨f, hf⟩ : ∃ f, w[1]? = some f :=
      ⟨_, List.getElem?_eq_getElem (by omega)⟩
    have hd : w.headD [] = c := by
      cases w with
      | nil => simp at hc
      | cons a as => simpa using hc
    rw [hd] at h2
    have hge : w.length ≥ 2 := h1
    obtain ⟨p, hp, hP⟩ := foldlM_range_inv
      (fun (p : List R × List R) k => do
        let f ← atGet w (k + 2)
        pure (p.1 ++ [toReal f], p.2 ++ [0]))
      (fun k p => p = (((w.drop 1).take (k + 1)).map toReal,
        1 :: List.replicate k 0))
      (toUint c - 1) ([toReal f], [1])
      (by
        have : (w.drop 1).take 1 = [f] := by
          rw [List.take_one]
          cases w with
          | nil => simp at hc
          | cons a as =>
            cases as with
            | nil => simp at hf
            | cons b bs => simp at hf; simp [hf]
        show ([toReal f], [1]) = _
        rw [this]
        rfl)
      (by
        intro k p hk hp
        subst hp
        obtain ⟨x, hx⟩ : ∃ x, w[k + 2]? = some x :=
          ⟨_, List.getElem?_eq_getElem (by omega)⟩
        refine ⟨(List.map toReal ((w.drop 1).take (k + 1)) ++ [toReal x],
          (1 :: List.replicate k 0) ++ [0]), by
          simp only [atGet_of_get? _ _ _ hx, bind, Except.bind, pure,
            Except.pure], ?_⟩
        have hx' : (w.drop 1)[k + 1]? = some x := by
          rw [List.getElem?_drop]
          rw [show 1 + (k + 1) = k + 2 by omega]
          exact hx
        have e : (w.drop 1).take (k + 1 + 1) =
            (w.drop 1).take (k + 1) ++ [x] := by
          rw [List.take_succ, hx']
          rfl
        show _ = (List.map toReal ((w.drop 1).take (k + 1 + 1)), _)
        rw [e]
        simp [List.replicate_succ'])
    subst hP
    have hl : (w.drop 1).length = toUint c := by
      rw [List.length_drop]; exact h2
    have ht : (w.drop 1).take (toUint c - 1 + 1) = w.drop 1 := by
      apply List.take_of_length_le
      omega
    rw [ht] at hp
    simp only [bind, Except.bind, pure, Except.pure] at hp
    simp only [hge, not_true_eq_false, if_false, atGet_of_get? _ _ _ hc,
      h2, atGet_of_get? _ _ _ hf, bind, Except.bind, pure, Except.pure, hp]
    unfold Unit.fresh
    simp only [List.length_map, hl]

end ReadFacts

section ReadLoops

variable {R : Type} [LinearOrderedField R]

theorem set_self_of_getElem? {α : Type} (l : List α) (i : Nat) (a : α)
    (h : l[i]? = some a) : l.set i a = l := by
  apply List.ext_getElem?
  intro k
  rw [List.getElem?_set]
  by_cases hk : i = k
  · subst hk
    have hi : i < l.length := by
      by_contra hc
      rw [List.getElem?_eq_none (by omega)] at h
      cases h
    simp [hi, h]
  · simp [hk]

theorem take_set_succ {α : Type} (l : List α) (i : Nat) (a : α)
    (h : i < l.length) : (l.set i a).take (i + 1) = l.take i ++ [a] := by
  apply List.ext_getElem?
  intro k
  rw [List.getElem?_take]
  by_cases hk : k < i
  · have h1 : k < i + 1 := by omega
    have h2 : ¬ i = k := by omega
    rw [if_pos h1, List.getElem?_set, if_neg h2,
      List.getElem?_append_left (by rw [List.length_take]; omega),
      List.getElem?_take, if_pos hk]
  · by_cases hk2 : k = i
    · subst hk2
      rw [if_pos (by omega), List.getElem?_set]
      simp only [if_true, h]
      rw [List.getElem?_append_right (by rw [List.length_take]; omega)]
      simp [List.length_take, Nat.min_eq_left (Nat.le_of_lt h)]
    · rw [if_neg (by omega),
        List.getElem?_append_right (by rw [List.length_take]; omega)]
      rw [List.length_take, Nat.min_eq_left (Nat.le_of_lt h)]
      rw [List.getElem?_eq_none]
      simp only [List.length_singleton]
      omega

/-- The inner loop of `NeuralNetwork::read` reads what `parseUnits` reads
from the pending good lines, and raises what it raises. -/
theorem NeuralNetwork.readUnits_spec (toUint : List Char → Nat)
    (toReal : List Char → R) (i : Nat) :
    ∀ (n j0 : Nat) (network : List (List (Unit R))) (layer : List (Unit R))
      (segs : List (List Char)) (line : List Char),
      network[i]? = some layer → layer.length = j0 + n →
      (∀ us rest, NeuralNetwork.parseUnits toUint toReal n
          (NeuralNetwork.pending segs) = .ok (us, rest) →
        ∃ segs' line', (List.range n).foldlM
            (fun st k => NeuralNetwork.readUnit toUint toReal i st (j0 + k))
            (network, ⟨segs⟩, line) =
          .ok (network.set i (layer.take j0 ++ us), ⟨segs'⟩, line') ∧
          NeuralNetwork.pending segs' = rest) ∧
      (∀ e, NeuralNetwork.parseUnits toUint toReal n
          (NeuralNetwork.pending segs) = .error e →
        (List.range n).foldlM
            (fun st k => NeuralNetwork.readUnit toUint toReal i st (j0 + k))
            (network, ⟨segs⟩, line) = .error e)
  | 0, j0, network, layer, segs, line, hl, hlen => by
    constructor
    · intro us rest h
      rw [NeuralNetwork.parseUnits] at h
      injection h with h
      injection h with h1 h2
      subst h1
      refine ⟨segs, line, ?_, h2⟩
      have : layer.take j0 = layer := List.take_of_length_le (by omega)
      rw [List.append_nil, this, set_self_of_getElem? _ _ _ hl]
      rfl
    · intro e h
      rw [NeuralNetwork.parseUnits] at h
      cases h
  | n + 1, j0, network, layer, segs, line, hl, hlen => by
    have hfun : (fun (st : List (List (Unit R)) × IStream × List Char) j =>
        NeuralNetwork.readUnit toUint toReal i st (j0 + (j + 1))) =
        (fun st k => NeuralNetwork.readUnit toUint toReal i st (j0 + 1 + k)) := by
      funext st j
      rw [show j0 + (j + 1) = j0 + 1 + j by omega]
    rw [foldlM_range_succ_front, hfun]
    obtain ⟨hnone, hsome⟩ := NeuralNetwork.readNextGoodLine_spec segs line
    cases hp : NeuralNetwork.pending segs with
    | nil =>
      have hr : NeuralNetwork.readUnit toUint toReal i (network, ⟨segs⟩, line)
          (j0 + 0) = .error .read_error := by
        unfold NeuralNetwork.readUnit
        simp only [hnone hp]
        rfl
      rw [hr]
      constructor
      · intro us rest h
        rw [NeuralNetwork.parseUnits] at h
        cases h
      · intro e h
        rw [NeuralNetwork.parseUnits] at h
        injection h with h
        subst h
        rfl
    | cons l ls =>
      obtain ⟨segs1, hrd, hpend⟩ := hsome l ls hp
      have hj : j0 < layer.length := by omega
      have hi : i < network.length := by
        by_contra hc
        rw [List.getElem?_eq_none (by omega)] at hl
        cases hl
      cases hU : Unit.read toUint toReal (IStream.ofText '\n' l) with
      | error e0 =>
        have hr : NeuralNetwork.readUnit toUint toReal i
            (network, ⟨segs⟩, line) (j0 + 0) = .error e0 := by
          unfold NeuralNetwork.readUnit
          simp only [hrd, not_true_eq_false, if_false,
            atGet_of_get? _ _ _ hl, Nat.add_zero,
            atGet_of_get? _ _ _ (List.getElem?_eq_getElem hj), hU, bind,
            Except.bind]
        have ho : Unit.ofLine toUint toReal l = .error e0 := by
          unfold Unit.ofLine
          rw [hU]
          rfl
        rw [hr]
        constructor
        · intro us rest h
          rw [NeuralNetwork.parseUnits] at h
          simp only [ho, bind, Except.bind] at h
          cases h
        · intro e h
          rw [NeuralNetwork.parseUnits] at h
          simp only [ho, bind, Except.bind] at h
          injection h with h
          subst h
          rfl
      | ok p =>
        obtain ⟨u, is1⟩ := p
        have hr : NeuralNetwork.readUnit toUint toReal i
            (network, ⟨segs⟩, line) (j0 + 0) =
            .ok (network.set i (layer.set j0 u), ⟨segs1⟩, l) := by
          unfold NeuralNetwork.readUnit
          simp only [hrd, not_true_eq_false, if_false,
            atGet_of_get? _ _ _ hl, Nat.add_zero,
            atGet_of_get? _ _ _ (List.getElem?_eq_getElem hj), hU, bind,
            Except.bind, pure, Except.pure]
        have ho : Unit.ofLine toUint toReal l = .ok u := by
          unfold Unit.ofLine
          rw [hU]
          rfl
        rw [hr]
        obtain ⟨ih1, ih2⟩ := NeuralNetwork.readUnits_spec toUint toReal i n
          (j0 + 1) (network.set i (layer.set j0 u)) (layer.set j0 u) segs1 l
          (by rw [List.getElem?_set]; simp [hi])
          (by rw [List.length_set]; omega)
        rw [hpend] at ih1 ih2
        constructor
        · intro us rest h
          rw [NeuralNetwork.parseUnits] at h
          simp only [ho, bind, Except.bind] at h
          cases hq : NeuralNetwork.parseUnits toUint toReal n ls with
          | error e1 => rw [hq] at h; cases h
          | ok q =>
            obtain ⟨us1, rest1⟩ := q
            rw [hq] at h
            simp only [pure, Except.pure] at h
            injection h with h
            injection h with h1 h2
            subst h1
            subst h2
            obtain ⟨segs2, line2, h3, h4⟩ := ih1 us1 rest1 hq
            refine ⟨segs2, line2, ?_, h4⟩
            show Except.bind (Except.ok _) _ = _
            simp only [Except.bind]
            rw [h3, List.set_set, take_set_succ _ _ _ hj, List.append_assoc]
            rfl
        · intro e h
          rw [NeuralNetwork.parseUnits] at h
          simp only [ho, bind, Except.bind] at h
          cases hq : NeuralNetwork.parseUnits toUint toReal n ls with
          | ok q => rw [hq] at h; cases h
          | error e1 =>
            rw [hq] at h
            injection h with h
            subst h
            show Except.bind (Except.ok _) _ = _
            simp only [Except.bind]
            exact ih2 e1 hq

end ReadLoops

section ReadLoops2

variable {R : Type} [LinearOrderedField R]

theorem Unit.setRandomValue_total :
    ∀ (fuel : Nat) (g : Rng),
      (Unit.setRandomValue fuel g : Except Error (Option (R × Rng))) = .ok none ∨
      ∃ v g', (Unit.setRandomValue fuel g : Except Error (Option (R × Rng))) =
          .ok (some (v, g')) ∧ (g.NoReject → g'.NoReject)
  | 0, g => Or.inl rfl
  | fuel + 1, g => by
    rw [Unit.setRandomValue, (getRand_ok g 1400 (by norm_num)).1]
    simp only [bind, Except.bind, pure, Except.pure]
    split
    · rcases Unit.setRandomValue_total fuel g.rand.2 with h | ⟨v, g', h, hg⟩
      · exact Or.inl h
      · exact Or.inr ⟨v, g', h, fun hn => hg (Rng.noReject_rand g hn)⟩
    · exact Or.inr ⟨_, _, rfl, fun hn => Rng.noReject_rand g hn⟩

theorem Unit.initWeightsRandom_total (fuel : Nat) :
    ∀ (ws : List R) (g : Rng),
      (Unit.initWeightsRandom fuel ws g :
        Except Error (Option (List R × Rng))) = .ok none ∨
      ∃ vs g', (Unit.initWeightsRandom fuel ws g :
          Except Error (Option (List R × Rng))) = .ok (some (vs, g')) ∧
        vs.length = ws.length ∧ (g.NoReject → g'.NoReject)
  | [], g => Or.inr ⟨[], g, rfl, rfl, fun h => h⟩
  | _ :: ws, g => by
    rw [Unit.initWeightsRandom]
    rcases Unit.setRandomValue_total (R := R) fuel g with h | ⟨v, g1, h, hg⟩
    · left
      simp only [h, bind, Except.bind, pure, Except.pure]
    · rcases Unit.initWeightsRandom_total fuel ws g1 with h2 | ⟨vs, g2, h2, hl, hg2⟩
      · left
        simp only [h, h2, bind, Except.bind, pure, Except.pure]
      · right
        refine ⟨v :: vs, g2, ?_, by simp [hl], fun hn => hg2 (hg hn)⟩
        simp only [h, h2, bind, Except.bind, pure, Except.pure]

/-- A unit as the constructors leave it: the sizes agree, the bias input is
1, the other cached inputs and the cached output are 0. -/
theorem Unit.init_total (fuel k : Nat) (g : Rng) :
    (Unit.init fuel k g : Except Error (Option (Unit R × Rng))) = .ok none ∨
    ∃ u g', (Unit.init fuel k g : Except Error (Option (Unit R × Rng))) =
        .ok (some (u, g')) ∧ (g.NoReject → g'.NoReject) ∧
      u.numberOfInputs = k ∧ u.numberOfWeights = k + 1 ∧
      u.weights.length = k + 1 ∧ u.inputs = 1 :: List.replicate k 0 := by
  unfold Unit.init
  rw [rawSet_ok _ _ _ (by simp)]
  rcases Unit.initWeightsRandom_total (R := R) fuel
    (List.replicate (k + 1) 0) g with h | ⟨vs, g', h, hl, hg⟩
  · left
    simp only [h, bind, Except.bind, pure, Except.pure]
  · right
    refine ⟨⟨k, k + 1, (List.replicate (k + 1) 0).set 0 1, vs, 0⟩, g', by
      simp only [h, bind, Except.bind, pure, Except.pure], hg, rfl, rfl,
      by simpa using hl, ?_⟩
    simp [List.replicate_succ]

theorem Unit.copyInit_total (fuel : Nat) (src : Unit R) (g : Rng) :
    (Unit.copyInit fuel src g : Except Error (Option (Unit R × Rng))) =
      .ok none ∨
    ∃ u g', (Unit.copyInit fuel src g : Except Error (Option (Unit R × Rng))) =
        .ok (some (u, g')) ∧ (g.NoReject → g'.NoReject) ∧
      u.numberOfInputs = src.numberOfInputs ∧
      u.numberOfWeights = src.numberOfWeights ∧
      u.weights.length = src.numberOfWeights ∧
      u.inputs = 1 :: List.replicate src.numberOfInputs 0 := by
  unfold Unit.copyInit
  rw [rawSet_ok _ _ _ (by simp)]
  rcases Unit.initWeightsRandom_total (R := R) fuel
    (List.replicate src.numberOfWeights 0) g with h | ⟨vs, g', h, hl, hg⟩
  · left
    simp only [h, bind, Except.bind, pure, Except.pure]
  · right
    refine ⟨⟨src.numberOfInputs, src.numberOfWeights,
      (List.replicate (src.numberOfInputs + 1) 0).set 0 1, vs, 0⟩, g', by
      simp only [h, bind, Except.bind, pure, Except.pure], hg, rfl, rfl,
      by simpa using hl, ?_⟩
    simp [List.replicate_succ]

theorem NeuralNetwork.placeholders_total (fuel : Nat) :
    ∀ (n : Nat) (g : Rng),
      (NeuralNetwork.placeholders fuel n g :
        Except Error (Option (List (Unit R) × Rng))) = .ok none ∨
      ∃ us g', (NeuralNetwork.placeholders fuel n g :
          Except Error (Option (List (Unit R) × Rng))) = .ok (some (us, g')) ∧
        us.length = n ∧ (g.NoReject → g'.NoReject)
  | 0, g => Or.inr ⟨[], g, rfl, rfl, fun h => h⟩
  | n + 1, g => by
    rw [NeuralNetwork.placeholders]
    rcases Unit.init_total (R := R) fuel 0 g with h | ⟨u, g1, h, hg, _⟩
    · left
      simp only [h, bind, Except.bind, pure, Except.pure]
    · rcases NeuralNetwork.placeholders_total fuel n g1 with
        h2 | ⟨us, g2, h2, hl, hg2⟩
      · left
        simp only [h, h2, bind, Except.bind, pure, Except.pure]
      · right
        refine ⟨u :: us, g2, ?_, by simp [hl], fun hn => hg2 (hg hn)⟩
        simp only [h, h2, bind, Except.bind, pure, Except.pure]

/-- Once a placeholder could not be built the loop over the layers does
nothing more. -/
theorem NeuralNetwork.readLayer_none (fuel : Nat) (toUint : List Char → Nat)
    (toReal : List Char → R) (nunitsv : List (List Char)) (h : Nat → Nat) :
    ∀ xs : List Nat, xs.foldlM (fun st k =>
        NeuralNetwork.readLayer fuel toUint toReal nunitsv st (h k)) none =
      (.ok none : Except Error
        (Option (List (List (Unit R)) × IStream × List Char × Rng)))
  | [] => rfl
  | x :: xs => by
    rw [List.foldlM_cons]
    show Except.bind (Except.ok none) _ = _
    simp only [Except.bind]
    exact NeuralNetwork.readLayer_none fuel toUint toReal nunitsv h xs

/-- The outer loop of `NeuralNetwork::read` reads what `parseLayers` reads
from the pending good lines and raises what it raises, unless a placeholder
unit could not be built. -/
theorem NeuralNetwork.readLayers_spec (fuel : Nat) (toUint : List Char → Nat)
    (toReal : List Char → R) (nunitsv : List (List Char)) :
    ∀ (fs : List (List Char)) (i0 : Nat) (network : List (List (Unit R)))
      (segs : List (List Char)) (line : List Char) (g : Rng),
      nunitsv.drop i0 = fs → network.length = i0 + fs.length →
      ((List.range fs.length).foldlM (fun st k =>
          NeuralNetwork.readLayer fuel toUint toReal nunitsv st (i0 + k))
          (some (network, ⟨segs⟩, line, g)) = .ok none ∧
        ¬ (0 < fuel ∧ g.NoReject)) ∨
      (∃ layers rest segs' line' g',
        NeuralNetwork.parseLayers toUint toReal (fs.map toUint)
          (NeuralNetwork.pending segs) = .ok (layers, rest) ∧
        (List.range fs.length).foldlM (fun st k =>
          NeuralNetwork.readLayer fuel toUint toReal nunitsv st (i0 + k))
          (some (network, ⟨segs⟩, line, g)) =
          .ok (some (network.take i0 ++ layers, ⟨segs'⟩, line', g')) ∧
        NeuralNetwork.pending segs' = rest) ∨
      (∃ e, NeuralNetwork.parseLayers toUint toReal (fs.map toUint)
          (NeuralNetwork.pending segs) = .error e ∧
        (List.range fs.length).foldlM (fun st k =>
          NeuralNetwork.readLayer fuel toUint toReal nunitsv st (i0 + k))
          (some (network, ⟨segs⟩, line, g)) = .error e)
  | [], i0, network, segs, line, g, hd, hlen => by
    right; left
    refine ⟨[], _, segs, line, g, rfl, ?_, rfl⟩
    have : network.take i0 = network := List.take_of_length_le (by
      simp at hlen; omega)
    rw [List.append_nil, this]
    rfl
  | f :: fs, i0, network, segs, line, g, hd, hlen => by
    have hfun : (fun (st : Option (List (List (Unit R)) × IStream ×
          List Char × Rng)) j =>
        NeuralNetwork.readLayer fuel toUint toReal nunitsv st (i0 + (j + 1))) =
        (fun st k => NeuralNetwork.readLayer fuel toUint toReal nunitsv st
          (i0 + 1 + k)) := by
      funext st j
      rw [show i0 + (j + 1) = i0 + 1 + j by omega]
    have hf : nunitsv[i0]? = some f := by
      have := congrArg (fun l => l[0]?) hd
      simpa [List.getElem?_drop] using this
    have hd' : nunitsv.drop (i0 + 1) = fs := by
      have := congrArg (fun l => l.drop 1) hd
      simpa [List.drop_drop, Nat.add_comm] using this
    have hi : i0 < network.length := by
      simp only [List.length_cons] at hlen
      omega
    simp only [List.length_cons]
    rw [foldlM_range_succ_front, hfun]
    rcases NeuralNetwork.placeholders_total (R := R) fuel (toUint f) g with
      hph | ⟨ph, g1, hph, hphl, hg1⟩
    · left
      have hr : NeuralNetwork.readLayer fuel toUint toReal nunitsv
          (some (network, ⟨segs⟩, line, g)) (i0 + 0) = .ok none := by
        unfold NeuralNetwork.readLayer
        simp only [Nat.add_zero, atGet_of_get? _ _ _ hf, hph, bind, Except.bind,
          pure, Except.pure]
      rw [hr]
      refine ⟨?_, ?_⟩
      · show Except.bind (Except.ok none) _ = _
        simp only [Except.bind]
        exact NeuralNetwork.readLayer_none fuel toUint toReal nunitsv _ _
      · rintro ⟨hfuel, hng⟩
        obtain ⟨k, rfl⟩ : ∃ k, fuel = k + 1 := ⟨fuel - 1, by omega⟩
        obtain ⟨us, g', hok, _⟩ :=
          NeuralNetwork.placeholders_ok (R := R) k (toUint f) g hng
        rw [hok] at hph
        cases hph
    · obtain ⟨hu1, hu2⟩ := NeuralNetwork.readUnits_spec toUint toReal i0
        (toUint f) 0 (network.set i0 ph) ph segs line
        (by rw [List.getElem?_set]; simp [hi]) (by omega)
      simp only [Nat.zero_add, List.take_zero, List.nil_append,
        List.set_set] at hu1 hu2
      cases hq : NeuralNetwork.parseUnits toUint toReal (toUint f)
          (NeuralNetwork.pending segs) with
      | error e =>
        right; right
        refine ⟨e, ?_, ?_⟩
        · simp only [List.map_cons]
          rw [NeuralNetwork.parseLayers]
          simp only [hq, bind, Except.bind]
        · have hr : NeuralNetwork.readLayer fuel toUint toReal nunitsv
              (some (network, ⟨segs⟩, line, g)) (i0 + 0) = .error e := by
            unfold NeuralNetwork.readLayer
            simp only [Nat.add_zero, atGet_of_get? _ _ _ hf, hph,
              atGet_of_get? _ _ _ (List.getElem?_eq_getElem hi), hu2 e hq,
              bind, Except.bind, pure, Except.pure]
          rw [hr]
          rfl
      | ok q =>
        obtain ⟨us, rest1⟩ := q
        obtain ⟨segs1, line1, hin, hpend⟩ := hu1 us rest1 hq
        have hr : NeuralNetwork.readLayer fuel toUint toReal nunitsv
            (some (network, ⟨segs⟩, line, g)) (i0 + 0) =
            .ok (some (network.set i0 us, ⟨segs1⟩, line1, g1)) := by
          unfold NeuralNetwork.readLayer
          simp only [Nat.add_zero, atGet_of_get? _ _ _ hf, hph,
            atGet_of_get? _ _ _ (List.getElem?_eq_getElem hi), hin,
            bind, Except.bind, pure, Except.pure]
        rw [hr]
        have ih := NeuralNetwork.readLayers_spec fuel toUint toReal nunitsv fs
          (i0 + 1) (network.set i0 us) segs1 line1 g1 hd'
          (by rw [List.length_set]; simp only [List.length_cons] at hlen; omega)
        rw [hpend] at ih
        have hpl : NeuralNetwork.parseLayers toUint toReal
            (List.map toUint (f :: fs)) (NeuralNetwork.pending segs) =
            (NeuralNetwork.parseLayers toUint toReal (fs.map toUint) rest1).bind
              (fun r' => .ok (us :: r'.1, r'.2)) := by
          simp only [List.map_cons]
          rw [NeuralNetwork.parseLayers]
          simp only [hq, bind, Except.bind, pure, Except.pure]
        rcases ih with ⟨h1, h2⟩ | ⟨layers, rest, segs2, line2, g2, h1, h2, h3⟩ |
          ⟨e, h1, h2⟩
        · left
          refine ⟨?_, fun ⟨hfuel, hng⟩ => h2 ⟨hfuel, hg1 hng⟩⟩
          show Except.bind (Except.ok _) _ = _
          simp only [Except.bind]
          exact h1
        · right; left
          refine ⟨us :: layers, rest, segs2, line2, g2, ?_, ?_, h3⟩
          · rw [hpl, h1]
            rfl
          · show Except.bind (Except.ok _) _ = _
            simp only [Except.bind]
            rw [h2, take_set_succ _ _ _ hi, List.append_assoc]
            rfl
        · right; right
          refine ⟨e, ?_, ?_⟩
          · rw [hpl, h1]
            rfl
          · show Except.bind (Except.ok _) _ = _
            simp only [Except.bind]
            exact h2

end ReadLoops2

section ReadTop

variable {R : Type} [LinearOrderedField R]

/-- `NeuralNetwork::read` returns the network that the pending good lines of
the stream denote and raises what `parse` raises on them, unless a
placeholder unit could not be built, which does not happen with fuel and a
random source that draws no rejected value. -/
theorem NeuralNetwork.read_spec (fuel : Nat) (toUint : List Char → Nat)
    (toReal : List Char → R) (is : IStream) (g : Rng) :
    (NeuralNetwork.read fuel toUint toReal is g = .ok none ∧
      ¬ (0 < fuel ∧ g.NoReject)) ∨
    (∃ n is' g', NeuralNetwork.parse toUint toReal
        (NeuralNetwork.pending is.segs) = .ok n ∧
      NeuralNetwork.read fuel toUint toReal is g = .ok (some (n, is', g'))) ∨
    (∃ e, NeuralNetwork.parse toUint toReal
        (NeuralNetwork.pending is.segs) = .error e ∧
      NeuralNetwork.read fuel toUint toReal is g = .error e) := by
  obtain ⟨hn1, hs1⟩ := NeuralNetwork.readNextGoodLine_spec is.segs []
  cases hp : NeuralNetwork.pending is.segs with
  | nil =>
    right; right
    refine ⟨.read_error, rfl, ?_⟩
    unfold NeuralNetwork.read
    simp only [hn1 hp]
    rfl
  | cons l1 ls1 =>
    obtain ⟨s1, hr1, hp1⟩ := hs1 l1 ls1 hp
    obtain ⟨hn2, hs2⟩ := NeuralNetwork.readNextGoodLine_spec s1 l1
    cases ls1 with
    | nil =>
      right; right
      refine ⟨.read_error, rfl, ?_⟩
      unfold NeuralNetwork.read
      simp only [hr1, hn2 hp1]
      rfl
    | cons l2 ls2 =>
      obtain ⟨s2, hr2, hp2⟩ := hs2 l2 ls2 hp1
      obtain ⟨hn3, hs3⟩ := NeuralNetwork.readNextGoodLine_spec s2 l2
      cases ls2 with
      | nil =>
        right; right
        refine ⟨.read_error, rfl, ?_⟩
        unfold NeuralNetwork.read
        simp only [hr1, hr2, hn3 hp2]
        rfl
      | cons l3 rest =>
        obtain ⟨s3, hr3, hp3⟩ := hs3 l3 rest hp2
        by_cases hlen : (Global.split l3 ',').length ≠ toUint l2
        · right; right
          refine ⟨.read_error, ?_, ?_⟩
          · unfold NeuralNetwork.parse
            simp only [hlen, ne_eq, not_false_eq_true, if_true]
          · unfold NeuralNetwork.read
            simp only [hr1, hr2, hr3, hlen, ne_eq, not_false_eq_true, if_true,
              not_true_eq_false, if_false]
        · have hlen' : (Global.split l3 ',').length = toUint l2 := by
            simpa using hlen
          have hloop := NeuralNetwork.readLayers_spec fuel toUint toReal
            (Global.split l3 ',') (Global.split l3 ',') 0
            (List.replicate (toUint l2) ([] : List (Unit R))) s3 l3 g rfl
            (by simp [hlen'])
          simp only [Nat.zero_add, List.take_zero, List.nil_append, hp3, hlen']
            at hloop
          have hread : NeuralNetwork.read fuel toUint toReal is g =
              ((List.range (toUint l2)).foldlM
                (fun st k => NeuralNetwork.readLayer fuel toUint toReal
                  (Global.split l3 ',') st k)
                (some (List.replicate (toUint l2) [], ⟨s3⟩, l3, g))).bind
              (fun r => match r with
                | none => .ok none
                | some (network, is, _, g1) =>
                  match network.getLast? with
                  | none => .error .undefined
                  | some last =>
                    .ok (some (⟨toUint l1, toUint l2,
                      List.replicate (toUint l1) 0, network,
                      List.replicate last.length 0⟩, is, g1))) := by
            unfold NeuralNetwork.read
            simp only [hr1, hr2, hr3, not_true_eq_false, if_false]
            rw [if_neg hlen]
            rfl
          have hparse : NeuralNetwork.parse toUint toReal
              (l1 :: l2 :: l3 :: rest) =
              (NeuralNetwork.parseLayers toUint toReal
                ((Global.split l3 ',').map toUint) rest).bind
              (fun r => match r.1.getLast? with
                | none => .error .undefined
                | some last =>
                  .ok ⟨toUint l1, toUint l2, List.replicate (toUint l1) 0, r.1,
                    List.replicate last.length 0⟩) := by
            unfold NeuralNetwork.parse
            simp only []
            rw [if_neg hlen]
            rfl
          rw [hread, hparse]
          rcases hloop with ⟨h1, h2⟩ |
            ⟨layers, rest', segs', line', g', h1, h2, _⟩ | ⟨e, h1, h2⟩
          · left
            rw [h1]
            exact ⟨rfl, h2⟩
          · rw [h1, h2]
            simp only [Except.bind]
            cases hlast : layers.getLast? with
            | none =>
              right; right
              exact ⟨.undefined, rfl, rfl⟩
            | some last =>
              right; left
              exact ⟨_, _, _, rfl, rfl⟩
          · right; right
            rw [h1, h2]
            exact ⟨e, rfl, rfl⟩

end ReadTop

/-! ## C27: reading a malformed model -/

section ParseFacts

variable {R : Type} [LinearOrderedField R]

/-- `Unit::read` raises nothing but `read_error`. -/
theorem Unit.read_raises (toUint : List Char → Nat)
    (toReal : List Char → R) (is : IStream) (e : Error)
    (h : Unit.read toUint toReal is = .error e) : e = .read_error := by
  obtain ⟨h1, h2, h3⟩ := Unit.read_cases toUint toReal is _ rfl
  by_cases c1 : (Global.split (Global.trim (getline is []).2.1 [' ']) ',').length
      < 2
  · rw [h1 c1] at h
    injection h with h
    exact h.symm
  · by_cases c2 : (Global.split (Global.trim (getline is []).2.1 [' '])
        ',').length - 1 = toUint ((Global.split
          (Global.trim (getline is []).2.1 [' ']) ',').headD [])
    · rw [h3 (by omega) c2] at h
      cases h
    · rw [h2 (by omega) c2] at h
      injection h with h
      exact h.symm

theorem Unit.ofLine_error (toUint : List Char → Nat) (toReal : List Char → R)
    (l : List Char) (e : Error) (h : Unit.ofLine toUint toReal l = .error e) :
    e = .read_error := by
  unfold Unit.ofLine at h
  cases hr : Unit.read toUint toReal (IStream.ofText '\n' l) with
  | ok p => rw [hr] at h; cases h
  | error e' =>
    rw [hr] at h
    have : e' = e := by
      injection h
    rw [← this]
    exact Unit.read_raises toUint toReal _ e' hr

/-- What `parseUnits` returns and raises: `n` units from the first `n`
lines, or `read_error`. -/
theorem NeuralNetwork.parseUnits_facts (toUint : List Char → Nat)
    (toReal : List Char → R) :
    ∀ (n : Nat) (ls : List (List Char)),
      (∀ us rest, NeuralNetwork.parseUnits toUint toReal n ls = .ok (us, rest) →
        us.length = n ∧ ls.length = n + rest.length ∧
        ∀ u ∈ us, ∃ l, Unit.ofLine toUint toReal l = .ok u) ∧
      (∀ e, NeuralNetwork.parseUnits toUint toReal n ls = .error e →
        e = .read_error)
  | 0, ls => by
    constructor
    · intro us rest h
      rw [NeuralNetwork.parseUnits] at h
      injection h with h
      injection h with h1 h2
      subst h1
      subst h2
      exact ⟨rfl, by simp, fun u hu => by cases hu⟩
    · intro e h
      rw [NeuralNetwork.parseUnits] at h
      cases h
  | n + 1, [] => by
    constructor
    · intro us rest h
      rw [NeuralNetwork.parseUnits] at h
      cases h
    · intro e h
      rw [NeuralNetwork.parseUnits] at h
      injection h with h
      exact h.symm
  | n + 1, l :: ls => by
    obtain ⟨ih1, ih2⟩ := NeuralNetwork.parseUnits_facts toUint toReal n ls
    cases ho : Unit.ofLine toUint toReal l with
    | error e0 =>
      constructor
      · intro us rest h
        rw [NeuralNetwork.parseUnits] at h
        simp only [ho, bind, Except.bind] at h
        cases h
      · intro e h
        rw [NeuralNetwork.parseUnits] at h
        simp only [ho, bind, Except.bind] at h
        injection h with h
        subst h
        exact Unit.ofLine_error toUint toReal l _ ho
    | ok u =>
      cases hq : NeuralNetwork.parseUnits toUint toReal n ls with
      | error e1 =>
        constructor
        · intro us rest h
          rw [NeuralNetwork.parseUnits] at h
          simp only [ho, hq, bind, Except.bind] at h
          cases h
        · intro e h
          rw [NeuralNetwork.parseUnits] at h
          simp only [ho, hq, bind, Except.bind] at h
          injection h with h
          subst h
          exact ih2 _ hq
      | ok q =>
        obtain ⟨us1, rest1⟩ := q
        obtain ⟨a, b, c⟩ := ih1 us1 rest1 hq
        constructor
        · intro us rest h
          rw [NeuralNetwork.parseUnits] at h
          simp only [ho, hq, bind, Except.bind, pure, Except.pure] at h
          injection h with h
          injection h with h1 h2
          subst h1
          subst h2
          refine ⟨by simp [a], by simp only [List.length_cons]; omega,
            fun v hv => ?_⟩
          rcases List.mem_cons.1 hv with hv | hv
          · subst hv
            exact ⟨l, ho⟩
          · exact c v hv
        · intro e h
          rw [NeuralNetwork.parseUnits] at h
          simp only [ho, hq, bind, Except.bind, pure, Except.pure] at h
          cases h

/-- What `parseLayers` returns and raises: layers of the given sizes, read
from as many lines as the sizes add up to, or `read_error`. -/
theorem NeuralNetwork.parseLayers_facts (toUint : List Char → Nat)
    (toReal : List Char → R) :
    ∀ (ns : List Nat) (ls : List (List Char)),
      (∀ layers rest,
        NeuralNetwork.parseLayers toUint toReal ns ls = .ok (layers, rest) →
        layers.map List.length = ns ∧ ls.length = ns.sum + rest.length ∧
        ∀ layer ∈ layers, ∀ u ∈ layer,
          ∃ l, Unit.ofLine toUint toReal l = .ok u) ∧
      (∀ e, NeuralNetwork.parseLayers toUint toReal ns ls = .error e →
        e = .read_error)
  | [], ls => by
    constructor
    · intro layers rest h
      rw [NeuralNetwork.parseLayers] at h
      injection h with h
      injection h with h1 h2
      subst h1
      subst h2
      exact ⟨rfl, by simp, fun layer hl => by cases hl⟩
    · intro e h
      rw [NeuralNetwork.parseLayers] at h
      cases h
  | n :: ns, ls => by
    obtain ⟨u1, u2⟩ := NeuralNetwork.parseUnits_facts toUint toReal n ls
    cases hq : NeuralNetwork.parseUnits toUint toReal n ls with
    | error e0 =>
      constructor
      · intro layers rest h
        rw [NeuralNetwork.parseLayers] at h
        simp only [hq, bind, Except.bind] at h
        cases h
      · intro e h
        rw [NeuralNetwork.parseLayers] at h
        simp only [hq, bind, Except.bind] at h
        injection h with h
        subst h
        exact u2 _ hq
    | ok q =>
      obtain ⟨us, rest1⟩ := q
      obtain ⟨a, b, c⟩ := u1 us rest1 hq
      obtain ⟨ih1, ih2⟩ := NeuralNetwork.parseLayers_facts toUint toReal ns rest1
      cases hr : NeuralNetwork.parseLayers toUint toReal ns rest1 with
      | error e1 =>
        constructor
        · intro layers rest h
          rw [NeuralNetwork.parseLayers] at h
          simp only [hq, hr, bind, Except.bind] at h
          cases h
        · intro e h
          rw [NeuralNetwork.parseLayers] at h
          simp only [hq, hr, bind, Except.bind] at h
          injection h with h
          subst h
          exact ih2 _ hr
      | ok q2 =>
        obtain ⟨layers1, rest2⟩ := q2
        obtain ⟨a2, b2, c2⟩ := ih1 layers1 rest2 hr
        constructor
        · intro layers rest h
          rw [NeuralNetwork.parseLayers] at h
          simp only [hq, hr, bind, Except.bind, pure, Except.pure] at h
          injection h with h
          injection h with h1 h2
          subst h1
          subst h2
          refine ⟨by simp [a, a2], by simp only [List.sum_cons]; omega,
            fun layer hl => ?_⟩
          rcases List.mem_cons.1 hl with hl | hl
          · subst hl
            exact c
          · exact c2 layer hl
        · intro e h
          rw [NeuralNetwork.parseLayers] at h
          simp only [hq, hr, bind, Except.bind, pure, Except.pure] at h
          cases h

theorem goodLine_ne_nil (l : List Char) (h : goodLine l = true) : l ≠ [] := by
  intro hl
  subst hl
  simp [goodLine] at h

/-- What `parse` returns and raises on good lines. -/
theorem NeuralNetwork.parse_facts (toUint : List Char → Nat)
    (toReal : List Char → R) (ls : List (List Char))
    (hg : ∀ l ∈ ls, goodLine l = true) :
    (∀ n, NeuralNetwork.parse toUint toReal ls = .ok n →
      ∃ (l1 l2 l3 : List Char) (rest rest' : List (List Char)),
        ls = l1 :: l2 :: l3 :: rest ∧
        n.ninputs = toUint l1 ∧ n.nlayers = toUint l2 ∧
        n.network.length = n.nlayers ∧ n.inputs = List.replicate n.ninputs 0 ∧
        n.network.map List.length = (Global.split l3 ',').map toUint ∧
        n.lastOutput =
          List.replicate (n.network.getLast?.getD []).length 0 ∧
        rest.length = ((Global.split l3 ',').map toUint).sum + rest'.length ∧
        ∀ layer ∈ n.network, ∀ u ∈ layer,
          ∃ l, Unit.ofLine toUint toReal l = .ok u) ∧
    (∀ e, NeuralNetwork.parse toUint toReal ls = .error e → e = .read_error) := by
  match ls, hg with
  | [], _ =>
    refine ⟨fun n h => ?_, fun e h => ?_⟩
    · cases h
    · injection h with h
      exact h.symm
  | [_], _ =>
    refine ⟨fun n h => ?_, fun e h => ?_⟩
    · cases h
    · injection h with h
      exact h.symm
  | [_, _], _ =>
    refine ⟨fun n h => ?_, fun e h => ?_⟩
    · cases h
    · injection h with h
      exact h.symm
  | l1 :: l2 :: l3 :: rest, hg =>
    have hl3 : l3 ≠ [] := goodLine_ne_nil l3 (hg l3 (by simp))
    by_cases hlen : (Global.split l3 ',').length ≠ toUint l2
    · have hp : NeuralNetwork.parse toUint toReal (l1 :: l2 :: l3 :: rest) =
          .error .read_error := by
        unfold NeuralNetwork.parse
        simp only []
        rw [if_pos hlen]
      rw [hp]
      refine ⟨fun n h => ?_, fun e h => ?_⟩
      · cases h
      · injection h with h
        exact h.symm
    · have hlen' : (Global.split l3 ',').length = toUint l2 := by
        simpa using hlen
      obtain ⟨f1, f2⟩ := NeuralNetwork.parseLayers_facts toUint toReal
        ((Global.split l3 ',').map toUint) rest
      cases hr : NeuralNetwork.parseLayers toUint toReal
          ((Global.split l3 ',').map toUint) rest with
      | error e0 =>
        have hp : NeuralNetwork.parse toUint toReal (l1 :: l2 :: l3 :: rest) =
            .error e0 := by
          unfold NeuralNetwork.parse
          simp only []
          rw [if_neg hlen]
          simp only [hr, bind, Except.bind]
        rw [hp]
        refine ⟨fun n h => ?_, fun e h => ?_⟩
        · cases h
        · injection h with h
          subst h
          exact f2 _ hr
      | ok q =>
        obtain ⟨layers, rest'⟩ := q
        obtain ⟨a, b, c⟩ := f1 layers rest' hr
        have hll : layers.length = toUint l2 := by
          have := congrArg List.length a
          simpa [hlen'] using this
        have hne : layers ≠ [] := by
          intro h0
          subst h0
          have := Global.split_ne_nil ',' l3 hl3
          simp only [List.length_nil] at hll
          rw [← hlen'] at hll
          exact this (List.length_eq_zero.1 hll.symm)
        obtain ⟨last, hlast⟩ : ∃ last, layers.getLast? = some last := by
          cases hgl : layers.getLast? with
          | none => exact absurd (List.getLast?_eq_none_iff.1 hgl) hne
          | some x => exact ⟨x, rfl⟩
        have hp : NeuralNetwork.parse toUint toReal (l1 :: l2 :: l3 :: rest) =
            .ok ⟨toUint l1, toUint l2, List.replicate (toUint l1) 0, layers,
              List.replicate last.length 0⟩ := by
          unfold NeuralNetwork.parse
          simp only []
          rw [if_neg hlen]
          simp only [hr, bind, Except.bind, hlast, pure, Except.pure]
        rw [hp]
        refine ⟨fun n h => ?_, fun e h => ?_⟩
        · injection h with h
          subst h
          exact ⟨l1, l2, l3, rest, rest', rfl, rfl, rfl, hll, rfl, a,
            by simp [hlast], b, c⟩
        · cases h

end ParseFacts

section ReadErrors

variable {R : Type} [LinearOrderedField R]

/-- With fewer than three good lines pending `NeuralNetwork::read` raises
`read_error` at one of the header lines. -/
theorem NeuralNetwork.read_header_missing (fuel : Nat)
    (toUint : List Char → Nat) (toReal : List Char → R) (is : IStream)
    (g : Rng) (h : (NeuralNetwork.pending is.segs).length < 3) :
    NeuralNetwork.read fuel toUint toReal is g = .error .read_error := by
  obtain ⟨hn1, hs1⟩ := NeuralNetwork.readNextGoodLine_spec is.segs []
  cases hp : NeuralNetwork.pending is.segs with
  | nil =>
    unfold NeuralNetwork.read
    simp only [hn1 hp]
    rfl
  | cons l1 ls1 =>
    obtain ⟨s1, hr1, hp1⟩ := hs1 l1 ls1 hp
    obtain ⟨hn2, hs2⟩ := NeuralNetwork.readNextGoodLine_spec s1 l1
    cases ls1 with
    | nil =>
      unfold NeuralNetwork.read
      simp only [hr1, hn2 hp1]
      rfl
    | cons l2 ls2 =>
      obtain ⟨s2, hr2, hp2⟩ := hs2 l2 ls2 hp1
      obtain ⟨hn3, hs3⟩ := NeuralNetwork.readNextGoodLine_spec s2 l2
      cases ls2 with
      | nil =>
        unfold NeuralNetwork.read
        simp only [hr1, hr2, hn3 hp2]
        rfl
      | cons l3 rest =>
        rw [hp] at h
        simp only [List.length_cons] at h
        omega

/-- When the line of the layer sizes has not as many fields as the layer
count says, `NeuralNetwork::read` raises `read_error`. -/
theorem NeuralNetwork.read_sizes_mismatch (fuel : Nat)
    (toUint : List Char → Nat) (toReal : List Char → R) (is : IStream)
    (g : Rng) (l1 l2 l3 : List Char) (rest : List (List Char))
    (hp : NeuralNetwork.pending is.segs = l1 :: l2 :: l3 :: rest)
    (hlen : (Global.split l3 ',').length ≠ toUint l2) :
    NeuralNetwork.read fuel toUint toReal is g = .error .read_error := by
  obtain ⟨_, hs1⟩ := NeuralNetwork.readNextGoodLine_spec is.segs []
  obtain ⟨s1, hr1, hp1⟩ := hs1 l1 _ hp
  obtain ⟨_, hs2⟩ := NeuralNetwork.readNextGoodLine_spec s1 l1
  obtain ⟨s2, hr2, hp2⟩ := hs2 l2 _ hp1
  obtain ⟨_, hs3⟩ := NeuralNetwork.readNextGoodLine_spec s2 l2
  obtain ⟨s3, hr3, hp3⟩ := hs3 l3 _ hp2
  unfold NeuralNetwork.read
  simp only [hr1, hr2, hr3, not_true_eq_false, if_false]
  rw [if_pos hlen]

/-- `NeuralNetwork::read` raises nothing but `read_error`. -/
theorem NeuralNetwork.read_error_only (fuel : Nat) (toUint : List Char → Nat)
    (toReal : List Char → R) (is : IStream) (g : Rng) (e : Error)
    (h : NeuralNetwork.read fuel toUint toReal is g = .error e) :
    e = .read_error := by
  rcases NeuralNetwork.read_spec fuel toUint toReal is g with
    ⟨h1, _⟩ | ⟨n, is', g', _, h1⟩ | ⟨e', hp, h1⟩
  · rw [h1] at h
    cases h
  · rw [h1] at h
    cases h
  · rw [h1] at h
    injection h with h
    subst h
    exact (NeuralNetwork.parse_facts toUint toReal _
      (NeuralNetwork.pending_good is.segs)).2 _ hp

end ReadErrors

/-- Claim C27: `NeuralNetwork::read` raises `read_error` when fewer than
three good lines (lines that are not empty and do not start with `#`) are
left to read, so when a header line is missing; when the line of the layer
sizes has not as many fields as the layer count says; and when fewer good
lines follow the header than the layer sizes add up to, so when a unit line
is missing.  It raises nothing else.  `Unit::read` raises `read_error` on a
line of fewer than two comma-separated fields and on a line whose first
field does not give the number of the fields behind it, and returns on
every other line. -/
theorem C27_read_errors {R : Type} [LinearOrderedField R] (fuel : Nat)
    (toUint : List Char → Nat) (toReal : List Char → R) (is : IStream)
    (g : Rng) :
    ((NeuralNetwork.pending is.segs).length < 3 →
      NeuralNetwork.read fuel toUint toReal is g = .error .read_error) ∧
    ((is.segs.filter goodLine).length < 3 →
      NeuralNetwork.read fuel toUint toReal is g = .error .read_error) ∧
    (∀ (l1 l2 l3 : List Char) (rest : List (List Char)),
      NeuralNetwork.pending is.segs = l1 :: l2 :: l3 :: rest →
      ((Global.split l3 ',').length ≠ toUint l2 →
        NeuralNetwork.read fuel toUint toReal is g = .error .read_error) ∧
      (0 < fuel → g.NoReject →
        rest.length < ((Global.split l3 ',').map toUint).sum →
        NeuralNetwork.read fuel toUint toReal is g = .error .read_error)) ∧
    (0 < fuel → g.NoReject →
      (∃ n is' g', NeuralNetwork.read fuel toUint toReal is g =
        .ok (some (n, is', g'))) ∨
      NeuralNetwork.read fuel toUint toReal is g = .error .read_error) ∧
    (∀ e, NeuralNetwork.read fuel toUint toReal is g = .error e →
      e = .read_error) ∧
    (∀ (s : IStream) (w : List (List Char)),
      w = Global.split (Global.trim (getline s []).2.1 [' ']) ',' →
      (w.length < 2 → Unit.read toUint toReal s = .error .read_error) ∧
      (2 ≤ w.length → w.length - 1 ≠ toUint (w.headD []) →
        Unit.read toUint toReal s = .error .read_error) ∧
      (2 ≤ w.length → w.length - 1 = toUint (w.headD []) →
        ∃ u s', Unit.read toUint toReal s = .ok (u, s'))) := by
  have hdich : 0 < fuel → g.NoReject →
      (∃ n is' g', NeuralNetwork.read fuel toUint toReal is g =
        .ok (some (n, is', g'))) ∨
      NeuralNetwork.read fuel toUint toReal is g = .error .read_error := by
    intro hf hg
    rcases NeuralNetwork.read_spec fuel toUint toReal is g with
      ⟨_, h2⟩ | ⟨n, is', g', _, h1⟩ | ⟨e', hp, h1⟩
    · exact absurd ⟨hf, hg⟩ h2
    · exact Or.inl ⟨n, is', g', h1⟩
    · right
      rw [h1, NeuralNetwork.read_error_only fuel toUint toReal is g e' h1]
  refine ⟨NeuralNetwork.read_header_missing fuel toUint toReal is g,
    fun h => ?_, fun l1 l2 l3 rest hp => ⟨fun hlen => ?_, fun hf hg hlt => ?_⟩,
    hdich, NeuralNetwork.read_error_only fuel toUint toReal is g,
    fun s w hw => ?_⟩
  · apply NeuralNetwork.read_header_missing
    have hsub : (NeuralNetwork.pending is.segs).length ≤
        (is.segs.filter goodLine).length := by
      unfold NeuralNetwork.pending
      exact ((List.dropLast_sublist is.segs).filter goodLine).length_le
    omega
  · exact NeuralNetwork.read_sizes_mismatch fuel toUint toReal is g l1 l2 l3
      rest hp hlen
  · rcases hdich hf hg with ⟨n, is', g', h1⟩ | h1
    · exfalso
      rcases NeuralNetwork.read_spec fuel toUint toReal is g with
        ⟨h2, _⟩ | ⟨n2, is2, g2, hp2, _⟩ | ⟨e', _, h2⟩
      · rw [h1] at h2
        cases h2
      · obtain ⟨m1, m2, m3, r, r', hls, _, _, _, _, _, _, hcount, _⟩ :=
          (NeuralNetwork.parse_facts toUint toReal _
            (NeuralNetwork.pending_good is.segs)).1 n2 hp2
        rw [hp] at hls
        injection hls with e1 hls
        injection hls with e2 hls
        injection hls with e3 hls
        subst e3
        subst hls
        omega
      · rw [h1] at h2
        cases h2
    · exact h1
  · obtain ⟨c1, c2, c3⟩ := Unit.read_cases toUint toReal s w hw
    exact ⟨c1, c2, fun a b => ⟨_, _, c3 a b⟩⟩

/-- An instance of C27: a text that ends after the layer count has no line
of layer sizes, and `read` raises `read_error`. -/
theorem C27_read_errors_witness :
    (NeuralNetwork.read 1 sampleToUint sampleToReal
        (IStream.ofText '\n' "# number of inputs\n2\n# number of layers\n2\n".toList)
        ⟨fun _ => 0⟩ : Except Error (Option (NeuralNetwork ℚ × IStream × Rng))) =
      .error .read_error :=
  (C27_read_errors 1 sampleToUint sampleToReal
    (IStream.ofText '\n' "# number of inputs\n2\n# number of layers\n2\n".toList)
    ⟨fun _ => 0⟩).1 (by decide)

/-! ## C26: writing a network and reading it back -/

section WriteFacts

variable {R : Type} [LinearOrderedField R]

omit [LinearOrderedField R] in
/-- `Unit::write` appends the line of the unit. -/
theorem Unit.write_line (fmtUint : Nat → List Char) (fmtReal : R → List Char)
    (u : Unit R) (os : List Char)
    (hw : u.weights.length = u.numberOfWeights) :
    u.write fmtUint fmtReal os = .ok (os ++ Unit.line fmtUint fmtReal u) := by
  unfold Unit.write
  obtain ⟨os', h1, h2⟩ := foldlM_range_inv
    (fun (os : List Char) i => do
      let w ← rawGet u.weights i
      pure (os ++ [','] ++ fmtReal w))
    (fun i os' => os' = os ++ fmtUint u.numberOfWeights ++
      ((u.weights.take i).map (fun w => ',' :: fmtReal w)).flatten)
    u.numberOfWeights (os ++ fmtUint u.numberOfWeights)
    (by simp)
    (by
      intro i s hi hs
      subst hs
      have hi' : i < u.weights.length := by omega
      refine ⟨os ++ fmtUint u.numberOfWeights ++
          ((u.weights.take i).map (fun w => ',' :: fmtReal w)).flatten ++ [','] ++
          fmtReal (u.weights.get ⟨i, hi'⟩), by
        simp only [rawGet_ok _ _ hi', bind, Except.bind, pure, Except.pure],
        ?_⟩
      have e : u.weights.take (i + 1) =
          u.weights.take i ++ [u.weights.get ⟨i, hi'⟩] := by
        rw [List.take_succ, List.getElem?_eq_getElem hi']
        rfl
      show _ = os ++ fmtUint u.numberOfWeights ++
        ((u.weights.take (i + 1)).map (fun w => ',' :: fmtReal w)).flatten
      rw [e, List.map_append, List.flatten_append]
      simp only [List.map_cons, List.map_nil, List.flatten_cons,
        List.flatten_nil, List.append_nil, List.append_assoc, List.cons_append,
        List.nil_append, List.singleton_append])
  have ht : u.weights.take u.numberOfWeights = u.weights := by
    rw [← hw, List.take_length]
  rw [h1, h2, ht]
  unfold Unit.line
  rw [List.append_assoc]

theorem unlines_append (a b : List (List Char)) :
    unlines (a ++ b) = unlines a ++ unlines b := by
  unfold unlines
  simp

theorem unlines_cons (l : List Char) (ls : List (List Char)) :
    unlines (l :: ls) = l ++ '\n' :: unlines ls := by
  unfold unlines
  simp

omit [LinearOrderedField R] in
theorem NeuralNetwork.layerLines_append (fmtUint : Nat → List Char)
    (fmtReal : R → List Char) :
    ∀ (a b : List (List (Unit R))) (i : Nat),
      NeuralNetwork.layerLines fmtUint fmtReal i (a ++ b) =
        NeuralNetwork.layerLines fmtUint fmtReal i a ++
          NeuralNetwork.layerLines fmtUint fmtReal (i + a.length) b
  | [], b, i => by simp [NeuralNetwork.layerLines]
  | l :: a, b, i => by
    rw [List.cons_append, NeuralNetwork.layerLines, NeuralNetwork.layerLines,
      NeuralNetwork.layerLines_append fmtUint fmtReal a b (i + 1)]
    simp only [List.length_cons, List.append_assoc]
    rw [show i + 1 + a.length = i + (a.length + 1) by omega]

omit [LinearOrderedField R] in
/-- The inner loop of `NeuralNetwork::write` appends the lines of the units
of the layer. -/
theorem NeuralNetwork.writeUnits_ok (fmtUint : Nat → List Char)
    (fmtReal : R → List Char) (n : NeuralNetwork R) (i : Nat)
    (l : List (Unit R)) (os : List Char) (hl : n.network[i]? = some l)
    (hu : ∀ u ∈ l, u.weights.length = u.numberOfWeights) :
    (List.range l.length).foldlM (fun (os : List Char) j => do
        let l ← atGet n.network i
        let u ← atGet l j
        let os ← u.write fmtUint fmtReal os
        pure (os ++ ['\n'])) os =
      .ok (os ++ unlines (l.map (Unit.line fmtUint fmtReal))) := by
  obtain ⟨os', h1, h2⟩ := foldlM_range_inv
    (fun (os : List Char) j => do
      let l ← atGet n.network i
      let u ← atGet l j
      let os ← u.write fmtUint fmtReal os
      pure (os ++ ['\n']))
    (fun j os' => os' = os ++
      unlines ((l.take j).map (Unit.line fmtUint fmtReal)))
    l.length os (by simp [unlines])
    (by
      intro j s hj hs
      subst hs
      have hget : l[j]? = some l[j] := List.getElem?_eq_getElem hj
      refine ⟨os ++ unlines ((l.take j).map (Unit.line fmtUint fmtReal)) ++
          Unit.line fmtUint fmtReal l[j] ++ ['\n'], by
        simp only [atGet_of_get? _ _ _ hl, atGet_of_get? _ _ _ hget,
          Unit.write_line fmtUint fmtReal _ _ (hu _ (List.getElem_mem hj)), bind,
          Except.bind, pure, Except.pure], ?_⟩
      have e : l.take (j + 1) = l.take j ++ [l[j]] := by
        rw [List.take_succ, hget]
        rfl
      show _ = os ++ unlines ((l.take (j + 1)).map (Unit.line fmtUint fmtReal))
      rw [e, List.map_append, unlines_append]
      simp only [unlines, List.map_cons, List.map_nil, List.flatten_cons,
        List.flatten_nil, List.append_nil, List.append_assoc])
  rw [h1, h2, List.take_length]

omit [LinearOrderedField R] in
/-- The loop of `NeuralNetwork::write` over the layers behind the first one
appends a comma and the size for each. -/
theorem NeuralNetwork.writeSizes_ok (fmtUint : Nat → List Char)
    (n : NeuralNetwork R) (os : List Char) :
    (List.range (n.network.length - 1)).foldlM (fun (os : List Char) k => do
        let l ← atGet n.network (k + 1)
        pure (os ++ [','] ++ fmtUint l.length)) os =
      .ok (os ++ ((n.network.drop 1).map
        (fun l => ',' :: fmtUint l.length)).flatten) := by
  obtain ⟨s1, hs1, hP1⟩ := foldlM_range_inv
    (fun (os : List Char) k => do
      let l ← atGet n.network (k + 1)
      pure (os ++ [','] ++ fmtUint l.length))
    (fun k os' => os' = os ++ (((n.network.drop 1).take k).map
        (fun l => ',' :: fmtUint l.length)).flatten)
    (n.network.length - 1) os
    (by
      show os = os ++ _
      rw [List.take_zero]
      exact (List.append_nil os).symm)
    (by
      intro k s hk hs
      subst hs
      have hk' : k + 1 < n.network.length := by omega
      have hget : n.network[k + 1]? = some n.network[k + 1] :=
        List.getElem?_eq_getElem hk'
      have hget' : (n.network.drop 1)[k]? = some n.network[k + 1] := by
        rw [List.getElem?_drop, show 1 + k = k + 1 by omega]
        exact hget
      refine ⟨os ++ (((n.network.drop 1).take k).map
          (fun l => ',' :: fmtUint l.length)).flatten ++ [','] ++
        fmtUint n.network[k + 1].length, by
        simp only [atGet_of_get? _ _ _ hget, bind, Except.bind, pure,
          Except.pure], ?_⟩
      have e : (n.network.drop 1).take (k + 1) =
          (n.network.drop 1).take k ++ [n.network[k + 1]] := by
        rw [List.take_succ, hget']
        rfl
      show _ = _ ++ (((n.network.drop 1).take (k + 1)).map
        (fun l => ',' :: fmtUint l.length)).flatten
      rw [e, List.map_append, List.flatten_append]
      simp only [List.map_cons, List.map_nil, List.flatten_cons,
        List.flatten_nil, List.append_nil, List.append_assoc, List.cons_append,
        List.nil_append, List.singleton_append])
  have ht1 : (n.network.drop 1).take (n.network.length - 1) =
      n.network.drop 1 := by
    apply List.take_of_length_le
    rw [List.length_drop]
  rw [ht1] at hP1
  rw [hs1, hP1]

omit [LinearOrderedField R] in
/-- The loop of `NeuralNetwork::write` over the layers appends their
lines. -/
theorem NeuralNetwork.writeLayers_ok (fmtUint : Nat → List Char)
    (fmtReal : R → List Char) (n : NeuralNetwork R) (os : List Char)
    (hu : ∀ l ∈ n.network, ∀ u ∈ l, u.weights.length = u.numberOfWeights) :
    (List.range n.network.length).foldlM (fun (os : List Char) i => do
        let os := os ++ "# units layer ".toList ++ fmtUint i ++ ['\n']
        let l ← atGet n.network i
        (List.range l.length).foldlM (fun (os : List Char) j => do
          let l ← atGet n.network i
          let u ← atGet l j
          let os ← u.write fmtUint fmtReal os
          pure (os ++ ['\n'])) os) os =
      .ok (os ++ unlines
        (NeuralNetwork.layerLines fmtUint fmtReal 0 n.network)) := by
  obtain ⟨s2, hs2, hP2⟩ := foldlM_range_inv
    (fun (os : List Char) i => do
      let os := os ++ "# units layer ".toList ++ fmtUint i ++ ['\n']
      let l ← atGet n.network i
      (List.range l.length).foldlM (fun (os : List Char) j => do
        let l ← atGet n.network i
        let u ← atGet l j
        let os ← u.write fmtUint fmtReal os
        pure (os ++ ['\n'])) os)
    (fun i os' => os' = os ++
      unlines (NeuralNetwork.layerLines fmtUint fmtReal 0 (n.network.take i)))
    n.network.length os
    (by
      show os = os ++ _
      rw [List.take_zero]
      exact (List.append_nil os).symm)
    (by
      intro i s hi hs
      subst hs
      have hget : n.network[i]? = some n.network[i] :=
        List.getElem?_eq_getElem hi
      refine ⟨os ++ unlines (NeuralNetwork.layerLines fmtUint
          fmtReal 0 (n.network.take i)) ++ "# units layer ".toList ++
          fmtUint i ++ ['\n'] ++
          unlines (n.network[i].map (Unit.line fmtUint fmtReal)), by
        refine Eq.trans (congrArg (fun x => x >>= _)
          (atGet_of_get? _ _ _ hget)) ?_
        exact NeuralNetwork.writeUnits_ok fmtUint fmtReal n i _ _ hget
          (hu _ (List.getElem_mem hi)), ?_⟩
      have e : n.network.take (i + 1) = n.network.take i ++ [n.network[i]] := by
        rw [List.take_succ, hget]
        rfl
      show _ = os ++ unlines (NeuralNetwork.layerLines fmtUint
        fmtReal 0 (n.network.take (i + 1)))
      rw [e, NeuralNetwork.layerLines_append, unlines_append]
      simp only [NeuralNetwork.layerLines, List.append_nil, unlines_cons,
        List.append_assoc, List.cons_append, List.nil_append,
        List.length_take, Nat.min_eq_left (Nat.le_of_lt hi), Nat.zero_add,
        List.singleton_append])
  rw [List.take_length] at hP2
  rw [hs2, hP2]

omit [LinearOrderedField R] in
/-- `NeuralNetwork::write` appends the lines of the network, each ended by
a newline. -/
theorem NeuralNetwork.write_ok (fmtUint : Nat → List Char)
    (fmtReal : R → List Char) (n : NeuralNetwork R) (os : List Char)
    (hne : n.network ≠ [])
    (hu : ∀ l ∈ n.network, ∀ u ∈ l, u.weights.length = u.numberOfWeights) :
    n.write fmtUint fmtReal os =
      .ok (os ++ unlines (NeuralNetwork.lines fmtUint fmtReal n)) := by
  obtain ⟨l0, ls, hnet⟩ : ∃ l0 ls, n.network = l0 :: ls := by
    cases hn : n.network with
    | nil => exact absurd hn hne
    | cons a b => exact ⟨a, b, rfl⟩
  have h0 : n.network[0]? = some l0 := by rw [hnet]; simp
  have hb : ∀ {α β : Type} (a : α) (f : α → Except Error β),
      (Except.ok a >>= f) = f a := fun _ _ => rfl
  unfold NeuralNetwork.write
  simp only [atGet_of_get? _ _ _ h0]
  rw [hb, NeuralNetwork.writeSizes_ok, hb,
    NeuralNetwork.writeLayers_ok fmtUint fmtReal n _ hu]
  unfold NeuralNetwork.lines NeuralNetwork.sizesLine
  rw [hnet]
  simp only [List.headD_cons, unlines_cons,
    List.cons_append, List.nil_append, List.append_assoc, List.singleton_append,
    List.drop_succ_cons, List.drop_zero]

end WriteFacts

section RoundTrip

variable {R : Type} [LinearOrderedField R]

/-- The segments of a text of lines, each ended by a newline: the lines and
an empty segment behind the last newline. -/
theorem segments_unlines :
    ∀ ls : List (List Char), (∀ l ∈ ls, ∀ c ∈ l, c ≠ '\n') →
      segments '\n' (unlines ls) = ls ++ [[]]
  | [], _ => rfl
  | l :: ls, h => by
    rw [unlines_cons, segments_append_delim '\n' _ l
      (h l (List.mem_cons_self _ _)),
      segments_unlines ls (fun x hx => h x (List.mem_cons_of_mem _ hx))]
    rfl

theorem Token.goodLine_append (t rest : List Char) (h : Token t) :
    goodLine (t ++ rest) = true := by
  obtain ⟨hne, hc⟩ := h
  cases t with
  | nil => exact absurd rfl hne
  | cons c cs =>
    have : c ≠ '#' := (hc c (List.mem_cons_self _ _)).2.2.2
    simp [goodLine, this]

omit [LinearOrderedField R] in
/-- The line of a unit is made of tokens and commas. -/
theorem Unit.line_chars (fmtUint : Nat → List Char) (fmtReal : R → List Char)
    (hU : ∀ k, Token (fmtUint k)) (hR : ∀ x, Token (fmtReal x)) (u : Unit R) :
    ∀ c ∈ Unit.line fmtUint fmtReal u, c ≠ '\n' ∧ c ≠ ' ' := by
  intro c hc
  unfold Unit.line at hc
  rcases List.mem_append.1 hc with h | h
  · exact ⟨((hU _).2 c h).2.1, ((hU _).2 c h).2.2.1⟩
  · obtain ⟨x, hx, hcx⟩ := List.mem_flatten.1 h
    obtain ⟨w, _, rfl⟩ := List.mem_map.1 hx
    rcases List.mem_cons.1 hcx with h1 | h1
    · subst h1
      exact ⟨by decide, by decide⟩
    · exact ⟨((hR _).2 c h1).2.1, ((hR _).2 c h1).2.2.1⟩

/-- Reading the line that `Unit::write` wrote for a unit gives a fresh unit
with the weights as `toReal` reads what `fmtReal` wrote. -/
theorem Unit.ofLine_line (fmtUint : Nat → List Char) (fmtReal : R → List Char)
    (toUint : List Char → Nat) (toReal : List Char → R)
    (hU : ∀ k, Token (fmtUint k) ∧ toUint (fmtUint k) = k)
    (hR : ∀ x, Token (fmtReal x)) (u : Unit R)
    (hw : u.weights.length = u.numberOfWeights) (h1 : 1 ≤ u.numberOfWeights) :
    Unit.ofLine toUint toReal (Unit.line fmtUint fmtReal u) =
      .ok (Unit.fresh (u.weights.map (fun w => toReal (fmtReal w)))) := by
  have hchars := Unit.line_chars fmtUint fmtReal (fun k => (hU k).1) hR u
  have hseg : segments '\n' (Unit.line fmtUint fmtReal u) =
      [Unit.line fmtUint fmtReal u] :=
    segments_no_delim '\n' _ (fun c hc => (hchars c hc).1)
  have hgl : (getline (IStream.ofText '\n' (Unit.line fmtUint fmtReal u))
      []).2.1 = Unit.line fmtUint fmtReal u := by
    unfold getline IStream.ofText
    simp only [hseg]
  have htrim : Global.trim (Unit.line fmtUint fmtReal u) [' '] =
      Unit.line fmtUint fmtReal u :=
    Global.trim_clean _ _ (fun c hc => by
      have := (hchars c hc).2
      simpa using this)
  have hsplit : Global.split (Unit.line fmtUint fmtReal u) ',' =
      fmtUint u.numberOfWeights :: u.weights.map fmtReal := by
    have e : Unit.line fmtUint fmtReal u = fmtUint u.numberOfWeights ++
        ((u.weights.map fmtReal).map (fun x => ',' :: x)).flatten := by
      unfold Unit.line
      rw [List.map_map]
      rfl
    rw [e]
    apply Global.split_tokens
    · exact ⟨(hU _).1.1, fun c hc => ((hU _).1.2 c hc).1⟩
    · intro x hx
      obtain ⟨w, _, rfl⟩ := List.mem_map.1 hx
      exact ⟨(hR w).1, fun c hc => ((hR w).2 c hc).1⟩
  obtain ⟨_, _, c3⟩ := Unit.read_cases toUint toReal
    (IStream.ofText '\n' (Unit.line fmtUint fmtReal u))
    (fmtUint u.numberOfWeights :: u.weights.map fmtReal)
    (by rw [hgl, htrim, hsplit])
  unfold Unit.ofLine
  rw [c3 (by simp only [List.length_cons, List.length_map]; omega)
    (by simp only [List.length_cons, List.length_map, List.headD_cons,
      (hU _).2]; omega)]
  simp only [Except.map, List.drop_succ_cons, List.drop_zero, List.map_map]
  rfl

/-- Reading the lines of the units of a layer gives the units back. -/
theorem NeuralNetwork.parseUnits_lines (fmtUint : Nat → List Char)
    (fmtReal : R → List Char) (toUint : List Char → Nat)
    (toReal : List Char → R)
    (hU : ∀ k, Token (fmtUint k) ∧ toUint (fmtUint k) = k)
    (hR : ∀ x, Token (fmtReal x)) (rest : List (List Char)) :
    ∀ l : List (Unit R),
      (∀ u ∈ l, u.weights.length = u.numberOfWeights ∧ 1 ≤ u.numberOfWeights) →
      NeuralNetwork.parseUnits toUint toReal l.length
          (l.map (Unit.line fmtUint fmtReal) ++ rest) =
        .ok (l.map (fun u =>
          Unit.fresh (u.weights.map (fun w => toReal (fmtReal w)))), rest)
  | [], _ => rfl
  | u :: l, h => by
    have hu := h u (List.mem_cons_self _ _)
    simp only [List.length_cons, List.map_cons, List.cons_append]
    rw [NeuralNetwork.parseUnits,
      Unit.ofLine_line fmtUint fmtReal toUint toReal hU hR u hu.1 hu.2,
      NeuralNetwork.parseUnits_lines fmtUint fmtReal toUint toReal hU hR rest l
        (fun v hv => h v (List.mem_cons_of_mem _ hv))]
    rfl

/-- The lines of the units of all the layers, in order. -/
theorem NeuralNetwork.parseLayers_lines (fmtUint : Nat → List Char)
    (fmtReal : R → List Char) (toUint : List Char → Nat)
    (toReal : List Char → R)
    (hU : ∀ k, Token (fmtUint k) ∧ toUint (fmtUint k) = k)
    (hR : ∀ x, Token (fmtReal x)) :
    ∀ network : List (List (Unit R)),
      (∀ l ∈ network, ∀ u ∈ l,
        u.weights.length = u.numberOfWeights ∧ 1 ≤ u.numberOfWeights) →
      NeuralNetwork.parseLayers toUint toReal (network.map List.length)
          (network.map (fun l => l.map (Unit.line fmtUint fmtReal))).flatten =
        .ok (network.map (fun l => l.map (fun u =>
          Unit.fresh (u.weights.map (fun w => toReal (fmtReal w))))), [])
  | [], _ => rfl
  | l :: network, h => by
    simp only [List.map_cons, List.flatten_cons]
    rw [NeuralNetwork.parseLayers,
      NeuralNetwork.parseUnits_lines fmtUint fmtReal toUint toReal hU hR _ l
        (h l (List.mem_cons_self _ _))]
    simp only [bind, Except.bind]
    rw [NeuralNetwork.parseLayers_lines fmtUint fmtReal toUint toReal hU hR
      network (fun x hx => h x (List.mem_cons_of_mem _ hx))]
    rfl

end RoundTrip

section RoundTrip2

variable {R : Type} [LinearOrderedField R]

omit [LinearOrderedField R] in
theorem NeuralNetwork.sizesLine_chars (fmtUint : Nat → List Char)
    (hU : ∀ k, Token (fmtUint k)) (network : List (List (Unit R))) :
    ∀ c ∈ NeuralNetwork.sizesLine fmtUint network, c ≠ '\n' := by
  intro c hc
  unfold NeuralNetwork.sizesLine at hc
  rcases List.mem_append.1 hc with h | h
  · exact ((hU _).2 c h).2.1
  · obtain ⟨x, hx, hcx⟩ := List.mem_flatten.1 h
    obtain ⟨w, _, rfl⟩ := List.mem_map.1 hx
    rcases List.mem_cons.1 hcx with h1 | h1
    · subst h1
      decide
    · exact ((hU _).2 c h1).2.1

omit [LinearOrderedField R] in
theorem NeuralNetwork.layerLines_chars (fmtUint : Nat → List Char)
    (fmtReal : R → List Char) (hU : ∀ k, Token (fmtUint k))
    (hR : ∀ x, Token (fmtReal x)) :
    ∀ (network : List (List (Unit R))) (i : Nat),
      ∀ l ∈ NeuralNetwork.layerLines fmtUint fmtReal i network,
        ∀ c ∈ l, c ≠ '\n'
  | [], _, l, hl => by
    simp [NeuralNetwork.layerLines] at hl
  | layer :: network, i, l, hl => by
    rw [NeuralNetwork.layerLines] at hl
    rcases List.mem_append.1 hl with h | h
    · rcases List.mem_cons.1 h with h1 | h1
      · subst h1
        intro c hc
        rcases List.mem_append.1 hc with h2 | h2
        · have hd : ∀ c ∈ "# units layer ".toList, c ≠ '\n' := by decide
          exact hd c h2
        · exact ((hU _).2 c h2).2.1
      · obtain ⟨u, _, rfl⟩ := List.mem_map.1 h1
        exact fun c hc => (Unit.line_chars fmtUint fmtReal hU hR u c hc).1
    · exact NeuralNetwork.layerLines_chars fmtUint fmtReal hU hR network (i + 1)
        l h

omit [LinearOrderedField R] in
/-- The good lines among the lines of the layers are the lines of the
units. -/
theorem NeuralNetwork.layerLines_good (fmtUint : Nat → List Char)
    (fmtReal : R → List Char) (hU : ∀ k, Token (fmtUint k)) :
    ∀ (network : List (List (Unit R))) (i : Nat),
      (NeuralNetwork.layerLines fmtUint fmtReal i network).filter goodLine =
        (network.map (fun l => l.map (Unit.line fmtUint fmtReal))).flatten
  | [], _ => rfl
  | layer :: network, i => by
    rw [NeuralNetwork.layerLines, List.filter_append, List.filter_cons,
      NeuralNetwork.layerLines_good fmtUint fmtReal hU network (i + 1)]
    have hc : goodLine ("# units layer ".toList ++ fmtUint i) = false := by
      rfl
    have hl : (layer.map (Unit.line fmtUint fmtReal)).filter goodLine =
        layer.map (Unit.line fmtUint fmtReal) := by
      apply List.filter_eq_self.2
      intro x hx
      obtain ⟨u, _, rfl⟩ := List.mem_map.1 hx
      exact Token.goodLine_append _ _ (hU _)
    rw [hc, hl]
    simp

omit [LinearOrderedField R] in
/-- The lines of a network hold no newline, and the good ones among them
are the three header values and the lines of the units. -/
theorem NeuralNetwork.lines_facts (fmtUint : Nat → List Char)
    (fmtReal : R → List Char) (hU : ∀ k, Token (fmtUint k))
    (hR : ∀ x, Token (fmtReal x)) (n : NeuralNetwork R) :
    (∀ l ∈ NeuralNetwork.lines fmtUint fmtReal n, ∀ c ∈ l, c ≠ '\n') ∧
    (NeuralNetwork.lines fmtUint fmtReal n).filter goodLine =
      fmtUint n.ninputs :: fmtUint n.network.length ::
        NeuralNetwork.sizesLine fmtUint n.network ::
        (n.network.map (fun l => l.map (Unit.line fmtUint fmtReal))).flatten := by
  constructor
  · intro l hl
    unfold NeuralNetwork.lines at hl
    rcases List.mem_append.1 hl with h | h
    · simp only [List.mem_cons, List.mem_singleton, List.not_mem_nil,
        or_false] at h
      rcases h with h | h | h | h | h | h
      · subst h; decide
      · subst h; exact fun c hc => ((hU _).2 c hc).2.1
      · subst h; decide
      · subst h; exact fun c hc => ((hU _).2 c hc).2.1
      · subst h; decide
      · subst h; exact NeuralNetwork.sizesLine_chars fmtUint hU _
    · exact NeuralNetwork.layerLines_chars fmtUint fmtReal hU hR _ 0 l h
  · unfold NeuralNetwork.lines
    rw [List.filter_append, NeuralNetwork.layerLines_good fmtUint fmtReal hU]
    have g1 : goodLine (fmtUint n.ninputs) = true := by
      have := Token.goodLine_append _ [] (hU n.ninputs)
      rwa [List.append_nil] at this
    have g2 : goodLine (fmtUint n.network.length) = true := by
      have := Token.goodLine_append _ [] (hU n.network.length)
      rwa [List.append_nil] at this
    have g3 : goodLine (NeuralNetwork.sizesLine fmtUint n.network) = true :=
      Token.goodLine_append _ _ (hU _)
    have c1 : goodLine "# number of inputs".toList = false := by rfl
    have c2 : goodLine "# number of layers".toList = false := by rfl
    have c3 : goodLine "# units for any layer".toList = false := by rfl
    simp only [List.filter_cons, List.filter_nil, g1, g2, g3, c1, c2, c3,
      if_true, Bool.false_eq_true, if_false, List.cons_append, List.nil_append]

omit [LinearOrderedField R] in
/-- The fields of the line of the layer sizes are the layer sizes. -/
theorem NeuralNetwork.split_sizesLine (fmtUint : Nat → List Char)
    (hU : ∀ k, Token (fmtUint k)) (network : List (List (Unit R)))
    (hne : network ≠ []) :
    Global.split (NeuralNetwork.sizesLine fmtUint network) ',' =
      network.map (fun l => fmtUint l.length) := by
  cases network with
  | nil => exact absurd rfl hne
  | cons l0 ls =>
    unfold NeuralNetwork.sizesLine
    simp only [List.headD_cons, List.drop_succ_cons, List.drop_zero,
      List.map_cons]
    have e : ls.map (fun l => ',' :: fmtUint l.length) =
        (ls.map (fun l => fmtUint l.length)).map (fun x => ',' :: x) := by
      rw [List.map_map]
      rfl
    rw [e]
    apply Global.split_tokens
    · exact ⟨(hU _).1, fun c hc => ((hU _).2 c hc).1⟩
    · intro x hx
      obtain ⟨w, _, rfl⟩ := List.mem_map.1 hx
      exact ⟨(hU _).1, fun c hc => ((hU _).2 c hc).1⟩

/-- The good lines of what `write` wrote denote the network reread. -/
theorem NeuralNetwork.parse_lines (fmtUint : Nat → List Char)
    (fmtReal : R → List Char) (toUint : List Char → Nat)
    (toReal : List Char → R)
    (hU : ∀ k, Token (fmtUint k) ∧ toUint (fmtUint k) = k)
    (hR : ∀ x, Token (fmtReal x)) (n : NeuralNetwork R)
    (hne : n.network ≠ [])
    (hu : ∀ l ∈ n.network, ∀ u ∈ l,
      u.weights.length = u.numberOfWeights ∧ 1 ≤ u.numberOfWeights) :
    NeuralNetwork.parse toUint toReal
        ((NeuralNetwork.lines fmtUint fmtReal n).filter goodLine) =
      .ok (NeuralNetwork.reread fmtReal toReal n) := by
  rw [(NeuralNetwork.lines_facts fmtUint fmtReal (fun k => (hU k).1) hR n).2]
  unfold NeuralNetwork.parse
  simp only []
  have hs := NeuralNetwork.split_sizesLine fmtUint (fun k => (hU k).1)
    n.network hne
  have hlen : ¬ (Global.split (NeuralNetwork.sizesLine fmtUint n.network)
      ',').length ≠ toUint (fmtUint n.network.length) := by
    rw [hs, (hU _).2, List.length_map]
    simp
  have hmap : (Global.split (NeuralNetwork.sizesLine fmtUint n.network)
      ',').map toUint = n.network.map List.length := by
    rw [hs, List.map_map]
    apply List.map_congr_left
    intro l _
    exact (hU _).2
  rw [if_neg hlen, hmap,
    NeuralNetwork.parseLayers_lines fmtUint fmtReal toUint toReal hU hR
      n.network hu]
  simp only [bind, Except.bind]
  obtain ⟨last, hlast⟩ : ∃ last, n.network.getLast? = some last := by
    cases hgl : n.network.getLast? with
    | none => exact absurd (List.getLast?_eq_none_iff.1 hgl) hne
    | some x => exact ⟨x, rfl⟩
  rw [List.getLast?_map, hlast]
  simp only [Option.map_some', pure, Except.pure, (hU _).2]
  unfold NeuralNetwork.reread
  simp [hlast]

end RoundTrip2

section SampleFormat

theorem sampleDigit_isDigit (k : Nat) : (sampleDigit k).isDigit = true := by
  unfold sampleDigit
  split <;> rfl

theorem sampleDigit_val (k : Nat) (h : k < 10) :
    (sampleDigit k).toNat - 48 = k := by
  interval_cases k <;> rfl

theorem isDigit_clean (c : Char) (h : c.isDigit = true) :
    c ≠ ',' ∧ c ≠ '\n' ∧ c ≠ ' ' ∧ c ≠ '#' ∧ c ≠ '/' ∧ c ≠ '-' := by
  refine ⟨?_, ?_, ?_, ?_, ?_, ?_⟩ <;>
  · intro hc
    subst hc
    exact absurd h (by decide)

theorem sampleFmtAux_digits :
    ∀ (fuel n : Nat) (acc : List Char), (∀ c ∈ acc, c.isDigit = true) →
      ∀ c ∈ sampleFmtAux fuel n acc, c.isDigit = true
  | 0, _, acc, h => h
  | fuel + 1, n, acc, h => by
    rw [sampleFmtAux]
    split
    · intro c hc
      rcases List.mem_cons.1 hc with h1 | h1
      · subst h1
        exact sampleDigit_isDigit n
      · exact h c h1
    · apply sampleFmtAux_digits fuel
      intro c hc
      rcases List.mem_cons.1 hc with h1 | h1
      · subst h1
        exact sampleDigit_isDigit _
      · exact h c h1

theorem sampleFmtAux_ne_nil :
    ∀ (fuel n : Nat) (acc : List Char), (0 < fuel ∨ acc ≠ []) →
      sampleFmtAux fuel n acc ≠ []
  | 0, _, acc, h => by
    rcases h with h | h
    · omega
    · exact h
  | fuel + 1, n, acc, _ => by
    rw [sampleFmtAux]
    split
    · simp
    · exact sampleFmtAux_ne_nil fuel _ _ (Or.inr (by simp))

theorem sampleFmtAux_value :
    ∀ (fuel n : Nat) (acc : List Char), n ≤ fuel →
      (sampleFmtAux fuel n acc).foldl
          (fun a c => 10 * a + (c.toNat - 48)) 0 =
        acc.foldl (fun a c => 10 * a + (c.toNat - 48)) n
  | 0, n, acc, h => by
    have : n = 0 := by omega
    subst this
    rfl
  | fuel + 1, n, acc, h => by
    rw [sampleFmtAux]
    split
    · next hn =>
      rw [List.foldl_cons, sampleDigit_val n hn]
      simp
    · next hn =>
      rw [sampleFmtAux_value fuel (n / 10) _ (by omega), List.foldl_cons,
        sampleDigit_val _ (Nat.mod_lt _ (by omega))]
      congr 1
      omega

/-- The stand-ins for the formatting and the parsing of the unsigned
integers: what is written is a token and is read back as the number. -/
theorem sampleFmtUint_ok (k : Nat) :
    Token (sampleFmtUint k) ∧ sampleToUint (sampleFmtUint k) = k := by
  have hd : ∀ c ∈ sampleFmtUint k, c.isDigit = true :=
    sampleFmtAux_digits _ _ [] (fun c hc => by cases hc)
  refine ⟨⟨sampleFmtAux_ne_nil _ _ _ (Or.inl (by omega)), fun c hc => ?_⟩, ?_⟩
  · obtain ⟨a, b, c', d, _⟩ := isDigit_clean c (hd c hc)
    exact ⟨a, b, c', d⟩
  · unfold sampleToUint
    rw [List.takeWhile_eq_self_iff.2 hd]
    unfold sampleFmtUint
    rw [sampleFmtAux_value _ _ _ (by omega)]
    rfl

/-- The stand-in for the formatting of the reals writes a token. -/
theorem sampleFmtReal_ok (q : ℚ) : Token (sampleFmtReal q) := by
  have hd : ∀ k, ∀ c ∈ sampleFmtUint k,
      c ≠ ',' ∧ c ≠ '\n' ∧ c ≠ ' ' ∧ c ≠ '#' := fun k => (sampleFmtUint_ok k).1.2
  unfold sampleFmtReal
  constructor
  · simp
  · intro c hc
    simp only [List.mem_append, List.mem_singleton] at hc
    rcases hc with ((h | h) | h) | h
    · split at h
      · simp only [List.mem_singleton] at h
        subst h
        decide
      · cases h
    · exact hd _ c h
    · subst h
      decide
    · exact hd _ c h

end SampleFormat

/-- Claim C26: for a network of at least one layer whose units have as many
weights as they declare (at least one), `write()` returns with the text of
the lines of the network: the input count, the layer count and the
comma-separated layer sizes, each under a `#` comment line, then for each
layer a comment line and one line `count,weight0,...` for each unit.
`read()` on that text skips the comment lines and returns a network with
the same input count, layer count, number of units in every layer and
number of weights in every unit, in which every weight is the value that
`toReal` reads from what `fmtReal` wrote for it (the weight itself when the
written precision holds it).  The functions that write and read the numbers
are parameters: what they write is a token, and an unsigned integer is read
back as written. -/
theorem C26_round_trip {R : Type} [LinearOrderedField R]
    (fmtUint : Nat → List Char) (fmtReal : R → List Char)
    (toUint : List Char → Nat) (toReal : List Char → R)
    (n : NeuralNetwork R) (fuel : Nat) (g : Rng)
    (hU : ∀ k, Token (fmtUint k) ∧ toUint (fmtUint k) = k)
    (hR : ∀ x, Token (fmtReal x))
    (hne : n.network ≠ []) (hl : n.network.length = n.nlayers)
    (hu : ∀ l ∈ n.network, ∀ u ∈ l,
      u.weights.length = u.numberOfWeights ∧ 1 ≤ u.numberOfWeights)
    (hg : g.NoReject) :
    ∃ text n' is' g',
      n.write fmtUint fmtReal [] = .ok text ∧
      text = unlines (NeuralNetwork.lines fmtUint fmtReal n) ∧
      segments '\n' text = NeuralNetwork.lines fmtUint fmtReal n ++ [[]] ∧
      NeuralNetwork.pending (segments '\n' text) =
        fmtUint n.ninputs :: fmtUint n.network.length ::
          NeuralNetwork.sizesLine fmtUint n.network ::
          (n.network.map
            (fun l => l.map (Unit.line fmtUint fmtReal))).flatten ∧
      NeuralNetwork.read (fuel + 1) toUint toReal (IStream.ofText '\n' text) g =
        .ok (some (n', is', g')) ∧
      n' = NeuralNetwork.reread fmtReal toReal n ∧
      n'.ninputs = n.ninputs ∧ n'.nlayers = n.nlayers ∧
      n'.network.length = n.network.length ∧
      n'.network.map List.length = n.network.map List.length ∧
      (∀ i j u, n.unit? i j = some u →
        ∃ u', n'.unit? i j = some u' ∧
          u'.numberOfWeights = u.numberOfWeights ∧
          u'.weights = u.weights.map (fun w => toReal (fmtReal w)) ∧
          ((∀ w ∈ u.weights, toReal (fmtReal w) = w) →
            u'.weights = u.weights)) := by
  have hu' : ∀ l ∈ n.network, ∀ u ∈ l, u.weights.length = u.numberOfWeights :=
    fun l hl u hu0 => (hu l hl u hu0).1
  have hw := NeuralNetwork.write_ok fmtUint fmtReal n [] hne hu'
  rw [List.nil_append] at hw
  obtain ⟨hchars, hgood⟩ :=
    NeuralNetwork.lines_facts fmtUint fmtReal (fun k => (hU k).1) hR n
  have hseg := segments_unlines (NeuralNetwork.lines fmtUint fmtReal n) hchars
  have hpend : NeuralNetwork.pending
      (segments '\n' (unlines (NeuralNetwork.lines fmtUint fmtReal n))) =
      (NeuralNetwork.lines fmtUint fmtReal n).filter goodLine := by
    rw [hseg]
    unfold NeuralNetwork.pending
    rw [List.dropLast_concat]
  have hparse := NeuralNetwork.parse_lines fmtUint fmtReal toUint toReal hU hR
    n hne hu
  obtain ⟨is', g', hread⟩ : ∃ is' g', NeuralNetwork.read (fuel + 1) toUint
      toReal (IStream.ofText '\n'
        (unlines (NeuralNetwork.lines fmtUint fmtReal n))) g =
      .ok (some (NeuralNetwork.reread fmtReal toReal n, is', g')) := by
    rcases NeuralNetwork.read_spec (fuel + 1) toUint toReal
      (IStream.ofText '\n' (unlines (NeuralNetwork.lines fmtUint fmtReal n))) g
      with ⟨_, h2⟩ | ⟨m, is', g', hp, h1⟩ | ⟨e, hp, _⟩
    · exact absurd ⟨Nat.succ_pos fuel, hg⟩ h2
    · have hp' : NeuralNetwork.parse toUint toReal (NeuralNetwork.pending
          (segments '\n' (unlines (NeuralNetwork.lines fmtUint fmtReal n)))) =
          .ok m := hp
      rw [hpend, hparse] at hp'
      injection hp' with hp'
      subst hp'
      exact ⟨is', g', h1⟩
    · have hp' : NeuralNetwork.parse toUint toReal (NeuralNetwork.pending
          (segments '\n' (unlines (NeuralNetwork.lines fmtUint fmtReal n)))) =
          .error e := hp
      rw [hpend, hparse] at hp'
      cases hp'
  refine ⟨_, _, is', g', hw, rfl, hseg, by rw [hpend, hgood], hread, rfl, rfl,
    hl, by simp [NeuralNetwork.reread], ?_, ?_⟩
  · simp [NeuralNetwork.reread, List.map_map, Function.comp_def]
  · intro i j u hiu
    unfold NeuralNetwork.unit? at hiu ⊢
    cases hli : n.network[i]? with
    | none => simp [hli] at hiu
    | some layer =>
      have hiu' : layer[j]? = some u := by
        rw [hli] at hiu
        exact hiu
      refine ⟨Unit.fresh (u.weights.map (fun w => toReal (fmtReal w))), ?_, ?_,
        rfl, fun hall => ?_⟩
      · simp [NeuralNetwork.reread, List.getElem?_map, hli, hiu']
      · have := (hu layer (List.mem_iff_getElem?.2 ⟨i, hli⟩) u
          (List.mem_iff_getElem?.2 ⟨j, hiu'⟩)).1
        simp [Unit.fresh, this]
      · show u.weights.map (fun w => toReal (fmtReal w)) = u.weights
        conv_rhs => rw [← List.map_id u.weights]
        exact List.map_congr_left hall

set_option maxRecDepth 100000 in
/-- Witness of C26: the sample network is written with the sample stand-ins
for the formatting of the numbers and read back; the network read is the
sample network, weights included. -/
theorem C26_round_trip_witness :
    ∃ text n' is' g',
      sampleNetwork.write sampleFmtUint sampleFmtReal [] = .ok text ∧
      String.mk text = "# number of inputs\n2\n# number of layers\n2\n" ++
        "# units for any layer\n2,1\n# units layer 0\n3,1/10,1/5,-3/10\n" ++
        "3,0/1,1/1,1/1\n# units layer 1\n3,1/2,-1/2,1/4\n" ∧
      NeuralNetwork.read 1 sampleToUint sampleToReal (IStream.ofText '\n' text)
        ⟨fun _ => 0⟩ = .ok (some (n', is', g')) ∧
      n' = sampleNetwork := by
  obtain ⟨text, n', is', g', h1, h2, _, _, h5, h6, _⟩ :=
    C26_round_trip sampleFmtUint sampleFmtReal sampleToUint sampleToReal
      sampleNetwork 0 ⟨fun _ => 0⟩ sampleFmtUint_ok sampleFmtReal_ok
      (by simp [sampleNetwork]) rfl
      (by simp [sampleNetwork, sampleUnit])
      (fun k => by show (0 : Nat) % 1401 ≠ 700; decide)
  refine ⟨text, n', is', g', h1, ?_, h5, ?_⟩
  · rw [h2]
    with_unfolding_all rfl
  · rw [h6]
    with_unfolding_all rfl

/-! ## C25: the topology invariant -/

section SizesFacts

variable {R : Type} [LinearOrderedField R]

theorem layersWF_sizes : ∀ (prev : Nat) (ls ls' : List (List (Unit R))),
    ls.map (fun l => l.map Unit.sizes) = ls'.map (fun l => l.map Unit.sizes) →
    layersWF prev ls' → layersWF prev ls
  | _, [], [], _, _ => trivial
  | _, [], _ :: _, h, _ => by simp at h
  | _, _ :: _, [], h, _ => by simp at h
  | prev, l :: ls, l' :: ls', h, ⟨h1, h2⟩ => by
    simp only [List.map_cons, List.cons.injEq] at h
    obtain ⟨hl, hls⟩ := h
    have hlen : l.length = l'.length := by
      simpa using congrArg List.length hl
    refine ⟨fun u hu => ?_, ?_⟩
    · have hm : u.sizes ∈ l'.map Unit.sizes := hl ▸ List.mem_map_of_mem _ hu
      obtain ⟨u', hu', hs⟩ := List.mem_map.1 hm
      obtain ⟨⟨⟨w1, w2, w3⟩, w4⟩, hni⟩ := h1 u' hu'
      simp only [Unit.sizes, Prod.mk.injEq] at hs
      obtain ⟨s1, s2, s3, s4, s5⟩ := hs
      exact ⟨⟨⟨by omega, by omega, by omega⟩, by rw [← s5]; exact w4⟩, by omega⟩
    · rw [hlen]
      exact layersWF_sizes l'.length ls ls' hls h2

omit [LinearOrderedField R] in
theorem NeuralNetwork.unit?_of_unitAt (n : NeuralNetwork R) (l j : Nat)
    (a : Unit R) (h : n.unitAt l j = .ok a) : n.unit? l j = some a := by
  unfold NeuralNetwork.unitAt atGet at h
  unfold NeuralNetwork.unit?
  cases hl : n.network[l]? with
  | none => simp [hl, bind, Except.bind] at h
  | some layer =>
    simp only [hl, bind, Except.bind] at h
    cases hj : layer[j]? with
    | none => simp [hj] at h
    | some b =>
      simp only [hj] at h
      injection h with h
      subst h
      simp [hj]

omit [LinearOrderedField R] in
/-- Replacing a unit by one of the same sizes keeps the sizes of the
network. -/
theorem NeuralNetwork.sizes_putUnit (n : NeuralNetwork R) (l j : Nat)
    (a u : Unit R) (ha : n.unit? l j = some a) (hs : u.sizes = a.sizes) :
    (n.putUnit l j u).sizes = n.sizes := by
  unfold NeuralNetwork.unit? at ha
  cases hl : n.network[l]? with
  | none => simp [hl] at ha
  | some layer =>
    simp only [hl, Option.some_bind] at ha
    have hget : n.network.getD l [] = layer := by
      simp [List.getD_eq_getElem?_getD, hl]
    unfold NeuralNetwork.sizes NeuralNetwork.putUnit
    simp only [hget, List.map_set, hs]
    rw [set_self_of_getElem? (layer.map Unit.sizes) j a.sizes
        (by simp [ha]),
      set_self_of_getElem? _ l (layer.map Unit.sizes) (by simp [hl])]

omit [LinearOrderedField R] in
theorem Unit.setInput_sizes (u u' : Unit R) (i : Nat) (x : R)
    (h : u.setInput i x = .ok u') : u'.sizes = u.sizes := by
  unfold Unit.setInput at h
  by_cases hg : i < 1 ∨ i > u.numberOfInputs
  · rw [if_pos hg] at h
    cases h
  · rw [if_neg hg] at h
    unfold rawSet at h
    by_cases hi : i < u.inputs.length
    · simp only [hi, if_true, bind, Except.bind, pure, Except.pure] at h
      injection h with h
      subst h
      have h0 : ¬ i = 0 := by omega
      simp [Unit.sizes, List.getElem?_set, h0]
    · simp [hi, bind, Except.bind] at h

theorem Unit.computeOutput_sizes (exp : R → R) (u u' : Unit R) (y : R)
    (h : u.computeOutput exp = .ok (y, u')) : u'.sizes = u.sizes := by
  unfold Unit.computeOutput at h
  cases hc : u.calcOutput exp with
  | error e => simp [hc, bind, Except.bind] at h
  | ok z =>
    simp only [hc, bind, Except.bind, pure, Except.pure] at h
    injection h with h
    injection h with h1 h2
    subst h2
    rfl

omit [LinearOrderedField R] in
theorem Unit.setWeight_sizes (u u' : Unit R) (i : Nat) (x : R)
    (h : u.setWeight i x = .ok u') : u'.sizes = u.sizes := by
  unfold Unit.setWeight at h
  by_cases hg : i ≥ u.numberOfWeights
  · rw [if_pos hg] at h
    cases h
  · rw [if_neg hg] at h
    unfold rawSet at h
    by_cases hi : i < u.weights.length
    · simp only [hi, if_true, bind, Except.bind, pure, Except.pure] at h
      injection h with h
      subst h
      simp [Unit.sizes]
    · simp [hi, bind, Except.bind] at h

theorem Unit.sumToWeight_sizes (u u' : Unit R) (i : Nat) (x : R)
    (h : u.sumToWeight i x = .ok u') : u'.sizes = u.sizes := by
  unfold Unit.sumToWeight at h
  by_cases hg : i ≥ u.numberOfWeights
  · rw [if_pos hg] at h
    cases h
  · rw [if_neg hg] at h
    cases hw : rawGet u.weights i with
    | error e => simp [hw, bind, Except.bind] at h
    | ok w =>
      simp only [hw, bind, Except.bind] at h
      unfold rawSet at h
      by_cases hi : i < u.weights.length
      · simp only [hi, if_true, pure, Except.pure] at h
        injection h with h
        subst h
        simp [Unit.sizes]
      · simp [hi] at h

end SizesFacts

section StateFacts

variable {R : Type} [LinearOrderedField R]

theorem landsIn_bind {σ : Type} (P : σ → Prop) (x : Except (Error × σ) σ)
    (k : σ → Except (Error × σ) σ) (hx : landsIn P x)
    (hk : ∀ s, P s → landsIn P (k s)) : landsIn P (x >>= k) := by
  cases x with
  | error e => exact hx
  | ok s => exact hk s hx

theorem landsIn_foldlM {σ : Type} (P : σ → Prop)
    (f : σ → Nat → Except (Error × σ) σ)
    (h : ∀ s i, P s → landsIn P (f s i)) :
    ∀ (xs : List Nat) (s : σ), P s → landsIn P (xs.foldlM f s)
  | [], _, hs => hs
  | x :: xs, s, hs => by
    rw [List.foldlM_cons]
    exact landsIn_bind P _ _ (h s x hs) (fun s' hs' => landsIn_foldlM P f h xs s' hs')

omit [LinearOrderedField R] in
theorem NeuralNetwork.landsIn_raisedIn {α : Type}
    (P : NeuralNetwork R → Prop) (n : NeuralNetwork R) (x : Except Error α)
    (k : α → Except (Error × NeuralNetwork R) (NeuralNetwork R)) (hn : P n)
    (hk : ∀ a, x = .ok a → landsIn P (k a)) :
    landsIn P (NeuralNetwork.raisedIn n x >>= k) := by
  cases x with
  | error e => exact hn
  | ok a => exact hk a rfl

theorem erase_bind {σ α β : Type} (x : Except (Error × σ) α)
    (k : α → Except (Error × σ) β) :
    (x >>= k).mapError Prod.fst =
      (x.mapError Prod.fst >>= fun a => (k a).mapError Prod.fst) := by
  cases x <;> rfl

omit [LinearOrderedField R] in
theorem NeuralNetwork.raisedIn_erase {α : Type} (n : NeuralNetwork R)
    (x : Except Error α) :
    (NeuralNetwork.raisedIn n x).mapError Prod.fst = x := by
  cases x <;> rfl

theorem erase_foldlM {σ : Type} (f : σ → Nat → Except (Error × σ) σ)
    (f' : σ → Nat → Except Error σ)
    (h : ∀ s i, (f s i).mapError Prod.fst = f' s i) :
    ∀ (xs : List Nat) (s : σ),
      (xs.foldlM f s).mapError Prod.fst = xs.foldlM f' s
  | [], _ => rfl
  | x :: xs, s => by
    rw [List.foldlM_cons, List.foldlM_cons, erase_bind, h]
    congr 1
    funext s'
    exact erase_foldlM f f' h xs s'

omit [LinearOrderedField R] in
theorem NeuralNetwork.feedInputSt_erase (i : Nat) (n : NeuralNetwork R)
    (j : Nat) :
    (NeuralNetwork.feedInputSt i n j).mapError Prod.fst =
      NeuralNetwork.feedInput i n j := by
  unfold NeuralNetwork.feedInputSt NeuralNetwork.feedInput
  simp only [erase_bind, NeuralNetwork.raisedIn_erase]
  rfl

theorem NeuralNetwork.feedForwardSt_erase (exp : R → R) (i j : Nat)
    (n : NeuralNetwork R) (t : Nat) :
    (NeuralNetwork.feedForwardSt exp i j n t).mapError Prod.fst =
      NeuralNetwork.feedForward exp i j n t := by
  unfold NeuralNetwork.feedForwardSt NeuralNetwork.feedForward
  simp only [erase_bind, NeuralNetwork.raisedIn_erase]
  rfl

theorem NeuralNetwork.storeOutputSt_erase (exp : R → R)
    (n : NeuralNetwork R) (i : Nat) :
    (NeuralNetwork.storeOutputSt exp n i).mapError Prod.fst =
      NeuralNetwork.storeOutput exp n i := by
  unfold NeuralNetwork.storeOutputSt NeuralNetwork.storeOutput
  simp only [erase_bind, NeuralNetwork.raisedIn_erase]
  rfl

/-- Without the state at a throw, `computeSt` is `compute`: it returns when
`compute` returns, with the same network, and throws what `compute` throws. -/
theorem NeuralNetwork.computeSt_erase (exp : R → R) (n : NeuralNetwork R) :
    (n.computeSt exp).mapError Prod.fst = n.compute exp := by
  unfold NeuralNetwork.computeSt NeuralNetwork.compute
  rw [erase_bind]
  have h1 : ∀ m : NeuralNetwork R,
      (NeuralNetwork.feedInputsSt m).mapError Prod.fst =
        NeuralNetwork.feedInputs m := by
    intro m
    unfold NeuralNetwork.feedInputsSt NeuralNetwork.feedInputs
    apply erase_foldlM
    intro s i
    rw [erase_bind, NeuralNetwork.raisedIn_erase]
    congr 1
    funext l
    exact erase_foldlM _ _ (fun s' j => NeuralNetwork.feedInputSt_erase i s' j)
      _ s
  have h2 : ∀ m : NeuralNetwork R,
      (NeuralNetwork.feedLayersSt exp m).mapError Prod.fst =
        NeuralNetwork.feedLayers exp m := by
    intro m
    unfold NeuralNetwork.feedLayersSt NeuralNetwork.feedLayers
    apply erase_foldlM
    intro s i
    unfold NeuralNetwork.feedLayerSt NeuralNetwork.feedLayer
    rw [erase_bind, NeuralNetwork.raisedIn_erase]
    congr 1
    funext l
    apply erase_foldlM
    intro s' j
    unfold NeuralNetwork.feedUnitSt NeuralNetwork.feedUnit
    rw [erase_bind, NeuralNetwork.raisedIn_erase]
    congr 1
    funext l'
    exact erase_foldlM _ _
      (fun s2 t => NeuralNetwork.feedForwardSt_erase exp i j s2 t) _ s'
  have h3 : ∀ m : NeuralNetwork R,
      (NeuralNetwork.storeOutputsSt exp m).mapError Prod.fst =
        NeuralNetwork.storeOutputs exp m := by
    intro m
    unfold NeuralNetwork.storeOutputsSt NeuralNetwork.storeOutputs
    rw [erase_bind, NeuralNetwork.raisedIn_erase]
    congr 1
    funext l
    exact erase_foldlM _ _
      (fun s2 t => NeuralNetwork.storeOutputSt_erase exp s2 t) _ m
  rw [h1]
  congr 1
  funext m
  rw [erase_bind, h2]
  congr 1
  funext m'
  exact h3 m'

end StateFacts

section InitFacts

variable {R : Type} [LinearOrderedField R]

end InitFacts

section MadeFacts

variable {R : Type} [LinearOrderedField R]

/-- The unit that `Unit::read` builds from at least one weight is well
formed. -/
theorem Unit.fresh_wf (ws : List R) (h : 1 ≤ ws.length) :
    (Unit.fresh ws).WF ∧ (Unit.fresh ws).numberOfInputs = ws.length - 1 := by
  refine ⟨⟨⟨?_, rfl, ?_⟩, ?_⟩, rfl⟩
  · show ws.length = ws.length - 1 + 1
    omega
  · show (1 :: List.replicate (ws.length - 1) (0 : R)).length = ws.length
    rw [List.length_cons, List.length_replicate]
    omega
  · show (1 :: List.replicate (ws.length - 1) (0 : R))[0]? = some 1
    simp

/-- When `compute` returns, the state after the call is the network it
returns. -/
theorem NeuralNetwork.call_compute (exp : R → R) (n n' : NeuralNetwork R)
    (h : n.compute exp = .ok n') : n.call exp .compute = n' := by
  have he := NeuralNetwork.computeSt_erase exp n
  rw [h] at he
  simp only [NeuralNetwork.call]
  cases hc : n.computeSt exp with
  | error e =>
    rw [hc] at he
    cases he
  | ok m =>
    rw [hc] at he
    injection he with he

end MadeFacts

section EpochBound

variable {R : Type} [LinearOrderedField R]

/-- The epoch counter and the bound on the epochs at the end of the body of
the `k`-th epoch of a run. -/
theorem Trainer.epochEnd_counters (exp : R → R) :
    ∀ (k : Nat) (t s : Trainer R) (w ws : World R),
      Trainer.epochEnd exp k t w = .ok (s, ws) →
      s.epochs = t.epochs + k ∧ s.maxepochs = t.maxepochs
  | 0, t, s, w, ws, h => by
    obtain ⟨a, b⟩ := Trainer.epochBody_counters exp t s w ws h
    exact ⟨a, b⟩
  | k + 1, t, s, w, ws, h => by
    rw [Trainer.epochEnd] at h
    cases hb : Trainer.epochBody exp t w with
    | error e => rw [hb] at h; cases h
    | ok p =>
      obtain ⟨t1, w1⟩ := p
      rw [hb] at h
      obtain ⟨a, b⟩ := Trainer.epochBody_counters exp t t1 w w1 hb
      obtain ⟨c, d, _⟩ := Trainer.nextEpoch_trackers t1
      obtain ⟨e, f⟩ := Trainer.epochEnd_counters exp k _ s w1 ws h
      exact ⟨by rw [e, c, a]; omega, by rw [f, d, b]⟩

/-- One turn of the loop of `start` whose body completes and after which
`checkStop` answers "go on". -/
theorem Trainer.startLoop_go (exp : R → R) (fuel : Nat) (t t1 : Trainer R)
    (w w1 : World R) (ran : List Nat) (hc : t.loopCond)
    (hb : Trainer.epochBody exp t w = .ok (t1, w1))
    (hs : (Trainer.checkStop t1).1 = false) :
    Trainer.startLoop exp (fuel + 1) t w ran =
      Trainer.startLoop exp fuel (Trainer.nextEpoch t1) w1 (ran ++ [t.epochs]) := by
  have hc' : t.epochs < t.maxepochs ∨ t.maxepochs = 0 := hc
  rw [Trainer.startLoop]
  simp only [hc', if_true, hb, bind, Except.bind, hs, Bool.false_eq_true,
    if_false]
  rfl

/-- One turn of the loop of `start` whose body completes and after which
`checkStop` answers "stop". -/
theorem Trainer.startLoop_break (exp : R → R) (fuel : Nat) (t t1 : Trainer R)
    (w w1 : World R) (ran : List Nat) (hc : t.loopCond)
    (hb : Trainer.epochBody exp t w = .ok (t1, w1))
    (hs : (Trainer.checkStop t1).1 = true) :
    Trainer.startLoop exp (fuel + 1) t w ran =
      .ok (some ⟨(Trainer.checkStop t1).2, w1, ran ++ [t.epochs]⟩) := by
  have hc' : t.epochs < t.maxepochs ∨ t.maxepochs = 0 := hc
  rw [Trainer.startLoop]
  simp only [hc', if_true, hb, bind, Except.bind, hs]

/-- The loop of `start` when its condition is false. -/
theorem Trainer.startLoop_exit (exp : R → R) (fuel : Nat) (t : Trainer R)
    (w : World R) (ran : List Nat) (hc : ¬ t.loopCond) :
    Trainer.startLoop exp (fuel + 1) t w ran = .ok (some ⟨t, w, ran⟩) := by
  have hc' : ¬ (t.epochs < t.maxepochs ∨ t.maxepochs = 0) := hc
  rw [Trainer.startLoop]
  simp only [hc', if_false]

/-- How a run of the loop of `start` that returns has ended: its condition
was false at once; or it has run the bodies of the epochs `e, ..., e+E`,
`checkStop` has answered "go on" after each of them but the last, and after
the last one either `checkStop` has answered "stop" (the `break`) or the
condition of the loop was false for the next epoch. -/
theorem Trainer.startLoop_end (exp : R → R) :
    ∀ (fuel : Nat) (t : Trainer R) (w : World R) (ran : List Nat) (r : Run R),
      Trainer.startLoop exp fuel t w ran = .ok (some r) →
      (¬ t.loopCond ∧ r = ⟨t, w, ran⟩) ∨
      ∃ E sE wE, Trainer.epochEnd exp E t w = .ok (sE, wE) ∧
        (∀ k sk wk, k < E → Trainer.epochEnd exp k t w = .ok (sk, wk) →
          (Trainer.checkStop sk).1 = false) ∧
        (∀ k, k ≤ E → t.epochs + k < t.maxepochs ∨ t.maxepochs = 0) ∧
        r.ran = ran ++ (List.range (E + 1)).map (fun k => t.epochs + k) ∧
        r.world = wE ∧
        (((Trainer.checkStop sE).1 = true ∧
            r.trainer = (Trainer.checkStop sE).2) ∨
          ((Trainer.checkStop sE).1 = false ∧
            r.trainer = Trainer.nextEpoch sE ∧
            ¬ (Trainer.nextEpoch sE).loopCond))
  | 0, _, _, _, _, h => by
    unfold Trainer.startLoop at h
    cases h
  | fuel + 1, t, w, ran, r, h => by
    by_cases hc : t.loopCond
    · right
      cases hb : Trainer.epochBody exp t w with
      | error e =>
        rw [Trainer.startLoop] at h
        have hc' : t.epochs < t.maxepochs ∨ t.maxepochs = 0 := hc
        simp only [hc', if_true, hb, bind, Except.bind] at h
        cases h
      | ok p =>
        obtain ⟨t1, w1⟩ := p
        obtain ⟨hep, hmx⟩ := Trainer.epochBody_counters exp t t1 w w1 hb
        have hcond0 : ∀ k, k ≤ 0 →
            t.epochs + k < t.maxepochs ∨ t.maxepochs = 0 := by
          intro k hk
          have : k = 0 := by omega
          subst this
          exact hc
        cases hs : (Trainer.checkStop t1).1 with
        | true =>
          rw [Trainer.startLoop_break exp fuel t t1 w w1 ran hc hb hs] at h
          injection h with h
          injection h with h
          subst h
          exact ⟨0, t1, w1, hb, fun k _ _ hk => by omega, hcond0, rfl, rfl,
            Or.inl ⟨hs, rfl⟩⟩
        | false =>
          rw [Trainer.startLoop_go exp fuel t t1 w w1 ran hc hb hs] at h
          obtain ⟨hn1, hn2, _⟩ := Trainer.nextEpoch_trackers t1
          rcases Trainer.startLoop_end exp fuel (Trainer.nextEpoch t1) w1
              (ran ++ [t.epochs]) r h with ⟨hno, rfl⟩ |
            ⟨E, sE, wE, hE, hgo, hcnd, hran, hw, hend⟩
          · exact ⟨0, t1, w1, hb, fun k _ _ hk => by omega, hcond0, rfl, rfl,
              Or.inr ⟨hs, rfl, hno⟩⟩
          · refine ⟨E + 1, sE, wE, ?_, ?_, ?_, ?_, hw, hend⟩
            · rw [Trainer.epochEnd, hb]
              exact hE
            · intro k sk wk hk hek
              cases k with
              | zero =>
                have : Trainer.epochEnd exp 0 t w = .ok (t1, w1) := hb
                rw [this] at hek
                injection hek with hek
                injection hek with e1 e2
                rw [← e1]
                exact hs
              | succ k =>
                rw [Trainer.epochEnd, hb] at hek
                exact hgo k sk wk (by omega) hek
            · intro k hk
              cases k with
              | zero => exact hc
              | succ k =>
                have := hcnd k (by omega)
                rw [hn1, hn2, hep, hmx] at this
                rcases this with h1 | h1
                · left; omega
                · right; exact h1
            · rw [hran, hn1, hep, List.range_succ_eq_map (E + 1),
                List.map_cons, List.map_map, List.append_assoc]
              simp only [List.singleton_append, Nat.add_zero, List.cons.injEq,
                true_and, List.append_cancel_left_eq]
              apply List.map_congr_left
              intro k _
              simp only [Function.comp, Nat.succ_eq_add_one]
              omega
    · rw [Trainer.startLoop_exit exp fuel t w ran hc] at h
      injection h with h
      injection h with h
      exact Or.inl ⟨hc, h.symm⟩

/-- A run of the loop of `start` through the epochs `e, ..., e+E`, when the
bodies of these epochs complete, the condition of the loop holds for each of
them and `checkStop` answers "go on" after each but the last. -/
theorem Trainer.startLoop_run (exp : R → R) (fuel : Nat) :
    ∀ (E : Nat) (t sE : Trainer R) (w wE : World R) (ran : List Nat),
      Trainer.epochEnd exp E t w = .ok (sE, wE) →
      (∀ k sk wk, k < E → Trainer.epochEnd exp k t w = .ok (sk, wk) →
        (Trainer.checkStop sk).1 = false) →
      (t.epochs + E < t.maxepochs ∨ t.maxepochs = 0) →
      Trainer.startLoop exp (fuel + E + 1) t w ran =
        if (Trainer.checkStop sE).1 then
          .ok (some ⟨(Trainer.checkStop sE).2, wE,
            ran ++ (List.range (E + 1)).map (fun k => t.epochs + k)⟩)
        else Trainer.startLoop exp fuel (Trainer.nextEpoch sE) wE
          (ran ++ (List.range (E + 1)).map (fun k => t.epochs + k))
  | 0, t, sE, w, wE, ran, hE, _, hc => by
    have hb : Trainer.epochBody exp t w = .ok (sE, wE) := hE
    have hc' : t.loopCond := by
      rcases hc with h | h
      · left; omega
      · right; exact h
    have hl : (List.range (0 + 1)).map (fun k => t.epochs + k) = [t.epochs] :=
      rfl
    rw [hl]
    cases hs : (Trainer.checkStop sE).1 with
    | true =>
      rw [Trainer.startLoop_break exp fuel t sE w wE ran hc' hb hs]
      simp
    | false =>
      rw [Trainer.startLoop_go exp fuel t sE w wE ran hc' hb hs]
      simp
  | E + 1, t, sE, w, wE, ran, hE, hgo, hc => by
    rw [Trainer.epochEnd] at hE
    cases hb : Trainer.epochBody exp t w with
    | error e => rw [hb] at hE; cases hE
    | ok p =>
      obtain ⟨t1, w1⟩ := p
      rw [hb] at hE
      have hE' : Trainer.epochEnd exp E (Trainer.nextEpoch t1) w1 =
          .ok (sE, wE) := hE
      obtain ⟨hep, hmx⟩ := Trainer.epochBody_counters exp t t1 w w1 hb
      obtain ⟨hn1, hn2, _⟩ := Trainer.nextEpoch_trackers t1
      have hc' : t.loopCond := by
        rcases hc with h | h
        · left; omega
        · right; exact h
      have hs : (Trainer.checkStop t1).1 = false :=
        hgo 0 t1 w1 (by omega) hb
      have e : fuel + (E + 1) + 1 = (fuel + E + 1) + 1 := by omega
      rw [e, Trainer.startLoop_go exp (fuel + E + 1) t t1 w w1 ran hc' hb hs,
        Trainer.startLoop_run exp fuel E (Trainer.nextEpoch t1) sE w1 wE
          (ran ++ [t.epochs]) hE'
          (fun k sk wk hk hek => hgo (k + 1) sk wk (by omega) (by
            rw [Trainer.epochEnd, hb]
            exact hek))
          (by
            rw [hn1, hn2, hep, hmx]
            rcases hc with h | h
            · left; omega
            · right; exact h)]
      have hl : ran ++ [t.epochs] ++
          (List.range (E + 1)).map (fun k => (Trainer.nextEpoch t1).epochs + k) =
          ran ++ (List.range (E + 1 + 1)).map (fun k => t.epochs + k) := by
        rw [hn1, hep, List.range_succ_eq_map (E + 1),
          List.map_cons, List.map_map, List.append_assoc]
        simp only [List.singleton_append, Nat.add_zero, List.cons.injEq,
          true_and, List.append_cancel_left_eq]
        apply List.map_congr_left
        intro k _
        simp only [Function.comp, Nat.succ_eq_add_one]
        omega
      rw [hl]

/-- With a positive bound on the epochs the loop of `start` ends within the
tests of its condition that the bound allows. -/
theorem Trainer.startLoop_ends (exp : R → R) :
    ∀ (fuel : Nat) (t : Trainer R) (w : World R) (ran : List Nat),
      0 < t.maxepochs → t.maxepochs - t.epochs < fuel →
      Trainer.startLoop exp fuel t w ran ≠ .ok none
  | 0, _, _, _, _, h => by omega
  | fuel + 1, t, w, ran, hm, hf => by
    by_cases hc : t.loopCond
    · cases hb : Trainer.epochBody exp t w with
      | error e =>
        rw [Trainer.startLoop]
        have hc' : t.epochs < t.maxepochs ∨ t.maxepochs = 0 := hc
        simp only [hc', if_true, hb, bind, Except.bind]
        intro h
        cases h
      | ok p =>
        obtain ⟨t1, w1⟩ := p
        obtain ⟨hep, hmx⟩ := Trainer.epochBody_counters exp t t1 w w1 hb
        cases hs : (Trainer.checkStop t1).1 with
        | true =>
          rw [Trainer.startLoop_break exp fuel t t1 w w1 ran hc hb hs]
          intro h
          cases h
        | false =>
          rw [Trainer.startLoop_go exp fuel t t1 w w1 ran hc hb hs]
          obtain ⟨hn1, hn2, _⟩ := Trainer.nextEpoch_trackers t1
          have hlt : t.epochs < t.maxepochs := by
            rcases hc with h | h
            · exact h
            · omega
          exact Trainer.startLoop_ends exp fuel _ w1 _
            (by rw [hn2, hmx]; exact hm)
            (by rw [hn1, hn2, hep, hmx]; omega)
    · rw [Trainer.startLoop_exit exp fuel t w ran hc]
      intro h
      cases h

end EpochBound

section StartFacts

variable {R : Type} [LinearOrderedField R]

/-- `start` is its loop, entered with the reset trainer. -/
theorem Trainer.start_loop (exp : R → R) (fuel : Nat) (t : Trainer R)
    (w : World R) (alg alg' : BackPropagation R)
    (halg : t.algorithm = some alg)
    (hset : alg.setModel (some t.model) = .ok alg') :
    Trainer.start exp fuel t w =
      Trainer.startLoop exp fuel (t.entered alg') w [] := by
  unfold Trainer.start
  rw [halg]
  simp only [bind, Except.bind, pure, Except.pure, hset]
  rfl

/-- A call of `start` that returns has attached the algorithm. -/
theorem Trainer.start_attached (exp : R → R) (fuel : Nat) (t : Trainer R)
    (w : World R) (r : Run R)
    (h : Trainer.start exp fuel t w = .ok (some r)) :
    ∃ alg alg', t.algorithm = some alg ∧
      alg.setModel (some t.model) = .ok alg' := by
  unfold Trainer.start at h
  cases halg : t.algorithm with
  | none =>
    rw [halg] at h
    cases h
  | some alg =>
    rw [halg] at h
    simp only [bind, Except.bind, pure, Except.pure] at h
    cases hset : alg.setModel (some t.model) with
    | error e => rw [hset] at h; cases h
    | ok alg' => exact ⟨alg, alg', rfl, hset⟩

theorem range_map_zero_add (n : Nat) :
    (List.range n).map (fun k => 0 + k) = List.range n := by
  have : (fun k : Nat => 0 + k) = id := by
    funext k
    simp
  rw [this, List.map_id]

end StartFacts

/-- Claim C31: with `maxEpochs = m > 0`, `start()` ends (within `m + 1` tests
of the condition of its loop) after at least one and at most `m` epochs, the
epochs `0, 1, ...` in order; it executes exactly `m` epochs when the bodies of
the epochs complete and `checkStop` answers "go on" at the end of each of the
first `m - 1` epochs.  With `maxEpochs = 0` a run that returns has ended on
the answer "stop" of `checkStop` at the end of its last epoch, and as long as
the bodies complete and `checkStop` answers "go on" the loop goes on, beyond
any number of epochs. -/
theorem C31_epoch_bound {R : Type} [LinearOrderedField R] (exp : R → R)
    (t : Trainer R) (w : World R) (alg alg' : BackPropagation R)
    (halg : t.algorithm = some alg)
    (hset : alg.setModel (some t.model) = .ok alg') :
    (0 < t.maxepochs →
      (∀ fuel, t.maxepochs < fuel → Trainer.start exp fuel t w ≠ .ok none) ∧
      (∀ fuel r, Trainer.start exp fuel t w = .ok (some r) →
        1 ≤ r.ran.length ∧ r.ran.length ≤ t.maxepochs ∧
        r.ran = List.range r.ran.length) ∧
      (∀ fuel s ws, t.maxepochs < fuel →
        Trainer.epochEnd exp (t.maxepochs - 1) (t.entered alg') w = .ok (s, ws) →
        (∀ k sk wk, k + 1 < t.maxepochs →
          Trainer.epochEnd exp k (t.entered alg') w = .ok (sk, wk) →
          (Trainer.checkStop sk).1 = false) →
        ∃ r, Trainer.start exp fuel t w = .ok (some r) ∧
          r.ran = List.range t.maxepochs)) ∧
    (t.maxepochs = 0 →
      (∀ fuel r, Trainer.start exp fuel t w = .ok (some r) →
        ∃ E sE wE,
          Trainer.epochEnd exp E (t.entered alg') w = .ok (sE, wE) ∧
          (Trainer.checkStop sE).1 = true ∧
          r.trainer = (Trainer.checkStop sE).2 ∧
          r.ran = List.range (E + 1)) ∧
      (∀ fuel, (∀ k, k < fuel → ∃ sk wk,
          Trainer.epochEnd exp k (t.entered alg') w = .ok (sk, wk) ∧
          (Trainer.checkStop sk).1 = false) →
        Trainer.start exp fuel t w = .ok none)) := by
  have hst := fun fuel => Trainer.start_loop exp fuel t w alg alg' halg hset
  have he0 : (t.entered alg').epochs = 0 := rfl
  have hmx : (t.entered alg').maxepochs = t.maxepochs := rfl
  refine ⟨fun hm => ⟨fun fuel hf => ?_, fun fuel r hr => ?_,
    fun fuel s ws hf hE hgo => ?_⟩, fun hm => ⟨fun fuel r hr => ?_,
    fun fuel hall => ?_⟩⟩
  · rw [hst]
    exact Trainer.startLoop_ends exp fuel _ w [] (by rw [hmx]; exact hm)
      (by rw [hmx, he0]; omega)
  · rw [hst] at hr
    rcases Trainer.startLoop_end exp fuel _ w [] r hr with
      ⟨hno, _⟩ | ⟨E, sE, wE, _, _, hcnd, hran, _, _⟩
    · exfalso
      apply hno
      left
      rw [he0, hmx]
      exact hm
    · rw [he0, range_map_zero_add, List.nil_append] at hran
      have hE := hcnd E (le_refl _)
      rw [he0, hmx] at hE
      rw [hran, List.length_range]
      exact ⟨by omega, by omega, rfl⟩
  · obtain ⟨f, rfl⟩ : ∃ f, fuel = f + 1 + (t.maxepochs - 1) + 1 :=
      ⟨fuel - t.maxepochs - 1, by omega⟩
    have hrun := Trainer.startLoop_run exp (f + 1) (t.maxepochs - 1)
      (t.entered alg') s w ws [] hE
      (fun k sk wk hk hek => hgo k sk wk (by omega) hek)
      (by rw [he0, hmx]; left; omega)
    rw [he0, range_map_zero_add, List.nil_append] at hrun
    have hsub : t.maxepochs - 1 + 1 = t.maxepochs := by omega
    rw [hsub] at hrun
    rw [hst, hrun]
    cases hs : (Trainer.checkStop s).1 with
    | true => exact ⟨_, rfl, rfl⟩
    | false =>
      simp only [Bool.false_eq_true, if_false]
      obtain ⟨c1, c2⟩ := Trainer.epochEnd_counters exp _ _ s w ws hE
      obtain ⟨n1, n2, _⟩ := Trainer.nextEpoch_trackers s
      have hno : ¬ (Trainer.nextEpoch s).loopCond := by
        intro hc
        rcases hc with h | h
        · rw [n1, n2, c1, c2, he0, hmx] at h
          omega
        · rw [n2, c2, hmx] at h
          omega
      rw [Trainer.startLoop_exit exp f _ ws _ hno]
      exact ⟨_, rfl, rfl⟩
  · rw [hst] at hr
    rcases Trainer.startLoop_end exp fuel _ w [] r hr with
      ⟨hno, _⟩ | ⟨E, sE, wE, hE, _, _, hran, _, hend⟩
    · exfalso
      apply hno
      right
      rw [hmx]
      exact hm
    · rw [he0, range_map_zero_add, List.nil_append] at hran
      rcases hend with ⟨h1, h2⟩ | ⟨_, _, h3⟩
      · exact ⟨E, sE, wE, hE, h1, h2, hran⟩
      · exfalso
        apply h3
        right
        obtain ⟨_, c2⟩ := Trainer.epochEnd_counters exp _ _ sE w wE hE
        obtain ⟨_, n2, _⟩ := Trainer.nextEpoch_trackers sE
        rw [n2, c2, hmx]
        exact hm
  · rw [hst]
    cases fuel with
    | zero => rfl
    | succ E =>
      obtain ⟨sE, wE, hE, hsE⟩ := hall E (by omega)
      have hrun := Trainer.startLoop_run exp 0 E (t.entered alg') sE w wE []
        hE
        (fun k sk wk hk hek => by
          obtain ⟨sk', wk', hek', hs'⟩ := hall k (by omega)
          rw [hek] at hek'
          injection hek' with hek'
          injection hek' with e1 e2
          rw [e1]
          exact hs')
        (by right; rw [hmx]; exact hm)
      rw [Nat.zero_add] at hrun
      rw [hrun, hsE]
      rfl

set_option maxRecDepth 100000 in
/-- Witness of C31: the sample trainer with the bound of two epochs and
thresholds that are not reached; the run returns after at most two
epochs. -/
theorem C31_epoch_bound_witness :
    (∀ fuel, 2 < fuel →
      Trainer.start sampleExp fuel (sampleTrainer (1 / 10) 2 2) sampleWorld ≠
        .ok none) ∧
    ∃ r, Trainer.start sampleExp 3 (sampleTrainer (1 / 10) 2 2) sampleWorld =
        .ok (some r) ∧ 1 ≤ r.ran.length ∧ r.ran.length ≤ 2 ∧
      r.ran = List.range r.ran.length := by
  have h := (C31_epoch_bound sampleExp (sampleTrainer (1 / 10) 2 2) sampleWorld
    (sampleBP [[0, 0], [0]]) (sampleBP [[0, 0], [0]]) rfl
    (by with_unfolding_all rfl)).1 (by decide)
  obtain ⟨r, hr⟩ : ∃ r, Trainer.start sampleExp 3 (sampleTrainer (1 / 10) 2 2)
      sampleWorld = .ok (some r) := ⟨_, by with_unfolding_all rfl⟩
  exact ⟨h.1, r, hr, h.2.1 3 r hr⟩

/-- Claim C32, as the code has it: when `start()` returns, it has executed
the epochs `0, ..., E` for some `E`, so `E + 1` epochs.  If the run ended
because `checkStop` answered "stop" (the `break`, which skips `++epochs`),
`getEpochs()` returns `E`, one less than the number of epochs executed; if
it ended because the bound `maxepochs` was reached, `getEpochs()` returns
`E + 1 = maxepochs`, the number of epochs executed. -/
theorem C32_getEpochs {R : Type} [LinearOrderedField R] (exp : R → R)
    (fuel : Nat) (t : Trainer R) (w : World R) (r : Trainer.Run R)
    (hrun : Trainer.start exp fuel t w = .ok (some r)) :
    ∃ alg alg' E sE wE, t.algorithm = some alg ∧
      alg.setModel (some t.model) = .ok alg' ∧
      Trainer.epochEnd exp E (t.entered alg') w = .ok (sE, wE) ∧
      r.ran = List.range (E + 1) ∧
      (((Trainer.checkStop sE).1 = true ∧
          r.trainer.getEpochs + 1 = r.ran.length) ∨
        ((Trainer.checkStop sE).1 = false ∧ E + 1 = t.maxepochs ∧
          r.trainer.getEpochs = r.ran.length)) := by
  obtain ⟨alg, alg', halg, hset⟩ := Trainer.start_attached exp fuel t w r hrun
  rw [Trainer.start_loop exp fuel t w alg alg' halg hset] at hrun
  have he0 : (t.entered alg').epochs = 0 := rfl
  have hmx : (t.entered alg').maxepochs = t.maxepochs := rfl
  rcases Trainer.startLoop_end exp fuel _ w [] r hrun with
    ⟨hno, hr⟩ | ⟨E, sE, wE, hE, _, hcnd, hran, _, hend⟩
  · exfalso
    apply hno
    rw [Trainer.loopCond, he0]
    omega
  · rw [he0, range_map_zero_add, List.nil_append] at hran
    obtain ⟨c1, c2⟩ := Trainer.epochEnd_counters exp _ _ sE w wE hE
    rw [he0] at c1
    rw [hmx] at c2
    refine ⟨alg, alg', E, sE, wE, halg, hset, hE, hran, ?_⟩
    rw [hran, List.length_range]
    rcases hend with ⟨h1, h2⟩ | ⟨h1, h2, h3⟩
    · left
      refine ⟨h1, ?_⟩
      rw [h2]
      show (Trainer.checkStop sE).2.epochs + 1 = E + 1
      rw [(Trainer.checkStop_counters sE).1, c1]
      omega
    · right
      obtain ⟨n1, n2, _⟩ := Trainer.nextEpoch_trackers sE
      have hE' := hcnd E (le_refl _)
      rw [he0, hmx] at hE'
      have hnot : ¬ ((Trainer.nextEpoch sE).epochs <
          (Trainer.nextEpoch sE).maxepochs ∨
          (Trainer.nextEpoch sE).maxepochs = 0) := h3
      rw [n1, n2, c1, c2] at hnot
      refine ⟨h1, by omega, ?_⟩
      rw [h2]
      show (Trainer.nextEpoch sE).epochs = E + 1
      rw [n1, c1]
      omega

set_option maxRecDepth 100000 in
/-- Witness of C32, the failing run: the sample trainer with the stop-error
threshold `1` stops after its first epoch, whose training error is `2/9`;
one epoch was executed and `getEpochs()` returns `0`. -/
theorem C32_getEpochs_witness :
    ∃ r, Trainer.start sampleExp 2 (sampleTrainer 1 1 0) sampleWorld =
        .ok (some r) ∧
      r.ran = [0] ∧ r.trainer.trerr = some (2 / 9) ∧ r.trainer.getEpochs = 0 ∧
      ∃ alg alg' E sE wE, (sampleTrainer 1 1 0).algorithm = some alg ∧
        alg.setModel (some (sampleTrainer 1 1 0).model) = .ok alg' ∧
        Trainer.epochEnd sampleExp E ((sampleTrainer 1 1 0).entered alg')
          sampleWorld = .ok (sE, wE) ∧
        r.ran = List.range (E + 1) ∧
        (((Trainer.checkStop sE).1 = true ∧
            r.trainer.getEpochs + 1 = r.ran.length) ∨
          ((Trainer.checkStop sE).1 = false ∧
            E + 1 = (sampleTrainer 1 1 0).maxepochs ∧
            r.trainer.getEpochs = r.ran.length)) := by
  obtain ⟨r, hr, h1, h2, h3⟩ : ∃ r, Trainer.start sampleExp 2
      (sampleTrainer 1 1 0) sampleWorld = .ok (some r) ∧ r.ran = [0] ∧
      r.trainer.trerr = some (2 / 9) ∧ r.trainer.getEpochs = 0 :=
    ⟨_, by with_unfolding_all rfl, by with_unfolding_all rfl,
      by with_unfolding_all rfl, by with_unfolding_all rfl⟩
  exact ⟨r, hr, h1, h2, h3,
    C32_getEpochs sampleExp 2 (sampleTrainer 1 1 0) sampleWorld r hr⟩

/-! ## C35: the preconditions of `BackPropagation::compute` -/

section ForwardReturns

variable {R : Type} [LinearOrderedField R]

/-- The network that the backward phase leaves is well formed, also when a
layer is empty. -/
theorem BackPropagation.updated_wellFormed (bp : BackPropagation R)
    (n1 : NeuralNetwork R) (t0 : List (List R)) (g : Nat → Nat → R)
    (done : Nat → Nat → Prop) (s : BPState R) (h1 : n1.WF)
    (hU : s.Updated bp n1 t0 g done) : s.nn.WF := by
  obtain ⟨f1, f2, f3, f4, f5, t, _, _, hunits⟩ := hU
  have hlen : s.nn.network.length = n1.network.length := by
    rw [← NeuralNetwork.dims_length, ← NeuralNetwork.dims_length, f4]
  refine ⟨by rw [hlen, h1.1, f2], by rw [f3, h1.2.1, f1], ?_, ?_⟩
  · apply layersWF_of_unit
    intro l layer hl a ha
    obtain ⟨u, hu⟩ := NeuralNetwork.mem_layer_unit? s.nn l layer hl a ha
    obtain ⟨d, hd, hud⟩ := NeuralNetwork.unit?_dims s.nn l u a hu
    rw [f4] at hd
    obtain ⟨b, hb⟩ := NeuralNetwork.dims_unit? n1 l u d hd hud
    obtain ⟨a', ha', ⟨c1, c2, c3, _, c5⟩, _⟩ := hunits l u b hb
    rw [hu] at ha'
    obtain rfl := Option.some.inj ha'
    obtain ⟨⟨⟨w1, w2, w3⟩, w4⟩, w5, w6⟩ := NeuralNetwork.wf_unit n1 h1 l u b hb
    refine ⟨⟨⟨by omega, by omega, by rw [c3]; omega⟩, by rw [c3]; exact w4⟩,
      fun hl0 => by rw [c1, w5 hl0, f1], fun l' hl' => ?_⟩
    have := w6 l' hl'
    rw [c1]
    have hd' : s.nn.dims = n1.dims := f4
    unfold NeuralNetwork.dims at hd' this
    rw [hd']
    exact this
  · rw [f5, h1.2.2.2]
    have hd := f4
    unfold NeuralNetwork.dims at hd
    have : (s.nn.network.map List.length).getLast? =
        (n1.network.map List.length).getLast? := by rw [hd]
    rw [List.getLast?_map, List.getLast?_map] at this
    cases e1 : s.nn.network.getLast? <;> cases e2 : n1.network.getLast? <;>
      simp [e1, e2] at this ⊢
    exact this.symm

/-- A call of `BackPropagation::compute` returns on every well-formed network
of at least two layers, also one with an empty layer, when the vectors have
the sizes of the network and the momentum table has an entry for each unit;
the network it leaves is well formed, with the same sizes, and so is the
table. -/
theorem BackPropagation.compute_succeeds (exp : R → R) (bp : BackPropagation R)
    (nn : NeuralNetwork R) (inputs desired : List R) (t0 : List (List R))
    (hm : bp.hasModel = true) (h0 : nn.WF) (hL : 2 ≤ nn.nlayers)
    (hin : inputs.length = nn.ninputs)
    (hdes : desired.length = nn.dimOf (nn.nlayers - 1))
    (hbt : bp.momentumtable = some t0) (ht0 : t0.map List.length = nn.dims) :
    ∃ bp1 nn1 t1, BackPropagation.compute exp bp nn inputs desired =
        .ok (bp1, nn1) ∧ bp1.hasModel = true ∧ bp1.momentumtable = some t1 ∧
      t1.map List.length = nn.dims ∧ nn1.WF ∧ nn1.dims = nn.dims ∧
      nn1.nlayers = nn.nlayers ∧ nn1.ninputs = nn.ninputs := by
  have hset := NeuralNetwork.setInputs_eq nn inputs hin
  have hwf : (nn.setInputs inputs).WF := by
    rw [hset]
    exact ⟨h0.1, hin, h0.2.2.1, h0.2.2.2⟩
  have hnl : (nn.setInputs inputs).nlayers = nn.nlayers := by rw [hset]
  have hni : (nn.setInputs inputs).ninputs = nn.ninputs := by rw [hset]
  have hnet : (nn.setInputs inputs).network = nn.network := by rw [hset]
  have hdm : (nn.setInputs inputs).dims = nn.dims := by
    unfold NeuralNetwork.dims; rw [hnet]
  obtain ⟨n1, hn1, hF, hB⟩ := NeuralNetwork.compute_returns exp
    (nn.setInputs inputs) hwf (by omega)
  have h1 : n1.WF := NeuralNetwork.frame_wf _ n1 hwf hF
  have hnl1 : n1.nlayers = nn.nlayers := by rw [hF.2.1, hnl]
  have hd1 : n1.dims = nn.dims := by rw [hF.2.2.2.1, hdm]
  have hdim1 : ∀ l, n1.dimOf l = nn.dimOf l := by
    intro l; unfold NeuralNetwork.dimOf; rw [hd1]
  obtain ⟨s, hs, hU⟩ := BackPropagation.backward_ok bp n1 desired t0 h1
    (by omega)
    (fun u a ha => by
      rw [hnl1, ← hnl] at ha
      obtain ⟨e1, e2⟩ := hB u a ha
      rw [e2, e1])
    (by rw [hnl1, hdim1]; exact hdes) hbt (by rw [hd1]; exact ht0)
  have hswf := BackPropagation.updated_wellFormed bp n1 t0 _ _ s h1 hU
  obtain ⟨f1, f2, _, f4, _, t, ht, hshape, _⟩ := hU
  refine ⟨{ bp with momentumtable := s.momentumtable }, s.nn, t, ?_, hm, ht,
    by rw [hshape, hd1], hswf, by rw [f4, hd1], by rw [f2, hnl1],
    by rw [f1, hF.1, hni]⟩
  unfold BackPropagation.compute
  have hin' : inputs.length = nn.getInputs.length := by
    rw [hin]; exact h0.2.1.symm
  simp only [hm, not_true_eq_false, if_false, cassert, hin', if_true,
    NeuralNetwork.getNumberOfOutputs_ok nn h0.1 (by omega), hdes, bind,
    Except.bind, hn1, hs, pure, Except.pure]

end ForwardReturns

section ComputeGuards

variable {R : Type} [LinearOrderedField R]

/-- The first assertion of `BackPropagation::compute`. -/
theorem BackPropagation.compute_inputs_assert (exp : R → R)
    (bp : BackPropagation R) (nn : NeuralNetwork R) (inputs desired : List R)
    (hm : bp.hasModel = true) (hin : inputs.length ≠ nn.getInputs.length) :
    BackPropagation.compute exp bp nn inputs desired = .error .assertion := by
  unfold BackPropagation.compute
  simp only [hm, not_true_eq_false, if_false, cassert, hin, bind, Except.bind]
  rfl

/-- The second assertion of `BackPropagation::compute`. -/
theorem BackPropagation.compute_targets_assert (exp : R → R)
    (bp : BackPropagation R) (nn : NeuralNetwork R) (inputs desired : List R)
    (no : Nat) (hm : bp.hasModel = true)
    (hno : nn.getNumberOfOutputs = .ok no) (hdes : desired.length ≠ no) :
    BackPropagation.compute exp bp nn inputs desired = .error .assertion := by
  by_cases hin : inputs.length = nn.getInputs.length
  · unfold BackPropagation.compute
    simp only [hm, not_true_eq_false, if_false, cassert, hin, if_true, hno,
      hdes, bind, Except.bind]
    rfl
  · exact BackPropagation.compute_inputs_assert exp bp nn inputs desired hm hin

/-- The assertion `nLayers >= 2` of `BackPropagation::compute`, reached after
the forward pass. -/
theorem BackPropagation.compute_layers_assert (exp : R → R)
    (bp : BackPropagation R) (nn : NeuralNetwork R) (inputs desired : List R)
    (hm : bp.hasModel = true) (h0 : nn.WF) (hL : nn.nlayers = 1) :
    BackPropagation.compute exp bp nn inputs desired = .error .assertion := by
  by_cases hin : inputs.length = nn.getInputs.length
  · have hno := NeuralNetwork.getNumberOfOutputs_ok nn h0.1 (by omega)
    by_cases hdes : desired.length = nn.dimOf (nn.nlayers - 1)
    · have hin' : inputs.length = nn.ninputs := by
        rw [hin]; exact h0.2.1
      have hset := NeuralNetwork.setInputs_eq nn inputs hin'
      have hwf : (nn.setInputs inputs).WF := by
        rw [hset]
        exact ⟨h0.1, hin', h0.2.2.1, h0.2.2.2⟩
      have hnl : (nn.setInputs inputs).nlayers = nn.nlayers := by rw [hset]
      obtain ⟨n1, hn1, hF, _⟩ := NeuralNetwork.compute_returns exp
        (nn.setInputs inputs) hwf (by omega)
      have hnl1 : n1.nlayers = 1 := by rw [hF.2.1, hnl, hL]
      have hback : BackPropagation.backward bp n1 desired =
          .error .assertion := by
        unfold BackPropagation.backward BackPropagation.outputPhase
        have hge : ¬ n1.getNumberOfLayers ≥ 2 := by
          unfold NeuralNetwork.getNumberOfLayers
          omega
        simp only [cassert, hge, if_false, bind, Except.bind]
      unfold BackPropagation.compute
      simp only [hm, not_true_eq_false, if_false, cassert, hin, if_true, hno,
        hdes, bind, Except.bind, hn1, hback]
      rfl
    · exact BackPropagation.compute_targets_assert exp bp nn inputs desired _
        hm hno hdes
  · exact BackPropagation.compute_inputs_assert exp bp nn inputs desired hm hin

/-- The algorithm object that `setModel` leaves on a network with `nlayers`
layers: attached, with a zero momentum entry for each unit. -/
theorem BackPropagation.setModel_ok (bp0 : BackPropagation R)
    (nn : NeuralNetwork R) (hlen : nn.network.length = nn.nlayers) :
    ∃ bp t0, BackPropagation.setModel bp0 (some nn) = .ok bp ∧
      bp.hasModel = true ∧ bp.momentumtable = some t0 ∧
      t0.map List.length = nn.dims ∧ bp.eta = bp0.eta ∧
      bp.lambda = bp0.lambda ∧ bp.alfa = bp0.alfa := by
  refine ⟨{ bp0 with hasModel := true, momentumtable := (some
    (nn.dims.map (fun d => List.replicate d (0 : R)))) },
    nn.dims.map (fun d => List.replicate d (0 : R)), ?_, rfl, rfl, ?_, rfl,
    rfl, rfl⟩
  · unfold BackPropagation.setModel
    exact BackPropagation.makeMomentumTable_ok _ nn hlen
  · rw [List.map_map]
    apply List.ext_getElem?
    intro i
    simp only [List.getElem?_map, Function.comp]
    cases nn.dims[i]? <;> simp

end ComputeGuards

/-- Counterexample to C35: on a network with no layer, attached with
`setModel`, the call with empty vectors passes the first assertion and then
evaluates `network->back()` on the empty vector of layers, which is
undefined, before any assertion on the number of layers; on the network of
one layer that `read()` makes of the text `2 1 1 / 1,5`, whose unit has no
input for the two inputs of the network, the forward pass raises
`out_of_range` before the assertion `nLayers >= 2` is reached. -/
theorem C35_counterexample :
    (∃ bp, BackPropagation.setModel ⟨false, 0, 0, 0, none⟩
        (some (⟨0, 0, [], [], []⟩ : NeuralNetwork ℚ)) = .ok bp ∧
      BackPropagation.compute sampleExp bp ⟨0, 0, [], [], []⟩ [] [] =
        .error .undefined) ∧
    (∃ bp, BackPropagation.setModel ⟨false, 0, 0, 0, none⟩
        (some (⟨2, 1, [0, 0], [[⟨0, 1, [1], [5], 0⟩]], [0]⟩ :
          NeuralNetwork ℚ)) = .ok bp ∧
      BackPropagation.compute sampleExp bp
        ⟨2, 1, [0, 0], [[⟨0, 1, [1], [5], 0⟩]], [0]⟩ [1, 2] [1] =
        .error .out_of_range) :=
  ⟨⟨_, by with_unfolding_all rfl, by with_unfolding_all rfl⟩,
    ⟨_, by with_unfolding_all rfl, by with_unfolding_all rfl⟩⟩

/-- Claim C35, amended: on an attached network, `BackPropagation::compute`
fails an assertion when the input vector has not the length of the network's
input vector, when the network has a layer and the target vector has not the
length of its last layer, and when the network satisfies the arity invariant
and has exactly one layer.  Conversely, on a network of at least two layers
that satisfies the arity invariant, with vectors of matching lengths, the
call returns whenever the algorithm object is attached with a momentum entry
for each unit, which is how `setModel` on this network leaves it whatever the
rates: no assertion, no range check and no access inside `compute` fails, and
the network and the table it leaves are again of this kind. -/
theorem C35_compute_preconditions {R : Type} [LinearOrderedField R]
    (exp : R → R) (bp : BackPropagation R) (nn : NeuralNetwork R)
    (inputs desired : List R) (hm : bp.hasModel = true) :
    (inputs.length ≠ nn.getInputs.length →
      BackPropagation.compute exp bp nn inputs desired = .error .assertion) ∧
    (∀ no, nn.getNumberOfOutputs = .ok no → desired.length ≠ no →
      BackPropagation.compute exp bp nn inputs desired = .error .assertion) ∧
    (nn.WF → nn.nlayers = 1 →
      BackPropagation.compute exp bp nn inputs desired = .error .assertion) ∧
    (nn.WF → 2 ≤ nn.nlayers → inputs.length = nn.ninputs →
      nn.getNumberOfOutputs = .ok desired.length →
      (∀ t0, bp.momentumtable = some t0 → t0.map List.length = nn.dims →
        ∃ bp1 nn1 t1, BackPropagation.compute exp bp nn inputs desired =
            .ok (bp1, nn1) ∧ bp1.hasModel = true ∧
          bp1.momentumtable = some t1 ∧ t1.map List.length = nn1.dims ∧
          nn1.WF ∧ nn1.nlayers = nn.nlayers ∧ nn1.ninputs = nn.ninputs ∧
          nn1.getNumberOfOutputs = .ok desired.length) ∧
      ∀ bp0 : BackPropagation R, ∃ bp2 t0,
        BackPropagation.setModel bp0 (some nn) = .ok bp2 ∧
        bp2.hasModel = true ∧ bp2.momentumtable = some t0 ∧
        t0.map List.length = nn.dims ∧
        ∃ r, BackPropagation.compute exp bp2 nn inputs desired = .ok r) := by
  refine ⟨BackPropagation.compute_inputs_assert exp bp nn inputs desired hm,
    fun no hno hdes => BackPropagation.compute_targets_assert exp bp nn inputs
      desired no hm hno hdes,
    fun h0 hL => BackPropagation.compute_layers_assert exp bp nn inputs desired
      hm h0 hL, ?_⟩
  intro h0 hL hin hno
  have hno' := NeuralNetwork.getNumberOfOutputs_ok nn h0.1 (by omega)
  have hdes : desired.length = nn.dimOf (nn.nlayers - 1) := by
    rw [hno'] at hno
    injection hno with hno
    exact hno.symm
  refine ⟨fun t0 hbt ht0 => ?_, fun bp0 => ?_⟩
  · obtain ⟨bp1, nn1, t1, hc, e1, e2, e3, e4, e5, e6, e7⟩ :=
      BackPropagation.compute_succeeds exp bp nn inputs desired t0 hm h0 hL hin
        hdes hbt ht0
    refine ⟨bp1, nn1, t1, hc, e1, e2, by rw [e3, e5], e4, e6, e7, ?_⟩
    rw [NeuralNetwork.getNumberOfOutputs_ok nn1 e4.1 (by omega), hdes]
    unfold NeuralNetwork.dimOf
    rw [e5, e6]
  · obtain ⟨bp2, t0, hs, f1, f2, f3, _⟩ :=
      BackPropagation.setModel_ok bp0 nn h0.1
    obtain ⟨bp1, nn1, t1, hc, _⟩ :=
      BackPropagation.compute_succeeds exp bp2 nn inputs desired t0 f1 h0 hL hin
        hdes f2 f3
    exact ⟨bp2, t0, hs, f1, f2, f3, _, hc⟩

set_option maxRecDepth 100000 in
/-- Witness of C35: the call on the sample network, attached with `setModel`,
with the vectors `[1, 2]` and `[1]`. -/
theorem C35_compute_preconditions_witness :
    (∃ bp1 nn1 t1, BackPropagation.compute sampleExp (sampleBP [[0, 0], [0]])
        sampleNetwork [1, 2] [1] = .ok (bp1, nn1) ∧ bp1.hasModel = true ∧
      bp1.momentumtable = some t1 ∧ t1.map List.length = nn1.dims ∧
      nn1.WF ∧ nn1.nlayers = 2 ∧ nn1.ninputs = 2 ∧
      nn1.getNumberOfOutputs = .ok 1) ∧
    BackPropagation.compute sampleExp (sampleBP [[0, 0], [0]])
      sampleNetwork [1] [1] = .error .assertion :=
  ⟨((C35_compute_preconditions sampleExp (sampleBP [[0, 0], [0]])
      sampleNetwork [1, 2] [1] rfl).2.2.2 sampleNetwork_wf (by decide) rfl
      rfl).1 [[0, 0], [0]] rfl rfl,
    (C35_compute_preconditions sampleExp (sampleBP [[0, 0], [0]])
      sampleNetwork [1] [1] rfl).1 (by decide)⟩

/-! ## C36, C37, C40: the passes of an epoch -/

section LayoutFacts

variable {R : Type} [LinearOrderedField R]

/-- The states that a loop which returns goes through. -/
theorem foldlM_range_trace {σ : Type} (f : σ → Nat → Except Error σ) :
    ∀ (n : Nat) (s0 s' : σ), (List.range n).foldlM f s0 = .ok s' →
      ∃ st : Nat → σ, st 0 = s0 ∧ st n = s' ∧
        ∀ k, k < n → f (st k) k = .ok (st (k + 1))
  | 0, s0, s', h => by
    cases h
    exact ⟨fun _ => s0, rfl, rfl, fun k hk => by omega⟩
  | n + 1, s0, s', h => by
    rw [List.range_succ, List.foldlM_append] at h
    cases h1 : (List.range n).foldlM f s0 with
    | error e => rw [h1] at h; cases h
    | ok s1 =>
      rw [h1] at h
      simp only [bind, Except.bind, List.foldlM_cons, List.foldlM_nil] at h
      have h2 : f s1 n = .ok s' := by
        cases hf : f s1 n with
        | error e => rw [hf] at h; cases h
        | ok s2 =>
          rw [hf] at h
          simp only [pure, Except.pure] at h
          rw [h]
      obtain ⟨st, h0, hn, hstep⟩ := foldlM_range_trace f n s0 s1 h1
      refine ⟨fun k => if k ≤ n then st k else s', by simp [h0], by simp, ?_⟩
      intro k hk
      by_cases hkn : k = n
      · subst hkn
        simp only [le_refl, if_true, Nat.add_one_le_iff, lt_irrefl, if_false,
          hn]
        exact h2
      · have h3 : k ≤ n := by omega
        have h4 : k + 1 ≤ n := by omega
        simp only [h3, h4, if_true]
        exact hstep k (by omega)

omit [LinearOrderedField R] in
/-- Replacing a unit by one on which `f` has the same value keeps the
layout of the network for `f`. -/
theorem NeuralNetwork.layout_putUnit {α : Type} (f : Unit R → α)
    (n : NeuralNetwork R) (l j : Nat) (a u : Unit R)
    (ha : n.unit? l j = some a) (hs : f u = f a) :
    (n.putUnit l j u).layout f = n.layout f := by
  unfold NeuralNetwork.unit? at ha
  cases hl : n.network[l]? with
  | none => simp [hl] at ha
  | some layer =>
    simp only [hl, Option.some_bind] at ha
    have hget : n.network.getD l [] = layer := by
      simp [List.getD_eq_getElem?_getD, hl]
    unfold NeuralNetwork.layout NeuralNetwork.putUnit
    simp only [hget, List.map_set, hs]
    rw [set_self_of_getElem? (layer.map f) j (f a) (by simp [ha]),
      set_self_of_getElem? _ l (layer.map f) (by simp [hl])]

omit [LinearOrderedField R] in
theorem Unit.setInput_weighting (u u' : Unit R) (i : Nat) (x : R)
    (h : u.setInput i x = .ok u') : u'.weighting = u.weighting := by
  unfold Unit.setInput at h
  by_cases hg : i < 1 ∨ i > u.numberOfInputs
  · rw [if_pos hg] at h
    cases h
  · rw [if_neg hg] at h
    unfold rawSet at h
    by_cases hi : i < u.inputs.length
    · simp only [hi, if_true, bind, Except.bind, pure, Except.pure] at h
      injection h with h
      subst h
      rfl
    · simp [hi, bind, Except.bind] at h

theorem Unit.computeOutput_weighting (exp : R → R) (u u' : Unit R) (y : R)
    (h : u.computeOutput exp = .ok (y, u')) : u'.weighting = u.weighting := by
  unfold Unit.computeOutput at h
  cases hc : u.calcOutput exp with
  | error e => simp [hc, bind, Except.bind] at h
  | ok z =>
    simp only [hc, bind, Except.bind, pure, Except.pure] at h
    injection h with h
    injection h with h1 h2
    subst h2
    rfl

/-- Whether `compute` returns or throws, the state it leaves has the layout
of the state it started from, for every `f` that the two methods of `Unit`
called by `compute` leave as it is. -/
theorem NeuralNetwork.computeSt_layout {α : Type} (f : Unit R → α)
    (exp : R → R)
    (h1 : ∀ (u u' : Unit R) (i : Nat) (x : R),
      u.setInput i x = .ok u' → f u' = f u)
    (h2 : ∀ (u u' : Unit R) (y : R),
      u.computeOutput exp = .ok (y, u') → f u' = f u)
    (n : NeuralNetwork R) :
    landsIn (fun m => m.layout f = n.layout f) (n.computeSt exp) := by
  have hin : ∀ (i : Nat) (s : NeuralNetwork R) (j : Nat),
      s.layout f = n.layout f →
      landsIn (fun m => m.layout f = n.layout f)
        (NeuralNetwork.feedInputSt i s j) := by
    intro i s j hs
    unfold NeuralNetwork.feedInputSt
    apply NeuralNetwork.landsIn_raisedIn _ _ _ _ hs
    intro u hu
    apply NeuralNetwork.landsIn_raisedIn _ _ _ _ hs
    intro x _
    apply NeuralNetwork.landsIn_raisedIn _ _ _ _ hs
    intro u' hu'
    show (s.putUnit 0 j u').layout f = n.layout f
    rw [NeuralNetwork.layout_putUnit f s 0 j u u'
      (NeuralNetwork.unit?_of_unitAt s 0 j u hu) (h1 u u' _ _ hu'), hs]
  have hfw : ∀ (i j : Nat) (s : NeuralNetwork R) (t : Nat),
      s.layout f = n.layout f →
      landsIn (fun m => m.layout f = n.layout f)
        (NeuralNetwork.feedForwardSt exp i j s t) := by
    intro i j s t hs
    unfold NeuralNetwork.feedForwardSt
    apply NeuralNetwork.landsIn_raisedIn _ _ _ _ hs
    intro u hu
    apply NeuralNetwork.landsIn_raisedIn _ _ _ _ hs
    rintro ⟨y, u'⟩ hu'
    have hs1 : (s.putUnit i j u').layout f = n.layout f := by
      rw [NeuralNetwork.layout_putUnit f s i j u u'
        (NeuralNetwork.unit?_of_unitAt s i j u hu) (h2 u u' y hu'), hs]
    apply NeuralNetwork.landsIn_raisedIn _ _ _ _ hs1
    intro v hv
    apply NeuralNetwork.landsIn_raisedIn _ _ _ _ hs1
    intro v' hv'
    show ((s.putUnit i j u').putUnit (i + 1) t v').layout f = n.layout f
    rw [NeuralNetwork.layout_putUnit f _ (i + 1) t v v'
      (NeuralNetwork.unit?_of_unitAt _ (i + 1) t v hv) (h1 v v' _ _ hv'), hs1]
  have hso : ∀ (s : NeuralNetwork R) (i : Nat),
      s.layout f = n.layout f →
      landsIn (fun m => m.layout f = n.layout f)
        (NeuralNetwork.storeOutputSt exp s i) := by
    intro s i hs
    unfold NeuralNetwork.storeOutputSt
    apply NeuralNetwork.landsIn_raisedIn _ _ _ _ hs
    intro u hu
    apply NeuralNetwork.landsIn_raisedIn _ _ _ _ hs
    rintro ⟨y, u'⟩ hu'
    have hs1 : (s.putUnit (upred s.nlayers) i u').layout f = n.layout f := by
      rw [NeuralNetwork.layout_putUnit f s _ i u u'
        (NeuralNetwork.unit?_of_unitAt s _ i u hu) (h2 u u' y hu'), hs]
    apply NeuralNetwork.landsIn_raisedIn _ _ _ _ hs1
    intro v _
    exact hs1
  unfold NeuralNetwork.computeSt
  apply landsIn_bind
  · unfold NeuralNetwork.feedInputsSt
    refine landsIn_foldlM (fun m => m.layout f = n.layout f) _ ?_ _ n rfl
    intro s i hs
    apply NeuralNetwork.landsIn_raisedIn _ _ _ _ hs
    intro l _
    exact landsIn_foldlM (fun m => m.layout f = n.layout f) _
      (fun s' j hs' => hin i s' j hs') _ s hs
  · intro s hs
    apply landsIn_bind
    · unfold NeuralNetwork.feedLayersSt
      refine landsIn_foldlM (fun m => m.layout f = n.layout f) _ ?_ _ s hs
      intro s1 i hs1
      unfold NeuralNetwork.feedLayerSt
      apply NeuralNetwork.landsIn_raisedIn _ _ _ _ hs1
      intro l _
      refine landsIn_foldlM (fun m => m.layout f = n.layout f) _ ?_ _ s1 hs1
      intro s2 j hs2
      unfold NeuralNetwork.feedUnitSt
      apply NeuralNetwork.landsIn_raisedIn _ _ _ _ hs2
      intro l' _
      exact landsIn_foldlM (fun m => m.layout f = n.layout f) _
        (fun s' t hs' => hfw i j s' t hs') _ s2 hs2
    · intro s1 hs1
      unfold NeuralNetwork.storeOutputsSt
      apply NeuralNetwork.landsIn_raisedIn _ _ _ _ hs1
      intro l _
      exact landsIn_foldlM (fun m => m.layout f = n.layout f) _
        (fun s' t hs' => hso s' t hs') _ s1 hs1

/-- A call of `compute`, returning or throwing, leaves every weight as it
is. -/
theorem NeuralNetwork.call_compute_weighting (exp : R → R)
    (n : NeuralNetwork R) :
    (n.call exp .compute).layout Unit.weighting = n.layout Unit.weighting := by
  have h := NeuralNetwork.computeSt_layout Unit.weighting exp
    Unit.setInput_weighting (Unit.computeOutput_weighting exp) n
  simp only [NeuralNetwork.call]
  cases hc : n.computeSt exp with
  | error e =>
    rw [hc] at h
    exact h
  | ok n' =>
    rw [hc] at h
    exact h

omit [LinearOrderedField R] in
/-- The answers of `getWeight` are read off the weights of the layout. -/
theorem NeuralNetwork.getWeight_of_layout (n m : NeuralNetwork R)
    (h : n.layout Unit.weighting = m.layout Unit.weighting) (l u k : Nat) :
    n.getWeight l u k = m.getWeight l u k := by
  simp only [NeuralNetwork.layout, Prod.mk.injEq] at h
  obtain ⟨hnl, hmap⟩ := h
  have hl : (n.network[l]?).map (fun x => x.map Unit.weighting) =
      (m.network[l]?).map (fun x => x.map Unit.weighting) := by
    rw [← List.getElem?_map, ← List.getElem?_map, hmap]
  unfold NeuralNetwork.getWeight NeuralNetwork.checkedWeight
    NeuralNetwork.checkedUnit
  rw [hnl]
  by_cases hg : l ≥ m.nlayers
  · simp only [hg, if_true]
  · simp only [hg, if_false]
    unfold atGet
    cases hn : n.network[l]? with
    | none =>
      cases hm : m.network[l]? with
      | none => rfl
      | some lm => rw [hn, hm] at hl; cases hl
    | some ln =>
      cases hm : m.network[l]? with
      | none => rw [hn, hm] at hl; cases hl
      | some lm =>
        rw [hn, hm] at hl
        simp only [Option.map_some', Option.some.injEq] at hl
        have hlen : ln.length = lm.length := by
          simpa using congrArg List.length hl
        have hu : (ln[u]?).map Unit.weighting = (lm[u]?).map Unit.weighting := by
          rw [← List.getElem?_map, ← List.getElem?_map, hl]
        simp only [bind, Except.bind, hlen]
        by_cases hgu : u ≥ lm.length
        · simp only [hgu, if_true]
        · simp only [hgu, if_false]
          cases hun : ln[u]? with
          | none =>
            cases hum : lm[u]? with
            | none => rfl
            | some b => rw [hun, hum] at hu; cases hu
          | some a =>
            cases hum : lm[u]? with
            | none => rw [hun, hum] at hu; cases hu
            | some b =>
              rw [hun, hum] at hu
              simp only [Option.map_some', Option.some.injEq, Unit.weighting,
                Prod.mk.injEq] at hu
              obtain ⟨e1, e2⟩ := hu
              simp only [Unit.getNumberOfWeights, Unit.getWeight, e1, e2, pure,
                Except.pure]
              by_cases hk : k ≥ b.numberOfWeights
              · simp only [hk, if_true]
              · simp only [hk, if_false]
                rw [e1, if_neg hk, e2]

end LayoutFacts

section PassFacts

variable {R : Type} [LinearOrderedField R]

theorem squaredError_nonneg (y d : List R) : 0 ≤ squaredError y d := by
  unfold squaredError
  apply div_nonneg _ (by norm_num)
  exact Finset.sum_nonneg (fun j _ => sq_nonneg _)

/-- `modelError` returns on vectors of equal length, with half the sum of
the squared differences. -/
theorem Trainer.modelError_ok (y d : List R) (hlen : y.length = d.length) :
    Trainer.modelError y d = .ok (squaredError y d) := by
  unfold Trainer.modelError
  obtain ⟨e, he, hP⟩ := foldlM_range_inv
    (fun (error : R) i => do
      let dv ← rawGet d i
      let yv ← rawGet y i
      pure (error + (dv - yv) ^ 2))
    (fun i e => e = ∑ j in Finset.range i, (d.getD j 0 - y.getD j 0) ^ 2)
    y.length 0 (by simp)
    (by
      intro i s hi hs
      refine ⟨s + (d.getD i 0 - y.getD i 0) ^ 2, ?_, ?_⟩
      · simp only [rawGet_getD d i (by omega), rawGet_getD y i hi, bind,
          Except.bind, pure, Except.pure]
      · show s + (d.getD i 0 - y.getD i 0) ^ 2 =
          ∑ j in Finset.range (i + 1), (d.getD j 0 - y.getD j 0) ^ 2
        rw [Finset.sum_range_succ, hs])
  simp only [cassert, hlen, if_true, bind, Except.bind, pure, Except.pure]
    at he ⊢
  rw [← hlen] at he ⊢
  rw [he, hP]
  rfl

/-- What `modelError` has returned. -/
theorem Trainer.modelError_val (y d : List R) (e : R)
    (h : Trainer.modelError y d = .ok e) :
    y.length = d.length ∧ e = squaredError y d := by
  by_cases hlen : y.length = d.length
  · rw [Trainer.modelError_ok y d hlen] at h
    injection h with h
    exact ⟨hlen, h.symm⟩
  · unfold Trainer.modelError at h
    simp [cassert, hlen, bind, Except.bind] at h

/-- What `modelHit` has returned. -/
theorem Trainer.modelHit_val (t : Trainer R) (y d : List R) (h : Nat)
    (hh : t.modelHit y d = .ok h) :
    y.length = d.length ∧ h ≤ 1 := by
  by_cases hlen : y.length = d.length
  · obtain ⟨h', hh', h01, _⟩ :=
      Trainer.modelHitLoop_ok t.threshold y d hlen y.length 0 (by omega)
    unfold Trainer.modelHit at hh
    simp only [cassert, hlen, if_true, bind, Except.bind] at hh
    rw [← hlen, hh'] at hh
    injection hh with hh
    subst hh
    exact ⟨hlen, by omega⟩
  · unfold Trainer.modelHit at hh
    simp [cassert, hlen, bind, Except.bind] at hh

/-- The body of the loop of `validation`: what a turn that completes has
done. -/
theorem Trainer.validationStep_spec (exp : R → R) (t t' : Trainer R) (k : Nat)
    (h : Trainer.validationStep exp t k = .ok t') :
    ∃ inst hit, t.dataset.vaAt k = .ok inst ∧
      (t.model.setInputs inst.input).compute exp = .ok t'.model ∧
      t'.model.getOutputs.length = inst.output.length ∧
      t.modelHit t'.model.getOutputs inst.output = .ok hit ∧ hit ≤ 1 ∧
      t' = { t with
        model := t'.model,
        vaerr := t.vaerr.add (squaredError t'.model.getOutputs inst.output),
        vaacc := t.vaacc.add (hit : R) } := by
  unfold Trainer.validationStep at h
  cases hi : t.dataset.vaAt k with
  | error e => simp [hi, bind, Except.bind] at h
  | ok inst =>
    simp only [hi, bind, Except.bind] at h
    cases hc : (t.model.setInputs inst.input).compute exp with
    | error e => simp [hc] at h
    | ok model =>
      simp only [hc] at h
      cases he : Trainer.modelError model.getOutputs inst.output with
      | error e => simp [he] at h
      | ok e =>
        simp only [he] at h
        obtain ⟨hlen, hev⟩ := Trainer.modelError_val _ _ e he
        have hmh : Trainer.modelHit { t with model := model } model.getOutputs
            inst.output = t.modelHit model.getOutputs inst.output := rfl
        rw [hmh] at h
        cases hh : t.modelHit model.getOutputs inst.output with
        | error e' => simp [hh] at h
        | ok hit =>
          simp only [hh, pure, Except.pure] at h
          injection h with h
          subst h
          exact ⟨inst, hit, rfl, hc, hlen, hh,
            (Trainer.modelHit_val t _ _ hit hh).2, by rw [hev]⟩

/-- The body of the loop of `training`: what a turn that completes has
done. -/
theorem Trainer.trainingStep_spec (exp : R → R) (t t' : Trainer R) (k : Nat)
    (h : Trainer.trainingStep exp t k = .ok t') :
    ∃ alg inst bp' nn' hit, t.algorithm = some alg ∧
      t.dataset.trAt k = .ok inst ∧
      alg.compute exp t.model inst.input inst.output = .ok (bp', nn') ∧
      (nn'.setInputs inst.input).compute exp = .ok t'.model ∧
      t'.model.getOutputs.length = inst.output.length ∧
      t.modelHit t'.model.getOutputs inst.output = .ok hit ∧ hit ≤ 1 ∧
      t' = { t with
        algorithm := some bp', model := t'.model,
        trerr := t.trerr.add (squaredError t'.model.getOutputs inst.output),
        tracc := t.tracc.add (hit : R) } := by
  unfold Trainer.trainingStep at h
  cases ha : t.algorithm with
  | none => simp [ha, bind, Except.bind, throw, throwThe, MonadExceptOf.throw] at h
  | some alg =>
    simp only [ha, bind, Except.bind, pure, Except.pure] at h
    cases hi : t.dataset.trAt k with
    | error e => simp [hi] at h
    | ok inst =>
      simp only [hi] at h
      cases hb : alg.compute exp t.model inst.input inst.output with
      | error e => simp [hb] at h
      | ok r =>
        obtain ⟨bp', nn'⟩ := r
        simp only [hb] at h
        cases hc : (nn'.setInputs inst.input).compute exp with
        | error e => simp [hc] at h
        | ok model =>
          simp only [hc] at h
          cases he : Trainer.modelError model.getOutputs inst.output with
          | error e => simp [he] at h
          | ok e =>
            simp only [he] at h
            obtain ⟨hlen, hev⟩ := Trainer.modelError_val _ _ e he
            have hmh : Trainer.modelHit
                { t with algorithm := some bp', model := model }
                model.getOutputs inst.output =
                t.modelHit model.getOutputs inst.output := rfl
            rw [hmh] at h
            cases hh : t.modelHit model.getOutputs inst.output with
            | error e' => simp [hh] at h
            | ok hit =>
              simp only [hh] at h
              injection h with h
              subst h
              exact ⟨alg, inst, bp', nn', hit, rfl, rfl, hb, hc, hlen, hh,
                (Trainer.modelHit_val t _ _ hit hh).2, by rw [hev]⟩

end PassFacts

section ValidationPass

variable {R : Type} [LinearOrderedField R]

/-- The validation pass, turn by turn: the models `m 0, m 1, ...` that the
forward passes leave, the instances evaluated, the hit indicators, and the
averages. -/
theorem Trainer.validation_pass (exp : R → R) (t t' : Trainer R)
    (h : Trainer.validation exp t = .ok t') :
    ∃ n, t.dataset.getVaSetSize = .ok n ∧
      (n = 0 → t' = { t with vaerr := some 0, vaacc := some 0 }) ∧
      ∃ (m : Nat → NeuralNetwork R) (inst : Nat → Instance R)
        (hit : Nat → Nat),
        m 0 = t.model ∧
        (∀ i, i < n → t.dataset.vaAt i = .ok (inst i) ∧
          ((m i).setInputs (inst i).input).compute exp = .ok (m (i + 1)) ∧
          (m (i + 1)).getOutputs.length = (inst i).output.length ∧
          t.modelHit (m (i + 1)).getOutputs (inst i).output = .ok (hit i) ∧
          hit i ≤ 1) ∧
        (0 < n → t' = { t with
          model := m n,
          vaerr := some ((∑ i in Finset.range n,
            squaredError (m (i + 1)).getOutputs (inst i).output) / (n : R)),
          vaacc := some ((∑ i in Finset.range n, (hit i : R)) / (n : R)) }) := by
  unfold Trainer.validation at h
  simp only [] at h
  cases hn : t.dataset.getVaSetSize with
  | error e => simp [hn, bind, Except.bind] at h
  | ok n =>
    simp only [hn, bind, Except.bind, pure, Except.pure] at h
    by_cases h0 : n = 0
    · rw [if_pos h0] at h
      injection h with h
      refine ⟨n, rfl, fun _ => h.symm, fun _ => t.model,
        fun _ => ⟨"", [], []⟩, fun _ => 0, rfl, fun i hi => by omega,
        fun hp => by omega⟩
    · rw [if_neg h0] at h
      cases hf : (List.range n).foldlM (Trainer.validationStep exp)
          { t with vaerr := some 0, vaacc := some 0 } with
      | error e => simp [hf] at h
      | ok s =>
        simp only [hf] at h
        injection h with h
        obtain ⟨st, hst0, hstn, hstep⟩ := foldlM_range_trace
          (Trainer.validationStep exp) n _ s hf
        -- the instances and the hit indicators of the turns
        let inst : Nat → Instance R := fun i =>
          match t.dataset.vaAt i with
          | .ok x => x
          | .error _ => ⟨"", [], []⟩
        let hit : Nat → Nat := fun i =>
          match t.modelHit (st (i + 1)).model.getOutputs (inst i).output with
          | .ok x => x
          | .error _ => 0
        have hinv : ∀ k, k ≤ n → st k = { t with
            model := (st k).model,
            vaerr := some (∑ i in Finset.range k,
              squaredError (st (i + 1)).model.getOutputs (inst i).output),
            vaacc := some (∑ i in Finset.range k, (hit i : R)) } ∧
            ∀ i, i < k → t.dataset.vaAt i = .ok (inst i) ∧
              (((st i).model).setInputs (inst i).input).compute exp =
                .ok (st (i + 1)).model ∧
              (st (i + 1)).model.getOutputs.length = (inst i).output.length ∧
              t.modelHit (st (i + 1)).model.getOutputs (inst i).output =
                .ok (hit i) ∧ hit i ≤ 1 := by
          intro k
          induction k with
          | zero =>
            intro _
            refine ⟨?_, fun i hi => by omega⟩
            rw [hst0]
            simp
          | succ k ih =>
            intro hk
            obtain ⟨hk1, hk2⟩ := ih (by omega)
            obtain ⟨x, hx, e1, e2, e3, e4, e5, e6⟩ :=
              Trainer.validationStep_spec exp (st k) (st (k + 1)) k
                (hstep k (by omega))
            have hds : (st k).dataset = t.dataset := by rw [hk1]
            have hth : (st k).modelHit (st (k + 1)).model.getOutputs x.output =
                t.modelHit (st (k + 1)).model.getOutputs x.output := by
              rw [hk1]
              rfl
            rw [hds] at e1
            rw [hth] at e4
            have hix : inst k = x := by
              show (match t.dataset.vaAt k with
                | .ok x => x
                | .error _ => ⟨"", [], []⟩) = x
              rw [e1]
            have hhx : hit k = hx := by
              show (match t.modelHit (st (k + 1)).model.getOutputs
                  (inst k).output with
                | .ok x => x
                | .error _ => 0) = hx
              rw [hix, e4]
            refine ⟨?_, fun i hi => ?_⟩
            · rw [e6, Finset.sum_range_succ, Finset.sum_range_succ, hix, hhx]
              conv_lhs => rw [hk1]
              simp [Metric.add]
            · by_cases hik : i = k
              · subst hik
                rw [hix, hhx]
                exact ⟨e1, e2, e3, e4, e5⟩
              · exact hk2 i (by omega)
        obtain ⟨hn1, hn2⟩ := hinv n (le_refl _)
        refine ⟨n, rfl, fun hz => absurd hz h0, fun k => (st k).model, inst,
          hit, by show (st 0).model = t.model; rw [hst0], hn2, fun _ => ?_⟩
        rw [← h, ← hstn]
        conv_lhs => rw [hn1]
        simp [Metric.divCount, h0]

end ValidationPass

section TrainingPass

variable {R : Type} [LinearOrderedField R]

/-- The training pass, turn by turn: the models `m 0, m 1, ...` and the
states `a 0, a 1, ...` of the algorithm object that the turns leave, the
instances processed, the hit indicators, and the averages. -/
theorem Trainer.training_pass (exp : R → R) (t t' : Trainer R)
    (h : Trainer.training exp t = .ok t') :
    ∃ (m : Nat → NeuralNetwork R) (a : Nat → Option (BackPropagation R))
      (inst : Nat → Instance R) (hit : Nat → Nat),
      m 0 = t.model ∧ a 0 = t.algorithm ∧
      (∀ i, i < t.dataset.getTrSetSize → ∃ alg bp' nn',
        a i = some alg ∧ t.dataset.trAt i = .ok (inst i) ∧
        alg.compute exp (m i) (inst i).input (inst i).output = .ok (bp', nn') ∧
        a (i + 1) = some bp' ∧
        (nn'.setInputs (inst i).input).compute exp = .ok (m (i + 1)) ∧
        (m (i + 1)).getOutputs.length = (inst i).output.length ∧
        t.modelHit (m (i + 1)).getOutputs (inst i).output = .ok (hit i) ∧
        hit i ≤ 1) ∧
      (0 < t.dataset.getTrSetSize → t' = { t with
        algorithm := a t.dataset.getTrSetSize,
        model := m t.dataset.getTrSetSize,
        trerr := some ((∑ i in Finset.range t.dataset.getTrSetSize,
          squaredError (m (i + 1)).getOutputs (inst i).output) /
            (t.dataset.getTrSetSize : R)),
        tracc := some ((∑ i in Finset.range t.dataset.getTrSetSize,
          (hit i : R)) / (t.dataset.getTrSetSize : R)) }) ∧
      (t.dataset.getTrSetSize = 0 →
        t' = { t with trerr := none, tracc := none }) := by
  unfold Trainer.training at h
  simp only [bind, Except.bind, pure, Except.pure] at h
  cases hf : (List.range t.dataset.getTrSetSize).foldlM
      (Trainer.trainingStep exp)
      { t with trerr := some 0, tracc := some 0 } with
  | error e => simp [hf] at h
  | ok s =>
    simp only [hf] at h
    injection h with h
    obtain ⟨st, hst0, hstn, hstep⟩ := foldlM_range_trace
      (Trainer.trainingStep exp) _ _ s hf
    let inst : Nat → Instance R := fun i =>
      match t.dataset.trAt i with
      | .ok x => x
      | .error _ => ⟨"", [], []⟩
    let hit : Nat → Nat := fun i =>
      match t.modelHit (st (i + 1)).model.getOutputs (inst i).output with
      | .ok x => x
      | .error _ => 0
    have hinv : ∀ k, k ≤ t.dataset.getTrSetSize → st k = { t with
        algorithm := (st k).algorithm,
        model := (st k).model,
        trerr := some (∑ i in Finset.range k,
          squaredError (st (i + 1)).model.getOutputs (inst i).output),
        tracc := some (∑ i in Finset.range k, (hit i : R)) } ∧
        ∀ i, i < k → ∃ alg bp' nn',
          (st i).algorithm = some alg ∧ t.dataset.trAt i = .ok (inst i) ∧
          alg.compute exp (st i).model (inst i).input (inst i).output =
            .ok (bp', nn') ∧
          (st (i + 1)).algorithm = some bp' ∧
          (nn'.setInputs (inst i).input).compute exp =
            .ok (st (i + 1)).model ∧
          (st (i + 1)).model.getOutputs.length = (inst i).output.length ∧
          t.modelHit (st (i + 1)).model.getOutputs (inst i).output =
            .ok (hit i) ∧ hit i ≤ 1 := by
      intro k
      induction k with
      | zero =>
        intro _
        refine ⟨?_, fun i hi => by omega⟩
        rw [hst0]
        simp
      | succ k ih =>
        intro hk
        obtain ⟨hk1, hk2⟩ := ih (by omega)
        obtain ⟨alg, x, bp', nn', hx, e0, e1, eb, e2, e3, e4, e5, e6⟩ :=
          Trainer.trainingStep_spec exp (st k) (st (k + 1)) k
            (hstep k (by omega))
        have hds : (st k).dataset = t.dataset := by rw [hk1]
        have hth : (st k).modelHit (st (k + 1)).model.getOutputs x.output =
            t.modelHit (st (k + 1)).model.getOutputs x.output := by
          rw [hk1]
          rfl
        rw [hds] at e1
        rw [hth] at e4
        have hix : inst k = x := by
          show (match t.dataset.trAt k with
            | .ok x => x
            | .error _ => ⟨"", [], []⟩) = x
          rw [e1]
        have hhx : hit k = hx := by
          show (match t.modelHit (st (k + 1)).model.getOutputs
              (inst k).output with
            | .ok x => x
            | .error _ => 0) = hx
          rw [hix, e4]
        have halg : (st (k + 1)).algorithm = some bp' := by rw [e6]
        refine ⟨?_, fun i hi => ?_⟩
        · rw [Finset.sum_range_succ, Finset.sum_range_succ, hix, hhx]
          conv_lhs => rw [e6, hk1]
          simp [Metric.add, halg]
        · by_cases hik : i = k
          · subst hik
            rw [hix, hhx]
            exact ⟨alg, bp', nn', e0, e1, eb, halg, e2, e3, e4, e5⟩
          · exact hk2 i (by omega)
    obtain ⟨hn1, hn2⟩ := hinv _ (le_refl _)
    refine ⟨fun k => (st k).model, fun k => (st k).algorithm, inst, hit,
      by show (st 0).model = t.model; rw [hst0],
      by show (st 0).algorithm = t.algorithm; rw [hst0], hn2,
      fun hp => ?_, fun hz => ?_⟩
    · rw [← h, ← hstn]
      conv_lhs => rw [hn1]
      have hne : t.dataset.getTrSetSize ≠ 0 := by omega
      have hds : (st t.dataset.getTrSetSize).dataset = t.dataset := by rw [hn1]
      simp [Metric.divCount, hne, hds]
    · have hs0 : s = st 0 := by rw [← hstn, hz]
      rw [← h, hs0, hst0]
      simp [Metric.divCount, hz]

end TrainingPass

section EpochMetrics

variable {R : Type} [LinearOrderedField R]

omit [LinearOrderedField R] in
theorem NeuralNetwork.setInputs_layout {α : Type} (f : Unit R → α)
    (n : NeuralNetwork R) (x : List R) :
    (n.setInputs x).layout f = n.layout f := by
  unfold NeuralNetwork.setInputs
  split <;> rfl

/-- A forward pass that returns leaves every weight as it is. -/
theorem NeuralNetwork.compute_weighting (exp : R → R) (n n' : NeuralNetwork R)
    (h : n.compute exp = .ok n') :
    n'.layout Unit.weighting = n.layout Unit.weighting := by
  rw [← NeuralNetwork.call_compute exp n n' h]
  exact NeuralNetwork.call_compute_weighting exp n

/-- The body of an epoch, stage by stage. -/
theorem Trainer.epochBody_stages (exp : R → R) (t t1 : Trainer R)
    (w w1 : World R) (h : Trainer.epochBody exp t w = .ok (t1, w1)) :
    ∃ t0 ta tb : Trainer R,
      t0.dataset.getTrSetSize = t.dataset.getTrSetSize ∧
      Trainer.training exp t0 = .ok ta ∧ Trainer.validation exp ta = .ok tb ∧
      t1 = Trainer.updateTrainingVariables tb := by
  unfold Trainer.epochBody at h
  by_cases hs : t.shfepochs ≠ 0 ∧ t.epochs % t.shfepochs = 0
  · rw [if_pos hs] at h
    cases hr : t.dataset.randomShuffleTrainingSet w.rng with
    | error e => simp [hr, bind, Except.bind] at h
    | ok r =>
      simp only [hr, bind, Except.bind, pure, Except.pure] at h
      have hlen : r.1.getTrSetSize = t.dataset.getTrSetSize := by
        unfold Dataset.randomShuffleTrainingSet at hr
        obtain ⟨v', g', hv, hp⟩ := Dataset.shuffle_ok t.dataset.trav w.rng
        simp only [hv, bind, Except.bind, pure, Except.pure] at hr
        injection hr with hr
        rw [← hr]
        exact hp.length_eq
      cases htr : Trainer.training exp { t with dataset := r.1 } with
      | error e => simp [htr] at h
      | ok ta =>
        simp only [htr] at h
        cases hva : Trainer.validation exp ta with
        | error e => simp [hva] at h
        | ok tb =>
          simp only [hva] at h
          cases hsv : Trainer.saveEpochResults
              (Trainer.updateTrainingVariables tb) { w with rng := r.2 } with
          | error e => simp [hsv] at h
          | ok w2 =>
            simp only [hsv] at h
            injection h with h
            injection h with h1 h2
            exact ⟨_, ta, tb, hlen, htr, hva, h1.symm⟩
  · rw [if_neg hs] at h
    simp only [bind, Except.bind, pure, Except.pure] at h
    cases htr : Trainer.training exp t with
    | error e => simp [htr] at h
    | ok ta =>
      simp only [htr] at h
      cases hva : Trainer.validation exp ta with
      | error e => simp [hva] at h
      | ok tb =>
        simp only [hva] at h
        cases hsv : Trainer.saveEpochResults
            (Trainer.updateTrainingVariables tb) w with
        | error e => simp [hsv] at h
        | ok w2 =>
          simp only [hsv] at h
          injection h with h
          injection h with h1 h2
          exact ⟨t, ta, tb, rfl, htr, hva, h1.symm⟩

/-- An average of squared errors is not negative. -/
theorem avg_nonneg (n : Nat) (e : Nat → R) (h : ∀ i, 0 ≤ e i) :
    0 ≤ (∑ i in Finset.range n, e i) / (n : R) :=
  div_nonneg (Finset.sum_nonneg (fun i _ => h i)) (Nat.cast_nonneg n)

/-- An average of hit indicators lies between 0 and 1. -/
theorem avg_hits (n : Nat) (hit : Nat → Nat) (hn : 0 < n)
    (h : ∀ i, i < n → hit i ≤ 1) :
    0 ≤ (∑ i in Finset.range n, (hit i : R)) / (n : R) ∧
      (∑ i in Finset.range n, (hit i : R)) / (n : R) ≤ 1 := by
  have hpos : (0 : R) < (n : R) := Nat.cast_pos.2 hn
  refine ⟨div_nonneg (Finset.sum_nonneg (fun i _ => Nat.cast_nonneg _))
    (le_of_lt hpos), ?_⟩
  rw [div_le_one hpos]
  calc (∑ i in Finset.range n, (hit i : R))
      ≤ ∑ _i in Finset.range n, (1 : R) := by
        apply Finset.sum_le_sum
        intro i hi
        have := h i (Finset.mem_range.1 hi)
        exact_mod_cast this
    _ = (n : R) := by simp

end EpochMetrics

section PassReturns

variable {R : Type} [LinearOrderedField R]

/-- The forward pass on an instance of the right sizes returns, on a
well-formed model, and leaves a well-formed model of the same shape. -/
theorem Trainer.forward_ok (exp : R → R) (model : NeuralNetwork R)
    (x : List R) (no : Nat) (h0 : model.WF) (hL : 1 ≤ model.nlayers)
    (hx : x.length = model.ninputs)
    (hno : model.dimOf (model.nlayers - 1) = no) :
    ∃ m', (model.setInputs x).compute exp = .ok m' ∧ m'.WF ∧
      m'.nlayers = model.nlayers ∧
      m'.ninputs = model.ninputs ∧ m'.dims = model.dims ∧
      m'.getOutputs.length = no := by
  have hset := NeuralNetwork.setInputs_eq model x hx
  have hwf : (model.setInputs x).WF := by
    rw [hset]
    exact ⟨h0.1, hx, h0.2.2.1, h0.2.2.2⟩
  have hnet : (model.setInputs x).network = model.network := by rw [hset]
  have hnl : (model.setInputs x).nlayers = model.nlayers := by rw [hset]
  have hni : (model.setInputs x).ninputs = model.ninputs := by rw [hset]
  have hdm : (model.setInputs x).dims = model.dims := by
    unfold NeuralNetwork.dims
    rw [hnet]
  obtain ⟨m', hm', hF, _⟩ := NeuralNetwork.compute_returns exp
    (model.setInputs x) hwf (by rw [hnl]; exact hL)
  have hwf' := NeuralNetwork.frame_wf _ m' hwf hF
  have hnl' : m'.nlayers = model.nlayers := by rw [hF.2.1, hnl]
  have hd' : m'.dims = model.dims := by rw [hF.2.2.2.1, hdm]
  refine ⟨m', hm', hwf', hnl', by rw [hF.1, hni], hd', ?_⟩
  obtain ⟨d, hd⟩ := NeuralNetwork.dims_at m' hwf'.1
    (m'.nlayers - 1) (by omega)
  have hlen := NeuralNetwork.wf_lastOutput_length m' hwf' (by omega) d hd
  show m'.lastOutput.length = no
  rw [hlen, ← hno]
  unfold NeuralNetwork.dimOf
  rw [← hd', ← hnl']
  simp [List.getD_eq_getElem?_getD, hd]

/-- `modelHit` returns on vectors of equal length. -/
theorem Trainer.modelHit_ok (t : Trainer R) (y d : List R)
    (hlen : y.length = d.length) : ∃ h, t.modelHit y d = .ok h := by
  obtain ⟨h', hh', _, _⟩ :=
    Trainer.modelHitLoop_ok t.threshold y d hlen y.length 0 (by omega)
  refine ⟨h', ?_⟩
  unfold Trainer.modelHit
  simp only [cassert, hlen, if_true, bind, Except.bind]
  rw [← hlen]
  exact hh'

/-- A turn of the loop of `training` returns on a ready trainer and an
instance of the right sizes, and leaves the trainer ready. -/
theorem Trainer.trainingStep_ok (exp : R → R) (s : Trainer R) (i ni no : Nat)
    (inst : Instance R) (hr : Trainer.Ready s.algorithm s.model ni no)
    (hi : s.dataset.trAt i = .ok inst) (hx : inst.input.length = ni)
    (hy : inst.output.length = no) :
    ∃ s', Trainer.trainingStep exp s i = .ok s' ∧
      Trainer.Ready s'.algorithm s'.model ni no ∧ s'.dataset = s.dataset := by
  obtain ⟨h0, hL, hni, hno, alg, tb, halg, hm, hbt, hsh⟩ := hr
  obtain ⟨bp1, nn1, t1, hcomp, b1, b5, c6, c1, c5, c3, c4⟩ :=
    BackPropagation.compute_succeeds exp alg s.model inst.input inst.output tb
      hm h0 hL (by rw [hx, hni]) (by rw [hy, hno]) hbt hsh
  have hno1 : nn1.dimOf (nn1.nlayers - 1) = no := by
    unfold NeuralNetwork.dimOf
    rw [c5, c3]
    exact hno
  obtain ⟨m', hm', w1, w3, w4, w5, w6⟩ :=
    Trainer.forward_ok exp nn1 inst.input no c1 (by omega)
      (by rw [hx, c4, hni]) hno1
  have he := Trainer.modelError_ok m'.getOutputs inst.output (by rw [w6, hy])
  obtain ⟨hit, hh⟩ := Trainer.modelHit_ok s m'.getOutputs inst.output
    (by rw [w6, hy])
  have hmh : Trainer.modelHit { s with algorithm := some bp1, model := m' }
      m'.getOutputs inst.output = .ok hit := hh
  have hstep : ∃ s', Trainer.trainingStep exp s i = .ok s' ∧
      s'.algorithm = some bp1 ∧ s'.model = m' ∧ s'.dataset = s.dataset := by
    unfold Trainer.trainingStep
    simp only [halg, hi, hcomp, hm', he, hmh, bind, Except.bind, pure,
      Except.pure]
    exact ⟨_, rfl, rfl, rfl, rfl⟩
  obtain ⟨s', hs', ea, em, ed⟩ := hstep
  refine ⟨s', hs', ?_, ed⟩
  rw [ea, em]
  · refine ⟨w1, by omega, by rw [w4, c4, hni], ?_, bp1, t1, rfl, b1, b5, ?_⟩
    · show m'.dimOf (m'.nlayers - 1) = no
      unfold NeuralNetwork.dimOf
      rw [w5, w3]
      exact hno1
    · show t1.map List.length = m'.dims
      rw [w5, c5]
      exact c6

/-- The training pass returns when the trainer is ready and every training
instance is there with the sizes of the model. -/
theorem Trainer.training_returns (exp : R → R) (t : Trainer R) (ni no : Nat)
    (hr : Trainer.Ready t.algorithm t.model ni no)
    (hinst : ∀ i, i < t.dataset.getTrSetSize → ∃ inst,
      t.dataset.trAt i = .ok inst ∧ inst.input.length = ni ∧
      inst.output.length = no) :
    ∃ t', Trainer.training exp t = .ok t' ∧
      Trainer.Ready t'.algorithm t'.model ni no := by
  obtain ⟨s, hs, hrs, hds⟩ := foldlM_range_inv (Trainer.trainingStep exp)
    (fun _ s => Trainer.Ready s.algorithm s.model ni no ∧
      s.dataset = t.dataset)
    t.dataset.getTrSetSize { t with trerr := some 0, tracc := some 0 }
    ⟨hr, rfl⟩
    (by
      rintro i s hi ⟨hrs, hds⟩
      obtain ⟨inst, h1, h2, h3⟩ := hinst i hi
      obtain ⟨s', a1, a2, a3⟩ := Trainer.trainingStep_ok exp s i ni no inst hrs
        (by rw [hds]; exact h1) h2 h3
      exact ⟨s', a1, a2, a3.trans hds⟩)
  have hfin : ∃ t', Trainer.training exp t = .ok t' ∧
      t'.algorithm = s.algorithm ∧ t'.model = s.model := by
    unfold Trainer.training
    simp only [bind, Except.bind, pure, Except.pure]
    rw [hs]
    exact ⟨_, rfl, rfl, rfl⟩
  obtain ⟨t', ht', ea, em⟩ := hfin
  refine ⟨t', ht', ?_⟩
  rw [ea, em]
  exact hrs

/-- The validation pass returns when the model is well formed, with a
layer, and every validation instance is there with the sizes of the
model. -/
theorem Trainer.validation_returns (exp : R → R) (t : Trainer R)
    (ni no n : Nat) (h0 : t.model.WF) (hL : 1 ≤ t.model.nlayers)
    (hni : t.model.ninputs = ni)
    (hno : t.model.dimOf (t.model.nlayers - 1) = no)
    (hn : t.dataset.getVaSetSize = .ok n)
    (hinst : ∀ i, i < n → ∃ inst,
      t.dataset.vaAt i = .ok inst ∧ inst.input.length = ni ∧
      inst.output.length = no) :
    ∃ t', Trainer.validation exp t = .ok t' := by
  unfold Trainer.validation
  simp only []
  rw [hn]
  simp only [bind, Except.bind, pure, Except.pure]
  by_cases hz : n = 0
  · rw [if_pos hz]
    exact ⟨_, rfl⟩
  · rw [if_neg hz]
    obtain ⟨s, hs, _⟩ := foldlM_range_inv (Trainer.validationStep exp)
      (fun _ s => (s.model.WF ∧ 1 ≤ s.model.nlayers ∧
        s.model.ninputs = ni ∧
        s.model.dimOf (s.model.nlayers - 1) = no) ∧ s.dataset = t.dataset)
      n { t with vaerr := some 0, vaacc := some 0 }
      ⟨⟨h0, hL, hni, hno⟩, rfl⟩
      (by
        rintro i s hi ⟨⟨a0, aL, ani, ano⟩, hds⟩
        obtain ⟨inst, h1, h2, h3⟩ := hinst i hi
        obtain ⟨m', hm', w1, w3, w4, w5, w6⟩ :=
          Trainer.forward_ok exp s.model inst.input no a0 aL
            (by rw [h2, ani]) ano
        have he := Trainer.modelError_ok m'.getOutputs inst.output
          (by rw [w6, h3])
        obtain ⟨hit, hh⟩ := Trainer.modelHit_ok s m'.getOutputs inst.output
          (by rw [w6, h3])
        have hmh : Trainer.modelHit { s with model := m' }
            m'.getOutputs inst.output = .ok hit := hh
        have hi' : s.dataset.vaAt i = .ok inst := by rw [hds]; exact h1
        have hstep : ∃ s', Trainer.validationStep exp s i = .ok s' ∧
            s'.model = m' ∧ s'.dataset = s.dataset := by
          unfold Trainer.validationStep
          simp only [hi', hm', he, hmh, bind, Except.bind, pure, Except.pure]
          exact ⟨_, rfl, rfl, rfl⟩
        obtain ⟨s', hs', em, ed⟩ := hstep
        refine ⟨s', hs', ?_, ed.trans hds⟩
        rw [em]
        refine ⟨w1, by omega, by rw [w4, ani], ?_⟩
        unfold NeuralNetwork.dimOf
        rw [w5, w3]
        exact ano)
    rw [hs]
    exact ⟨_, rfl⟩

end PassReturns

/-- Claim C36: the training pass returns when the model is well formed with
at least two layers, the algorithm object is attached with a momentum entry
for each unit, and every training instance has the sizes of the model.  A training pass that returns has processed the training
instances `trAt(0), ..., trAt(n-1)` in this order (`n` the size of the
training set).  For instance `i` it has first run `BackPropagation::compute`
on the model `m i` that the turn before left, then the forward pass on the
same instance with the updated weights, which leaves `m (i+1)`, the model the
next turn starts from.  Afterwards `trerr` is the sum over the instances of
`½ Σ_j (target_j − output_j)²` divided by `n` and `tracc` the number of hit
instances divided by `n`, the outputs being those of the forward pass after
the update.  For an empty training set both are `0/0`, not a number. -/
theorem C36_training_pass {R : Type} [LinearOrderedField R] (exp : R → R)
    (t : Trainer R) :
    (∀ ni no, Trainer.Ready t.algorithm t.model ni no →
      (∀ i, i < t.dataset.getTrSetSize → ∃ inst,
        t.dataset.trAt i = .ok inst ∧ inst.input.length = ni ∧
        inst.output.length = no) →
      ∃ t', Trainer.training exp t = .ok t') ∧
    ∀ t', Trainer.training exp t = .ok t' →
    ∃ (m : Nat → NeuralNetwork R) (a : Nat → Option (BackPropagation R))
      (inst : Nat → Instance R) (hit : Nat → Nat),
      m 0 = t.model ∧ a 0 = t.algorithm ∧
      (∀ i, i < t.dataset.getTrSetSize → ∃ alg bp' nn',
        a i = some alg ∧ t.dataset.trAt i = .ok (inst i) ∧
        alg.compute exp (m i) (inst i).input (inst i).output = .ok (bp', nn') ∧
        a (i + 1) = some bp' ∧
        (nn'.setInputs (inst i).input).compute exp = .ok (m (i + 1)) ∧
        (m (i + 1)).getOutputs.length = (inst i).output.length ∧
        t.modelHit (m (i + 1)).getOutputs (inst i).output = .ok (hit i) ∧
        hit i ≤ 1) ∧
      (0 < t.dataset.getTrSetSize →
        t'.model = m t.dataset.getTrSetSize ∧
        t'.algorithm = a t.dataset.getTrSetSize ∧
        t'.trerr = some ((∑ i in Finset.range t.dataset.getTrSetSize,
          (∑ j in Finset.range (m (i + 1)).getOutputs.length,
            ((inst i).output.getD j 0 - (m (i + 1)).getOutputs.getD j 0) ^ 2) /
              2) / (t.dataset.getTrSetSize : R)) ∧
        t'.tracc = some ((∑ i in Finset.range t.dataset.getTrSetSize,
          (hit i : R)) / (t.dataset.getTrSetSize : R))) ∧
      (t.dataset.getTrSetSize = 0 →
        t' = { t with trerr := none, tracc := none }) := by
  refine ⟨fun ni no hr hinst => ?_, fun t' h => ?_⟩
  · obtain ⟨t', ht', _⟩ := Trainer.training_returns exp t ni no hr hinst
    exact ⟨t', ht'⟩
  obtain ⟨m, a, inst, hit, h1, h2, h3, h4, h5⟩ :=
    Trainer.training_pass exp t t' h
  refine ⟨m, a, inst, hit, h1, h2, h3, fun hp => ?_, h5⟩
  rw [h4 hp]
  exact ⟨rfl, rfl, rfl, rfl⟩

set_option maxRecDepth 100000 in
/-- Witness of C36: the training pass of the sample trainer, whose training
set has one instance. -/
theorem C36_training_pass_witness :
    ∃ t', Trainer.training sampleExp (sampleTrainer 1 1 0) = .ok t' ∧
      t'.trerr = some (2 / 9) ∧ t'.tracc = some 0 ∧
      ∃ (m : Nat → NeuralNetwork ℚ) (inst : Nat → Instance ℚ)
        (hit : Nat → Nat),
        m 0 = sampleNetwork ∧ t'.model = m 1 ∧
        (sampleTrainer 1 1 0).dataset.trAt 0 = .ok (inst 0) ∧
        t'.trerr = some ((∑ i in Finset.range 1,
          (∑ j in Finset.range (m (i + 1)).getOutputs.length,
            ((inst i).output.getD j 0 - (m (i + 1)).getOutputs.getD j 0) ^ 2) /
              2) / ((1 : Nat) : ℚ)) ∧
        t'.tracc = some ((∑ i in Finset.range 1, (hit i : ℚ)) /
          ((1 : Nat) : ℚ)) := by
  obtain ⟨t', ht', e1, e2⟩ : ∃ t', Trainer.training sampleExp
      (sampleTrainer 1 1 0) = .ok t' ∧ t'.trerr = some (2 / 9) ∧
      t'.tracc = some 0 :=
    ⟨_, by with_unfolding_all rfl, by with_unfolding_all rfl,
      by with_unfolding_all rfl⟩
  obtain ⟨m, a, inst, hit, h1, _, h3, h4, _⟩ :=
    (C36_training_pass sampleExp (sampleTrainer 1 1 0)).2 t' ht'
  obtain ⟨_, _, _, _, hi, _⟩ := h3 0 (by decide)
  obtain ⟨f1, _, f3, f4⟩ := h4 (by decide)
  exact ⟨t', ht', e1, e2, m, inst, hit, h1, f1, hi, f3, f4⟩

/-- Claim C37: the validation pass returns when the model is well formed,
with a layer, and every validation instance has the sizes of the model.  A validation pass that returns leaves the algorithm object
(with its momentum table), the dataset and every weight of the model as they
were.  When the held-out partition is empty (`folds <= 1`, or a validation
set of size `0`) it evaluates nothing and sets `vaerr = 0` and `vaacc = 0`.
Otherwise it runs, for the validation instances `vaAt(0), ..., vaAt(n-1)` in
this order, the forward pass on the model that the turn before left, and
`vaerr` is the sum over the instances of `½ Σ_j (target_j − output_j)²`
divided by `n`, `vaacc` the number of hit instances divided by `n`: the
error and the hit indicator of the training pass.  The two calls that touch
the model, `setInputs` and `compute`, leave every weight as it is, also when
`compute` throws. -/
theorem C37_validation_frame {R : Type} [LinearOrderedField R] (exp : R → R)
    (t : Trainer R) :
    (∀ ni no n, t.model.WF → 1 ≤ t.model.nlayers → t.model.ninputs = ni →
      t.model.dimOf (t.model.nlayers - 1) = no →
      t.dataset.getVaSetSize = .ok n →
      (∀ i, i < n → ∃ inst, t.dataset.vaAt i = .ok inst ∧
        inst.input.length = ni ∧ inst.output.length = no) →
      ∃ t', Trainer.validation exp t = .ok t') ∧
    ∀ t', Trainer.validation exp t = .ok t' →
    t'.algorithm = t.algorithm ∧ t'.dataset = t.dataset ∧
    (∀ l u k, t'.model.getWeight l u k = t.model.getWeight l u k) ∧
    (t.dataset.folds ≤ 1 → t' = { t with vaerr := some 0, vaacc := some 0 }) ∧
    (∃ n, t.dataset.getVaSetSize = .ok n ∧
      (n = 0 → t' = { t with vaerr := some 0, vaacc := some 0 }) ∧
      ∃ (m : Nat → NeuralNetwork R) (inst : Nat → Instance R)
        (hit : Nat → Nat),
        m 0 = t.model ∧
        (∀ i, i < n → t.dataset.vaAt i = .ok (inst i) ∧
          ((m i).setInputs (inst i).input).compute exp = .ok (m (i + 1)) ∧
          (m (i + 1)).getOutputs.length = (inst i).output.length ∧
          t.modelHit (m (i + 1)).getOutputs (inst i).output = .ok (hit i) ∧
          hit i ≤ 1) ∧
        (0 < n → t'.model = m n ∧
          t'.vaerr = some ((∑ i in Finset.range n,
            (∑ j in Finset.range (m (i + 1)).getOutputs.length,
              ((inst i).output.getD j 0 -
                (m (i + 1)).getOutputs.getD j 0) ^ 2) / 2) / (n : R)) ∧
          t'.vaacc = some ((∑ i in Finset.range n, (hit i : R)) / (n : R)))) ∧
    (∀ (nn : NeuralNetwork R) (x : List R) (l u k : Nat),
      (nn.setInputs x).getWeight l u k = nn.getWeight l u k ∧
      (nn.call exp .compute).getWeight l u k = nn.getWeight l u k) := by
  refine ⟨fun ni no n h0 hL hni hno hn hinst =>
    Trainer.validation_returns exp t ni no n h0 hL hni hno hn hinst,
    fun t' h => ?_⟩
  obtain ⟨n, hn, hz, m, inst, hit, h0, hstep, hpos⟩ :=
    Trainer.validation_pass exp t t' h
  have hlay : ∀ k, k ≤ n →
      (m k).layout Unit.weighting = t.model.layout Unit.weighting := by
    intro k
    induction k with
    | zero =>
      intro _
      rw [h0]
    | succ k ih =>
      intro hk
      obtain ⟨_, hc, _⟩ := hstep k (by omega)
      rw [NeuralNetwork.compute_weighting exp _ _ hc,
        NeuralNetwork.setInputs_layout, ih (by omega)]
  have hmodel : t'.model.layout Unit.weighting =
      t.model.layout Unit.weighting := by
    by_cases h0n : n = 0
    · rw [hz h0n]
    · rw [hpos (by omega)]
      exact hlay n (le_refl _)
  refine ⟨?_, ?_, NeuralNetwork.getWeight_of_layout _ _ hmodel, fun hf => ?_,
    ⟨n, hn, hz, m, inst, hit, h0, hstep, fun hp => ?_⟩,
    fun nn x l u k => ⟨?_, ?_⟩⟩
  · by_cases h0n : n = 0
    · rw [hz h0n]
    · rw [hpos (by omega)]
  · by_cases h0n : n = 0
    · rw [hz h0n]
    · rw [hpos (by omega)]
  · apply hz
    unfold Dataset.getVaSetSize at hn
    rw [if_pos hf] at hn
    injection hn with hn
    exact hn.symm
  · rw [hpos hp]
    exact ⟨rfl, rfl, rfl⟩
  · exact NeuralNetwork.getWeight_of_layout _ _
      (NeuralNetwork.setInputs_layout Unit.weighting nn x) l u k
  · exact NeuralNetwork.getWeight_of_layout _ _
      (NeuralNetwork.call_compute_weighting exp nn) l u k

set_option maxRecDepth 100000 in
/-- Witness of C37: the validation pass of the sample trainer, whose
validation set has one instance. -/
theorem C37_validation_frame_witness :
    ∃ t', Trainer.validation sampleExp (sampleTrainer 1 1 0) = .ok t' ∧
      t'.vaerr = some (1 / 18) ∧ t'.vaacc = some 1 ∧
      t'.algorithm = (sampleTrainer 1 1 0).algorithm ∧
      ∀ l u k, t'.model.getWeight l u k = sampleNetwork.getWeight l u k := by
  obtain ⟨t', ht', e1, e2⟩ : ∃ t', Trainer.validation sampleExp
      (sampleTrainer 1 1 0) = .ok t' ∧ t'.vaerr = some (1 / 18) ∧
      t'.vaacc = some 1 :=
    ⟨_, by with_unfolding_all rfl, by with_unfolding_all rfl,
      by with_unfolding_all rfl⟩
  obtain ⟨h1, _, h3, _⟩ :=
    (C37_validation_frame sampleExp (sampleTrainer 1 1 0)).2 t' ht'
  exact ⟨t', ht', e1, e2, h1, h3⟩

/-- Claim C40: over an ordered field, at the end of the body of an epoch on
a dataset with a non-empty training set the four metrics are numbers with
`trerr >= 0`, `vaerr >= 0`, `0 <= tracc <= 1` and `0 <= vaacc <= 1`; the
negative-metric test of `checkStop` is then false, so when `checkStop`
answers "stop" the reason is the error threshold, the accuracy threshold or
the error-change criterion. -/
theorem C40_metrics_range {R : Type} [LinearOrderedField R] (exp : R → R)
    (t t1 : Trainer R) (w w1 : World R)
    (hbody : Trainer.epochBody exp t w = .ok (t1, w1))
    (hn : 0 < t.dataset.getTrSetSize) :
    ∃ a b c d : R, t1.trerr = some a ∧ t1.vaerr = some b ∧
      t1.tracc = some c ∧ t1.vaacc = some d ∧
      0 ≤ a ∧ 0 ≤ b ∧ 0 ≤ c ∧ c ≤ 1 ∧ 0 ≤ d ∧ d ≤ 1 ∧
      (t1.trerr.test (fun v => v < 0) || t1.vaerr.test (fun v => v < 0) ||
        t1.tracc.test (fun v => v < 0) || t1.vaacc.test (fun v => v < 0)) =
        false ∧
      ((Trainer.checkStop t1).1 = true →
        a ≤ t1.stoperr ∨ c ≥ t1.stopacc ∨
          (Trainer.checkStopErrorChange t1 a).1 = true) := by
  obtain ⟨t0, ta, tb, hsz, htr, hva, ht1⟩ :=
    Trainer.epochBody_stages exp t t1 w w1 hbody
  obtain ⟨m, al, inst, hit, _, _, h3, h4, _⟩ :=
    Trainer.training_pass exp t0 ta htr
  have hta := h4 (by rw [hsz]; exact hn)
  obtain ⟨n, hvn, hz, m', inst', hit', _, hstep', hpos'⟩ :=
    Trainer.validation_pass exp ta tb hva
  obtain ⟨_, _, _, _, u5, u6, u7, u8, _⟩ :=
    Trainer.updateTrainingVariables_spec tb
  have hA := avg_nonneg t0.dataset.getTrSetSize
    (fun i => squaredError (m (i + 1)).getOutputs (inst i).output)
    (fun i => squaredError_nonneg _ _)
  have hC := avg_hits (R := R) t0.dataset.getTrSetSize hit
    (by rw [hsz]; exact hn)
    (fun i hi => by
      obtain ⟨_, _, _, _, _, _, _, _, _, _, h⟩ := h3 i hi
      exact h)
  have key : ∃ a b c d : R, tb.trerr = some a ∧ tb.vaerr = some b ∧
      tb.tracc = some c ∧ tb.vaacc = some d ∧
      0 ≤ a ∧ 0 ≤ b ∧ 0 ≤ c ∧ c ≤ 1 ∧ 0 ≤ d ∧ d ≤ 1 := by
    by_cases h0n : n = 0
    · refine ⟨_, 0, _, 0, ?_, ?_, ?_, ?_, hA, le_refl _, hC.1, hC.2,
        le_refl _, by norm_num⟩
      · rw [hz h0n, hta]
      · rw [hz h0n]
      · rw [hz h0n, hta]
      · rw [hz h0n]
    · have hB := avg_nonneg n
        (fun i => squaredError (m' (i + 1)).getOutputs (inst' i).output)
        (fun i => squaredError_nonneg _ _)
      have hD := avg_hits (R := R) n hit' (by omega)
        (fun i hi => (hstep' i hi).2.2.2.2)
      refine ⟨_, _, _, _, ?_, ?_, ?_, ?_, hA, hB, hC.1, hC.2, hD.1, hD.2⟩
      · rw [hpos' (by omega), hta]
      · rw [hpos' (by omega)]
      · rw [hpos' (by omega), hta]
      · rw [hpos' (by omega)]
  obtain ⟨a, b, c, d, k1, k2, k3, k4, p1, p2, p3, p4, p5, p6⟩ := key
  have f1 : t1.trerr = some a := by rw [ht1, u5, k1]
  have f2 : t1.vaerr = some b := by rw [ht1, u6, k2]
  have f3 : t1.tracc = some c := by rw [ht1, u7, k3]
  have f4 : t1.vaacc = some d := by rw [ht1, u8, k4]
  have hneg : (t1.trerr.test (fun v => v < 0) ||
      t1.vaerr.test (fun v => v < 0) || t1.tracc.test (fun v => v < 0) ||
      t1.vaacc.test (fun v => v < 0)) = false := by
    simp only [f1, f2, f3, f4, Metric.test, not_lt.2 p1, not_lt.2 p2,
      not_lt.2 p3, not_lt.2 p5, decide_False, Bool.or_self]
  refine ⟨a, b, c, d, f1, f2, f3, f4, p1, p2, p3, p4, p5, p6, hneg, ?_⟩
  intro hstop
  by_contra hcon
  push_neg at hcon
  obtain ⟨q1, q2, q3⟩ := hcon
  have q3' : (Trainer.checkStopErrorChange t1 a).1 = false := by
    cases hq : (Trainer.checkStopErrorChange t1 a).1 with
    | true => exact absurd hq q3
    | false => rfl
  have hc := Trainer.checkStop_continue t1 a b f1 f2 p1 p2
    (by rw [f3]; simp [Metric.test, not_lt.2 p3])
    (by rw [f4]; simp [Metric.test, not_lt.2 p5])
    q1 (by rw [f3]; simp [Metric.test, q2]) q3'
  rw [hc] at hstop
  cases hstop

set_option maxRecDepth 100000 in
/-- Witness of C40: the first epoch of the sample trainer. -/
theorem C40_metrics_range_witness :
    ∃ t1 w1, Trainer.epochBody sampleExp (sampleTrainer 1 1 0) sampleWorld =
        .ok (t1, w1) ∧
      ∃ a b c d : ℚ, t1.trerr = some a ∧ t1.vaerr = some b ∧
        t1.tracc = some c ∧ t1.vaacc = some d ∧
        0 ≤ a ∧ 0 ≤ b ∧ 0 ≤ c ∧ c ≤ 1 ∧ 0 ≤ d ∧ d ≤ 1 ∧
        (t1.trerr.test (fun v => v < 0) || t1.vaerr.test (fun v => v < 0) ||
          t1.tracc.test (fun v => v < 0) || t1.vaacc.test (fun v => v < 0)) =
          false ∧
        ((Trainer.checkStop t1).1 = true →
          a ≤ t1.stoperr ∨ c ≥ t1.stopacc ∨
            (Trainer.checkStopErrorChange t1 a).1 = true) := by
  obtain ⟨p, hp⟩ : ∃ p, Trainer.epochBody sampleExp (sampleTrainer 1 1 0)
      sampleWorld = .ok p := ⟨_, by with_unfolding_all rfl⟩
  exact ⟨p.1, p.2, hp,
    C40_metrics_range sampleExp (sampleTrainer 1 1 0) p.1 sampleWorld p.2 hp
      (by decide)⟩

/-! ## C33: the gradients of the hidden layers -/

section HiddenTrace

variable {R : Type} [LinearOrderedField R]

/-- A loop whose body keeps an invariant returns, and the states it goes
through satisfy the invariant. -/
theorem foldlM_range_states {σ : Type} (f : σ → Nat → Except Error σ)
    (P : Nat → σ → Prop) (n : Nat) (s0 : σ) (h0 : P 0 s0)
    (hstep : ∀ i s, i < n → P i s → ∃ s', f s i = .ok s' ∧ P (i + 1) s') :
    ∃ st : Nat → σ, st 0 = s0 ∧ (List.range n).foldlM f s0 = .ok (st n) ∧
      (∀ k, k < n → f (st k) k = .ok (st (k + 1))) ∧
      ∀ k, k ≤ n → P k (st k) := by
  obtain ⟨s', hs', _⟩ := foldlM_range_inv f P n s0 h0 hstep
  obtain ⟨st, hst0, hstn, hst⟩ := foldlM_range_trace f n s0 s' hs'
  refine ⟨st, hst0, by rw [hs', hstn], hst, ?_⟩
  intro k
  induction k with
  | zero =>
    intro _
    rw [hst0]
    exact h0
  | succ k ih =>
    intro hk
    obtain ⟨s2, hs2, hP⟩ := hstep k (st k) (by omega) (ih (by omega))
    rw [hst k (by omega)] at hs2
    injection hs2 with hs2
    rw [hs2]
    exact hP

/-- A network in the frame of another has its weights. -/
theorem NeuralNetwork.frame_weightOf (n0 n : NeuralNetwork R)
    (h : n0.Frame n) (l u k : Nat) : n.weightOf l u k = n0.weightOf l u k := by
  unfold NeuralNetwork.weightOf
  cases ha : n.unit? l u with
  | some a =>
    obtain ⟨b, hb, _, _, hw, _⟩ := h.2.2.2.2.2 l u a ha
    rw [hb]
    show a.weights.getD k 0 = b.weights.getD k 0
    rw [hw]
  | none =>
    cases hb : n0.unit? l u with
    | none => rfl
    | some b =>
      obtain ⟨d, hd, hud⟩ := NeuralNetwork.unit?_dims n0 l u b hb
      obtain ⟨a, ha'⟩ := NeuralNetwork.dims_unit? n l u d
        (by rw [h.2.2.2.1]; exact hd) hud
      rw [ha] at ha'
      cases ha'

/-- The states of the loop over the hidden layers: the loop returns; turn `t`
processes layer `nLayers-2-t`; before turn `t` the layers after
`nLayers-2-t` have been processed and the error accumulator holds, for each
unit of that layer, the sum of gradient times old weight over the layer
after it. -/
theorem BackPropagation.hidden_trace (bp : BackPropagation R)
    (n1 : NeuralNetwork R) (desired : List R) (t0 : List (List R))
    (h1 : n1.WF) (hL : 2 ≤ n1.nlayers) (s : BPState R)
    (hU : s.Updated bp n1 t0
      (fun l u => gradient n1 desired (n1.nlayers - 1 - l) l u)
      (fun l' _ => n1.nlayers - 1 ≤ l'))
    (hlen : s.errorVector.length = n1.dimOf (n1.nlayers - 2))
    (hsum : ∀ p, p < n1.dimOf (n1.nlayers - 2) → s.errorVector.getD p 0 =
      ∑ j in Finset.range (n1.dimOf (n1.nlayers - 1)),
        gradient n1 desired 0 (n1.nlayers - 1) j *
          n1.weightOf (n1.nlayers - 1) j (p + 1)) :
    ∃ σ : Nat → BPState R, σ 0 = s ∧
      BackPropagation.hiddenPhase bp n1.nlayers s =
        .ok (σ (n1.nlayers - 1)) ∧
      (∀ t, t + 2 ≤ n1.nlayers →
        BackPropagation.hiddenLayer bp (n1.nlayers - 2 - t) (σ t) =
          .ok (σ (t + 1))) ∧
      ∀ t, t + 1 ≤ n1.nlayers →
        (σ t).Updated bp n1 t0
          (fun l u => gradient n1 desired (n1.nlayers - 1 - l) l u)
          (fun l' _ => n1.nlayers - 1 ≤ l' + t) ∧
        ∀ l, l + t + 2 = n1.nlayers →
          (σ t).errorVector.length = n1.dimOf l ∧
          ∀ p, p < n1.dimOf l → (σ t).errorVector.getD p 0 =
            ∑ j in Finset.range (n1.dimOf (l + 1)),
              gradient n1 desired (n1.nlayers - 1 - (l + 1)) (l + 1) j *
                n1.weightOf (l + 1) j (p + 1) := by
  unfold BackPropagation.hiddenPhase
  obtain ⟨σ, h0, hfold, hstep, hP⟩ := foldlM_range_states
    (fun (s : BPState R) t =>
      BackPropagation.hiddenLayer bp (n1.nlayers - 2 - t) s)
    (fun t s =>
      s.Updated bp n1 t0
        (fun l u => gradient n1 desired (n1.nlayers - 1 - l) l u)
        (fun l' _ => n1.nlayers - 1 ≤ l' + t) ∧
      ∀ l, l + t + 2 = n1.nlayers →
        s.errorVector.length = n1.dimOf l ∧
        ∀ p, p < n1.dimOf l → s.errorVector.getD p 0 =
          ∑ j in Finset.range (n1.dimOf (l + 1)),
            gradient n1 desired (n1.nlayers - 1 - (l + 1)) (l + 1) j *
              n1.weightOf (l + 1) j (p + 1))
    (n1.nlayers - 2 + 1) s
    ⟨hU, fun l hl => by
      have e1 : l = n1.nlayers - 2 := by omega
      have e2 : l + 1 = n1.nlayers - 1 := by omega
      have e3 : n1.nlayers - 1 - (n1.nlayers - 1) = 0 := by omega
      rw [e2, e3, e1]
      exact ⟨hlen, hsum⟩⟩
    (by
      rintro t σ ht ⟨hUσ, hev⟩
      have hl : (n1.nlayers - 2 - t) + 1 < n1.nlayers := by omega
      obtain ⟨hlenσ, hsumσ⟩ := hev (n1.nlayers - 2 - t) (by omega)
      obtain ⟨σ', hσ', hUσ', hev'⟩ := BackPropagation.hiddenLayer_ok bp n1
        desired t0 h1 (n1.nlayers - 2 - t) hl σ
        (BackPropagation.updated_congr bp n1 t0 _ _ _ σ
          (fun l' _ _ _ => ⟨fun h => by omega, fun h => by omega⟩) hUσ)
        hlenσ hsumσ
      refine ⟨σ', hσ', BackPropagation.updated_congr bp n1 t0 _ _ _ σ'
          (fun l' _ _ _ => ⟨fun h => by omega, fun h => by omega⟩) hUσ',
        fun l hl' => ?_⟩
      have e : l + 1 = n1.nlayers - 2 - t := by omega
      obtain ⟨a1, a2⟩ := hev' l e.symm
      rw [e]
      exact ⟨a1, a2⟩)
  have hn : n1.nlayers - 2 + 1 = n1.nlayers - 1 := by omega
  refine ⟨σ, h0, by rw [hfold, hn], fun t ht => hstep t (by omega),
    fun t ht => hP t (by omega)⟩

end HiddenTrace

section ComputeTrace

variable {R : Type} [LinearOrderedField R]

/-- The turn of the weight loop of `compute` for weight `j+1` reads the
weight into the error accumulator and then updates it. -/
theorem BackPropagation.weightStep_succ (bp : BackPropagation R)
    (s : BPState R) (l i j : Nat) (d e w : R)
    (he : s.errorVector[j]? = some e)
    (hw : s.nn.getWeight l i (j + 1) = .ok w) :
    BackPropagation.weightStep bp l i d s (j + 1) =
      BackPropagation.updateWeight
        { s with errorVector := s.errorVector.set j (e + d * w) } l i (j + 1)
        bp.eta d bp.lambda bp.alfa := by
  have hj : j < s.errorVector.length := (List.getElem?_eq_some_iff.1 he).1
  simp only [BackPropagation.weightStep, rawGet_of_get? _ _ _ he, hw,
    rawSet_ok _ _ _ hj, bind, Except.bind]

/-- One call of `BackPropagation::compute` on a well-formed network of at
least two layers, also one with an empty layer: the forward pass leaves `n1`;
the loop over the output layer leaves `σ 0`; turn `t` of the loop over the
hidden layers processes layer `nLayers-2-t` and leaves `σ (t+1)`; before turn
`t` the layers after `nLayers-2-t` have been processed with the gradients of
the specification and the error accumulator holds the sums of gradient times
old weight over the layer processed last. -/
theorem BackPropagation.compute_trace (exp : R → R) (bp : BackPropagation R)
    (nn : NeuralNetwork R) (inputs desired : List R) (t0 : List (List R))
    (hm : bp.hasModel = true) (h0 : nn.WF) (hL : 2 ≤ nn.nlayers)
    (hin : inputs.length = nn.ninputs)
    (hdes : desired.length = nn.dimOf (nn.nlayers - 1))
    (hbt : bp.momentumtable = some t0) (ht0 : t0.map List.length = nn.dims) :
    ∃ (n1 : NeuralNetwork R) (σ : Nat → BPState R),
      (nn.setInputs inputs).compute exp = .ok n1 ∧
      (n1.WF ∧ n1.nlayers = nn.nlayers ∧ n1.dims = nn.dims ∧
        n1.inputs = inputs ∧
        ∀ l u k, n1.weightOf l u k = nn.weightOf l u k) ∧
      (n1.InputsFed nn.ninputs ∧
        (∀ l u, l + 1 < nn.nlayers → 0 < nn.dimOf (l + 1) →
          n1.UnitFed exp l u) ∧
        ∀ u a, n1.unit? (nn.nlayers - 1) u = some a →
          a.lastOutput = a.out exp ∧ n1.lastOutput[u]? = some (a.out exp)) ∧
      BackPropagation.outputPhase bp n1 desired = .ok (σ 0) ∧
      (∀ t, t + 2 ≤ nn.nlayers →
        BackPropagation.hiddenLayer bp (nn.nlayers - 2 - t) (σ t) =
          .ok (σ (t + 1))) ∧
      BackPropagation.compute exp bp nn inputs desired =
        .ok ({ bp with momentumtable := (σ (nn.nlayers - 1)).momentumtable },
          (σ (nn.nlayers - 1)).nn) ∧
      ∀ t, t + 1 ≤ nn.nlayers →
        (σ t).Updated bp n1 t0
          (fun l u => gradient n1 desired (nn.nlayers - 1 - l) l u)
          (fun l' _ => nn.nlayers - 1 ≤ l' + t) ∧
        ∀ l, l + t + 2 = nn.nlayers →
          (σ t).errorVector.length = nn.dimOf l ∧
          ∀ p, p < nn.dimOf l → (σ t).errorVector.getD p 0 =
            ∑ j in Finset.range (nn.dimOf (l + 1)),
              gradient n1 desired (nn.nlayers - 1 - (l + 1)) (l + 1) j *
                nn.weightOf (l + 1) j (p + 1) := by
  have hset := NeuralNetwork.setInputs_eq nn inputs hin
  have hwf : (nn.setInputs inputs).WF := by
    rw [hset]
    exact ⟨h0.1, hin, h0.2.2.1, h0.2.2.2⟩
  have hnl : (nn.setInputs inputs).nlayers = nn.nlayers := by rw [hset]
  have hni : (nn.setInputs inputs).ninputs = nn.ninputs := by rw [hset]
  have hinp : (nn.setInputs inputs).inputs = inputs := by rw [hset]
  have hnet : (nn.setInputs inputs).network = nn.network := by rw [hset]
  have hdm : (nn.setInputs inputs).dims = nn.dims := by
    unfold NeuralNetwork.dims; rw [hnet]
  have hdimOf0 : ∀ l, (nn.setInputs inputs).dimOf l = nn.dimOf l := by
    intro l; unfold NeuralNetwork.dimOf; rw [hdm]
  have hw0 : ∀ l u k, (nn.setInputs inputs).weightOf l u k =
      nn.weightOf l u k := by
    intro l u k
    unfold NeuralNetwork.weightOf NeuralNetwork.unit?
    rw [hnet]
  obtain ⟨n1, hn1, hF, hI, hA, hB⟩ := NeuralNetwork.compute_fed exp
    (nn.setInputs inputs) hwf (by omega)
  rw [hni] at hI
  rw [hnl] at hA hB
  have h1 : n1.WF := NeuralNetwork.frame_wf _ n1 hwf hF
  have hnl1 : n1.nlayers = nn.nlayers := by rw [hF.2.1, hnl]
  have hd1 : n1.dims = nn.dims := by rw [hF.2.2.2.1, hdm]
  have hdim1 : ∀ l, n1.dimOf l = nn.dimOf l := by
    intro l; unfold NeuralNetwork.dimOf; rw [hd1]
  have hw1 : ∀ l u k, n1.weightOf l u k = nn.weightOf l u k := by
    intro l u k
    rw [NeuralNetwork.frame_weightOf _ n1 hF, hw0]
  obtain ⟨s, hs, hU, hlen, hsum⟩ := BackPropagation.outputPhase_ok bp n1
    desired t0 h1 (by omega)
    (fun u a ha => by
      rw [hnl1] at ha
      obtain ⟨e1, e2⟩ := hB u a ha
      rw [e2, e1])
    (by rw [hnl1, hdim1]; exact hdes) hbt (by rw [hd1]; exact ht0)
  obtain ⟨σ, hσ0, hph, hstep, hinv⟩ := BackPropagation.hidden_trace bp n1
    desired t0 h1 (by omega) s hU hlen hsum
  rw [hnl1] at hph hstep hinv
  refine ⟨n1, σ, hn1, ⟨h1, hnl1, hd1, by rw [hF.2.2.1, hinp], hw1⟩,
    ⟨hI, fun l u hl hp => hA l u hl (by rw [hdimOf0]; exact hp), hB⟩,
    by rw [hσ0]; exact hs, hstep, ?_, fun t ht => ?_⟩
  · have hback : BackPropagation.backward bp n1 desired =
        .ok (σ (nn.nlayers - 1)) := by
      unfold BackPropagation.backward
      simp only [hs, bind, Except.bind, NeuralNetwork.getNumberOfLayers]
      rw [hnl1]
      exact hph
    unfold BackPropagation.compute
    have hin' : inputs.length = nn.getInputs.length := by
      rw [hin]; exact h0.2.1.symm
    simp only [hm, not_true_eq_false, if_false, cassert, hin', if_true,
      NeuralNetwork.getNumberOfOutputs_ok nn h0.1 (by omega), hdes, bind,
      Except.bind, hn1, hback, pure, Except.pure]
  · obtain ⟨i1, i2⟩ := hinv t ht
    refine ⟨i1, fun l hl => ?_⟩
    obtain ⟨j1, j2⟩ := i2 l hl
    rw [hdim1] at j1 j2
    refine ⟨j1, fun p hp => ?_⟩
    rw [j2 p hp, hdim1]
    exact Finset.sum_congr rfl (fun j _ => by rw [hw1])

end ComputeTrace

/-- Claim C33: one call of `BackPropagation::compute` on a network of
`L >= 2` layers that satisfies the arity invariant, with vectors of matching
lengths, returns.  After the forward pass (which leaves `n1`, unit `i` of
layer `l` caching the output `y l i`) and the loop over the output layer
(which leaves `σ 0`), turn `t` of the loop over the hidden layers processes
layer `L-2-t` and leaves `σ (t+1)`: the hidden layers are processed from
`L-2` down to `0`.  For every hidden layer `l` and unit `i` the local
gradient that the code computes in the state before the layer is processed
is `δ l i = (Σ_j δ (l+1) j * w(l+1, j, i+1)) * y l i * (1 - y l i)`, with
`δ (l+1) j` the local gradient of unit `j` of layer `l+1`, `w` the weights
the network had before the call, and `y l i` the value `getUnitOutput(l, i)`
returns after the forward pass, which is the output of the unit for its
cached inputs whenever layer `l+1` has a unit (when it has none the sum is
empty).  The error accumulator holds that sum although, in the same state,
every weight of layer `l+1` has already moved by its delta: the turn of the
weight loop for weight `j+1` reads the weight into the accumulator and only
then updates it.  In the end every weight of every unit has moved by the
deltas of the update rule for the gradient of its unit. -/
theorem C33_hidden_gradient {R : Type} [LinearOrderedField R] (exp : R → R)
    (bp : BackPropagation R) (nn : NeuralNetwork R) (inputs desired : List R)
    (t0 : List (List R))
    (hm : bp.hasModel = true) (h0 : nn.WF) (hL : 2 ≤ nn.nlayers)
    (hin : inputs.length = nn.ninputs)
    (hdes : desired.length = nn.dimOf (nn.nlayers - 1))
    (hbt : bp.momentumtable = some t0) (ht0 : t0.map List.length = nn.dims) :
    ∃ (n1 : NeuralNetwork R) (σ : Nat → BPState R) (δ y : Nat → Nat → R),
      (nn.setInputs inputs).compute exp = .ok n1 ∧
      BackPropagation.outputPhase bp n1 desired = .ok (σ 0) ∧
      (∀ t, t + 2 ≤ nn.nlayers →
        BackPropagation.hiddenLayer bp (nn.nlayers - 2 - t) (σ t) =
          .ok (σ (t + 1))) ∧
      BackPropagation.compute exp bp nn inputs desired =
        .ok ({ bp with momentumtable := (σ (nn.nlayers - 1)).momentumtable },
          (σ (nn.nlayers - 1)).nn) ∧
      (∀ l i, l < nn.nlayers → i < nn.dimOf l →
        ∃ b, n1.unit? l i = some b ∧ n1.getUnitOutput l i = .ok (y l i) ∧
          (l + 1 = nn.nlayers ∨ 0 < nn.dimOf (l + 1) →
            y l i = sigmoid exp
              (weightedSum b.weights b.inputs b.numberOfWeights))) ∧
      (∀ j, δ (nn.nlayers - 1) j =
        (desired.getD j 0 - y (nn.nlayers - 1) j) * y (nn.nlayers - 1) j *
          (1 - y (nn.nlayers - 1) j)) ∧
      (∀ l i, l + 1 < nn.nlayers → i < nn.dimOf l →
        δ l i = (∑ j in Finset.range (nn.dimOf (l + 1)),
            δ (l + 1) j * nn.weightOf (l + 1) j (i + 1)) * y l i *
          (1 - y l i) ∧
        (σ (nn.nlayers - 2 - l)).errorVector[i]? =
          some (∑ j in Finset.range (nn.dimOf (l + 1)),
            δ (l + 1) j * nn.weightOf (l + 1) j (i + 1)) ∧
        (∃ dv, BackPropagation.hiddenDeltas l (σ (nn.nlayers - 2 - l))
            (nn.dimOf l) = .ok dv ∧ dv[i]? = some (δ l i)) ∧
        ∀ j b k, n1.unit? (l + 1) j = some b → k ≤ b.numberOfInputs →
          (σ (nn.nlayers - 2 - l)).nn.weightOf (l + 1) j k =
            nn.weightOf (l + 1) j k +
              deltaChain bp.eta bp.lambda bp.alfa (δ (l + 1) j) b.weights
                b.inputs ((momentum? t0 (l + 1) j).getD 0) k) ∧
      (∀ (s : BPState R) (l i j : Nat) (d e w : R),
        s.errorVector[j]? = some e → s.nn.getWeight l i (j + 1) = .ok w →
        BackPropagation.weightStep bp l i d s (j + 1) =
          BackPropagation.updateWeight
            { s with errorVector := s.errorVector.set j (e + d * w) } l i
            (j + 1) bp.eta d bp.lambda bp.alfa) ∧
      ∀ l i b k, n1.unit? l i = some b → k ≤ b.numberOfInputs →
        (σ (nn.nlayers - 1)).nn.weightOf l i k = nn.weightOf l i k +
          deltaChain bp.eta bp.lambda bp.alfa (δ l i) b.weights b.inputs
            ((momentum? t0 l i).getD 0) k := by
  obtain ⟨n1, σ, hn1, ⟨h1, hnl1, hd1, _, hw1⟩, ⟨_, hA, hB⟩, hout, hstep,
    hcomp, hinv⟩ := BackPropagation.compute_trace exp bp nn inputs desired t0
    hm h0 hL hin hdes hbt ht0
  have hdim1 : ∀ l, n1.dimOf l = nn.dimOf l := by
    intro l; unfold NeuralNetwork.dimOf; rw [hd1]
  have hrec : ∀ l i, l + 1 < nn.nlayers →
      gradient n1 desired (nn.nlayers - 1 - l) l i =
        (∑ j in Finset.range (nn.dimOf (l + 1)),
          gradient n1 desired (nn.nlayers - 1 - (l + 1)) (l + 1) j *
            nn.weightOf (l + 1) j (i + 1)) * n1.outputOf l i *
          (1 - n1.outputOf l i) := by
    intro l i hl
    have hf : nn.nlayers - 1 - l = (nn.nlayers - 1 - (l + 1)) + 1 := by omega
    rw [hf]
    simp only [gradient, hdim1]
    congr 2
    exact Finset.sum_congr rfl (fun j _ => by rw [hw1])
  have hweights : ∀ t, t + 1 ≤ nn.nlayers → ∀ l j b k,
      nn.nlayers - 1 ≤ l + t → n1.unit? l j = some b →
      k ≤ b.numberOfInputs →
      (σ t).nn.weightOf l j k = nn.weightOf l j k +
        deltaChain bp.eta bp.lambda bp.alfa
          (gradient n1 desired (nn.nlayers - 1 - l) l j) b.weights b.inputs
          ((momentum? t0 l j).getD 0) k := by
    intro t ht l j b k hdone hb hk
    obtain ⟨⟨_, _, _, _, _, tb, _, _, hunits⟩, _⟩ := hinv t ht
    obtain ⟨a, ha, _, hd, _⟩ := hunits l j b hb
    rw [NeuralNetwork.weightOf_eq _ l j k a ha, ← hw1,
      NeuralNetwork.weightOf_eq n1 l j k b hb]
    exact (hd hdone).1 k hk
  refine ⟨n1, σ, fun l i => gradient n1 desired (nn.nlayers - 1 - l) l i,
    fun l i => n1.outputOf l i, hn1, hout, hstep, hcomp, ?_, ?_, ?_,
    fun s l i j d e w he hw =>
      BackPropagation.weightStep_succ bp s l i j d e w he hw,
    fun l i b k hb hk => ?_⟩
  · intro l i hl hi
    obtain ⟨d, hd⟩ := NeuralNetwork.dims_at n1 h1.1 l (by omega)
    have hdd : nn.dimOf l = d := by
      rw [← hdim1]; exact NeuralNetwork.dimOf_eq n1 l d hd
    obtain ⟨b, hb⟩ := NeuralNetwork.dims_unit? n1 l i d hd (by omega)
    refine ⟨b, hb, ?_, fun hc => ?_⟩
    · show n1.getUnitOutput l i = .ok (n1.outputOf l i)
      rw [NeuralNetwork.getUnitOutput_ok n1 l i b (by omega) hb,
        NeuralNetwork.outputOf_eq n1 l i b hb]
    · show n1.outputOf l i = Unit.out exp b
      rw [NeuralNetwork.outputOf_eq n1 l i b hb]
      by_cases hlast : l + 1 = nn.nlayers
      · have hl' : l = nn.nlayers - 1 := by omega
        subst hl'
        exact (hB i b hb).1
      · have hp : 0 < nn.dimOf (l + 1) := by
          rcases hc with h | h
          · exact absurd h hlast
          · exact h
        exact (hA l i (by omega) hp b hb).1
  · intro j
    show gradient n1 desired (nn.nlayers - 1 - (nn.nlayers - 1))
      (nn.nlayers - 1) j = _
    rw [Nat.sub_self]
    rfl
  · intro l i hl hi
    have ht : nn.nlayers - 2 - l + 1 ≤ nn.nlayers := by omega
    obtain ⟨hU, hev⟩ := hinv (nn.nlayers - 2 - l) ht
    obtain ⟨hlen, hsum⟩ := hev l (by omega)
    obtain ⟨d, hd⟩ := NeuralNetwork.dims_at n1 h1.1 l (by omega)
    have hdd : nn.dimOf l = d := by
      rw [← hdim1]; exact NeuralNetwork.dimOf_eq n1 l d hd
    obtain ⟨dv, hdv, hdvl, hdvv⟩ := BackPropagation.hiddenDeltas_ok bp n1 t0
      _ _ (σ (nn.nlayers - 2 - l)) h1 hU l d hd (by rw [hlen, hdd])
    have hval : dv.getD i 0 = gradient n1 desired (nn.nlayers - 1 - l) l i := by
      rw [hdvv i (by omega), hsum i hi, hrec l i hl]
      unfold BackPropagation.localGradient
      ring
    refine ⟨hrec l i hl, ?_, ⟨dv, by rw [hdd]; exact hdv, ?_⟩,
      fun j b k hb hk => hweights _ ht (l + 1) j b k (by omega) hb hk⟩
    · have hil : i < (σ (nn.nlayers - 2 - l)).errorVector.length := by omega
      rw [List.getElem?_eq_getElem hil, ← hsum i hi,
        List.getD_eq_getElem?_getD, List.getElem?_eq_getElem hil]
      rfl
    · have hil : i < dv.length := by omega
      show dv[i]? = some (gradient n1 desired (nn.nlayers - 1 - l) l i)
      rw [List.getElem?_eq_getElem hil, ← hval, List.getD_eq_getElem?_getD,
        List.getElem?_eq_getElem hil]
      rfl
  · exact hweights (nn.nlayers - 1) (by omega) l i b k (by omega) hb hk

set_option maxRecDepth 100000 in
/-- Witness of C33: one call on the sample network, inputs `1, 2`, target
`1`. -/
theorem C33_hidden_gradient_witness :
    ∃ (n1 : NeuralNetwork ℚ) (σ : Nat → BPState ℚ) (δ y : Nat → Nat → ℚ),
      (sampleNetwork.setInputs [1, 2]).compute sampleExp = .ok n1 ∧
      BackPropagation.hiddenLayer (sampleBP [[0, 0], [0]]) 0 (σ 0) =
        .ok (σ 1) ∧
      BackPropagation.compute sampleExp (sampleBP [[0, 0], [0]])
        sampleNetwork [1, 2] [1] =
        .ok ({ sampleBP [[0, 0], [0]] with
            momentumtable := (σ 1).momentumtable }, (σ 1).nn) ∧
      δ 1 0 = (1 - y 1 0) * y 1 0 * (1 - y 1 0) ∧
      (∀ i, i < 2 →
        δ 0 i = (∑ j in Finset.range 1,
          δ 1 j * sampleNetwork.weightOf 1 j (i + 1)) * y 0 i * (1 - y 0 i) ∧
        ∃ dv, BackPropagation.hiddenDeltas 0 (σ 0) 2 = .ok dv ∧
          dv[i]? = some (δ 0 i)) := by
  obtain ⟨n1, σ, δ, y, h1, _, h3, h4, _, h6, h7, _⟩ :=
    C33_hidden_gradient sampleExp (sampleBP [[0, 0], [0]]) sampleNetwork
      [1, 2] [1] [[0, 0], [0]] rfl sampleNetwork_wf (by decide) rfl rfl rfl rfl
  refine ⟨n1, σ, δ, y, h1, h3 0 (by decide), h4, h6 0, fun i hi => ?_⟩
  obtain ⟨a1, _, a3, _⟩ := h7 0 i (by decide) hi
  exact ⟨a1, a3⟩

/-! ## C38: the invariant of a unit -/

section UnitInvariant

variable {R : Type} [LinearOrderedField R]

/-- The invariant of a unit is a property of its sizes. -/
theorem Unit.wf_of_sizes (u u' : Unit R) (h : u'.sizes = u.sizes)
    (hu : u.WF) : u'.WF := by
  obtain ⟨⟨a1, a2, a3⟩, a4⟩ := hu
  unfold Unit.sizes at h
  simp only [Prod.mk.injEq] at h
  obtain ⟨h1, h2, h3, h4, h5⟩ := h
  exact ⟨⟨by omega, by omega, by omega⟩, by rw [h5]; exact a4⟩

/-- `setInputs` returns on a well-formed unit and keeps its sizes and its
bias input. -/
theorem Unit.setInputs_sizes (u : Unit R) (v : List R) (hu : u.WF) :
    ∃ u', u.setInputs v = .ok u' ∧ u'.sizes = u.sizes := by
  obtain ⟨⟨a1, a2, a3⟩, a4⟩ := hu
  by_cases hv : v.length = u.numberOfInputs
  · obtain ⟨u', hu', e1, e2, e3, _, e5, e6⟩ :=
      Unit.setInputs_ok u v (by omega) hv
    refine ⟨u', hu', ?_⟩
    have h0 : u'.inputs[0]? = u.inputs[0]? := by
      rw [e6 0, if_neg (by omega)]
    unfold Unit.sizes
    rw [e1, e2, e3, e5, h0]
  · refine ⟨u, ?_, rfl⟩
    unfold Unit.setInputs
    rw [if_pos hv]

omit [LinearOrderedField R] in
/-- `setWeights` keeps the sizes of the unit. -/
theorem Unit.setWeights_sizes (u : Unit R) (ws : List R) :
    (u.setWeights ws).sizes = u.sizes := by
  unfold Unit.setWeights
  by_cases h : ws.length ≠ u.weights.length
  · rw [if_pos h]
  · rw [if_neg h]
    have h' : ws.length = u.weights.length := by
      by_contra hc
      exact h hc
    simp [Unit.sizes, h']

/-- Every unit reached is well formed. -/
theorem Unit.made_wf (u : Unit R) (h : Unit.Made u) : u.WF := by
  induction h with
  | init fuel k g g' u _ hinit =>
    rcases Unit.init_total (R := R) fuel k g with h | ⟨v, g2, h, _, e1, e2, e3, e4⟩
    · rw [h] at hinit
      cases hinit
    · rw [h] at hinit
      injection hinit with hinit
      injection hinit with hinit
      injection hinit with hu _
      subst hu
      exact ⟨⟨by omega, by omega, by rw [e4]; simp; omega⟩, by rw [e4]; simp⟩
  | copy fuel src u g g' _ hcopy ih =>
    obtain ⟨⟨a1, a2, a3⟩, _⟩ := ih
    rcases Unit.copyInit_total (R := R) fuel src g with
      h | ⟨v, g2, h, _, e1, e2, e3, e4⟩
    · rw [h] at hcopy
      cases hcopy
    · rw [h] at hcopy
      injection hcopy with hcopy
      injection hcopy with hcopy
      injection hcopy with hu _
      subst hu
      exact ⟨⟨by omega, by omega, by rw [e4]; simp; omega⟩, by rw [e4]; simp⟩
  | read toUint toReal is is' u hread =>
    obtain ⟨h1, h2, h3⟩ := Unit.read_cases toUint toReal is _ rfl
    by_cases c1 : (Global.split (Global.trim (getline is []).2.1 [' '])
        ',').length < 2
    · rw [h1 c1] at hread
      cases hread
    · by_cases c2 : (Global.split (Global.trim (getline is []).2.1 [' '])
          ',').length - 1 =
          toUint ((Global.split (Global.trim (getline is []).2.1 [' '])
            ',').headD [])
      · rw [h3 (by omega) c2] at hread
        injection hread with hread
        injection hread with hu _
        rw [← hu]
        exact (Unit.fresh_wf _ (by
          rw [List.length_map, List.length_drop]
          omega)).1
      · rw [h2 (by omega) c2] at hread
        cases hread
  | setInput u u' i x _ hcall ih =>
    exact Unit.wf_of_sizes u u' (Unit.setInput_sizes u u' i x hcall) ih
  | setInputs u u' v _ hcall ih =>
    obtain ⟨u2, h2, hs⟩ := Unit.setInputs_sizes u v ih
    rw [h2] at hcall
    injection hcall with hcall
    subst hcall
    exact Unit.wf_of_sizes u u2 hs ih
  | setWeight u u' i x _ hcall ih =>
    exact Unit.wf_of_sizes u u' (Unit.setWeight_sizes u u' i x hcall) ih
  | setWeights u ws _ ih =>
    exact Unit.wf_of_sizes u _ (Unit.setWeights_sizes u ws) ih
  | sumToWeight u u' i x _ hcall ih =>
    exact Unit.wf_of_sizes u u' (Unit.sumToWeight_sizes u u' i x hcall) ih
  | computeOutput exp u u' y _ hcall ih =>
    exact Unit.wf_of_sizes u u' (Unit.computeOutput_sizes exp u u' y hcall) ih

end UnitInvariant

/-- Claim C38: every unit reached through the constructors, `setInput`,
`setInputs`, `setWeight`, `setWeights`, `sumToWeight`, `computeOutput` and a
successful `read()` has as many weights as cached inputs, namely
`numberOfWeights = numberOfInputs + 1`, and its cached input `0` is `1`.
`setInput` rejects index `0` and the indices above the arity with
`out_of_range`, and `setWeights` with a vector of another length leaves the
unit as it is. -/
theorem C38_unit_invariant {R : Type} [LinearOrderedField R] (u : Unit R)
    (h : Unit.Made u) :
    (u.weights.length = u.inputs.length ∧
      u.inputs.length = u.numberOfWeights ∧
      u.numberOfWeights = u.numberOfInputs + 1 ∧ u.inputs[0]? = some 1) ∧
    (∀ i x, i < 1 ∨ i > u.numberOfInputs →
      u.setInput i x = .error .out_of_range) ∧
    (∀ ws : List R, ws.length ≠ u.weights.length → u.setWeights ws = u) := by
  obtain ⟨⟨a1, a2, a3⟩, a4⟩ := Unit.made_wf u h
  refine ⟨⟨by omega, a3, a1, a4⟩, fun i x hi => ?_, fun ws hws => ?_⟩
  · unfold Unit.setInput
    rw [if_pos hi]
  · unfold Unit.setWeights
    rw [if_pos hws]

set_option maxRecDepth 100000 in
/-- Witness of C38: the unit read from the line `3,1/2,3/4,-1/5`, after
`setInput(1, 5)`, `setWeights` with a vector of two values (ignored) and
`computeOutput()`. -/
theorem C38_unit_invariant_witness :
    ∃ u : Unit ℚ, Unit.Made u ∧ u.inputs = [1, 5, 0] ∧
      u.weights = [1 / 2, 3 / 4, -1 / 5] ∧
      (u.weights.length = u.inputs.length ∧
        u.inputs.length = u.numberOfWeights ∧
        u.numberOfWeights = u.numberOfInputs + 1 ∧ u.inputs[0]? = some 1) ∧
      u.setInput 0 7 = .error .out_of_range ∧
      u.setInput 3 7 = .error .out_of_range := by
  obtain ⟨p, hp⟩ : ∃ p, Unit.read sampleToUint sampleToReal
      (IStream.ofText '\n' "3,1/2,3/4,-1/5".toList) = .ok p ∧
      p.1.setInput 1 5 = .ok ⟨2, 3, [1, 5, 0], [1 / 2, 3 / 4, -1 / 5], 0⟩ :=
    ⟨_, by with_unfolding_all rfl, by with_unfolding_all rfl⟩
  obtain ⟨q, hq⟩ : ∃ q, Unit.computeOutput sampleExp
      ((⟨2, 3, [1, 5, 0], [1 / 2, 3 / 4, -1 / 5], 0⟩ : Unit ℚ).setWeights
        [1, 2]) = .ok q ∧ q.2.inputs = [1, 5, 0] ∧
      q.2.weights = [1 / 2, 3 / 4, -1 / 5] :=
    ⟨_, by with_unfolding_all rfl, by with_unfolding_all rfl,
      by with_unfolding_all rfl⟩
  have hm : Unit.Made q.2 :=
    Unit.Made.computeOutput sampleExp _ q.2 q.1
      (Unit.Made.setWeights _ [1, 2]
        (Unit.Made.setInput p.1 _ 1 5
          (Unit.Made.read sampleToUint sampleToReal _ p.2 p.1 hp.1) hp.2))
      hq.1
  have hc := C38_unit_invariant q.2 hm
  exact ⟨q.2, hm, hq.2.1, hq.2.2, hc.1, hc.2.1 0 7 (Or.inl (by decide)),
    hc.2.1 3 7 (Or.inr (by
      have := hc.1
      have hw : q.2.weights.length = 3 := by rw [hq.2.2]; rfl
      omega))⟩

/-! ## C39: the fold state under shuffles -/

section FoldConsistency

variable {R : Type}

/-- What `makeTrAccessVector` leaves is consistent when the access index
is. -/
theorem Dataset.makeTrAccessVector_consistent (N : Nat) (d : Dataset R)
    (hk : d.vafold < d.folds) (hN : d.dataset.length = N)
    (hav : d.av.Perm (List.range N)) :
    ∃ d', d.makeTrAccessVector = .ok d' ∧ d'.Consistent N := by
  refine ⟨_, Dataset.makeTrAccessVector_ok d hk, hN, hav, ?_, ?_⟩
  · intro p hp
    have hp' : p ∈ (if d.folds = 1 then (List.range d.dataset.length)
        else ((List.range d.dataset.length).filter (fun i => decide
          (i < d.vafold * (d.dataset.length / d.folds) +
              min d.vafold (d.dataset.length % d.folds) ∨
           (d.vafold + 1) * (d.dataset.length / d.folds) +
              min (d.vafold + 1) (d.dataset.length % d.folds) ≤ i)))) := hp
    by_cases h1 : d.folds = 1
    · rw [if_pos h1, hN] at hp'
      exact List.mem_range.1 hp'
    · rw [if_neg h1, hN] at hp'
      exact List.mem_range.1 (List.mem_filter.1 hp').1
  · intro hf
    have hf' : 1 < d.folds := hf
    have h1 : ¬ d.folds = 1 := by omega
    refine ⟨hk, ?_⟩
    show List.Perm (if d.folds = 1 then (List.range d.dataset.length)
        else ((List.range d.dataset.length).filter (fun i => decide
          (i < d.vafold * (d.dataset.length / d.folds) +
              min d.vafold (d.dataset.length % d.folds) ∨
           (d.vafold + 1) * (d.dataset.length / d.folds) +
              min (d.vafold + 1) (d.dataset.length % d.folds) ≤ i)))) _
    rw [if_neg h1, hN]
    exact List.Perm.refl _

/-- Every call keeps the fold state consistent, also a call that raises. -/
theorem Dataset.op_consistent (N : Nat) (s : Dataset R × Rng)
    (o : Dataset.Op) (h : s.1.Consistent N) :
    (Dataset.op s o).1.Consistent N := by
  obtain ⟨hN, hav, htr, hfold⟩ := h
  cases o with
  | merge =>
    exact ⟨hN, hav, fun p hp => (by cases hp), fun hf => (by cases hf)⟩
  | restore =>
    refine ⟨hN, ?_, fun p hp => (by cases hp), fun hf => (by cases hf)⟩
    show List.Perm ((List.range s.1.merge.av.length).foldl
      (fun a i => a.set i i) s.1.merge.av) _
    rw [foldl_set_range]
    have hl : s.1.merge.av.length = N := by
      show s.1.av.length = N
      rw [hav.length_eq, List.length_range]
    rw [hl]
  | call c =>
    cases c with
    | setFolds n =>
      show (Dataset.call s (.setFolds n)).1.Consistent N
      by_cases h1 : n > s.1.dataset.length
      · have hc : s.1.setFoldsSt n = .error (.out_of_range, s.1) := by
          unfold Dataset.setFoldsSt
          rw [if_pos h1]
        simp only [Dataset.call, hc]
        exact ⟨hN, hav, htr, hfold⟩
      · by_cases h2 : n = 0
        · have hc : s.1.setFoldsSt n = .ok s.1.merge := by
            unfold Dataset.setFoldsSt
            rw [if_neg h1, if_pos h2]
          simp only [Dataset.call, hc]
          exact ⟨hN, hav, fun p hp => (by cases hp), fun hf => (by cases hf)⟩
        · obtain ⟨d', hd', hcons⟩ := Dataset.makeTrAccessVector_consistent N
            { s.1 with folds := n, vafold := 0 }
            (show (0 : Nat) < n by omega) hN hav
          have hc : s.1.setFoldsSt n = .ok d' := by
            unfold Dataset.setFoldsSt
            rw [if_neg h1, if_neg h2, hd']
          simp only [Dataset.call, hc]
          exact hcons
    | setValidationFold k =>
      show (Dataset.call s (.setValidationFold k)).1.Consistent N
      by_cases h1 : k ≥ s.1.folds
      · have hc : s.1.setValidationFoldSt k = .error (.out_of_range, s.1) := by
          unfold Dataset.setValidationFoldSt
          rw [if_pos h1]
        simp only [Dataset.call, hc]
        exact ⟨hN, hav, htr, hfold⟩
      · by_cases h2 : s.1.folds = 1
        · have hc : s.1.setValidationFoldSt k = .ok s.1 := by
            unfold Dataset.setValidationFoldSt
            rw [if_neg h1, if_pos h2]
          simp only [Dataset.call, hc]
          exact ⟨hN, hav, htr, hfold⟩
        · obtain ⟨d', hd', hcons⟩ := Dataset.makeTrAccessVector_consistent N
            { s.1 with vafold := k } (show k < s.1.folds by omega) hN hav
          have hc : s.1.setValidationFoldSt k = .ok d' := by
            unfold Dataset.setValidationFoldSt
            rw [if_neg h1, if_neg h2, hd']
          simp only [Dataset.call, hc]
          exact hcons
    | randomShuffle =>
      show (Dataset.call s .randomShuffle).1.Consistent N
      obtain ⟨v', g', hv', hp⟩ :=
        Dataset.shuffle_ok s.1.av s.2
      have hc : s.1.randomShuffle s.2 = .ok ({ s.1 with av := v' }, g') := by
        unfold Dataset.randomShuffle
        simp only [hv', bind, Except.bind, pure, Except.pure]
      simp only [Dataset.call, hc]
      exact ⟨hN, hp.trans hav, htr, hfold⟩
    | randomShuffleTrainingSet =>
      show (Dataset.call s .randomShuffleTrainingSet).1.Consistent N
      obtain ⟨v', g', hv', hp⟩ :=
        Dataset.shuffle_ok s.1.trav s.2
      have hc : s.1.randomShuffleTrainingSet s.2 =
          .ok ({ s.1 with trav := v' }, g') := by
        unfold Dataset.randomShuffleTrainingSet
        simp only [hv', bind, Except.bind, pure, Except.pure]
      simp only [Dataset.call, hc]
      exact ⟨hN, hav, fun p hp' => htr p (hp.mem_iff.1 hp'),
        fun hf => ⟨(hfold hf).1, hp.trans (hfold hf).2⟩⟩

/-- Every sequence of calls keeps the fold state consistent. -/
theorem Dataset.ops_consistent (N : Nat) (os : List Dataset.Op) :
    ∀ s : Dataset R × Rng, s.1.Consistent N →
      (Dataset.ops s os).1.Consistent N := by
  induction os with
  | nil => exact fun s h => h
  | cons o os ih =>
    intro s h
    exact ih (Dataset.op s o) (Dataset.op_consistent N s o h)

/-- A freshly constructed dataset is consistent after `load`. -/
theorem Dataset.load_consistent (toReal : List Char → R)
    (file : Option (List Char)) (ni no : Nat) (d0 : Dataset R)
    (h : Dataset.load toReal ⟨[], [], [], 0, 0⟩ file ni no = .ok d0) :
    d0.Consistent d0.dataset.length ∧ d0.av = List.range d0.dataset.length ∧
      d0.trav = [] ∧ d0.folds = 0 := by
  unfold Dataset.load at h
  cases file with
  | none => cases h
  | some text =>
    simp only [] at h
    cases hl : Dataset.loadLoop toReal ni no (IStream.ofText '\n' text).segs
        [] with
    | error e =>
      rw [hl] at h
      cases h
    | ok ds =>
      rw [hl] at h
      simp only [bind, Except.bind, pure, Except.pure] at h
      injection h with h
      have hav : (List.range ds.length).foldl (fun a i => a.set i i)
          (List.replicate ds.length 0) = List.range ds.length := by
        have := foldl_set_range (List.replicate ds.length 0)
        rw [List.length_replicate] at this
        exact this
      rw [hav] at h
      subst h
      exact ⟨⟨rfl, List.Perm.refl _, fun p hp => (by cases hp),
        fun hf => (by cases hf)⟩, rfl, rfl, rfl⟩

/-- What a consistent fold state gives: `trAt` serves every index below the
size of the training set; with more than one fold the training-access index
is a duplicate-free list of the positions outside the validation fold, and a
position of the training set and a position of the validation set are
different and lead to different instances of the dataset. -/
theorem Dataset.consistent_facts (N : Nat) (d : Dataset R)
    (h : d.Consistent N) :
    (∀ i, i < d.getTrSetSize → ∃ p j inst, d.trPosition i = .ok p ∧
      p < N ∧ d.av[p]? = some j ∧ j < N ∧ d.dataset[j]? = some inst ∧
      d.trAt i = .ok inst) ∧
    (1 < d.folds → ∃ s e, d.startIndexFold d.vafold = .ok s ∧
      d.endIndexFold d.vafold = .ok e ∧ d.trav.Nodup ∧
      (∀ p, p ∈ d.trav ↔ p < N ∧ (p < s ∨ e ≤ p)) ∧
      ∀ i j p q, d.trPosition i = .ok p → d.vaPosition j = .ok q →
        p ≠ q ∧ s ≤ q ∧ q < e ∧ (p < s ∨ e ≤ p) ∧ d.av[p]? ≠ d.av[q]?) := by
  obtain ⟨hN, hav, htr, hfold⟩ := h
  have hal : d.av.length = N := by rw [hav.length_eq, List.length_range]
  have hnd : d.av.Nodup := hav.nodup_iff.2 (List.nodup_range N)
  refine ⟨fun i hi => ?_, fun hf => ?_⟩
  · have hi' : i < d.trav.length := hi
    have hp : d.trav[i] < N := htr _ (List.getElem_mem hi')
    have hj : d.av[d.trav[i]] < N :=
      List.mem_range.1 (hav.mem_iff.1 (List.getElem_mem (by omega)))
    have hpos : d.trPosition i = .ok (d.trav[i]) := by
      unfold Dataset.trPosition
      rw [if_neg (by omega), rawGet_ok _ _ hi']
      rfl
    refine ⟨d.trav[i], d.av[d.trav[i]], d.dataset[d.av[d.trav[i]]], hpos, hp,
      List.getElem?_eq_getElem (by omega), hj,
      List.getElem?_eq_getElem (by omega), ?_⟩
    unfold Dataset.trAt
    simp only [hpos, bind, Except.bind]
    unfold Dataset.at
    rw [if_neg (by omega), rawGet_ok _ _ (show d.trav[i] < d.av.length by omega)]
    simp only [bind, Except.bind, List.get_eq_getElem]
    rw [rawGet_ok _ _ (show d.av[d.trav[i]] < d.dataset.length by omega)]
    rfl
  · obtain ⟨hk, hperm⟩ := hfold hf
    have hs := Dataset.startIndexFold_ok d d.vafold hk
    have he := Dataset.endIndexFold_ok d d.vafold hk
    rw [hN] at hs he
    have hmem : ∀ p, p ∈ d.trav ↔ p < N ∧
        (p < d.vafold * (N / d.folds) + min d.vafold (N % d.folds) ∨
          (d.vafold + 1) * (N / d.folds) + min (d.vafold + 1) (N % d.folds) ≤
            p) := by
      intro p
      rw [hperm.mem_iff, List.mem_filter, List.mem_range]
      simp [Dataset.foldStart]
    refine ⟨_, _, hs, he,
      hperm.nodup_iff.2 ((List.nodup_range N).filter _), hmem, ?_⟩
    intro i j p q hp hq
    have hpm : p ∈ d.trav := by
      unfold Dataset.trPosition at hp
      by_cases hi : i ≥ d.trav.length
      · rw [if_pos hi] at hp
        cases hp
      · rw [if_neg hi, rawGet_ok _ _ (by omega)] at hp
        injection hp with hp
        rw [← hp]
        exact List.getElem_mem _
    obtain ⟨hpN, hpo⟩ := (hmem p).1 hpm
    have hqr : d.vafold * (N / d.folds) + min d.vafold (N % d.folds) ≤ q ∧
        q < (d.vafold + 1) * (N / d.folds) +
          min (d.vafold + 1) (N % d.folds) := by
      unfold Dataset.vaPosition at hq
      unfold Dataset.foldDimension at hq
      simp only [hk, not_true_eq_false, if_false] at hq
      simp only [hs, he, bind, Except.bind, pure, Except.pure] at hq
      by_cases hg : j ≥ (d.vafold + 1) * (N / d.folds) +
          min (d.vafold + 1) (N % d.folds) -
          (d.vafold * (N / d.folds) + min d.vafold (N % d.folds)) ∨
          d.folds ≤ 1
      · rw [if_pos hg] at hq
        cases hq
      · rw [if_neg hg] at hq
        injection hq with hq
        omega
    have hne : p ≠ q := by omega
    have hqN : q < N := by
      have hle : (d.vafold + 1) * (N / d.folds) +
          min (d.vafold + 1) (N % d.folds) ≤ N := by
        have hdm := Nat.div_add_mod N d.folds
        have h1 : (d.vafold + 1) * (N / d.folds) ≤ d.folds * (N / d.folds) :=
          Nat.mul_le_mul_right _ hk
        have h2 : min (d.vafold + 1) (N % d.folds) ≤ N % d.folds :=
          Nat.min_le_right _ _
        omega
      omega
    refine ⟨hne, hqr.1, hqr.2, hpo, ?_⟩
    rw [List.getElem?_eq_getElem (show p < d.av.length by omega),
      List.getElem?_eq_getElem (show q < d.av.length by omega)]
    intro heq
    injection heq with heq
    exact hne ((List.Nodup.getElem_inj_iff hnd).1 heq)

end FoldConsistency

/-- Claim C39: after a load of `N` instances into a fresh dataset, whatever
calls of `setFolds`, `setValidationFold`, `merge`, `restore`, `randomShuffle`
and `randomShuffleTrainingSet` follow (a call that raises leaves the object
as it was) and whatever values the random source returns, the dataset still
has its `N` instances, the access index is a permutation of `0..N-1`, every
entry of the training-access index is below `N` and `trAt(i)` returns an
instance for every `i < getTrSetSize()`; and when the fold count is above 1
the training-access index has no duplicates and holds exactly the positions
below `N` outside `[startIndexFold(vafold), endIndexFold(vafold))`, so that a
position served by `trAt` and one served by `vaAt` are different and the
access index sends them to different instances. -/
theorem C39_fold_consistency {R : Type} (toReal : List Char → R)
    (file : Option (List Char)) (ni no : Nat) (d0 : Dataset R) (g : Rng)
    (os : List Dataset.Op)
    (hload : Dataset.load toReal ⟨[], [], [], 0, 0⟩ file ni no = .ok d0) :
    (Dataset.ops (d0, g) os).1.getSize = d0.getSize ∧
    (Dataset.ops (d0, g) os).1.av.Perm (List.range d0.getSize) ∧
    (∀ p ∈ (Dataset.ops (d0, g) os).1.trav, p < d0.getSize) ∧
    (∀ i, i < (Dataset.ops (d0, g) os).1.getTrSetSize →
      ∃ inst, (Dataset.ops (d0, g) os).1.trAt i = .ok inst) ∧
    (1 < (Dataset.ops (d0, g) os).1.folds →
      ∃ s e,
        (Dataset.ops (d0, g) os).1.startIndexFold
          (Dataset.ops (d0, g) os).1.vafold = .ok s ∧
        (Dataset.ops (d0, g) os).1.endIndexFold
          (Dataset.ops (d0, g) os).1.vafold = .ok e ∧
        (Dataset.ops (d0, g) os).1.trav.Nodup ∧
        (∀ p, p ∈ (Dataset.ops (d0, g) os).1.trav ↔
          p < d0.getSize ∧ (p < s ∨ e ≤ p)) ∧
        ∀ i j p q, (Dataset.ops (d0, g) os).1.trPosition i = .ok p →
          (Dataset.ops (d0, g) os).1.vaPosition j = .ok q →
          p ≠ q ∧ (Dataset.ops (d0, g) os).1.av[p]? ≠
            (Dataset.ops (d0, g) os).1.av[q]?) := by
  have h0 := (Dataset.load_consistent toReal file ni no d0 hload).1
  have hc := Dataset.ops_consistent d0.dataset.length os (d0, g) h0
  obtain ⟨f1, f2⟩ := Dataset.consistent_facts d0.dataset.length _ hc
  refine ⟨hc.1, hc.2.1, hc.2.2.1, fun i hi => ?_, fun hf => ?_⟩
  · obtain ⟨_, _, inst, _, _, _, _, _, h⟩ := f1 i hi
    exact ⟨inst, h⟩
  · obtain ⟨s, e, h1, h2, h3, h4, h5⟩ := f2 hf
    refine ⟨s, e, h1, h2, h3, h4, fun i j p q hp hq => ?_⟩
    obtain ⟨a, _, _, _, b⟩ := h5 i j p q hp hq
    exact ⟨a, b⟩

set_option maxRecDepth 100000 in
/-- Witness of C39: three instances loaded from a file, then `setFolds(3)`,
`randomShuffle()`, `setValidationFold(1)`, `randomShuffleTrainingSet()`,
`setFolds(5)` (which raises), `restore()` and `setFolds(2)`. -/
theorem C39_fold_consistency_witness :
    ∃ d0 : Dataset ℚ,
      Dataset.load sampleToReal ⟨[], [], [], 0, 0⟩
        (some "a,1,2\nb,3,4\nc,5,6\n".toList) 1 1 = .ok d0 ∧
      d0.getSize = 3 ∧
      (Dataset.ops (d0, ⟨fun k => k + 1⟩)
        [.call (.setFolds 3), .call .randomShuffle,
          .call (.setValidationFold 1), .call .randomShuffleTrainingSet,
          .call (.setFolds 5), .restore, .call (.setFolds 2)]).1.av.Perm
        (List.range d0.getSize) ∧
      ∀ i, i < (Dataset.ops (d0, ⟨fun k => k + 1⟩)
        [.call (.setFolds 3), .call .randomShuffle,
          .call (.setValidationFold 1), .call .randomShuffleTrainingSet,
          .call (.setFolds 5), .restore, .call (.setFolds 2)]).1.getTrSetSize →
        ∃ inst, (Dataset.ops (d0, ⟨fun k => k + 1⟩)
          [.call (.setFolds 3), .call .randomShuffle,
            .call (.setValidationFold 1), .call .randomShuffleTrainingSet,
            .call (.setFolds 5), .restore, .call (.setFolds 2)]).1.trAt i =
          .ok inst := by
  obtain ⟨d0, hd0, hn⟩ : ∃ d0 : Dataset ℚ,
      Dataset.load sampleToReal ⟨[], [], [], 0, 0⟩
        (some "a,1,2\nb,3,4\nc,5,6\n".toList) 1 1 = .ok d0 ∧ d0.getSize = 3 :=
    ⟨_, by with_unfolding_all rfl, by with_unfolding_all rfl⟩
  have h := C39_fold_consistency sampleToReal _ 1 1 d0 ⟨fun k => k + 1⟩
    [.call (.setFolds 3), .call .randomShuffle,
      .call (.setValidationFold 1), .call .randomShuffleTrainingSet,
      .call (.setFolds 5), .restore, .call (.setFolds 2)] hd0
  exact ⟨d0, hd0, hn, h.2.1, h.2.2.2.1⟩

/-! ## C34: back-propagation follows the gradient of the squared error -/

section Calculus

/-- The derivative of the sigmoid of a differentiable function. -/
theorem sigmoid_hasDerivAt (f : ℝ → ℝ) (f' v0 : ℝ) (hf : HasDerivAt f f' v0) :
    HasDerivAt (fun v => sigmoid Real.exp (f v))
      (sigmoid Real.exp (f v0) * (1 - sigmoid Real.exp (f v0)) * f') v0 := by
  have hpos : (1 : ℝ) + Real.exp (-f v0) ≠ 0 := by
    have := Real.exp_pos (-f v0)
    linarith
  have h1 : HasDerivAt (fun v => 1 + Real.exp (-f v))
      (Real.exp (-f v0) * (-f')) v0 := (hf.neg.exp).const_add 1
  have h2 := h1.inv hpos
  have heq : (fun v => sigmoid Real.exp (f v)) =
      (fun v => (1 + Real.exp (-f v))⁻¹) := by
    funext v
    unfold sigmoid
    rw [one_div]
  rw [heq]
  have hval : sigmoid Real.exp (f v0) * (1 - sigmoid Real.exp (f v0)) * f' =
      -(Real.exp (-f v0) * -f') / (1 + Real.exp (-f v0)) ^ 2 := by
    unfold sigmoid
    generalize Real.exp (-f v0) = e at hpos
    have h3 : (1 : ℝ) - 1 / (1 + e) = e / (1 + e) := by
      field_simp
    rw [h3]
    field_simp
    left
    ring
  rw [hval]
  exact h2

/-- The chain rule through the forward pass: when every weight is a
differentiable function of `v`, so is every value of the forward pass, with
the derivative `sensitivity`. -/
theorem forward_hasDerivAt (Wv : ℝ → Nat → Nat → Nat → ℝ)
    (dW : Nat → Nat → Nat → ℝ) (ar : Nat → Nat) (x : Nat → ℝ) (v0 : ℝ)
    (hW : ∀ l u k, HasDerivAt (fun v => Wv v l u k) (dW l u k) v0) :
    ∀ l u, HasDerivAt (fun v => forward Real.exp (Wv v) ar x l u)
      (sensitivity (Wv v0) dW ar (forward Real.exp (Wv v0) ar x) l u) v0 := by
  intro l
  induction l with
  | zero =>
    intro u
    exact hasDerivAt_const v0 (x u)
  | succ l ih =>
    intro u
    have hnet : HasDerivAt
        (fun v => Wv v l u 0 + ∑ k in Finset.range (ar l),
          Wv v l u (k + 1) * forward Real.exp (Wv v) ar x l k)
        (dW l u 0 + ∑ k in Finset.range (ar l),
          (dW l u (k + 1) * forward Real.exp (Wv v0) ar x l k +
            Wv v0 l u (k + 1) *
              sensitivity (Wv v0) dW ar (forward Real.exp (Wv v0) ar x) l k))
        v0 :=
      (hW l u 0).add (HasDerivAt.sum (fun k _ => (hW l u (k + 1)).mul (ih k)))
    exact sigmoid_hasDerivAt _ _ v0 hnet

/-- The derivative of the error `½ Σ_j (t_j − y_j)²` when the outputs `y_j`
are differentiable. -/
theorem error_hasDerivAt (y : Nat → ℝ → ℝ) (y' : Nat → ℝ) (t : Nat → ℝ)
    (n : Nat) (v0 : ℝ) (hy : ∀ j, HasDerivAt (y j) (y' j) v0) :
    HasDerivAt (fun v => (∑ j in Finset.range n, (t j - y j v) ^ 2) / 2)
      (-∑ j in Finset.range n, (t j - y j v0) * y' j) v0 := by
  have h : HasDerivAt (fun v => ∑ j in Finset.range n, (t j - y j v) ^ 2)
      (∑ j in Finset.range n, 2 * (t j - y j v0) ^ 1 * (0 - y' j)) v0 :=
    HasDerivAt.sum (fun j _ =>
      (((hasDerivAt_const v0 (t j)).sub (hy j)).pow 2))
  convert h.div_const 2 using 1
  rw [Finset.sum_div, ← Finset.sum_neg_distrib]
  apply Finset.sum_congr rfl
  intro j _
  ring

end Calculus

section BackPropIdentity

variable {R : Type} [LinearOrderedField R]

theorem sensitivity_succ (W dW : Nat → Nat → Nat → R) (ar : Nat → Nat)
    (a : Nat → Nat → R) (l u : Nat) :
    sensitivity W dW ar a (l + 1) u =
      a (l + 1) u * (1 - a (l + 1) u) * netSensitivity W dW ar a l u := rfl

/-- Back-propagation computes the gradient: when `g` satisfies the
recurrence of the local gradients, the sum over the output units of error
times sensitivity is the sum over all units of local gradient times the
direct effect of the weights of the unit on its net input. -/
theorem backprop_identity (W dW : Nat → Nat → Nat → R) (ar : Nat → Nat)
    (a : Nat → Nat → R) (t : Nat → R) (M : Nat) (g : Nat → Nat → R)
    (hout : ∀ j, j < ar (M + 1) → g M j =
      (t j - a (M + 1) j) * a (M + 1) j * (1 - a (M + 1) j))
    (hrec : ∀ l u, l < M → u < ar (l + 1) → g l u =
      (∑ j in Finset.range (ar (l + 2)), g (l + 1) j * W (l + 1) j (u + 1)) *
        a (l + 1) u * (1 - a (l + 1) u)) :
    ∑ j in Finset.range (ar (M + 1)),
        (t j - a (M + 1) j) * sensitivity W dW ar a (M + 1) j =
      ∑ l in Finset.range (M + 1), ∑ u in Finset.range (ar (l + 1)),
        g l u * (dW l u 0 +
          ∑ k in Finset.range (ar l), dW l u (k + 1) * a l k) := by
  have hsplit : ∀ l u, netSensitivity W dW ar a l u =
      (dW l u 0 + ∑ k in Finset.range (ar l), dW l u (k + 1) * a l k) +
        ∑ k in Finset.range (ar l),
          W l u (k + 1) * sensitivity W dW ar a l k := by
    intro l u
    unfold netSensitivity
    rw [Finset.sum_add_distrib]
    ring
  have key : ∀ m, m ≤ M →
      ∑ u in Finset.range (ar (m + 1)), g m u * netSensitivity W dW ar a m u =
        ∑ l in Finset.range (m + 1), ∑ u in Finset.range (ar (l + 1)),
          g l u * (dW l u 0 +
            ∑ k in Finset.range (ar l), dW l u (k + 1) * a l k) := by
    intro m
    induction m with
    | zero =>
      intro _
      rw [Finset.sum_range_one]
      apply Finset.sum_congr rfl
      intro u _
      rw [hsplit]
      have hz : ∑ k in Finset.range (ar 0),
          W 0 u (k + 1) * sensitivity W dW ar a 0 k = 0 := by
        apply Finset.sum_eq_zero
        intro k _
        simp [sensitivity]
      rw [hz, add_zero]
    | succ m ih =>
      intro hm
      rw [Finset.sum_range_succ _ (m + 1), ← ih (by omega)]
      have hmove : ∑ u in Finset.range (ar (m + 1 + 1)), g (m + 1) u *
          ∑ k in Finset.range (ar (m + 1)),
            W (m + 1) u (k + 1) * sensitivity W dW ar a (m + 1) k =
          ∑ k in Finset.range (ar (m + 1)),
            g m k * netSensitivity W dW ar a m k := by
        simp only [Finset.mul_sum]
        rw [Finset.sum_comm]
        apply Finset.sum_congr rfl
        intro k hk
        rw [hrec m k (by omega) (Finset.mem_range.1 hk), sensitivity_succ,
          Finset.sum_mul,
          Finset.sum_mul, Finset.sum_mul]
        apply Finset.sum_congr rfl
        intro j _
        ring
      rw [← hmove, ← Finset.sum_add_distrib]
      apply Finset.sum_congr rfl
      intro u _
      rw [hsplit]
      ring
  rw [← key M (le_refl _)]
  apply Finset.sum_congr rfl
  intro j hj
  rw [sensitivity_succ, hout j (Finset.mem_range.1 hj)]
  ring

end BackPropIdentity

section ForwardBridge

variable {R : Type} [LinearOrderedField R]

theorem weightedSum_succ (ws xs : List R) (n : Nat) :
    weightedSum ws xs (n + 1) = ws.getD 0 0 * xs.getD 0 0 +
      ∑ k in Finset.range n, ws.getD (k + 1) 0 * xs.getD (k + 1) 0 := by
  unfold weightedSum
  rw [Finset.sum_range_succ', add_comm]

omit [LinearOrderedField R] in
theorem getD_of_get? {α : Type} (v : List α) (i : Nat) (a d : α)
    (h : v[i]? = some a) : v.getD i d = a := by
  simp [List.getD_eq_getElem?_getD, h]

/-- The state that the forward pass leaves holds the values of `forward`:
every unit caches the output `forward (l+1) u`, and its cached inputs are `1`
and the values `forward l k`. -/
theorem NeuralNetwork.computed_forward (exp : R → R) (n0 n : NeuralNetwork R)
    (h0 : n0.WF) (hC : n0.Computed exp n) :
    ∀ l u a, n.unit? l u = some a →
      a.numberOfInputs = n0.arityOf l ∧ a.inputs.getD 0 0 = 1 ∧
      (∀ k, k < n0.arityOf l → a.inputs.getD (k + 1) 0 =
        forward exp n0.weightOf n0.arityOf (fun k => n0.inputs.getD k 0) l k) ∧
      a.lastOutput =
        forward exp n0.weightOf n0.arityOf (fun k => n0.inputs.getD k 0)
          (l + 1) u := by
  intro l
  induction l with
  | zero =>
    intro u a ha
    obtain ⟨_, ⟨⟨s1, s2, s3⟩, s4⟩, hout, hin0, _⟩ :=
      NeuralNetwork.computed_unit exp n0 n h0 hC 0 u a ha
    obtain ⟨e1, e2⟩ := hin0 rfl
    have har : a.numberOfInputs = n0.arityOf 0 := e1
    have hins : ∀ k, k < n0.arityOf 0 → a.inputs.getD (k + 1) 0 =
        forward exp n0.weightOf n0.arityOf (fun k => n0.inputs.getD k 0)
          0 k := by
      intro k hk
      show a.inputs.getD (k + 1) 0 = n0.inputs.getD k 0
      rw [List.getD_eq_getElem?_getD, List.getD_eq_getElem?_getD,
        e2 k (by rw [har]; exact hk)]
    have hb0 : a.inputs.getD 0 0 = 1 := getD_of_get? _ _ _ _ s4
    refine ⟨har, hb0, hins, ?_⟩
    rw [hout]
    unfold Unit.out
    rw [s1, weightedSum_succ, hb0, mul_one, har]
    show sigmoid exp _ = sigmoid exp _
    congr 1
    have hw : ∀ k, a.weights.getD k 0 = n0.weightOf 0 u k := by
      intro k
      rw [← NeuralNetwork.frame_weightOf n0 n hC.1,
        NeuralNetwork.weightOf_eq n 0 u k a ha]
    rw [hw 0]
    congr 1
    apply Finset.sum_congr rfl
    intro k hk
    rw [hw, hins k (Finset.mem_range.1 hk)]
  | succ l ih =>
    intro u a ha
    obtain ⟨_, ⟨⟨s1, s2, s3⟩, s4⟩, hout, _, hin1⟩ :=
      NeuralNetwork.computed_unit exp n0 n h0 hC (l + 1) u a ha
    obtain ⟨e1, e2⟩ := hin1 l rfl
    have har : a.numberOfInputs = n0.arityOf (l + 1) := by
      show a.numberOfInputs = n0.dimOf l
      rw [NeuralNetwork.dimOf_eq n0 l _ e1]
    have hins : ∀ k, k < n0.arityOf (l + 1) → a.inputs.getD (k + 1) 0 =
        forward exp n0.weightOf n0.arityOf (fun k => n0.inputs.getD k 0)
          (l + 1) k := by
      intro k hk
      obtain ⟨b, hb, hbk⟩ := e2 k (by rw [har]; exact hk)
      rw [getD_of_get? _ _ _ _ hbk]
      exact (ih k b hb).2.2.2
    have hb0 : a.inputs.getD 0 0 = 1 := getD_of_get? _ _ _ _ s4
    refine ⟨har, hb0, hins, ?_⟩
    rw [hout]
    unfold Unit.out
    rw [s1, weightedSum_succ, hb0, mul_one, har]
    show sigmoid exp _ = sigmoid exp _
    congr 1
    have hw : ∀ k, a.weights.getD k 0 = n0.weightOf (l + 1) u k := by
      intro k
      rw [← NeuralNetwork.frame_weightOf n0 n hC.1,
        NeuralNetwork.weightOf_eq n (l + 1) u k a ha]
    rw [hw 0]
    congr 1
    apply Finset.sum_congr rfl
    intro k hk
    rw [hw, hins k (Finset.mem_range.1 hk)]

/-- With rates `lambda = 0` and `alfa = 0` the delta of weight `k` is
`eta * delta * x_k`. -/
theorem deltaChain_plain (eta d : R) (ws xs : List R) (m0 : R) (k : Nat) :
    deltaChain eta 0 0 d ws xs m0 k = eta * d * xs.getD k 0 := by
  cases k with
  | zero => simp [deltaChain]
  | succ k => simp [deltaChain]

end ForwardBridge

section WeightLine

variable {R : Type} [LinearOrderedField R]

/-- `setWeight` on a weight of a well-formed network returns a well-formed
network of the same shape whose weights are those of the network with the
one weight replaced. -/
theorem NeuralNetwork.setWeight_facts (n : NeuralNetwork R) (l0 u0 k0 : Nat)
    (v : R) (a : Unit R) (h0 : n.WF)
    (hne : ∀ layer ∈ n.network, layer ≠ [])
    (ha : n.unit? l0 u0 = some a) (hk : k0 < a.numberOfWeights) :
    ∃ nv, n.setWeight l0 u0 k0 v = .ok nv ∧ nv.WF ∧
      (∀ layer ∈ nv.network, layer ≠ []) ∧ nv.nlayers = n.nlayers ∧
      nv.ninputs = n.ninputs ∧ nv.dims = n.dims ∧
      ∀ l u k, nv.weightOf l u k = n.weightsWith l0 u0 k0 v l u k := by
  obtain ⟨⟨⟨w1, w2, w3⟩, w4⟩, _, _⟩ := NeuralNetwork.wf_unit n h0 l0 u0 a ha
  obtain ⟨d, hd, hud⟩ := NeuralNetwork.unit?_dims n l0 u0 a ha
  have hl : l0 < n.nlayers := by
    have := (List.getElem?_eq_some_iff.1 hd).1
    rw [NeuralNetwork.dims_length, h0.1] at this
    exact this
  have hkw : k0 < a.weights.length := by omega
  have hset : n.setWeight l0 u0 k0 v = .ok (n.putUnit l0 u0
      { a with weights := a.weights.set k0 v }) := by
    unfold NeuralNetwork.setWeight
    have hk' : ¬ k0 ≥ a.numberOfWeights := by omega
    simp [NeuralNetwork.checkedWeight_ok n l0 u0 k0 a hl ha hk, bind,
      Except.bind, Unit.setWeight, hk', rawSet_ok _ _ _ hkw, pure,
      Except.pure]
  have hdims : (n.putUnit l0 u0
      { a with weights := a.weights.set k0 v }).dims = n.dims :=
    NeuralNetwork.dims_putUnit n l0 u0 _
  have hsz := NeuralNetwork.sizes_putUnit n l0 u0 a
    { a with weights := a.weights.set k0 v } ha (by simp [Unit.sizes])
  have hnet : (n.putUnit l0 u0
      { a with weights := a.weights.set k0 v }).network.map
        (fun l => l.map Unit.sizes) = n.network.map
        (fun l => l.map Unit.sizes) := congrArg (fun s => s.2.2) hsz
  have hlen : (n.putUnit l0 u0
      { a with weights := a.weights.set k0 v }).network.length =
      n.network.length := by
    rw [← NeuralNetwork.dims_length, ← NeuralNetwork.dims_length, hdims]
  refine ⟨_, hset, ⟨by rw [hlen]; exact h0.1, h0.2.1,
    layersWF_sizes _ _ _ hnet h0.2.2.1, ?_⟩, ?_, rfl, rfl, hdims, ?_⟩
  · show n.lastOutput.length = _
    rw [h0.2.2.2]
    have hd' := hdims
    unfold NeuralNetwork.dims at hd'
    have : ((n.putUnit l0 u0
        { a with weights := a.weights.set k0 v }).network.map
          List.length).getLast? = (n.network.map List.length).getLast? := by
      rw [hd']
    rw [List.getLast?_map, List.getLast?_map] at this
    cases e1 : (n.putUnit l0 u0
        { a with weights := a.weights.set k0 v }).network.getLast? <;>
      cases e2 : n.network.getLast? <;> simp [e1, e2] at this ⊢
    exact this.symm
  · intro layer hlay
    have hm : layer.length ∈ (n.putUnit l0 u0
        { a with weights := a.weights.set k0 v }).dims := by
      unfold NeuralNetwork.dims; exact List.mem_map_of_mem _ hlay
    rw [hdims] at hm
    unfold NeuralNetwork.dims at hm
    obtain ⟨layer0, hl0, hlen0⟩ := List.mem_map.1 hm
    have := List.length_pos.2 (hne layer0 hl0)
    exact List.length_pos.1 (by omega)
  · intro l u k
    unfold NeuralNetwork.weightOf NeuralNetwork.weightsWith
    rw [NeuralNetwork.unit?_putUnit, ha]
    by_cases hlu : l = l0 ∧ u = u0
    · obtain ⟨rfl, rfl⟩ := hlu
      simp only [and_self, if_true, Option.map_some', true_and]
      rw [getD_set_eq]
      by_cases hkk : k = k0
      · subst hkk
        simp [hkw]
      · have : ¬ (k0 = k ∧ k0 < a.weights.length) := fun h => hkk h.1.symm
        rw [if_neg this, if_neg hkk]
        unfold NeuralNetwork.weightOf
        rw [ha]
    · rw [if_neg hlu]
      have : ¬ (l = l0 ∧ u = u0 ∧ k = k0) := fun h => hlu ⟨h.1, h.2.1⟩
      rw [if_neg this]
      rfl

/-- The forward pass on a well-formed network without empty layers, after
`setInputs`, in terms of `forward`: it returns, the cached outputs are the
values of `forward` at the weights of the network, and so is the error of the
output vector. -/
theorem NeuralNetwork.error_forward (exp : R → R) (n : NeuralNetwork R)
    (x d : List R) (h0 : n.WF) (hL : 1 ≤ n.nlayers)
    (hne : ∀ layer ∈ n.network, layer ≠ []) (hx : x.length = n.ninputs) :
    ∃ m, (n.setInputs x).compute exp = .ok m ∧
      (n.setInputs x).Computed exp m ∧
      (∀ l u a, m.unit? l u = some a →
        a.numberOfInputs = n.arityOf l ∧ a.inputs.getD 0 0 = 1 ∧
        (∀ k, k < n.arityOf l → a.inputs.getD (k + 1) 0 =
          forward exp n.weightOf n.arityOf (fun k => x.getD k 0) l k) ∧
        a.lastOutput =
          forward exp n.weightOf n.arityOf (fun k => x.getD k 0) (l + 1) u) ∧
      squaredError m.getOutputs d =
        (∑ j in Finset.range (n.arityOf n.nlayers),
          (d.getD j 0 - forward exp n.weightOf n.arityOf
            (fun k => x.getD k 0) n.nlayers j) ^ 2) / 2 := by
  have hset := NeuralNetwork.setInputs_eq n x hx
  have hwf : (n.setInputs x).WF := by
    rw [hset]
    exact ⟨h0.1, hx, h0.2.2.1, h0.2.2.2⟩
  have hnl : (n.setInputs x).nlayers = n.nlayers := by rw [hset]
  have hnet : (n.setInputs x).network = n.network := by rw [hset]
  have hinp : (n.setInputs x).inputs = x := by rw [hset]
  have hdm : (n.setInputs x).dims = n.dims := by
    unfold NeuralNetwork.dims; rw [hnet]
  have hW : (n.setInputs x).weightOf = n.weightOf := by
    funext l u k
    unfold NeuralNetwork.weightOf NeuralNetwork.unit?
    rw [hnet]
  have hAr : (n.setInputs x).arityOf = n.arityOf := by
    funext l
    cases l with
    | zero => show (n.setInputs x).ninputs = n.ninputs; rw [hset]
    | succ l =>
      show (n.setInputs x).dimOf l = n.dimOf l
      unfold NeuralNetwork.dimOf
      rw [hdm]
  obtain ⟨m, hm, hC⟩ := NeuralNetwork.compute_ok exp (n.setInputs x) hwf
    (by omega) (by rw [hnet]; exact hne)
  have hfw := NeuralNetwork.computed_forward exp (n.setInputs x) m hwf hC
  rw [hW, hAr, hinp] at hfw
  refine ⟨m, hm, hC, hfw, ?_⟩
  have hF := hC.1
  have hwfm := NeuralNetwork.frame_wf _ m hwf hF
  have hnlm : m.nlayers = n.nlayers := by rw [hF.2.1, hnl]
  have hdmm : m.dims = n.dims := by rw [hF.2.2.2.1, hdm]
  obtain ⟨dl, hdl⟩ := NeuralNetwork.dims_at m hwfm.1 (m.nlayers - 1) (by omega)
  have hlen := NeuralNetwork.wf_lastOutput_length m hwfm (by omega) dl hdl
  have hdim : n.arityOf n.nlayers = dl := by
    have har : n.arityOf n.nlayers = n.dimOf (n.nlayers - 1) := by
      obtain ⟨M, hM⟩ : ∃ M, n.nlayers = M + 1 := ⟨n.nlayers - 1, by omega⟩
      rw [hM]
      rfl
    rw [har, ← hnlm]
    unfold NeuralNetwork.dimOf
    rw [← hdmm]
    simp [List.getD_eq_getElem?_getD, hdl]
  unfold squaredError
  show (∑ j in Finset.range m.lastOutput.length,
    (d.getD j 0 - m.lastOutput.getD j 0) ^ 2) / 2 = _
  rw [hlen, hdim]
  congr 1
  apply Finset.sum_congr rfl
  intro j hj
  obtain ⟨b, hb⟩ := NeuralNetwork.dims_unit? m (m.nlayers - 1) j dl hdl
    (Finset.mem_range.1 hj)
  have hbo := (hC.2.2.2 j b (by rw [hnl, ← hnlm]; exact hb))
  rw [getD_of_get? _ _ _ _ hbo.2, ← hbo.1, (hfw _ j b hb).2.2.2]
  have : m.nlayers - 1 + 1 = n.nlayers := by omega
  rw [this]

end WeightLine

section GradientDescent

variable {R : Type} [LinearOrderedField R]

/-- The direct effect of the one weight `(l0, u0, k0)` on the net inputs: the
value fed through it, for its own unit, and nothing for the other units. -/
theorem direct_effect (a : Nat → Nat → R) (ar : Nat → Nat) (l0 u0 k0 : Nat)
    (hk : k0 ≤ ar l0) (l u : Nat) :
    ((if l = l0 ∧ u = u0 ∧ 0 = k0 then (1 : R) else 0) +
      ∑ k in Finset.range (ar l),
        (if l = l0 ∧ u = u0 ∧ k + 1 = k0 then (1 : R) else 0) * a l k) =
      if l = l0 ∧ u = u0 then (if k0 = 0 then 1 else a l0 (k0 - 1))
      else 0 := by
  by_cases hlu : l = l0 ∧ u = u0
  · obtain ⟨rfl, rfl⟩ := hlu
    simp only [true_and, and_self, if_true]
    cases k0 with
    | zero =>
      have hz : ∑ k in Finset.range (ar l),
          (if k + 1 = 0 then (1 : R) else 0) * a l k = 0 :=
        Finset.sum_eq_zero (fun k _ => by simp)
      simp [hz]
    | succ k0 =>
      have h0 : ¬ (0 = k0 + 1) := by omega
      have h0' : ¬ (k0 + 1 = 0) := by omega
      rw [if_neg h0, zero_add, if_neg h0', Nat.add_sub_cancel]
      rw [Finset.sum_eq_single k0]
      · simp
      · intro k _ hne
        have : ¬ (k + 1 = k0 + 1) := by omega
        simp [this]
      · intro hnot
        exact absurd (Finset.mem_range.2 (by omega)) hnot
  · have h1 : ¬ (l = l0 ∧ u = u0 ∧ 0 = k0) := fun h => hlu ⟨h.1, h.2.1⟩
    have h2 : ∀ k, ¬ (l = l0 ∧ u = u0 ∧ k + 1 = k0) :=
      fun k h => hlu ⟨h.1, h.2.1⟩
    rw [if_neg h1, if_neg hlu, zero_add]
    exact Finset.sum_eq_zero (fun k _ => by rw [if_neg (h2 k), zero_mul])

/-- A double sum against the effect of one unit is the term of that unit. -/
theorem sum_single_unit (g : Nat → Nat → R) (ar : Nat → Nat) (M l0 u0 : Nat)
    (c : R) (hl : l0 < M + 1) (hu : u0 < ar (l0 + 1)) :
    ∑ l in Finset.range (M + 1), ∑ u in Finset.range (ar (l + 1)),
      g l u * (if l = l0 ∧ u = u0 then c else 0) = g l0 u0 * c := by
  rw [Finset.sum_eq_single l0]
  · rw [Finset.sum_eq_single u0]
    · simp
    · intro u _ hne
      have : ¬ (l0 = l0 ∧ u = u0) := fun h => hne h.2
      rw [if_neg this, mul_zero]
    · intro hnot
      exact absurd (Finset.mem_range.2 hu) hnot
  · intro l _ hne
    apply Finset.sum_eq_zero
    intro u _
    have : ¬ (l = l0 ∧ u = u0) := fun h => hne h.1
    rw [if_neg this, mul_zero]
  · intro hnot
    exact absurd (Finset.mem_range.2 hl) hnot

end GradientDescent

/-- Claim C34: on a network of `L >= 2` non-empty layers that satisfies the
arity invariant, with an input vector and a target vector of matching
lengths, any learning rate `eta`, and the rates `lambda = 0` and `alfa = 0`,
one call of `compute()` (with the real exponential) returns, and for each
weight `(l, u, k)` of the network: let `E v` be the error
`½ Σ_j (t_j − y_j)²` of the output that the forward pass of the code computes
on the network whose weight `(l, u, k)` has been set to `v` by `setWeight`,
all other weights being those before the call; then `E` has a derivative `D`
at the value the weight had before the call, and the change that the call
applies to the weight is `−eta · D`. -/
theorem C34_gradient_descent (bp : BackPropagation ℝ) (nn : NeuralNetwork ℝ)
    (inputs desired : List ℝ) (t0 : List (List ℝ))
    (hm : bp.hasModel = true) (h0 : nn.WF) (hL : 2 ≤ nn.nlayers)
    (hne : ∀ layer ∈ nn.network, layer ≠ [])
    (hin : inputs.length = nn.ninputs)
    (hdes : desired.length = nn.dimOf (nn.nlayers - 1))
    (hbt : bp.momentumtable = some t0) (ht0 : t0.map List.length = nn.dims)
    (hlam : bp.lambda = 0) (half : bp.alfa = 0) :
    ∃ bp' nn', BackPropagation.compute Real.exp bp nn inputs desired =
        .ok (bp', nn') ∧
      ∀ l u k a, nn.unit? l u = some a → k < a.numberOfWeights →
        ∃ (E : ℝ → ℝ) (D : ℝ),
          (∀ v, ∃ nv mv, nn.setWeight l u k v = .ok nv ∧
            (nv.setInputs inputs).compute Real.exp = .ok mv ∧
            E v = squaredError mv.getOutputs desired) ∧
          HasDerivAt E D (nn.weightOf l u k) ∧
          nn'.weightOf l u k - nn.weightOf l u k = -bp.eta * D := by
  obtain ⟨n1, σ, hn1, ⟨h1, hnl1, hd1, _, hw1⟩, _, _, _, hcomp, hinv⟩ :=
    BackPropagation.compute_trace Real.exp bp nn inputs desired t0
      hm h0 hL hin hdes hbt ht0
  refine ⟨_, _, hcomp, ?_⟩
  intro l0 u0 k0 a ha hk
  -- the forward state in terms of `forward`
  obtain ⟨m, hmc, _, hfw, _⟩ := NeuralNetwork.error_forward Real.exp nn inputs
    desired h0 (by omega) hne hin
  have hmn : m = n1 := by
    rw [hmc] at hn1
    injection hn1
  subst hmn
  have hdim1 : ∀ l, m.dimOf l = nn.dimOf l := by
    intro l; unfold NeuralNetwork.dimOf; rw [hd1]
  -- the weight
  obtain ⟨⟨⟨w1, w2, w3⟩, _⟩, wa0, wa1⟩ := NeuralNetwork.wf_unit nn h0 l0 u0 a ha
  obtain ⟨d0, hd0, hud0⟩ := NeuralNetwork.unit?_dims nn l0 u0 a ha
  have hl0 : l0 < nn.nlayers := by
    have := (List.getElem?_eq_some_iff.1 hd0).1
    rw [NeuralNetwork.dims_length, h0.1] at this
    exact this
  have hdimu : nn.dimOf l0 = d0 := NeuralNetwork.dimOf_eq nn l0 d0 hd0
  obtain ⟨b, hb⟩ := NeuralNetwork.dims_unit? m l0 u0 d0
    (by rw [hd1]; exact hd0) hud0
  obtain ⟨b1, b2, b3, b4⟩ := hfw l0 u0 b hb
  have har : a.numberOfInputs = nn.arityOf l0 := by
    cases l0 with
    | zero => exact wa0 rfl
    | succ l' =>
      show a.numberOfInputs = nn.dimOf l'
      rw [NeuralNetwork.dimOf_eq nn l' _ (wa1 l' rfl)]
  have hk0 : k0 ≤ nn.arityOf l0 := by omega
  -- the change applied to the weight
  have hfin := (hinv (nn.nlayers - 1) (by omega)).1
  obtain ⟨_, _, _, _, _, tb, _, _, hunits⟩ := hfin
  obtain ⟨a', ha', _, hdone, _⟩ := hunits l0 u0 b hb
  have hchg := (hdone (by omega)).1 k0 (by rw [b1]; exact hk0)
  rw [hlam, half, deltaChain_plain] at hchg
  have hchange : (σ (nn.nlayers - 1)).nn.weightOf l0 u0 k0 -
      nn.weightOf l0 u0 k0 =
      bp.eta * gradient m desired (nn.nlayers - 1 - l0) l0 u0 *
        b.inputs.getD k0 0 := by
    rw [NeuralNetwork.weightOf_eq _ l0 u0 k0 a' ha', ← hw1,
      NeuralNetwork.weightOf_eq m l0 u0 k0 b hb, hchg]
    ring
  -- the line of weights and its derivative
  have hWd : ∀ l u k, HasDerivAt
      (fun v => nn.weightsWith l0 u0 k0 v l u k)
      (if l = l0 ∧ u = u0 ∧ k = k0 then (1 : ℝ) else 0)
      (nn.weightOf l0 u0 k0) := by
    intro l u k
    unfold NeuralNetwork.weightsWith
    by_cases hc : l = l0 ∧ u = u0 ∧ k = k0
    · simp only [hc, and_self, if_true]
      exact hasDerivAt_id _
    · simp only [hc, if_false]
      exact hasDerivAt_const _ _
  have hW0 : nn.weightsWith l0 u0 k0 (nn.weightOf l0 u0 k0) = nn.weightOf := by
    funext l u k
    unfold NeuralNetwork.weightsWith
    by_cases hc : l = l0 ∧ u = u0 ∧ k = k0
    · obtain ⟨rfl, rfl, rfl⟩ := hc
      simp
    · rw [if_neg hc]
  have hM : nn.nlayers = nn.nlayers - 1 + 1 := by omega
  have hsens := forward_hasDerivAt (fun v => nn.weightsWith l0 u0 k0 v)
    (fun l u k => if l = l0 ∧ u = u0 ∧ k = k0 then (1 : ℝ) else 0)
    nn.arityOf (fun k => inputs.getD k 0) (nn.weightOf l0 u0 k0) hWd
    nn.nlayers
  have hE := error_hasDerivAt
    (fun j v => forward Real.exp (nn.weightsWith l0 u0 k0 v) nn.arityOf
      (fun k => inputs.getD k 0) nn.nlayers j) _
    (fun j => desired.getD j 0) (nn.arityOf nn.nlayers)
    (nn.weightOf l0 u0 k0) hsens
  simp only [hW0] at hE
  -- back-propagation computes that derivative
  have hid := backprop_identity nn.weightOf
    (fun l u k => if l = l0 ∧ u = u0 ∧ k = k0 then (1 : ℝ) else 0)
    nn.arityOf
    (forward Real.exp nn.weightOf nn.arityOf (fun k => inputs.getD k 0))
    (fun j => desired.getD j 0) (nn.nlayers - 1)
    (fun l u => gradient m desired (nn.nlayers - 1 - l) l u)
    (by
      intro j hj
      have hj' : j < nn.dimOf (nn.nlayers - 1) := hj
      obtain ⟨dl, hdl⟩ := NeuralNetwork.dims_at m h1.1 (nn.nlayers - 1)
        (by omega)
      have hdd : nn.dimOf (nn.nlayers - 1) = dl := by
        rw [← hdim1]; exact NeuralNetwork.dimOf_eq m _ dl hdl
      obtain ⟨c, hc⟩ := NeuralNetwork.dims_unit? m (nn.nlayers - 1) j dl hdl
        (by omega)
      show gradient m desired (nn.nlayers - 1 - (nn.nlayers - 1))
        (nn.nlayers - 1) j = _
      rw [Nat.sub_self]
      simp only [gradient, NeuralNetwork.outputOf_eq m _ j c hc,
        (hfw _ j c hc).2.2.2])
    (by
      intro l u hl hu
      have hu' : u < nn.dimOf l := hu
      obtain ⟨dl, hdl⟩ := NeuralNetwork.dims_at m h1.1 l (by omega)
      have hdd : nn.dimOf l = dl := by
        rw [← hdim1]; exact NeuralNetwork.dimOf_eq m _ dl hdl
      obtain ⟨c, hc⟩ := NeuralNetwork.dims_unit? m l u dl hdl (by omega)
      have hf : nn.nlayers - 1 - l = (nn.nlayers - 1 - (l + 1)) + 1 := by
        omega
      show gradient m desired (nn.nlayers - 1 - l) l u = _
      rw [hf]
      simp only [gradient, NeuralNetwork.outputOf_eq m _ u c hc,
        (hfw _ u c hc).2.2.2, hdim1]
      congr 2
      exact Finset.sum_congr rfl (fun j _ => by rw [hw1]))
  beta_reduce at hid
  have hcol : ∑ l in Finset.range (nn.nlayers - 1 + 1),
      ∑ u in Finset.range (nn.arityOf (l + 1)),
        gradient m desired (nn.nlayers - 1 - l) l u *
          ((if l = l0 ∧ u = u0 ∧ 0 = k0 then (1 : ℝ) else 0) +
            ∑ k in Finset.range (nn.arityOf l),
              (if l = l0 ∧ u = u0 ∧ k + 1 = k0 then (1 : ℝ) else 0) *
                forward Real.exp nn.weightOf nn.arityOf
                  (fun k => inputs.getD k 0) l k) =
      gradient m desired (nn.nlayers - 1 - l0) l0 u0 *
        b.inputs.getD k0 0 := by
    have hval : (if k0 = 0 then (1 : ℝ)
        else forward Real.exp nn.weightOf nn.arityOf
            (fun k => inputs.getD k 0) l0 (k0 - 1)) = b.inputs.getD k0 0 := by
      by_cases hz : k0 = 0
      · rw [if_pos hz, hz]
        exact b2.symm
      · rw [if_neg hz]
        have hs : k0 = (k0 - 1) + 1 := by omega
        rw [hs, Nat.add_sub_cancel]
        exact (b3 (k0 - 1) (by omega)).symm
    rw [← hval]
    have hone := sum_single_unit
      (fun l u => gradient m desired (nn.nlayers - 1 - l) l u) nn.arityOf
      (nn.nlayers - 1) l0 u0
      (if k0 = 0 then (1 : ℝ)
        else forward Real.exp nn.weightOf nn.arityOf
            (fun k => inputs.getD k 0) l0 (k0 - 1)) (by omega)
      (by show u0 < nn.dimOf l0; omega)
    beta_reduce at hone
    rw [← hone]
    apply Finset.sum_congr rfl
    intro l _
    apply Finset.sum_congr rfl
    intro u _
    rw [direct_effect _ nn.arityOf l0 u0 k0 hk0 l u]
  rw [hcol, ← hM] at hid
  -- the error as the code computes it
  refine ⟨fun v => (∑ j in Finset.range (nn.arityOf nn.nlayers),
      (desired.getD j 0 - forward Real.exp (nn.weightsWith l0 u0 k0 v)
        nn.arityOf (fun k => inputs.getD k 0) nn.nlayers j) ^ 2) / 2, _,
    fun v => ?_, hE, ?_⟩
  · obtain ⟨nv, hnv, hwfv, hnev, e1, e2, e3, e4⟩ :=
      NeuralNetwork.setWeight_facts nn l0 u0 k0 v a h0 hne ha hk
    obtain ⟨mv, hmv, _, _, herr⟩ := NeuralNetwork.error_forward Real.exp nv
      inputs desired hwfv (by omega) hnev (by rw [e2]; exact hin)
    have hWv : nv.weightOf = nn.weightsWith l0 u0 k0 v := by
      funext l u k
      exact e4 l u k
    have hdimv : ∀ l, nv.dimOf l = nn.dimOf l := by
      intro l; unfold NeuralNetwork.dimOf; rw [e3]
    have hAv : nv.arityOf = nn.arityOf := by
      funext l
      cases l with
      | zero => exact e2
      | succ l => exact hdimv l
    rw [hWv, hAv, e1] at herr
    exact ⟨nv, mv, hnv, hmv, herr.symm⟩
  · rw [hchange, hid]
    ring

/-- Witness of C34: a network of two inputs, one hidden unit and one output
unit, the inputs `1, 2`, the target `1` and the learning rate `1`. -/
theorem C34_gradient_descent_witness :
    ∃ bp' nn', BackPropagation.compute Real.exp
        (⟨true, 1, 0, 0, some [[0], [0]]⟩ : BackPropagation ℝ)
        ⟨2, 2, [0, 0], [[⟨2, 3, [1, 0, 0], [1, 2, 3], 0⟩],
          [⟨1, 2, [1, 0], [1, 1], 0⟩]], [0]⟩ [1, 2] [1] = .ok (bp', nn') ∧
      ∀ l u k a,
        (⟨2, 2, [0, 0], [[⟨2, 3, [1, 0, 0], [1, 2, 3], 0⟩],
          [⟨1, 2, [1, 0], [1, 1], 0⟩]], [0]⟩ : NeuralNetwork ℝ).unit? l u =
          some a → k < a.numberOfWeights →
        ∃ (E : ℝ → ℝ) (D : ℝ),
          (∀ v, ∃ nv mv,
            (⟨2, 2, [0, 0], [[⟨2, 3, [1, 0, 0], [1, 2, 3], 0⟩],
              [⟨1, 2, [1, 0], [1, 1], 0⟩]], [0]⟩ :
                NeuralNetwork ℝ).setWeight l u k v = .ok nv ∧
            (nv.setInputs [1, 2]).compute Real.exp = .ok mv ∧
            E v = squaredError mv.getOutputs [1]) ∧
          HasDerivAt E D
            ((⟨2, 2, [0, 0], [[⟨2, 3, [1, 0, 0], [1, 2, 3], 0⟩],
              [⟨1, 2, [1, 0], [1, 1], 0⟩]], [0]⟩ :
                NeuralNetwork ℝ).weightOf l u k) ∧
          nn'.weightOf l u k -
            (⟨2, 2, [0, 0], [[⟨2, 3, [1, 0, 0], [1, 2, 3], 0⟩],
              [⟨1, 2, [1, 0], [1, 1], 0⟩]], [0]⟩ :
                NeuralNetwork ℝ).weightOf l u k = -(1 : ℝ) * D :=
  C34_gradient_descent ⟨true, 1, 0, 0, some [[0], [0]]⟩
    ⟨2, 2, [0, 0], [[⟨2, 3, [1, 0, 0], [1, 2, 3], 0⟩],
      [⟨1, 2, [1, 0], [1, 1], 0⟩]], [0]⟩ [1, 2] [1] [[0], [0]] rfl
    (by
      refine ⟨rfl, rfl, ?_, rfl⟩
      simp [layersWF, Unit.WF, Unit.Sized])
    (by decide) (by simp) rfl rfl rfl rfl rfl rfl

/-! ## C11: the error-change criterion in a run of start -/

section ErrorChangeRun

variable {R : Type} [LinearOrderedField R]

theorem Trainer.trainingStep_criterion (exp : R → R) (t t' : Trainer R)
    (i : Nat) (h : Trainer.trainingStep exp t i = .ok t') :
    t'.criterion = t.criterion := by
  unfold Trainer.trainingStep at h
  simp only [bind, Except.bind, pure, Except.pure] at h
  repeat' split at h
  all_goals cases h <;> rfl

theorem Trainer.validationStep_criterion (exp : R → R) (t t' : Trainer R)
    (i : Nat) (h : Trainer.validationStep exp t i = .ok t') :
    t'.criterion = t.criterion := by
  unfold Trainer.validationStep at h
  simp only [bind, Except.bind, pure, Except.pure] at h
  repeat' split at h
  all_goals cases h <;> rfl

theorem Trainer.training_criterion (exp : R → R) (t t' : Trainer R)
    (h : Trainer.training exp t = .ok t') :
    t'.criterion = t.criterion := by
  unfold Trainer.training at h
  simp only [bind, Except.bind, pure, Except.pure] at h
  split at h
  · cases h
  · rename_i s hs
    cases h
    exact foldlM_preserves (Trainer.trainingStep exp)
      (fun s => s.criterion = t.criterion)
      (fun a i b hab ha =>
        (Trainer.trainingStep_criterion exp a b i hab).trans ha)
      _ _ s hs rfl

theorem Trainer.validation_criterion (exp : R → R) (t t' : Trainer R)
    (h : Trainer.validation exp t = .ok t') :
    t'.criterion = t.criterion := by
  unfold Trainer.validation at h
  simp only [bind, Except.bind, pure, Except.pure] at h
  split at h
  · cases h
  · split at h
    · cases h
      rfl
    · split at h
      · cases h
      · rename_i s hs
        cases h
        exact foldlM_preserves (Trainer.validationStep exp)
          (fun s => s.criterion = t.criterion)
          (fun a i b hab ha =>
            (Trainer.validationStep_criterion exp a b i hab).trans ha)
          _ _ s hs rfl

theorem Trainer.updateTrainingVariables_criterion (t : Trainer R) :
    (Trainer.updateTrainingVariables t).criterion = t.criterion := by
  unfold Trainer.updateTrainingVariables
  simp only []
  repeat' split
  all_goals rfl

/-- The body of an epoch leaves the state of the error-change criterion as
it was. -/
theorem Trainer.epochBody_criterion (exp : R → R) (t t1 : Trainer R)
    (w w1 : World R) (h : Trainer.epochBody exp t w = .ok (t1, w1)) :
    t1.criterion = t.criterion := by
  unfold Trainer.epochBody at h
  simp only [bind, Except.bind, pure, Except.pure] at h
  repeat' split at h
  all_goals cases h
  all_goals
    rename_i _ v1 htr _ v2 hva _ _
    have a := Trainer.training_criterion exp _ v1 htr
    have b := Trainer.validation_criterion exp v1 v2 hva
    have c := Trainer.updateTrainingVariables_criterion v2
    exact c.trans (b.trans a)

/-- The answer of `checkStopErrorChange` and the state it leaves depend on
the state of the criterion only. -/
theorem Trainer.checkStopErrorChange_congr (t t' : Trainer R) (e : R)
    (h : t.criterion = t'.criterion) :
    (Trainer.checkStopErrorChange t e).1 =
        (Trainer.checkStopErrorChange t' e).1 ∧
      (Trainer.checkStopErrorChange t e).2.criterion =
        (Trainer.checkStopErrorChange t' e).2.criterion := by
  cases t
  cases t'
  simp only [Trainer.criterion, Prod.mk.injEq] at h
  obtain ⟨h1, h2, h3, h4⟩ := h
  subst h1 h2 h3 h4
  unfold Trainer.checkStopErrorChange Trainer.criterion
  simp only []
  repeat' split
  all_goals exact ⟨rfl, rfl⟩

/-- When the tests that precede it are false, `checkStop` is the evaluation
of the error-change criterion on `trerr`. -/
theorem Trainer.checkStop_reaches (t : Trainer R) (e : R)
    (hr : t.reachesErrorChange) (he : t.trerr = some e) :
    Trainer.checkStop t = Trainer.checkStopErrorChange t e := by
  obtain ⟨a1, a2, a3, a4, a5, a6, a7, a8⟩ := hr
  unfold Trainer.checkStop
  rw [a1, a2, a3, a4, a5, a6, a7, a8]
  simp only [Bool.or_self, Bool.false_eq_true, if_false, he]

/-- When one of the tests that precede it holds, `checkStop` answers "stop"
without evaluating the error-change criterion. -/
theorem Trainer.checkStop_early (t : Trainer R)
    (hr : ¬ t.reachesErrorChange) : Trainer.checkStop t = (true, t) := by
  unfold Trainer.checkStop
  by_cases a1 : t.trerr.nonFinite = true
  · simp only [a1, if_true]
  simp only [a1, Bool.false_eq_true, if_false]
  by_cases a2 : t.vaerr.nonFinite = true
  · simp only [a2, if_true]
  simp only [a2, Bool.false_eq_true, if_false]
  by_cases a3 : (t.trerr.test (fun v => v < 0) || t.vaerr.test (fun v => v < 0) ||
      t.tracc.test (fun v => v < 0) || t.vaacc.test (fun v => v < 0)) = true
  · simp only [a3, if_true]
  simp only [a3, Bool.false_eq_true, if_false]
  by_cases a7 : t.trerr.test (fun v => v ≤ t.stoperr) = true
  · simp only [a7, if_true]
  simp only [a7, Bool.false_eq_true, if_false]
  by_cases a8 : t.tracc.test (fun v => v ≥ t.stopacc) = true
  · simp only [a8, if_true]
  exfalso
  apply hr
  simp only [Bool.or_eq_true, not_or, Bool.not_eq_true] at a1 a2 a3 a7 a8
  exact ⟨a1, a2, a3.1.1.1, a3.1.1.2, a3.1.2, a3.2, a7, a8⟩

theorem getD_map_range (x : Nat → R) (n k : Nat) (hk : k < n) :
    ((List.range n).map x).getD k 0 = x k := by
  simp [List.getD_eq_getElem?_getD, List.getElem?_map, List.getElem?_range hk]

/-- Along a run entered with previous error `0` and counter `0`, in which
`checkStop` evaluates the error-change criterion at the end of each of the
epochs `0..E`, on the positive training errors `x 0, ..., x E`: the state of
the criterion at the end of the body of epoch `k` is the one that the
evaluations on `x 0, ..., x (k-1)` leave. -/
theorem Trainer.run_criterion (exp : R → R) (t0 : Trainer R) (w : World R)
    (E : Nat) (s : Nat → Trainer R) (ws : Nat → World R) (x : Nat → R)
    (hn : 0 < t0.stoperrch_ep) (hp : t0.prevtrerr = 0)
    (hc : t0.stoperrch_n = 0)
    (hs : ∀ k, k ≤ E → Trainer.epochEnd exp k t0 w = .ok (s k, ws k))
    (hr : ∀ k, k ≤ E → (s k).reachesErrorChange ∧
      (s k).trerr = some (x k) ∧ 0 < x k) :
    ∀ k, k ≤ E → (s k).criterion =
      (Trainer.errorChangeAfter t0
        (((List.range (E + 1)).map x).take k)).criterion
  | 0, _ => by
    have h0 : Trainer.epochBody exp t0 w = .ok (s 0, ws 0) := hs 0 (by omega)
    rw [Trainer.epochBody_criterion exp t0 (s 0) w (ws 0) h0]
    rfl
  | k + 1, hk => by
    have ih := Trainer.run_criterion exp t0 w E s ws x hn hp hc hs hr k
      (by omega)
    have h1 := hs (k + 1) hk
    rw [Trainer.epochEnd_succ, hs k (by omega)] at h1
    have hb : Trainer.epochBody exp (Trainer.nextEpoch (s k)) (ws k) =
        .ok (s (k + 1), ws (k + 1)) := h1
    obtain ⟨r1, r2, r3⟩ := hr k (by omega)
    have hx : ∀ y ∈ (List.range (E + 1)).map x, 0 < y := by
      intro y hy
      obtain ⟨i, hi, rfl⟩ := List.mem_map.1 hy
      exact (hr i (by have := List.mem_range.1 hi; omega)).2.2
    have hlen : k < ((List.range (E + 1)).map x).length := by
      simp only [List.length_map, List.length_range]
      omega
    obtain ⟨_, hstep⟩ := Trainer.errorChange_window t0 hn hp hc
      ((List.range (E + 1)).map x) hx k hlen
    rw [getD_map_range x (E + 1) k (by omega)] at hstep
    rw [Trainer.epochBody_criterion exp _ (s (k + 1)) (ws k) (ws (k + 1)) hb,
      hstep]
    have e1 : (Trainer.nextEpoch (s k)).criterion =
        (Trainer.checkStop (s k)).2.criterion := rfl
    rw [e1, Trainer.checkStop_reaches (s k) (x k) r1 r2]
    exact (Trainer.checkStopErrorChange_congr _ _ (x k) ih).2

/-- Along such a run the answer of `checkStop` at the end of epoch `k` is
"stop" iff epoch `k` completes the window of small changes. -/
theorem Trainer.run_window (exp : R → R) (t0 : Trainer R) (w : World R)
    (E : Nat) (s : Nat → Trainer R) (ws : Nat → World R) (x : Nat → R)
    (hn : 0 < t0.stoperrch_ep) (hp : t0.prevtrerr = 0)
    (hc : t0.stoperrch_n = 0)
    (hs : ∀ k, k ≤ E → Trainer.epochEnd exp k t0 w = .ok (s k, ws k))
    (hr : ∀ k, k ≤ E → (s k).reachesErrorChange ∧
      (s k).trerr = some (x k) ∧ 0 < x k)
    (k : Nat) (hk : k ≤ E) :
    (Trainer.checkStop (s k)).1 = true ↔
      windowComplete t0.stoperrch_ep t0.stoperrch_var
        ((List.range (E + 1)).map x) k := by
  obtain ⟨r1, r2, r3⟩ := hr k hk
  have hx : ∀ y ∈ (List.range (E + 1)).map x, 0 < y := by
    intro y hy
    obtain ⟨i, hi, rfl⟩ := List.mem_map.1 hy
    exact (hr i (by have := List.mem_range.1 hi; omega)).2.2
  have hlen : k < ((List.range (E + 1)).map x).length := by
    simp only [List.length_map, List.length_range]
    omega
  obtain ⟨hwin, _⟩ := Trainer.errorChange_window t0 hn hp hc
    ((List.range (E + 1)).map x) hx k hlen
  rw [getD_map_range x (E + 1) k (by omega)] at hwin
  have hcr := Trainer.run_criterion exp t0 w E s ws x hn hp hc hs hr k hk
  rw [Trainer.checkStop_reaches (s k) (x k) r1 r2,
    (Trainer.checkStopErrorChange_congr _ _ (x k) hcr).1]
  exact hwin

end ErrorChangeRun

/-- C11: the error-change criterion, for a trainer `t` with a window of
`n > 0` epochs and percentage `p`, and a trainer `t0` with window `0`.
(1) `resetTrainingVariables` starts a run with previous error `0` and counter
`0` and keeps `n` and `p`.  (2) An evaluation on a training error `e > 0`
increments the counter if `|e - previous| / e <= p/100` and resets it to `0`
otherwise, then stores `e` as the previous error, and answers "stop" iff the
counter has reached `n`.  (3) Hence, on positive training errors `xs`
evaluated from previous error `0` and counter `0`, the evaluation at epoch
`k` answers "stop" iff the epochs `k-n+1 .. k` exist and all show a small
change.  (4) With window `0` the criterion answers "go on" and changes
nothing.  (5) In the loop of `start`, at the end of the body of an epoch that
leaves a trainer `s` for which the tests of `checkStop` before the criterion
are false, `checkStop` is the evaluation of the criterion on `trerr`: if it
answers "stop" the loop ends there, the epoch being the last one executed,
and if it answers "go on" the loop goes on to the test for the next epoch;
when one of the earlier tests holds, `checkStop` answers "stop" and the
criterion is not evaluated.  (6) In a call of `start` on `t` whose epochs
`0..E` complete with positive training errors `x 0, ..., x E` and the
criterion evaluated at each of them, `E` being within the bound on the
epochs: `checkStop` answers "stop" at epoch `k` iff epoch `k` completes `n`
consecutive small changes; if `E` is the first such epoch, `start` returns
having executed exactly the epochs `0..E`; and if no epoch up to `E` is one,
`start` goes on to the test of its loop for epoch `E+1`. -/
theorem C11_error_change {R : Type} [LinearOrderedField R]
    (t t0 : Trainer R) (hn : 0 < t.stoperrch_ep) (h0 : t0.stoperrch_ep = 0) :
    ((Trainer.resetTrainingVariables t).prevtrerr = 0 ∧
      (Trainer.resetTrainingVariables t).stoperrch_n = 0 ∧
      (Trainer.resetTrainingVariables t).stoperrch_ep = t.stoperrch_ep ∧
      (Trainer.resetTrainingVariables t).stoperrch_var = t.stoperrch_var) ∧
    (∀ e : R, 0 < e →
      Trainer.checkStopErrorChange t e =
        (decide (t.stoperrch_ep ≤
            (if |e - t.prevtrerr| / e ≤ t.stoperrch_var / 100 then
              t.stoperrch_n + 1 else 0)),
          { t with
            stoperrch_n :=
              (if |e - t.prevtrerr| / e ≤ t.stoperrch_var / 100 then
                t.stoperrch_n + 1 else 0),
            prevtrerr := e })) ∧
    (t.prevtrerr = 0 → t.stoperrch_n = 0 →
      ∀ xs : List R, (∀ x ∈ xs, 0 < x) → ∀ k, k < xs.length →
        ((Trainer.checkStopErrorChange
            (Trainer.errorChangeAfter t (xs.take k)) (xs.getD k 0)).1 = true ↔
          t.stoperrch_ep ≤ k + 1 ∧
          ∀ j, j < t.stoperrch_ep →
            smallChangeAt t.stoperrch_var xs (k - j))) ∧
    (∀ e : R, Trainer.checkStopErrorChange t0 e = (false, t0)) ∧
    (∀ (exp : R → R) (fuel : Nat) (tb s : Trainer R) (w w1 : World R)
        (ran : List Nat),
      tb.loopCond → Trainer.epochBody exp tb w = .ok (s, w1) →
      (∀ e : R, s.reachesErrorChange → s.trerr = some e →
        Trainer.checkStop s = Trainer.checkStopErrorChange s e ∧
        ((Trainer.checkStopErrorChange s e).1 = true →
          Trainer.startLoop exp (fuel + 1) tb w ran =
            .ok (some ⟨(Trainer.checkStopErrorChange s e).2, w1,
              ran ++ [tb.epochs]⟩)) ∧
        ((Trainer.checkStopErrorChange s e).1 = false →
          Trainer.startLoop exp (fuel + 1) tb w ran =
            Trainer.startLoop exp fuel
              { (Trainer.checkStopErrorChange s e).2 with
                epochs := tb.epochs + 1 } w1 (ran ++ [tb.epochs]))) ∧
      (¬ s.reachesErrorChange →
        Trainer.checkStop s = (true, s) ∧
        Trainer.startLoop exp (fuel + 1) tb w ran =
          .ok (some ⟨s, w1, ran ++ [tb.epochs]⟩))) ∧
    (∀ (exp : R → R) (fuel : Nat) (w : World R) (alg alg' : BackPropagation R)
        (E : Nat) (s : Nat → Trainer R) (ws : Nat → World R) (x : Nat → R),
      t.algorithm = some alg → alg.setModel (some t.model) = .ok alg' →
      (∀ k, k ≤ E →
        Trainer.epochEnd exp k (t.entered alg') w = .ok (s k, ws k)) →
      (∀ k, k ≤ E → (s k).reachesErrorChange ∧ (s k).trerr = some (x k) ∧
        0 < x k) →
      (E < t.maxepochs ∨ t.maxepochs = 0) →
      (∀ k, k ≤ E → ((Trainer.checkStop (s k)).1 = true ↔
        windowComplete t.stoperrch_ep t.stoperrch_var
          ((List.range (E + 1)).map x) k)) ∧
      (windowComplete t.stoperrch_ep t.stoperrch_var
          ((List.range (E + 1)).map x) E →
        (∀ k, k < E → ¬ windowComplete t.stoperrch_ep t.stoperrch_var
          ((List.range (E + 1)).map x) k) →
        Trainer.start exp (fuel + E + 1) t w =
          .ok (some ⟨(Trainer.checkStop (s E)).2, ws E,
            List.range (E + 1)⟩)) ∧
      ((∀ k, k ≤ E → ¬ windowComplete t.stoperrch_ep t.stoperrch_var
          ((List.range (E + 1)).map x) k) →
        Trainer.start exp (fuel + E + 1) t w =
          Trainer.startLoop exp fuel (Trainer.nextEpoch (s E)) (ws E)
            (List.range (E + 1)))) := by
  refine ⟨⟨rfl, rfl, rfl, rfl⟩,
    fun e he => Trainer.checkStopErrorChange_pos t e hn he,
    fun hp hc xs hx k hk =>
      (Trainer.errorChange_window t hn hp hc xs hx k hk).1,
    fun e => ?_, ?_, ?_⟩
  · unfold Trainer.checkStopErrorChange
    rw [if_pos h0]
  · intro exp fuel tb s w w1 ran hcond hbody
    obtain ⟨hep, _⟩ := Trainer.epochBody_counters exp tb s w w1 hbody
    refine ⟨fun e hr he => ?_, fun hr => ?_⟩
    · have hcs := Trainer.checkStop_reaches s e hr he
      refine ⟨hcs, fun hstop => ?_, fun hgo => ?_⟩
      · rw [Trainer.startLoop_break exp fuel tb s w w1 ran hcond hbody
          (by rw [hcs]; exact hstop), hcs]
      · rw [Trainer.startLoop_go exp fuel tb s w w1 ran hcond hbody
          (by rw [hcs]; exact hgo)]
        have hne : Trainer.nextEpoch s =
            { (Trainer.checkStopErrorChange s e).2 with
              epochs := tb.epochs + 1 } := by
          unfold Trainer.nextEpoch
          have h1 := (Trainer.checkStop_counters s).1
          rw [h1, hep, hcs]
        rw [hne]
    · have hcs := Trainer.checkStop_early s hr
      refine ⟨hcs, ?_⟩
      rw [Trainer.startLoop_break exp fuel tb s w w1 ran hcond hbody
        (by rw [hcs]), hcs]
  · intro exp fuel w alg alg' E s ws x halg hset hs hr hmax
    have hn' : 0 < (t.entered alg').stoperrch_ep := hn
    have hp' : (t.entered alg').prevtrerr = 0 := rfl
    have hc' : (t.entered alg').stoperrch_n = 0 := rfl
    have he0 : (t.entered alg').epochs = 0 := rfl
    have hmx : (t.entered alg').maxepochs = t.maxepochs := rfl
    have hwin : ∀ k, k ≤ E → ((Trainer.checkStop (s k)).1 = true ↔
        windowComplete t.stoperrch_ep t.stoperrch_var
          ((List.range (E + 1)).map x) k) := fun k hk =>
      Trainer.run_window exp (t.entered alg') w E s ws x hn' hp' hc' hs hr k hk
    have hrun : (∀ k, k < E → ¬ windowComplete t.stoperrch_ep t.stoperrch_var
          ((List.range (E + 1)).map x) k) →
        Trainer.start exp (fuel + E + 1) t w =
          if (Trainer.checkStop (s E)).1 then
            .ok (some ⟨(Trainer.checkStop (s E)).2, ws E, List.range (E + 1)⟩)
          else Trainer.startLoop exp fuel (Trainer.nextEpoch (s E)) (ws E)
            (List.range (E + 1)) := by
      intro hno
      have h := Trainer.startLoop_run exp fuel E (t.entered alg') (s E) w
        (ws E) [] (hs E (le_refl _))
        (fun k sk wk hk hek => by
          rw [hs k (by omega)] at hek
          injection hek with hek
          injection hek with e1 e2
          rw [← e1]
          cases hb : (Trainer.checkStop (s k)).1 with
          | false => rfl
          | true => exact absurd ((hwin k (by omega)).1 hb) (hno k hk))
        (by rw [he0, hmx]; rcases hmax with h | h
            · left; omega
            · right; exact h)
      rw [he0, range_map_zero_add, List.nil_append] at h
      rw [Trainer.start_loop exp _ t w alg alg' halg hset, h]
    refine ⟨hwin, fun hE hno => ?_, fun hno => ?_⟩
    · rw [hrun hno, if_pos ((hwin E (le_refl _)).2 hE)]
    · rw [hrun (fun k hk => hno k (by omega))]
      have : (Trainer.checkStop (s E)).1 = false := by
        cases hb : (Trainer.checkStop (s E)).1 with
        | false => rfl
        | true => exact absurd ((hwin E (le_refl _)).1 hb) (hno E (le_refl _))
      rw [this]
      simp only [Bool.false_eq_true, if_false]

set_option maxRecDepth 100000 in
/-- Witness of C11: (a) the window `3` and the percentage `1/10` on the
sample trainer, with the training errors `1, 1, 1, 1`: the first epoch
changes the error by `100%`, the next three by `0%`, and the criterion
answers "stop" at epoch `3`, not before; (b) with window `0` the criterion
answers "go on"; (c) a call of `start` on the sample trainer with thresholds
that are not reached, the window `1` and the percentage `100`: epoch `0` ends
with `trerr = 2/9`, a change of `100%` from the previous error `0`, and the
run stops there, having executed epoch `0` only. -/
theorem C11_error_change_witness :
    (∀ k, k < 4 →
      ((Trainer.checkStopErrorChange
          (Trainer.errorChangeAfter
            { sampleTrainer 1 1 0 with
              stoperrch_var := 1 / 10, stoperrch_ep := 3 }
            ([1, 1, 1, 1].take k)) ([1, 1, 1, 1].getD k 0)).1 = true ↔
        3 ≤ k + 1 ∧ ∀ j, j < 3 →
          smallChangeAt (1 / 10 : ℚ) [1, 1, 1, 1] (k - j))) ∧
    (∀ e : ℚ, Trainer.checkStopErrorChange (sampleTrainer 1 1 0) e =
      (false, sampleTrainer 1 1 0)) ∧
    (∃ r, Trainer.start sampleExp 1
        { sampleTrainer (1 / 10) 2 0 with
          stoperrch_var := 100, stoperrch_ep := 1 } sampleWorld =
        .ok (some r) ∧ r.ran = [0]) := by
  refine ⟨fun k hk => (C11_error_change
      { sampleTrainer 1 1 0 with stoperrch_var := 1 / 10, stoperrch_ep := 3 }
      (sampleTrainer 1 1 0) (by decide) rfl).2.2.1 rfl rfl [1, 1, 1, 1]
      (by simp) k hk,
    (C11_error_change
      { sampleTrainer 1 1 0 with stoperrch_var := 1 / 10, stoperrch_ep := 3 }
      (sampleTrainer 1 1 0) (by decide) rfl).2.2.2.1, ?_⟩
  obtain ⟨t1, w1, hb, h1, h2, h3, h4, h5, h6⟩ : ∃ t1 w1,
      Trainer.epochEnd sampleExp 0
        (Trainer.entered { sampleTrainer (1 / 10) 2 0 with
          stoperrch_var := 100, stoperrch_ep := 1 } (sampleBP [[0, 0], [0]]))
        sampleWorld = .ok (t1, w1) ∧
      t1.trerr = some (2 / 9) ∧ t1.vaerr = some (1 / 18) ∧
      t1.tracc = some 0 ∧ t1.vaacc = some 1 ∧ t1.stoperr = 1 / 10 ∧
      t1.stopacc = 2 :=
    ⟨_, _, by with_unfolding_all rfl, by with_unfolding_all rfl,
      by with_unfolding_all rfl, by with_unfolding_all rfl,
      by with_unfolding_all rfl, by with_unfolding_all rfl,
      by with_unfolding_all rfl⟩
  have hreach : t1.reachesErrorChange := by
    unfold Trainer.reachesErrorChange
    rw [h1, h2, h3, h4, h5, h6]
    simp only [Metric.nonFinite, Metric.test, Option.isNone_some]
    norm_num
  have hwin : windowComplete 1 (100 : ℚ)
      ((List.range (0 + 1)).map (fun _ => (2 / 9 : ℚ))) 0 := by
    refine ⟨by omega, fun j hj => ?_⟩
    have : j = 0 := by omega
    subst this
    unfold smallChangeAt
    norm_num
    rw [abs_of_pos (by norm_num : (0 : ℚ) < 2 / 9)]
    norm_num
  have h := (C11_error_change
      { sampleTrainer (1 / 10) 2 0 with
        stoperrch_var := 100, stoperrch_ep := 1 }
      (sampleTrainer 1 1 0) (by decide) rfl).2.2.2.2.2 sampleExp 0 sampleWorld
      (sampleBP [[0, 0], [0]]) (sampleBP [[0, 0], [0]]) 0 (fun _ => t1)
      (fun _ => w1) (fun _ => 2 / 9) rfl (by with_unfolding_all rfl)
      (fun k hk => by
        have : k = 0 := by omega
        subst this
        exact hb)
      (fun k _ => ⟨hreach, h1, by norm_num⟩) (Or.inr rfl)
  exact ⟨_, h.2.1 hwin (fun k hk => by omega), rfl⟩

/-! ## C8: the range of the outputs -/

section OutputRange

variable {R : Type} [LinearOrderedField R]

end OutputRange

section DoublePrecision

end DoublePrecision

end NN
